import Mathlib

/-!
# Perseus: the event-driven engine, embedded and checked

A shallow embedding of the queue, sorted-queue, axon-encoding, driver, neuron,
synapse and command code of the Perseus spiking-network simulator, with the
properties its specification states about them.

Conventions of the embedding.
* C integers are mathematical integers; where the source relies on 32-bit
  wrap-around (the unsigned `indexn`), the operation is written with an explicit
  `% 2 ^ 32`.
* Memory is an unbounded map from byte offsets (or node addresses) to contents:
  `malloc` and `realloc` always succeed, and fresh memory holds arbitrary data.
  The nodes of the sorted queue are allocated by an allocator carried in the
  state; that it returns a fresh address that is not null is a hypothesis of the
  theorems that need it.
* `double` and `float` are an arbitrary linearly ordered ring (a field where the
  source divides) with a floor, and the casts between them are the identity;
  concrete runs are evaluated on whole-number or rational times.  The functions
  `exp`, `log` and `sin` of math.h are parameters or drawn values; where a
  statement needs their properties, it is on the real numbers.
* Loops and recursions whose bound is not a parameter take a fuel; the theorems
  on them give a fuel that is enough.
-/

namespace Perseus

/-! ## queue.c : the circular FIFO of fixed-size records -/

/-- The constant `BUFFER_DIM` of queue.c: slots added at every resize. -/
def BUFFER_DIM : Int := 3

/-- The `queue` struct of queue.h.  `Queue` is the byte buffer, `First` and
`Last` are byte offsets (`-1` when the queue is empty). -/
structure queue where
  Queue : Int → Nat
  First : Int
  Last : Int
  ElementSize : Int
  ElementNum : Int

/-- Bytes written by `memcpy(&mem[dst], src, n)`, the source being a record. -/
def memcpyIn (mem : Int → Nat) (dst : Int) (src : List Nat) (n : Int) : Int → Nat :=
  fun i => if dst ≤ i ∧ i < dst + n then src.getD (i - dst).toNat 0 else mem i

/-- The record read by `memcpy(pE, &mem[src], n)`. -/
def memcpyOut (mem : Int → Nat) (src : Int) (n : Int) : List Nat :=
  (List.range n.toNat).map (fun (k : Nat) => mem (src + (k : Int)))

/-- The buffer after `memmove(&mem[dst], &mem[src], n)` (overlap allowed). -/
def memmove (mem : Int → Nat) (dst src n : Int) : Int → Nat :=
  fun i => if dst ≤ i ∧ i < dst + n then mem (src + (i - dst)) else mem i

/-- The function `initQueue`: the queue is left untouched when the element size
is not positive; `buf` is the content of the freshly allocated buffer. -/
def initQueue (pQueue : queue) (ElementSize : Int) (buf : Int → Nat) : queue :=
  if ElementSize ≤ 0 then pQueue
  else { Queue := buf, First := -1, Last := -1,
         ElementSize := ElementSize, ElementNum := BUFFER_DIM }

/-- The function `putQueueElement`. -/
def putQueueElement (Q : queue) (pE : List Nat) : queue :=
  -- is the queue empty?
  let Q1 : queue :=
    if Q.First = -1 then
      let Q0 : queue :=
        if Q.ElementNum = 0 then { Q with ElementNum := Q.ElementNum + BUFFER_DIM } else Q
      { Q0 with Last := 0 }
    else { Q with Last := Q.Last + Q.ElementSize }
  -- cyclic re-addressing
  let Q2 : queue :=
    if Q1.Last ≥ Q1.ElementNum * Q1.ElementSize then { Q1 with Last := 0 } else Q1
  -- resize?
  let Q3 : queue :=
    if Q2.Last = Q2.First then
      let EN := Q2.ElementNum + BUFFER_DIM
      { Q2 with
        ElementNum := EN
        Queue := memmove Q2.Queue (Q2.First + BUFFER_DIM * Q2.ElementSize) Q2.First
                   ((EN - BUFFER_DIM) * Q2.ElementSize - Q2.First)
        First := Q2.First + BUFFER_DIM * Q2.ElementSize }
    else if Q2.First = -1 then { Q2 with First := 0 }
    else Q2
  { Q3 with Queue := memcpyIn Q3.Queue Q3.Last pE Q3.ElementSize }

/-- The function `getQueueElement`: the new queue and the record copied to `pE`
(`none` when the queue is empty and `pE` is left untouched). -/
def getQueueElement (Q : queue) : queue × Option (List Nat) :=
  if Q.First = -1 then (Q, none)
  else
    let pE := memcpyOut Q.Queue Q.First Q.ElementSize
    if Q.First = Q.Last then ({ Q with First := -1, Last := -1 }, some pE)
    else
      let F := Q.First + Q.ElementSize
      if F ≥ Q.ElementNum * Q.ElementSize then ({ Q with First := 0 }, some pE)
      else ({ Q with First := F }, some pE)

/-- The function `isQueueEmpty`. -/
def isQueueEmpty (Q : queue) : Bool := decide (Q.First = -1)

/-- The function `elementNumber` (C division truncates). -/
def elementNumber (Q : queue) : Int :=
  if isQueueEmpty Q then 0
  else if Q.First ≤ Q.Last then Int.tdiv (Q.Last - Q.First) Q.ElementSize + 1
  else Int.tdiv (Q.ElementSize * Q.ElementNum - Q.First + Q.Last) Q.ElementSize + 1

/-- A call on a queue: `putQueueElement` with a record, or `getQueueElement`. -/
inductive QOp where
  | put (r : List Nat)
  | get

/-- Runs a sequence of calls on the C queue, collecting what each get returns. -/
def runQueue : List QOp → queue → queue × List (Option (List Nat))
  | [], Q => (Q, [])
  | QOp.put r :: ops, Q => runQueue ops (putQueueElement Q r)
  | QOp.get :: ops, Q =>
      let res := getQueueElement Q
      let rest := runQueue ops res.1
      (rest.1, res.2 :: rest.2)

/-- The abstract list queue: put appends, get removes the head. -/
def runListQueue : List QOp → List (List Nat) → List (List Nat) × List (Option (List Nat))
  | [], l => (l, [])
  | QOp.put r :: ops, l => runListQueue ops (l ++ [r])
  | QOp.get :: ops, l =>
      let rest := runListQueue ops l.tail
      (rest.1, l.head? :: rest.2)

/-- Every get of the sequence is issued on a non-empty queue holding `n` records. -/
def getsOnNonEmpty : List QOp → Nat → Bool
  | [], _ => true
  | QOp.put _ :: ops, n => getsOnNonEmpty ops (n + 1)
  | QOp.get :: ops, n => decide (0 < n) && getsOnNonEmpty ops (n - 1)

/-- Number of puts in a sequence of calls. -/
def countPuts : List QOp → Nat
  | [] => 0
  | QOp.put _ :: ops => countPuts ops + 1
  | QOp.get :: ops => countPuts ops

/-- Number of gets in a sequence of calls. -/
def countGets : List QOp → Nat
  | [] => 0
  | QOp.put _ :: ops => countGets ops
  | QOp.get :: ops => countGets ops + 1

/-- The records of the put calls all have the queue's element size. -/
def recordsSized (ES : Int) : List QOp → Prop
  | [] => True
  | QOp.put r :: ops => (r.length : Int) = ES ∧ recordsSized ES ops
  | QOp.get :: ops => recordsSized ES ops

/-- `n` successive calls of `getQueueElement`. -/
def getMany : Nat → queue → queue × List (Option (List Nat))
  | 0, Q => (Q, [])
  | n + 1, Q =>
      let res := getQueueElement Q
      let rest := getMany n res.1
      (rest.1, res.2 :: rest.2)

/-- Successive calls of `putQueueElement`, one per record. -/
def putMany : List (List Nat) → queue → queue
  | [], Q => Q
  | r :: rs, Q => putMany rs (putQueueElement Q r)

/-- The record stored in slot `k` of a buffer of `ES`-byte slots. -/
def slotRec (mem : Int → Nat) (ES : Int) (k : Nat) : List Nat :=
  memcpyOut mem ((k : Int) * ES) ES

/-- The records of `count` consecutive slots starting at slot `f`. -/
def slotsFrom (mem : Int → Nat) (ES : Int) (f count : Nat) : List (List Nat) :=
  (List.range count).map (fun j => slotRec mem ES (f + j))

/-- The C queue `Q` holds exactly the records `l`, oldest first. -/
def QRepr (Q : queue) (l : List (List Nat)) : Prop :=
  1 ≤ Q.ElementSize ∧ ∃ N : Nat, Q.ElementNum = N ∧ 1 ≤ N ∧
    ((Q.First = -1 ∧ Q.Last = -1 ∧ l = []) ∨
     (∃ f g : Nat, Q.First = f * Q.ElementSize ∧ Q.Last = g * Q.ElementSize ∧
        f ≤ g ∧ g < N ∧ l = slotsFrom Q.Queue Q.ElementSize f (g - f + 1)) ∨
     (∃ f g : Nat, Q.First = f * Q.ElementSize ∧ Q.Last = g * Q.ElementSize ∧
        g < f ∧ f < N ∧
        l = slotsFrom Q.Queue Q.ElementSize f (N - f) ++ slotsFrom Q.Queue Q.ElementSize 0 (g + 1)))

/-- A queue value to start from (its fields are overwritten by `initQueue`). -/
def blankQueue : queue := ⟨fun _ => 0, 0, 0, 0, 0⟩


/-! ## connectivity.c : the compressed axon segments -/

/-- The value of `INT_MAX` for a 32-bit `int`. -/
def INT_MAX : Nat := 2147483647

/-- The constant `MAX_DISTANCE` of connectivity.c. -/
def MAX_DISTANCE : Nat := 255

/-- The constant `EXCEPTION` of perseo.h: the byte that marks an exception. -/
def EXCEPTION : Nat := 0

/-- The value of an integer expression stored in an `indexn` (unsigned, 32 bits). -/
def toU32 (x : Int) : Nat := (x % 4294967296).toNat

/-- The value of an integer expression stored in an `int` (two's complement, 32 bits). -/
def toI32 (x : Int) : Int :=
  if x % 4294967296 < 2147483648 then x % 4294967296 else x % 4294967296 - 4294967296

/-- The fields of the `connectivity` struct that the builder and the decoders read. -/
structure connectivity (R : Type) where
  CProb : R
  DMin : R
  DMax : R
  SynapseSize : Int

/-- The `axon_segment` struct; `Synapses` is the byte size of the block allocated
for the synapses (the block itself holds the states of the synapses). -/
structure axon_segment where
  Synapses : Int
  DPost : List Nat
  Exception : List Nat
  NumSynapses : Nat

/-- One layer of the support arrays of `createSynapticMatrix`: `Support[l].DPost`
(its first `Support[l].NumSynapses` bytes), `Support[l].Exception` (its first
`NumExceptions[l]` entries), `LastPost[l]` and `SynapseSize[l]`. -/
structure support_layer where
  DPost : List Nat
  Exception : List Nat
  LastPost : Nat
  SynapseSize : Int

/-- The support of a layer as initialised for every pre-synaptic neuron
(`LastPost[l] = -1` in an `indexn`). -/
def emptySupport : support_layer :=
  { DPost := [], Exception := [], LastPost := toU32 (-1), SynapseSize := 0 }

/-- The body of the synapse loop of `createSynapticMatrix`, as it acts on the
support of the drawn layer: the delta (or the exception) of post-synaptic neuron
`Post` is appended, and the synapse block grows by `size` bytes. -/
def addToLayer (s : support_layer) (Post : Int) (size : Int) : support_layer :=
  let D := toU32 (Post - (s.LastPost : Int))
  if D > MAX_DISTANCE then
    { DPost := s.DPost ++ [EXCEPTION % 256]
      Exception := s.Exception ++ [toU32 Post]
      LastPost := toU32 Post
      SynapseSize := s.SynapseSize + size }
  else
    { DPost := s.DPost ++ [D % 256]
      Exception := s.Exception
      LastPost := toU32 Post
      SynapseSize := s.SynapseSize + size }

/-- The body of the synapse loop of `createSynapticMatrix` for a drawn layer `l`:
only the support of layer `l` changes. -/
def addSynapse (S : Nat → support_layer) (l : Nat) (Post : Int) (size : Int) :
    Nat → support_layer :=
  fun k => if k = l then addToLayer (S l) Post size else S k

/-- The function `getEmptySynapses_RAN`.  The floating-point loop `while (C < r)`
is represented by the number of times its body runs, taken from the stream of
draws; `n` is an `indexn`, so `n++` wraps at `2 ^ 32`. -/
def getEmptySynapses_RAN {R : Type} [LinearOrderedRing R]
    (Connectivity : Nat → Nat → Option (connectivity R)) (postPop prePop : Nat)
    (g : Nat → Nat) : Nat × (Nat → Nat) :=
  match Connectivity postPop prePop with
  | none => (INT_MAX, g)
  | some c =>
    if c.CProb ≤ 0 then (INT_MAX, g)
    else
      let n := toU32 (1 + (g 0 : Int))
      let n := if n ≤ 0 then INT_MAX else n
      (n, fun k => g (k + 1))

/-- The `while` loop of `createSynapticMatrix` over the post-synaptic neurons of one
population; `bound` is `(int)(i + Populations[postPop].N)`, `g` the state behind
`getEmptySynapses` (of a type `σ` that depends on the extraction mode) and `d` the
stream of layers returned by `getRandomDelay`.
The result is `none` when `fuel` iterations do not end the loop. -/
def synapseLoop {σ : Type} (getEmptySynapses : Nat → Nat → σ → Nat × σ)
    (postPop prePop : Nat) (size : Int) (bound : Int) :
    Nat → Int → (Nat → support_layer) → σ → (Nat → Nat) →
      Option ((Nat → support_layer) × σ × (Nat → Nat))
  | 0, _, _, _, _ => none
  | fuel + 1, Post, S, g, d =>
    let r := getEmptySynapses postPop prePop g
    let Post1 := toI32 (Post + (r.1 : Int))
    if Post1 < bound then
      if Post1 < 0 then some (S, r.2, d)
      else
        synapseLoop getEmptySynapses postPop prePop size bound fuel Post1
          (addSynapse S (d 0) Post1 size) r.2 (fun k => d (k + 1))
    else some (S, r.2, d)

/-- The `for` loop of `createSynapticMatrix` over the post-synaptic populations,
for one pre-synaptic neuron of population `prePop`; `Ns` are the sizes of the
populations still to visit, `i` the index of the first neuron of the next one. -/
def populationLoop {R σ : Type}
    (getEmptySynapses : Nat → Nat → σ → Nat × σ)
    (Connectivity : Nat → Nat → Option (connectivity R)) (prePop : Nat) (fuel : Nat) :
    List Nat → Nat → Nat → (Nat → support_layer) → σ → (Nat → Nat) →
      Option ((Nat → support_layer) × σ × (Nat → Nat))
  | [], _, _, S, g, d => some (S, g, d)
  | N :: Ns, i, postPop, S, g, d =>
    match Connectivity postPop prePop with
    | none =>
      populationLoop getEmptySynapses Connectivity prePop fuel Ns (toU32 (i + N)) (postPop + 1)
        S g d
    | some c =>
      match synapseLoop getEmptySynapses postPop prePop c.SynapseSize
          (toI32 (toU32 (i + N))) fuel (toI32 ((i : Int) - 1)) S g d with
      | none => none
      | some (S1, g1, d1) =>
        populationLoop getEmptySynapses Connectivity prePop fuel Ns (toU32 (i + N))
          (postPop + 1) S1 g1 d1

/-- The population of neuron `j` (`Neurons[j].Pop->ID`), as assigned by
`createPopulations` for populations of sizes `Ns`. -/
def popOf : List Nat → Nat → Nat
  | [], _ => 0
  | N :: Ns, j => if j < N then 0 else popOf Ns (j - N) + 1

/-- The axon segment copied from the support of a layer. -/
def segmentOf (s : support_layer) : axon_segment :=
  { Synapses := s.SynapseSize, DPost := s.DPost, Exception := s.Exception,
    NumSynapses := s.DPost.length }

/-- The loop of `createSynapticMatrix` over the pre-synaptic neurons `j`, `j + 1`,
... (`count` of them): the result lists, neuron by neuron, the segments of the
layers (`SynapticMatrix[l].Pre[j]` is the entry `l` of the `j`-th element). -/
def neuronLoop {R σ : Type}
    (getEmptySynapses : Nat → Nat → σ → Nat × σ)
    (Connectivity : Nat → Nat → Option (connectivity R)) (Ns : List Nat) (fuel : Nat) :
    Nat → Nat → σ → (Nat → Nat) → Option (List (Nat → axon_segment))
  | 0, _, _, _ => some []
  | count + 1, j, g, d =>
    match populationLoop getEmptySynapses Connectivity (popOf Ns j) fuel Ns 0 0
        (fun _ => emptySupport) g d with
    | none => none
    | some (S, g1, d1) =>
      match neuronLoop getEmptySynapses Connectivity Ns fuel count (j + 1) g1 d1 with
      | none => none
      | some rest => some ((fun l => segmentOf (S l)) :: rest)

/-- The function `createSynapticMatrix` for populations of sizes `Ns` (the neurons
are numbered population after population): the segments of all pre-synaptic
neurons, or `none` when a synapse loop does not end within `fuel` iterations. -/
def createSynapticMatrix {R σ : Type}
    (getEmptySynapses : Nat → Nat → σ → Nat × σ)
    (Connectivity : Nat → Nat → Option (connectivity R)) (Ns : List Nat) (fuel : Nat)
    (g : σ) (d : Nat → Nat) : Option (List (Nat → axon_segment)) :=
  neuronLoop getEmptySynapses Connectivity Ns fuel Ns.sum 0 g d

/-- The loop of `simulation()` over the synapses of an axon segment, from the
state `Post`, `nExcep`, `pSyn` (a byte offset relative to `Synapses`): the pairs
(post-synaptic neuron, synapse offset) passed to `updateNeuronState`, and the
final value of `pSyn`.  `size Post` is the `SynapseSize` read through
`Connectivity[Neurons[Post].Pop->ID][Neurons[IntSpike.Neuron].Pop->ID]`, `none`
standing for a `NULL` entry (dereferenced by the loop: the result is `none`). -/
def simulationSegment (size : Int → Option Int) (Exception : List Nat) :
    List Nat → Int → Nat → Int → Option (List (Int × Int) × Int)
  | [], _, _, pSyn => some ([], pSyn)
  | b :: DPost, Post, nExcep, pSyn =>
    let Post1 := if b ≠ EXCEPTION then Post + (b : Int) else toI32 (Exception.getD nExcep 0)
    let nExcep1 := if b ≠ EXCEPTION then nExcep else nExcep + 1
    match size Post1 with
    | none => none
    | some sz =>
      match simulationSegment size Exception DPost Post1 nExcep1 (pSyn + sz) with
      | none => none
      | some (calls, fin) => some ((Post1, pSyn) :: calls, fin)

/-- The loop of `scanSynapticMatrix` over the synapses of an axon segment, for the
range `[PostStart, PostEnd]`, from the state `i` (an `indexn`), `n`, `s` (a byte
offset relative to `Synapses`): the pairs (post-synaptic neuron, synapse offset)
passed to `InspectFunc`, and the final value of `s`. -/
def scanSegment (size : Nat → Option Int) (Exception : List Nat) (PostStart PostEnd : Nat) :
    List Nat → Nat → Nat → Int → Option (List (Nat × Int) × Int)
  | [], _, _, s => some ([], s)
  | b :: DPost, i, n, s =>
    let i1 := if b ≠ EXCEPTION then toU32 ((i : Int) + (b : Int)) else Exception.getD n 0
    let n1 := if b ≠ EXCEPTION then n else n + 1
    if i1 ≥ PostStart ∧ ¬ i1 ≤ PostEnd then some ([], s)
    else
      match size i1 with
      | none => none
      | some sz =>
        match scanSegment size Exception PostStart PostEnd DPost i1 n1 (s + sz) with
        | none => none
        | some (calls, fin) =>
          if i1 ≥ PostStart then some ((i1, s) :: calls, fin) else some (calls, fin)

/-- The encoder of `createSynapticMatrix` run on the post-synaptic neurons that
one pre-synaptic neuron has in delay layer `l` (a synapse of `size` bytes each). -/
def encodeLayer (l : Nat) (size : Int) (posts : List Int) : support_layer :=
  (posts.foldl (fun S p => addSynapse S l p size) (fun _ => emptySupport)) l

/-- The `SynapseSize` read through
`Connectivity[Neurons[Post].Pop->ID][Neurons[j].Pop->ID]` (`none` when the entry
is `NULL`). -/
def synapseSizeAt {R : Type} (Connectivity : Nat → Nat → Option (connectivity R))
    (Ns : List Nat) (j : Nat) (Post : Nat) : Option Int :=
  (Connectivity (popOf Ns Post) (popOf Ns j)).map (fun c => c.SynapseSize)

/-- The byte that the encoder stores for a step from `prev` to `p`. -/
def deltaByte (prev p : Int) : Nat := if p - prev > 255 then 0 else (p - prev).toNat

/-- The bytes of a list of post-synaptic neurons coded after neuron `prev`. -/
def deltaBytes : Int → List Int → List Nat
  | _, [] => []
  | prev, p :: ps => deltaByte prev p :: deltaBytes p ps

/-- The exceptions of a list of post-synaptic neurons coded after neuron `prev`. -/
def deltaExceptions : Int → List Int → List Nat
  | _, [] => []
  | prev, p :: ps =>
    if p - prev > 255 then p.toNat :: deltaExceptions p ps else deltaExceptions p ps

/-- The list is strictly increasing and starts above `prev`. -/
def increasingFrom : Int → List Int → Prop
  | _, [] => True
  | prev, p :: ps => prev < p ∧ increasingFrom p ps

/-- The synapse offsets of a list of post-synaptic neurons, from offset `o`, when
the synapse of neuron `p` takes `f p` bytes. -/
def offsetsFrom (f : Int → Int) : Int → List Int → List (Int × Int)
  | _, [] => []
  | o, p :: ps => (p, o) :: offsetsFrom f (o + f p) ps

/-- The support `s` of a layer codes a list of post-synaptic neurons, all at most
`cur` and satisfying `ok`, whose synapses take `sizeOf p` bytes each. -/
def LayerInv (ok : Int → Prop) (sizeOf : Int → Int) (s : support_layer) (cur : Int) : Prop :=
  ∃ ps : List Int, increasingFrom (-1) ps ∧ (∀ p ∈ ps, p ≤ cur ∧ ok p) ∧
    s.DPost = deltaBytes (-1) ps ∧ s.Exception = deltaExceptions (-1) ps ∧
    s.LastPost = toU32 (ps.getLastD (-1)) ∧ s.SynapseSize = (ps.map sizeOf).sum

/-- The `SynapseSize` of the entry `Connectivity[Neurons[p].Pop->ID][prePop]`
(0 for a `NULL` entry). -/
def sizeOfPost {R : Type} (Connectivity : Nat → Nat → Option (connectivity R))
    (Ns : List Nat) (prePop : Nat) (p : Int) : Int :=
  ((Connectivity (popOf Ns p.toNat) prePop).map (fun c => c.SynapseSize)).getD 0

/-- The segment codes a strictly increasing list of neurons below `M`, all
satisfying `ok`, with a synapse block of the sizes given by `sizeOf`. -/
def SegmentInv (ok : Int → Prop) (sizeOf : Int → Int) (M : Nat) (seg : axon_segment) : Prop :=
  ∃ ps : List Int, increasingFrom (-1) ps ∧ (∀ p ∈ ps, p < M ∧ ok p) ∧
    seg.DPost = deltaBytes (-1) ps ∧ seg.Exception = deltaExceptions (-1) ps ∧
    seg.Synapses = (ps.map sizeOf).sum ∧ seg.NumSynapses = ps.length

/-- The entry `Connectivity[Neurons[p].Pop->ID][prePop]` is not `NULL`. -/
def connected {R : Type} (Connectivity : Nat → Nat → Option (connectivity R))
    (Ns : List Nat) (prePop : Nat) (p : Int) : Prop :=
  (Connectivity (popOf Ns p.toNat) prePop).isSome = true

/-- A connection probability of `10⁻¹⁰`. -/
def tinyProb : ℚ := Rat.mk' 1 10000000000 (by decide) (by decide)

/-- One population connected to itself with probability `10⁻¹⁰` and synapses of
one byte. -/
def sparseConnectivity : Nat → Nat → Option (connectivity ℚ) :=
  fun post pre =>
    if post = 0 ∧ pre = 0 then
      some { CProb := tinyProb, DMin := 0, DMax := 0, SynapseSize := 1 }
    else none

/-- Loop counts of `getEmptySynapses_RAN`: 9 iterations (a skip of 10), then
`2 ^ 32 - 4` iterations (a skip of `2 ^ 32 - 3`), then `2 ^ 31` iterations. -/
def wrapDraws : Nat → Nat :=
  fun k => if k = 0 then 9 else if k = 1 then 4294967292 else 2147483648

/-- Two populations; the neurons of population 0 project to population 0 with
synapses of 12 bytes and to population 1 with synapses of 4 bytes, both with
probability `10⁻¹⁰`. -/
def mixedConnectivity : Nat → Nat → Option (connectivity ℚ) :=
  fun post pre =>
    if post = 0 ∧ pre = 0 then
      some { CProb := tinyProb, DMin := 0, DMax := 0, SynapseSize := 12 }
    else if post = 1 ∧ pre = 0 then
      some { CProb := tinyProb, DMin := 0, DMax := 0, SynapseSize := 4 }
    else none

/-- Loop counts of `getEmptySynapses_RAN`: `2 ^ 31` iterations, except for the
second draw, of `2 ^ 32 - 4` iterations (a skip of `2 ^ 32 - 3`). -/
def wrapDraws2 : Nat → Nat :=
  fun k => if k = 1 then 4294967292 else 2147483648

/-! ## nalib.c and delays.c : the delay bounds and the choice of a delay layer

Real numbers are exact: `R` is an ordered field with a floor.  A quotient whose
divisor is zero has no value (in C it is an infinity or a NaN, and its conversion
to `int` is undefined): the functions below then return `none`. -/

/-- The function `roundr2i` of nalib.c (the conversions `(int)` are exact: the
argument is taken to lie within the range of `int`). -/
def roundr2i {R : Type} [LinearOrderedField R] [FloorRing R] (r : R) : Int :=
  if ((⌊r⌋ : Int) : R) + 1 / 2 > r then ⌊r⌋ else ⌊r⌋ + 1

/-- The global variables `DelayMax`, `DelayMin` and `DelayStep` of delays.c. -/
structure delay_globals (R : Type) where
  DelayMax : R
  DelayMin : R
  DelayStep : R

/-- The first loop of `setDelayBounds`, from the values `DelayMax` and `DelayMin`:
the new values of the two variables. -/
def delayExtremes {R : Type} [LinearOrderedField R] :
    List (connectivity R) → R → R → R × R
  | [], DelayMax, DelayMin => (DelayMax, DelayMin)
  | c :: rest, DelayMax, DelayMin =>
    delayExtremes rest (if c.DMax > DelayMax then c.DMax else DelayMax)
      (if c.DMin < DelayMin then c.DMin else DelayMin)

/-- The statements of the second loop of `setDelayBounds` on one bound `x`
(`DMax` or `DMin`) of a connectivity: the new value of the bound. -/
def discretizeDelay {R : Type} [LinearOrderedField R] [FloorRing R]
    (D : delay_globals R) (x : R) : R :=
  let v := ((roundr2i ((x - D.DelayMin) / D.DelayStep) : Int) : R) * D.DelayStep + D.DelayMin
  if v > D.DelayMax then D.DelayMax
  else if v < D.DelayMin then D.DelayMin
  else v

/-- The function `setDelayBounds`: the new values of the global variables and of
the connectivity array (`none` when it divides by zero). -/
def setDelayBounds {R : Type} [LinearOrderedField R] [FloorRing R]
    (DelayNumber : Int) (ConnectivityArray : List (connectivity R)) :
    Option (delay_globals R × List (connectivity R)) :=
  let e := delayExtremes ConnectivityArray 0 ((10 : R) ^ 36)
  if DelayNumber = 0 then none
  else
    let DelayStep := (e.1 - e.2) / (DelayNumber : R)
    let D : delay_globals R :=
      { DelayMax := e.1 - DelayStep / 2, DelayMin := e.2 + DelayStep / 2, DelayStep := DelayStep }
    if DelayStep = 0 ∧ ConnectivityArray.isEmpty = false then none
    else
      some (D, ConnectivityArray.map (fun c =>
        { c with DMax := discretizeDelay D c.DMax, DMin := discretizeDelay D c.DMin }))

/-- The function `getRandomDelay_UNI`, `U` being the value returned by `Random()`
(`none` when it divides by zero). -/
def getRandomDelay_UNI {R : Type} [LinearOrderedField R] [FloorRing R]
    (D : delay_globals R) (c : connectivity R) (U : R) : Option Int :=
  if D.DelayStep = 0 then none
  else some (roundr2i ((U * (c.DMax - c.DMin) + c.DMin - D.DelayMin) / D.DelayStep))

/-- The constant `TailNeglected` of delays.c. -/
def TailNeglected {R : Type} [LinearOrderedField R] : R := 5 / 100

/-- The function `getRandomDelay_EXP`, `U` being the value returned by `Random()`
and `log` the logarithm of math.h (`none` when it divides by zero). -/
def getRandomDelay_EXP {R : Type} [LinearOrderedField R] [FloorRing R] (log : R → R)
    (D : delay_globals R) (c : connectivity R) (U : R) : Option Int :=
  if log TailNeglected = 0 ∨ D.DelayStep = 0 then none
  else
    let InvLogTN := 1 / log TailNeglected
    some (roundr2i (((c.DMin + (c.DMax - c.DMin) * log (1 - U * (1 - TailNeglected)) * InvLogTN)
      - D.DelayMin) / D.DelayStep))

/-- The delay given to layer `l` by `createSynapticMatrix`
(`SynapticMatrix[l].Delay`). -/
def layerDelay {R : Type} [LinearOrderedField R] (D : delay_globals R) (l : Int) : R :=
  D.DelayMin + D.DelayStep * (l : R)

/-- A connectivity with bounds `DMin` and `DMax` of the delays (probability 1,
synapses of 4 bytes). -/
def delayEntry (DMin DMax : ℚ) : connectivity ℚ :=
  { CProb := 1, DMin := DMin, DMax := DMax, SynapseSize := 4 }

/-! ## connectivity.c : the skip loop of the RANDOM mode on exact reals -/

/-- The number of times that the body of the loop `while (C < r)` of
`getEmptySynapses_RAN` runs, from the values `P` and `C`, for the draw `r` and the
connection probability `CProb` (`none` when the loop does not end within `fuel`
tests). -/
def emptySynapsesRuns {R : Type} [LinearOrderedRing R] (CProb r : R) : Nat → R → R → Option Nat
  | 0, _, _ => none
  | fuel + 1, P, C =>
    if C < r then
      (emptySynapsesRuns CProb r fuel (P * (1 - CProb)) (C + P * (1 - CProb))).map (· + 1)
    else some 0

/-- One population projecting to itself with probability 1. -/
def fullConnectivity : Nat → Nat → Option (connectivity Int) :=
  fun post pre =>
    if post = 0 ∧ pre = 0 then some { CProb := 1, DMin := 0, DMax := 0, SynapseSize := 4 }
    else none

/-- One population projecting to itself with probability 0. -/
def noConnectivity : Nat → Nat → Option (connectivity Int) :=
  fun post pre =>
    if post = 0 ∧ pre = 0 then some { CProb := 0, DMin := 0, DMax := 0, SynapseSize := 4 }
    else none

/-! ## connectivity.c : the FIXEDNUM mode -/

/-- The static variables of `getEmptySynapses_FIX` that keep their value from one
call to the next, and the random generator: `allocated` tells whether
`SynMatMask` is not `NULL`, `SynMatMask s n` is `SynMatMask[s][n]`, `expDev` and
`random` give the values returned by the next calls of `ExpDev()` and of
`Random()`. -/
structure fix_state (R : Type) where
  lastPost : Int
  lastPre : Int
  MaxDendSize : Nat
  prePopMask : Int
  postPopMask : Int
  allocated : Bool
  SynMatMask : Nat → Nat → Nat
  PreSynCursor : Nat → Nat
  PopOffset : Nat → Nat
  expDev : Nat → R
  random : Nat → R

/-- The static variables of `getEmptySynapses_FIX` before its first call. -/
def fixInit {R : Type} (expDev random : Nat → R) : fix_state R :=
  { lastPost := 0, lastPre := 0, MaxDendSize := 0, prePopMask := -1, postPopMask := -1,
    allocated := false, SynMatMask := fun _ _ => 0, PreSynCursor := fun _ => 0,
    PopOffset := fun _ => 0, expDev := expDev, random := random }

/-- The value `SynNum = roundr2i(Populations[q].N * Connectivity[p][q]->CProb)`, an
`indexn`. -/
def fixSynNum {R : Type} [LinearOrderedField R] [FloorRing R] (Ns : List Nat) (q : Nat)
    (c : connectivity R) : Nat :=
  toU32 (roundr2i (((Ns.getD q 0 : Nat) : R) * c.CProb))

/-- The value of `MaxDendSize` after the loop over the populations `p` and `q`
that follows the allocation of `PopOffset`. -/
def fixMaxDendSize {R : Type} [LinearOrderedField R] [FloorRing R] (Ns : List Nat)
    (Connectivity : Nat → Nat → Option (connectivity R)) (MaxDendSize : Nat) : Nat :=
  (List.range Ns.length).foldl (fun M p =>
    (List.range Ns.length).foldl (fun M q =>
      match Connectivity p q with
      | none => M
      | some c => if M < fixSynNum Ns q c then fixSynNum Ns q c else M) M) MaxDendSize

/-- The array `PopOffset`: the index of the first neuron of each population. -/
def fixPopOffset (Ns : List Nat) (p : Nat) : Nat :=
  toU32 ((Ns.take p).sum : Nat)

/-- The memory after `SynMatMask[s][n] = col[s]` for every `s` below the length
of `col`. -/
def writeColumn (Mask : Nat → Nat → Nat) (n : Nat) (col : List Nat) : Nat → Nat → Nat :=
  fun s c => if c = n ∧ s < col.length then col.getD s 0 else Mask s c

/-- The column of the mask of one post-synaptic neuron in the sparse case: the
pre-synaptic neurons drawn for it.  `ed` and `U` are the values returned by
`ExpDev()` and by `Random()`, `Npre` is `Populations[prePop].N`. -/
def sparseColumn {R : Type} [LinearOrderedField R] [FloorRing R] (Npre SynNum : Nat)
    (ed : Nat → R) (U : R) : List Nat :=
  let SynExtraction : Nat → R := fun s => ((List.range (s + 1)).map ed).sum
  let dx := SynExtraction (SynNum - 1) / ((toU32 ((Npre : Int) - SynNum) : Nat) : R)
  let offset := -U * (SynExtraction (SynNum - 1) + (SynNum : R) * dx)
  let npre : Nat → Int := fun s => ⌊(s : R) + (offset + SynExtraction s) / dx⌋
  let first := ((List.range SynNum).map npre).filter (fun x => 0 ≤ x)
  let second := (List.range (SynNum - first.length)).map (fun s => (Npre : Int) + npre s)
  (first ++ second).map toU32

/-- The loop `for (m=0; m<Populations[p].N; m++, n++)` that fills the columns of
the mask for the neurons of one post-synaptic population, in the fully connected
case (`full`) and in the sparse case: the mask, the generator and `n` at the end. -/
def fillColumns {R : Type} [LinearOrderedField R] [FloorRing R] (Npre SynNum : Nat)
    (full : Bool) : Nat → Nat → (Nat → Nat → Nat) → (Nat → R) → (Nat → R) →
      (Nat → Nat → Nat) × (Nat → R) × (Nat → R) × Nat
  | 0, n, Mask, ed, rd => (Mask, ed, rd, n)
  | m + 1, n, Mask, ed, rd =>
    if full then
      fillColumns Npre SynNum full m (toU32 ((n : Int) + 1))
        (writeColumn Mask n (List.range SynNum)) ed rd
    else
      fillColumns Npre SynNum full m (toU32 ((n : Int) + 1))
        (writeColumn Mask n (sparseColumn Npre SynNum ed (rd 0)))
        (fun k => ed (k + SynNum)) (fun k => rd (k + 1))

/-- The loop of `getEmptySynapses_FIX` that populates the mask, over the
populations `p`, `p + 1`, ... of sizes `rest`. -/
def populateMask {R : Type} [LinearOrderedField R] [FloorRing R] (Ns : List Nat)
    (Connectivity : Nat → Nat → Option (connectivity R)) (prePop : Nat) :
    List Nat → Nat → Nat → (Nat → Nat → Nat) → (Nat → R) → (Nat → R) →
      (Nat → Nat → Nat) × (Nat → R) × (Nat → R)
  | [], _, _, Mask, ed, rd => (Mask, ed, rd)
  | Np :: rest, p, n, Mask, ed, rd =>
    match Connectivity p prePop with
    | none =>
      populateMask Ns Connectivity prePop rest (p + 1) (toU32 ((n : Int) + Np)) Mask ed rd
    | some c =>
      let SynNum := fixSynNum Ns prePop c
      if SynNum = Ns.getD prePop 0 then
        let r := fillColumns (Ns.getD prePop 0) SynNum true Np n Mask ed rd
        populateMask Ns Connectivity prePop rest (p + 1) r.2.2.2 r.1 r.2.1 r.2.2.1
      else if SynNum > 0 then
        let r := fillColumns (Ns.getD prePop 0) SynNum false Np n Mask ed rd
        populateMask Ns Connectivity prePop rest (p + 1) r.2.2.2 r.1 r.2.1 r.2.2.1
      else populateMask Ns Connectivity prePop rest (p + 1) n Mask ed rd

/-- The last loop of `getEmptySynapses_FIX`, which looks for the next
post-synaptic neuron below `limit` whose mask holds `lastPre` at its cursor: the
values of `lastPost` and of `PreSynCursor` at the end. -/
def fixScan (MaxDendSize : Nat) (Mask : Nat → Nat → Nat) (lastPre : Int) (limit : Nat) :
    Nat → Int → (Nat → Nat) → Int × (Nat → Nat)
  | 0, lastPost, Cursor => (lastPost, Cursor)
  | fuel + 1, lastPost, Cursor =>
    if toU32 lastPost < limit then
      if Cursor lastPost.toNat < MaxDendSize ∧
          Mask (Cursor lastPost.toNat) lastPost.toNat = toU32 lastPre then
        (lastPost, fun q => if q = lastPost.toNat then Cursor q + 1 else Cursor q)
      else fixScan MaxDendSize Mask lastPre limit fuel (toI32 (lastPost + 1)) Cursor
    else (lastPost, Cursor)

/-- The function `getEmptySynapses_FIX` for populations of sizes `Ns` (the call
with two negative arguments, which frees the memory, apart): the value returned
and the new values of the static variables. -/
def getEmptySynapses_FIX {R : Type} [LinearOrderedField R] [FloorRing R] (Ns : List Nat)
    (Connectivity : Nat → Nat → Option (connectivity R)) (postPop prePop : Nat)
    (st : fix_state R) : Nat × fix_state R :=
  -- has the mask to be recomputed?
  let st1 : fix_state R :=
    if (prePop : Int) ≠ st.prePopMask then
      let st0 : fix_state R :=
        if st.allocated then st
        else
          { st with allocated := true, PopOffset := fixPopOffset Ns,
                    MaxDendSize := fixMaxDendSize Ns Connectivity st.MaxDendSize }
      let blank : Nat → Nat → Nat :=
        fun s n => if s < st0.MaxDendSize then 4294967295 else st0.SynMatMask s n
      let r := populateMask Ns Connectivity prePop Ns 0 0 blank st0.expDev st0.random
      { st0 with prePopMask := prePop, SynMatMask := r.1, PreSynCursor := fun _ => 0,
                 expDev := r.2.1, random := r.2.2, lastPre := 0 }
    else if toU32 st.lastPost = toU32 (Ns.sum : Nat) ∨ (postPop : Int) < st.postPopMask then
      { st with lastPre := toI32 (st.lastPre + 1), lastPost := -1 }
    else st
  -- has the post-synaptic population changed?
  let st2 : fix_state R :=
    if (postPop : Int) ≠ st1.postPopMask then
      { st1 with postPopMask := postPop, lastPost := toI32 ((st1.PopOffset postPop : Int) - 1) }
    else st1
  -- the empty synapses plus one, read from the mask
  let limit := toU32 ((st2.PopOffset postPop : Int) + (Ns.getD postPop 0 : Nat))
  let r := fixScan st2.MaxDendSize st2.SynMatMask st2.lastPre limit (limit + 1)
    (toI32 (st2.lastPost + 1)) st2.PreSynCursor
  (toU32 (r.1 - st2.lastPost), { st2 with lastPost := r.1, PreSynCursor := r.2 })

/-- The post-synaptic neurons of the synapses that `createSynapticMatrix` gives to
each pre-synaptic neuron in layer 0, decoded as `simulation()` does. -/
def decodedPosts (SM : Option (List (Nat → axon_segment))) : Option (List (Option (List Int))) :=
  SM.map (fun segs => segs.map (fun seg =>
    (simulationSegment (fun _ => some 0) (seg 0).Exception (seg 0).DPost (-1) 0 0).map
      (fun r => r.1.map Prod.fst)))

/-- A population of 4 neurons that projects to itself with probability 1/2, and
a population of 1 neuron without connections. -/
def halfConnectivity : Nat → Nat → Option (connectivity ℚ) :=
  fun post pre =>
    if post = 0 ∧ pre = 0 then some { CProb := 1 / 2, DMin := 0, DMax := 0, SynapseSize := 4 }
    else none

/-! ## types.h and perseo.c : times, spikes and the oldest delay layer -/

/-- The `timex` struct of types.h: `Seconds + Millis` is the time. -/
structure timex (R : Type) where
  Seconds : Int
  Millis : R

/-- The `spike` struct of types.h. -/
structure spike (R : Type) where
  Emission : timex R
  Neuron : Nat
  ISI : R

/-- The conversion `(int)(d)` of a `double`: truncation toward zero. -/
def truncToInt {R : Type} [LinearOrderedRing R] [FloorRing R] (d : R) : Int :=
  if 0 ≤ d then ⌊d⌋ else ⌈d⌉

/-- The macro `timexToDouble`. -/
def timexToDouble {R : Type} [LinearOrderedRing R] (t : timex R) : R :=
  (t.Seconds : R) + t.Millis

/-- The macro `doubleToTimex`. -/
def doubleToTimex {R : Type} [LinearOrderedRing R] [FloorRing R] (d : R) : timex R :=
  { Seconds := truncToInt d, Millis := d - ((truncToInt d : Int) : R) * 1 }

/-- The macro `diffTimex`. -/
def diffTimex {R : Type} [LinearOrderedRing R] (t1 t2 : timex R) : R :=
  if t1.Seconds = t2.Seconds then t1.Millis - t2.Millis
  else ((t1.Seconds - t2.Seconds : Int) : R) * 1 + t1.Millis - t2.Millis

/-- The constant `NULL_LAYER` of perseo.c. -/
def NULL_LAYER : Int := -1

/-- The fields of a `synaptic_layer` that the driver reads and writes: the axon
segments `Pre`, the current spike `Spike`, the flag `Empty`, and the spikes
waiting in `Queue`, oldest first (the FIFO of queue.c, shown above to behave
like this list). -/
structure synaptic_layer (R : Type) where
  Pre : List axon_segment
  Queue : List (spike R)
  Spike : spike R
  Empty : Bool

/-- The loop of `findOldestLayer` from layer `i` on, `OldestLayer` and `t` being
the values of the corresponding variables. -/
def findOldestLoop {R : Type} [LinearOrderedRing R] :
    List (synaptic_layer R) → Nat → Int → timex R → Int
  | [], _, OldestLayer, _ => OldestLayer
  | L :: rest, i, OldestLayer, t =>
    if diffTimex t L.Spike.Emission > 0 ∧ ¬ L.Empty = true then
      findOldestLoop rest (i + 1) (i : Int) L.Spike.Emission
    else findOldestLoop rest (i + 1) OldestLayer t

/-- The function `findOldestLayer`: the new value of `OldestLayer`. -/
def findOldestLayer {R : Type} [LinearOrderedRing R] [FloorRing R]
    (Life : R) (SynapticMatrix : List (synaptic_layer R)) : Int :=
  findOldestLoop SynapticMatrix 0 NULL_LAYER (doubleToTimex (Life + 100))

/-- A layer without segments and without spikes (what is read when a layer index
is out of range). -/
def blankLayer {R : Type} [LinearOrderedRing R] : synaptic_layer R :=
  { Pre := []
    Queue := []
    Spike := ⟨⟨0, 0⟩, 0, 0⟩
    Empty := true }

/-- The function `whereIsOldestSpike`, `OldestLayer` being the cached layer. -/
def whereIsOldestSpike {R : Type} [LinearOrderedRing R]
    (OldestLayer : Int) (SynapticMatrix : List (synaptic_layer R)) (ExtSpike : spike R) : Int :=
  if OldestLayer = NULL_LAYER then NULL_LAYER
  else if diffTimex ExtSpike.Emission
      (SynapticMatrix.getD OldestLayer.toNat blankLayer).Spike.Emission ≤ 0 then NULL_LAYER
  else OldestLayer

/-- The emission time of the current spike of a layer, in ms. -/
def layerTime {R : Type} [LinearOrderedRing R] (L : synaptic_layer R) : R :=
  timexToDouble L.Spike.Emission

/-- A spike emitted at a whole number of ms. -/
def spikeAt (t : Int) (n : Nat) : spike Int :=
  { Emission := { Seconds := t, Millis := 0 }, Neuron := n, ISI := 0 }

/-- A layer whose current spike was emitted at `t` ms by neuron 0, with an empty
queue and no axon segments. -/
def layerAt (t : Int) : synaptic_layer Int :=
  { Pre := [], Queue := [], Spike := spikeAt t 0, Empty := false }

/-! ## perseo.c : the external spikes and the delay layers -/

/-- The fields of the `population` struct that the driver reads and writes;
`Neurons` is the index in the array `Neurons` of the first neuron of the
population (`Populations[p].Neurons - Neurons`). -/
structure population (R : Type) where
  InvNuExt : R
  Emission : timex R
  NuExt : R
  CExt : R
  N : Nat
  Neurons : Nat

/-- A population with no neuron (what is read when a population index is out of
range). -/
def blankPopulation {R : Type} [LinearOrderedRing R] : population R :=
  { InvNuExt := 0, Emission := ⟨0, 0⟩, NuExt := 0, CExt := 0, N := 0, Neurons := 0 }

/-- The search loop of `ariseExternalSpike` from population `i` on: the values of
`OldestPop` and `*OldestEmission` at the end. -/
def oldestPopLoop {R : Type} [LinearOrderedRing R] :
    List (population R) → Nat → Nat → timex R → Nat × timex R
  | [], _, OldestPop, OldestEmission => (OldestPop, OldestEmission)
  | p :: rest, i, OldestPop, OldestEmission =>
    if diffTimex OldestEmission p.Emission > 0 then oldestPopLoop rest (i + 1) i p.Emission
    else oldestPopLoop rest (i + 1) OldestPop OldestEmission

/-- The compression of the time representation done by `ariseExternalSpike`. -/
def compressTimex {R : Type} [LinearOrderedRing R] [FloorRing R] (t : timex R) : timex R :=
  if t.Millis > 1 then
    { Seconds := t.Seconds + truncToInt t.Millis,
      Millis := t.Millis - ((truncToInt t.Millis : Int) : R) }
  else t

/-- The function `ariseExternalSpike`: the new value of `*ExtSpike` and of the
array `Populations`.  `U` is the value returned by the first call of `Random()`
and `lg` the value of `log(1-Random())` for the second call. -/
def ariseExternalSpike {R : Type} [LinearOrderedRing R] [FloorRing R]
    (Populations : List (population R)) (ExtSpike : spike R) (U lg : R) :
    spike R × List (population R) :=
  let first := Populations.getD 0 blankPopulation
  let r := oldestPopLoop (Populations.drop 1) 1 0 first.Emission
  let p := Populations.getD r.1 blankPopulation
  let j := truncToInt ((p.N : R) * U)
  let e : timex R := { p.Emission with Millis := p.Emission.Millis - p.InvNuExt * lg }
  let p1 : population R := { p with Emission := compressTimex e }
  ({ ExtSpike with Emission := r.2, Neuron := toU32 ((p.Neurons : Int) + toU32 j) },
    Populations.set r.1 p1)

/-- The function `addNewSpike` (the outputs apart): the new values of
`SynapticMatrix` and `OldestLayer`. -/
def addNewSpike {R : Type} [LinearOrderedRing R] [FloorRing R] (Life : R)
    (SynapticMatrix : List (synaptic_layer R)) (OldestLayer : Int)
    (n : Nat) (t : timex R) (ISI : R) (l : Nat) : List (synaptic_layer R) × Int :=
  let sp : spike R := { Emission := t, Neuron := n, ISI := ISI }
  let L := SynapticMatrix.getD l blankLayer
  if L.Empty then
    let SM1 := SynapticMatrix.set l { L with Spike := sp, Empty := false }
    (SM1, findOldestLayer Life SM1)
  else (SynapticMatrix.set l { L with Queue := L.Queue ++ [sp] }, OldestLayer)

/-- A spike with its emission time moved forward by `d`. -/
def delaySpike {R : Type} [LinearOrderedRing R] (d : R) (sp : spike R) : spike R :=
  { sp with Emission := ({ sp.Emission with Millis := sp.Emission.Millis + d } : timex R) }

/-- The first part of `endSpikeManagement`: the managed spike moves to the next
layer, `DelayStep` later (the statement `Spike.Emission.Millis += DelayStep` acts
on the spike of the layer itself). -/
def moveToNextLayer {R : Type} [LinearOrderedRing R] [FloorRing R] (Life DelayStep : R)
    (SynapticMatrix : List (synaptic_layer R)) (OldestLayer : Int) (DelayLayer : Nat) :
    List (synaptic_layer R) × Int :=
  if (DelayLayer : Int) < (SynapticMatrix.length : Int) - 1 then
    let L := SynapticMatrix.getD DelayLayer blankLayer
    let Spike1 := delaySpike DelayStep L.Spike
    addNewSpike Life (SynapticMatrix.set DelayLayer { L with Spike := Spike1 }) OldestLayer
      Spike1.Neuron Spike1.Emission Spike1.ISI (DelayLayer + 1)
  else (SynapticMatrix, OldestLayer)

/-- The second part of `endSpikeManagement`: the next spike of the queue of the
layer becomes its current spike, or the layer is marked empty. -/
def nextQueuedSpike {R : Type} [LinearOrderedRing R]
    (SynapticMatrix : List (synaptic_layer R)) (DelayLayer : Nat) : List (synaptic_layer R) :=
  let L := SynapticMatrix.getD DelayLayer blankLayer
  match L.Queue with
  | [] => SynapticMatrix.set DelayLayer { L with Empty := true }
  | sp :: rest => SynapticMatrix.set DelayLayer { L with Spike := sp, Queue := rest }

/-- The function `endSpikeManagement`: the new values of `SynapticMatrix` and
`OldestLayer` (`DelayNumber` is the number of layers). -/
def endSpikeManagement {R : Type} [LinearOrderedRing R] [FloorRing R] (Life DelayStep : R)
    (SynapticMatrix : List (synaptic_layer R)) (OldestLayer : Int) (DelayLayer : Nat) :
    List (synaptic_layer R) × Int :=
  let r1 := moveToNextLayer Life DelayStep SynapticMatrix OldestLayer DelayLayer
  let SM2 := nextQueuedSpike r1.1 DelayLayer
  (SM2, findOldestLayer Life SM2)

/-- The spikes held by a layer, the oldest first: the current one and those in
the queue. -/
def pendingSpikes {R : Type} (L : synaptic_layer R) : List (spike R) :=
  if L.Empty then [] else L.Spike :: L.Queue

/-- A call that acts on the delay layers: `addNewSpike(n, t, ISI, 0)` made by a
neuron kernel, or `endSpikeManagement(l)` made by `simulation()` once the current
spike of layer `l` has been dispatched. -/
inductive LayerOp (R : Type) where
  | add (sp : spike R)
  | finish (l : Nat)

/-- A sequence of calls on the delay layers: the final layers and, appended to
`log`, the spikes dispatched (with their layer), in order.  The result is `none`
when `endSpikeManagement` is called for a layer that is empty or does not exist
(`simulation()` calls it for the layer returned by `whereIsOldestSpike`, which
holds a spike). -/
def runLayerOps {R : Type} [LinearOrderedRing R] [FloorRing R] (Life DelayStep : R) :
    List (LayerOp R) → List (synaptic_layer R) × Int → List (Nat × spike R) →
      Option ((List (synaptic_layer R) × Int) × List (Nat × spike R))
  | [], S, log => some (S, log)
  | LayerOp.add sp :: ops, S, log =>
    runLayerOps Life DelayStep ops
      (addNewSpike Life S.1 S.2 sp.Neuron sp.Emission sp.ISI 0) log
  | LayerOp.finish l :: ops, S, log =>
    match S.1[l]? with
    | none => none
    | some L =>
      if L.Empty then none
      else
        runLayerOps Life DelayStep ops (endSpikeManagement Life DelayStep S.1 S.2 l)
          (log ++ [(l, L.Spike)])

/-- The spikes added to layer 0 by a sequence of calls. -/
def addedSpikes {R : Type} : List (LayerOp R) → List (spike R)
  | [] => []
  | LayerOp.add sp :: ops => sp :: addedSpikes ops
  | LayerOp.finish _ :: ops => addedSpikes ops

/-- The spikes of a log that were dispatched from layer `l`. -/
def dispatchedAt {R : Type} (l : Nat) (log : List (Nat × spike R)) : List (spike R) :=
  (log.filter (fun e => e.1 = l)).map Prod.snd

/-- A layer marked empty has an empty queue (so it is when `createSynapticMatrix`
has initialised it, and the driver keeps it so). -/
def layersOk {R : Type} (SynapticMatrix : List (synaptic_layer R)) : Prop :=
  ∀ L ∈ SynapticMatrix, L.Empty = true → L.Queue = []

/-- The layers as `createSynapticMatrix` leaves them: `DelayNumber` layers without
spikes (the axon segments are left out). -/
def emptyLayers (R : Type) [LinearOrderedRing R] (DelayNumber : Nat) :
    List (synaptic_layer R) :=
  List.replicate DelayNumber blankLayer

/-- Two populations of 2 and 3 neurons, whose next external spikes are at 5 ms
and at 3 ms. -/
def twoPopulations : List (population Int) :=
  [{ InvNuExt := 10, Emission := ⟨5, 0⟩, NuExt := 100, CExt := 1, N := 2, Neurons := 0 },
   { InvNuExt := 10, Emission := ⟨3, 0⟩, NuExt := 100, CExt := 1, N := 3, Neurons := 2 }]

/-- The spikes that went or go through a layer are those added to layer 0, for
layer 0, and those dispatched from the layer before, `DelayStep` later, for the
other layers. -/
def StreamInv {R : Type} [LinearOrderedRing R] (DelayStep : R)
    (SynapticMatrix : List (synaptic_layer R)) (log : List (Nat × spike R))
    (added : List (spike R)) : Prop :=
  layersOk SynapticMatrix ∧
  ∀ (l : Nat) (L : synaptic_layer R), SynapticMatrix[l]? = some L →
    dispatchedAt l log ++ pendingSpikes L
      = if l = 0 then added else (dispatchedAt (l - 1) log).map (delaySpike DelayStep)

/-- A spike of neuron 1 is added to layer 0 at 5 ms, then it is dispatched from
layer 0 and from layer 1. -/
def oneSpikeOps : List (LayerOp Int) :=
  [LayerOp.add (spikeAt 5 1), LayerOp.finish 0, LayerOp.finish 1]

/-! ## neurons.c : the neuron kernels

The kernels are given for one neuron: they take the fields of the neuron and
return their new values, together with the spike passed to
`addNewSpike(Post, t, ISI, 0)` when the neuron emits.  The efficacy `J` comes
from `getJ`, which stands for the call `(*(C->updateSynapseState))(Post, s, C, Sp)`
(for a synapse `s`) or for the draw `JTab[(int)(Random()*ANALOG_DEPTH)]` (for an
external spike): it reads the neuron and acts on the state `σ` of the synapses and
of the random generator.  `exp` is the function of math.h; the outputs
(`outNeuronalState`, `updateCurrent`) are left out; the divisors `Tau`, `TauC` and
`TauC - Tau` are taken to be non-zero. -/

/-- The fields `Tr` and `Te` of the `neuron` struct and the state variables of the
neuron: the membrane potential `V` and, for the models with calcium, the
concentration `C`. -/
structure neuron (R : Type) where
  Tr : timex R
  Te : timex R
  V : R
  C : R

/-- The parameters of a population of neurons: the fields of `neuron_params_LIF`,
`neuron_params_LIFCA`, `neuron_params_VIF` and `neuron_params_VIFCA`. -/
structure neuron_params (R : Type) where
  Tau : R
  Beta : R
  Theta : R
  H : R
  Tarp : R
  AlphaC : R
  TauC : R
  gC : R

/-- The time `t` with `d` added to its field `Millis`. -/
def timexAdd {R : Type} [LinearOrderedRing R] (t : timex R) (d : R) : timex R :=
  { t with Millis := t.Millis + d }

/-- The function `updateNeuronState_LIF`. -/
def updateNeuronState_LIF {R σ : Type} [LinearOrderedField R] (exp : R → R)
    (P : neuron_params R) (DelayMin : R) (getJ : neuron R → σ → σ × R)
    (Post : Nat) (Sp : spike R) (nr : neuron R) (s : σ) : neuron R × σ × Option (spike R) :=
  let t := Sp.Emission
  if diffTimex t nr.Te > P.Tarp then
    -- the leakage
    let r := diffTimex nr.Tr t / P.Tau
    let V1 := if -r < 17 / 100 then nr.V * (1 + r * (1 + 1 / 2 * r)) else nr.V * exp r
    let j := getJ { nr with V := V1 } s
    let V2 := V1 + j.2
    if V2 ≥ P.Theta then
      ({ Tr := timexAdd t P.Tarp, Te := t, V := P.H, C := nr.C }, j.1,
        some { Emission := timexAdd t DelayMin, Neuron := Post, ISI := diffTimex t nr.Te })
    else ({ nr with V := V2, Tr := t }, j.1, none)
  else (nr, (getJ nr s).1, none)

/-- The function `updateNeuronState_LIFCA`. -/
def updateNeuronState_LIFCA {R σ : Type} [LinearOrderedField R] (exp : R → R)
    (P : neuron_params R) (DelayMin : R) (getJ : neuron R → σ → σ × R)
    (Post : Nat) (Sp : spike R) (nr : neuron R) (s : σ) : neuron R × σ × Option (spike R) :=
  let t := Sp.Emission
  let deltaT := diffTimex t nr.Tr
  let TFLES := diffTimex t nr.Te
  if TFLES > P.Tarp then
    let d : R × R :=
      if diffTimex nr.Tr nr.Te < P.Tarp then
        (nr.C * exp (-(deltaT - TFLES + P.Tarp) / P.TauC), TFLES - P.Tarp)
      else (nr.C, deltaT)
    let c0 := d.1
    let rc := -d.2 / P.TauC
    let rm := -d.2 / P.Tau
    let erm := exp rm
    let erc := exp rc
    let V1 := nr.V * erm - P.gC * (P.TauC * P.Tau) / (P.TauC - P.Tau) * c0 * (erc - erm)
    let C1 := d.1 * erc
    let j := getJ { nr with V := V1, C := C1 } s
    let V2 := V1 + j.2
    if V2 ≥ P.Theta then
      ({ Tr := t, Te := t, V := P.H, C := C1 + P.AlphaC }, j.1,
        some { Emission := timexAdd t DelayMin, Neuron := Post, ISI := diffTimex t nr.Te })
    else ({ Tr := t, Te := nr.Te, V := V2, C := C1 }, j.1, none)
  else
    let C1 := nr.C * exp (-deltaT / P.TauC)
    ({ nr with C := C1, Tr := t }, (getJ { nr with C := C1 } s).1, none)

/-- The function `updateNeuronState_VIF`. -/
def updateNeuronState_VIF {R σ : Type} [LinearOrderedField R]
    (P : neuron_params R) (DelayMin : R) (getJ : neuron R → σ → σ × R)
    (Post : Nat) (Sp : spike R) (nr : neuron R) (s : σ) : neuron R × σ × Option (spike R) :=
  let t := Sp.Emission
  if diffTimex t nr.Te > P.Tarp then
    -- the constant leakage and the reflecting barrier
    let V0 := nr.V - diffTimex t nr.Tr * P.Beta
    let V1 := if V0 < 0 then 0 else V0
    let j := getJ { nr with V := V1 } s
    let V2 := V1 + j.2
    let V3 := if V2 < 0 then 0 else V2
    if V3 ≥ P.Theta then
      ({ Tr := timexAdd t P.Tarp, Te := t, V := P.H, C := nr.C }, j.1,
        some { Emission := timexAdd t DelayMin, Neuron := Post, ISI := diffTimex t nr.Te })
    else ({ nr with V := V3, Tr := t }, j.1, none)
  else (nr, (getJ nr s).1, none)

/-- The function `updateNeuronState_VIFCA`. -/
def updateNeuronState_VIFCA {R σ : Type} [LinearOrderedField R] (exp : R → R)
    (P : neuron_params R) (DelayMin : R) (getJ : neuron R → σ → σ × R)
    (Post : Nat) (Sp : spike R) (nr : neuron R) (s : σ) : neuron R × σ × Option (spike R) :=
  let t := Sp.Emission
  let deltaT := diffTimex t nr.Tr
  let TFLES := diffTimex t nr.Te
  if TFLES > P.Tarp then
    let d : R × R :=
      if diffTimex nr.Tr nr.Te < P.Tarp then
        (nr.C * exp (-(deltaT - TFLES + P.Tarp) / P.TauC), TFLES - P.Tarp)
      else (nr.C, deltaT)
    let c0 := d.1
    let C1 := d.1 * exp (-d.2 / P.TauC)
    let V0 := nr.V - (P.Beta * d.2 + P.gC * P.TauC * (c0 - C1))
    let V1 := if V0 < 0 then 0 else V0
    let j := getJ { nr with V := V1, C := C1 } s
    let V2 := V1 + j.2
    let V3 := if V2 < 0 then 0 else V2
    if V3 ≥ P.Theta then
      ({ Tr := t, Te := t, V := P.H, C := C1 + P.AlphaC }, j.1,
        some { Emission := timexAdd t DelayMin, Neuron := Post, ISI := diffTimex t nr.Te })
    else ({ Tr := t, Te := nr.Te, V := V3, C := C1 }, j.1, none)
  else
    let C1 := nr.C * exp (-deltaT / P.TauC)
    ({ nr with C := C1, Tr := t }, (getJ { nr with C := C1 } s).1, none)

/-- The function `getNeuronState_VIF`: the array `StateVars` it fills. -/
def getNeuronState_VIF {R : Type} [LinearOrderedField R]
    (P : neuron_params R) (t : timex R) (nr : neuron R) : List R :=
  if diffTimex t nr.Te > P.Tarp then
    let V0 := nr.V - diffTimex t nr.Tr * P.Beta
    [if V0 < 0 then 0 else V0]
  else [P.H]

/-- The function `getNeuronState_VIFCA`: the array `StateVars` it fills. -/
def getNeuronState_VIFCA {R : Type} [LinearOrderedField R] (exp : R → R)
    (P : neuron_params R) (t : timex R) (nr : neuron R) : List R :=
  let deltaT := diffTimex t nr.Tr
  let TFLES := diffTimex t nr.Te
  if TFLES > P.Tarp then
    let d : R × R :=
      if diffTimex nr.Tr nr.Te < P.Tarp then
        (nr.C * exp (-(deltaT - TFLES + P.Tarp) / P.TauC), TFLES - P.Tarp)
      else (nr.C, deltaT)
    let c0 := d.1
    let C1 := d.1 * exp (-d.2 / P.TauC)
    let V0 := nr.V - (P.Beta * d.2 + P.gC * P.TauC * (c0 - C1))
    [if V0 < 0 then 0 else V0, C1]
  else [P.H, nr.C * exp (-deltaT / P.TauC)]

/-- The neuron models of neurons.c. -/
inductive neuron_type where
  | LIF
  | LIFCA
  | VIF
  | VIFCA

/-- The function pointer `updateNeuronState`, as set by `setNeuronType` for a
neuron model. -/
def updateNeuronState {R σ : Type} [LinearOrderedField R] (ty : neuron_type) (exp : R → R)
    (P : neuron_params R) (DelayMin : R) (getJ : neuron R → σ → σ × R)
    (Post : Nat) (Sp : spike R) (nr : neuron R) (s : σ) : neuron R × σ × Option (spike R) :=
  match ty with
  | .LIF => updateNeuronState_LIF exp P DelayMin getJ Post Sp nr s
  | .LIFCA => updateNeuronState_LIFCA exp P DelayMin getJ Post Sp nr s
  | .VIF => updateNeuronState_VIF P DelayMin getJ Post Sp nr s
  | .VIFCA => updateNeuronState_VIFCA exp P DelayMin getJ Post Sp nr s

/-- The potential that the kernels of the LIF and VIF models compare with `Theta`
outside the refractory period, `J` being the efficacy: the potential after the
leakage and the addition of `J` (and, for VIF, the reflecting barrier). -/
def potentialAfterJ {R : Type} [LinearOrderedField R] (ty : neuron_type) (exp : R → R)
    (P : neuron_params R) (t : timex R) (nr : neuron R) (J : R) : R :=
  match ty with
  | .VIF =>
    let V0 := nr.V - diffTimex t nr.Tr * P.Beta
    let V1 := if V0 < 0 then 0 else V0
    if V1 + J < 0 then 0 else V1 + J
  | _ =>
    let r := diffTimex nr.Tr t / P.Tau
    (if -r < 17 / 100 then nr.V * (1 + r * (1 + 1 / 2 * r)) else nr.V * exp r) + J

/-- The potential of a LIF or VIF neuron after the leakage, as the synapse sees
it. -/
def potentialBeforeJ {R : Type} [LinearOrderedField R] (ty : neuron_type) (exp : R → R)
    (P : neuron_params R) (t : timex R) (nr : neuron R) : R :=
  match ty with
  | .VIF =>
    let V0 := nr.V - diffTimex t nr.Tr * P.Beta
    if V0 < 0 then 0 else V0
  | _ =>
    let r := diffTimex nr.Tr t / P.Tau
    if -r < 17 / 100 then nr.V * (1 + r * (1 + 1 / 2 * r)) else nr.V * exp r

/-- A neuron at rest since time 0 (what is read when a neuron index is out of
range). -/
def blankNeuron {R : Type} [LinearOrderedRing R] : neuron R :=
  { Tr := ⟨0, 0⟩, Te := ⟨0, 0⟩, V := 0, C := 0 }

/-- The state the driver acts on: the populations, the neurons, the delay layers
with the cached `OldestLayer`, and the state `Syn` of the synapses and of the
random generator behind the efficacies. -/
structure perseo_state (R σ : Type) where
  Populations : List (population R)
  Neurons : List (neuron R)
  SynapticMatrix : List (synaptic_layer R)
  OldestLayer : Int
  Syn : σ

/-- The call `(*updateNeuronState)(Post, s, Sp)` on the state of the driver:
`params Post` are the parameters of the population of neuron `Post`, `s` is the
offset of the synapse (`none` for `NULL`), and the spike emitted, if any, goes
through `addNewSpike` to layer 0. -/
def callUpdateNeuronState {R σ : Type} [LinearOrderedField R] [FloorRing R]
    (ty : neuron_type) (exp : R → R) (Life DelayMin : R) (params : Nat → neuron_params R)
    (getJ : Nat → Option Int → spike R → neuron R → σ → σ × R)
    (Post : Nat) (s : Option Int) (Sp : spike R) (st : perseo_state R σ) : perseo_state R σ :=
  let r := updateNeuronState ty exp (params Post) DelayMin (getJ Post s Sp) Post Sp
    (st.Neurons.getD Post blankNeuron) st.Syn
  let SM : List (synaptic_layer R) × Int :=
    match r.2.2 with
    | none => (st.SynapticMatrix, st.OldestLayer)
    | some sp => addNewSpike Life st.SynapticMatrix st.OldestLayer sp.Neuron sp.Emission sp.ISI 0
  { st with Neurons := st.Neurons.set Post r.1, Syn := r.2.1, SynapticMatrix := SM.1,
            OldestLayer := SM.2 }

/-- Parameters of a VIF population: threshold 20, reset potential 5, refractory
period 2 ms, constant leakage 1 per ms. -/
def vifParams : neuron_params ℚ :=
  { Tau := 1, Beta := 1, Theta := 20, H := 5, Tarp := 2, AlphaC := 1, TauC := 2, gC := 1 }

/-- A neuron that emitted at 1 ms and received its last spike at 3 ms, with
potential 15 and calcium concentration 2. -/
def restingNeuron : neuron ℚ :=
  { Tr := ⟨3, 0⟩, Te := ⟨1, 0⟩, V := 15, C := 2 }

/-- A spike emitted at `t` ms by neuron `n`. -/
def spikeAtQ (t : Int) (n : Nat) : spike ℚ :=
  { Emission := { Seconds := t, Millis := 0 }, Neuron := n, ISI := 0 }

/-- A state of the driver with one VIF neuron and two empty delay layers. -/
def oneNeuronState : perseo_state ℚ Nat :=
  { Populations := []
    Neurons := [restingNeuron]
    SynapticMatrix := emptyLayers ℚ 2
    OldestLayer := NULL_LAYER
    Syn := 0 }

/-! ## events.c, modules.c and perseo.c : the timed events and the main loop

The sorted queue `Events` is given by the list of its items in the order in which
`getSortedQueueItem` returns them (the sorted queue of sortedqueue.c is shown
below to behave like this list).  The runs described are those that no signal
interrupts (`QuitSimulation` stays false) and during which the command file
receives no new line (`readCommands(&Time)` finds nothing to read); the outputs
are left out. -/

/-- The hook functions of the events: `setPopulationParamFromEvent` of commands.c,
and the other ones, which are numbered. -/
inductive cmd_func where
  | setPopulationParamFromEvent
  | hook (k : Nat)

/-- The `event` struct (the string parameter apart). -/
structure event (R : Type) where
  Time : R
  cmdFunc : cmd_func
  Param : List R

/-- The function `cmpEvents`. -/
def cmpEvents {R : Type} [LinearOrderedField R] (Left Right : event R) : Int :=
  if Left.Time < Right.Time then -1
  else if Left.Time > Right.Time then 1
  else 0

/-- The function `putEvent`, that is `putSortedQueueItem(&Events, Event)`: the
event goes before the first event that `cmpEvents` puts after it. -/
def putEvent {R : Type} [LinearOrderedField R] (Event : event R) : List (event R) → List (event R)
  | [] => [Event]
  | e :: rest => if cmpEvents Event e < 0 then Event :: e :: rest else e :: putEvent Event rest

/-- The global variables that the hook functions may read and write: the state
of the driver, the parameters of the neurons of each population
(`Populations[p].Parameters`), the values `U` that the next calls of `Random()`
made to choose a neuron return, and the values `lg` of `log(1-Random())` for the
next calls made to draw a waiting time. -/
structure globals (R σ : Type) where
  P : perseo_state R σ
  Parameters : List (neuron_params R)
  U : Nat → R
  lg : Nat → R

/-- An entry of the record of a run: the hook function of an event was called,
or `(*updateNeuronState)(Post, pSyn, &Sp)` was called. -/
inductive run_entry (R : Type) where
  | handled (Event : event R)
  | updated (Post : Int) (Sp : spike R)

/-- The state of `simulation()`: the global variables, the queue `Events`, the
local variables `ExtSpike` and `Time`, and the record of the calls made so far. -/
structure simulation_state (R σ : Type) where
  G : globals R σ
  Events : List (event R)
  ExtSpike : spike R
  Time : R
  record : List (run_entry R)

/-- Parameters all equal to 0 (what is read when a population index is out of
range). -/
def blankParams {R : Type} [LinearOrderedField R] : neuron_params R :=
  { Tau := 0, Beta := 0, Theta := 0, H := 0, Tarp := 0, AlphaC := 0, TauC := 0, gC := 0 }

/-- Whether `NeuronType` is `NT_VIFCA` or `NT_LIFCA`. -/
def hasCalcium : neuron_type → Bool
  | .VIFCA => true
  | .LIFCA => true
  | _ => false

/-- The function `setPopulationParam` (the product `NuExt * CExt * N` is taken to
be non-zero). -/
def setPopulationParam {R σ : Type} [LinearOrderedField R] [FloorRing R] (ty : neuron_type)
    (Life : R) (G : globals R σ) (Pop ParamNum : Int) (ParamValue Time : R) : globals R σ :=
  if 0 ≤ Pop ∧ Pop < (G.P.Populations.length : Int) then
    let p := G.P.Populations.getD Pop.toNat blankPopulation
    if ParamNum = 4 then
      if ParamValue ≤ 0 then
        let p1 : population R := { p with NuExt := 0, InvNuExt := -1, Emission := doubleToTimex Life }
        { G with P := { G.P with Populations := G.P.Populations.set Pop.toNat p1 } }
      else
        let inv := 1000 / (ParamValue * p.CExt * (p.N : R))
        let e := doubleToTimex (Time - inv * G.lg 0)
        let p1 : population R := { p with NuExt := ParamValue, InvNuExt := inv, Emission := e }
        { G with P := { G.P with Populations := G.P.Populations.set Pop.toNat p1 },
                 lg := fun k => G.lg (k + 1) }
    else if ParamNum = 10 then
      if hasCalcium ty = true ∧ ParamValue > 0 then
        let q := G.Parameters.getD Pop.toNat blankParams
        { G with Parameters := G.Parameters.set Pop.toNat { q with TauC := ParamValue } }
      else G
    else G
  else G

/-- The call `(*(Event->cmdFunc))(Event)` made by `manageEvent` once the event
has left the queue: `hooks k Event G` gives, for the hook function number `k`,
the new global variables and the events that it puts in the queue, in order. -/
def callCmdFunc {R σ : Type} [LinearOrderedField R] [FloorRing R] (ty : neuron_type) (Life : R)
    (hooks : Nat → event R → globals R σ → globals R σ × List (event R))
    (Event : event R) (s : simulation_state R σ) : simulation_state R σ :=
  match Event.cmdFunc with
  | .setPopulationParamFromEvent =>
    { s with G := setPopulationParam ty Life s.G (truncToInt (Event.Param.getD 0 0))
                    (truncToInt (Event.Param.getD 1 0)) (Event.Param.getD 2 0) Event.Time,
             record := s.record ++ [run_entry.handled Event] }
  | .hook k =>
    { s with G := (hooks k Event s.G).1,
             Events := (hooks k Event s.G).2.foldl (fun q e => putEvent e q) s.Events,
             record := s.record ++ [run_entry.handled Event] }

/-- The function `manageEvent`; the result is `none` when more than `fuel` events
have to be managed. -/
def manageEvent {R σ : Type} [LinearOrderedField R] [FloorRing R] (ty : neuron_type) (Life : R)
    (hooks : Nat → event R → globals R σ → globals R σ × List (event R)) :
    Nat → R → simulation_state R σ → Option (simulation_state R σ)
  | fuel, Time, s =>
    match s.Events with
    | [] => some s
    | Event :: rest =>
      if Time > Event.Time then
        match fuel with
        | 0 => none
        | fuel + 1 =>
          manageEvent ty Life hooks fuel Time (callCmdFunc ty Life hooks Event { s with Events := rest })
      else some s

/-- An axon segment without synapses (what is read when a neuron index is out of
range). -/
def blankSegment : axon_segment :=
  { Synapses := 0, DPost := [], Exception := [], NumSynapses := 0 }

/-- The fixed data of a run: the neuron model, the function `exp`, `Life`,
`DelayMin`, `DelayStep`, the array `Connectivity`, the efficacies (see
`callUpdateNeuronState`), the hook functions of the events and the number of
events that one call of `manageEvent` may manage. -/
structure run_data (R σ : Type) where
  ty : neuron_type
  exp : R → R
  Life : R
  DelayMin : R
  DelayStep : R
  Connectivity : Nat → Nat → Option (connectivity R)
  getJ : Nat → Option Int → spike R → neuron R → σ → σ × R
  hooks : Nat → event R → globals R σ → globals R σ × List (event R)
  fuel : Nat

/-- The parameters of the population of neuron `Post`. -/
def paramsOf {R σ : Type} [LinearOrderedField R] (G : globals R σ) (Post : Nat) : neuron_params R :=
  G.Parameters.getD (popOf (G.P.Populations.map (fun p => p.N)) Post) blankParams

/-- The branch of the main loop for a spike that comes from outside. -/
def externalSpikeStep {R σ : Type} [LinearOrderedField R] [FloorRing R] (D : run_data R σ)
    (s : simulation_state R σ) : simulation_state R σ :=
  let P1 := callUpdateNeuronState D.ty D.exp D.Life D.DelayMin (paramsOf s.G) D.getJ
    s.ExtSpike.Neuron none s.ExtSpike s.G.P
  let r := ariseExternalSpike P1.Populations s.ExtSpike (s.G.U 0) (s.G.lg 0)
  let P2 : perseo_state R σ := { P1 with Populations := r.2 }
  { s with G := { s.G with P := P2, U := fun k => s.G.U (k + 1), lg := fun k => s.G.lg (k + 1) },
           Time := timexToDouble s.ExtSpike.Emission, ExtSpike := r.1,
           record := s.record ++ [run_entry.updated s.ExtSpike.Neuron s.ExtSpike] }

/-- The branch of the main loop for the current spike of layer `l`; the result
is `none` when the loop over the synapses reads a `NULL` entry of
`Connectivity`. -/
def internalSpikeStep {R σ : Type} [LinearOrderedField R] [FloorRing R] (D : run_data R σ)
    (l : Nat) (s : simulation_state R σ) : Option (simulation_state R σ) :=
  let IntSpike := (s.G.P.SynapticMatrix.getD l blankLayer).Spike
  let Pre := (s.G.P.SynapticMatrix.getD l blankLayer).Pre.getD IntSpike.Neuron blankSegment
  let Ns := s.G.P.Populations.map (fun p => p.N)
  match simulationSegment (fun p => synapseSizeAt D.Connectivity Ns IntSpike.Neuron p.toNat)
      Pre.Exception Pre.DPost (-1) 0 0 with
  | none => none
  | some (calls, _) =>
    let P1 := calls.foldl (fun P c =>
      callUpdateNeuronState D.ty D.exp D.Life D.DelayMin (paramsOf s.G) D.getJ c.1.toNat
        (some c.2) IntSpike P) s.G.P
    let r := endSpikeManagement D.Life D.DelayStep P1.SynapticMatrix P1.OldestLayer l
    let P2 : perseo_state R σ := { P1 with SynapticMatrix := r.1, OldestLayer := r.2 }
    some { s with G := { s.G with P := P2 }, Time := timexToDouble IntSpike.Emission,
                  record := s.record ++ calls.map (fun c => run_entry.updated c.1 IntSpike) }

/-- One iteration of the main loop of `simulation()`. -/
def simulationStep {R σ : Type} [LinearOrderedField R] [FloorRing R] (D : run_data R σ)
    (s : simulation_state R σ) : Option (simulation_state R σ) :=
  match manageEvent D.ty D.Life D.hooks D.fuel s.Time s with
  | none => none
  | some s1 =>
    let l := whereIsOldestSpike s1.G.P.OldestLayer s1.G.P.SynapticMatrix s1.ExtSpike
    if l = NULL_LAYER then some (externalSpikeStep D s1)
    else internalSpikeStep D l.toNat s1

/-- The first `n` iterations of the main loop of `simulation()` (fewer when the
loop ends before). -/
def simulationLoop {R σ : Type} [LinearOrderedField R] [FloorRing R] (D : run_data R σ) :
    Nat → simulation_state R σ → Option (simulation_state R σ)
  | 0, s => some s
  | n + 1, s =>
    if D.Life > s.Time then
      match simulationStep D s with
      | none => none
      | some s1 => simulationLoop D n s1
    else some s

/-- The function `simulation()` up to the end of the `n`-th iteration of its main
loop, from the global variables `G` and the queue `Events` left by the
initialisation; `ExtSpike` is the initial content of the local variable. -/
def simulation {R σ : Type} [LinearOrderedField R] [FloorRing R] (D : run_data R σ) (n : Nat)
    (G : globals R σ) (Events : List (event R)) (ExtSpike : spike R) :
    Option (simulation_state R σ) :=
  let r := ariseExternalSpike G.P.Populations ExtSpike (G.U 0) (G.lg 0)
  let P1 : perseo_state R σ := { G.P with Populations := r.2 }
  simulationLoop D n
    { G := { G with P := P1, U := fun k => G.U (k + 1), lg := fun k => G.lg (k + 1) },
      Events := Events, ExtSpike := r.1, Time := 0, record := [] }

/-- The emission times, in ms, of the spikes passed to `updateNeuronState`, in
the order of the calls. -/
def dispatchTimes {R : Type} [LinearOrderedField R] : List (run_entry R) → List R
  | [] => []
  | run_entry.handled _ :: rest => dispatchTimes rest
  | run_entry.updated _ Sp :: rest => timexToDouble Sp.Emission :: dispatchTimes rest

/-- The record of a run in short: the time of each event handled and the emission
time of each spike passed to `updateNeuronState` (`true` marks an event). -/
def recordTimes {R : Type} [LinearOrderedField R] (rec : List (run_entry R)) : List (Bool × R) :=
  rec.map (fun e =>
    match e with
    | run_entry.handled Event => (true, Event.Time)
    | run_entry.updated _ Sp => (false, timexToDouble Sp.Emission))

/-- The events of a record, in the order in which they were handled. -/
def handledEvents {R : Type} : List (run_entry R) → List (event R)
  | [] => []
  | run_entry.handled Event :: rest => Event :: handledEvents rest
  | run_entry.updated _ _ :: rest => handledEvents rest

/-- One VIF neuron that receives external spikes at 100 Hz, the first at time 0,
and two empty delay layers; every waiting time drawn is 10 ms
(`log(1-Random()) = -1`). -/
def oneNeuronGlobals : globals ℚ Nat :=
  { P := { Populations := [{ InvNuExt := 10, Emission := ⟨0, 0⟩, NuExt := 100, CExt := 1, N := 1, Neurons := 0 }]
           Neurons := [blankNeuron]
           SynapticMatrix := emptyLayers ℚ 2
           OldestLayer := NULL_LAYER
           Syn := 0 }
    Parameters := [vifParams]
    U := fun _ => 1 / 2
    lg := fun _ => -1 }

/-- A run of 100 ms with VIF neurons, efficacies all equal to 1, and hook
functions that do nothing. -/
def oneNeuronRun : run_data ℚ Nat :=
  { ty := neuron_type.VIF, exp := fun x => x, Life := 100, DelayMin := 1, DelayStep := 1,
    Connectivity := fun _ _ => none, getJ := fun _ _ _ _ s => (s, 1),
    hooks := fun _ _ G => (G, []), fuel := 10 }

/-- The event of the command `SET_PARAM 5 0 4 100`: at 5 ms, the rate of the
external spikes of population 0 is set to 100 Hz. -/
def setRateEvent : event ℚ :=
  { Time := 5, cmdFunc := cmd_func.setPopulationParamFromEvent, Param := [0, 4, 100] }

/-- An event at 5 ms whose hook function is the one number 0. -/
def plainEvent : event ℚ :=
  { Time := 5, cmdFunc := cmd_func.hook 0, Param := [] }

/-- The state of the run of `oneNeuronRun` when the spike emitted at 10 ms has been
dispatched, with an event of 5 ms and one of 10 ms in the queue. -/
def stateAfterTen : simulation_state ℚ Nat :=
  { G := oneNeuronGlobals, Events := [plainEvent, { plainEvent with Time := 10 }],
    ExtSpike := spikeAtQ 20 0, Time := 10, record := [] }

/-! ## synapses.c and connectivity.c : the plastic synapses

The synapses are given on exact reals: the casts `(float)` of the source are the
identity, and the outputs (`outSynapticState`, `updateSynTrans`,
`detailSynTrans`) are left out. -/

/-- The `synapse_AF` struct, which is also the `synapse_TWAM` struct. -/
structure synapse_AF (R : Type) where
  J0ndx : Nat
  J1ndx : Nat
  VJ : R

/-- The `synapse_params_AF` struct. -/
structure synapse_params_AF (R : Type) where
  J0 : R
  J1 : R
  DJ0 : R
  DJ1 : R
  AlphaJ : R
  BetaJ : R
  ThetaJ : R
  ThetaV : R
  JumpUp : R
  JumpDown : R
  RBup : R
  RBdown : R
  R0 : R

/-- The `synapse_params_TWAM` struct. -/
structure synapse_params_TWAM (R : Type) where
  J0 : R
  J1 : R
  DJ0 : R
  DJ1 : R
  AlphaJ : R
  BetaJ : R
  ThetaJ : R
  PotWindow : R
  JumpUp : R
  JumpDown : R
  RBup : R
  RBdown : R
  R0 : R

/-- The cast `(synapse_params_AF *)` of an array of parameters (an entry that the
array does not have reads as 0). -/
def asParamsAF {R : Type} [LinearOrderedField R] (p : List R) : synapse_params_AF R :=
  { J0 := p.getD 0 0, J1 := p.getD 1 0, DJ0 := p.getD 2 0, DJ1 := p.getD 3 0,
    AlphaJ := p.getD 4 0, BetaJ := p.getD 5 0, ThetaJ := p.getD 6 0, ThetaV := p.getD 7 0,
    JumpUp := p.getD 8 0, JumpDown := p.getD 9 0, RBup := p.getD 10 0, RBdown := p.getD 11 0,
    R0 := p.getD 12 0 }

/-- The cast `(synapse_params_TWAM *)` of an array of parameters. -/
def asParamsTWAM {R : Type} [LinearOrderedField R] (p : List R) : synapse_params_TWAM R :=
  { J0 := p.getD 0 0, J1 := p.getD 1 0, DJ0 := p.getD 2 0, DJ1 := p.getD 3 0,
    AlphaJ := p.getD 4 0, BetaJ := p.getD 5 0, ThetaJ := p.getD 6 0, PotWindow := p.getD 7 0,
    JumpUp := p.getD 8 0, JumpDown := p.getD 9 0, RBup := p.getD 10 0, RBdown := p.getD 11 0,
    R0 := p.getD 12 0 }

/-- The constants `NSP_AF` and `NSP_TWAM` of synapses.h. -/
def NSP_AF : Nat := 13

/-- The function `parseSynapseParams_AF` on the array `SynapseParams` of
`NumSynapseParameters` entries: 1 upon error, 0 otherwise. -/
def parseSynapseParams_AF {R : Type} [LinearOrderedField R] (SynapseParams : List R) : Int :=
  if SynapseParams.length ≠ NSP_AF then 1
  else
    let sp := asParamsAF SynapseParams
    if sp.DJ0 < 0 ∨ sp.DJ1 < 0 then 1
    else if sp.J1 < sp.J0 then 1
    else if ¬ (sp.ThetaJ ≥ sp.RBdown ∧ sp.RBup ≥ sp.ThetaJ) then 1
    else if sp.R0 < 0 ∨ sp.R0 > 1 then 1
    else 0

/-- The function `parseSynapseParams_TWAM`. -/
def parseSynapseParams_TWAM {R : Type} [LinearOrderedField R] (SynapseParams : List R) : Int :=
  if SynapseParams.length ≠ NSP_AF then 1
  else
    let sp := asParamsTWAM SynapseParams
    if sp.DJ0 < 0 ∨ sp.DJ1 < 0 then 1
    else if sp.J1 < sp.J0 then 1
    else if ¬ (sp.ThetaJ ≥ sp.RBdown ∧ sp.RBup ≥ sp.ThetaJ) then 1
    else if sp.R0 < 0 ∨ sp.R0 > 1 then 1
    else if sp.PotWindow ≤ 0 then 1
    else 0

/-- The function `updateSynapseState_AF`: the new state of the synapse and the
returned efficacy.  `JTab` is `c->JTab` and `V` is `Neurons[i].StateVar[0]`, the
membrane potential of the post-synaptic neuron. -/
def updateSynapseState_AF {R : Type} [LinearOrderedField R] (spar : synapse_params_AF R)
    (JTab : Nat → Nat → R) (V : R) (ss : synapse_AF R) (sp : spike R) : synapse_AF R × R :=
  let JflagBefore := ss.VJ > spar.ThetaJ
  let DeltaT := sp.ISI
  -- the drift of VJ and the reflecting barriers
  let VJ1 :=
    if JflagBefore then
      if ss.VJ + spar.BetaJ * DeltaT > spar.RBup then spar.RBup
      else ss.VJ + spar.BetaJ * DeltaT
    else
      if ss.VJ - spar.AlphaJ * DeltaT < spar.RBdown then spar.RBdown
      else ss.VJ - spar.AlphaJ * DeltaT
  -- the jump of VJ
  let VJ2 :=
    if V > spar.ThetaV then
      if VJ1 + spar.JumpUp > spar.RBup then spar.RBup else VJ1 + spar.JumpUp
    else
      if VJ1 - spar.JumpDown < spar.RBdown then spar.RBdown else VJ1 - spar.JumpDown
  let JflagAfter := VJ2 > spar.ThetaJ
  ({ ss with VJ := VJ2 }, if JflagAfter then JTab 1 ss.J1ndx else JTab 0 ss.J0ndx)

/-- The function `updateSynapseState_TWAM`; `Te` is `Neurons[i].Te`, the time of
the last emission of the post-synaptic neuron. -/
def updateSynapseState_TWAM {R : Type} [LinearOrderedField R] (spar : synapse_params_TWAM R)
    (JTab : Nat → Nat → R) (Te : timex R) (ss : synapse_AF R) (sp : spike R) : synapse_AF R × R :=
  let JflagBefore := ss.VJ > spar.ThetaJ
  let t := sp.Emission
  let DeltaT := sp.ISI
  let VJ1 :=
    if JflagBefore then
      if ss.VJ + spar.BetaJ * DeltaT > spar.RBup then spar.RBup
      else ss.VJ + spar.BetaJ * DeltaT
    else
      if ss.VJ - spar.AlphaJ * DeltaT < spar.RBdown then spar.RBdown
      else ss.VJ - spar.AlphaJ * DeltaT
  let VJ2 :=
    if diffTimex t Te < spar.PotWindow then
      if VJ1 + spar.JumpUp > spar.RBup then spar.RBup else VJ1 + spar.JumpUp
    else
      if VJ1 - spar.JumpDown < spar.RBdown then spar.RBdown else VJ1 - spar.JumpDown
  let JflagAfter := VJ2 > spar.ThetaJ
  ({ ss with VJ := VJ2 }, if JflagAfter then JTab 1 ss.J1ndx else JTab 0 ss.J0ndx)

/-- The function `setConnectivityParam`, for an entry `Connectivity[Post][Pre]`
whose array `Parameters` is `Parameters Post Pre` (`none` for a `NULL` entry): the
new array of that entry (the look-up tables apart). -/
def setConnectivityParam {R : Type} [LinearOrderedField R] (NumPopulations : Int)
    (Parameters : Int → Int → Option (List R)) (Post Pre ParamNum : Int) (ParamValue : R) :
    Option (List R) :=
  if Post ≥ 0 ∧ Post < NumPopulations ∧ Pre ≥ 0 ∧ Pre < NumPopulations then
    match Parameters Post Pre with
    | none => none
    | some p =>
      if (p.length : Int) > ParamNum - 5 then
        if ParamNum = 13 ∨ ParamNum = 14 then some (p.set (ParamNum - 5).toNat ParamValue)
        else if ParamNum ≥ 5 ∧ ParamNum ≤ 8 then some (p.set (ParamNum - 5).toNat ParamValue)
        else some p
      else some p
  else Parameters Post Pre

/-- The four steps of the update of a plastic synapse as the specification gives
them: `post` tells whether the post-synaptic neuron is active.  The result is the
new `VJ` and the state that selects the returned efficacy (`true` for the
potentiated one). -/
def plasticUpdateSpec {R : Type} [LinearOrderedField R]
    (AlphaJ BetaJ ThetaJ JumpUp JumpDown RBup RBdown : R) (post : Bool) (VJ ISI : R) : R × Bool :=
  let up := decide (VJ > ThetaJ)
  let VJ1 := if up = true then min (VJ + BetaJ * ISI) RBup else max (VJ - AlphaJ * ISI) RBdown
  let VJ2 := if post = true then min (VJ1 + JumpUp) RBup else max (VJ1 - JumpDown) RBdown
  (VJ2, decide (VJ2 > ThetaJ))

/-- Parameters of an AF synapse that `parseSynapseParams_AF` accepts, with
barriers at 0 and 1, threshold 1/2 and a jump up of -1. -/
def negativeJumpParams : List ℚ := [1, 2, 0, 0, 1, 1, 1 / 2, 0, -1, 1 / 4, 1, 0, 1 / 2]

/-- Parameters of an AF synapse with barriers at 0 and 1, threshold 1/2, drifts of
1 per ms and jumps of 1/4. -/
def plainJumpParams : List ℚ := [1, 2, 0, 0, 1, 1, 1 / 2, 0, 1 / 4, 1 / 4, 1, 0, 1 / 2]

/-- A spike emitted at 10 ms by neuron 0, 1 ms after the previous one. -/
def spikeAfterOne : spike ℚ :=
  { Emission := { Seconds := 10, Millis := 0 }, Neuron := 0, ISI := 1 }

/-! ## neurons.c : the state of the LIF neurons and the closed form of the LIFCA model -/

/-- The function `getNeuronState_LIF`: the array `StateVars` it fills. -/
def getNeuronState_LIF {R : Type} [LinearOrderedField R] (exp : R → R)
    (P : neuron_params R) (t : timex R) (nr : neuron R) : List R :=
  if diffTimex t nr.Te > P.Tarp then
    let r := diffTimex nr.Tr t / P.Tau
    if -r < 17 / 100 then [nr.V * (1 + r * (1 + 1 / 2 * r))] else [nr.V * exp r]
  else [P.H]

/-- The closed form of the specification for the potential of a LIFCA neuron after
an interval `Δ` without spikes, from the potential `V` and the calcium
concentration `C`:
`V·e^(-Δ/τ_m) - gC·(τ_C·τ_m/(τ_C - τ_m))·C·(e^(-Δ/τ_C) - e^(-Δ/τ_m))`. -/
def lifcaClosedForm {R : Type} [LinearOrderedField R] (exp : R → R) (Tau TauC gC : R)
    (Δ V C : R) : R :=
  V * exp (-Δ / Tau) - gC * (TauC * Tau / (TauC - Tau)) * C * (exp (-Δ / TauC) - exp (-Δ / Tau))

/-! ## modules.c : the definition of a population -/

/-- The event of the command `SET_PARAM 5 0 4 0`: at 5 ms, the rate of the external
spikes of population 0 is set to 0. -/
def stopRateEvent : event ℚ :=
  { Time := 5, cmdFunc := cmd_func.setPopulationParamFromEvent, Param := [0, 4, 0] }

/-- The record of a run in short: the neuron of each call of `updateNeuronState`
(`none` marks an event). -/
def recordPosts {R : Type} (rec : List (run_entry R)) : List (Option Int) :=
  rec.map (fun e =>
    match e with
    | run_entry.handled _ => none
    | run_entry.updated Post _ => some Post)

/-! ## connectivity.c and synapses.c : the definition of an element of the connectivity matrix -/

/-- The constants `ST_FXD`, `ST_AF` and `ST_TWAM` of synapses.h. -/
def ST_FXD : Int := 0

/-- The constant `ST_AF`. -/
def ST_AF : Int := 1

/-- The constant `ST_TWAM`. -/
def ST_TWAM : Int := 2

/-- The function `getSynapseType`. -/
def getSynapseType (SynapseType : String) : Int :=
  if SynapseType.toUpper = "FIXED" then ST_FXD
  else if SynapseType.toUpper = "AF" then ST_AF
  else if SynapseType.toUpper = "TWAM" then ST_TWAM
  else -1

/-- The function `parseSynapseParams_FXD`. -/
def parseSynapseParams_FXD {R : Type} [LinearOrderedField R] (SynapseParams : List R) : Int :=
  if SynapseParams.length ≠ 2 then 1
  else if SynapseParams.getD 1 0 < 0 then 1
  else 0

/-- The function `parseSynapseParams`. -/
def parseSynapseParams {R : Type} [LinearOrderedField R] (SynapseType : Int)
    (SynapseParams : List R) : Int :=
  if SynapseType = ST_FXD then parseSynapseParams_FXD SynapseParams
  else if SynapseType = ST_AF then parseSynapseParams_AF SynapseParams
  else if SynapseType = ST_TWAM then parseSynapseParams_TWAM SynapseParams
  else 1

/-- The size of a synapse set by `setConnectivitySynapseFields`: `sizeof(synapse_FXD)`,
one byte, or `sizeof(synapse_AF)` and `sizeof(synapse_TWAM)`, two bytes and a
`float` aligned on four bytes. -/
def synapseSizeOf (SynapseType : Int) : Int :=
  if SynapseType = ST_FXD then 1 else 8

/-- What `loadConnectivityDefinition` stores in the connectivity matrix: the indices
`post` and `pre` of the element, its fields `CProb`, `DMin`, `DMax` and
`SynapseSize`, its `SynapseType` and its array `Parameters`. -/
structure connectivity_entry (R : Type) where
  post : Int
  pre : Int
  c : connectivity R
  SynapseType : Int
  Parameters : List R

/-- The function `loadConnectivityDefinition` on the array `RealParams` of
`NumRealParams` entries and the array `StringParams` of `NumStringParams` entries:
the returned value and the element that it adds to the connectivity matrix, if
any (the look-up tables apart). -/
def loadConnectivityDefinition {R : Type} [LinearOrderedField R] [FloorRing R]
    (NumPopulations : Int) (RealParams : List R) (StringParams : List String) :
    Int × Option (connectivity_entry R) :=
  match StringParams with
  | [] => (1, none)
  | s :: _ =>
    let SynapseType := getSynapseType s
    if SynapseType ≥ 0 then
      if parseSynapseParams SynapseType (RealParams.drop 5) ≠ 0 then (1, none)
      else
        let post := truncToInt (RealParams.getD 0 0)
        let pre := truncToInt (RealParams.getD 1 0)
        if post < 0 ∨ post ≥ NumPopulations ∨ pre < 0 ∨ pre ≥ NumPopulations then (1, none)
        else
          (0, some { post := post, pre := pre,
                     c := { CProb := RealParams.getD 2 0, DMin := RealParams.getD 3 0,
                            DMax := RealParams.getD 4 0, SynapseSize := synapseSizeOf SynapseType },
                     SynapseType := SynapseType, Parameters := RealParams.drop 5 })
    else (1, none)

/-- The row `0 0 2 1 2 FIXED 1 0` of the connectivity file: post- and pre-synaptic
population 0, connection probability 2, delays between 1 and 2 ms, and a fixed
synapse of efficacy 1 without dispersion. -/
def overProbabilityRow : List ℚ := [0, 0, 2, 1, 2, 1, 0]

/-- The same row with the connection probability -1/2. -/
def negativeProbabilityRow : List ℚ := [0, 0, -1 / 2, 1, 2, 1, 0]

/-- The same row with the connection probability 1/2 and the post-synaptic
population 1. -/
def outOfRangeRow : List ℚ := [1, 0, 1 / 2, 1, 2, 1, 0]

/-! ## commands.c, events.c and results.c : the commands of the protocol

A line of the command file is given by its words before the first `#`: of each
word, its text and, when `sscanf` converts it with `%f`, its value (the `float`
values are exact reals).  The hook functions of the events are numbered; the
string parameter of an event and the outputs are left out. -/

/-- A word of a line: its text and its value as a number, if it is one. -/
structure token (R : Type) where
  text : String
  value : Option R

/-- A line of the command file: the words before the first `#`, and the text
that follows the first `#`, if any. -/
structure command_line (R : Type) where
  words : List (token R)
  comment : Option String

/-- The values that `sscanf` stores for the first `n` conversions `%f` of a
format: the values of the leading words that are numbers. -/
def scanFloats {R : Type} : Nat → List (token R) → List R
  | 0, _ => []
  | _ + 1, [] => []
  | n + 1, w :: ws =>
    match w.value with
    | some x => x :: scanFloats n ws
    | none => []

/-- The constants `PROCESSED_COMMAND`, `PARSING_ERROR` and `UNPROCESSED_COMMAND`. -/
def PROCESSED_COMMAND : Int := 1

/-- The constant `PARSING_ERROR`. -/
def PARSING_ERROR : Int := 0

/-- The constant `UNPROCESSED_COMMAND`. -/
def UNPROCESSED_COMMAND : Int := -1

/-- The number of the hook function `outDenStruct`. -/
def outDenStructHook : Nat := 1

/-- The number of the hook function `outSynStruct`. -/
def outSynStructHook : Nat := 2

/-- The number of the hook function `startSpikeRecording`. -/
def startSpikeRecordingHook : Nat := 3

/-- The number of the hook function `stopSpikeRecording`. -/
def stopSpikeRecordingHook : Nat := 4

/-- The number of the hook function `startStimulation`. -/
def startStimulationHook : Nat := 5

/-- The number of the hook function `stopStimulation`. -/
def stopStimulationHook : Nat := 6

/-- The number of the hook function `manageSinusoidalStimulation`. -/
def manageSinusoidalStimulationHook : Nat := 7

/-- The number of the hook function `setConnectivityParamFromEvent`. -/
def setConnectivityParamFromEventHook : Nat := 8

/-- The number of the hook function `manageExternalCommand`. -/
def manageExternalCommandHook : Nat := 9

/-- What the parsing of the commands reads and does not change: the flag
`SynStructResults` and, for each file name, the rows of two numbers at the start
of the file (`none` when `fopen` fails). -/
structure command_env (R : Type) where
  SynStructResults : Bool
  files : String → Option (List (R × R))

/-- What the parsing of the commands changes: the time `*pTime`, the queue
`Events` (a list in the order of `getSortedQueueItem`), and the events made by
`newEvent` so far, in the order of their creation. -/
structure command_state (R : Type) where
  Time : R
  Events : List (event R)
  created : List (event R)

/-- The function `newEvent` (the string parameter apart). -/
def newEvent {R : Type} [LinearOrderedField R] (Time : R) (cmdFunc : cmd_func) (Param : List R)
    (st : command_state R) : command_state R :=
  { st with Events := putEvent { Time := Time, cmdFunc := cmdFunc, Param := Param } st.Events,
            created := st.created ++ [{ Time := Time, cmdFunc := cmdFunc, Param := Param }] }

/-- The word that `sscanf` stores for a conversion `%s` from the words `ws`. -/
def commandText {R : Type} (ws : List (token R)) : String :=
  match ws with
  | [] => ""
  | w :: _ => w.text

/-- The word that `sscanf` stores for the first `%s` of a format, after `strupr`. -/
def commandOf {R : Type} (ws : List (token R)) : String :=
  (commandText ws).toUpper

/-- The function `processRandomStimuliCommand`. -/
def processRandomStimuliCommand {R : Type} (InputLine : List (token R))
    (st : command_state R) : Int × command_state R :=
  let f := scanFloats 3 (InputLine.drop 1)
  if commandOf InputLine = "RANDOM_STIMULI" then
    if 1 + f.length = 3 then (PROCESSED_COMMAND, st) else (PARSING_ERROR, st)
  else (UNPROCESSED_COMMAND, st)

/-- The function `processCorruptedStimulusCommand`. -/
def processCorruptedStimulusCommand {R : Type} (InputLine : List (token R))
    (st : command_state R) : Int × command_state R :=
  let f := scanFloats 3 (InputLine.drop 1)
  if commandOf InputLine = "CORRUPTED_STIMULUS" then
    if 1 + f.length = 3 then (PROCESSED_COMMAND, st) else (PARSING_ERROR, st)
  else (UNPROCESSED_COMMAND, st)

/-- The function `processPrintDendriticStructureCommand`. -/
def processPrintDendriticStructureCommand {R : Type} [LinearOrderedField R]
    (InputLine : List (token R)) (st : command_state R) : Int × command_state R :=
  let f := scanFloats 2 (InputLine.drop 1)
  if commandOf InputLine = "PRINT_DENDRITIC_STRUCTURE" then
    if 1 + f.length = 2 then
      let st1 := { st with Time := st.Time + f.getD 0 0 }
      (PROCESSED_COMMAND, newEvent st1.Time (cmd_func.hook outDenStructHook) [] st1)
    else (PARSING_ERROR, st)
  else (UNPROCESSED_COMMAND, st)

/-- The function `processPrintSynapticStructureCommand`. -/
def processPrintSynapticStructureCommand {R : Type} [LinearOrderedField R]
    (env : command_env R) (InputLine : List (token R)) (st : command_state R) :
    Int × command_state R :=
  let f := scanFloats 2 (InputLine.drop 1)
  if commandOf InputLine = "PRINT_SYNAPTIC_STRUCTURE" then
    if 1 + f.length = 2 then
      let st1 := { st with Time := st.Time + f.getD 0 0 }
      if env.SynStructResults = true then
        (PROCESSED_COMMAND, newEvent st1.Time (cmd_func.hook outSynStructHook) [] st1)
      else (PROCESSED_COMMAND, st1)
    else (PARSING_ERROR, st)
  else (UNPROCESSED_COMMAND, st)

/-- The function `processStartSpikeRecordingCommand`. -/
def processStartSpikeRecordingCommand {R : Type} [LinearOrderedField R]
    (InputLine : List (token R)) (st : command_state R) : Int × command_state R :=
  let f := scanFloats 2 (InputLine.drop 1)
  if commandOf InputLine = "START_SPIKE_RECORDING" then
    if 1 + f.length = 2 then
      let st1 := { st with Time := st.Time + f.getD 0 0 }
      (PROCESSED_COMMAND, newEvent st1.Time (cmd_func.hook startSpikeRecordingHook) [] st1)
    else (PARSING_ERROR, st)
  else (UNPROCESSED_COMMAND, st)

/-- The function `processStopSpikeRecordingCommand`. -/
def processStopSpikeRecordingCommand {R : Type} [LinearOrderedField R]
    (InputLine : List (token R)) (st : command_state R) : Int × command_state R :=
  let f := scanFloats 2 (InputLine.drop 1)
  if commandOf InputLine = "STOP_SPIKE_RECORDING" then
    if 1 + f.length = 2 then
      let st1 := { st with Time := st.Time + f.getD 0 0 }
      (PROCESSED_COMMAND, newEvent st1.Time (cmd_func.hook startSpikeRecordingHook) [] st1)
    else (PARSING_ERROR, st)
  else (UNPROCESSED_COMMAND, st)

/-- The function `processStartStimulationCommand`. -/
def processStartStimulationCommand {R : Type} [LinearOrderedField R]
    (InputLine : List (token R)) (st : command_state R) : Int × command_state R :=
  let f := scanFloats 4 (InputLine.drop 1)
  if commandOf InputLine = "START_STIMULATION" then
    if 1 + f.length = 4 then
      let st1 := { st with Time := st.Time + f.getD 0 0 }
      (PROCESSED_COMMAND,
        newEvent st1.Time (cmd_func.hook startStimulationHook) [f.getD 1 0, f.getD 2 0] st1)
    else (PARSING_ERROR, st)
  else (UNPROCESSED_COMMAND, st)

/-- The function `processStopStimulationCommand`. -/
def processStopStimulationCommand {R : Type} [LinearOrderedField R]
    (InputLine : List (token R)) (st : command_state R) : Int × command_state R :=
  let f := scanFloats 2 (InputLine.drop 1)
  if commandOf InputLine = "STOP_STIMULATION" then
    if 1 + f.length = 2 then
      let st1 := { st with Time := st.Time + f.getD 0 0 }
      (PROCESSED_COMMAND, newEvent st1.Time (cmd_func.hook stopStimulationHook) [] st1)
    else (PARSING_ERROR, st)
  else (UNPROCESSED_COMMAND, st)

/-- The function `processSetParamCommand` (a line with six numbers or more, for
which `sscanf` has no variable left, counts as a parsing error). -/
def processSetParamCommand {R : Type} [LinearOrderedField R]
    (InputLine : List (token R)) (st : command_state R) : Int × command_state R :=
  let f := scanFloats 6 (InputLine.drop 1)
  if commandOf InputLine = "SET_PARAM" then
    if 1 + f.length = 5 then
      let st1 := { st with Time := st.Time + f.getD 0 0 }
      (PROCESSED_COMMAND,
        newEvent st1.Time cmd_func.setPopulationParamFromEvent
          [f.getD 1 0, f.getD 2 0, f.getD 3 0] st1)
    else if 1 + f.length = 6 then
      let st1 := { st with Time := st.Time + f.getD 0 0 }
      (PROCESSED_COMMAND,
        newEvent st1.Time (cmd_func.hook setConnectivityParamFromEventHook)
          [f.getD 1 0, f.getD 2 0, f.getD 3 0, f.getD 4 0] st1)
    else (PARSING_ERROR, st)
  else (UNPROCESSED_COMMAND, st)

/-- The loop of `processSetParamFromCommand` over the rows of the parameter
file. -/
def setParamFromRows {R : Type} [LinearOrderedField R] (Pop ParamNum : R) :
    List (R × R) → command_state R → command_state R
  | [], st => st
  | row :: rows, st =>
    let st1 := { st with Time := st.Time + row.1 }
    setParamFromRows Pop ParamNum rows
      (newEvent st1.Time cmd_func.setPopulationParamFromEvent [Pop, ParamNum, row.2] st1)

/-- The function `processSetParamFromCommand`. -/
def processSetParamFromCommand {R : Type} [LinearOrderedField R] (env : command_env R)
    (InputLine : List (token R)) (st : command_state R) : Int × command_state R :=
  let f := scanFloats 3 (InputLine.drop 2)
  let ParamNum := if InputLine.length ≥ 2 then 2 + f.length else InputLine.length
  if commandOf InputLine = "SET_PARAM_FROM" then
    if ParamNum = 4 then
      match env.files (commandText (InputLine.drop 1)) with
      | none => (PARSING_ERROR, st)
      | some rows => (PROCESSED_COMMAND, setParamFromRows (f.getD 0 0) (f.getD 1 0) rows st)
    else (PARSING_ERROR, st)
  else (UNPROCESSED_COMMAND, st)

/-- The function `processSinusoidalStimulationCommand`. -/
def processSinusoidalStimulationCommand {R : Type} [LinearOrderedField R]
    (InputLine : List (token R)) (st : command_state R) : Int × command_state R :=
  let f := scanFloats 8 (InputLine.drop 1)
  if commandOf InputLine = "SINUSOIDAL_STIMULATION" then
    if 1 + f.length = 8 then
      let st1 := { st with Time := st.Time + f.getD 2 0 }
      (PROCESSED_COMMAND,
        newEvent st1.Time (cmd_func.hook manageSinusoidalStimulationHook)
          [f.getD 0 0, f.getD 1 0, st1.Time, f.getD 3 0, f.getD 4 0, f.getD 5 0, f.getD 6 0, 0]
          st1)
    else (PARSING_ERROR, st)
  else (UNPROCESSED_COMMAND, st)

/-- The function `processExternalCommand`. -/
def processExternalCommand {R : Type} [LinearOrderedField R]
    (InputLine : List (token R)) (st : command_state R) : Int × command_state R :=
  let f := scanFloats 1 (InputLine.drop 1)
  let ParamNum := if f.length = 1 then (if InputLine.length ≥ 3 then 3 else 2) else 1
  if commandOf InputLine = "EXTERNAL_COMMAND" then
    if ParamNum = 3 then
      let st1 := { st with Time := st.Time + f.getD 0 0 }
      (PROCESSED_COMMAND, newEvent st1.Time (cmd_func.hook manageExternalCommandHook) [] st1)
    else (PARSING_ERROR, st)
  else (UNPROCESSED_COMMAND, st)

/-- The function `parseAndSubmitCommand`: the returned value and the new state. -/
def parseAndSubmitCommand {R : Type} [LinearOrderedField R] (env : command_env R)
    (InputLine : command_line R) (st : command_state R) : Int × command_state R :=
  -- the comment is removed, and an empty line is skipped
  if InputLine.words.isEmpty = true then (1, st)
  else
    let r1 := processRandomStimuliCommand InputLine.words st
    if r1.1 ≠ UNPROCESSED_COMMAND then r1 else
    let r2 := processCorruptedStimulusCommand InputLine.words st
    if r2.1 ≠ UNPROCESSED_COMMAND then r2 else
    let r3 := processPrintDendriticStructureCommand InputLine.words st
    if r3.1 ≠ UNPROCESSED_COMMAND then r3 else
    let r4 := processStartSpikeRecordingCommand InputLine.words st
    if r4.1 ≠ UNPROCESSED_COMMAND then r4 else
    let r5 := processStopSpikeRecordingCommand InputLine.words st
    if r5.1 ≠ UNPROCESSED_COMMAND then r5 else
    let r6 := processStartStimulationCommand InputLine.words st
    if r6.1 ≠ UNPROCESSED_COMMAND then r6 else
    let r7 := processStopStimulationCommand InputLine.words st
    if r7.1 ≠ UNPROCESSED_COMMAND then r7 else
    let r8 := processSinusoidalStimulationCommand InputLine.words st
    if r8.1 ≠ UNPROCESSED_COMMAND then r8 else
    let r9 := processSetParamFromCommand env InputLine.words st
    if r9.1 ≠ UNPROCESSED_COMMAND then r9 else
    let r10 := processSetParamCommand InputLine.words st
    if r10.1 ≠ UNPROCESSED_COMMAND then r10 else
    let r11 := processExternalCommand InputLine.words st
    if r11.1 ≠ UNPROCESSED_COMMAND then r11 else
    let r12 := processPrintSynapticStructureCommand env InputLine.words st
    if r12.1 ≠ UNPROCESSED_COMMAND then r12 else (0, st)

/-- The loop of `readCommands` over the lines that `fgets` reads. -/
def readCommandLines {R : Type} [LinearOrderedField R] (env : command_env R) :
    List (command_line R) → command_state R → command_state R
  | [], st => st
  | Line :: rest, st => readCommandLines env rest (parseAndSubmitCommand env Line st).2

/-- The function `readCommands`: the new values of the static variable `LastTime`
and of the queue `Events`, with the events created.  `SimuTime` is `none` for the
call `readCommands(NULL)`, and `lines` are the lines that the command file has to
read (`none` when there is no command file). -/
def readCommands {R : Type} [LinearOrderedField R] (env : command_env R) (SimuTime : Option R)
    (LastTime : R) (lines : Option (List (command_line R))) (Events : List (event R)) :
    R × command_state R :=
  match SimuTime with
  | none =>
    -- `Time = START_TIME_OFFSET`, and `initEventManager()` empties the queue
    match lines with
    | none => (0, { Time := 0, Events := [], created := [] })
    | some ls => (0, readCommandLines env ls { Time := 0, Events := [], created := [] })
  | some t =>
    if LastTime + 1 > t then (LastTime, { Time := t, Events := Events, created := [] })
    else
      match lines with
      | none => (t, { Time := t, Events := Events, created := [] })
      | some ls => (t, readCommandLines env ls { Time := t, Events := Events, created := [] })

/-- The hook function `startSpikeRecording`: the new value of `SpikesResults`. -/
def startSpikeRecording (_SpikesResults : Bool) : Bool := true

/-- The hook function `stopSpikeRecording`: the new value of `SpikesResults`. -/
def stopSpikeRecording (_SpikesResults : Bool) : Bool := false

/-- The call `(*(Event->cmdFunc))(Event)` as to the flag `SpikesResults`. -/
def callHookOnSpikesResults (cmdFunc : cmd_func) (SpikesResults : Bool) : Bool :=
  match cmdFunc with
  | cmd_func.setPopulationParamFromEvent => SpikesResults
  | cmd_func.hook k =>
    if k = startSpikeRecordingHook then startSpikeRecording SpikesResults
    else if k = stopSpikeRecordingHook then stopSpikeRecording SpikesResults
    else SpikesResults

/-- The step of a timed command that is well formed when it has exactly `n`
numbers, the relative time being the number of index `k`; `flag` tells whether an
event is scheduled. -/
def timedStep {R : Type} [LinearOrderedField R] (n k : Nat) (flag : Bool) (fs : List R) :
    List (R × Bool) :=
  if fs.length = n then [(fs.getD k 0, flag)] else []

/-- The step of an `EXTERNAL_COMMAND`, well formed when a number and a word follow
the name. -/
def externalStep {R : Type} (args : List (token R)) : List (R × Bool) :=
  match args with
  | a :: _ :: _ =>
    match a.value with
    | some dT => [(dT, true)]
    | none => []
  | _ => []

/-- The steps of a `SET_PARAM_FROM`, well formed when a file name and exactly two
numbers follow the name and the file can be opened: one step for each row of the
file. -/
def paramFileSteps {R : Type} (env : command_env R) (args : List (token R)) : List (R × Bool) :=
  match args with
  | file :: rest =>
    if (scanFloats 3 rest).length = 2 then
      match env.files file.text with
      | some rows => rows.map (fun row => (row.1, true))
      | none => []
    else []
  | [] => []

/-- The steps of the time cursor that the specification gives for a line: for a
well-formed timed command, its relative time, with a flag that tells whether an
event is scheduled; for `SET_PARAM_FROM`, the relative times of the rows of the
file; nothing for the other lines (comments, empty lines, commands that are not
timed, not recognised or not well formed). -/
def timedSteps {R : Type} [LinearOrderedField R] (env : command_env R)
    (Line : command_line R) : List (R × Bool) :=
  match Line.words with
  | [] => []
  | w :: args =>
    let c := w.text.toUpper
    if c = "PRINT_DENDRITIC_STRUCTURE" ∨ c = "START_SPIKE_RECORDING"
        ∨ c = "STOP_SPIKE_RECORDING" ∨ c = "STOP_STIMULATION" then
      timedStep 1 0 true (scanFloats 2 args)
    else if c = "PRINT_SYNAPTIC_STRUCTURE" then
      timedStep 1 0 env.SynStructResults (scanFloats 2 args)
    else if c = "START_STIMULATION" then timedStep 3 0 true (scanFloats 4 args)
    else if c = "SINUSOIDAL_STIMULATION" then timedStep 7 2 true (scanFloats 8 args)
    else if c = "SET_PARAM" then
      timedStep 4 0 true (scanFloats 6 args) ++ timedStep 5 0 true (scanFloats 6 args)
    else if c = "EXTERNAL_COMMAND" then externalStep args
    else if c = "SET_PARAM_FROM" then paramFileSteps env args
    else []

/-- The times at which the events of a list of steps are scheduled, from the
cursor `T0`: each step adds its relative time to the cursor, and the event, if
any, is scheduled at the new cursor. -/
def scheduledTimes {R : Type} [LinearOrderedField R] : R → List (R × Bool) → List R
  | _, [] => []
  | T0, (dT, true) :: rest => (T0 + dT) :: scheduledTimes (T0 + dT) rest
  | T0, (dT, false) :: rest => scheduledTimes (T0 + dT) rest

/-- The cursor after a list of steps. -/
def cursorAfter {R : Type} [LinearOrderedField R] (T0 : R) (steps : List (R × Bool)) : R :=
  T0 + (steps.map (fun s => s.1)).sum

/-- The steps of the lines of a file, in order. -/
def allSteps {R : Type} [LinearOrderedField R] (env : command_env R) :
    List (command_line R) → List (R × Bool)
  | [] => []
  | Line :: rest => timedSteps env Line ++ allSteps env rest

/-- The function `getPopulationParam`; `ret` is the value that its static variable
`ret` holds before the call. -/
def getPopulationParam {R σ : Type} [LinearOrderedField R] (ty : neuron_type)
    (G : globals R σ) (ret : R) (Pop ParamNum : Int) : R :=
  if 0 ≤ Pop ∧ Pop < (G.P.Populations.length : Int) then
    let p := G.P.Populations.getD Pop.toNat blankPopulation
    if ParamNum = 4 then p.NuExt
    else if ParamNum = 10 then
      if hasCalcium ty = true then (G.Parameters.getD Pop.toNat blankParams).TauC else ret
    else ret
  else ret

/-- The hook function `manageSinusoidalStimulation`: the new global variables, the
event that it puts back in the queue, and the new value of the static variable
`ret` of `getPopulationParam`.  `sin` is the function of math.h. -/
def manageSinusoidalStimulation {R σ : Type} [LinearOrderedField R] [FloorRing R]
    (sin : R → R) (ty : neuron_type) (Life : R) (ret : R) (Event : event R) (G : globals R σ) :
    globals R σ × event R × R :=
  let Pop := Event.Param.getD 0 0
  let Num := Event.Param.getD 1 0
  let T0 := Event.Param.getD 2 0
  let Dt := Event.Param.getD 3 0
  let T := Event.Param.getD 4 0
  let Phi := Event.Param.getD 5 0
  let A := Event.Param.getD 6 0
  let got := getPopulationParam ty G ret (truncToInt Pop) (truncToInt Num)
  let tmp := if Event.Time ≤ T0 then got else Event.Param.getD 7 0
  let ret1 := if Event.Time ≤ T0 then got else ret
  let G1 := setPopulationParam ty Life G (truncToInt Pop) (truncToInt Num)
    (tmp * (1 + (A * sin (6283185307179586477 / 1000000000000000000 * (Event.Time - T0) / T)
      + Phi)))
    Event.Time
  (G1, { Event with Time := Event.Time + Dt, Param := Event.Param.set 7 tmp }, ret1)

/-- The value that the specification gives to the parameter at the time `t` of a
firing: `baseline · (1 + A·sin(2π(t−T0)/T + φ))`. -/
def sinusoidalValueSpec {R : Type} [LinearOrderedField R] (sin : R → R)
    (baseline A Phi T0 T t : R) : R :=
  baseline * (1 + A * sin (6283185307179586477 / 1000000000000000000 * (t - T0) / T + Phi))

/-- An environment where `SynStructResults` is true and no parameter file can be
opened. -/
def plainEnv : command_env ℚ := { SynStructResults := true, files := fun _ => none }

/-- The line `STOP_SPIKE_RECORDING 10`. -/
def stopRecordingLine : command_line ℚ :=
  { words := [⟨"STOP_SPIKE_RECORDING", none⟩, ⟨"10", some 10⟩], comment := none }

/-- The line `START_SPIKE_RECORDING 10`. -/
def startRecordingLine : command_line ℚ :=
  { words := [⟨"START_SPIKE_RECORDING", none⟩, ⟨"10", some 10⟩], comment := none }

/-- The state in which the first pass of `readCommands` starts. -/
def startState : command_state ℚ := { Time := 0, Events := [], created := [] }

/-- The state `st1` comes from the state `st` by the steps `steps`: the cursor has
advanced by their relative times, and the events created since are scheduled at
the times of the steps and are in the queue. -/
def StepsDone {R : Type} [LinearOrderedField R] (st st1 : command_state R)
    (steps : List (R × Bool)) : Prop :=
  st1.Time = cursorAfter st.Time steps ∧
  ∃ new : List (event R), st1.created = st.created ++ new ∧
    new.map (fun e => e.Time) = scheduledTimes st.Time steps ∧
    st1.Events.Perm (st.Events ++ new)

/-- The result `r` of a function that recognises the command of a line, from the
state `st`: the command is processed or rejected, the steps `steps` are done, and
a rejected command has no step and leaves the state as it is. -/
def LineDone {R : Type} [LinearOrderedField R] (st : command_state R)
    (r : Int × command_state R) (steps : List (R × Bool)) : Prop :=
  r.1 ≠ UNPROCESSED_COMMAND ∧ StepsDone st r.2 steps ∧ (r.1 = 0 → r.2 = st ∧ steps = [])

/-- One population of one neuron that receives external spikes at 100 Hz. -/
def sinusoidGlobals (R : Type) [LinearOrderedField R] : globals R Nat :=
  { P := { Populations := [{ InvNuExt := 10, Emission := ⟨0, 0⟩, NuExt := 100, CExt := 1, N := 1,
                             Neurons := 0 }]
           Neurons := []
           SynapticMatrix := []
           OldestLayer := NULL_LAYER
           Syn := 0 }
    Parameters := []
    U := fun _ => 0
    lg := fun _ => -1 }

/-- The event of the command `SINUSOIDAL_STIMULATION 0 4 5 1 100 2 0.5` read with
the cursor at 0, at its first firing: the rate of the external spikes of
population 0 is modulated from 5 ms on, every 1 ms, with a period of 100 ms, a
phase of 2 and an amplitude of 1/2. -/
def sinusoidEvent (R : Type) [LinearOrderedField R] : event R :=
  { Time := 5, cmdFunc := cmd_func.hook manageSinusoidalStimulationHook,
    Param := [0, 4, 5, 1, 100, 2, 1 / 2, 0] }

/-- Lines of a command file: a comment, a `SET_PARAM` after 10 ms, a command that
is not recognised, a `START_SPIKE_RECORDING` after 5 ms more, a `SET_PARAM` that
is not well formed, and an empty line. -/
def protocolLines : List (command_line ℚ) :=
  [{ words := [], comment := some " protocol" },
   { words := [⟨"SET_PARAM", none⟩, ⟨"10", some 10⟩, ⟨"0", some 0⟩, ⟨"4", some 4⟩,
               ⟨"50", some 50⟩], comment := none },
   { words := [⟨"FOO", none⟩, ⟨"3", some 3⟩], comment := none },
   { words := [⟨"start_spike_recording", none⟩, ⟨"5", some 5⟩], comment := some " on" },
   { words := [⟨"SET_PARAM", none⟩, ⟨"abc", none⟩], comment := none },
   { words := [], comment := none }]

/-! ## randdev.c : the generator `rand3` behind `Random()`

The functions below take the map `int` that is applied to the result of every
operation on an `int`: it is `toI32` for the 32-bit `int` of the program. -/

/-- The constant `MBIG` of `rand3`. -/
def MBIG : Int := 1000000000

/-- The constant `MSEED` of `rand3`. -/
def MSEED : Int := 161803398

/-- The constant `MZ` of `rand3`. -/
def MZ : Int := 0

/-- The variable `rand49_idum` and the static variables `inext`, `inextp`, `ma` (an
array of 56 entries) and `iff` of `rand3`. -/
structure rand3_state where
  rand49_idum : Int
  inext : Int
  inextp : Int
  ma : List Int
  iff : Int

/-- The values of the variables when the program starts. -/
def rand3Start : rand3_state :=
  { rand49_idum := -77531, inext := 0, inextp := 0, ma := List.replicate 56 0, iff := 0 }

/-- The loop `for (i=1;i<=54;i++)` of the initialisation of `rand3`: `n` iterations
from the index `i`. -/
def rand3Fill (int : Int → Int) : Nat → Nat → Int → Int → List Int → List Int
  | 0, _, _, _, ma => ma
  | n + 1, i, mj, mk, ma =>
    let ii := (21 * i) % 55
    let ma1 := ma.set ii mk
    let mk1 := int (mj - mk)
    let mk2 := if mk1 < MZ then int (mk1 + MBIG) else mk1
    rand3Fill int n (i + 1) (ma1.getD ii 0) mk2 ma1

/-- The loop `for (i=1;i<=55;i++)` of the initialisation of `rand3`: `n` iterations
from the index `i`. -/
def rand3Pass (int : Int → Int) : Nat → Nat → List Int → List Int
  | 0, _, ma => ma
  | n + 1, i, ma =>
    let v := int (ma.getD i 0 - ma.getD (1 + (i + 30) % 55) 0)
    let v1 := if v < MZ then int (v + MBIG) else v
    rand3Pass int n (i + 1) (ma.set i v1)

/-- The value of `mj` that the initialisation of `rand3` stores in `ma[55]`:
`mj=MSEED-(*idum < 0 ? -*idum : *idum); mj = (mj < 0 ? -mj : mj); mj %= MBIG;`. -/
def rand3Seed (int : Int → Int) (idum : Int) : Int :=
  let mj := int (MSEED - (if idum < 0 then int (-idum) else idum))
  let mj := if mj < 0 then int (-mj) else mj
  Int.tmod mj MBIG

/-- The initialisation of `rand3`, the block run when `*idum < 0 || iff == 0`. -/
def rand3Init (int : Int → Int) (s : rand3_state) : rand3_state :=
  let mj := rand3Seed int s.rand49_idum
  let ma := s.ma.set 55 mj
  let ma := rand3Fill int 54 1 mj 1 ma
  let ma := rand3Pass int 55 1 (rand3Pass int 55 1 (rand3Pass int 55 1 (rand3Pass int 55 1 ma)))
  { rand49_idum := 1, inext := 0, inextp := 31, ma := ma, iff := 1 }

/-- The lines of `rand3` after the initialisation, up to the last one: the value
of `mj` and the new values of the variables. -/
def rand3Draw (int : Int → Int) (s1 : rand3_state) : Int × rand3_state :=
  let inext := if int (s1.inext + 1) = 56 then 1 else int (s1.inext + 1)
  let inextp := if int (s1.inextp + 1) = 56 then 1 else int (s1.inextp + 1)
  let mj := int (s1.ma.getD inext.toNat 0 - s1.ma.getD inextp.toNat 0)
  let mj := if mj < MZ then int (mj + MBIG) else mj
  (mj, { s1 with inext := inext, inextp := inextp, ma := s1.ma.set inext.toNat mj })

/-- The function `rand3` up to its last line: the value of `mj` and the new values
of the variables. -/
def rand3Next (int : Int → Int) (s : rand3_state) : Int × rand3_state :=
  rand3Draw int (if s.rand49_idum < 0 ∨ s.iff = 0 then rand3Init int s else s)

/-- The function `rand3` called on `&rand49_idum`: the value returned, `mj*FAC`, and
the new values of the variables. -/
def rand3 {R : Type} [LinearOrderedField R] (int : Int → Int) (s : rand3_state) :
    R × rand3_state :=
  (((rand3Next int s).1 : R) * (1 / ((MBIG : Int) : R)), (rand3Next int s).2)

/-- The function `Random`. -/
def Random {R : Type} [LinearOrderedField R] (s : rand3_state) : R × rand3_state :=
  rand3 toI32 s

/-- The function `SetRandomSeed` (the variable `TimeSeed` apart). -/
def SetRandomSeed (int : Int → Int) (Seed : Int) (s : rand3_state) : rand3_state :=
  (rand3Next int { s with rand49_idum := int (-Seed) }).2

/-- The values returned by the next `n` calls of `Random()`. -/
def RandomValues {R : Type} [LinearOrderedField R] : Nat → rand3_state → List R
  | 0, _ => []
  | n + 1, s => (Random s : R × rand3_state).1 :: RandomValues n (Random s : R × rand3_state).2

/-- The variables of `rand3` are in order: the array has 56 entries, `rand49_idum`
is an `int` other than `INT_MIN` and, once the generator is initialised, the
entries `ma[1..55]` are in `[0, MBIG)` and the two indices are in `[0, 55]`. -/
def rand3_ok (s : rand3_state) : Prop :=
  s.ma.length = 56 ∧ -2147483648 < s.rand49_idum ∧ s.rand49_idum < 2147483648 ∧
    (s.iff ≠ 0 →
      (∀ i, 1 ≤ i → i ≤ 55 → 0 ≤ s.ma.getD i 0 ∧ s.ma.getD i 0 < MBIG) ∧
      0 ≤ s.inext ∧ s.inext ≤ 55 ∧ 0 ≤ s.inextp ∧ s.inextp ≤ 55)

/-- A map that leaves the values of a 32-bit `int` as they are, as `toI32` does. -/
def KeepsInt (int : Int → Int) : Prop :=
  ∀ x : Int, -2147483648 ≤ x → x < 2147483648 → int x = x

/-! ## sortedqueue.c : the sorted queue on an AVL tree -/

/-- The `avl_tree` struct: a node of the tree.  Pointers are addresses, 0 is
`NULL`. -/
structure avl_tree (α : Type) where
  Balance : Int
  Left : Nat
  Right : Nat
  Up : Nat
  Item : α

/-- The `sorted_queue` struct, together with the state the functions of
sortedqueue.c act on: the memory holding the nodes (`mem`), the allocator (`heap`
lists the blocks allocated at present, `malloc` gives the address returned by the
next call of `malloc` for a given list of allocated blocks, 0 when it fails; a
freed address may be returned again), and the static variables `Taller` of
`avlInsert` and `IsLeft` of `avlExtractNode`. -/
structure sorted_queue (α : Type) where
  mem : Nat → avl_tree α
  heap : List Nat
  malloc : List Nat → Nat
  ReadyNode : Nat
  cmpFunc : α → α → Int
  ElementNum : Int
  Root : Nat
  Taller : Bool
  IsLeft : Bool

/-- The memory after a write of node `n` at address `p`. -/
def wr {α : Type} (mem : Nat → avl_tree α) (p : Nat) (n : avl_tree α) : Nat → avl_tree α :=
  fun q => if q = p then n else mem q

/-- The function `avlLeftRotate`: the new memory and the new root of the subtree
(`none` when a `NULL` pointer is dereferenced). -/
def avlLeftRotate {α : Type} (mem : Nat → avl_tree α) (Root : Nat) :
    Option ((Nat → avl_tree α) × Nat) :=
  if Root = 0 then none
  else
    let RTree := (mem Root).Right
    if RTree = 0 then none
    else
      let m := wr mem Root { mem Root with Right := (mem RTree).Left }
      let m := wr m RTree { m RTree with Left := Root }
      let m := wr m RTree { m RTree with Up := (m Root).Up }
      let m := wr m Root { m Root with Up := RTree }
      let m := wr m Root { m Root with Balance := (m Root).Balance - 1 }
      let m := if (m RTree).Balance > 0 then
          wr m Root { m Root with Balance := (m Root).Balance - (m RTree).Balance }
        else m
      let m := wr m RTree { m RTree with Balance := (m RTree).Balance - 1 }
      let m := if (m Root).Balance < 0 then
          wr m RTree { m RTree with Balance := (m RTree).Balance + (m Root).Balance }
        else m
      some (m, RTree)

/-- The function `avlRightRotate`. -/
def avlRightRotate {α : Type} (mem : Nat → avl_tree α) (Root : Nat) :
    Option ((Nat → avl_tree α) × Nat) :=
  if Root = 0 then none
  else
    let LTree := (mem Root).Left
    if LTree = 0 then none
    else
      let m := wr mem Root { mem Root with Left := (mem LTree).Right }
      let m := wr m LTree { m LTree with Right := Root }
      let m := wr m LTree { m LTree with Up := (m Root).Up }
      let m := wr m Root { m Root with Up := LTree }
      let m := wr m Root { m Root with Balance := (m Root).Balance + 1 }
      let m := if (m LTree).Balance < 0 then
          wr m Root { m Root with Balance := (m Root).Balance - (m LTree).Balance }
        else m
      let m := wr m LTree { m LTree with Balance := (m LTree).Balance + 1 }
      let m := if (m Root).Balance > 0 then
          wr m LTree { m LTree with Balance := (m LTree).Balance + (m Root).Balance }
        else m
      some (m, LTree)

/-- The statements `if (Root->Left->Balance == 1) Root->Left =
avlLeftRotate(Root->Left); return avlRightRotate(Root);` of `avlInsert`: the new
memory and the new root of the subtree. -/
def rotateLeftHeavy {α : Type} (mem : Nat → avl_tree α) (Root : Nat) :
    Option ((Nat → avl_tree α) × Nat) :=
  if (mem Root).Left = 0 then none
  else
    let r1 : Option (Nat → avl_tree α) :=
      if (mem (mem Root).Left).Balance = 1 then
        match avlLeftRotate mem (mem Root).Left with
        | none => none
        | some (m1, top) => some (wr m1 Root { m1 Root with Left := top })
      else some mem
    match r1 with
    | none => none
    | some m1 => avlRightRotate m1 Root

/-- The statements `if (Root->Right->Balance == -1) Root->Right =
avlRightRotate(Root->Right); return avlLeftRotate(Root);` of `avlInsert`, which
`avlExtractNode` has as well for `ScanNode`: the new memory and the new root of
the subtree. -/
def rotateRightHeavy {α : Type} (mem : Nat → avl_tree α) (Root : Nat) :
    Option ((Nat → avl_tree α) × Nat) :=
  if (mem Root).Right = 0 then none
  else
    let r1 : Option (Nat → avl_tree α) :=
      if (mem (mem Root).Right).Balance = -1 then
        match avlRightRotate mem (mem Root).Right with
        | none => none
        | some (m1, top) => some (wr m1 Root { m1 Root with Right := top })
      else some mem
    match r1 with
    | none => none
    | some m1 => avlLeftRotate m1 Root

/-- The statements of `avlInsert` that follow the recursive call on the left
subtree; `NewNode` is the pointer returned by that call. -/
def avlInsertLeft {α : Type} (SQ : sorted_queue α) (Root NewNode : Nat) :
    Option (sorted_queue α × Nat) :=
  if NewNode ≠ 0 then
    let SQ : sorted_queue α :=
      if (SQ.mem Root).Left = 0 then
        let m := wr SQ.mem Root { SQ.mem Root with Balance := (SQ.mem Root).Balance - 1 }
        let Taller := decide ((m Root).Balance < 0)
        let m := wr m NewNode { m NewNode with Up := Root }
        { SQ with mem := m, Taller := Taller,
                  ReadyNode := if Root = SQ.ReadyNode then NewNode else SQ.ReadyNode }
      else { SQ with Taller := false }
    some ({ SQ with mem := wr SQ.mem Root { SQ.mem Root with Left := NewNode } }, 0)
  else if SQ.Taller then
    let m := wr SQ.mem Root { SQ.mem Root with Balance := (SQ.mem Root).Balance - 1 }
    if (m Root).Balance = -2 then
      match rotateLeftHeavy m Root with
      | none => none
      | some (m2, top) => some ({ SQ with mem := m2 }, top)
    else some ({ SQ with mem := m, Taller := decide ((m Root).Balance = -1) }, 0)
  else some (SQ, 0)

/-- The statements of `avlInsert` that follow the recursive call on the right
subtree; `NewNode` is the pointer returned by that call. -/
def avlInsertRight {α : Type} (SQ : sorted_queue α) (Root NewNode : Nat) :
    Option (sorted_queue α × Nat) :=
  if NewNode ≠ 0 then
    let SQ : sorted_queue α :=
      if (SQ.mem Root).Right = 0 then
        let m := wr SQ.mem Root { SQ.mem Root with Balance := (SQ.mem Root).Balance + 1 }
        let Taller := decide ((m Root).Balance > 0)
        let m := wr m NewNode { m NewNode with Up := Root }
        { SQ with mem := m, Taller := Taller }
      else { SQ with Taller := false }
    some ({ SQ with mem := wr SQ.mem Root { SQ.mem Root with Right := NewNode } }, 0)
  else if SQ.Taller then
    let m := wr SQ.mem Root { SQ.mem Root with Balance := (SQ.mem Root).Balance + 1 }
    if (m Root).Balance = 2 then
      match rotateRightHeavy m Root with
      | none => none
      | some (m2, top) => some ({ SQ with mem := m2 }, top)
    else some ({ SQ with mem := m, Taller := decide ((m Root).Balance = 1) }, 0)
  else some (SQ, 0)

/-- The function `avlInsert`: the new state and the returned pointer (0 for
`NULL`).  The result is `none` when the recursion is deeper than `fuel`, when a
`NULL` pointer is dereferenced or when `malloc` fails (the program exits). -/
def avlInsert {α : Type} :
    Nat → sorted_queue α → Nat → α → Option (sorted_queue α × Nat)
  | 0, _, _, _ => none
  | fuel + 1, SQ, Root, Item =>
    if Root = 0 then
      -- inserts the item, the subtree being empty
      let NewNode := SQ.malloc SQ.heap
      if NewNode = 0 then none
      else
        some ({ SQ with
                  heap := NewNode :: SQ.heap
                  mem := wr SQ.mem NewNode
                    { Item := Item, Balance := 0, Left := 0, Right := 0, Up := 0 }
                  ElementNum := toI32 (SQ.ElementNum + 1) }, NewNode)
    else if SQ.cmpFunc Item (SQ.mem Root).Item < 0 then
      -- in the left subtree
      match avlInsert fuel SQ (SQ.mem Root).Left Item with
      | none => none
      | some (SQ1, NewNode) => avlInsertLeft SQ1 Root NewNode
    else
      -- in the right subtree
      match avlInsert fuel SQ (SQ.mem Root).Right Item with
      | none => none
      | some (SQ1, NewNode) => avlInsertRight SQ1 Root NewNode

/-- The function `initSortedQueue`: the memory, the allocator and the static
variables are left as they are. -/
def initSortedQueue {α : Type} (SQ : sorted_queue α) (cmpFunc : α → α → Int) :
    sorted_queue α :=
  { SQ with cmpFunc := cmpFunc, ReadyNode := 0, Root := 0, ElementNum := 0 }

/-- The function `putSortedQueueItem`. -/
def putSortedQueueItem {α : Type} (fuel : Nat) (SQ : sorted_queue α) (Item : α) :
    Option (sorted_queue α) :=
  match avlInsert fuel SQ SQ.Root Item with
  | none => none
  | some (SQ1, NewRoot) =>
    if NewRoot ≠ 0 then
      let SQ2 : sorted_queue α :=
        if SQ1.Root = 0 then { SQ1 with ReadyNode := NewRoot } else SQ1
      some { SQ2 with Root := NewRoot }
    else some SQ1

/-- The loop `while (NextNode->Right != NULL) NextNode = NextNode->Right` of
`avlExtractNode`. -/
def rightmostLoop {α : Type} (mem : Nat → avl_tree α) : Nat → Nat → Option Nat
  | 0, _ => none
  | fuel + 1, NextNode =>
    if NextNode = 0 then none
    else if (mem NextNode).Right ≠ 0 then rightmostLoop mem fuel (mem NextNode).Right
    else some NextNode

/-- The two rotation cases at the head of the re-balancing loop of
`avlExtractNode`: the new memory and the new `ScanNode`. -/
def rebalanceNode {α : Type} (mem : Nat → avl_tree α) (IsLeft : Bool) (ScanNode : Nat) :
    Option ((Nat → avl_tree α) × Nat) :=
  if (mem ScanNode).Balance = 2 then
    match rotateRightHeavy mem ScanNode with
    | none => none
    | some (m2, top) =>
      if (m2 top).Up ≠ 0 then
        if IsLeft then
          some (wr m2 (m2 top).Up { m2 (m2 top).Up with Left := top }, top)
        else some (wr m2 (m2 top).Up { m2 (m2 top).Up with Right := top }, top)
      else some (m2, top)
  else if (mem ScanNode).Balance = -2 then
    if (mem ScanNode).Right = 0 then none
    else
      let r1 : Option (Nat → avl_tree α) :=
        if (mem (mem ScanNode).Right).Balance = 1 then
          match avlLeftRotate mem (mem ScanNode).Left with
          | none => none
          | some (m1, top) => some (wr m1 ScanNode { m1 ScanNode with Left := top })
        else some mem
      match r1 with
      | none => none
      | some m1 =>
        match avlRightRotate m1 ScanNode with
        | none => none
        | some (m2, top) =>
          if (m2 top).Up ≠ 0 then
            if IsLeft then
              some (wr m2 (m2 top).Up { m2 (m2 top).Up with Left := top }, top)
            else some (wr m2 (m2 top).Up { m2 (m2 top).Up with Right := top }, top)
          else some (m2, top)
  else some (mem, ScanNode)

/-- The re-balancing loop `while (1)` of `avlExtractNode`, from `ScanNode`: the
new state and the returned root. -/
def rebalanceLoop {α : Type} :
    Nat → sorted_queue α → Nat → Option (sorted_queue α × Nat)
  | 0, _, _ => none
  | fuel + 1, SQ, ScanNode =>
    if ScanNode = 0 then none
    else
      let IsLeft :=
        if (SQ.mem ScanNode).Up ≠ 0 then decide ((SQ.mem (SQ.mem ScanNode).Up).Left = ScanNode)
        else SQ.IsLeft
      match rebalanceNode SQ.mem IsLeft ScanNode with
      | none => none
      | some (m, ScanNode) =>
        if (m ScanNode).Up = 0 then some ({ SQ with IsLeft := IsLeft, mem := m }, ScanNode)
        else if (m ScanNode).Balance ≠ 0 then
          some ({ SQ with IsLeft := IsLeft, mem := m }, SQ.Root)
        else
          let Up := (m ScanNode).Up
          let m1 :=
            if (m Up).Right = ScanNode then
              wr m Up { m Up with Balance := (m Up).Balance - 1 }
            else wr m Up { m Up with Balance := (m Up).Balance + 1 }
          rebalanceLoop fuel { SQ with IsLeft := IsLeft, mem := m1 } Up

/-- The function `avlExtractNode`: the new state and the returned root. -/
def avlExtractNode {α : Type} (fuel : Nat) (SQ : sorted_queue α) (Node : Nat) :
    Option (sorted_queue α × Nat) :=
  if Node = 0 then none
  else
    let m := SQ.mem
    if (m Node).Left = 0 then
      if (m Node).Up = 0 then
        -- the node is the root
        let ScanNode := (m Node).Right
        if ScanNode ≠ 0 then
          some ({ SQ with mem := wr m ScanNode { m ScanNode with Up := 0 },
                          ReadyNode := ScanNode }, ScanNode)
        else some ({ SQ with ReadyNode := 0 }, ScanNode)
      else
        let ScanNode := (m Node).Up
        let m1 :=
          if (m ScanNode).Right = Node then
            wr m ScanNode { m ScanNode with Right := (m Node).Right,
                                            Balance := (m ScanNode).Balance - 1 }
          else
            wr m ScanNode { m ScanNode with Left := (m Node).Right,
                                            Balance := (m ScanNode).Balance + 1 }
        let SQ1 : sorted_queue α :=
          if (m1 Node).Right ≠ 0 then
            { SQ with mem := wr m1 (m1 Node).Right { m1 (m1 Node).Right with Up := ScanNode },
                      ReadyNode := if Node = SQ.ReadyNode then (m1 Node).Right else SQ.ReadyNode }
          else
            { SQ with mem := m1,
                      ReadyNode := if Node = SQ.ReadyNode then ScanNode else SQ.ReadyNode }
        rebalanceLoop fuel SQ1 ScanNode
    else if (m Node).Right = 0 then
      if (m Node).Up = 0 then
        -- the node is the root
        let ScanNode := (m Node).Left
        if ScanNode ≠ 0 then
          some ({ SQ with mem := wr m ScanNode { m ScanNode with Up := 0 } }, ScanNode)
        else some (SQ, ScanNode)
      else
        let ScanNode := (m Node).Up
        let m1 :=
          if (m ScanNode).Right = Node then
            wr m ScanNode { m ScanNode with Right := (m Node).Left,
                                            Balance := (m ScanNode).Balance - 1 }
          else
            wr m ScanNode { m ScanNode with Left := (m Node).Left,
                                            Balance := (m ScanNode).Balance + 1 }
        let m2 :=
          if (m1 Node).Left ≠ 0 then wr m1 (m1 Node).Left { m1 (m1 Node).Left with Up := ScanNode }
          else m1
        rebalanceLoop fuel { SQ with mem := m2 } ScanNode
    else
      -- the node has two subtrees
      match rightmostLoop m fuel (m Node).Left with
      | none => none
      | some NextNode =>
        if (m NextNode).Up = Node then
          let Item := (m NextNode).Item
          let m1 := wr m NextNode (m Node)
          let m1 := wr m1 NextNode { m1 NextNode with Item := Item }
          let m1 := wr m1 NextNode { m1 NextNode with Balance := (m1 NextNode).Balance + 1 }
          rebalanceLoop fuel { SQ with mem := m1 } NextNode
        else
          let ScanNode := (m NextNode).Up
          if ScanNode = 0 then none
          else
            let m1 := wr m ScanNode { m ScanNode with Right := (m NextNode).Left }
            let m1 := wr m1 ScanNode { m1 ScanNode with Balance := (m1 ScanNode).Balance - 1 }
            let Item := (m1 NextNode).Item
            let m1 := wr m1 NextNode (m1 Node)
            let m1 := wr m1 NextNode { m1 NextNode with Item := Item }
            rebalanceLoop fuel { SQ with mem := m1 } ScanNode

/-- The function `getSortedQueueItem`: the new state and the returned item (`none`
for the `NULL` returned on an empty queue).  The freed node leaves the list of
the allocated blocks; its memory is left as it is. -/
def getSortedQueueItem {α : Type} (fuel : Nat) (SQ : sorted_queue α) :
    Option (sorted_queue α × Option α) :=
  if SQ.ElementNum = 0 then some (SQ, none)
  else
    let DelNode := SQ.ReadyNode
    if DelNode = 0 then none
    else
      let Item := (SQ.mem DelNode).Item
      match avlExtractNode fuel SQ DelNode with
      | none => none
      | some (SQ1, Root) =>
        some ({ SQ1 with Root := Root, ElementNum := toI32 (SQ1.ElementNum - 1),
                         heap := SQ1.heap.erase DelNode }, some Item)

/-- The function `frontSortedQueueItem`: the state it leaves and the returned
item (`none` for `NULL`). -/
def frontSortedQueueItem {α : Type} (SQ : sorted_queue α) : sorted_queue α × Option α :=
  if SQ.ReadyNode = 0 then (SQ, none) else (SQ, some (SQ.mem SQ.ReadyNode).Item)

/-- The function `isSortedQueueEmpty`. -/
def isSortedQueueEmpty {α : Type} (SQ : sorted_queue α) : Bool :=
  decide (SQ.Root = 0)

/-- The function `sortedQueueSize`. -/
def sortedQueueSize {α : Type} (SQ : sorted_queue α) : Int :=
  SQ.ElementNum

/-- The function `avlItemVisit`, as the list of the items passed to the iterator
(the level counter is left out). -/
def avlItemVisit {α : Type} (mem : Nat → avl_tree α) : Nat → Nat → Option (List α)
  | 0, _ => none
  | fuel + 1, Root =>
    if Root ≠ 0 then
      match avlItemVisit mem fuel (mem Root).Left, avlItemVisit mem fuel (mem Root).Right with
      | some l, some r => some (l ++ (mem Root).Item :: r)
      | _, _ => none
    else some []

/-- The function `visitSortedQueue`, as the list of the visited items. -/
def visitSortedQueue {α : Type} (fuel : Nat) (SQ : sorted_queue α) : Option (List α) :=
  avlItemVisit SQ.mem fuel SQ.Root

/-- A call on a sorted queue: `putSortedQueueItem` or `getSortedQueueItem`. -/
inductive SQOp (α : Type) where
  | put (Item : α)
  | get

/-- A sequence of calls on a sorted queue: the final state and the results of the
calls of `getSortedQueueItem`, in order. -/
def runSortedQueue {α : Type} (fuel : Nat) :
    List (SQOp α) → sorted_queue α → Option (sorted_queue α × List (Option α))
  | [], SQ => some (SQ, [])
  | SQOp.put Item :: ops, SQ =>
    match putSortedQueueItem fuel SQ Item with
    | none => none
    | some SQ1 => runSortedQueue fuel ops SQ1
  | SQOp.get :: ops, SQ =>
    match getSortedQueueItem fuel SQ with
    | none => none
    | some (SQ1, r) =>
      match runSortedQueue fuel ops SQ1 with
      | none => none
      | some (SQ2, rs) => some (SQ2, r :: rs)

/-- The items put by a sequence of calls. -/
def putItems {α : Type} : List (SQOp α) → List α
  | [] => []
  | SQOp.put Item :: ops => Item :: putItems ops
  | SQOp.get :: ops => putItems ops

/-- The queue is drained by `n` calls of `getSortedQueueItem`: the final state and
the returned items. -/
def drainSortedQueue {α : Type} (fuel : Nat) :
    Nat → sorted_queue α → Option (sorted_queue α × List (Option α))
  | 0, SQ => some (SQ, [])
  | n + 1, SQ =>
    match getSortedQueueItem fuel SQ with
    | none => none
    | some (SQ1, r) =>
      match drainSortedQueue fuel n SQ1 with
      | none => none
      | some (SQ2, rs) => some (SQ2, r :: rs)

/-! ## The tree that the memory of a sorted queue holds, as a value -/

/-- A binary tree whose nodes carry their address, their `Balance` field and their
item: the shape held by the memory of a sorted queue. -/
inductive AvlT (α : Type) where
  | nil : AvlT α
  | node (a : Nat) (b : Int) (l : AvlT α) (x : α) (r : AvlT α) : AvlT α

/-- The pointer to a tree: the address of its root, 0 (`NULL`) for the empty tree. -/
def AvlT.addr {α : Type} : AvlT α → Nat
  | .nil => 0
  | .node a _ _ _ _ => a

/-- The `Balance` field of the root (0 for the empty tree). -/
def AvlT.bal {α : Type} : AvlT α → Int
  | .nil => 0
  | .node _ b _ _ _ => b

/-- Whether the tree is empty. -/
def AvlT.isNil {α : Type} : AvlT α → Bool
  | .nil => true
  | .node _ _ _ _ _ => false

/-- The addresses of the nodes of a tree. -/
def AvlT.addrs {α : Type} : AvlT α → List Nat
  | .nil => []
  | .node a _ l _ r => a :: (l.addrs ++ r.addrs)

/-- The items of a tree, from left to right. -/
def AvlT.inorder {α : Type} : AvlT α → List α
  | .nil => []
  | .node _ _ l x r => l.inorder ++ x :: r.inorder

/-- The height of a tree. -/
def AvlT.height {α : Type} : AvlT α → Nat
  | .nil => 0
  | .node _ _ l _ r => 1 + max l.height r.height

/-- The number of nodes of a tree. -/
def AvlT.size {α : Type} : AvlT α → Nat
  | .nil => 0
  | .node _ _ l _ r => l.size + 1 + r.size

/-- The address of the leftmost node of a tree (0 for the empty tree). -/
def AvlT.leftmost {α : Type} : AvlT α → Nat
  | .nil => 0
  | .node a _ l _ _ => if l.isNil then a else l.leftmost

/-- The addresses of the nodes on the left spine of a tree, from the root down. -/
def AvlT.spine {α : Type} : AvlT α → List Nat
  | .nil => []
  | .node a _ l _ _ => a :: l.spine

/-- The memory holds the tree: the fields `Balance`, `Left`, `Right` and `Item` of
every node are those of the tree (the field `Up` is described by `SpineUp`). -/
def Rep {α : Type} (mem : Nat → avl_tree α) : AvlT α → Prop
  | .nil => True
  | .node a b l x r =>
    (mem a).Balance = b ∧ (mem a).Left = l.addr ∧ (mem a).Right = r.addr ∧ (mem a).Item = x ∧
      Rep mem l ∧ Rep mem r

/-- The `Up` pointers along the left spine of the tree are right: the root points
to `p`, its left child to the root, and so on.  (The rotations leave the `Up`
pointer of the subtree that changes its parent as it was, so the other `Up`
pointers need not be right.) -/
def SpineUp {α : Type} (mem : Nat → avl_tree α) : AvlT α → Nat → Prop
  | .nil, _ => True
  | .node a _ l _ _, p => (mem a).Up = p ∧ SpineUp mem l a

/-- The tree is an AVL tree whose `Balance` fields are exact: the height of the
right subtree minus the height of the left one, between -1 and 1. -/
def Avl {α : Type} : AvlT α → Prop
  | .nil => True
  | .node _ b l _ r =>
    b = (r.height : Int) - (l.height : Int) ∧ -1 ≤ b ∧ b ≤ 1 ∧ Avl l ∧ Avl r

/-- The effect of `avlLeftRotate` on the tree. -/
def rotL {α : Type} : AvlT α → AvlT α
  | .node a ba l x (.node c bc rl y rr) =>
    let ba2 := if bc > 0 then ba - 1 - bc else ba - 1
    let bc2 := if ba2 < 0 then bc - 1 + ba2 else bc - 1
    .node c bc2 (.node a ba2 l x rl) y rr
  | t => t

/-- The effect of `avlRightRotate` on the tree. -/
def rotR {α : Type} : AvlT α → AvlT α
  | .node a ba (.node c bc ll y lr) x r =>
    let ba2 := if bc < 0 then ba + 1 - bc else ba + 1
    let bc2 := if ba2 > 0 then bc + 1 + ba2 else bc + 1
    .node c bc2 ll y (.node a ba2 lr x r)
  | t => t

/-- The effect of `avlInsertLeft` on the tree with root `a`, where `l1` is the left
subtree after the recursive call, `nonNull` tells whether that call returned a
pointer, `tl` is the value of `Taller` it left and `wasNil` tells whether the left
subtree was empty before: the new tree, whether a pointer is returned, and the
value of `Taller`. -/
def insLeftF {α : Type} (a : Nat) (b : Int) (l1 : AvlT α) (nonNull tl wasNil : Bool)
    (y : α) (r : AvlT α) : AvlT α × Bool × Bool :=
  if nonNull then
    if wasNil then (.node a (b - 1) l1 y r, false, decide (b - 1 < 0))
    else (.node a b l1 y r, false, false)
  else if tl then
    if b - 1 = -2 then
      (rotR (.node a (b - 1) (if l1.bal = 1 then rotL l1 else l1) y r), true, true)
    else (.node a (b - 1) l1 y r, false, decide (b - 1 = -1))
  else (.node a b l1 y r, false, false)

/-- The effect of `avlInsertRight` on the tree with root `a`. -/
def insRightF {α : Type} (a : Nat) (b : Int) (l : AvlT α) (y : α) (r1 : AvlT α)
    (nonNull tr wasNil : Bool) : AvlT α × Bool × Bool :=
  if nonNull then
    if wasNil then (.node a (b + 1) l y r1, false, decide (b + 1 > 0))
    else (.node a b l y r1, false, false)
  else if tr then
    if b + 1 = 2 then
      (rotL (.node a (b + 1) l y (if r1.bal = -1 then rotR r1 else r1)), true, true)
    else (.node a (b + 1) l y r1, false, decide (b + 1 = 1))
  else (.node a b l y r1, false, false)

/-- The effect of `avlInsert` on the tree, `n` being the address of the new node:
the new tree, whether a pointer is returned, and the value of `Taller` (which
matters when no pointer is returned). -/
def insF {α : Type} (cmp : α → α → Int) (n : Nat) (x : α) : AvlT α → AvlT α × Bool × Bool
  | .nil => (.node n 0 .nil x .nil, true, false)
  | .node a b l y r =>
    if cmp x y < 0 then
      insLeftF a b (insF cmp n x l).1 (insF cmp n x l).2.1 (insF cmp n x l).2.2 l.isNil y r
    else
      insRightF a b l y (insF cmp n x r).1 (insF cmp n x r).2.1 (insF cmp n x r).2.2 r.isNil

/-- What `avlInsert` does to an AVL tree `t`, in terms of the tree `t1` it leaves,
of whether it returns a pointer (`nn`) and of the value of `Taller` (`tl`): `t1` is
an AVL tree; when a pointer is returned, `t1` is a new leaf in place of an empty
tree or a rotated tree as high as `t`; when none is returned, the root is the
same and `Taller` tells whether the tree is higher by one, in which case the root
is not balanced. -/
def InsOk {α : Type} (t t1 : AvlT α) (nn tl : Bool) : Prop :=
  Avl t1 ∧ t1.isNil = false ∧
    (nn = true → (t.isNil = true ∧ t1.height = 1) ∨ (t.isNil = false ∧ t1.height = t.height)) ∧
    (nn = false → t.isNil = false ∧ t1.addr = t.addr ∧
      t1.height = t.height + (if tl then 1 else 0) ∧ (tl = true → t1.bal ≠ 0))

/-- The two states have the same allocator, comparison function, `Root` and
`ElementNum`. -/
def SameCtl {α : Type} (SQ SQ1 : sorted_queue α) : Prop :=
  SQ1.heap = SQ.heap ∧ SQ1.malloc = SQ.malloc ∧ SQ1.cmpFunc = SQ.cmpFunc ∧
    SQ1.Root = SQ.Root ∧ SQ1.ElementNum = SQ.ElementNum

/-- What `avlInsert` does to the state, for a subtree `t` held by the memory
of `SQ`: `SQ1` is the state left, `ret` the pointer returned, `n` the address of
the new node, `t1` the tree left in place of `t`, `nn` tells whether a pointer is
returned and `tl` is the value of `Taller`.  The memory holds `t1` and is the same
outside `t` and the new node; the `Up` pointers of the left spine stay right; and
`ReadyNode` follows the leftmost node when it was the leftmost node of `t`. -/
def InsPost {α : Type} (SQ SQ1 : sorted_queue α) (ret n : Nat) (t t1 : AvlT α)
    (nn tl : Bool) : Prop :=
  ret = (if nn then t1.addr else 0) ∧ Rep SQ1.mem t1 ∧
    (∀ q, q ≠ n → q ∉ t.addrs → SQ1.mem q = SQ.mem q) ∧
    SQ1.heap = n :: SQ.heap ∧ SQ1.malloc = SQ.malloc ∧ SQ1.cmpFunc = SQ.cmpFunc ∧
    SQ1.Root = SQ.Root ∧ SQ1.ElementNum = toI32 (SQ.ElementNum + 1) ∧
    (nn = false → SQ1.Taller = tl) ∧
    (t.isNil = true → (SQ1.mem n).Up = 0) ∧
    (∀ p, t.isNil = false → SpineUp SQ.mem t p → SpineUp SQ1.mem t1 p) ∧
    (t.isNil = false → SQ.ReadyNode = t.leftmost → SQ1.ReadyNode = t1.leftmost) ∧
    (t.isNil = true ∨ SQ.ReadyNode ∉ t.addrs → SQ1.ReadyNode = SQ.ReadyNode)

/-- An ancestor on the left spine: its address, its `Balance`, its item and its
right subtree. -/
structure Frame (α : Type) where
  a : Nat
  b : Int
  x : α
  r : AvlT α

/-- The tree with `t` below the ancestors `ctx` (the nearest first), each of which
has the tree below it as its left subtree. -/
def plug {α : Type} : List (Frame α) → AvlT α → AvlT α
  | [], t => t
  | f :: ctx, t => plug ctx (.node f.a f.b t f.x f.r)

/-- The ancestors of the leftmost node of `t` (above `ctx`) and the subtree of that
node. -/
def unplug {α : Type} : AvlT α → List (Frame α) → List (Frame α) × AvlT α
  | .nil, ctx => (ctx, .nil)
  | .node a b l x r, ctx =>
    if l.isNil then (ctx, .node a b l x r) else unplug l (⟨a, b, x, r⟩ :: ctx)

/-- The addresses of the ancestors. -/
def ctxAddrs {α : Type} : List (Frame α) → List Nat
  | [] => []
  | f :: ctx => f.a :: (f.r.addrs ++ ctxAddrs ctx)

/-- The items of the ancestors and of their right subtrees, from left to right. -/
def ctxInorder {α : Type} : List (Frame α) → List α
  | [] => []
  | f :: ctx => f.x :: (f.r.inorder ++ ctxInorder ctx)

/-- The address of the nearest ancestor, `p` when there is none. -/
def parentAddr {α : Type} : List (Frame α) → Nat → Nat
  | [], p => p
  | f :: _, _ => f.a

/-- The address of the root of `plug ctx t`, for a tree `t` at address `s`. -/
def rootAddr {α : Type} : List (Frame α) → Nat → Nat
  | [], s => s
  | f :: ctx, _ => rootAddr ctx f.a

/-- The memory holds the ancestors `ctx` of the node at address `c`. -/
def RepCtx {α : Type} (mem : Nat → avl_tree α) : List (Frame α) → Nat → Prop
  | [], _ => True
  | f :: ctx, c =>
    ((mem f.a).Balance = f.b ∧ (mem f.a).Left = c ∧ (mem f.a).Right = f.r.addr ∧
      (mem f.a).Item = f.x ∧ Rep mem f.r) ∧ RepCtx mem ctx f.a

/-- The `Up` pointers of the ancestors are right. -/
def UpCtx {α : Type} (mem : Nat → avl_tree α) : List (Frame α) → Prop
  | [] => True
  | f :: ctx => (mem f.a).Up = parentAddr ctx 0 ∧ UpCtx mem ctx

/-- The ancestors `ctx` make an AVL tree of any AVL tree of height `h` put below
them. -/
def AvlCtx {α : Type} : List (Frame α) → Nat → Prop
  | [], _ => True
  | f :: ctx, h =>
    (f.b = (f.r.height : Int) - (h : Int) ∧ -1 ≤ f.b ∧ f.b ≤ 1 ∧ Avl f.r) ∧
      AvlCtx ctx (1 + max h f.r.height)

/-- The tree `u` is what an AVL tree of height `H` becomes when its left subtree
gets lower by one and its balance is increased by one: the subtrees are AVL
trees, the balance is exact and lies between 0 and 2. -/
def Shrunk {α : Type} : AvlT α → Nat → Prop
  | .nil, _ => False
  | .node _ b l _ r, H =>
    Avl l ∧ Avl r ∧ b = (r.height : Int) - (l.height : Int) ∧ 0 ≤ b ∧ b ≤ 2 ∧
      H = 1 + max (l.height + 1) r.height

/-- The effect of `rebalanceNode` on the tree at `ScanNode`. -/
def fixF {α : Type} : AvlT α → AvlT α
  | .nil => .nil
  | .node s b l x r =>
    if b = 2 then rotL (.node s b l x (if r.bal = -1 then rotR r else r))
    else .node s b l x r

/-- The effect of `rebalanceLoop` on the tree, from the subtree `u` at `ScanNode`
with the ancestors `ctx`. -/
def plugFix {α : Type} : List (Frame α) → AvlT α → AvlT α
  | [], u => fixF u
  | f :: ctx, u =>
    if (fixF u).bal ≠ 0 then plug ctx (.node f.a f.b (fixF u) f.x f.r)
    else plugFix ctx (.node f.a (f.b + 1) (fixF u) f.x f.r)

/-- The effect of `avlExtractNode` on the tree, for its leftmost node. -/
def delMinF {α : Type} (t : AvlT α) : AvlT α :=
  match unplug t [] with
  | (_, .nil) => .nil
  | ([], .node _ _ _ _ rm) => rm
  | (f :: ctx, .node _ _ _ _ rm) => plugFix ctx (.node f.a (f.b + 1) rm f.x f.r)

/-- The invariant of a sorted queue: its memory holds an AVL tree `t` of allocated
nodes at distinct addresses, with the items in order, `Root` points to it,
`ReadyNode` to its leftmost node, and `ElementNum` is its size. -/
def SQInv {α : Type} (SQ : sorted_queue α) (t : AvlT α) : Prop :=
  Rep SQ.mem t ∧ SpineUp SQ.mem t 0 ∧ t.addrs.Nodup ∧ 0 ∉ t.addrs ∧
    (∀ a ∈ t.addrs, a ∈ SQ.heap) ∧ SQ.Root = t.addr ∧ SQ.ReadyNode = t.leftmost ∧
    SQ.ElementNum = (t.size : Int) ∧ Avl t ∧
    t.inorder.Pairwise (fun x y => SQ.cmpFunc x y ≤ 0)

/-- An allocator returning the address after the highest allocated one. -/
def mallocTop (L : List Nat) : Nat := L.foldr max 0 + 1

/-- The comparison of two natural numbers, as a `cmpFunc`. -/
def cmpNat (a b : Nat) : Int := if a < b then -1 else if b < a then 1 else 0

/-- A sorted queue before `initSortedQueue`: a memory, an allocator and arbitrary
values of the fields and of the static variables. -/
def blankSortedQueue : sorted_queue Nat :=
  { mem := fun _ => ⟨0, 0, 0, 0, 0⟩, heap := [], malloc := mallocTop, ReadyNode := 7,
    cmpFunc := cmpNat, ElementNum := 3, Root := 5, Taller := true, IsLeft := true }

/-! ## The sorted queue as a sorted list -/

/-- The comparison function orders the items: of two items one is not greater
than the other, an item that is not greater than another one is not smaller than
it in the reverse comparison, and the order is transitive. -/
def CmpOrder {α : Type} (cmp : α → α → Int) : Prop :=
  (∀ a b, 0 ≤ cmp a b → cmp b a ≤ 0) ∧ (∀ a b, cmp a b ≤ 0 → 0 ≤ cmp b a) ∧
    ∀ a b c, cmp a b ≤ 0 → cmp b c ≤ 0 → cmp a c ≤ 0

/-- The list of the stored items, in ascending order, after an item is put: the
item goes before the first item that is greater, so after the items with an equal
key. -/
def listPut {α : Type} (cmp : α → α → Int) (x : α) : List α → List α
  | [] => [x]
  | y :: L => if cmp x y < 0 then x :: y :: L else y :: listPut cmp x L

/-- A sequence of calls on the list of the stored items: a put inserts the item
in order, a get takes the first item of the list (and returns nothing when the
list is empty).  The result is the final list and the results of the gets. -/
def runSortedList {α : Type} (cmp : α → α → Int) :
    List (SQOp α) → List α → List α × List (Option α)
  | [], L => (L, [])
  | SQOp.put Item :: ops, L => runSortedList cmp ops (listPut cmp Item L)
  | SQOp.get :: ops, [] =>
    ((runSortedList cmp ops []).1, none :: (runSortedList cmp ops []).2)
  | SQOp.get :: ops, x :: L =>
    ((runSortedList cmp ops L).1, some x :: (runSortedList cmp ops L).2)

/-! ## events.c : `manageEvent` with the values that the hook functions return -/

/-- The state of the event manager during `manageEvent`: the global variables that
the hook functions read and write, the static variable `ret` of
`getPopulationParam`, the queue `Events` (a list in the order of
`getSortedQueueItem`), the events passed to `deleteEvent` so far, and the events
whose hook function was called so far, each with the value that the hook function
returned. -/
structure event_manager (R σ : Type) where
  G : globals R σ
  ret : R
  Events : List (event R)
  freed : List (event R)
  handled : List (event R × Int)

/-- The call `(*(Event->cmdFunc))(Event)` with the value returned.
`setPopulationParamFromEvent` returns 1; `manageSinusoidalStimulation` puts its event
back in the queue with `putEvent` and returns 0; the other hook functions
(`outDenStruct`, `outSynStruct`, `startSpikeRecording`, `stopSpikeRecording`,
`startStimulation`, `stopStimulation`, `setConnectivityParamFromEvent`,
`manageExternalCommand`) return 1 and call neither `putEvent` nor `newEvent`:
`effects k` is what the hook function number `k` does to the global variables. -/
def callHook {R σ : Type} [LinearOrderedField R] [FloorRing R] (sin : R → R) (ty : neuron_type)
    (Life : R) (effects : Nat → event R → globals R σ → globals R σ)
    (Event : event R) (m : event_manager R σ) : Int × event_manager R σ :=
  match Event.cmdFunc with
  | .setPopulationParamFromEvent =>
    (1, { m with G := setPopulationParam ty Life m.G (truncToInt (Event.Param.getD 0 0))
                        (truncToInt (Event.Param.getD 1 0)) (Event.Param.getD 2 0) Event.Time })
  | .hook k =>
    if k = manageSinusoidalStimulationHook then
      let r := manageSinusoidalStimulation sin ty Life m.ret Event m.G
      (0, { m with G := r.1, ret := r.2.2, Events := putEvent r.2.1 m.Events })
    else (1, { m with G := effects k Event m.G })

/-- The body of the loop of `manageEvent` when `getSortedQueueItem` returns `Event`
and leaves `rest` in the queue: the hook function is called, and the event is
passed to `deleteEvent` if the value returned is not 0. -/
def manageEventBody {R σ : Type} [LinearOrderedField R] [FloorRing R] (sin : R → R)
    (ty : neuron_type) (Life : R) (effects : Nat → event R → globals R σ → globals R σ)
    (Event : event R) (rest : List (event R)) (m : event_manager R σ) : event_manager R σ :=
  let r := callHook sin ty Life effects Event { m with Events := rest }
  if r.1 ≠ 0 then
    { r.2 with freed := r.2.freed ++ [Event], handled := r.2.handled ++ [(Event, r.1)] }
  else { r.2 with handled := r.2.handled ++ [(Event, r.1)] }

/-- The function `manageEvent` with the memory of the events; the result is `none`
when the hook functions have to be called more than `fuel` times. -/
def manageEventFreeing {R σ : Type} [LinearOrderedField R] [FloorRing R] (sin : R → R)
    (ty : neuron_type) (Life : R) (effects : Nat → event R → globals R σ → globals R σ) :
    Nat → R → event_manager R σ → Option (event_manager R σ)
  | fuel, Time, m =>
    match m.Events with
    | [] => some m
    | Event :: rest =>
      if Time > Event.Time then
        match fuel with
        | 0 => none
        | fuel + 1 =>
          manageEventFreeing sin ty Life effects fuel Time
            (manageEventBody sin ty Life effects Event rest m)
      else some m

/-- The number of times that `manageEvent(Time)` calls the hook function of an
event of the queue: none when the event is not earlier than `Time`, once when the
hook function disposes of it, and once for each of the times `Event.Time`,
`Event.Time + Dt`, ... below `Time` for `manageSinusoidalStimulation`. -/
def dueCalls {R : Type} [LinearOrderedField R] [FloorRing R] (Time : R) (Event : event R) : Nat :=
  if Time ≤ Event.Time then 0
  else
    match Event.cmdFunc with
    | .setPopulationParamFromEvent => 1
    | .hook k =>
      if k = manageSinusoidalStimulationHook then
        Nat.ceil ((Time - Event.Time) / Event.Param.getD 3 0)
      else 1

/-- The sum of `dueCalls` over the queue. -/
def dueTotal {R : Type} [LinearOrderedField R] [FloorRing R] (Time : R) (q : List (event R)) :
    Nat :=
  (q.map (dueCalls Time)).sum

/-- A queue with a sinusoidal stimulation of period 1 due at time 0, a change of a
parameter at time 1/2 and the start of a recording at time 5. -/
def sampleQueue : List (event ℚ) :=
  [{ Time := 0, cmdFunc := cmd_func.hook manageSinusoidalStimulationHook,
     Param := [0, 4, 0, 1, 100, 0, 1 / 2, 0] },
   { Time := 1 / 2, cmdFunc := cmd_func.setPopulationParamFromEvent, Param := [0, 4, 50] },
   { Time := 5, cmdFunc := cmd_func.hook startSpikeRecordingHook, Param := [] }]

/-- The event manager before the call: the queue `sampleQueue`, nothing freed and
nothing handled. -/
def sampleManager : event_manager ℚ Nat :=
  { G := sinusoidGlobals ℚ, ret := 0, Events := sampleQueue, freed := [], handled := [] }

/-! ## sortedqueue.c : the order of the items with equal keys -/

/-- The calls `ops` with each item put paired with the number of the puts made
before it, counted from `k`: the pair stands for the pointer to the item, which
tells apart items with equal keys. -/
def tagOps {α : Type} : Nat → List (SQOp α) → List (SQOp (α × Nat))
  | _, [] => []
  | k, SQOp.put Item :: ops => SQOp.put (Item, k) :: tagOps (k + 1) ops
  | k, SQOp.get :: ops => SQOp.get :: tagOps k ops

/-- The comparison function on the numbered items: it compares the items. -/
def cmpTagged {α : Type} (cmp : α → α → Int) : α × Nat → α × Nat → Int :=
  fun a b => cmp a.1 b.1

/-- A sorted queue of numbered natural numbers before `initSortedQueue`. -/
def blankTaggedQueue : sorted_queue (Nat × Nat) :=
  { mem := fun _ => ⟨0, 0, 0, 0, (0, 0)⟩, heap := [], malloc := mallocTop, ReadyNode := 7,
    cmpFunc := cmpTagged cmpNat, ElementNum := 3, Root := 5, Taller := true, IsLeft := true }

/-! ## perseo.c : what the cached `OldestLayer` should be -/

/-- The value `OldestLayer` is right for the layers `SynapticMatrix`: `NULL_LAYER`
when every layer is empty, and otherwise the index of a non-empty layer whose
current spike has the earliest emission time among the non-empty layers, the lowest
such index. -/
def OldestLayerSpec {R : Type} [LinearOrderedRing R] (SynapticMatrix : List (synaptic_layer R))
    (OldestLayer : Int) : Prop :=
  ((∀ L ∈ SynapticMatrix, L.Empty = true) ∧ OldestLayer = NULL_LAYER) ∨
  (∃ (k : Nat) (Lk : synaptic_layer R), OldestLayer = (k : Int) ∧
    SynapticMatrix[k]? = some Lk ∧ Lk.Empty = false ∧
    (∀ (m : Nat) (L : synaptic_layer R), SynapticMatrix[m]? = some L → L.Empty = false →
      layerTime Lk ≤ layerTime L) ∧
    (∀ (m : Nat) (L : synaptic_layer R), m < k → SynapticMatrix[m]? = some L →
      L.Empty = false → layerTime Lk < layerTime L))

/-- The current spikes of the non-empty layers were emitted before `Life + 100`. -/
def BelowHorizon {R : Type} [LinearOrderedRing R] (Life : R)
    (SynapticMatrix : List (synaptic_layer R)) : Prop :=
  ∀ L ∈ SynapticMatrix, L.Empty = false → layerTime L < Life + 100

/-! ## connectivity.c : the rows of a sparse column of the mask -/

/-- The value `SynExtraction[s]` in `getEmptySynapses_FIX`: the sum of the first
`s + 1` values of `ExpDev()`. -/
def fixSynExtraction {R : Type} [LinearOrderedField R] (ed : Nat → R) (s : Nat) : R :=
  ((List.range (s + 1)).map ed).sum

/-- The value `(int)floor(s+(offset+SynExtraction[s])/dx)` that the two loops over
`s` of the sparse case compute. -/
def fixNpre {R : Type} [LinearOrderedField R] [FloorRing R] (Npre SynNum : Nat)
    (ed : Nat → R) (U : R) (s : Nat) : Int :=
  ⌊(s : R) + (-U * (fixSynExtraction ed (SynNum - 1)
      + (SynNum : R) * (fixSynExtraction ed (SynNum - 1)
          / ((toU32 ((Npre : Int) - SynNum) : Nat) : R))) + fixSynExtraction ed s)
    / (fixSynExtraction ed (SynNum - 1) / ((toU32 ((Npre : Int) - SynNum) : Nat) : R))⌋

/-- The column that the loop `for (m=0; m<Populations[p].N; m++, n++)` writes for
the `j`-th neuron of the post-synaptic population: the identity in the fully
connected case, and in the sparse case the column drawn with the values of
`ExpDev()` and of `Random()` left by the neurons before. -/
def fixColumn {R : Type} [LinearOrderedField R] [FloorRing R] (Npre SynNum : Nat) (full : Bool)
    (ed rd : Nat → R) (j : Nat) : List Nat :=
  if full then List.range SynNum
  else sparseColumn Npre SynNum (fun k => ed (k + j * SynNum)) (rd j)

/-! ## connectivity.c : draws that move `Post` backwards -/

/-- Loop counts of `getEmptySynapses_RAN`: no iteration for the first two calls (a
skip of 1), `2 ^ 32 - 2` iterations for the third call (a skip of `2 ^ 32 - 1`),
then 2 iterations (a skip of 3). -/
def backDraws : Nat → Nat :=
  fun k => if k < 2 then 0 else if k = 2 then 4294967294 else 2

/-- A function that increases on `(TailNeglected, 1]` up to the value 0 at 1, in
place of the logarithm on the rational numbers. -/
def linearLog : ℚ → ℚ := fun v => v - 1

/-! ## connectivity.c : `getEmptySynapses_RAN` with its loop, on exact reals -/

/-- The loop `while (C < r) { n++; P *= 1 - CProb; C += P; }` of
`getEmptySynapses_RAN` on exact reals, from the values `n`, `P` and `C`: the value
of the counter `n` when the loop ends (`none` when the loop does not end within
`fuel` tests).  The counter is an `indexn`, so `n++` is computed modulo `2 ^ 32`. -/
def emptySynapsesLoop {R : Type} [LinearOrderedRing R] (CProb r : R) :
    Nat → Nat → R → R → Option Nat
  | 0, _, _, _ => none
  | fuel + 1, n, P, C =>
    if C < r then
      emptySynapsesLoop CProb r fuel (toU32 ((n : Int) + 1)) (P * (1 - CProb))
        (C + P * (1 - CProb))
    else some n

/-- The function `getEmptySynapses_RAN` with its loop, on exact reals, for the value
`r` returned by `Random()` (`none` when the loop does not end within `fuel` tests).
The caller asks for defined elements of the matrix only; an undefined one is given
`INT_MAX`, as in `getEmptySynapses_RAN` above. -/
def getEmptySynapses_RAN_exact {R : Type} [LinearOrderedRing R]
    (Connectivity : Nat → Nat → Option (connectivity R)) (postPop prePop : Nat)
    (r : R) (fuel : Nat) : Option Nat :=
  match Connectivity postPop prePop with
  | none => some INT_MAX
  | some c =>
    if c.CProb ≤ 0 then some INT_MAX
    else
      (emptySynapsesLoop c.CProb r fuel 1 c.CProb c.CProb).map
        (fun n => if n ≤ 0 then INT_MAX else n)
/-! ## queue.c : the FIFO behaves like a list queue -/

theorem memcpyOut_congr (m1 m2 : Int → Nat) (src n : Int)
    (h : ∀ i, src ≤ i → i < src + n → m1 i = m2 i) :
    memcpyOut m1 src n = memcpyOut m2 src n := by
  unfold memcpyOut
  apply List.map_congr_left
  intro k hk
  have hk' := List.mem_range.mp hk
  apply h <;> omega

theorem memcpyOut_memcpyIn_same (mem : Int → Nat) (dst : Int) (r : List Nat) (n : Int)
    (hr : (r.length : Int) = n) : memcpyOut (memcpyIn mem dst r n) dst n = r := by
  unfold memcpyOut memcpyIn
  apply List.ext_getElem
  · simp; omega
  · intro i h1 h2
    simp only [List.length_map, List.length_range] at h1
    simp only [List.getElem_map, List.getElem_range]
    have : dst ≤ dst + (i:Int) ∧ dst + (i:Int) < dst + n := by omega
    rw [if_pos this]
    have e : (dst + (i:Int) - dst).toNat = i := by omega
    rw [e]
    exact List.getD_eq_getElem _ _ h2

theorem slot_step (ES : Int) (hES : 0 ≤ ES) (a b : Nat) (h : a < b) :
    (a : Int) * ES + ES ≤ (b : Int) * ES := by
  have h1 : ((a : Int) + 1) ≤ (b : Int) := by exact_mod_cast h
  have := mul_le_mul_of_nonneg_right h1 hES
  linarith

theorem slotRec_memcpyIn_ne (mem : Int → Nat) (ES : Int) (hES : 0 ≤ ES) (k d : Nat)
    (r : List Nat) (h : k ≠ d) :
    slotRec (memcpyIn mem ((d : Int) * ES) r ES) ES k = slotRec mem ES k := by
  unfold slotRec
  apply memcpyOut_congr
  intro i h1 h2
  unfold memcpyIn
  rw [if_neg]
  rcases Nat.lt_or_gt_of_ne h with hlt | hgt
  · have := slot_step ES hES k d hlt; omega
  · have := slot_step ES hES d k hgt; omega

theorem slotRec_memcpyIn_eq (mem : Int → Nat) (ES : Int) (d : Nat)
    (r : List Nat) (hr : (r.length : Int) = ES) :
    slotRec (memcpyIn mem ((d : Int) * ES) r ES) ES d = r :=
  memcpyOut_memcpyIn_same mem _ r ES hr

theorem slotsFrom_congr (m1 m2 : Int → Nat) (ES : Int) (f f2 count : Nat)
    (h : ∀ j, j < count → slotRec m1 ES (f + j) = slotRec m2 ES (f2 + j)) :
    slotsFrom m1 ES f count = slotsFrom m2 ES f2 count := by
  unfold slotsFrom
  apply List.map_congr_left
  intro j hj
  exact h j (List.mem_range.mp hj)

theorem slotsFrom_succ (m : Int → Nat) (ES : Int) (f count : Nat) :
    slotsFrom m ES f (count + 1) = slotsFrom m ES f count ++ [slotRec m ES (f + count)] := by
  unfold slotsFrom
  rw [List.range_succ, List.map_append]
  rfl

theorem slotsFrom_cons (m : Int → Nat) (ES : Int) (f count : Nat) :
    slotsFrom m ES f (count + 1) = slotRec m ES f :: slotsFrom m ES (f + 1) count := by
  unfold slotsFrom
  rw [List.range_succ_eq_map, List.map_cons, List.map_map]
  simp only [Nat.add_zero, List.cons.injEq, true_and]
  apply List.map_congr_left
  intro j _
  simp only [Function.comp, Nat.succ_eq_add_one]
  congr 1
  omega

theorem slotsFrom_length (m : Int → Nat) (ES : Int) (f count : Nat) :
    (slotsFrom m ES f count).length = count := by
  simp [slotsFrom]

theorem slotsFrom_one (m : Int → Nat) (ES : Int) (f : Nat) :
    slotsFrom m ES f 1 = [slotRec m ES f] := by
  simp [slotsFrom, List.range_succ]

theorem slotRec_memmove_in (mem : Int → Nat) (ES : Int) (hES : 0 ≤ ES) (f N k : Nat)
    (h1 : f ≤ k) (h2 : k < N) :
    slotRec (memmove mem ((f:Int) * ES + BUFFER_DIM * ES) ((f:Int) * ES)
      ((N:Int) * ES - (f:Int) * ES)) ES (k + 3) = slotRec mem ES k := by
  unfold slotRec
  unfold memcpyOut
  apply List.map_congr_left
  intro j hj
  have hj' := List.mem_range.mp hj
  unfold memmove BUFFER_DIM
  have e3 : ((k + 3 : Nat) : Int) * ES = (k:Int) * ES + 3 * ES := by push_cast; ring
  have hk : (f : Int) * ES ≤ (k : Int) * ES :=
    mul_le_mul_of_nonneg_right (by exact_mod_cast h1) hES
  have hk2 := slot_step ES hES k N h2
  rw [if_pos]
  · congr 1; rw [e3]; ring
  · rw [e3]; constructor <;> omega

theorem slotRec_memmove_out (mem : Int → Nat) (ES : Int) (hES : 0 ≤ ES) (f k : Nat)
    (n : Int) (h1 : k < f) :
    slotRec (memmove mem ((f:Int) * ES + BUFFER_DIM * ES) ((f:Int) * ES) n) ES k
      = slotRec mem ES k := by
  unfold slotRec
  apply memcpyOut_congr
  intro i hi1 hi2
  unfold memmove BUFFER_DIM
  rw [if_neg]
  have := slot_step ES hES k f h1
  omega

theorem put_empty (Q : queue) (r : List Nat) (h1 : Q.First = -1) (h2 : Q.ElementNum ≠ 0)
    (h3 : 0 < Q.ElementNum * Q.ElementSize) :
    putQueueElement Q r =
      { Q with First := 0, Last := 0, Queue := memcpyIn Q.Queue 0 r Q.ElementSize } := by
  unfold putQueueElement
  simp only [h1, h2, if_true, if_false]
  have : ¬ (0 ≥ Q.ElementNum * Q.ElementSize) := by omega
  simp [this]

theorem put_plain (Q : queue) (r : List Nat) (L : Int) (h1 : Q.First ≠ -1)
    (hL : L = if Q.Last + Q.ElementSize ≥ Q.ElementNum * Q.ElementSize then 0
              else Q.Last + Q.ElementSize)
    (h2 : L ≠ Q.First) :
    putQueueElement Q r =
      { Q with Last := L, Queue := memcpyIn Q.Queue L r Q.ElementSize } := by
  unfold putQueueElement
  simp only [h1, if_false]
  split_ifs at hL with hc
  · subst hL
    simp only [hc, if_true]
    simp [h2, h1]
  · subst hL
    simp only [hc, if_false]
    simp [h2, h1]

theorem put_grow (Q : queue) (r : List Nat) (h1 : Q.First ≠ -1)
    (hL : Q.First = if Q.Last + Q.ElementSize ≥ Q.ElementNum * Q.ElementSize then 0
              else Q.Last + Q.ElementSize) :
    putQueueElement Q r =
      { Q with
        Last := Q.First
        ElementNum := Q.ElementNum + BUFFER_DIM
        First := Q.First + BUFFER_DIM * Q.ElementSize
        Queue := memcpyIn (memmove Q.Queue (Q.First + BUFFER_DIM * Q.ElementSize) Q.First
                   (Q.ElementNum * Q.ElementSize - Q.First)) Q.First r Q.ElementSize } := by
  unfold putQueueElement
  simp only [h1, if_false]
  split_ifs at hL with hc
  · simp only [hc, if_true]
    simp [← hL]
  · simp only [hc, if_false]
    simp [← hL]

theorem QRepr_put (Q : queue) (l : List (List Nat)) (r : List Nat)
    (h : QRepr Q l) (hr : (r.length : Int) = Q.ElementSize) :
    QRepr (putQueueElement Q r) (l ++ [r]) ∧
      (putQueueElement Q r).ElementSize = Q.ElementSize := by
  obtain ⟨hES, N, hN, hN1, h⟩ := h
  have hES0 : (0 : Int) ≤ Q.ElementSize := by omega
  have hNpos : 0 < Q.ElementNum * Q.ElementSize := by
    rw [hN]; have : (1 : Int) ≤ N := by exact_mod_cast hN1
    positivity
  rcases h with ⟨hF, hL, hl⟩ | ⟨f, g, hF, hL, hfg, hgN, hl⟩ | ⟨f, g, hF, hL, hgf, hfN, hl⟩
  · -- empty queue
    rw [put_empty Q r hF (by omega) hNpos]
    refine ⟨⟨hES, N, hN, hN1, Or.inr (Or.inl ⟨0, 0, by simp, by simp, le_refl _, by omega, ?_⟩)⟩, rfl⟩
    subst hl
    have := slotRec_memcpyIn_eq Q.Queue Q.ElementSize 0 r hr
    simp only [Nat.cast_zero, zero_mul] at this
    simp [slotsFrom_one, this]
  · -- contiguous content
    have hF1 : Q.First ≠ -1 := by
      rw [hF]; have : (0:Int) ≤ (f:Int) * Q.ElementSize := by positivity
      omega
    have hfg' := mul_le_mul_of_nonneg_right (show (f:Int) ≤ g by exact_mod_cast hfg) hES0
    by_cases hwrap : g + 1 = N
    · -- the new last slot wraps to offset 0
      have hc : Q.Last + Q.ElementSize ≥ Q.ElementNum * Q.ElementSize := by
        rw [hL, hN, ← hwrap]; push_cast; linarith
      by_cases hf0 : f = 0
      · -- full buffer: grow
        subst hf0
        have hF0 : Q.First = 0 := by simpa using hF
        have hgrow := put_grow Q r hF1 (by rw [if_pos hc]; exact hF0)
        rw [hgrow]
        refine ⟨⟨hES, N + 3, by simp [hN, BUFFER_DIM], by omega, Or.inr (Or.inr ⟨3, 0, ?_, ?_, by omega, by omega, ?_⟩)⟩, rfl⟩
        · simp [hF0, BUFFER_DIM]
        · simp [hF0]
        · simp only [hF0, hN]
          have e1 : N + 3 - 3 = g - 0 + 1 := by omega
          rw [e1, hl]
          congr 1
          · apply slotsFrom_congr
            intro j hj
            rw [show (0:Int) = ((0:Nat):Int) * Q.ElementSize by simp]
            rw [slotRec_memcpyIn_ne _ _ hES0 _ _ _ (by omega)]
            have := slotRec_memmove_in Q.Queue Q.ElementSize hES0 0 N (0 + j) (by omega) (by omega)
            simp only [Nat.cast_zero, zero_mul, zero_add, sub_zero] at this ⊢
            rw [show 3 + j = j + 3 by omega]
            exact this.symm
          · have := slotRec_memcpyIn_eq (memmove Q.Queue (0 + BUFFER_DIM * Q.ElementSize) 0
              (↑N * Q.ElementSize - 0)) Q.ElementSize 0 r hr
            simp only [Nat.cast_zero, zero_mul, zero_add, sub_zero] at this
            simp [slotsFrom_one, this]
      · -- room at slot 0
        have hplain := put_plain Q r 0 hF1 (by rw [if_pos hc]) (by
          rw [hF]; intro h0
          have := slot_step Q.ElementSize hES0 0 f (by omega)
          simp at this; omega)
        rw [hplain]
        refine ⟨⟨hES, N, hN, hN1, Or.inr (Or.inr ⟨f, 0, hF, by simp, by omega, by omega, ?_⟩)⟩, rfl⟩
        simp only
        rw [hl, show g - f + 1 = N - f by omega]
        rw [show (0:Int) = ((0:Nat):Int) * Q.ElementSize by simp]
        congr 1
        · apply slotsFrom_congr
          intro j hj
          rw [slotRec_memcpyIn_ne _ _ hES0 _ _ _ (by omega)]
        · have := slotRec_memcpyIn_eq Q.Queue Q.ElementSize 0 r hr
          rw [slotsFrom_one, this]
    · -- plain append in the next slot
      have hlt : g + 1 < N := by omega
      have hstep := slot_step Q.ElementSize hES0 (g + 1) N hlt
      have e1 : ((g + 1 : Nat) : Int) * Q.ElementSize = (g:Int) * Q.ElementSize + Q.ElementSize := by
        push_cast; ring
      have hc : ¬ (Q.Last + Q.ElementSize ≥ Q.ElementNum * Q.ElementSize) := by
        rw [hL, hN]; omega
      have hplain := put_plain Q r (((g + 1 : Nat) : Int) * Q.ElementSize) hF1
        (by rw [if_neg hc, hL, e1]) (by rw [hF]; omega)
      rw [hplain]
      refine ⟨⟨hES, N, hN, hN1, Or.inr (Or.inl ⟨f, g + 1, hF, rfl, by omega, hlt, ?_⟩)⟩, rfl⟩
      simp only
      rw [show g + 1 - f + 1 = (g - f + 1) + 1 by omega, slotsFrom_succ, hl]
      congr 1
      · apply slotsFrom_congr
        intro j hj
        rw [slotRec_memcpyIn_ne _ _ hES0 _ _ _ (by omega)]
      · rw [show f + (g - f + 1) = g + 1 by omega, slotRec_memcpyIn_eq _ _ _ r hr]
  · -- wrapped content
    have hF1 : Q.First ≠ -1 := by
      rw [hF]; have : (0:Int) ≤ (f:Int) * Q.ElementSize := by positivity
      omega
    have e1 : ((g + 1 : Nat) : Int) * Q.ElementSize = (g:Int) * Q.ElementSize + Q.ElementSize := by
      push_cast; ring
    have hstepN := slot_step Q.ElementSize hES0 f N hfN
    have hc : ¬ (Q.Last + Q.ElementSize ≥ Q.ElementNum * Q.ElementSize) := by
      rw [hL, hN]
      have := mul_le_mul_of_nonneg_right (show ((g + 1 : Nat):Int) ≤ f by exact_mod_cast hgf) hES0
      omega
    by_cases hfull : g + 1 = f
    · -- full buffer: grow and shift the segment that starts at First
      have hgrow := put_grow Q r hF1 (by rw [if_neg hc, hL, hF, ← hfull, e1])
      rw [hgrow]
      refine ⟨⟨hES, N + 3, by simp [hN, BUFFER_DIM], by omega,
        Or.inr (Or.inr ⟨f + 3, f, ?_, hF, by omega, by omega, ?_⟩)⟩, rfl⟩
      · simp only [hF, BUFFER_DIM]; push_cast; ring
      · simp only [hF, hN]
        rw [show N + 3 - (f + 3) = N - f by omega, show f + 1 = (g + 1) + 1 by omega,
          slotsFrom_succ, hl, List.append_assoc]
        congr 1
        · apply slotsFrom_congr
          intro j hj
          rw [slotRec_memcpyIn_ne _ _ hES0 _ _ _ (by omega)]
          rw [show f + 3 + j = (f + j) + 3 by omega]
          exact (slotRec_memmove_in Q.Queue Q.ElementSize hES0 f N (f + j) (by omega) (by omega)).symm
        · congr 1
          · apply slotsFrom_congr
            intro j hj
            rw [slotRec_memcpyIn_ne _ _ hES0 _ _ _ (by omega)]
            exact (slotRec_memmove_out Q.Queue Q.ElementSize hES0 f (0 + j) _ (by omega)).symm
          · rw [show 0 + (g + 1) = f by omega, slotRec_memcpyIn_eq _ _ _ r hr]
    · have hlt : g + 1 < f := by omega
      have hstep := slot_step Q.ElementSize hES0 (g + 1) f hlt
      have hplain := put_plain Q r (((g + 1 : Nat) : Int) * Q.ElementSize) hF1
        (by rw [if_neg hc, hL, e1]) (by rw [hF]; omega)
      rw [hplain]
      refine ⟨⟨hES, N, hN, hN1, Or.inr (Or.inr ⟨f, g + 1, hF, rfl, hlt, hfN, ?_⟩)⟩, rfl⟩
      simp only
      rw [slotsFrom_succ, hl, List.append_assoc]
      congr 1
      · apply slotsFrom_congr
        intro j hj
        rw [slotRec_memcpyIn_ne _ _ hES0 _ _ _ (by omega)]
      · congr 1
        · apply slotsFrom_congr
          intro j hj
          rw [slotRec_memcpyIn_ne _ _ hES0 _ _ _ (by omega)]
        · rw [show 0 + (g + 1) = g + 1 by omega, slotRec_memcpyIn_eq _ _ _ r hr]

theorem QRepr_init (pQueue : queue) (ES : Int) (buf : Int → Nat) (h : 1 ≤ ES) :
    QRepr (initQueue pQueue ES buf) [] ∧ (initQueue pQueue ES buf).ElementSize = ES := by
  unfold initQueue
  rw [if_neg (by omega)]
  exact ⟨⟨h, 3, rfl, by omega, Or.inl ⟨rfl, rfl, rfl⟩⟩, rfl⟩

theorem get_last (Q : queue) (h1 : Q.First ≠ -1) (h2 : Q.First = Q.Last) :
    getQueueElement Q =
      ({ Q with First := -1, Last := -1 }, some (memcpyOut Q.Queue Q.First Q.ElementSize)) := by
  unfold getQueueElement
  rw [if_neg h1]
  simp only [h2, if_true]

theorem get_step (Q : queue) (F : Int) (h1 : Q.First ≠ -1) (h2 : Q.First ≠ Q.Last)
    (hF : F = if Q.First + Q.ElementSize ≥ Q.ElementNum * Q.ElementSize then 0
              else Q.First + Q.ElementSize) :
    getQueueElement Q =
      ({ Q with First := F }, some (memcpyOut Q.Queue Q.First Q.ElementSize)) := by
  unfold getQueueElement
  rw [if_neg h1]
  simp only [h2, if_false]
  split_ifs at hF with hc
  · subst hF; simp only [hc, if_true]
  · subst hF; simp only [hc, if_false]

theorem QRepr_get (Q : queue) (l : List (List Nat)) (h : QRepr Q l) :
    (getQueueElement Q).2 = l.head? ∧ QRepr (getQueueElement Q).1 l.tail ∧
      (getQueueElement Q).1.ElementSize = Q.ElementSize := by
  obtain ⟨hES, N, hN, hN1, h⟩ := h
  have hES0 : (0 : Int) ≤ Q.ElementSize := by omega
  rcases h with ⟨hF, hL, hl⟩ | ⟨f, g, hF, hL, hfg, hgN, hl⟩ | ⟨f, g, hF, hL, hgf, hfN, hl⟩
  · subst hl
    unfold getQueueElement
    rw [if_pos hF]
    exact ⟨rfl, ⟨hES, N, hN, hN1, Or.inl ⟨hF, hL, rfl⟩⟩, rfl⟩
  · have hF1 : Q.First ≠ -1 := by
      rw [hF]; have : (0:Int) ≤ (f:Int) * Q.ElementSize := by positivity
      omega
    have hhead : memcpyOut Q.Queue Q.First Q.ElementSize = slotRec Q.Queue Q.ElementSize f := by
      rw [hF]; rfl
    rw [show g - f + 1 = (g - f) + 1 by omega, slotsFrom_cons] at hl
    subst hl
    by_cases hfg2 : f = g
    · subst hfg2
      rw [get_last Q hF1 (by rw [hF, hL])]
      refine ⟨by simp [hhead], ⟨hES, N, hN, hN1, Or.inl ⟨rfl, rfl, ?_⟩⟩, rfl⟩
      simp [slotsFrom]
    · have hlt : f < g := by omega
      have hs := slot_step Q.ElementSize hES0 f g hlt
      have hs2 := slot_step Q.ElementSize hES0 g N hgN
      have hc : ¬ (Q.First + Q.ElementSize ≥ Q.ElementNum * Q.ElementSize) := by
        rw [hF, hN]; omega
      have e1 : ((f + 1 : Nat) : Int) * Q.ElementSize = (f:Int) * Q.ElementSize + Q.ElementSize := by
        push_cast; ring
      rw [get_step Q (((f + 1 : Nat) : Int) * Q.ElementSize) hF1 (by rw [hF, hL]; omega)
        (by rw [if_neg hc, hF, e1])]
      refine ⟨by simp [hhead], ⟨hES, N, hN, hN1, Or.inr (Or.inl ⟨f + 1, g, rfl, hL, by omega, hgN, ?_⟩)⟩, rfl⟩
      simp only [List.tail_cons]
      rw [show g - (f + 1) + 1 = g - f by omega]
  · have hF1 : Q.First ≠ -1 := by
      rw [hF]; have : (0:Int) ≤ (f:Int) * Q.ElementSize := by positivity
      omega
    have hhead : memcpyOut Q.Queue Q.First Q.ElementSize = slotRec Q.Queue Q.ElementSize f := by
      rw [hF]; rfl
    rw [show N - f = (N - f - 1) + 1 by omega, slotsFrom_cons] at hl
    subst hl
    have hs := slot_step Q.ElementSize hES0 g f hgf
    have hne : Q.First ≠ Q.Last := by rw [hF, hL]; omega
    have e1 : ((f + 1 : Nat) : Int) * Q.ElementSize = (f:Int) * Q.ElementSize + Q.ElementSize := by
      push_cast; ring
    by_cases hend : f + 1 = N
    · have hc : Q.First + Q.ElementSize ≥ Q.ElementNum * Q.ElementSize := by
        rw [hF, hN, ← hend, e1]
      rw [get_step Q 0 hF1 hne (by rw [if_pos hc])]
      refine ⟨by simp [hhead], ⟨hES, N, hN, hN1, Or.inr (Or.inl ⟨0, g, by simp, hL, by omega, by omega, ?_⟩)⟩, rfl⟩
      simp only [List.cons_append, List.tail_cons]
      rw [show N - f - 1 = 0 by omega, show g - 0 + 1 = g + 1 by omega]
      simp [slotsFrom]
    · have hs2 := slot_step Q.ElementSize hES0 (f + 1) N (by omega)
      have hc : ¬ (Q.First + Q.ElementSize ≥ Q.ElementNum * Q.ElementSize) := by
        rw [hF, hN]; omega
      rw [get_step Q (((f + 1 : Nat) : Int) * Q.ElementSize) hF1 hne (by rw [if_neg hc, hF, e1])]
      refine ⟨by simp [hhead], ⟨hES, N, hN, hN1, Or.inr (Or.inr ⟨f + 1, g, rfl, hL, by omega, by omega, ?_⟩)⟩, rfl⟩
      simp only [List.cons_append, List.tail_cons]
      rw [show N - (f + 1) = N - f - 1 by omega]

theorem QRepr_elementNumber (Q : queue) (l : List (List Nat)) (h : QRepr Q l) :
    elementNumber Q = (l.length : Int) ∧ (isQueueEmpty Q = true ↔ l = []) := by
  obtain ⟨hES, N, hN, hN1, h⟩ := h
  have hES0 : (0 : Int) ≤ Q.ElementSize := by omega
  rcases h with ⟨hF, hL, hl⟩ | ⟨f, g, hF, hL, hfg, hgN, hl⟩ | ⟨f, g, hF, hL, hgf, hfN, hl⟩
  · subst hl
    simp [elementNumber, isQueueEmpty, hF]
  · have hF1 : Q.First ≠ -1 := by
      rw [hF]; have : (0:Int) ≤ (f:Int) * Q.ElementSize := by positivity
      omega
    have hle := mul_le_mul_of_nonneg_right (show (f:Int) ≤ g by exact_mod_cast hfg) hES0
    have hlen : l.length = g - f + 1 := by rw [hl, slotsFrom_length]
    have hd : Q.Last - Q.First = ((g - f : Nat) : Int) * Q.ElementSize := by
      rw [hL, hF]; push_cast [hfg]; ring
    constructor
    · unfold elementNumber isQueueEmpty
      simp only [hF1, decide_False, Bool.false_eq_true, if_false]
      rw [if_pos (by rw [hF, hL]; exact hle), hd, hlen]
      rw [Int.tdiv_eq_ediv (mul_nonneg (by positivity) hES0) hES0, Int.mul_ediv_cancel _ (by omega)]
      push_cast; rfl
    · simp only [isQueueEmpty, hF1, decide_False, Bool.false_eq_true, false_iff]
      intro h0; rw [h0] at hlen; simp only [List.length_nil] at hlen; omega
  · have hF1 : Q.First ≠ -1 := by
      rw [hF]; have : (0:Int) ≤ (f:Int) * Q.ElementSize := by positivity
      omega
    have hs := slot_step Q.ElementSize hES0 g f hgf
    have hlen : l.length = (N - f) + (g + 1) := by
      rw [hl, List.length_append, slotsFrom_length, slotsFrom_length]
    have hd : Q.ElementSize * Q.ElementNum - Q.First + Q.Last
        = ((N - f + g : Nat) : Int) * Q.ElementSize := by
      rw [hL, hF, hN]; push_cast [le_of_lt hfN]; ring
    constructor
    · unfold elementNumber isQueueEmpty
      simp only [hF1, decide_False, Bool.false_eq_true, if_false]
      rw [if_neg (by rw [hF, hL]; omega), hd, hlen]
      rw [Int.tdiv_eq_ediv (mul_nonneg (by positivity) hES0) hES0, Int.mul_ediv_cancel _ (by omega)]
      push_cast; ring
    · simp only [isQueueEmpty, hF1, decide_False, Bool.false_eq_true, false_iff]
      intro h0; rw [h0] at hlen; simp only [List.length_nil] at hlen; omega

theorem runQueue_refines (ops : List QOp) :
    ∀ (Q : queue) (l : List (List Nat)), QRepr Q l → recordsSized Q.ElementSize ops →
      (runQueue ops Q).2 = (runListQueue ops l).2 ∧
      QRepr (runQueue ops Q).1 (runListQueue ops l).1 := by
  induction ops with
  | nil => intro Q l h _; exact ⟨rfl, h⟩
  | cons op ops ih =>
    intro Q l h hrec
    cases op with
    | put r =>
      obtain ⟨hr, hrest⟩ := hrec
      obtain ⟨h1, h2⟩ := QRepr_put Q l r h hr
      simp only [runQueue, runListQueue]
      exact ih _ _ h1 (by rw [h2]; exact hrest)
    | get =>
      obtain ⟨h1, h2, h3⟩ := QRepr_get Q l h
      have := ih _ _ h2 (by rw [h3]; exact hrec)
      simp only [runQueue, runListQueue]
      exact ⟨by rw [h1, this.1], this.2⟩

theorem runListQueue_count (ops : List QOp) :
    ∀ (l : List (List Nat)), getsOnNonEmpty ops l.length = true →
      (runListQueue ops l).1.length + countGets ops = l.length + countPuts ops ∧
      none ∉ (runListQueue ops l).2 := by
  induction ops with
  | nil => intro l _; simp [runListQueue, countGets, countPuts]
  | cons op ops ih =>
    intro l h
    cases op with
    | put r =>
      simp only [getsOnNonEmpty] at h
      have := ih (l ++ [r]) (by simpa using h)
      simp only [runListQueue, countGets, countPuts]
      simp only [List.length_append, List.length_singleton] at this
      exact ⟨by omega, this.2⟩
    | get =>
      simp only [getsOnNonEmpty, Bool.and_eq_true, decide_eq_true_eq] at h
      cases l with
      | nil => simp at h
      | cons a t =>
        have := ih t (by simpa using h.2)
        simp only [runListQueue, countGets, countPuts, List.tail_cons, List.length_cons,
          List.head?_cons, List.mem_cons, not_or]
        exact ⟨by omega, by simp, this.2⟩

theorem putMany_repr (rs : List (List Nat)) :
    ∀ (Q : queue) (l : List (List Nat)), QRepr Q l →
      (∀ r ∈ rs, (r.length : Int) = Q.ElementSize) → QRepr (putMany rs Q) (l ++ rs) := by
  induction rs with
  | nil => intro Q l h _; simpa [putMany] using h
  | cons r rs ih =>
    intro Q l h hr
    obtain ⟨h1, h2⟩ := QRepr_put Q l r h (hr r (List.mem_cons_self _ _))
    have := ih _ _ h1 (fun x hx => by rw [h2]; exact hr x (List.mem_cons_of_mem _ hx))
    simpa [putMany] using this

theorem getMany_repr (l : List (List Nat)) :
    ∀ (Q : queue), QRepr Q l →
      (getMany l.length Q).2 = l.map some ∧ QRepr (getMany l.length Q).1 [] := by
  induction l with
  | nil => intro Q h; exact ⟨rfl, h⟩
  | cons a t ih =>
    intro Q h
    obtain ⟨h1, h2, _⟩ := QRepr_get Q (a :: t) h
    have := ih _ h2
    simp only [List.length_cons, getMany, List.map_cons]
    exact ⟨by rw [h1, this.1]; rfl, this.2⟩

/-- C4: for every element size at least 1 and every list of records of that size,
putting the records into a queue created by `initQueue` and then getting as many
elements returns the records in the order in which they were put, and the queue is
empty afterwards. -/
theorem fifo_puts_then_gets (pQueue : queue) (ES : Int) (buf : Int → Nat)
    (rs : List (List Nat)) (hES : 1 ≤ ES) (hrs : ∀ r ∈ rs, (r.length : Int) = ES) :
    (getMany rs.length (putMany rs (initQueue pQueue ES buf))).2 = rs.map some ∧
    isQueueEmpty (getMany rs.length (putMany rs (initQueue pQueue ES buf))).1 = true := by
  obtain ⟨h0, hES0⟩ := QRepr_init pQueue ES buf hES
  have h1 := putMany_repr rs _ [] h0 (by rw [hES0]; exact hrs)
  rw [List.nil_append] at h1
  obtain ⟨h2, h3⟩ := getMany_repr rs _ h1
  exact ⟨h2, (QRepr_elementNumber _ _ h3).2.mpr rfl⟩

/-- Witness of C4: four 2-byte records, which forces the buffer to grow. -/
theorem fifo_puts_then_gets_witness :
    (1 : Int) ≤ 2 ∧
    (∀ r ∈ [[1, 2], [3, 4], [5, 6], [7, 8]], ((r : List Nat).length : Int) = 2) ∧
    (getMany 4 (putMany [[1, 2], [3, 4], [5, 6], [7, 8]] (initQueue blankQueue 2 (fun _ => 9)))).2
      = [some [1, 2], some [3, 4], some [5, 6], some [7, 8]] ∧
    isQueueEmpty (getMany 4 (putMany [[1, 2], [3, 4], [5, 6], [7, 8]]
      (initQueue blankQueue 2 (fun _ => 9)))).1 = true :=
  ⟨by decide, by decide,
   fifo_puts_then_gets blankQueue 2 (fun _ => 9) [[1, 2], [3, 4], [5, 6], [7, 8]]
     (by decide) (by decide)⟩

/-- C5: on a queue created by `initQueue`, every interleaving of puts and gets
behaves like the abstract list queue: each get returns what the list queue returns
(the oldest record not yet returned), `elementNumber` is the length of the list
queue, and when gets are issued only on a non-empty queue no get fails and
`elementNumber` equals the number of puts minus the number of gets; wrap-around and
the resize by `BUFFER_DIM` slots are part of `putQueueElement`. -/
theorem queue_refines_list_queue (pQueue : queue) (ES : Int) (buf : Int → Nat)
    (ops : List QOp) (hES : 1 ≤ ES) (hrec : recordsSized ES ops) :
    (runQueue ops (initQueue pQueue ES buf)).2 = (runListQueue ops []).2 ∧
    elementNumber (runQueue ops (initQueue pQueue ES buf)).1
      = ((runListQueue ops []).1.length : Int) ∧
    (getsOnNonEmpty ops 0 = true →
      none ∉ (runQueue ops (initQueue pQueue ES buf)).2 ∧
      elementNumber (runQueue ops (initQueue pQueue ES buf)).1
        = (countPuts ops : Int) - (countGets ops : Int)) := by
  obtain ⟨h0, hES0⟩ := QRepr_init pQueue ES buf hES
  obtain ⟨h1, h2⟩ := runQueue_refines ops _ [] h0 (by rw [hES0]; exact hrec)
  have h3 := (QRepr_elementNumber _ _ h2).1
  refine ⟨h1, h3, fun hg => ?_⟩
  obtain ⟨h4, h5⟩ := runListQueue_count ops [] hg
  rw [h1, h3]
  refine ⟨h5, ?_⟩
  simp only [List.length_nil] at h4
  omega

/-- Witness of C5: a run that wraps around and grows the buffer. -/
theorem queue_refines_list_queue_witness :
    (1 : Int) ≤ 1 ∧
    recordsSized 1 [QOp.put [1], QOp.put [2], QOp.get, QOp.put [3], QOp.put [4],
      QOp.put [5], QOp.get, QOp.get] ∧
    (runQueue [QOp.put [1], QOp.put [2], QOp.get, QOp.put [3], QOp.put [4],
      QOp.put [5], QOp.get, QOp.get] (initQueue blankQueue 1 (fun _ => 0))).2
      = [some [1], some [2], some [3]] :=
  ⟨by decide, by simp [recordsSized],
   (queue_refines_list_queue blankQueue 1 (fun _ => 0) [QOp.put [1], QOp.put [2], QOp.get,
      QOp.put [3], QOp.put [4], QOp.put [5], QOp.get, QOp.get] (by decide)
      (by simp [recordsSized])).1.trans (by decide)⟩


/-! ## connectivity.c : encoding and decoding of axon segments -/

theorem toU32_of_nonneg (x : Int) (h0 : 0 ≤ x) (h1 : x < 4294967296) : toU32 x = x.toNat := by
  unfold toU32; omega

theorem toI32_of_range (x : Int) (h0 : -2147483648 ≤ x) (h1 : x < 2147483648) : toI32 x = x := by
  unfold toI32; split_ifs <;> omega

theorem addToLayer_of_prev (s : support_layer) (prev p size : Int)
    (hprev : -1 ≤ prev) (hlt : prev < p) (hp : p < 2147483648)
    (hL : s.LastPost = toU32 prev) :
    addToLayer s p size =
      { DPost := s.DPost ++ [deltaByte prev p]
        Exception := s.Exception ++ (if p - prev > 255 then [p.toNat] else [])
        LastPost := toU32 p
        SynapseSize := s.SynapseSize + size } := by
  have hD : toU32 (p - (s.LastPost : Int)) = (p - prev).toNat := by
    rw [hL]; unfold toU32; omega
  unfold addToLayer deltaByte
  simp only [hD, MAX_DISTANCE, EXCEPTION]
  by_cases h : p - prev > 255
  · have h' : (p - prev).toNat > 255 := by omega
    rw [if_pos h', if_pos h, if_pos h]
    simp only [Nat.zero_mod]
    rw [toU32_of_nonneg p (by omega) (by omega)]
  · have h' : ¬ (p - prev).toNat > 255 := by omega
    rw [if_neg h', if_neg h, if_neg h]
    have hm : (p - prev).toNat % 256 = (p - prev).toNat := by omega
    rw [hm, List.append_nil]

theorem foldl_addSynapse_layer (l : Nat) (size : Int) (posts : List Int) :
    ∀ S : Nat → support_layer,
      (posts.foldl (fun S p => addSynapse S l p size) S) l
        = posts.foldl (fun s p => addToLayer s p size) (S l) := by
  induction posts with
  | nil => intro S; rfl
  | cons p ps ih =>
    intro S
    simp only [List.foldl_cons]
    rw [ih]
    simp [addSynapse]

theorem foldl_addToLayer (size : Int) (posts : List Int) :
    ∀ (s : support_layer) (prev : Int), -1 ≤ prev → increasingFrom prev posts →
      (∀ p ∈ posts, p < 2147483648) → s.LastPost = toU32 prev →
      (posts.foldl (fun s p => addToLayer s p size) s).DPost = s.DPost ++ deltaBytes prev posts ∧
      (posts.foldl (fun s p => addToLayer s p size) s).Exception
        = s.Exception ++ deltaExceptions prev posts ∧
      (posts.foldl (fun s p => addToLayer s p size) s).SynapseSize
        = s.SynapseSize + size * posts.length := by
  induction posts with
  | nil => intro s prev _ _ _ _; simp [deltaBytes, deltaExceptions]
  | cons p ps ih =>
    intro s prev hprev hinc hlt hL
    obtain ⟨h1, h2⟩ := hinc
    have hp := hlt p (List.mem_cons_self _ _)
    simp only [List.foldl_cons]
    rw [addToLayer_of_prev s prev p size hprev h1 hp hL]
    obtain ⟨e1, e2, e3⟩ := ih
      { DPost := s.DPost ++ [deltaByte prev p]
        Exception := s.Exception ++ (if p - prev > 255 then [p.toNat] else [])
        LastPost := toU32 p
        SynapseSize := s.SynapseSize + size } p (by omega) h2
      (fun q hq => hlt q (List.mem_cons_of_mem _ hq)) rfl
    rw [e1, e2, e3]
    simp only [deltaBytes, deltaExceptions, List.length_cons]
    refine ⟨by simp, ?_, by push_cast; ring⟩
    by_cases h : p - prev > 255
    · simp [h]
    · simp [h]

theorem deltaByte_ne_zero_iff (prev p : Int) (h : prev < p) :
    deltaByte prev p ≠ EXCEPTION ↔ ¬ p - prev > 255 := by
  unfold deltaByte EXCEPTION
  split_ifs with hc
  · simp [hc]
  · simp only [hc, not_false_eq_true, iff_true]; omega

theorem simulationSegment_decodes (size : Int → Option Int) (f : Int → Int)
    (posts : List Int) :
    ∀ (prev : Int) (E0 : List Nat) (o : Int), -1 ≤ prev → increasingFrom prev posts →
      (∀ p ∈ posts, p < 2147483648) → (∀ p ∈ posts, size p = some (f p)) →
      simulationSegment size (E0 ++ deltaExceptions prev posts) (deltaBytes prev posts)
          prev E0.length o
        = some (offsetsFrom f o posts, o + (posts.map f).sum) := by
  induction posts with
  | nil => intro prev E0 o _ _ _ _; simp [deltaBytes, simulationSegment, offsetsFrom]
  | cons p ps ih =>
    intro prev E0 o hprev hinc hlt hsz
    obtain ⟨h1, h2⟩ := hinc
    have hp := hlt p (List.mem_cons_self _ _)
    have hszp := hsz p (List.mem_cons_self _ _)
    have hlt' : ∀ q ∈ ps, q < 2147483648 := fun q hq => hlt q (List.mem_cons_of_mem _ hq)
    have hsz' : ∀ q ∈ ps, size q = some (f q) := fun q hq => hsz q (List.mem_cons_of_mem _ hq)
    simp only [deltaBytes, deltaExceptions, simulationSegment, offsetsFrom, List.map_cons,
      List.sum_cons]
    by_cases h : p - prev > 255
    · have hb : ¬ deltaByte prev p ≠ EXCEPTION := by
        rw [deltaByte_ne_zero_iff prev p h1]; exact not_not.mpr h
      simp only [hb, if_false, h, if_true]
      have hget : (E0 ++ p.toNat :: deltaExceptions p ps).getD E0.length 0 = p.toNat := by
        rw [List.getD_eq_getElem?_getD, List.getElem?_append_right (le_refl _)]
        simp
      have hI : toI32 ((p.toNat : Nat) : Int) = p := by
        rw [toI32_of_range _ (by omega) (by omega)]; omega
      rw [hget, hI, hszp]
      have := ih p (E0 ++ [p.toNat]) (o + f p) (by omega) h2 hlt' hsz'
      simp only [List.append_assoc, List.singleton_append, List.length_append,
        List.length_singleton] at this
      simp only [this]
      simp [add_assoc]
    · have hb : deltaByte prev p ≠ EXCEPTION := by
        rw [deltaByte_ne_zero_iff prev p h1]; exact h
      simp only [hb, if_true, h, if_false, ne_eq, not_false_eq_true]
      have hP : prev + ((deltaByte prev p : Nat) : Int) = p := by
        unfold deltaByte; rw [if_neg h]; omega
      rw [hP, hszp]
      have := ih p E0 (o + f p) (by omega) h2 hlt' hsz'
      simp only [this]
      simp [add_assoc]

theorem scanSegment_decodes (size : Nat → Option Int) (f : Int → Int) (PostEnd : Nat)
    (posts : List Int) :
    ∀ (prev : Int) (E0 : List Nat) (o : Int), -1 ≤ prev → increasingFrom prev posts →
      (∀ p ∈ posts, p < 2147483648 ∧ p ≤ PostEnd) →
      (∀ p ∈ posts, size p.toNat = some (f p)) →
      scanSegment size (E0 ++ deltaExceptions prev posts) 0 PostEnd (deltaBytes prev posts)
          (toU32 prev) E0.length o
        = some ((offsetsFrom f o posts).map (fun x => (x.1.toNat, x.2)),
            o + (posts.map f).sum) := by
  induction posts with
  | nil => intro prev E0 o _ _ _ _; simp [deltaBytes, scanSegment, offsetsFrom]
  | cons p ps ih =>
    intro prev E0 o hprev hinc hlt hsz
    obtain ⟨h1, h2⟩ := hinc
    obtain ⟨hp, hpe⟩ := hlt p (List.mem_cons_self _ _)
    have hszp := hsz p (List.mem_cons_self _ _)
    have hlt' : ∀ q ∈ ps, q < 2147483648 ∧ q ≤ PostEnd :=
      fun q hq => hlt q (List.mem_cons_of_mem _ hq)
    have hsz' : ∀ q ∈ ps, size q.toNat = some (f q) :=
      fun q hq => hsz q (List.mem_cons_of_mem _ hq)
    have hU : toU32 p = p.toNat := toU32_of_nonneg p (by omega) (by omega)
    have hle : p.toNat ≤ PostEnd := by omega
    simp only [deltaBytes, deltaExceptions, scanSegment, offsetsFrom, List.map_cons,
      List.sum_cons]
    by_cases h : p - prev > 255
    · have hb : ¬ deltaByte prev p ≠ EXCEPTION := by
        rw [deltaByte_ne_zero_iff prev p h1]; exact not_not.mpr h
      simp only [hb, if_false, h, if_true]
      have hget : (E0 ++ p.toNat :: deltaExceptions p ps).getD E0.length 0 = p.toNat := by
        rw [List.getD_eq_getElem?_getD, List.getElem?_append_right (le_refl _)]
        simp
      rw [hget, hszp]
      have := ih p (E0 ++ [p.toNat]) (o + f p) (by omega) h2 hlt' hsz'
      simp only [List.append_assoc, List.singleton_append, List.length_append,
        List.length_singleton, hU] at this
      simp only [this]
      simp [add_assoc, hle]
    · have hb : deltaByte prev p ≠ EXCEPTION := by
        rw [deltaByte_ne_zero_iff prev p h1]; exact h
      simp only [hb, if_true, h, if_false, ne_eq, not_false_eq_true]
      have hP : toU32 (((toU32 prev : Nat) : Int) + ((deltaByte prev p : Nat) : Int)) = p.toNat := by
        unfold deltaByte; rw [if_neg h]; unfold toU32; omega
      rw [hP, hszp]
      have := ih p E0 (o + f p) (by omega) h2 hlt' hsz'
      simp only [hU] at this
      simp only [this]
      simp [add_assoc, hle]

theorem increasingFrom_of_pairwise (posts : List Int) :
    ∀ prev : Int, posts.Pairwise (· < ·) → (∀ p ∈ posts, prev < p) → increasingFrom prev posts := by
  induction posts with
  | nil => intro _ _ _; trivial
  | cons p ps ih =>
    intro prev hpw hlow
    rw [List.pairwise_cons] at hpw
    exact ⟨hlow p (List.mem_cons_self _ _), ih p hpw.2 hpw.1⟩

theorem pairwise_of_increasingFrom (posts : List Int) :
    ∀ prev : Int, increasingFrom prev posts →
      posts.Pairwise (· < ·) ∧ ∀ p ∈ posts, prev < p := by
  induction posts with
  | nil => intro _ _; simp
  | cons p ps ih =>
    intro prev h
    obtain ⟨h1, h2⟩ := h
    obtain ⟨i1, i2⟩ := ih p h2
    refine ⟨List.pairwise_cons.mpr ⟨i2, i1⟩, ?_⟩
    intro q hq
    rcases List.mem_cons.mp hq with rfl | hq
    · exact h1
    · exact lt_trans h1 (i2 q hq)

theorem count_deltaBytes (posts : List Int) :
    ∀ prev : Int, increasingFrom prev posts →
      (deltaBytes prev posts).count EXCEPTION = (deltaExceptions prev posts).length := by
  induction posts with
  | nil => intro _ _; rfl
  | cons p ps ih =>
    intro prev h
    obtain ⟨h1, h2⟩ := h
    simp only [deltaBytes, deltaExceptions, List.count_cons]
    rw [ih p h2]
    by_cases hc : p - prev > 255
    · have : deltaByte prev p = EXCEPTION := by
        by_contra hne; exact ((deltaByte_ne_zero_iff prev p h1).mp hne) hc
      simp [hc, this]
    · have : deltaByte prev p ≠ EXCEPTION := (deltaByte_ne_zero_iff prev p h1).mpr hc
      simp [hc, this]

theorem encodeLayer_eq (l : Nat) (size : Int) (posts : List Int)
    (hinc : increasingFrom (-1) posts) (hlt : ∀ p ∈ posts, p < 2147483648) :
    (encodeLayer l size posts).DPost = deltaBytes (-1) posts ∧
    (encodeLayer l size posts).Exception = deltaExceptions (-1) posts ∧
    (encodeLayer l size posts).SynapseSize = size * posts.length := by
  unfold encodeLayer
  rw [foldl_addSynapse_layer]
  obtain ⟨e1, e2, e3⟩ := foldl_addToLayer size posts emptySupport (-1) (le_refl _) hinc hlt rfl
  rw [e1, e2, e3]
  simp [emptySupport]

/-- C7: for every strictly increasing list of post-synaptic indices in
`[0, NumNeurons)` assigned to one delay layer, the encoder of
`createSynapticMatrix` stores, for each index, the delta from the previous index,
or the byte `EXCEPTION` together with the absolute index when the delta exceeds
`MAX_DISTANCE`; the decoder of `simulation()` and the decoder of
`scanSynapticMatrix` (over the whole range of neurons) both return exactly the
original list; and the zero bytes are as many as the exceptions, so no genuine
delta is stored as 0. -/
theorem axon_encoding_round_trip (l : Nat) (size : Int) (NumNeurons : Nat)
    (posts : List Int) (hN : NumNeurons ≤ 2147483648)
    (hinc : posts.Pairwise (· < ·)) (hrange : ∀ p ∈ posts, 0 ≤ p ∧ p < NumNeurons) :
    (simulationSegment (fun _ => some size) (encodeLayer l size posts).Exception
        (encodeLayer l size posts).DPost (-1) 0 0).map (fun r => r.1.map Prod.fst)
      = some posts ∧
    (scanSegment (fun _ => some size) (encodeLayer l size posts).Exception 0 (NumNeurons - 1)
        (encodeLayer l size posts).DPost (toU32 (-1)) 0 0).map (fun r => r.1.map Prod.fst)
      = some (posts.map Int.toNat) ∧
    (encodeLayer l size posts).DPost = deltaBytes (-1) posts ∧
    (encodeLayer l size posts).Exception = deltaExceptions (-1) posts ∧
    (encodeLayer l size posts).DPost.count EXCEPTION
      = (encodeLayer l size posts).Exception.length := by
  have hi : increasingFrom (-1) posts :=
    increasingFrom_of_pairwise posts (-1) hinc (fun p hp => by have := (hrange p hp).1; omega)
  have hlt : ∀ p ∈ posts, p < 2147483648 := fun p hp => by have := (hrange p hp).2; omega
  obtain ⟨e1, e2, _⟩ := encodeLayer_eq l size posts hi hlt
  have hoff : ∀ (o : Int) (ps : List Int),
      (offsetsFrom (fun _ => size) o ps).map Prod.fst = ps := by
    intro o ps
    induction ps generalizing o with
    | nil => rfl
    | cons q qs ih => simp [offsetsFrom, ih]
  refine ⟨?_, ?_, e1, e2, ?_⟩
  · have := simulationSegment_decodes (fun _ => some size) (fun _ => size) posts (-1) [] 0
      (le_refl _) hi hlt (fun _ _ => rfl)
    rw [e1, e2]
    simp only [List.nil_append, List.length_nil] at this
    rw [this]
    simp [hoff]
  · have := scanSegment_decodes (fun _ => some size) (fun _ => size) (NumNeurons - 1) posts
      (-1) [] 0 (le_refl _) hi
      (fun p hp => by have := hrange p hp; have := hlt p hp; omega) (fun _ _ => rfl)
    rw [e1, e2]
    simp only [List.nil_append, List.length_nil] at this
    rw [this]
    simp only [Option.map_some', List.map_map, Option.some.injEq]
    rw [← hoff 0 posts, List.map_map, hoff 0 posts]
    apply List.map_congr_left
    intro x _
    rfl
  · rw [e1, e2]; exact count_deltaBytes posts (-1) hi

/-- Witness of C7: indices 3, 4, 300 and 301 (one exception) among 1000 neurons. -/
theorem axon_encoding_round_trip_witness :
    (1000 : Nat) ≤ 2147483648 ∧
    (simulationSegment (fun _ => some 4) (encodeLayer 0 4 [3, 4, 300, 301]).Exception
        (encodeLayer 0 4 [3, 4, 300, 301]).DPost (-1) 0 0).map (fun r => r.1.map Prod.fst)
      = some [3, 4, 300, 301] ∧
    (encodeLayer 0 4 [3, 4, 300, 301]).DPost = [4, 1, 0, 1] ∧
    (encodeLayer 0 4 [3, 4, 300, 301]).Exception = [300] :=
  ⟨by decide,
   (axon_encoding_round_trip 0 4 1000 [3, 4, 300, 301] (by decide) (by decide)
      (by decide)).1,
   by decide, by decide⟩

/-! ### The segments built by `createSynapticMatrix` -/

theorem increasingFrom_snoc (ps : List Int) :
    ∀ (prev p : Int), increasingFrom prev ps → ps.getLastD prev < p →
      increasingFrom prev (ps ++ [p]) := by
  induction ps with
  | nil => intro prev p _ h; exact ⟨by simpa using h, trivial⟩
  | cons q qs ih =>
    intro prev p hinc h
    obtain ⟨h1, h2⟩ := hinc
    refine ⟨h1, ih q p h2 ?_⟩
    cases qs with
    | nil => simpa using h
    | cons r rs => simpa [List.getLastD] using h

theorem getLastD_cons_eq (q prev : Int) (qs : List Int) :
    (q :: qs).getLastD prev = qs.getLastD q := by
  cases qs with
  | nil => rfl
  | cons r rs => simp [List.getLastD]

theorem deltaBytes_snoc (ps : List Int) :
    ∀ (prev p : Int), deltaBytes prev (ps ++ [p])
      = deltaBytes prev ps ++ [deltaByte (ps.getLastD prev) p] := by
  induction ps with
  | nil => intro prev p; rfl
  | cons q qs ih =>
    intro prev p
    rw [getLastD_cons_eq]
    show deltaByte prev q :: deltaBytes q (qs ++ [p]) = _
    rw [ih q p]
    rfl

theorem deltaExceptions_snoc (ps : List Int) :
    ∀ (prev p : Int), deltaExceptions prev (ps ++ [p])
      = deltaExceptions prev ps ++ (if p - ps.getLastD prev > 255 then [p.toNat] else []) := by
  induction ps with
  | nil => intro prev p; simp [deltaExceptions]
  | cons q qs ih =>
    intro prev p
    rw [getLastD_cons_eq]
    show (if q - prev > 255 then q.toNat :: deltaExceptions q (qs ++ [p])
      else deltaExceptions q (qs ++ [p])) = _
    rw [ih q p]
    by_cases h : q - prev > 255
    · simp only [h, if_true, deltaExceptions]; rfl
    · simp only [h, if_false, deltaExceptions]

theorem getLastD_le (ps : List Int) (prev cur : Int) (h : ∀ p ∈ ps, p ≤ cur)
    (hprev : prev ≤ cur) : ps.getLastD prev ≤ cur := by
  cases hps : ps.getLast? with
  | none =>
    have : ps = [] := List.getLast?_eq_none_iff.mp hps
    subst this; simpa using hprev
  | some x =>
    have hx : x ∈ ps := List.mem_of_getLast?_eq_some hps
    have : ps.getLastD prev = x := by
      rw [List.getLastD_eq_getLast?, hps]; rfl
    rw [this]; exact h x hx

theorem getLastD_ge (ps : List Int) :
    ∀ prev : Int, increasingFrom prev ps → prev ≤ ps.getLastD prev := by
  induction ps with
  | nil => intro prev _; simp
  | cons q qs ih =>
    intro prev h
    obtain ⟨h1, h2⟩ := h
    rw [getLastD_cons_eq]
    have := ih q h2
    omega

theorem LayerInv_mono (ok : Int → Prop) (sizeOf : Int → Int) (s : support_layer)
    (cur cur2 : Int) (h : LayerInv ok sizeOf s cur) (hle : cur ≤ cur2) :
    LayerInv ok sizeOf s cur2 := by
  obtain ⟨ps, h1, h2, h3⟩ := h
  exact ⟨ps, h1, fun p hp => ⟨le_trans (h2 p hp).1 hle, (h2 p hp).2⟩, h3⟩

theorem LayerInv_add (ok : Int → Prop) (sizeOf : Int → Int) (s : support_layer)
    (cur p size : Int) (h : LayerInv ok sizeOf s cur) (hcur : -1 ≤ cur) (hlt : cur < p)
    (hp : p < 2147483648) (hsize : size = sizeOf p) (hok : ok p) :
    LayerInv ok sizeOf (addToLayer s p size) p := by
  obtain ⟨ps, h1, h2, h3, h4, h5, h6⟩ := h
  have hlast_le := getLastD_le ps (-1) cur (fun q hq => (h2 q hq).1) hcur
  have hlast_ge := getLastD_ge ps (-1) h1
  rw [addToLayer_of_prev s (ps.getLastD (-1)) p size hlast_ge (by omega) hp h5]
  refine ⟨ps ++ [p], increasingFrom_snoc ps (-1) p h1 (by omega), ?_, ?_, ?_, ?_, ?_⟩
  · intro q hq
    rcases List.mem_append.mp hq with hq | hq
    · have := (h2 q hq).1; exact ⟨by omega, (h2 q hq).2⟩
    · simp only [List.mem_singleton] at hq
      subst hq; exact ⟨le_refl _, hok⟩
  · simp only [deltaBytes_snoc, h3]
  · simp only [deltaExceptions_snoc, h4]
  · simp
  · simp only [h6, hsize, List.map_append, List.sum_append, List.map_cons, List.map_nil,
      List.sum_cons, List.sum_nil, add_zero]

theorem synapseLoop_inv {σ : Type} (getEmptySynapses : Nat → Nat → σ → Nat × σ)
    (P : σ → Prop) (M : Nat) (hM : M < 2147483648)
    (hE : ∀ a b g, P g → 1 ≤ (getEmptySynapses a b g).1 ∧
      (getEmptySynapses a b g).1 + M ≤ 4294967296 ∧ P (getEmptySynapses a b g).2)
    (ok : Int → Prop) (sizeOf : Int → Int) (postPop prePop : Nat) (size bound lo : Int)
    (hb : bound ≤ M) (hsz : ∀ p, lo ≤ p → p < bound → size = sizeOf p ∧ ok p) :
    ∀ (fuel : Nat) (Post : Int) (S : Nat → support_layer) (g : σ) (d : Nat → Nat),
      (bound - Post).toNat + 1 ≤ fuel → lo - 1 ≤ Post → -1 ≤ Post → Post < bound → P g →
      (∀ l, LayerInv ok sizeOf (S l) Post) →
      ∃ S1 g1 d1, synapseLoop getEmptySynapses postPop prePop size bound fuel Post S g d
          = some (S1, g1, d1) ∧ P g1 ∧ ∀ l, LayerInv ok sizeOf (S1 l) (bound - 1) := by
  intro fuel
  induction fuel with
  | zero => intro Post S g d hf; omega
  | succ fuel ih =>
    intro Post S g d hf hlo hPost hPb hg hS
    obtain ⟨hn1, hn2, hg1⟩ := hE postPop prePop g hg
    unfold synapseLoop
    simp only
    have hmono : ∀ l, LayerInv ok sizeOf (S l) (bound - 1) :=
      fun l => LayerInv_mono ok sizeOf (S l) Post (bound - 1) (hS l) (by omega)
    by_cases h1 : toI32 (Post + ((getEmptySynapses postPop prePop g).1 : Int)) < bound
    · rw [if_pos h1]
      by_cases h2 : toI32 (Post + ((getEmptySynapses postPop prePop g).1 : Int)) < 0
      · rw [if_pos h2]
        exact ⟨S, _, d, rfl, hg1, hmono⟩
      · rw [if_neg h2]
        have hP1 : toI32 (Post + ((getEmptySynapses postPop prePop g).1 : Int))
            = Post + ((getEmptySynapses postPop prePop g).1 : Int) := by
          unfold toI32 at h2 ⊢
          split_ifs at h2 ⊢ with hc <;> omega
        rw [hP1] at h1 h2 ⊢
        apply ih
        · omega
        · omega
        · omega
        · exact h1
        · exact hg1
        · intro l
          unfold addSynapse
          by_cases hl : l = d 0
          · rw [if_pos hl]
            exact LayerInv_add ok sizeOf (S (d 0)) Post _ size (hS (d 0)) hPost (by omega)
              (by omega) (hsz _ (by omega) h1).1 (hsz _ (by omega) h1).2
          · rw [if_neg hl]
            exact LayerInv_mono ok sizeOf (S l) Post _ (hS l) (by omega)
    · rw [if_neg h1]
      exact ⟨S, _, d, rfl, hg1, hmono⟩

theorem popOf_range (done : List Nat) :
    ∀ (N : Nat) (rest : List Nat) (p : Nat), done.sum ≤ p → p < done.sum + N →
      popOf (done ++ N :: rest) p = done.length := by
  induction done with
  | nil => intro N rest p _ h2; simp at h2; simp [popOf, h2]
  | cons a as ih =>
    intro N rest p h1 h2
    simp only [List.sum_cons] at h1 h2
    have := ih N rest (p - a) (by omega) (by omega)
    show (if p < a then 0 else popOf (as ++ N :: rest) (p - a) + 1) = as.length + 1
    rw [if_neg (by omega), this]

theorem populationLoop_inv {R σ : Type}
    (getEmptySynapses : Nat → Nat → σ → Nat × σ)
    (P : σ → Prop) (M : Nat) (hM : M < 2147483648)
    (hE : ∀ a b g, P g → 1 ≤ (getEmptySynapses a b g).1 ∧
      (getEmptySynapses a b g).1 + M ≤ 4294967296 ∧ P (getEmptySynapses a b g).2)
    (Connectivity : Nat → Nat → Option (connectivity R)) (NsAll : List Nat)
    (hsum : NsAll.sum = M) (prePop fuel : Nat) (hfuel : M + 2 ≤ fuel) :
    ∀ (rest done : List Nat) (S : Nat → support_layer) (g : σ) (d : Nat → Nat),
      NsAll = done ++ rest → P g →
      (∀ l, LayerInv (connected Connectivity NsAll prePop)
        (sizeOfPost Connectivity NsAll prePop) (S l) ((done.sum : Int) - 1)) →
      ∃ S1 g1 d1, populationLoop getEmptySynapses Connectivity prePop fuel rest done.sum
          done.length S g d = some (S1, g1, d1) ∧ P g1 ∧
        ∀ l, LayerInv (connected Connectivity NsAll prePop)
          (sizeOfPost Connectivity NsAll prePop) (S1 l) ((M : Int) - 1) := by
  intro rest
  induction rest with
  | nil =>
    intro done S g d hNs hg hS
    refine ⟨S, g, d, rfl, hg, ?_⟩
    have : done.sum = M := by rw [← hsum, hNs]; simp
    intro l; rw [← this]; exact hS l
  | cons N rest ih =>
    intro done S g d hNs hg hS
    have hsumle : done.sum + N ≤ M := by
      rw [← hsum, hNs]; simp only [List.sum_append, List.sum_cons]; omega
    have hU : toU32 ((done.sum : Int) + (N : Int)) = done.sum + N := by
      unfold toU32; omega
    have hnext : NsAll = (done ++ [N]) ++ rest := by rw [hNs]; simp
    have hs2 : (done ++ [N]).sum = done.sum + N := by simp
    have hl2 : (done ++ [N]).length = done.length + 1 := by simp
    unfold populationLoop
    cases hc : Connectivity done.length prePop with
    | none =>
      simp only [hU]
      have := ih (done ++ [N]) S g d hnext hg (fun l =>
        LayerInv_mono _ _ (S l) _ _ (hS l) (by rw [hs2, Nat.cast_add]; omega))
      rw [hs2, hl2] at this
      exact this
    | some c =>
      simp only [hU]
      have hI : toI32 ((done.sum : Int) - 1) = (done.sum : Int) - 1 := by
        unfold toI32; split_ifs <;> omega
      have hB : toI32 (((done.sum + N : Nat) : Int)) = (done.sum : Int) + N := by
        unfold toI32; split_ifs <;> omega
      rw [hI, hB]
      clear hI hB
      obtain ⟨S1, g1, d1, e1, hg1, hS1⟩ := synapseLoop_inv getEmptySynapses P M hM hE
        (connected Connectivity NsAll prePop)
        (sizeOfPost Connectivity NsAll prePop) done.length prePop c.SynapseSize
        ((done.sum : Int) + N) (done.sum : Int) (by omega)
        (by
          intro p hp1 hp2
          unfold sizeOfPost connected
          have hpo : popOf NsAll p.toNat = done.length := by
            rw [hNs]; exact popOf_range done N rest p.toNat (by omega) (by omega)
          rw [hpo, hc]; exact ⟨rfl, rfl⟩)
        fuel ((done.sum : Int) - 1) S g d (by omega) (by omega) (by omega) (by omega) hg hS
      rw [e1]
      simp only
      have := ih (done ++ [N]) S1 g1 d1 hnext hg1 (fun l => by
        have := hS1 l
        rw [hs2, Nat.cast_add]; exact this)
      rw [hs2, hl2] at this
      exact this

theorem neuronLoop_inv {R σ : Type}
    (getEmptySynapses : Nat → Nat → σ → Nat × σ)
    (P : σ → Prop) (M : Nat) (hM : M < 2147483648)
    (hE : ∀ a b g, P g → 1 ≤ (getEmptySynapses a b g).1 ∧
      (getEmptySynapses a b g).1 + M ≤ 4294967296 ∧ P (getEmptySynapses a b g).2)
    (Connectivity : Nat → Nat → Option (connectivity R)) (Ns : List Nat)
    (hsum : Ns.sum = M) (fuel : Nat) (hfuel : M + 2 ≤ fuel) :
    ∀ (count j : Nat) (g : σ) (d : Nat → Nat), P g →
      ∃ SM, neuronLoop getEmptySynapses Connectivity Ns fuel count j g d = some SM ∧
        SM.length = count ∧
        ∀ k seg, SM[k]? = some seg → ∀ l,
          SegmentInv (connected Connectivity Ns (popOf Ns (j + k)))
            (sizeOfPost Connectivity Ns (popOf Ns (j + k))) M (seg l) := by
  intro count
  induction count with
  | zero => intro j g d _; exact ⟨[], rfl, rfl, by simp⟩
  | succ count ih =>
    intro j g d hg
    obtain ⟨S1, g1, d1, e1, hg1, hS1⟩ := populationLoop_inv getEmptySynapses P M hM hE
      Connectivity Ns hsum (popOf Ns j) fuel hfuel Ns [] (fun _ => emptySupport) g d rfl hg
      (fun _ => ⟨[], trivial, by simp, rfl, rfl, rfl, rfl⟩)
    obtain ⟨SM, e2, hlen, hSM⟩ := ih (j + 1) g1 d1 hg1
    simp only [List.sum_nil, List.length_nil] at e1
    unfold neuronLoop
    rw [e1]
    simp only [e2]
    refine ⟨_, rfl, by simp [hlen], ?_⟩
    intro k seg hk l
    cases k with
    | zero =>
      simp only [List.getElem?_cons_zero, Option.some.injEq] at hk
      subst hk
      obtain ⟨ps, h1, h2, h3, h4, _, h6⟩ := hS1 l
      refine ⟨ps, h1, fun p hp => ⟨by have := (h2 p hp).1; omega, (h2 p hp).2⟩, h3, h4, h6, ?_⟩
      have hlenb : ∀ (qs : List Int) (prev : Int), (deltaBytes prev qs).length = qs.length := by
        intro qs
        induction qs with
        | nil => intro _; rfl
        | cons q qs ihq => intro prev; simp [deltaBytes, ihq]
      simp [segmentOf, h3, hlenb]
    | succ k =>
      simp only [List.getElem?_cons_succ] at hk
      have := hSM k seg hk l
      rw [show j + 1 + k = j + (k + 1) by omega] at this
      exact this

theorem getEmptySynapses_RAN_range {R : Type} [LinearOrderedRing R]
    (Connectivity : Nat → Nat → Option (connectivity R)) (M : Nat) (hM : M < 2147483648)
    (a b : Nat) (g : Nat → Nat) (hg : ∀ k, g k + M < 4294967296) :
    1 ≤ (getEmptySynapses_RAN Connectivity a b g).1 ∧
    (getEmptySynapses_RAN Connectivity a b g).1 + M ≤ 4294967296 ∧
    ∀ k, (getEmptySynapses_RAN Connectivity a b g).2 k + M < 4294967296 := by
  unfold getEmptySynapses_RAN
  cases Connectivity a b with
  | none => simp only [INT_MAX]; exact ⟨by omega, by omega, hg⟩
  | some c =>
    simp only
    by_cases hc : c.CProb ≤ 0
    · rw [if_pos hc]; simp only [INT_MAX]; exact ⟨by omega, by omega, hg⟩
    · rw [if_neg hc]
      simp only [INT_MAX]
      have h0 := hg 0
      refine ⟨?_, ?_, fun k => hg (k + 1)⟩
      · split_ifs with hz
        · omega
        · omega
      · split_ifs with hz
        · omega
        · unfold toU32; omega

theorem offsetsFrom_fst (f : Int → Int) (ps : List Int) :
    ∀ o : Int, (offsetsFrom f o ps).map Prod.fst = ps := by
  induction ps with
  | nil => intro _; rfl
  | cons q qs ih => intro o; simp [offsetsFrom, ih]

/-- Away from the wrap-around of `Post += n`: in RANDOM mode, when no skip loop of
`getEmptySynapses_RAN` runs `2 ^ 32 - NumNeurons` times or more, `createSynapticMatrix` ends and, for
every axon segment it produces, decoding `DPost` from `Post = -1` yields a
strictly increasing sequence of post-synaptic indices in `[0, NumNeurons)`, as
many as `NumSynapses`, and the zero bytes of `DPost` are as many as the stored
exceptions. -/
theorem random_segments_decode_increasing {R : Type} [LinearOrderedRing R]
    (Connectivity : Nat → Nat → Option (connectivity R)) (Ns : List Nat) (fuel : Nat)
    (g d : Nat → Nat) (hN : Ns.sum < 2147483648) (hfuel : Ns.sum + 2 ≤ fuel)
    (hdraw : ∀ k, g k + Ns.sum < 4294967296) :
    ∃ SM, createSynapticMatrix (getEmptySynapses_RAN Connectivity) Connectivity Ns fuel g d
        = some SM ∧ SM.length = Ns.sum ∧
      ∀ (j : Nat) (seg : Nat → axon_segment), SM[j]? = some seg → ∀ l, ∃ posts : List Int,
        (simulationSegment (fun _ => some 0) (seg l).Exception (seg l).DPost (-1) 0 0).map
            (fun r => r.1.map Prod.fst) = some posts ∧
        posts.Pairwise (· < ·) ∧ (∀ p ∈ posts, 0 ≤ p ∧ p < Ns.sum) ∧
        (seg l).NumSynapses = posts.length ∧
        (seg l).DPost.count EXCEPTION = (seg l).Exception.length := by
  obtain ⟨SM, e, hlen, hSM⟩ := neuronLoop_inv (getEmptySynapses_RAN Connectivity)
    (fun g => ∀ k, g k + Ns.sum < 4294967296) Ns.sum hN
    (fun a b g hg => getEmptySynapses_RAN_range Connectivity Ns.sum hN a b g hg)
    Connectivity Ns rfl fuel hfuel Ns.sum 0 g d hdraw
  refine ⟨SM, e, hlen, ?_⟩
  intro j seg hj l
  obtain ⟨ps, h1, h2, h3, h4, _, h6⟩ := hSM j seg hj l
  obtain ⟨hpw, hlow⟩ := pairwise_of_increasingFrom ps (-1) h1
  refine ⟨ps, ?_, hpw, fun p hp => ⟨by have := hlow p hp; omega, (h2 p hp).1⟩, h6, ?_⟩
  · have := simulationSegment_decodes (fun _ => some 0) (fun _ => 0) ps (-1) [] 0
      (le_refl _) h1 (fun p hp => by have := (h2 p hp).1; omega) (fun _ _ => rfl)
    simp only [List.nil_append, List.length_nil] at this
    rw [h3, h4, this]
    simp [offsetsFrom_fst]
  · rw [h3, h4]; exact count_deltaBytes ps (-1) h1

theorem offsetsFrom_bounds (f : Int → Int) (ps : List Int) :
    ∀ o : Int, (∀ p ∈ ps, 0 ≤ f p) →
      ∀ x ∈ offsetsFrom f o ps, x.1 ∈ ps ∧ o ≤ x.2 ∧ x.2 + f x.1 ≤ o + (ps.map f).sum := by
  induction ps with
  | nil => intro o _ x hx; simp [offsetsFrom] at hx
  | cons q qs ih =>
    intro o hf x hx
    have hq := hf q (List.mem_cons_self _ _)
    have hnn : 0 ≤ (qs.map f).sum :=
      List.sum_nonneg (fun y hy => by
        obtain ⟨z, hz, rfl⟩ := List.mem_map.mp hy
        exact hf z (List.mem_cons_of_mem _ hz))
    simp only [offsetsFrom, List.mem_cons] at hx
    simp only [List.map_cons, List.sum_cons, List.mem_cons]
    rcases hx with rfl | hx
    · exact ⟨Or.inl rfl, le_refl _, by simp only; omega⟩
    · obtain ⟨h1, h2, h3⟩ := ih (o + f q) (fun p hp => hf p (List.mem_cons_of_mem _ hp)) x hx
      exact ⟨Or.inr h1, by omega, by omega⟩

theorem offsetsFrom_length (f : Int → Int) (ps : List Int) :
    ∀ o : Int, (offsetsFrom f o ps).length = ps.length := by
  induction ps with
  | nil => intro _; rfl
  | cons q qs ih => intro o; simp [offsetsFrom, ih]

theorem sizeOfPost_of_connected {R : Type} (Connectivity : Nat → Nat → Option (connectivity R))
    (Ns : List Nat) (j : Nat) (p : Int) (h : connected Connectivity Ns (popOf Ns j) p) :
    synapseSizeAt Connectivity Ns j p.toNat
      = some (sizeOfPost Connectivity Ns (popOf Ns j) p) := by
  unfold connected at h
  unfold synapseSizeAt sizeOfPost
  cases hc : Connectivity (popOf Ns p.toNat) (popOf Ns j) with
  | none => rw [hc] at h; simp at h
  | some c => rfl

/-- Away from the wrap-around of `Post += n`: when every skip returned by
`getEmptySynapses` is at least 1 and at most `2 ^ 32 - NumNeurons` (`P` is an invariant of the state behind it),
`createSynapticMatrix` ends and, for every axon segment it builds, the loop of
`simulation()` and the loop of `scanSynapticMatrix` (over all neurons) visit the
same synapse records and leave the synapse pointer at exactly the allocated size
`Synapses`; every record visited lies inside the allocation; the allocated size is
the sum of the `SynapseSize` of the entries (population of the post neuron,
population of the pre neuron), that is `NumSynapses * SynapseSize` when all the
synapses are of one size. -/
theorem segment_allocation_matches_decoders {R σ : Type}
    (getEmptySynapses : Nat → Nat → σ → Nat × σ)
    (P : σ → Prop)
    (Connectivity : Nat → Nat → Option (connectivity R)) (Ns : List Nat) (fuel : Nat)
    (g : σ) (d : Nat → Nat) (hN : Ns.sum < 2147483648) (hfuel : Ns.sum + 2 ≤ fuel)
    (hE : ∀ a b g, P g → 1 ≤ (getEmptySynapses a b g).1 ∧
      (getEmptySynapses a b g).1 + Ns.sum ≤ 4294967296 ∧ P (getEmptySynapses a b g).2)
    (hg : P g)
    (hsize : ∀ a b c, Connectivity a b = some c → 0 ≤ c.SynapseSize) :
    ∃ SM, createSynapticMatrix getEmptySynapses Connectivity Ns fuel g d = some SM ∧
      SM.length = Ns.sum ∧
      ∀ (j : Nat) (seg : Nat → axon_segment), SM[j]? = some seg → ∀ l,
        ∃ calls : List (Int × Int),
          simulationSegment (fun p => synapseSizeAt Connectivity Ns j p.toNat)
              (seg l).Exception (seg l).DPost (-1) 0 0 = some (calls, (seg l).Synapses) ∧
          scanSegment (synapseSizeAt Connectivity Ns j) (seg l).Exception 0 (Ns.sum - 1)
              (seg l).DPost (toU32 (-1)) 0 0
            = some (calls.map (fun x => (x.1.toNat, x.2)), (seg l).Synapses) ∧
          calls.length = (seg l).NumSynapses ∧
          (∀ x ∈ calls, ∃ sz, synapseSizeAt Connectivity Ns j x.1.toNat = some sz ∧
            0 ≤ x.2 ∧ x.2 + sz ≤ (seg l).Synapses) ∧
          (seg l).Synapses
            = (calls.map (fun x => (synapseSizeAt Connectivity Ns j x.1.toNat).getD 0)).sum ∧
          (∀ sz, (∀ x ∈ calls, synapseSizeAt Connectivity Ns j x.1.toNat = some sz) →
            (seg l).Synapses = (seg l).NumSynapses * sz) := by
  obtain ⟨SM, e, hlen, hSM⟩ := neuronLoop_inv getEmptySynapses P Ns.sum hN hE
    Connectivity Ns rfl fuel hfuel Ns.sum 0 g d hg
  refine ⟨SM, e, hlen, ?_⟩
  intro j seg hj l
  obtain ⟨ps, h1, h2, h3, h4, h5, h6⟩ := hSM j seg hj l
  rw [Nat.zero_add] at h2 h5
  obtain ⟨hpw, hlow⟩ := pairwise_of_increasingFrom ps (-1) h1
  have hsz : ∀ p ∈ ps, synapseSizeAt Connectivity Ns j p.toNat
      = some (sizeOfPost Connectivity Ns (popOf Ns j) p) :=
    fun p hp => sizeOfPost_of_connected Connectivity Ns j p (h2 p hp).2
  have hnn : ∀ p ∈ ps, 0 ≤ sizeOfPost Connectivity Ns (popOf Ns j) p := by
    intro p hp
    have hc := (h2 p hp).2
    unfold connected at hc
    unfold sizeOfPost
    cases hcc : Connectivity (popOf Ns p.toNat) (popOf Ns j) with
    | none => rw [hcc] at hc; simp at hc
    | some c => exact hsize _ _ c hcc
  have hsim := simulationSegment_decodes (fun p => synapseSizeAt Connectivity Ns j p.toNat)
    (sizeOfPost Connectivity Ns (popOf Ns j)) ps (-1) [] 0 (le_refl _) h1
    (fun p hp => by have := (h2 p hp).1; omega) hsz
  have hscan := scanSegment_decodes (synapseSizeAt Connectivity Ns j)
    (sizeOfPost Connectivity Ns (popOf Ns j)) (Ns.sum - 1) ps (-1) [] 0 (le_refl _) h1
    (fun p hp => by have := (h2 p hp).1; omega) hsz
  simp only [List.nil_append, List.length_nil, zero_add] at hsim hscan
  have hmem := offsetsFrom_bounds (sizeOfPost Connectivity Ns (popOf Ns j)) ps 0 hnn
  refine ⟨offsetsFrom (sizeOfPost Connectivity Ns (popOf Ns j)) 0 ps, ?_, ?_, ?_, ?_, ?_, ?_⟩
  · rw [h3, h4, h5]; exact hsim
  · rw [h3, h4, h5]; exact hscan
  · rw [offsetsFrom_length, h6]
  · intro x hx
    obtain ⟨m1, m2, m3⟩ := hmem x hx
    exact ⟨_, hsz x.1 m1, m2, by rw [h5]; omega⟩
  · rw [h5]
    have e1 : (offsetsFrom (sizeOfPost Connectivity Ns (popOf Ns j)) 0 ps).map
        (fun x => (synapseSizeAt Connectivity Ns j x.1.toNat).getD 0)
        = (offsetsFrom (sizeOfPost Connectivity Ns (popOf Ns j)) 0 ps).map
            (fun x => sizeOfPost Connectivity Ns (popOf Ns j) x.1) := by
      apply List.map_congr_left
      intro x hx
      rw [hsz x.1 (hmem x hx).1]; rfl
    rw [e1]
    have e2 : (offsetsFrom (sizeOfPost Connectivity Ns (popOf Ns j)) 0 ps).map
        (fun x => sizeOfPost Connectivity Ns (popOf Ns j) x.1)
        = ((offsetsFrom (sizeOfPost Connectivity Ns (popOf Ns j)) 0 ps).map Prod.fst).map
            (sizeOfPost Connectivity Ns (popOf Ns j)) := by
      rw [List.map_map]; rfl
    rw [e2, offsetsFrom_fst]
  · intro sz hall
    rw [h5, h6]
    have hconst : ∀ p ∈ ps, sizeOfPost Connectivity Ns (popOf Ns j) p = sz := by
      intro p hp
      have hx : ∃ x ∈ offsetsFrom (sizeOfPost Connectivity Ns (popOf Ns j)) 0 ps, x.1 = p := by
        have : p ∈ (offsetsFrom (sizeOfPost Connectivity Ns (popOf Ns j)) 0 ps).map Prod.fst := by
          rw [offsetsFrom_fst]; exact hp
        obtain ⟨x, hx1, hx2⟩ := List.mem_map.mp this
        exact ⟨x, hx1, hx2⟩
      obtain ⟨x, hx1, hx2⟩ := hx
      have := hall x hx1
      rw [hx2, hsz p hp] at this
      exact Option.some.inj this
    rw [List.map_congr_left hconst]
    simp [mul_comm]

/-- C6, the code at a failing input: one population of 16 neurons, connection
probability `10⁻¹⁰`, a first skip of 10 and a second skip of `2 ^ 32 - 3` (the
loop of `getEmptySynapses_RAN` ran `2 ^ 32 - 4` times; the guard `n <= 0` lets it
through, `n` being unsigned).  `Post += n` wraps from 9 to 6, and the segment of
neuron 0 in layer 0 decodes to 9, 6: not an increasing sequence. -/
theorem random_skip_wraps_post :
    ((createSynapticMatrix (getEmptySynapses_RAN sparseConnectivity) sparseConnectivity [16] 18
        wrapDraws (fun _ => 0)).bind (fun SM => SM[0]?)).map
      (fun seg => ((seg 0).DPost, (seg 0).Exception,
        (simulationSegment (fun _ => some 1) (seg 0).Exception (seg 0).DPost (-1) 0 0).map
          (fun r => r.1.map Prod.fst)))
      = some ([10, 0], [6], some [9, 6]) := by
  decide

/-- C8, the code at a failing input: two populations of 8 neurons; for
pre-neuron 0 the skip drawn for population 1 is `2 ^ 32 - 3`, so that
`Post += n` wraps from 7 to 4, a neuron of population 0.  The segment gets 4
bytes (the entry of population 1), while the loop of `simulation()` reads at
offset 0 a synapse of the entry of population 0, 12 bytes long, and leaves the
pointer at 12. -/
theorem wrapped_post_breaks_allocation :
    ((createSynapticMatrix (getEmptySynapses_RAN mixedConnectivity) mixedConnectivity [8, 8] 18
        wrapDraws2 (fun _ => 0)).bind (fun SM => SM[0]?)).map
      (fun seg => ((seg 0).Synapses, (seg 0).NumSynapses,
        simulationSegment (fun p => synapseSizeAt mixedConnectivity [8, 8] 0 p.toNat)
          (seg 0).Exception (seg 0).DPost (-1) 0 0))
      = some ((4 : Int), (1 : Nat), some ([((4 : Int), (0 : Int))], (12 : Int))) := by
  rfl

/-! ## The delay bounds and the delay layers -/

theorem roundr2i_eq_floor {R : Type} [LinearOrderedField R] [FloorRing R] (r : R) :
    roundr2i r = ⌊r + 1 / 2⌋ := by
  unfold roundr2i
  have h1 : ((⌊r⌋ : Int) : R) ≤ r := Int.floor_le r
  have h2 : r < ((⌊r⌋ : Int) : R) + 1 := Int.lt_floor_add_one r
  split_ifs with h
  · symm
    rw [Int.floor_eq_iff]
    constructor
    · linarith
    · linarith
  · symm
    rw [Int.floor_eq_iff]
    push_cast
    constructor
    · linarith
    · linarith

theorem roundr2i_mono {R : Type} [LinearOrderedField R] [FloorRing R] (x y : R) (h : x ≤ y) :
    roundr2i x ≤ roundr2i y := by
  rw [roundr2i_eq_floor, roundr2i_eq_floor]
  exact Int.floor_mono (by linarith)

theorem roundr2i_intCast {R : Type} [LinearOrderedField R] [FloorRing R] (k : Int) :
    roundr2i ((k : Int) : R) = k := by
  rw [roundr2i_eq_floor, Int.floor_eq_iff]
  constructor <;> linarith

theorem delayExtremes_spec {R : Type} [LinearOrderedField R] (cs : List (connectivity R)) :
    ∀ (mx mn : R),
      (mx ≤ (delayExtremes cs mx mn).1 ∧ (∀ c ∈ cs, c.DMax ≤ (delayExtremes cs mx mn).1) ∧
        ((delayExtremes cs mx mn).1 = mx ∨ ∃ c ∈ cs, (delayExtremes cs mx mn).1 = c.DMax)) ∧
      ((delayExtremes cs mx mn).2 ≤ mn ∧ (∀ c ∈ cs, (delayExtremes cs mx mn).2 ≤ c.DMin) ∧
        ((delayExtremes cs mx mn).2 = mn ∨ ∃ c ∈ cs, (delayExtremes cs mx mn).2 = c.DMin)) := by
  induction cs with
  | nil => intro mx mn; simp [delayExtremes]
  | cons c cs ih =>
    intro mx mn
    obtain ⟨⟨a1, a2, a3⟩, ⟨b1, b2, b3⟩⟩ := ih (if c.DMax > mx then c.DMax else mx)
      (if c.DMin < mn then c.DMin else mn)
    simp only [delayExtremes]
    refine ⟨⟨?_, ?_, ?_⟩, ⟨?_, ?_, ?_⟩⟩
    · refine le_trans ?_ a1
      split_ifs with h
      · exact le_of_lt h
      · exact le_refl _
    · intro c' hc'
      rcases List.mem_cons.mp hc' with rfl | hc'
      · refine le_trans ?_ a1
        split_ifs with h
        · exact le_refl _
        · exact not_lt.mp h
      · exact a2 c' hc'
    · rcases a3 with a3 | ⟨c', hc', a3⟩
      · rw [a3]
        split_ifs with h
        · exact Or.inr ⟨c, List.mem_cons_self _ _, rfl⟩
        · exact Or.inl rfl
      · exact Or.inr ⟨c', List.mem_cons_of_mem _ hc', a3⟩
    · refine le_trans b1 ?_
      split_ifs with h
      · exact le_of_lt h
      · exact le_refl _
    · intro c' hc'
      rcases List.mem_cons.mp hc' with rfl | hc'
      · refine le_trans b1 ?_
        split_ifs with h
        · exact le_refl _
        · exact not_lt.mp h
      · exact b2 c' hc'
    · rcases b3 with b3 | ⟨c', hc', b3⟩
      · rw [b3]
        split_ifs with h
        · exact Or.inr ⟨c, List.mem_cons_self _ _, rfl⟩
        · exact Or.inl rfl
      · exact Or.inr ⟨c', List.mem_cons_of_mem _ hc', b3⟩

theorem delayExtremes_eq {R : Type} [LinearOrderedField R] (cs : List (connectivity R))
    (dmin dmax : R) (h0 : 0 ≤ dmax) (h36 : dmin ≤ (10 : R) ^ 36)
    (hmin : (∃ c ∈ cs, c.DMin = dmin) ∧ ∀ c ∈ cs, dmin ≤ c.DMin)
    (hmax : (∃ c ∈ cs, c.DMax = dmax) ∧ ∀ c ∈ cs, c.DMax ≤ dmax) :
    delayExtremes cs 0 ((10 : R) ^ 36) = (dmax, dmin) := by
  obtain ⟨⟨a1, a2, a3⟩, ⟨b1, b2, b3⟩⟩ := delayExtremes_spec cs 0 ((10 : R) ^ 36)
  obtain ⟨⟨c1, hc1, e1⟩, hmin2⟩ := hmin
  obtain ⟨⟨c2, hc2, e2⟩, hmax2⟩ := hmax
  have hA : (delayExtremes cs 0 ((10 : R) ^ 36)).1 = dmax := by
    apply le_antisymm
    · rcases a3 with a3 | ⟨c, hc, a3⟩
      · rw [a3]; exact h0
      · rw [a3]; exact hmax2 c hc
    · rw [← e2]; exact a2 c2 hc2
  have hB : (delayExtremes cs 0 ((10 : R) ^ 36)).2 = dmin := by
    apply le_antisymm
    · rw [← e1]; exact b2 c1 hc1
    · rcases b3 with b3 | ⟨c, hc, b3⟩
      · rw [b3]; exact h36
      · rw [b3]; exact hmin2 c hc
  exact Prod.ext hA hB

theorem discretizeDelay_grid {R : Type} [LinearOrderedField R] [FloorRing R]
    (D : delay_globals R) (L : Int) (hL : 1 ≤ L) (hs : 0 < D.DelayStep)
    (hD : D.DelayMax = D.DelayMin + ((L - 1 : Int) : R) * D.DelayStep) (x : R) :
    ∃ k : Int, 0 ≤ k ∧ k ≤ L - 1 ∧ discretizeDelay D x = D.DelayMin + (k : R) * D.DelayStep ∧
      k = max 0 (min (L - 1) (roundr2i ((x - D.DelayMin) / D.DelayStep))) := by
  unfold discretizeDelay
  simp only
  generalize roundr2i ((x - D.DelayMin) / D.DelayStep) = n
  by_cases h1 : (n : R) * D.DelayStep + D.DelayMin > D.DelayMax
  · rw [if_pos h1]
    have hn : L - 1 < n := by
      rw [hD] at h1
      have : ((L - 1 : Int) : R) * D.DelayStep < (n : R) * D.DelayStep := by linarith
      have := lt_of_mul_lt_mul_right this (le_of_lt hs)
      exact_mod_cast this
    refine ⟨L - 1, by omega, le_refl _, hD, ?_⟩
    omega
  · rw [if_neg h1]
    have hn : n ≤ L - 1 := by
      rw [hD] at h1
      have : (n : R) * D.DelayStep ≤ ((L - 1 : Int) : R) * D.DelayStep := by linarith
      have := le_of_mul_le_mul_right this hs
      exact_mod_cast this
    by_cases h2 : (n : R) * D.DelayStep + D.DelayMin < D.DelayMin
    · rw [if_pos h2]
      have hn0 : n < 0 := by
        have : (n : R) * D.DelayStep < (0 : R) * D.DelayStep := by linarith
        have := lt_of_mul_lt_mul_right this (le_of_lt hs)
        exact_mod_cast this
      refine ⟨0, le_refl _, by omega, by simp, ?_⟩
      omega
    · rw [if_neg h2]
      have hn0 : 0 ≤ n := by
        have : (0 : R) * D.DelayStep ≤ (n : R) * D.DelayStep := by linarith
        have := le_of_mul_le_mul_right this hs
        exact_mod_cast this
      refine ⟨n, hn0, hn, by ring, ?_⟩
      omega

theorem discretizeDelay_mono {R : Type} [LinearOrderedField R] [FloorRing R]
    (D : delay_globals R) (L : Int) (hL : 1 ≤ L) (hs : 0 < D.DelayStep)
    (hD : D.DelayMax = D.DelayMin + ((L - 1 : Int) : R) * D.DelayStep) (x y : R) (h : x ≤ y) :
    discretizeDelay D x ≤ discretizeDelay D y := by
  obtain ⟨k1, _, _, e1, f1⟩ := discretizeDelay_grid D L hL hs hD x
  obtain ⟨k2, _, _, e2, f2⟩ := discretizeDelay_grid D L hL hs hD y
  have hr : roundr2i ((x - D.DelayMin) / D.DelayStep) ≤ roundr2i ((y - D.DelayMin) / D.DelayStep) :=
    roundr2i_mono _ _ (div_le_div_of_nonneg_right (by linarith) (le_of_lt hs))
  have hk : k1 ≤ k2 := by omega
  rw [e1, e2]
  have : (k1 : R) ≤ (k2 : R) := by exact_mod_cast hk
  have := mul_le_mul_of_nonneg_right this (le_of_lt hs)
  linarith

/-- C18: after `setDelayBounds` with `DelayNumber = L ≥ 1` and global extremes
`dmin < dmax` of the configured delays, `DelayStep = (dmax - dmin) / L`,
`DelayMin = dmin + DelayStep / 2`, `DelayMax = dmax - DelayStep / 2`; the bounds
`DMin` and `DMax` of every connectivity are `DelayMin + k * DelayStep` for an
integer `k` in `[0, L - 1]`, with `DMin ≤ DMax` preserved; and the delay that
`createSynapticMatrix` gives to layer `l` is `dmin + (l + 1/2) * DelayStep`. -/
theorem setDelayBounds_grid {R : Type} [LinearOrderedField R] [FloorRing R]
    (L : Int) (cs : List (connectivity R)) (dmin dmax : R)
    (hL : 1 ≤ L) (hlt : dmin < dmax) (h0 : 0 ≤ dmax) (h36 : dmin ≤ (10 : R) ^ 36)
    (hmin : (∃ c ∈ cs, c.DMin = dmin) ∧ ∀ c ∈ cs, dmin ≤ c.DMin)
    (hmax : (∃ c ∈ cs, c.DMax = dmax) ∧ ∀ c ∈ cs, c.DMax ≤ dmax) :
    ∃ D cs1, setDelayBounds L cs = some (D, cs1) ∧
      D.DelayStep = (dmax - dmin) / (L : R) ∧
      D.DelayMin = dmin + D.DelayStep / 2 ∧ D.DelayMax = dmax - D.DelayStep / 2 ∧
      cs1.length = cs.length ∧
      (∀ (i : Nat) (c c1 : connectivity R), cs[i]? = some c → cs1[i]? = some c1 →
        (∃ k : Int, 0 ≤ k ∧ k ≤ L - 1 ∧ c1.DMin = D.DelayMin + (k : R) * D.DelayStep) ∧
        (∃ k : Int, 0 ≤ k ∧ k ≤ L - 1 ∧ c1.DMax = D.DelayMin + (k : R) * D.DelayStep) ∧
        (c.DMin ≤ c.DMax → c1.DMin ≤ c1.DMax) ∧
        c1.CProb = c.CProb ∧ c1.SynapseSize = c.SynapseSize) ∧
      ∀ l : Int, layerDelay D l = dmin + ((l : R) + 1 / 2) * D.DelayStep := by
  have hLR : (0 : R) < (L : R) := by exact_mod_cast (by omega : (0 : Int) < L)
  have hstep : 0 < (dmax - dmin) / (L : R) := div_pos (by linarith) hLR
  have hne : ¬ ((dmax - dmin) / (L : R) = 0 ∧ cs.isEmpty = false) := fun h => (ne_of_gt hstep) h.1
  have hL0 : L ≠ 0 := by omega
  have hext := delayExtremes_eq cs dmin dmax h0 h36 hmin hmax
  have hD : dmax - (dmax - dmin) / (L : R) / 2
      = dmin + (dmax - dmin) / (L : R) / 2 + ((L - 1 : Int) : R) * ((dmax - dmin) / (L : R)) := by
    push_cast
    field_simp
    ring
  refine ⟨⟨dmax - (dmax - dmin) / (L : R) / 2, dmin + (dmax - dmin) / (L : R) / 2,
    (dmax - dmin) / (L : R)⟩,
    cs.map (fun c => { c with
      DMax := discretizeDelay (⟨dmax - (dmax - dmin) / (L : R) / 2,
        dmin + (dmax - dmin) / (L : R) / 2, (dmax - dmin) / (L : R)⟩ : delay_globals R) c.DMax
      DMin := discretizeDelay (⟨dmax - (dmax - dmin) / (L : R) / 2,
        dmin + (dmax - dmin) / (L : R) / 2, (dmax - dmin) / (L : R)⟩ : delay_globals R) c.DMin }),
    ?_, rfl, rfl, rfl, ?_, ?_, ?_⟩
  · unfold setDelayBounds
    simp only [hext, if_neg hL0, if_neg hne]
  · simp
  · intro i c c1 hc hc1
    rw [List.getElem?_map, hc] at hc1
    simp only [Option.map_some', Option.some.injEq] at hc1
    subst hc1
    obtain ⟨k1, a1, a2, a3, _⟩ := discretizeDelay_grid
      (⟨dmax - (dmax - dmin) / (L : R) / 2, dmin + (dmax - dmin) / (L : R) / 2,
        (dmax - dmin) / (L : R)⟩ : delay_globals R) L hL hstep hD c.DMin
    obtain ⟨k2, b1, b2, b3, _⟩ := discretizeDelay_grid
      (⟨dmax - (dmax - dmin) / (L : R) / 2, dmin + (dmax - dmin) / (L : R) / 2,
        (dmax - dmin) / (L : R)⟩ : delay_globals R) L hL hstep hD c.DMax
    refine ⟨⟨k1, a1, a2, a3⟩, ⟨k2, b1, b2, b3⟩, ?_, rfl, rfl⟩
    intro hle
    exact discretizeDelay_mono _ L hL hstep hD _ _ hle
  · intro l
    simp only [layerDelay]
    ring

/-- Witness of C18: four layers, delays between 1 and 3 ms. -/
theorem setDelayBounds_grid_witness :
    ∃ D cs1, setDelayBounds (4 : Int) [delayEntry 1 3, delayEntry 2 2] = some (D, cs1) ∧
      D.DelayStep = ((3 : ℚ) - 1) / ((4 : Int) : ℚ) := by
  obtain ⟨D, cs1, h1, h2, _⟩ := setDelayBounds_grid (4 : Int) [delayEntry 1 3, delayEntry 2 2]
    (1 : ℚ) 3 (by decide) (by norm_num) (by norm_num) (by norm_num)
    ⟨⟨delayEntry 1 3, by simp, rfl⟩, by norm_num [delayEntry]⟩
    ⟨⟨delayEntry 1 3, by simp, rfl⟩, by norm_num [delayEntry]⟩
  exact ⟨D, cs1, h1, h2⟩

theorem nearest_of_round {R : Type} [LinearOrderedField R] [FloorRing R]
    (x : R) (L : Int) (hL : 1 ≤ L) (l : Int) (hl0 : 0 ≤ l) (hl1 : l ≤ L - 1) :
    |x - ((max 0 (min (L - 1) (roundr2i x)) : Int) : R)| ≤ |x - (l : R)| := by
  rw [roundr2i_eq_floor]
  have h1 : ((⌊x + 1 / 2⌋ : Int) : R) ≤ x + 1 / 2 := Int.floor_le _
  have h2 : x + 1 / 2 < ((⌊x + 1 / 2⌋ : Int) : R) + 1 := Int.lt_floor_add_one _
  generalize ⌊x + 1 / 2⌋ = n at h1 h2
  rcases lt_trichotomy n 0 with hn | hn | hn
  · have hk : max 0 (min (L - 1) n) = 0 := by omega
    rw [hk]
    have hn1 : (n : R) ≤ -1 := by exact_mod_cast (by omega : n ≤ -1)
    have hlR : (0 : R) ≤ (l : R) := by exact_mod_cast hl0
    rw [abs_of_nonpos (by push_cast; linarith), abs_of_nonpos (by linarith)]
    push_cast
    linarith
  · subst hn
    have hk : max 0 (min (L - 1) 0) = 0 := by omega
    rw [hk]
    push_cast at h1 h2 ⊢
    rcases lt_trichotomy l 0 with hl | hl | hl
    · omega
    · subst hl; simp
    · have hlR : (1 : R) ≤ (l : R) := by exact_mod_cast (by omega : (1 : Int) ≤ l)
      rw [abs_of_nonpos (by linarith : x - (l : R) ≤ 0)]
      rw [abs_le]
      constructor <;> linarith
  · by_cases hnL : n ≤ L - 1
    · have hk : max 0 (min (L - 1) n) = n := by omega
      rw [hk]
      rcases lt_trichotomy l n with hl | hl | hl
      · have hlR : (l : R) ≤ (n : R) - 1 := by exact_mod_cast (by omega : l ≤ n - 1)
        rw [abs_of_nonneg (by linarith : 0 ≤ x - (l : R)), abs_le]
        constructor <;> linarith
      · subst hl; exact le_refl _
      · have hlR : (n : R) + 1 ≤ (l : R) := by exact_mod_cast (by omega : n + 1 ≤ l)
        rw [abs_of_nonpos (by linarith : x - (l : R) ≤ 0), abs_le]
        constructor <;> linarith
    · have hk : max 0 (min (L - 1) n) = L - 1 := by omega
      rw [hk]
      have hnR : ((L - 1 : Int) : R) + 1 ≤ (n : R) := by exact_mod_cast (by omega : L - 1 + 1 ≤ n)
      have hlR : (l : R) ≤ ((L - 1 : Int) : R) := by exact_mod_cast hl1
      rw [abs_of_nonneg (by linarith), abs_of_nonneg (by linarith)]
      linarith

/-- The case of C19 in which the configured delays are not all equal: for a
connectivity whose two bounds are equal to `d`, after `setDelayBounds` (with
`DelayNumber = L ≥ 1` and global extremes `dmin < dmax`) `getRandomDelay_UNI` and
`getRandomDelay_EXP` return, for every draw `U`, the same layer `k` in
`[0, L - 1]`, and no layer has a delay nearer to `d` than layer `k`. -/
theorem equal_bounds_give_nearest_layer {R : Type} [LinearOrderedField R] [FloorRing R]
    (log : R → R) (hlog : log TailNeglected ≠ 0)
    (L : Int) (cs : List (connectivity R)) (dmin dmax : R)
    (hL : 1 ≤ L) (hlt : dmin < dmax) (h0 : 0 ≤ dmax) (h36 : dmin ≤ (10 : R) ^ 36)
    (hmin : (∃ c ∈ cs, c.DMin = dmin) ∧ ∀ c ∈ cs, dmin ≤ c.DMin)
    (hmax : (∃ c ∈ cs, c.DMax = dmax) ∧ ∀ c ∈ cs, c.DMax ≤ dmax)
    (i : Nat) (c : connectivity R) (hc : cs[i]? = some c) (heq : c.DMin = c.DMax) :
    ∃ D cs1 c1 k, setDelayBounds L cs = some (D, cs1) ∧ cs1[i]? = some c1 ∧
      0 ≤ k ∧ k ≤ L - 1 ∧
      (∀ U, getRandomDelay_UNI D c1 U = some k) ∧
      (∀ U, getRandomDelay_EXP log D c1 U = some k) ∧
      ∀ l : Int, 0 ≤ l → l ≤ L - 1 →
        |c.DMin - layerDelay D k| ≤ |c.DMin - layerDelay D l| := by
  have hLR : (0 : R) < (L : R) := by exact_mod_cast (by omega : (0 : Int) < L)
  have hstep : 0 < (dmax - dmin) / (L : R) := div_pos (by linarith) hLR
  have hne : ¬ ((dmax - dmin) / (L : R) = 0 ∧ cs.isEmpty = false) := fun h => (ne_of_gt hstep) h.1
  have hL0 : L ≠ 0 := by omega
  have hext := delayExtremes_eq cs dmin dmax h0 h36 hmin hmax
  have hD : dmax - (dmax - dmin) / (L : R) / 2
      = dmin + (dmax - dmin) / (L : R) / 2 + ((L - 1 : Int) : R) * ((dmax - dmin) / (L : R)) := by
    push_cast
    field_simp
    ring
  obtain ⟨k, a1, a2, a3, a4⟩ := discretizeDelay_grid
    (⟨dmax - (dmax - dmin) / (L : R) / 2, dmin + (dmax - dmin) / (L : R) / 2,
      (dmax - dmin) / (L : R)⟩ : delay_globals R) L hL hstep hD c.DMin
  refine ⟨⟨dmax - (dmax - dmin) / (L : R) / 2, dmin + (dmax - dmin) / (L : R) / 2,
    (dmax - dmin) / (L : R)⟩,
    cs.map (fun c => { c with
      DMax := discretizeDelay (⟨dmax - (dmax - dmin) / (L : R) / 2,
        dmin + (dmax - dmin) / (L : R) / 2, (dmax - dmin) / (L : R)⟩ : delay_globals R) c.DMax
      DMin := discretizeDelay (⟨dmax - (dmax - dmin) / (L : R) / 2,
        dmin + (dmax - dmin) / (L : R) / 2, (dmax - dmin) / (L : R)⟩ : delay_globals R) c.DMin }),
    { c with
      DMax := discretizeDelay (⟨dmax - (dmax - dmin) / (L : R) / 2,
        dmin + (dmax - dmin) / (L : R) / 2, (dmax - dmin) / (L : R)⟩ : delay_globals R) c.DMax
      DMin := discretizeDelay (⟨dmax - (dmax - dmin) / (L : R) / 2,
        dmin + (dmax - dmin) / (L : R) / 2, (dmax - dmin) / (L : R)⟩ : delay_globals R) c.DMin },
    k, ?_, ?_, a1, a2, ?_, ?_, ?_⟩
  · unfold setDelayBounds
    simp only [hext, if_neg hL0, if_neg hne]
  · rw [List.getElem?_map, hc]; rfl
  · intro U
    unfold getRandomDelay_UNI
    simp only [if_neg (ne_of_gt hstep), ← heq, a3, sub_self, mul_zero, zero_add,
      add_sub_cancel_left, Option.some.injEq]
    rw [mul_div_assoc, div_self (ne_of_gt hstep), mul_one]
    exact roundr2i_intCast k
  · intro U
    unfold getRandomDelay_EXP
    have hno : ¬ (log (TailNeglected : R) = 0 ∨ (dmax - dmin) / (L : R) = 0) := by
      rintro (h | h)
      · exact hlog h
      · exact (ne_of_gt hstep) h
    simp only [if_neg hno, ← heq, a3, sub_self, zero_mul, add_zero,
      add_sub_cancel_left, Option.some.injEq]
    rw [mul_div_assoc, div_self (ne_of_gt hstep), mul_one]
    exact roundr2i_intCast k
  · intro l hl0 hl1
    have key := nearest_of_round
      ((c.DMin - (dmin + (dmax - dmin) / (L : R) / 2)) / ((dmax - dmin) / (L : R))) L hL l hl0 hl1
    rw [← a4] at key
    have e : ∀ m : Int, c.DMin - layerDelay (⟨dmax - (dmax - dmin) / (L : R) / 2,
        dmin + (dmax - dmin) / (L : R) / 2, (dmax - dmin) / (L : R)⟩ : delay_globals R) m
        = ((dmax - dmin) / (L : R)) *
          ((c.DMin - (dmin + (dmax - dmin) / (L : R) / 2)) / ((dmax - dmin) / (L : R)) - (m : R)) := by
      intro m
      simp only [layerDelay]
      have hs := ne_of_gt hstep
      generalize (dmax - dmin) / (L : R) = s at hs
      rw [mul_sub, mul_div_cancel₀ _ hs]
      ring
    rw [e k, e l, abs_mul, abs_mul]
    exact mul_le_mul_of_nonneg_left key (abs_nonneg _)

/-- C19, the code at a failing input: a single connectivity whose bounds are both
10 ms, one delay layer.  `DelayStep` is 0, `setDelayBounds` and both
`getRandomDelay` functions divide by it: no layer index results. -/
theorem equal_delays_divide_by_zero :
    setDelayBounds (1 : Int) [delayEntry 10 10] = none ∧
    (∀ U, getRandomDelay_UNI (⟨10, 10, 0⟩ : delay_globals ℚ) (delayEntry 10 10) U = none) ∧
    (∀ (log : ℚ → ℚ) (U : ℚ),
      getRandomDelay_EXP log (⟨10, 10, 0⟩ : delay_globals ℚ) (delayEntry 10 10) U = none) := by
  refine ⟨?_, ?_, ?_⟩
  · norm_num [setDelayBounds, delayExtremes, delayEntry]
  · intro U; simp [getRandomDelay_UNI]
  · intro log U; simp [getRandomDelay_EXP]

/-! ## The RANDOM mode with probability 1 and with probability 0 -/

theorem emptySynapsesRuns_one {R : Type} [LinearOrderedRing R] (r : R) (hr : r ≤ 1)
    (fuel k : Nat) (h : emptySynapsesRuns (1 : R) r fuel 1 1 = some k) : k = 0 := by
  cases fuel with
  | zero => exact Option.noConfusion h
  | succ fuel =>
    simp only [emptySynapsesRuns, if_neg (not_lt.mpr hr), Option.some.injEq] at h
    exact h.symm

theorem synapseLoop_none {R : Type} [LinearOrderedRing R]
    (Connectivity : Nat → Nat → Option (connectivity R)) (postPop prePop : Nat)
    (c : connectivity R) (hc : Connectivity postPop prePop = some c) (hp : c.CProb ≤ 0)
    (size : Int) (i N : Nat) (hN : i + N ≤ 2147483646) (fuel : Nat)
    (S : Nat → support_layer) (g d : Nat → Nat) :
    synapseLoop (getEmptySynapses_RAN Connectivity) postPop prePop size
      (toI32 (toU32 ((i : Int) + N))) (fuel + 1) (toI32 ((i : Int) - 1)) S g d = some (S, g, d) := by
  have hr : getEmptySynapses_RAN Connectivity postPop prePop g = (INT_MAX, g) := by
    unfold getEmptySynapses_RAN
    rw [hc]
    simp only [if_pos hp]
  have hb : toI32 (toU32 ((i : Int) + N)) = (i : Int) + N := by
    unfold toI32 toU32
    rw [Int.emod_eq_of_lt (by omega) (by omega)]
    rw [Int.toNat_of_nonneg (by omega)]
    rw [Int.emod_eq_of_lt (by omega) (by omega)]
    rw [if_pos (by omega)]
  unfold synapseLoop
  simp only [hr, hb]
  by_cases hi : i ≤ 1
  · have h1 : toI32 (toI32 ((i : Int) - 1) + (INT_MAX : Int)) = (i : Int) + 2147483646 := by
      unfold toI32 INT_MAX
      split_ifs <;> omega
    rw [h1, if_neg (by omega)]
  · have h1 : toI32 (toI32 ((i : Int) - 1) + (INT_MAX : Int)) = (i : Int) - 2147483650 := by
      unfold toI32 INT_MAX
      split_ifs <;> omega
    rw [h1, if_pos (by omega), if_pos (by omega)]

theorem synapseLoop_all {R : Type} [LinearOrderedRing R]
    (Connectivity : Nat → Nat → Option (connectivity R)) (postPop prePop : Nat)
    (c : connectivity R) (hc : Connectivity postPop prePop = some c) (hp : 0 < c.CProb)
    (size bound : Int) (hb : bound < 2147483648) :
    ∀ (m fuel : Nat) (Post : Int) (S : Nat → support_layer) (g d : Nat → Nat),
      -1 ≤ Post → Post + 1 + m = bound → m + 1 ≤ fuel → (∀ k, k ≤ m → g k = 0) →
      synapseLoop (getEmptySynapses_RAN Connectivity) postPop prePop size bound fuel Post S g d
        = some ((List.range m).foldl (fun T k => addSynapse T (d k) (Post + 1 + k) size) S,
            fun k => g (k + (m + 1)), fun k => d (k + m)) := by
  intro m
  induction m with
  | zero =>
    intro fuel Post S g d hP hm hf hg
    obtain ⟨fuel, rfl⟩ : ∃ f, fuel = f + 1 := ⟨fuel - 1, by omega⟩
    have hr : getEmptySynapses_RAN Connectivity postPop prePop g = (1, fun k => g (k + 1)) := by
      unfold getEmptySynapses_RAN
      rw [hc]
      simp only [if_neg (not_le.mpr hp), hg 0 (le_refl _)]
      rfl
    have h1 : toI32 (Post + ((1 : Nat) : Int)) = bound := by
      unfold toI32
      split_ifs <;> omega
    unfold synapseLoop
    simp only [hr, h1, lt_irrefl, if_false, List.range_zero, List.foldl_nil, add_zero]
  | succ m ih =>
    intro fuel Post S g d hP hm hf hg
    obtain ⟨fuel, rfl⟩ : ∃ f, fuel = f + 1 := ⟨fuel - 1, by omega⟩
    have hr : getEmptySynapses_RAN Connectivity postPop prePop g = (1, fun k => g (k + 1)) := by
      unfold getEmptySynapses_RAN
      rw [hc]
      simp only [if_neg (not_le.mpr hp), hg 0 (Nat.zero_le _)]
      rfl
    have h1 : toI32 (Post + ((1 : Nat) : Int)) = Post + 1 := by
      unfold toI32
      split_ifs <;> omega
    unfold synapseLoop
    simp only [hr, h1]
    rw [if_pos (by omega), if_neg (by omega)]
    rw [ih fuel (Post + 1) _ (fun k => g (k + 1)) (fun k => d (k + 1)) (by omega)
      (by push_cast at hm ⊢; omega) (by omega) (fun k hk => hg (k + 1) (by omega))]
    have hfold : ∀ (T : Nat → support_layer),
        (List.range (m + 1)).foldl (fun T k => addSynapse T (d k) (Post + 1 + k) size) T
          = (List.range m).foldl
              (fun T k => addSynapse T (d (k + 1)) (Post + 1 + 1 + (k : Int)) size)
              (addSynapse T (d 0) (Post + 1) size) := by
      intro T
      rw [List.range_succ_eq_map, List.foldl_cons, List.foldl_map]
      simp only [Nat.succ_eq_add_one, Nat.cast_add, Nat.cast_one, Nat.cast_zero, add_zero]
      have e : (fun (T : Nat → support_layer) (k : Nat) =>
          addSynapse T (d (k + 1)) (Post + 1 + ((k : Int) + 1)) size)
          = (fun (T : Nat → support_layer) (k : Nat) =>
              addSynapse T (d (k + 1)) (Post + 1 + 1 + (k : Int)) size) := by
        funext T k
        rw [show Post + 1 + ((k : Int) + 1) = Post + 1 + 1 + (k : Int) by ring]
      rw [e]
    rw [hfold]
    rfl

/-- C16: in RANDOM mode, for a population of `N` neurons that starts at neuron `i`
(any layout with `i + N ≤ 2 ^ 31 - 2`) and for every pre-synaptic neuron: with an
entry of probability `CProb ≤ 0` the synapse loop of `createSynapticMatrix` ends
without adding a synapse (the skip is `INT_MAX` and `Post += INT_MAX` is taken
modulo `2 ^ 32`); with an entry of probability 1, for all draws `r k ≤ 1` of
`Random()`, the skip loop of `getEmptySynapses_RAN` never runs its body and the
synapse loop adds one synapse for each of the neurons `i`, ..., `i + N - 1` of the
population, the pre-synaptic neuron itself included. -/
theorem full_or_no_connection {R : Type} [LinearOrderedRing R]
    (Connectivity : Nat → Nat → Option (connectivity R)) (postPop prePop : Nat)
    (c : connectivity R) (hc : Connectivity postPop prePop = some c)
    (i N : Nat) (hN : i + N ≤ 2147483646) (fuel : Nat) (hfuel : N + 1 ≤ fuel)
    (S : Nat → support_layer) (g d : Nat → Nat) :
    (c.CProb ≤ 0 →
      synapseLoop (getEmptySynapses_RAN Connectivity) postPop prePop c.SynapseSize
        (toI32 (toU32 ((i : Int) + N))) fuel (toI32 ((i : Int) - 1)) S g d = some (S, g, d)) ∧
    (c.CProb = 1 →
      ∀ r : Nat → R, (∀ k, r k ≤ 1) →
      (∀ k, k ≤ N → ∃ f, emptySynapsesRuns c.CProb (r k) f c.CProb c.CProb = some (g k)) →
      synapseLoop (getEmptySynapses_RAN Connectivity) postPop prePop c.SynapseSize
        (toI32 (toU32 ((i : Int) + N))) fuel (toI32 ((i : Int) - 1)) S g d
        = some ((List.range N).foldl
            (fun T k => addSynapse T (d k) ((i : Int) + k) c.SynapseSize) S,
          fun k => g (k + (N + 1)), fun k => d (k + N))) := by
  have hb : toI32 (toU32 ((i : Int) + N)) = (i : Int) + N := by
    unfold toI32 toU32
    rw [Int.emod_eq_of_lt (by omega) (by omega)]
    rw [Int.toNat_of_nonneg (by omega)]
    rw [Int.emod_eq_of_lt (by omega) (by omega)]
    rw [if_pos (by omega)]
  constructor
  · intro hp
    obtain ⟨fuel, rfl⟩ : ∃ f, fuel = f + 1 := ⟨fuel - 1, by omega⟩
    exact synapseLoop_none Connectivity postPop prePop c hc hp c.SynapseSize i N hN fuel S g d
  · intro hp r hr hg
    have hg0 : ∀ k, k ≤ N → g k = 0 := by
      intro k hk
      obtain ⟨f, hf⟩ := hg k hk
      rw [hp] at hf
      exact emptySynapsesRuns_one (r k) (hr k) f (g k) hf
    have hi : toI32 ((i : Int) - 1) = (i : Int) - 1 := by
      unfold toI32
      split_ifs <;> omega
    rw [hb, hi]
    have := synapseLoop_all Connectivity postPop prePop c hc (by rw [hp]; exact zero_lt_one)
      c.SynapseSize ((i : Int) + N) (by omega) N fuel ((i : Int) - 1) S g d (by omega)
      (by omega) hfuel hg0
    refine this.trans ?_
    have hf : (fun (T : Nat → support_layer) (k : Nat) =>
        addSynapse T (d k) ((i : Int) - 1 + 1 + (k : Int)) c.SynapseSize)
        = (fun (T : Nat → support_layer) (k : Nat) =>
            addSynapse T (d k) ((i : Int) + (k : Int)) c.SynapseSize) := by
      funext T k
      rw [show (i : Int) - 1 + 1 + (k : Int) = (i : Int) + (k : Int) by ring]
    rw [hf]

/-- Witness of C16: a population of 3 neurons fully connected to itself. -/
theorem full_or_no_connection_witness :
    synapseLoop (getEmptySynapses_RAN fullConnectivity) 0 0 4
        (toI32 (toU32 ((0 : Int) + (3 : Nat)))) 5 (toI32 ((0 : Int) - 1))
        (fun _ => emptySupport) (fun _ => 0) (fun _ => 0)
      = some ((List.range 3).foldl
          (fun T k => addSynapse T 0 (((0 : Nat) : Int) + k) 4) (fun _ => emptySupport),
        fun _ => 0, fun _ => 0) :=
  (full_or_no_connection fullConnectivity 0 0 { CProb := 1, DMin := 0, DMax := 0, SynapseSize := 4 }
    rfl 0 3 (by decide) 5 (by decide) (fun _ => emptySupport) (fun _ => 0) (fun _ => 0)).2 rfl
    (fun _ => 0) (fun (_ : Nat) => (by decide : (0 : Int) ≤ 1)) (fun _ _ => ⟨1, rfl⟩)

/-! ## connectivity.c : the FIXEDNUM mode -/

/-- A call of `getEmptySynapses_FIX` for the populations of the previous call,
made when `lastPost` has passed the end of the post-synaptic population without
being `NumNeurons`, does not read the mask: it returns `lastPost + 1 - lastPost`
and leaves `lastPre` as it was. -/
theorem getEmptySynapses_FIX_past_end {R : Type} [LinearOrderedField R] [FloorRing R]
    (Ns : List Nat) (Connectivity : Nat → Nat → Option (connectivity R))
    (postPop prePop : Nat) (st : fix_state R)
    (hpre : (prePop : Int) = st.prePopMask) (hpost : (postPop : Int) = st.postPopMask)
    (hN : toU32 st.lastPost ≠ toU32 (Ns.sum : Nat))
    (hend : ¬ toU32 (toI32 (st.lastPost + 1)) <
      toU32 ((st.PopOffset postPop : Int) + (Ns.getD postPop 0 : Nat))) :
    getEmptySynapses_FIX Ns Connectivity postPop prePop st =
      (toU32 (toI32 (st.lastPost + 1) - st.lastPost),
        { st with lastPost := toI32 (st.lastPost + 1) }) := by
  unfold getEmptySynapses_FIX
  have h1 : ¬ ((prePop : Int) ≠ st.prePopMask) := fun h => h hpre
  have h2 : ¬ (toU32 st.lastPost = toU32 (Ns.sum : Nat) ∨ (postPop : Int) < st.postPopMask) := by
    rintro (h | h)
    · exact hN h
    · rw [hpost] at h; exact lt_irrefl _ h
  simp only [if_neg h1, if_neg h2]
  have h3 : ¬ ((postPop : Int) ≠ st.postPopMask) := fun h => h hpost
  simp only [if_neg h3]
  simp only [fixScan, if_neg hend]

/-- C17, the code at a failing input: a population of 4 neurons that projects to
itself with probability 1/2 and a second population of 1 neuron without
connections, `ExpDev()` returning 1 and `Random()` returning 1/4.  The number of
synapses asked for is `roundr2i(4 * 1/2) = 2` and the mask gives to every neuron
of the first population the pre-synaptic neurons 0 and 2; the synaptic matrix
built gives to neuron 0 a synapse from each of the four neurons of the
population, and to neuron 1 a synapse from three of them. -/
theorem fixed_number_single_target_overconnects :
    fixSynNum [4, 1] 0 ({ CProb := 1 / 2, DMin := 0, DMax := 0, SynapseSize := 4 } :
        connectivity ℚ) = 2 ∧
      (List.range 4).map (fun n => (List.range 2).map (fun s =>
        (getEmptySynapses_FIX [4, 1] halfConnectivity 0 0
          (fixInit (fun _ => (1 : ℚ)) (fun _ => 1 / 4))).2.SynMatMask s n))
        = [[0, 2], [0, 2], [0, 2], [0, 2]] ∧
      decodedPosts (createSynapticMatrix (getEmptySynapses_FIX [4, 1] halfConnectivity)
        halfConnectivity [4, 1] 10 (fixInit (fun _ => (1 : ℚ)) (fun _ => 1 / 4)) (fun _ => 0))
        = some [some [0, 1, 2, 3], some [0], some [0, 1, 2, 3], some [0, 1], some []] := by
  decide!

/-! ## perseo.c : the delay layer holding the oldest spike -/

theorem diffTimex_eq {R : Type} [LinearOrderedRing R] (t1 t2 : timex R) :
    diffTimex t1 t2 = timexToDouble t1 - timexToDouble t2 := by
  unfold diffTimex timexToDouble
  split_ifs with h
  · rw [h]; abel
  · push_cast; rw [mul_one]; abel

theorem timexToDouble_doubleToTimex {R : Type} [LinearOrderedRing R] [FloorRing R] (d : R) :
    timexToDouble (doubleToTimex d) = d := by
  unfold timexToDouble doubleToTimex
  simp

theorem findOldestLoop_spec {R : Type} [LinearOrderedRing R] (rest : List (synaptic_layer R)) :
    ∀ (i : Nat) (OL : Int) (t : timex R),
      (findOldestLoop rest i OL t = OL ∧
        ∀ (m : Nat) (L : synaptic_layer R), rest[m]? = some L → L.Empty = false →
          timexToDouble t ≤ layerTime L) ∨
      (∃ (k : Nat) (Lk : synaptic_layer R),
        findOldestLoop rest i OL t = ((i + k : Nat) : Int) ∧ rest[k]? = some Lk ∧
        Lk.Empty = false ∧ layerTime Lk < timexToDouble t ∧
        (∀ (m : Nat) (L : synaptic_layer R), rest[m]? = some L → L.Empty = false →
          layerTime Lk ≤ layerTime L) ∧
        (∀ (m : Nat) (L : synaptic_layer R), m < k → rest[m]? = some L → L.Empty = false →
          layerTime Lk < layerTime L)) := by
  induction rest with
  | nil =>
    intro i OL t
    left
    exact ⟨rfl, by intro m L h; simp at h⟩
  | cons L0 rest ih =>
    intro i OL t
    unfold findOldestLoop
    by_cases hc : diffTimex t L0.Spike.Emission > 0 ∧ ¬ L0.Empty = true
    · rw [if_pos hc]
      obtain ⟨hc1, hc2⟩ := hc
      rw [diffTimex_eq] at hc1
      have hlt : layerTime L0 < timexToDouble t := by
        unfold layerTime; exact sub_pos.mp hc1
      have hE : L0.Empty = false := by simpa using hc2
      right
      rcases ih (i + 1) (i : Int) L0.Spike.Emission with ⟨h1, h2⟩ | ⟨k, Lk, h1, h2, h3, h4, h5, h6⟩
      · refine ⟨0, L0, by rw [h1]; rfl, by simp, hE, hlt, ?_, ?_⟩
        · intro m L hm hLE
          cases m with
          | zero => simp at hm; subst hm; exact le_refl _
          | succ m => exact h2 m L (by simpa using hm) hLE
        · intro m L hm; omega
      · have h4' : layerTime Lk < layerTime L0 := h4
        refine ⟨k + 1, Lk, by rw [h1]; congr 1; omega, by simpa using h2, h3,
          lt_trans h4' hlt, ?_, ?_⟩
        · intro m L hm hLE
          cases m with
          | zero => simp at hm; subst hm; exact le_of_lt h4'
          | succ m => exact h5 m L (by simpa using hm) hLE
        · intro m L hmk hm hLE
          cases m with
          | zero => simp at hm; subst hm; exact h4'
          | succ m => exact h6 m L (by omega) (by simpa using hm) hLE
    · rw [if_neg hc]
      have hL0 : L0.Empty = false → timexToDouble t ≤ layerTime L0 := by
        intro hE
        by_contra hlt
        apply hc
        refine ⟨?_, by simp [hE]⟩
        rw [diffTimex_eq]
        exact sub_pos.mpr (lt_of_not_le hlt)
      rcases ih (i + 1) OL t with ⟨h1, h2⟩ | ⟨k, Lk, h1, h2, h3, h4, h5, h6⟩
      · left
        refine ⟨h1, ?_⟩
        intro m L hm hLE
        cases m with
        | zero => simp at hm; subst hm; exact hL0 hLE
        | succ m => exact h2 m L (by simpa using hm) hLE
      · right
        refine ⟨k + 1, Lk, by rw [h1]; congr 1; omega, by simpa using h2, h3, h4, ?_, ?_⟩
        · intro m L hm hLE
          cases m with
          | zero => simp at hm; subst hm; exact le_of_lt (lt_of_lt_of_le h4 (hL0 hLE))
          | succ m => exact h5 m L (by simpa using hm) hLE
        · intro m L hmk hm hLE
          cases m with
          | zero => simp at hm; subst hm; exact lt_of_lt_of_le h4 (hL0 hLE)
          | succ m => exact h6 m L (by omega) (by simpa using hm) hLE

/-- C10, the code at a failing input: with `Life = 10`, one non-empty layer whose
current spike is at 150 ms and an external spike at 200 ms, `findOldestLayer`
leaves `OldestLayer = NULL_LAYER` and `whereIsOldestSpike` returns `NULL_LAYER`,
although the layer is not empty and its spike is strictly earlier than the
external one.  The search of `findOldestLayer` starts from the time `Life + 100`,
which the source comments as "A maximum time not reachable"; here it is reached,
and `whereIsOldestSpike` answers `NULL_LAYER` while a recurrent spike is available
and the oldest spike is not the external one, against its own description. -/
theorem oldest_spike_beyond_horizon_ignored :
    whereIsOldestSpike (findOldestLayer (10 : Int) [layerAt 150]) [layerAt 150] (spikeAt 200 0)
      = NULL_LAYER ∧
    (layerAt 150).Empty = false ∧
    layerTime (layerAt 150) < timexToDouble (spikeAt 200 0).Emission := by
  decide

/-- What `whereIsOldestSpike` computes after `findOldestLayer`, for every state:
it returns `NULL_LAYER` exactly when no non-empty delay layer has a current spike
that is earlier than `Life + 100` and strictly earlier than `ext.Emission` (an
external spike wins a tie); otherwise it returns a non-empty layer whose current
spike is earlier than `ext.Emission`, earlier than `Life + 100` and earliest among
the non-empty layers, with the lowest index among the layers of that same time.
When the current spike of every non-empty layer is earlier than `Life + 100`, as
the comment of `findOldestLayer` assumes, this is the behaviour that the
description of `whereIsOldestSpike` asks for. -/
theorem whereIsOldestSpike_spec {R : Type} [LinearOrderedRing R] [FloorRing R]
    (Life : R) (SM : List (synaptic_layer R)) (ext : spike R) :
    (whereIsOldestSpike (findOldestLayer Life SM) SM ext = NULL_LAYER ↔
      ∀ (m : Nat) (L : synaptic_layer R), SM[m]? = some L → L.Empty = false →
        layerTime L < Life + 100 → timexToDouble ext.Emission ≤ layerTime L) ∧
    (whereIsOldestSpike (findOldestLayer Life SM) SM ext ≠ NULL_LAYER →
      ∃ (k : Nat) (Lk : synaptic_layer R),
        whereIsOldestSpike (findOldestLayer Life SM) SM ext = (k : Int) ∧
        SM[k]? = some Lk ∧ Lk.Empty = false ∧
        layerTime Lk < timexToDouble ext.Emission ∧ layerTime Lk < Life + 100 ∧
        (∀ (m : Nat) (L : synaptic_layer R), SM[m]? = some L → L.Empty = false →
          layerTime Lk ≤ layerTime L) ∧
        (∀ (m : Nat) (L : synaptic_layer R), m < k → SM[m]? = some L → L.Empty = false →
          layerTime Lk < layerTime L)) := by
  have hcap : timexToDouble (doubleToTimex (Life + 100)) = Life + 100 :=
    timexToDouble_doubleToTimex _
  unfold findOldestLayer
  rcases findOldestLoop_spec SM 0 NULL_LAYER (doubleToTimex (Life + 100)) with
    ⟨h1, h2⟩ | ⟨k, Lk, h1, h2, h3, h4, h5, h6⟩
  · rw [h1, hcap] at *
    have hW : whereIsOldestSpike NULL_LAYER SM ext = NULL_LAYER := by
      unfold whereIsOldestSpike; rw [if_pos rfl]
    rw [hW]
    refine ⟨⟨fun _ m L hm hE hlt => ?_, fun _ => rfl⟩, fun h => absurd rfl h⟩
    exact absurd hlt (not_lt.mpr (h2 m L hm hE))
  · rw [hcap] at h4
    rw [h1]
    simp only [Nat.zero_add]
    have hne : ((k : Nat) : Int) ≠ NULL_LAYER := by unfold NULL_LAYER; omega
    have hget : SM.getD ((k : Nat) : Int).toNat blankLayer = Lk := by
      rw [Int.toNat_ofNat, List.getD_eq_getElem?_getD, h2]; rfl
    have hW : whereIsOldestSpike (k : Int) SM ext
        = if timexToDouble ext.Emission ≤ layerTime Lk then NULL_LAYER else (k : Int) := by
      unfold whereIsOldestSpike
      rw [if_neg hne, hget, diffTimex_eq]
      unfold layerTime
      simp only [sub_nonpos]
    rw [hW]
    constructor
    · constructor
      · intro h m L hm hE hlt
        by_cases hc : timexToDouble ext.Emission ≤ layerTime Lk
        · exact le_trans hc (h5 m L hm hE)
        · rw [if_neg hc] at h; exact absurd h hne
      · intro h
        rw [if_pos (h k Lk h2 h3 h4)]
    · intro h
      by_cases hc : timexToDouble ext.Emission ≤ layerTime Lk
      · rw [if_pos hc] at h; exact absurd rfl h
      · rw [if_neg hc]
        exact ⟨k, Lk, rfl, h2, h3, lt_of_not_le hc, h4, h5, h6⟩

/-! ## The external spikes -/

theorem truncToInt_bounds {R : Type} [LinearOrderedRing R] [FloorRing R] (N : Nat) (U : R)
    (hN : 1 ≤ N) (h0 : 0 ≤ U) (h1 : U < 1) :
    0 ≤ truncToInt ((N : R) * U) ∧ truncToInt ((N : R) * U) < (N : Int) := by
  have hNR : (0 : R) < (N : R) := by exact_mod_cast hN
  have hx0 : (0 : R) ≤ (N : R) * U := mul_nonneg (le_of_lt hNR) h0
  have hx1 : (N : R) * U < (N : R) := by
    have := mul_lt_mul_of_pos_left h1 hNR
    simpa using this
  unfold truncToInt
  rw [if_pos hx0]
  constructor
  · exact Int.floor_nonneg.mpr hx0
  · rw [Int.floor_lt]
    exact_mod_cast hx1

theorem oldestPopLoop_spec {R : Type} [LinearOrderedRing R] (rest : List (population R)) :
    ∀ (pre : List (population R)) (op : Nat) (oe : timex R),
      op < pre.length → (pre.getD op blankPopulation).Emission = oe →
      (∀ q ∈ pre, timexToDouble oe ≤ timexToDouble q.Emission) →
      (∀ i, i < op → timexToDouble oe < timexToDouble (pre.getD i blankPopulation).Emission) →
      (oldestPopLoop rest pre.length op oe).1 < (pre ++ rest).length ∧
      ((pre ++ rest).getD (oldestPopLoop rest pre.length op oe).1 blankPopulation).Emission
        = (oldestPopLoop rest pre.length op oe).2 ∧
      (∀ q ∈ pre ++ rest,
        timexToDouble (oldestPopLoop rest pre.length op oe).2 ≤ timexToDouble q.Emission) ∧
      (∀ i, i < (oldestPopLoop rest pre.length op oe).1 →
        timexToDouble (oldestPopLoop rest pre.length op oe).2
          < timexToDouble ((pre ++ rest).getD i blankPopulation).Emission) := by
  induction rest with
  | nil =>
    intro pre op oe h1 h2 h3 h4
    simp only [oldestPopLoop, List.append_nil]
    exact ⟨h1, h2, h3, h4⟩
  | cons p rest ih =>
    intro pre op oe h1 h2 h3 h4
    have hlen : (pre ++ [p]).length = pre.length + 1 := by simp
    have happ : pre ++ p :: rest = (pre ++ [p]) ++ rest := by simp
    have hget : ∀ i, i < pre.length →
        (pre ++ [p]).getD i blankPopulation = pre.getD i blankPopulation := by
      intro i hi
      simp [List.getD_eq_getElem?_getD, List.getElem?_append_left hi]
    simp only [oldestPopLoop]
    rw [diffTimex_eq]
    by_cases hc : timexToDouble oe - timexToDouble p.Emission > 0
    · rw [if_pos hc]
      have hlt : timexToDouble p.Emission < timexToDouble oe := sub_pos.mp hc
      have := ih (pre ++ [p]) pre.length p.Emission (by simp)
        (by simp [List.getD_eq_getElem?_getD])
        (by
          intro q hq
          rcases List.mem_append.mp hq with hq | hq
          · exact le_trans (le_of_lt hlt) (h3 q hq)
          · simp only [List.mem_singleton] at hq
            rw [hq])
        (by
          intro i hi
          rw [hget i hi]
          have hmem : pre.getD i blankPopulation ∈ pre := by
            rw [List.getD_eq_getElem?_getD, List.getElem?_eq_getElem hi]
            exact List.getElem_mem _
          exact lt_of_lt_of_le hlt (h3 _ hmem))
      rw [hlen] at this
      rw [happ]
      exact this
    · rw [if_neg hc]
      have hle : timexToDouble oe ≤ timexToDouble p.Emission :=
        not_lt.mp (fun h => hc (sub_pos.mpr h))
      have := ih (pre ++ [p]) op oe (by simp; omega)
        (by rw [hget op h1]; exact h2)
        (by
          intro q hq
          rcases List.mem_append.mp hq with hq | hq
          · exact h3 q hq
          · simp only [List.mem_singleton] at hq
            rw [hq]; exact hle)
        (by
          intro i hi
          rw [hget i (by omega)]
          exact h4 i hi)
      rw [hlen] at this
      rw [happ]
      exact this

/-- C20: for every `U` in `[0, 1)`, `ariseExternalSpike` returns a spike whose
emission time is the minimum of `Populations[p].Emission` over all populations,
taken from the population of lowest index among those at the minimum, and whose
`Neuron` lies in the slice of that population; the `Emission` of every other
population (and every other field of all populations) is left unchanged. -/
theorem ariseExternalSpike_oldest {R : Type} [LinearOrderedRing R] [FloorRing R]
    (Populations : List (population R)) (ExtSpike : spike R) (U lg : R)
    (hne : Populations ≠ [])
    (hN : ∀ p ∈ Populations, 1 ≤ p.N ∧ p.Neurons + p.N ≤ 2147483648)
    (h0 : 0 ≤ U) (h1 : U < 1) :
    ∃ (i : Nat) (p : population R), Populations[i]? = some p ∧
      (ariseExternalSpike Populations ExtSpike U lg).1.Emission = p.Emission ∧
      (∀ q ∈ Populations, timexToDouble p.Emission ≤ timexToDouble q.Emission) ∧
      (∀ (k : Nat) (q : population R), k < i → Populations[k]? = some q →
        timexToDouble p.Emission < timexToDouble q.Emission) ∧
      p.Neurons ≤ (ariseExternalSpike Populations ExtSpike U lg).1.Neuron ∧
      (ariseExternalSpike Populations ExtSpike U lg).1.Neuron < p.Neurons + p.N ∧
      (ariseExternalSpike Populations ExtSpike U lg).2.length = Populations.length ∧
      (∀ k, k ≠ i →
        (ariseExternalSpike Populations ExtSpike U lg).2[k]? = Populations[k]?) ∧
      ∃ p1, (ariseExternalSpike Populations ExtSpike U lg).2[i]? = some p1 ∧
        p1.InvNuExt = p.InvNuExt ∧ p1.NuExt = p.NuExt ∧ p1.CExt = p.CExt ∧ p1.N = p.N ∧
        p1.Neurons = p.Neurons := by
  obtain ⟨p0, rest, rfl⟩ := List.exists_cons_of_ne_nil hne
  have hspec := oldestPopLoop_spec rest [p0] 0 p0.Emission (by simp) (by simp)
    (by simp) (by intro i hi; omega)
  simp only [List.length_singleton, List.singleton_append] at hspec
  obtain ⟨s1, s2, s3, s4⟩ := hspec
  unfold ariseExternalSpike
  simp only [List.getD_cons_zero, List.drop_succ_cons, List.drop_zero]
  generalize hr : oldestPopLoop rest 1 0 p0.Emission = r at s1 s2 s3 s4
  have hget : (p0 :: rest)[r.1]? = some ((p0 :: rest).getD r.1 blankPopulation) := by
    rw [List.getD_eq_getElem?_getD, List.getElem?_eq_getElem s1]
    rfl
  generalize hp : (p0 :: rest).getD r.1 blankPopulation = p at s2 hget
  have hmem : p ∈ p0 :: rest := by
    rw [List.getElem?_eq_getElem s1] at hget
    have := List.getElem_mem s1
    rw [Option.some.inj hget] at this
    exact this
  obtain ⟨hN1, hN2⟩ := hN p hmem
  obtain ⟨hj0, hj1⟩ := truncToInt_bounds p.N U hN1 h0 h1
  generalize truncToInt ((p.N : R) * U) = j at hj0 hj1
  have hju : (toU32 j : Int) = j := by
    unfold toU32
    rw [Int.emod_eq_of_lt hj0 (by omega)]
    omega
  have hnu : toU32 ((p.Neurons : Int) + (toU32 j : Int)) = p.Neurons + j.toNat := by
    rw [hju]
    unfold toU32
    rw [Int.emod_eq_of_lt (by omega) (by omega)]
    omega
  refine ⟨r.1, p, hget, s2.symm, ?_, ?_, ?_, ?_, ?_, ?_, ?_⟩
  · intro q hq
    rw [s2]; exact s3 q hq
  · intro k q hk hq
    have := s4 k hk
    rw [List.getD_eq_getElem?_getD, hq] at this
    rw [s2]; exact this
  · simp only [hnu]; omega
  · simp only [hnu]; omega
  · simp
  · intro k hk
    rw [List.getElem?_set_ne (Ne.symm hk)]
  · exact ⟨_, List.getElem?_set_self s1, rfl, rfl, rfl, rfl, rfl⟩

/-- Witness of C20: two populations; the spike comes from the second one. -/
theorem ariseExternalSpike_oldest_witness :
    ∃ (i : Nat) (p : population Int), twoPopulations[i]? = some p ∧
      (ariseExternalSpike twoPopulations (spikeAt 0 0) 0 (-2)).1.Emission = p.Emission ∧
      (∀ q ∈ twoPopulations, timexToDouble p.Emission ≤ timexToDouble q.Emission) := by
  obtain ⟨i, p, a, b, c, _⟩ := ariseExternalSpike_oldest twoPopulations (spikeAt 0 0) 0 (-2)
    (by simp [twoPopulations])
    (by
      intro p hp
      simp only [twoPopulations, List.mem_cons, List.mem_singleton, List.not_mem_nil,
        or_false] at hp
      rcases hp with rfl | rfl <;> exact ⟨by decide, by decide⟩)
    (le_refl _) (by decide)
  exact ⟨i, p, a, b, c⟩

/-! ## The delay layers -/

theorem mem_of_getElem?_eq {α : Type} (l : List α) (i : Nat) (a : α) (h : l[i]? = some a) :
    a ∈ l := by
  have hlt : i < l.length := by
    by_contra hc
    rw [List.getElem?_eq_none (not_lt.mp hc)] at h
    exact Option.noConfusion h
  rw [List.getElem?_eq_getElem hlt] at h
  rw [← Option.some.inj h]
  exact List.getElem_mem hlt

theorem layersOk_set {R : Type} (SM : List (synaptic_layer R)) (l : Nat)
    (L : synaptic_layer R) (hok : layersOk SM) (hL : L.Empty = true → L.Queue = []) :
    layersOk (SM.set l L) := by
  intro M hM hE
  rcases List.mem_or_eq_of_mem_set hM with h | h
  · exact hok M h hE
  · subst h; exact hL hE

theorem addNewSpike_spec {R : Type} [LinearOrderedRing R] [FloorRing R] (Life : R)
    (SM : List (synaptic_layer R)) (OL : Int) (n : Nat) (t : timex R) (ISI : R) (l : Nat)
    (L : synaptic_layer R) (hL : SM[l]? = some L) (hok : layersOk SM) :
    (addNewSpike Life SM OL n t ISI l).1.length = SM.length ∧
    layersOk (addNewSpike Life SM OL n t ISI l).1 ∧
    (∀ k, k ≠ l → (addNewSpike Life SM OL n t ISI l).1[k]? = SM[k]?) ∧
    ∃ L1, (addNewSpike Life SM OL n t ISI l).1[l]? = some L1 ∧
      pendingSpikes L1 = pendingSpikes L ++ [⟨t, n, ISI⟩] ∧ L1.Pre = L.Pre := by
  have hlt : l < SM.length := by
    by_contra h
    rw [List.getElem?_eq_none (not_lt.mp h)] at hL
    exact Option.noConfusion hL
  have hmem : L ∈ SM := mem_of_getElem?_eq SM l L hL
  have hD : SM.getD l blankLayer = L := by
    rw [List.getD_eq_getElem?_getD, hL]; rfl
  unfold addNewSpike
  simp only [hD]
  by_cases hE : L.Empty = true
  · have hQ := hok L hmem hE
    rw [if_pos hE]
    refine ⟨by simp, ?_, ?_, ?_⟩
    · exact layersOk_set SM l _ hok (fun h => by simp at h)
    · intro k hk
      rw [List.getElem?_set_ne (Ne.symm hk)]
    · refine ⟨_, List.getElem?_set_self hlt, ?_, rfl⟩
      simp [pendingSpikes, hE, hQ]
  · rw [if_neg hE]
    refine ⟨by simp, ?_, ?_, ?_⟩
    · exact layersOk_set SM l _ hok (fun h => absurd h hE)
    · intro k hk
      rw [List.getElem?_set_ne (Ne.symm hk)]
    · refine ⟨_, List.getElem?_set_self hlt, ?_, rfl⟩
      simp [pendingSpikes, hE]

theorem endSpikeManagement_spec {R : Type} [LinearOrderedRing R] [FloorRing R]
    (Life DelayStep : R) (SM : List (synaptic_layer R)) (OL : Int) (l : Nat)
    (L : synaptic_layer R) (hL : SM[l]? = some L) (hE : L.Empty = false) (hok : layersOk SM) :
    (endSpikeManagement Life DelayStep SM OL l).1.length = SM.length ∧
    layersOk (endSpikeManagement Life DelayStep SM OL l).1 ∧
    (∀ k, k ≠ l → k ≠ l + 1 → (endSpikeManagement Life DelayStep SM OL l).1[k]? = SM[k]?) ∧
    (∃ L1, (endSpikeManagement Life DelayStep SM OL l).1[l]? = some L1 ∧
      pendingSpikes L1 = L.Queue ∧ L1.Pre = L.Pre ∧ (L.Queue = [] → L1.Empty = true) ∧
      (∀ q rest, L.Queue = q :: rest → L1.Empty = false ∧ L1.Spike = q ∧ L1.Queue = rest)) ∧
    (∀ M, SM[l + 1]? = some M →
      ∃ M1, (endSpikeManagement Life DelayStep SM OL l).1[l + 1]? = some M1 ∧
        pendingSpikes M1 = pendingSpikes M ++ [delaySpike DelayStep L.Spike] ∧
        M1.Pre = M.Pre) := by
  have hlt : l < SM.length := by
    by_contra h
    rw [List.getElem?_eq_none (not_lt.mp h)] at hL
    exact Option.noConfusion hL
  have hD : SM.getD l blankLayer = L := by
    rw [List.getD_eq_getElem?_getD, hL]; rfl
  -- the state after the first part
  have step1 : ∃ S1 : List (synaptic_layer R) × Int,
      moveToNextLayer Life DelayStep SM OL l = S1 ∧
      S1.1.length = SM.length ∧ layersOk S1.1 ∧
      (∀ k, k ≠ l → k ≠ l + 1 → S1.1[k]? = SM[k]?) ∧
      (∃ L0, S1.1[l]? = some L0 ∧ L0.Queue = L.Queue ∧ L0.Empty = false ∧ L0.Pre = L.Pre) ∧
      (∀ M, SM[l + 1]? = some M → ∃ M1, S1.1[l + 1]? = some M1 ∧
        pendingSpikes M1 = pendingSpikes M ++ [delaySpike DelayStep L.Spike] ∧
        M1.Pre = M.Pre) := by
    unfold moveToNextLayer
    simp only [hD]
    by_cases hc : (l : Int) < (SM.length : Int) - 1
    · rw [if_pos hc]
      have hl1 : l + 1 < SM.length := by omega
      have hM : (SM.set l { L with Spike := delaySpike DelayStep L.Spike })[l + 1]?
          = SM[l + 1]? := by
        rw [List.getElem?_set_ne (by omega)]
      obtain ⟨M, hMs⟩ : ∃ M, SM[l + 1]? = some M := ⟨_, List.getElem?_eq_getElem hl1⟩
      have hok1 : layersOk (SM.set l { L with Spike := delaySpike DelayStep L.Spike }) :=
        layersOk_set SM l _ hok (fun h => by simp [hE] at h)
      obtain ⟨a1, a2, a3, M1, a4, a5, a6⟩ := addNewSpike_spec Life
        (SM.set l { L with Spike := delaySpike DelayStep L.Spike }) OL
        (delaySpike DelayStep L.Spike).Neuron (delaySpike DelayStep L.Spike).Emission
        (delaySpike DelayStep L.Spike).ISI (l + 1) M (hM.trans hMs) hok1
      refine ⟨_, rfl, ?_, a2, ?_, ?_, ?_⟩
      · rw [a1]; simp
      · intro k hk1 hk2
        rw [a3 k hk2, List.getElem?_set_ne (Ne.symm hk1)]
      · refine ⟨{ L with Spike := delaySpike DelayStep L.Spike }, ?_, rfl, hE, rfl⟩
        rw [a3 l (by omega), List.getElem?_set_self hlt]
      · intro M' hM'
        rw [hMs] at hM'
        have := Option.some.inj hM'
        subst this
        exact ⟨M1, a4, a5, a6⟩
    · rw [if_neg hc]
      refine ⟨_, rfl, rfl, hok, fun k _ _ => rfl, ⟨L, hL, rfl, hE, rfl⟩, ?_⟩
      intro M hM
      have : l + 1 < SM.length := by
        by_contra h
        rw [List.getElem?_eq_none (not_lt.mp h)] at hM
        exact Option.noConfusion hM
      omega
  obtain ⟨S1, hS1, b1, b2, b3, ⟨L0, c1, c2, c3, c4⟩, b5⟩ := step1
  have hlt1 : l < S1.1.length := by omega
  have hD1 : S1.1.getD l blankLayer = L0 := by
    rw [List.getD_eq_getElem?_getD, c1]; rfl
  unfold endSpikeManagement
  simp only [hS1]
  unfold nextQueuedSpike
  simp only [hD1]
  cases hq : L0.Queue with
  | nil =>
    refine ⟨by simp [b1], ?_, ?_, ?_, ?_⟩
    · exact layersOk_set _ l _ b2 (fun _ => rfl)
    · intro k hk1 hk2
      rw [List.getElem?_set_ne (Ne.symm hk1)]
      exact b3 k hk1 hk2
    · refine ⟨_, List.getElem?_set_self hlt1, ?_, c4, fun _ => rfl, ?_⟩
      · simp [pendingSpikes, ← c2, hq]
      · intro q rest hqr
        rw [← c2, hq] at hqr
        exact List.noConfusion hqr
    · intro M hM
      obtain ⟨M1, d1, d2, d3⟩ := b5 M hM
      refine ⟨M1, ?_, d2, d3⟩
      rw [List.getElem?_set_ne (by omega)]
      exact d1
  | cons q rest =>
    refine ⟨by simp [b1], ?_, ?_, ?_, ?_⟩
    · exact layersOk_set _ l _ b2 (fun h => by simp [c3] at h)
    · intro k hk1 hk2
      rw [List.getElem?_set_ne (Ne.symm hk1)]
      exact b3 k hk1 hk2
    · refine ⟨_, List.getElem?_set_self hlt1, ?_, c4, ?_, ?_⟩
      · simp [pendingSpikes, c3, ← c2, hq]
      · intro h
        rw [← c2, hq] at h
        exact List.noConfusion h
      · intro q' rest' hqr
        rw [← c2, hq] at hqr
        injection hqr with e1 e2
        subst e1; subst e2
        exact ⟨c3, rfl, rfl⟩
    · intro M hM
      obtain ⟨M1, d1, d2, d3⟩ := b5 M hM
      refine ⟨M1, ?_, d2, d3⟩
      rw [List.getElem?_set_ne (by omega)]
      exact d1

theorem dispatchedAt_append {R : Type} (k l : Nat) (log : List (Nat × spike R)) (sp : spike R) :
    dispatchedAt k (log ++ [(l, sp)])
      = if k = l then dispatchedAt k log ++ [sp] else dispatchedAt k log := by
  unfold dispatchedAt
  by_cases h : k = l
  · subst h; simp [List.filter_append]
  · have : ¬ l = k := fun e => h e.symm
    simp [List.filter_append, h, this]

theorem StreamInv_add {R : Type} [LinearOrderedRing R] [FloorRing R] (Life DelayStep : R)
    (SM : List (synaptic_layer R)) (OL : Int) (log : List (Nat × spike R))
    (added : List (spike R)) (sp : spike R) (h : StreamInv DelayStep SM log added) :
    StreamInv DelayStep (addNewSpike Life SM OL sp.Neuron sp.Emission sp.ISI 0).1 log
      (added ++ [sp]) ∧
    (addNewSpike Life SM OL sp.Neuron sp.Emission sp.ISI 0).1.length = SM.length := by
  obtain ⟨hok, hinv⟩ := h
  cases h0 : SM[0]? with
  | none =>
    have hlen : SM.length ≤ 0 := by
      by_contra hc
      rw [List.getElem?_eq_getElem (by omega)] at h0
      exact Option.noConfusion h0
    have hnil : SM = [] := List.eq_nil_of_length_eq_zero (by omega)
    subst hnil
    have hres : (addNewSpike Life ([] : List (synaptic_layer R)) OL sp.Neuron sp.Emission
        sp.ISI 0).1 = [] := by
      unfold addNewSpike
      simp only []
      split_ifs <;> rfl
    rw [hres]
    refine ⟨⟨?_, ?_⟩, rfl⟩
    · intro L hL
      exact absurd hL (List.not_mem_nil L)
    · intro l L hL
      simp at hL
  | some L0 =>
    obtain ⟨a1, a2, a3, L1, a4, a5, _⟩ :=
      addNewSpike_spec Life SM OL sp.Neuron sp.Emission sp.ISI 0 L0 h0 hok
    refine ⟨⟨a2, ?_⟩, a1⟩
    intro l L hL
    by_cases hl : l = 0
    · subst hl
      rw [a4] at hL
      have := Option.some.inj hL
      subst this
      rw [a5, ← List.append_assoc, hinv 0 L0 h0]
      simp
    · rw [a3 l hl] at hL
      rw [hinv l L hL, if_neg hl, if_neg hl]

theorem StreamInv_finish {R : Type} [LinearOrderedRing R] [FloorRing R] (Life DelayStep : R)
    (SM : List (synaptic_layer R)) (OL : Int) (log : List (Nat × spike R))
    (added : List (spike R)) (l : Nat) (L : synaptic_layer R) (hL : SM[l]? = some L)
    (hE : L.Empty = false) (h : StreamInv DelayStep SM log added) :
    StreamInv DelayStep (endSpikeManagement Life DelayStep SM OL l).1 (log ++ [(l, L.Spike)])
      added ∧
    (endSpikeManagement Life DelayStep SM OL l).1.length = SM.length := by
  obtain ⟨hok, hinv⟩ := h
  obtain ⟨a1, a2, a3, ⟨L1, b1, b2, _⟩, a5⟩ :=
    endSpikeManagement_spec Life DelayStep SM OL l L hL hE hok
  refine ⟨⟨a2, ?_⟩, a1⟩
  intro k K hK
  rw [dispatchedAt_append, dispatchedAt_append]
  by_cases hk : k = l
  · subst hk
    rw [b1] at hK
    have := Option.some.inj hK
    subst this
    rw [if_pos rfl, b2]
    have hpend : pendingSpikes L = L.Spike :: L.Queue := by simp [pendingSpikes, hE]
    have := hinv k L hL
    rw [hpend] at this
    rw [List.append_assoc, List.singleton_append, this]
    by_cases hk0 : k = 0
    · rw [if_pos hk0, if_pos hk0]
    · rw [if_neg hk0, if_neg hk0, if_neg (by omega)]
  · rw [if_neg hk]
    by_cases hk1 : k = l + 1
    · subst hk1
      have hlt : l + 1 < SM.length := by
        rw [← a1]
        by_contra hc
        rw [List.getElem?_eq_none (not_lt.mp hc)] at hK
        exact Option.noConfusion hK
      obtain ⟨M1, c1, c2, _⟩ := a5 _ (List.getElem?_eq_getElem hlt)
      rw [c1] at hK
      have := Option.some.inj hK
      subst this
      rw [c2, ← List.append_assoc, hinv (l + 1) _ (List.getElem?_eq_getElem hlt)]
      simp
    · rw [a3 k hk hk1] at hK
      rw [hinv k K hK]
      by_cases hk0 : k = 0
      · rw [if_pos hk0, if_pos hk0]
      · rw [if_neg hk0, if_neg hk0, if_neg (by omega)]

theorem runLayerOps_inv {R : Type} [LinearOrderedRing R] [FloorRing R] (Life DelayStep : R)
    (ops : List (LayerOp R)) :
    ∀ (S : List (synaptic_layer R) × Int) (log : List (Nat × spike R)) (added : List (spike R))
      (S1 : List (synaptic_layer R) × Int) (log1 : List (Nat × spike R)),
      StreamInv DelayStep S.1 log added →
      runLayerOps Life DelayStep ops S log = some (S1, log1) →
      StreamInv DelayStep S1.1 log1 (added ++ addedSpikes ops) ∧ S1.1.length = S.1.length := by
  induction ops with
  | nil =>
    intro S log added S1 log1 h hr
    simp only [runLayerOps, Option.some.injEq, Prod.mk.injEq] at hr
    obtain ⟨rfl, rfl⟩ := hr
    simpa [addedSpikes] using h
  | cons op ops ih =>
    intro S log added S1 log1 h hr
    cases op with
    | add sp =>
      simp only [runLayerOps] at hr
      obtain ⟨h1, h2⟩ := StreamInv_add Life DelayStep S.1 S.2 log added sp h
      obtain ⟨h3, h4⟩ := ih _ log (added ++ [sp]) S1 log1 h1 hr
      refine ⟨?_, h4.trans h2⟩
      simpa [addedSpikes] using h3
    | finish l =>
      simp only [runLayerOps] at hr
      cases hL : S.1[l]? with
      | none => rw [hL] at hr; exact Option.noConfusion hr
      | some L =>
        rw [hL] at hr
        simp only at hr
        by_cases hE : L.Empty = true
        · rw [if_pos hE] at hr; exact Option.noConfusion hr
        · rw [if_neg hE] at hr
          have hE1 : L.Empty = false := by simpa using hE
          obtain ⟨h1, h2⟩ := StreamInv_finish Life DelayStep S.1 S.2 log added l L hL hE1 h
          obtain ⟨h3, h4⟩ := ih _ _ added S1 log1 h1 hr
          refine ⟨?_, h4.trans h2⟩
          simpa [addedSpikes] using h3

theorem delaySpike_delaySpike {R : Type} [LinearOrderedRing R] (a b : R) (sp : spike R) :
    delaySpike b (delaySpike a sp) = delaySpike (a + b) sp := by
  simp [delaySpike, add_assoc]

theorem StreamInv_prefix {R : Type} [LinearOrderedRing R] (DelayStep : R)
    (SM : List (synaptic_layer R)) (log : List (Nat × spike R)) (added : List (spike R))
    (h : StreamInv DelayStep SM log added) :
    ∀ (l : Nat) (L : synaptic_layer R), SM[l]? = some L →
      ∃ m, dispatchedAt l log ++ pendingSpikes L
        = (added.take m).map (delaySpike ((l : R) * DelayStep)) := by
  intro l
  induction l with
  | zero =>
    intro L hL
    refine ⟨added.length, ?_⟩
    rw [h.2 0 L hL, if_pos rfl, List.take_length]
    have : (delaySpike (((0 : Nat) : R) * DelayStep) : spike R → spike R) = id := by
      funext sp
      simp [delaySpike]
    rw [this, List.map_id]
  | succ l ih =>
    intro L hL
    have hlt : l < SM.length := by
      by_contra hc
      rw [List.getElem?_eq_none (by omega)] at hL
      exact Option.noConfusion hL
    obtain ⟨m, hm⟩ := ih _ (List.getElem?_eq_getElem hlt)
    refine ⟨min (dispatchedAt l log).length m, ?_⟩
    rw [h.2 (l + 1) L hL, if_neg (by omega)]
    have hD : dispatchedAt l log
        = ((added.take m).map (delaySpike ((l : R) * DelayStep))).take
            (dispatchedAt l log).length := by
      rw [← hm, List.take_left']
      rfl
    simp only [Nat.add_sub_cancel]
    conv_lhs => rw [hD]
    rw [← List.map_take, List.take_take, List.map_map]
    congr 1
    funext sp
    simp only [Function.comp, delaySpike_delaySpike]
    congr 1
    push_cast
    rw [add_mul, one_mul]

/-- C11: when the current spike of the non-empty layer `l` has been dispatched,
`endSpikeManagement(l)` appends that spike, `DelayStep` later and with the same
neuron and ISI, to the spikes of layer `l + 1` if `l < DelayNumber - 1`, and
changes no other layer than `l` (and `l + 1`); in layer `l` the next queued spike
becomes the current one, or the layer is marked empty.  Consequently, in every
run of the driver on layers that start empty, the spikes that were or are to be
dispatched from layer `l` are, in order and once each, the first spikes added to
layer 0, `l * DelayStep` later, with unchanged neuron and ISI. -/
theorem endSpikeManagement_moves_spike {R : Type} [LinearOrderedRing R] [FloorRing R]
    (Life DelayStep : R) :
    (∀ (SM : List (synaptic_layer R)) (OL : Int) (l : Nat) (L : synaptic_layer R),
      SM[l]? = some L → L.Empty = false → layersOk SM →
      (endSpikeManagement Life DelayStep SM OL l).1.length = SM.length ∧
      layersOk (endSpikeManagement Life DelayStep SM OL l).1 ∧
      (∀ k, k ≠ l → k ≠ l + 1 → (endSpikeManagement Life DelayStep SM OL l).1[k]? = SM[k]?) ∧
      (l + 1 = SM.length →
        ∀ k, k ≠ l → (endSpikeManagement Life DelayStep SM OL l).1[k]? = SM[k]?) ∧
      (∃ L1, (endSpikeManagement Life DelayStep SM OL l).1[l]? = some L1 ∧
        pendingSpikes L1 = L.Queue ∧ L1.Pre = L.Pre ∧ (L.Queue = [] → L1.Empty = true) ∧
        (∀ q rest, L.Queue = q :: rest → L1.Empty = false ∧ L1.Spike = q ∧ L1.Queue = rest)) ∧
      (∀ M, SM[l + 1]? = some M →
        ∃ M1, (endSpikeManagement Life DelayStep SM OL l).1[l + 1]? = some M1 ∧
          pendingSpikes M1 = pendingSpikes M ++ [delaySpike DelayStep L.Spike] ∧
          M1.Pre = M.Pre)) ∧
    (∀ (DelayNumber : Nat) (OL : Int) (ops : List (LayerOp R))
      (S1 : List (synaptic_layer R) × Int) (log : List (Nat × spike R)),
      runLayerOps Life DelayStep ops (emptyLayers R DelayNumber, OL) [] = some (S1, log) →
      ∀ (l : Nat) (L : synaptic_layer R), S1.1[l]? = some L →
        ∃ m, dispatchedAt l log ++ pendingSpikes L
          = ((addedSpikes ops).take m).map (delaySpike ((l : R) * DelayStep))) := by
  constructor
  · intro SM OL l L hL hE hok
    obtain ⟨a1, a2, a3, a4, a5⟩ := endSpikeManagement_spec Life DelayStep SM OL l L hL hE hok
    refine ⟨a1, a2, a3, ?_, a4, a5⟩
    intro hlast k hk
    by_cases hk1 : k = l + 1
    · subst hk1
      rw [List.getElem?_eq_none (by omega), List.getElem?_eq_none (by omega)]
    · exact a3 k hk hk1
  · intro DelayNumber OL ops S1 log hr l L hL
    have h0 : StreamInv DelayStep (emptyLayers R DelayNumber, OL).1 [] [] := by
      refine ⟨?_, ?_⟩
      · intro M hM _
        simp only [emptyLayers] at hM
        rw [List.eq_of_mem_replicate hM]
        rfl
      · intro k K hK
        have hKm := mem_of_getElem?_eq _ k K hK
        simp only [emptyLayers] at hKm
        rw [List.eq_of_mem_replicate hKm]
        simp [dispatchedAt, pendingSpikes, blankLayer]
    obtain ⟨h1, _⟩ := runLayerOps_inv Life DelayStep ops _ [] [] S1 log h0 hr
    rw [List.nil_append] at h1
    exact StreamInv_prefix DelayStep S1.1 log _ h1 l L hL

/-- Witness of C11: two layers 3 ms apart; a spike added at 5 ms is dispatched
from layer 0 and then from layer 1. -/
theorem endSpikeManagement_moves_spike_witness :
    ∃ (S1 : List (synaptic_layer Int) × Int) (log : List (Nat × spike Int)),
      runLayerOps (100 : Int) 3 oneSpikeOps (emptyLayers Int 2, NULL_LAYER) [] = some (S1, log) ∧
      log = [(0, spikeAt 5 1), (1, delaySpike 3 (spikeAt 5 1))] ∧
      ∀ (l : Nat) (L : synaptic_layer Int), S1.1[l]? = some L →
        ∃ m, dispatchedAt l log ++ pendingSpikes L
          = ((addedSpikes oneSpikeOps).take m).map (delaySpike ((l : Int) * 3)) := by
  obtain ⟨x, hx⟩ := Option.isSome_iff_exists.mp
    (show (runLayerOps (100 : Int) 3 oneSpikeOps (emptyLayers Int 2, NULL_LAYER) []).isSome = true
      from rfl)
  have hlog : (runLayerOps (100 : Int) 3 oneSpikeOps (emptyLayers Int 2, NULL_LAYER) []).map
      Prod.snd = some [(0, spikeAt 5 1), (1, delaySpike 3 (spikeAt 5 1))] := rfl
  rw [hx] at hlog
  exact ⟨x.1, x.2, hx, Option.some.inj hlog,
    (endSpikeManagement_moves_spike (100 : Int) 3).2 2 NULL_LAYER oneSpikeOps x.1 x.2 hx⟩

/-! ## The neuron kernels -/

/-- C12: for each of the four kernels, when the emission time `t` of the arriving
spike satisfies `t - Te ≤ Tarp`, the call leaves the membrane potential unchanged
and emits no spike (no call of `addNewSpike`), whatever the efficacy; the synapse
update or the external draw is still performed, on a neuron with the same
potential and the same times. -/
theorem refractory_keeps_potential {R σ : Type} [LinearOrderedField R] (ty : neuron_type)
    (exp : R → R) (P : neuron_params R) (DelayMin : R) (getJ : neuron R → σ → σ × R)
    (Post : Nat) (Sp : spike R) (nr : neuron R) (s : σ)
    (h : timexToDouble Sp.Emission - timexToDouble nr.Te ≤ P.Tarp) :
    (updateNeuronState ty exp P DelayMin getJ Post Sp nr s).1.V = nr.V ∧
    (updateNeuronState ty exp P DelayMin getJ Post Sp nr s).2.2 = none ∧
    ∃ nr1 : neuron R, nr1.V = nr.V ∧ nr1.Te = nr.Te ∧ nr1.Tr = nr.Tr ∧
      (updateNeuronState ty exp P DelayMin getJ Post Sp nr s).2.1 = (getJ nr1 s).1 := by
  have hc : ¬ diffTimex Sp.Emission nr.Te > P.Tarp := by
    rw [diffTimex_eq]; exact not_lt.mpr h
  cases ty with
  | LIF =>
    unfold updateNeuronState updateNeuronState_LIF
    simp only []
    rw [if_neg hc]
    exact ⟨rfl, rfl, nr, rfl, rfl, rfl, rfl⟩
  | LIFCA =>
    unfold updateNeuronState updateNeuronState_LIFCA
    simp only []
    rw [if_neg hc]
    exact ⟨rfl, rfl, { nr with C := nr.C * exp (-diffTimex Sp.Emission nr.Tr / P.TauC) },
      rfl, rfl, rfl, rfl⟩
  | VIF =>
    unfold updateNeuronState updateNeuronState_VIF
    simp only []
    rw [if_neg hc]
    exact ⟨rfl, rfl, nr, rfl, rfl, rfl, rfl⟩
  | VIFCA =>
    unfold updateNeuronState updateNeuronState_VIFCA
    simp only []
    rw [if_neg hc]
    exact ⟨rfl, rfl, { nr with C := nr.C * exp (-diffTimex Sp.Emission nr.Tr / P.TauC) },
      rfl, rfl, rfl, rfl⟩

/-- Witness of C12: a VIF neuron that emitted at 1 ms receives a spike at 2 ms,
within its refractory period of 2 ms. -/
theorem refractory_keeps_potential_witness :
    (updateNeuronState neuron_type.VIF (fun x => x) vifParams 1 (fun _ (s : Nat) => (s + 1, 50))
      0 (spikeAtQ 2 0) restingNeuron 0).1.V = 15 ∧
    (updateNeuronState neuron_type.VIF (fun x => x) vifParams 1 (fun _ (s : Nat) => (s + 1, 50))
      0 (spikeAtQ 2 0) restingNeuron 0).2.2 = none :=
  ⟨(refractory_keeps_potential neuron_type.VIF (fun x => x) vifParams 1
      (fun _ (s : Nat) => (s + 1, 50)) 0 (spikeAtQ 2 0) restingNeuron 0 (by decide!)).1,
   (refractory_keeps_potential neuron_type.VIF (fun x => x) vifParams 1
      (fun _ (s : Nat) => (s + 1, 50)) 0 (spikeAtQ 2 0) restingNeuron 0 (by decide!)).2.1⟩

/-- C13: for a VIF or VIFCA neuron with `V ≥ 0` and reset potential `H ≥ 0`, after
`updateNeuronState_VIF` / `updateNeuronState_VIFCA` the potential is not negative,
for every arriving spike and every efficacy (positive or negative), and the
potential reported by `getNeuronState_VIF` / `getNeuronState_VIFCA` (the first
state variable) is never negative. -/
theorem reflecting_barrier {R σ : Type} [LinearOrderedField R]
    (exp : R → R) (P : neuron_params R) (DelayMin : R) (getJ : neuron R → σ → σ × R)
    (Post : Nat) (Sp : spike R) (nr : neuron R) (s : σ) (hV : 0 ≤ nr.V) (hH : 0 ≤ P.H) :
    0 ≤ (updateNeuronState_VIF P DelayMin getJ Post Sp nr s).1.V ∧
    0 ≤ (updateNeuronState_VIFCA exp P DelayMin getJ Post Sp nr s).1.V ∧
    (∀ t, ∃ v rest, getNeuronState_VIF P t nr = v :: rest ∧ 0 ≤ v) ∧
    (∀ t, ∃ v rest, getNeuronState_VIFCA exp P t nr = v :: rest ∧ 0 ≤ v) := by
  refine ⟨?_, ?_, ?_, ?_⟩
  · unfold updateNeuronState_VIF
    simp only
    split_ifs <;> first | exact hV | exact hH | exact le_refl _ | (simp only []; linarith)
  · unfold updateNeuronState_VIFCA
    simp only
    split_ifs <;> first | exact hV | exact hH | exact le_refl _ | (simp only []; linarith)
  · intro t
    unfold getNeuronState_VIF
    simp only
    split_ifs with h1 h2
    · exact ⟨_, _, rfl, le_refl _⟩
    · exact ⟨_, _, rfl, not_lt.mp h2⟩
    · exact ⟨_, _, rfl, hH⟩
  · intro t
    unfold getNeuronState_VIFCA
    simp only
    split_ifs with h1 h2 h3 h4
    · exact ⟨_, _, rfl, le_refl _⟩
    · exact ⟨_, _, rfl, not_lt.mp h3⟩
    · exact ⟨_, _, rfl, le_refl _⟩
    · exact ⟨_, _, rfl, not_lt.mp h4⟩
    · exact ⟨_, _, rfl, hH⟩

/-- Witness of C13: a VIF neuron with potential 15 receives an efficacy of -50
outside its refractory period. -/
theorem reflecting_barrier_witness :
    0 ≤ (updateNeuronState_VIF vifParams 1 (fun _ (s : Nat) => (s + 1, -50)) 0 (spikeAtQ 9 0)
      restingNeuron 0).1.V :=
  (reflecting_barrier (fun x => x) vifParams 1 (fun _ (s : Nat) => (s + 1, -50)) 0
    (spikeAtQ 9 0) restingNeuron 0 (by decide!) (by decide!)).1

theorem timexToDouble_timexAdd {R : Type} [LinearOrderedRing R] (t : timex R) (d : R) :
    timexToDouble (timexAdd t d) = timexToDouble t + d := by
  simp [timexToDouble, timexAdd, add_assoc]

theorem threshold_local {R σ : Type} [LinearOrderedField R] (ty : neuron_type)
    (hty : ty = neuron_type.LIF ∨ ty = neuron_type.VIF)
    (exp : R → R) (P : neuron_params R) (DelayMin : R) (getJ : neuron R → σ → σ × R)
    (Post : Nat) (Sp : spike R) (nr : neuron R) (s : σ)
    (h : timexToDouble Sp.Emission - timexToDouble nr.Te > P.Tarp) :
    (potentialAfterJ ty exp P Sp.Emission nr
        (getJ { nr with V := potentialBeforeJ ty exp P Sp.Emission nr } s).2 ≥ P.Theta →
      (updateNeuronState ty exp P DelayMin getJ Post Sp nr s).1.V = P.H ∧
      (updateNeuronState ty exp P DelayMin getJ Post Sp nr s).1.Te = Sp.Emission ∧
      (updateNeuronState ty exp P DelayMin getJ Post Sp nr s).2.2
        = some { Emission := timexAdd Sp.Emission DelayMin, Neuron := Post,
                 ISI := diffTimex Sp.Emission nr.Te }) ∧
    (potentialAfterJ ty exp P Sp.Emission nr
        (getJ { nr with V := potentialBeforeJ ty exp P Sp.Emission nr } s).2 < P.Theta →
      (updateNeuronState ty exp P DelayMin getJ Post Sp nr s).2.2 = none ∧
      (updateNeuronState ty exp P DelayMin getJ Post Sp nr s).1.Te = nr.Te ∧
      (updateNeuronState ty exp P DelayMin getJ Post Sp nr s).1.Tr = Sp.Emission) := by
  have hc : diffTimex Sp.Emission nr.Te > P.Tarp := by
    rw [diffTimex_eq]; exact h
  rcases hty with rfl | rfl
  · unfold updateNeuronState updateNeuronState_LIF potentialAfterJ potentialBeforeJ
    simp only []
    rw [if_pos hc]
    constructor
    · intro hW
      rw [if_pos hW]
      exact ⟨rfl, rfl, rfl⟩
    · intro hW
      rw [if_neg (not_le.mpr hW)]
      exact ⟨rfl, rfl, rfl⟩
  · unfold updateNeuronState updateNeuronState_VIF potentialAfterJ potentialBeforeJ
    simp only []
    rw [if_pos hc]
    constructor
    · intro hW
      rw [if_pos hW]
      exact ⟨rfl, rfl, rfl⟩
    · intro hW
      rw [if_neg (not_le.mpr hW)]
      exact ⟨rfl, rfl, rfl⟩

/-- C14: for `updateNeuronState_LIF` and `updateNeuronState_VIF` outside the
refractory period (`t - Te > Tarp`): if the potential after adding `J` is at least
`Theta`, then `V` is set to `H`, `Te` to the time `t` of the spike, and exactly one
spike, of neuron `Post`, emission time `t + DelayMin` and ISI `t - Te` (the old
`Te`), is appended to the spikes of delay layer 0, the other layers being left as
they are; if it is below `Theta`, the layers are unchanged, `Te` is unchanged and
`Tr` is set to `t`. -/
theorem threshold_emits_one_spike {R σ : Type} [LinearOrderedField R] [FloorRing R]
    (ty : neuron_type) (hty : ty = neuron_type.LIF ∨ ty = neuron_type.VIF)
    (exp : R → R) (Life DelayMin : R) (params : Nat → neuron_params R)
    (getJ : Nat → Option Int → spike R → neuron R → σ → σ × R)
    (Post : Nat) (syn : Option Int) (Sp : spike R) (st : perseo_state R σ)
    (nr : neuron R) (L0 : synaptic_layer R)
    (hnr : st.Neurons[Post]? = some nr) (hL0 : st.SynapticMatrix[0]? = some L0)
    (hok : layersOk st.SynapticMatrix)
    (h : timexToDouble Sp.Emission - timexToDouble nr.Te > (params Post).Tarp) :
    ∃ nr1, (callUpdateNeuronState ty exp Life DelayMin params getJ Post syn Sp st).Neurons[Post]?
        = some nr1 ∧
      (potentialAfterJ ty exp (params Post) Sp.Emission nr
          (getJ Post syn Sp { nr with V := potentialBeforeJ ty exp (params Post) Sp.Emission nr }
            st.Syn).2 ≥ (params Post).Theta →
        nr1.V = (params Post).H ∧ nr1.Te = Sp.Emission ∧
        ∃ (L1 : synaptic_layer R) (sp : spike R),
          (callUpdateNeuronState ty exp Life DelayMin params getJ Post syn Sp
            st).SynapticMatrix[0]? = some L1 ∧
          pendingSpikes L1 = pendingSpikes L0 ++ [sp] ∧
          sp.Neuron = Post ∧
          timexToDouble sp.Emission = timexToDouble Sp.Emission + DelayMin ∧
          sp.ISI = timexToDouble Sp.Emission - timexToDouble nr.Te ∧
          ∀ k, k ≠ 0 →
            (callUpdateNeuronState ty exp Life DelayMin params getJ Post syn Sp
              st).SynapticMatrix[k]? = st.SynapticMatrix[k]?) ∧
      (potentialAfterJ ty exp (params Post) Sp.Emission nr
          (getJ Post syn Sp { nr with V := potentialBeforeJ ty exp (params Post) Sp.Emission nr }
            st.Syn).2 < (params Post).Theta →
        (callUpdateNeuronState ty exp Life DelayMin params getJ Post syn Sp st).SynapticMatrix
          = st.SynapticMatrix ∧
        nr1.Te = nr.Te ∧ nr1.Tr = Sp.Emission) := by
  have hlt : Post < st.Neurons.length := by
    by_contra hc
    rw [List.getElem?_eq_none (not_lt.mp hc)] at hnr
    exact Option.noConfusion hnr
  have hD : st.Neurons.getD Post blankNeuron = nr := by
    rw [List.getD_eq_getElem?_getD, hnr]; rfl
  obtain ⟨hA, hB⟩ := threshold_local ty hty exp (params Post) DelayMin (getJ Post syn Sp) Post Sp
    nr st.Syn h
  unfold callUpdateNeuronState
  simp only [hD]
  refine ⟨_, List.getElem?_set_self hlt, ?_, ?_⟩
  · intro hW
    obtain ⟨a1, a2, a3⟩ := hA hW
    refine ⟨a1, a2, ?_⟩
    rw [a3]
    simp only
    obtain ⟨_, _, b3, L1, b4, b5, _⟩ := addNewSpike_spec Life st.SynapticMatrix st.OldestLayer
      Post (timexAdd Sp.Emission DelayMin) (diffTimex Sp.Emission nr.Te) 0 L0 hL0 hok
    exact ⟨L1, _, b4, b5, rfl, timexToDouble_timexAdd _ _, diffTimex_eq _ _, b3⟩
  · intro hW
    obtain ⟨a1, a2, a3⟩ := hB hW
    refine ⟨?_, a2, a3⟩
    rw [a1]

/-- Witness of C14: a VIF neuron with potential 15, last spike at 3 ms, receives at
9 ms an efficacy of 50: its potential is 9 after the leakage and 59 after `J`,
above the threshold 20. -/
theorem threshold_emits_one_spike_witness :
    ∃ nr1, (callUpdateNeuronState neuron_type.VIF (fun x => x) 100 1 (fun _ => vifParams)
        (fun _ _ _ _ (s : Nat) => (s + 1, 50)) 0 none (spikeAtQ 9 0)
        oneNeuronState).Neurons[0]? = some nr1 ∧ nr1.V = 5 := by
  obtain ⟨nr1, h1, h2, _⟩ := threshold_emits_one_spike neuron_type.VIF (Or.inr rfl)
    (fun x => x) 100 1 (fun _ => vifParams) (fun _ _ _ _ (s : Nat) => (s + 1, 50)) 0 none
    (spikeAtQ 9 0) oneNeuronState restingNeuron blankLayer rfl rfl
    (by
      intro L hL _
      simp only [oneNeuronState, emptyLayers] at hL
      rw [List.eq_of_mem_replicate hL]
      rfl)
    (by decide!)
  exact ⟨nr1, h1, (h2 (by decide!)).1⟩

/-- C15: every spike that a kernel (LIF, LIFCA, VIF, VIFCA) passes to
`addNewSpike` for delay layer 0 carries an ISI strictly greater than `Tarp`; the
ISI is the time from the previous emission of the neuron (`Te`) to the new one,
so that two consecutive emissions of a neuron are more than `Tarp` apart. -/
theorem emitted_isi_exceeds_tarp {R σ : Type} [LinearOrderedField R] (ty : neuron_type)
    (exp : R → R) (P : neuron_params R) (DelayMin : R) (getJ : neuron R → σ → σ × R)
    (Post : Nat) (Sp : spike R) (nr : neuron R) (s : σ) (sp : spike R)
    (h : (updateNeuronState ty exp P DelayMin getJ Post Sp nr s).2.2 = some sp) :
    sp.ISI > P.Tarp ∧
    sp.ISI = timexToDouble (updateNeuronState ty exp P DelayMin getJ Post Sp nr s).1.Te
      - timexToDouble nr.Te ∧
    (updateNeuronState ty exp P DelayMin getJ Post Sp nr s).1.Te = Sp.Emission := by
  cases ty with
  | LIF =>
    unfold updateNeuronState updateNeuronState_LIF at h ⊢
    simp only [] at h ⊢
    split_ifs at h ⊢ <;>
      first
      | exact Option.noConfusion h
      | (simp only [Option.some.injEq] at h
         subst h
         exact ⟨by assumption, diffTimex_eq _ _, rfl⟩)
  | LIFCA =>
    unfold updateNeuronState updateNeuronState_LIFCA at h ⊢
    simp only [] at h ⊢
    split_ifs at h ⊢ <;>
      first
      | exact Option.noConfusion h
      | (simp only [Option.some.injEq] at h
         subst h
         exact ⟨by assumption, diffTimex_eq _ _, rfl⟩)
  | VIF =>
    unfold updateNeuronState updateNeuronState_VIF at h ⊢
    simp only [] at h ⊢
    split_ifs at h ⊢ <;>
      first
      | exact Option.noConfusion h
      | (simp only [Option.some.injEq] at h
         subst h
         exact ⟨by assumption, diffTimex_eq _ _, rfl⟩)
  | VIFCA =>
    unfold updateNeuronState updateNeuronState_VIFCA at h ⊢
    simp only [] at h ⊢
    split_ifs at h ⊢ <;>
      first
      | exact Option.noConfusion h
      | (simp only [Option.some.injEq] at h
         subst h
         exact ⟨by assumption, diffTimex_eq _ _, rfl⟩)

/-- Witness of C15: the spike emitted by a VIF neuron 8 ms after its previous
emission. -/
theorem emitted_isi_exceeds_tarp_witness :
    ∃ sp, (updateNeuronState neuron_type.VIF (fun x => x) vifParams 1
        (fun _ (s : Nat) => (s + 1, 50)) 0 (spikeAtQ 9 0) restingNeuron 0).2.2 = some sp ∧
      sp.ISI > vifParams.Tarp := by
  obtain ⟨sp, hsp⟩ := Option.isSome_iff_exists.mp
    (show (updateNeuronState neuron_type.VIF (fun x => x) vifParams 1
        (fun _ (s : Nat) => (s + 1, 50)) 0 (spikeAtQ 9 0) restingNeuron 0).2.2.isSome = true
      by decide!)
  exact ⟨sp, hsp, (emitted_isi_exceeds_tarp neuron_type.VIF (fun x => x) vifParams 1
    (fun _ (s : Nat) => (s + 1, 50)) 0 (spikeAtQ 9 0) restingNeuron 0 sp hsp).1⟩

/-! ## events.c and perseo.c : the timed events and the main loop -/

/-- The function `cmpEvents` is negative exactly when the first event is
earlier. -/
theorem cmpEvents_neg {R : Type} [LinearOrderedField R] (a b : event R) :
    cmpEvents a b < 0 ↔ a.Time < b.Time := by
  unfold cmpEvents
  split_ifs with h1 h2
  · simp [h1]
  · simp [h1]
  · simp [h1]

/-- The events of the queue after `putEvent`. -/
theorem mem_putEvent {R : Type} [LinearOrderedField R] (e x : event R) (q : List (event R)) :
    x ∈ putEvent e q ↔ x = e ∨ x ∈ q := by
  induction q with
  | nil => simp [putEvent]
  | cons y q ih =>
    unfold putEvent
    split_ifs with h
    · simp
    · simp only [List.mem_cons, ih]
      tauto

/-- The function `putEvent` keeps the queue sorted by time. -/
theorem putEvent_sorted {R : Type} [LinearOrderedField R] (e : event R) (q : List (event R))
    (h : q.Pairwise (fun a b => a.Time ≤ b.Time)) :
    (putEvent e q).Pairwise (fun a b => a.Time ≤ b.Time) := by
  induction q with
  | nil => simp [putEvent]
  | cons y q ih =>
    unfold putEvent
    rw [List.pairwise_cons] at h
    split_ifs with hc
    · rw [cmpEvents_neg] at hc
      refine List.pairwise_cons.mpr ⟨?_, List.pairwise_cons.mpr h⟩
      intro x hx
      rcases List.mem_cons.mp hx with rfl | hx
      · exact le_of_lt hc
      · exact le_trans (le_of_lt hc) (h.1 x hx)
    · rw [cmpEvents_neg] at hc
      refine List.pairwise_cons.mpr ⟨?_, ih h.2⟩
      intro x hx
      rcases (mem_putEvent e x q).mp hx with rfl | hx
      · exact not_lt.mp hc
      · exact h.1 x hx

/-- The events put by a hook function join the queue, which stays sorted. -/
theorem foldl_putEvent {R : Type} [LinearOrderedField R] (puts : List (event R)) :
    ∀ q : List (event R), q.Pairwise (fun a b => a.Time ≤ b.Time) →
      (puts.foldl (fun q e => putEvent e q) q).Pairwise (fun a b => a.Time ≤ b.Time) ∧
        ∀ x ∈ q, x ∈ puts.foldl (fun q e => putEvent e q) q := by
  induction puts with
  | nil => intro q h; exact ⟨h, fun x hx => hx⟩
  | cons e puts ih =>
    intro q h
    have := ih (putEvent e q) (putEvent_sorted e q h)
    exact ⟨this.1, fun x hx => this.2 x ((mem_putEvent e x q).mpr (Or.inr hx))⟩

/-- The call of the hook function of an event: the record gets the event, the
queue stays sorted and keeps its events, the local variables are untouched. -/
theorem callCmdFunc_spec {R σ : Type} [LinearOrderedField R] [FloorRing R] (ty : neuron_type)
    (Life : R) (hooks : Nat → event R → globals R σ → globals R σ × List (event R))
    (Event : event R) (s : simulation_state R σ)
    (h : s.Events.Pairwise (fun a b => a.Time ≤ b.Time)) :
    (callCmdFunc ty Life hooks Event s).record = s.record ++ [run_entry.handled Event] ∧
      (callCmdFunc ty Life hooks Event s).Events.Pairwise (fun a b => a.Time ≤ b.Time) ∧
      (∀ x ∈ s.Events, x ∈ (callCmdFunc ty Life hooks Event s).Events) ∧
      (callCmdFunc ty Life hooks Event s).ExtSpike = s.ExtSpike ∧
      (callCmdFunc ty Life hooks Event s).Time = s.Time := by
  unfold callCmdFunc
  cases Event.cmdFunc with
  | setPopulationParamFromEvent => exact ⟨rfl, h, fun x hx => hx, rfl, rfl⟩
  | hook k =>
    have := foldl_putEvent (hooks k Event s.G).2 s.Events h
    exact ⟨rfl, this.1, this.2, rfl, rfl⟩

/-- The function `manageEvent` on a sorted queue: it calls the hook functions of
events earlier than `Time`, among them all those that were in the queue, and
leaves in the queue only events that are not earlier than `Time`. -/
theorem manageEvent_spec {R σ : Type} [LinearOrderedField R] [FloorRing R] (ty : neuron_type)
    (Life : R) (hooks : Nat → event R → globals R σ → globals R σ × List (event R))
    (Time : R) :
    ∀ (fuel : Nat) (s s1 : simulation_state R σ),
      s.Events.Pairwise (fun a b => a.Time ≤ b.Time) →
      manageEvent ty Life hooks fuel Time s = some s1 →
      ∃ hs : List (event R), s1.record = s.record ++ hs.map run_entry.handled ∧
        (∀ e ∈ s.Events, e.Time < Time → e ∈ hs) ∧ (∀ e ∈ hs, e.Time < Time) ∧
        (∀ e ∈ s1.Events, Time ≤ e.Time) ∧
        s1.Events.Pairwise (fun a b => a.Time ≤ b.Time) ∧
        s1.ExtSpike = s.ExtSpike ∧ s1.Time = s.Time := by
  intro fuel
  induction fuel with
  | zero =>
    intro s s1 hs h
    unfold manageEvent at h
    cases hE : s.Events with
    | nil =>
      rw [hE] at h
      simp only [Option.some.injEq] at h
      subst h
      exact ⟨[], by simp, by simp [hE], by simp, by simp [hE], hs, rfl, rfl⟩
    | cons Event rest =>
      rw [hE] at h hs
      simp only at h
      split_ifs at h with hc
      simp only [Option.some.injEq] at h
      subst h
      have hall : ∀ e ∈ s.Events, Time ≤ e.Time := by
        intro e he
        rw [hE] at he
        rcases List.mem_cons.mp he with rfl | he
        · exact not_lt.mp hc
        · exact le_trans (not_lt.mp hc) ((List.pairwise_cons.mp hs).1 e he)
      refine ⟨[], by simp, ?_, by simp, hall, by rw [hE]; exact hs, rfl, rfl⟩
      intro e he hlt
      exact absurd hlt (not_lt.mpr (hall e (hE ▸ he)))
  | succ fuel ih =>
    intro s s1 hs h
    unfold manageEvent at h
    cases hE : s.Events with
    | nil =>
      rw [hE] at h
      simp only [Option.some.injEq] at h
      subst h
      exact ⟨[], by simp, by simp [hE], by simp, by simp [hE], hs, rfl, rfl⟩
    | cons Event rest =>
      rw [hE] at h hs
      simp only at h
      split_ifs at h with hc
      · have hrest : ({ s with Events := rest } : simulation_state R σ).Events.Pairwise
            (fun a b => a.Time ≤ b.Time) := (List.pairwise_cons.mp hs).2
        have hcall := callCmdFunc_spec ty Life hooks Event { s with Events := rest } hrest
        obtain ⟨hs1, hrec, hin, hlt, hout, hsorted, hext, htime⟩ := ih _ s1 hcall.2.1 h
        refine ⟨Event :: hs1, ?_, ?_, ?_, hout, hsorted, ?_, ?_⟩
        · rw [hrec, hcall.1]
          simp
        · intro e he hlt2
          rcases List.mem_cons.mp he with rfl | he
          · exact List.mem_cons_self _ _
          · exact List.mem_cons_of_mem _ (hin e (hcall.2.2.1 e he) hlt2)
        · intro e he
          rcases List.mem_cons.mp he with rfl | he
          · exact hc
          · exact hlt e he
        · rw [hext, hcall.2.2.2.1]
        · rw [htime, hcall.2.2.2.2]
      · simp only [Option.some.injEq] at h
        subst h
        have hall : ∀ e ∈ s.Events, Time ≤ e.Time := by
          intro e he
          rw [hE] at he
          rcases List.mem_cons.mp he with rfl | he
          · exact not_lt.mp hc
          · exact le_trans (not_lt.mp hc) ((List.pairwise_cons.mp hs).1 e he)
        refine ⟨[], by simp, ?_, by simp, hall, by rw [hE]; exact hs, rfl, rfl⟩
        intro e he hlt
        exact absurd hlt (not_lt.mpr (hall e (hE ▸ he)))

/-- C9, as the code has it: in an iteration of the main loop that starts with
`Time` (the emission time of the spike dispatched by the iteration before) and a
sorted queue of events, the hook functions called are those of events earlier
than `Time`, among them every event of the queue earlier than `Time`; they are
called before the spike of the iteration is passed to `updateNeuronState`, and
the events left in the queue, which are not earlier than `Time`, wait for a later
iteration.  The spikes passed all carry the new value of `Time`. -/
theorem events_before_previous_spike_run_first {R σ : Type} [LinearOrderedField R]
    [FloorRing R] (D : run_data R σ) (s s1 : simulation_state R σ)
    (hsorted : s.Events.Pairwise (fun a b => a.Time ≤ b.Time))
    (hstep : simulationStep D s = some s1) :
    ∃ (hs : List (event R)) (us : List (Int × spike R)),
      s1.record = s.record ++ hs.map run_entry.handled ++
        us.map (fun u => run_entry.updated u.1 u.2) ∧
      (∀ e ∈ s.Events, e.Time < s.Time → e ∈ hs) ∧ (∀ e ∈ hs, e.Time < s.Time) ∧
      (∀ e ∈ s1.Events, s.Time ≤ e.Time) ∧
      s1.Events.Pairwise (fun a b => a.Time ≤ b.Time) ∧
      (∀ u ∈ us, timexToDouble u.2.Emission = s1.Time) := by
  unfold simulationStep at hstep
  cases hm : manageEvent D.ty D.Life D.hooks D.fuel s.Time s with
  | none => rw [hm] at hstep; exact Option.noConfusion hstep
  | some s2 =>
    rw [hm] at hstep
    simp only at hstep
    obtain ⟨hs, hrec, hin, hlt, hout, hsort, _, _⟩ :=
      manageEvent_spec D.ty D.Life D.hooks s.Time D.fuel s s2 hsorted hm
    split_ifs at hstep with hl
    · simp only [Option.some.injEq] at hstep
      subst hstep
      refine ⟨hs, [((s2.ExtSpike.Neuron : Int), s2.ExtSpike)], ?_, hin, hlt, hout, hsort, ?_⟩
      · simp [externalSpikeStep, hrec]
      · intro u hu
        rw [List.mem_singleton] at hu
        subst hu
        rfl
    · unfold internalSpikeStep at hstep
      simp only at hstep
      split at hstep
      · exact Option.noConfusion hstep
      · rename_i calls fin hseg
        simp only [Option.some.injEq] at hstep
        subst hstep
        refine ⟨hs, calls.map (fun c => (c.1, (s2.G.P.SynapticMatrix.getD
          (whereIsOldestSpike s2.G.P.OldestLayer s2.G.P.SynapticMatrix s2.ExtSpike).toNat
          blankLayer).Spike)), ?_, hin, hlt, hout, hsort, ?_⟩
        · simp [hrec, List.map_map, Function.comp]
        · intro u hu
          obtain ⟨c, _, rfl⟩ := List.mem_map.mp hu
          rfl

/-- C9, an instance: at 10 ms, with an event of 5 ms and one of 10 ms in the
queue. -/
theorem events_before_previous_spike_run_first_witness :
    ∃ s1 : simulation_state ℚ Nat, simulationStep oneNeuronRun stateAfterTen = some s1 ∧
      ∃ (hs : List (event ℚ)) (us : List (Int × spike ℚ)),
        s1.record = stateAfterTen.record ++ hs.map run_entry.handled ++
          us.map (fun u => run_entry.updated u.1 u.2) ∧
        (∀ e ∈ stateAfterTen.Events, e.Time < stateAfterTen.Time → e ∈ hs) ∧
        (∀ e ∈ hs, e.Time < stateAfterTen.Time) ∧
        (∀ e ∈ s1.Events, stateAfterTen.Time ≤ e.Time) ∧
        s1.Events.Pairwise (fun a b => a.Time ≤ b.Time) ∧
        (∀ u ∈ us, timexToDouble u.2.Emission = s1.Time) := by
  obtain ⟨s1, h⟩ := Option.isSome_iff_exists.mp
    (show (simulationStep oneNeuronRun stateAfterTen).isSome = true by decide!)
  exact ⟨s1, h, events_before_previous_spike_run_first oneNeuronRun stateAfterTen s1
    (by norm_num [stateAfterTen, plainEvent]) h⟩

/-- C9, a run against the claim: one neuron receives external spikes at 0, 10, 20
and 30 ms and an event is due at 5 ms.  The spike of 10 ms is passed to
`updateNeuronState` before the hook function of the event is called: the event is
handled in the third iteration, which starts with `Time = 10`. -/
theorem event_handled_after_later_spike :
    (simulation oneNeuronRun 4 oneNeuronGlobals [plainEvent] ⟨⟨0, 0⟩, 0, 0⟩).map
        (fun s => recordTimes s.record)
      = some [(false, 0), (false, 10), (true, 5), (false, 20), (false, 30)] := by
  decide!

/-- C1, the code at a failing input: one neuron receives external spikes at
100 Hz, every waiting time drawn being 10 ms, and the command `SET_PARAM 5 0 4 100`
sets the rate again at 5 ms.  The event is handled when `Time` is 10, with the
spike of 20 ms already in `ExtSpike`; `setPopulationParam` puts the next emission
of the population at `Event->Time + 10 = 15`, and the spikes passed to
`updateNeuronState` are emitted at 0, 10, 20 and 15 ms. -/
theorem set_param_reorders_dispatch :
    (simulation oneNeuronRun 4 oneNeuronGlobals [setRateEvent] ⟨⟨0, 0⟩, 0, 0⟩).map
        (fun s => dispatchTimes s.record)
      = some [0, 10, 20, 15] := by
  decide!

/-! ## synapses.c : the update of the plastic synapses -/

/-- The clipping of the source at the upper barrier is a minimum. -/
theorem clip_up_eq_min {R : Type} [LinearOrderedField R] (v b : R) :
    (if v > b then b else v) = min v b := by
  by_cases h : v > b
  · rw [if_pos h, min_eq_right (le_of_lt h)]
  · rw [if_neg h, min_eq_left (not_lt.mp h)]

/-- The clipping of the source at the lower barrier is a maximum. -/
theorem clip_down_eq_max {R : Type} [LinearOrderedField R] (v b : R) :
    (if v < b then b else v) = max v b := by
  by_cases h : v < b
  · rw [if_pos h, max_eq_right (le_of_lt h)]
  · rw [if_neg h, max_eq_left (not_lt.mp h)]

/-- C23: `updateSynapseState_AF` does the four steps of the specification, the
post-synaptic neuron being active when its membrane potential is above `ThetaV`:
it stores the new `VJ`, leaves `J0ndx` and `J1ndx` as they are and returns
`JTab[1][J1ndx]` when the new `VJ` is above `ThetaJ` and `JTab[0][J0ndx]`
otherwise; `updateSynapseState_TWAM` does the same steps, the post-synaptic neuron
being active when the time from its last emission `Te` to the spike is below
`PotWindow`. -/
theorem plastic_synapse_update_steps {R : Type} [LinearOrderedField R]
    (spar : synapse_params_AF R) (tpar : synapse_params_TWAM R) (JTab : Nat → Nat → R)
    (V : R) (Te : timex R) (ss : synapse_AF R) (sp : spike R) :
    (updateSynapseState_AF spar JTab V ss sp).1.VJ
        = (plasticUpdateSpec spar.AlphaJ spar.BetaJ spar.ThetaJ spar.JumpUp spar.JumpDown
            spar.RBup spar.RBdown (decide (V > spar.ThetaV)) ss.VJ sp.ISI).1 ∧
      (updateSynapseState_AF spar JTab V ss sp).1.J0ndx = ss.J0ndx ∧
      (updateSynapseState_AF spar JTab V ss sp).1.J1ndx = ss.J1ndx ∧
      (updateSynapseState_AF spar JTab V ss sp).2
        = (if (plasticUpdateSpec spar.AlphaJ spar.BetaJ spar.ThetaJ spar.JumpUp spar.JumpDown
            spar.RBup spar.RBdown (decide (V > spar.ThetaV)) ss.VJ sp.ISI).2 = true
          then JTab 1 ss.J1ndx else JTab 0 ss.J0ndx) ∧
      (updateSynapseState_TWAM tpar JTab Te ss sp).1.VJ
        = (plasticUpdateSpec tpar.AlphaJ tpar.BetaJ tpar.ThetaJ tpar.JumpUp tpar.JumpDown
            tpar.RBup tpar.RBdown
            (decide (timexToDouble sp.Emission - timexToDouble Te < tpar.PotWindow))
            ss.VJ sp.ISI).1 ∧
      (updateSynapseState_TWAM tpar JTab Te ss sp).1.J0ndx = ss.J0ndx ∧
      (updateSynapseState_TWAM tpar JTab Te ss sp).1.J1ndx = ss.J1ndx ∧
      (updateSynapseState_TWAM tpar JTab Te ss sp).2
        = (if (plasticUpdateSpec tpar.AlphaJ tpar.BetaJ tpar.ThetaJ tpar.JumpUp tpar.JumpDown
            tpar.RBup tpar.RBdown
            (decide (timexToDouble sp.Emission - timexToDouble Te < tpar.PotWindow))
            ss.VJ sp.ISI).2 = true
          then JTab 1 ss.J1ndx else JTab 0 ss.J0ndx) := by
  have hAF : (updateSynapseState_AF spar JTab V ss sp).1.VJ
      = (plasticUpdateSpec spar.AlphaJ spar.BetaJ spar.ThetaJ spar.JumpUp spar.JumpDown
          spar.RBup spar.RBdown (decide (V > spar.ThetaV)) ss.VJ sp.ISI).1 := by
    simp only [updateSynapseState_AF, plasticUpdateSpec, clip_up_eq_min, clip_down_eq_max,
      decide_eq_true_eq]
  have hTW : (updateSynapseState_TWAM tpar JTab Te ss sp).1.VJ
      = (plasticUpdateSpec tpar.AlphaJ tpar.BetaJ tpar.ThetaJ tpar.JumpUp tpar.JumpDown
          tpar.RBup tpar.RBdown
          (decide (timexToDouble sp.Emission - timexToDouble Te < tpar.PotWindow))
          ss.VJ sp.ISI).1 := by
    simp only [updateSynapseState_TWAM, plasticUpdateSpec, clip_up_eq_min, clip_down_eq_max,
      decide_eq_true_eq, diffTimex_eq]
  refine ⟨hAF, rfl, rfl, ?_, hTW, rfl, rfl, ?_⟩
  · have h2 : (plasticUpdateSpec spar.AlphaJ spar.BetaJ spar.ThetaJ spar.JumpUp spar.JumpDown
          spar.RBup spar.RBdown (decide (V > spar.ThetaV)) ss.VJ sp.ISI).2
        = decide ((updateSynapseState_AF spar JTab V ss sp).1.VJ > spar.ThetaJ) := by
      rw [hAF]; rfl
    rw [h2]
    simp only [decide_eq_true_eq]
    rfl
  · have h2 : (plasticUpdateSpec tpar.AlphaJ tpar.BetaJ tpar.ThetaJ tpar.JumpUp tpar.JumpDown
          tpar.RBup tpar.RBdown
          (decide (timexToDouble sp.Emission - timexToDouble Te < tpar.PotWindow))
          ss.VJ sp.ISI).2
        = decide ((updateSynapseState_TWAM tpar JTab Te ss sp).1.VJ > tpar.ThetaJ) := by
      rw [hTW]; rfl
    rw [h2]
    simp only [decide_eq_true_eq]
    rfl

/-- A step of the hidden variable, up by `d` or down by `e`, clipped at the barrier
on the side of the step, stays between the barriers. -/
theorem clip_step_bounds {R : Type} [LinearOrderedField R] (lo hi v d e : R) (c : Prop)
    [Decidable c] (hlo : lo ≤ v) (hhi : v ≤ hi) (hd : 0 ≤ d) (he : 0 ≤ e) :
    lo ≤ (if c then (if v + d > hi then hi else v + d) else (if v - e < lo then lo else v - e)) ∧
    (if c then (if v + d > hi then hi else v + d) else (if v - e < lo then lo else v - e)) ≤ hi := by
  split_ifs <;> constructor <;> linarith

/-- C24, a run against the claim: the parameters `negativeJumpParams`, with a jump
up of -1, are accepted by `parseSynapseParams_AF`, and they are also what
`setConnectivityParam` leaves when it writes -1 in parameter 13 of an accepted
set; a synapse with `VJ = 0`, on the lower barrier, that transmits a spike to a
neuron whose potential 1 is above `ThetaV = 0` ends with `VJ = -1`, below the
barrier. -/
theorem negative_jump_crosses_barrier :
    parseSynapseParams_AF negativeJumpParams = 0 ∧
    parseSynapseParams_AF plainJumpParams = 0 ∧
    setConnectivityParam 1 (fun _ _ => some plainJumpParams) 0 0 13 (-1)
      = some negativeJumpParams ∧
    (asParamsAF negativeJumpParams).RBdown = 0 ∧ (asParamsAF negativeJumpParams).RBup = 1 ∧
    (0 : ℚ) ≤ spikeAfterOne.ISI ∧
    (updateSynapseState_AF (asParamsAF negativeJumpParams) (fun _ _ => 0) 1 ⟨0, 0, 0⟩
      spikeAfterOne).1.VJ = -1 := by
  decide!

/-- C24, amended: for an AF or TWAM synapse with `RBdown ≤ VJ ≤ RBup`, parameters
whose drifts `AlphaJ`, `BetaJ` and jumps `JumpUp`, `JumpDown` are not negative,
and a spike with `ISI ≥ 0`, the hidden variable still satisfies
`RBdown ≤ VJ ≤ RBup` after `updateSynapseState_AF` and after
`updateSynapseState_TWAM`. -/
theorem plastic_synapse_stays_within_barriers {R : Type} [LinearOrderedField R]
    (p : List R) (JTab : Nat → Nat → R) (V : R) (Te : timex R) (ss : synapse_AF R) (sp : spike R)
    (hdown : (asParamsAF p).RBdown ≤ ss.VJ) (hup : ss.VJ ≤ (asParamsAF p).RBup)
    (hA : 0 ≤ (asParamsAF p).AlphaJ) (hB : 0 ≤ (asParamsAF p).BetaJ)
    (hJU : 0 ≤ (asParamsAF p).JumpUp) (hJD : 0 ≤ (asParamsAF p).JumpDown)
    (hISI : 0 ≤ sp.ISI) :
    (asParamsAF p).RBdown ≤ (updateSynapseState_AF (asParamsAF p) JTab V ss sp).1.VJ ∧
    (updateSynapseState_AF (asParamsAF p) JTab V ss sp).1.VJ ≤ (asParamsAF p).RBup ∧
    (asParamsTWAM p).RBdown ≤ (updateSynapseState_TWAM (asParamsTWAM p) JTab Te ss sp).1.VJ ∧
    (updateSynapseState_TWAM (asParamsTWAM p) JTab Te ss sp).1.VJ ≤ (asParamsTWAM p).RBup := by
  have hdu : (asParamsAF p).RBdown ≤ (asParamsAF p).RBup := le_trans hdown hup
  have hBI : 0 ≤ (asParamsAF p).BetaJ * sp.ISI := mul_nonneg hB hISI
  have hAI : 0 ≤ (asParamsAF p).AlphaJ * sp.ISI := mul_nonneg hA hISI
  have h1 := clip_step_bounds (asParamsAF p).RBdown (asParamsAF p).RBup ss.VJ
    ((asParamsAF p).BetaJ * sp.ISI) ((asParamsAF p).AlphaJ * sp.ISI)
    (ss.VJ > (asParamsAF p).ThetaJ) hdown hup hBI hAI
  have h2 := clip_step_bounds (asParamsAF p).RBdown (asParamsAF p).RBup _
    (asParamsAF p).JumpUp (asParamsAF p).JumpDown (V > (asParamsAF p).ThetaV) h1.1 h1.2 hJU hJD
  have h3 := clip_step_bounds (asParamsAF p).RBdown (asParamsAF p).RBup _
    (asParamsAF p).JumpUp (asParamsAF p).JumpDown
    (diffTimex sp.Emission Te < (asParamsTWAM p).PotWindow) h1.1 h1.2 hJU hJD
  exact ⟨h2.1, h2.2, h3.1, h3.2⟩

/-- C24, an instance of the amended property: a synapse on the lower barrier, with
jumps of 1/4, transmits a spike to an active neuron. -/
theorem plastic_synapse_stays_within_barriers_witness :
    (asParamsAF plainJumpParams).RBdown
      ≤ (updateSynapseState_AF (asParamsAF plainJumpParams) (fun _ _ => 0) 1 ⟨0, 0, 0⟩
          spikeAfterOne).1.VJ ∧
    (updateSynapseState_AF (asParamsAF plainJumpParams) (fun _ _ => 0) 1 ⟨0, 0, 0⟩
        spikeAfterOne).1.VJ ≤ (asParamsAF plainJumpParams).RBup :=
  ⟨(plastic_synapse_stays_within_barriers plainJumpParams (fun _ _ => 0) 1 ⟨0, 0⟩ ⟨0, 0, 0⟩
      spikeAfterOne (by decide!) (by decide!) (by decide!) (by decide!) (by decide!)
      (by decide!) (by decide!)).1,
   (plastic_synapse_stays_within_barriers plainJumpParams (fun _ _ => 0) 1 ⟨0, 0⟩ ⟨0, 0, 0⟩
      spikeAfterOne (by decide!) (by decide!) (by decide!) (by decide!) (by decide!)
      (by decide!) (by decide!)).2.1⟩

/-! ## neurons.c : the leakage of the LIF and LIFCA neurons -/

/-- The function `updateNeuronState_LIFCA` outside the refractory period, in terms
of the interval `d.2` over which the potential is integrated and of the calcium
`d.1` at the start of that interval. -/
theorem updateNeuronState_LIFCA_active {R σ : Type} [LinearOrderedField R] (exp : R → R)
    (P : neuron_params R) (DelayMin : R) (getJ : neuron R → σ → σ × R)
    (Post : Nat) (Sp : spike R) (nr : neuron R) (s : σ)
    (hc : diffTimex Sp.Emission nr.Te > P.Tarp) (d : R × R) (V1 C1 : R)
    (hd : d = if diffTimex nr.Tr nr.Te < P.Tarp then
        (nr.C * exp (-(diffTimex Sp.Emission nr.Tr - diffTimex Sp.Emission nr.Te + P.Tarp)
            / P.TauC), diffTimex Sp.Emission nr.Te - P.Tarp)
      else (nr.C, diffTimex Sp.Emission nr.Tr))
    (hV : V1 = nr.V * exp (-d.2 / P.Tau)
      - P.gC * (P.TauC * P.Tau) / (P.TauC - P.Tau) * d.1 * (exp (-d.2 / P.TauC) - exp (-d.2 / P.Tau)))
    (hC : C1 = d.1 * exp (-d.2 / P.TauC)) :
    updateNeuronState_LIFCA exp P DelayMin getJ Post Sp nr s
      = if V1 + (getJ { nr with V := V1, C := C1 } s).2 ≥ P.Theta then
          ({ Tr := Sp.Emission, Te := Sp.Emission, V := P.H, C := C1 + P.AlphaC },
            (getJ { nr with V := V1, C := C1 } s).1,
            some { Emission := timexAdd Sp.Emission DelayMin, Neuron := Post,
                   ISI := diffTimex Sp.Emission nr.Te })
        else ({ Tr := Sp.Emission, Te := nr.Te,
                V := V1 + (getJ { nr with V := V1, C := C1 } s).2, C := C1 },
              (getJ { nr with V := V1, C := C1 } s).1, none) := by
  subst hV hC hd
  unfold updateNeuronState_LIFCA
  simp only [if_pos hc]

/-- C26: for `updateNeuronState_LIFCA` with `TauC ≠ Tau`, `exp` being
multiplicative with `exp 0 = 1`.  When `t - Te > Tarp`, the synapse (or the
external draw) sees the neuron with the calcium `C·exp(-(t - Tr)/TauC)` and with
the potential given by the closed form of the specification over
`Δ = t - max(Tr, Te + Tarp)`, from the old `V` and from the calcium at time
`max(Tr, Te + Tarp)`; the efficacy `J` is added to that potential, and if the sum
reaches `Theta` the neuron emits: `V` becomes `H` and `C` is increased by `AlphaC`.
When `t - Te ≤ Tarp`, `V` is left as it is, no spike is emitted and `C` is
multiplied by `exp(-(t - Tr)/TauC)`. -/
theorem lifca_closed_form {R σ : Type} [LinearOrderedField R] (exp : R → R)
    (P : neuron_params R) (DelayMin : R) (getJ : neuron R → σ → σ × R)
    (Post : Nat) (Sp : spike R) (nr : neuron R) (s : σ)
    (hexp : ∀ a b, exp (a + b) = exp a * exp b) (hexp0 : exp 0 = 1) (hT : P.TauC ≠ P.Tau) :
    (timexToDouble Sp.Emission - timexToDouble nr.Te > P.Tarp →
      ∃ nr1 : neuron R,
        nr1.C = nr.C * exp (-(timexToDouble Sp.Emission - timexToDouble nr.Tr) / P.TauC) ∧
        nr1.V = lifcaClosedForm exp P.Tau P.TauC P.gC
          (timexToDouble Sp.Emission - max (timexToDouble nr.Tr) (timexToDouble nr.Te + P.Tarp))
          nr.V
          (nr.C * exp (-(max (timexToDouble nr.Tr) (timexToDouble nr.Te + P.Tarp)
            - timexToDouble nr.Tr) / P.TauC)) ∧
        (updateNeuronState_LIFCA exp P DelayMin getJ Post Sp nr s).2.1 = (getJ nr1 s).1 ∧
        (nr1.V + (getJ nr1 s).2 ≥ P.Theta →
          (updateNeuronState_LIFCA exp P DelayMin getJ Post Sp nr s).1.V = P.H ∧
          (updateNeuronState_LIFCA exp P DelayMin getJ Post Sp nr s).1.C = nr1.C + P.AlphaC ∧
          (updateNeuronState_LIFCA exp P DelayMin getJ Post Sp nr s).2.2.isSome = true) ∧
        (nr1.V + (getJ nr1 s).2 < P.Theta →
          (updateNeuronState_LIFCA exp P DelayMin getJ Post Sp nr s).1.V
            = nr1.V + (getJ nr1 s).2 ∧
          (updateNeuronState_LIFCA exp P DelayMin getJ Post Sp nr s).1.C = nr1.C ∧
          (updateNeuronState_LIFCA exp P DelayMin getJ Post Sp nr s).2.2 = none)) ∧
    (timexToDouble Sp.Emission - timexToDouble nr.Te ≤ P.Tarp →
      (updateNeuronState_LIFCA exp P DelayMin getJ Post Sp nr s).1.V = nr.V ∧
      (updateNeuronState_LIFCA exp P DelayMin getJ Post Sp nr s).1.Te = nr.Te ∧
      (updateNeuronState_LIFCA exp P DelayMin getJ Post Sp nr s).1.C
        = nr.C * exp (-(timexToDouble Sp.Emission - timexToDouble nr.Tr) / P.TauC) ∧
      (updateNeuronState_LIFCA exp P DelayMin getJ Post Sp nr s).2.2 = none) := by
  have _ := hT
  constructor
  · intro h
    have hc : diffTimex Sp.Emission nr.Te > P.Tarp := by rw [diffTimex_eq]; exact h
    obtain ⟨d, hd⟩ : ∃ d : R × R, d = if diffTimex nr.Tr nr.Te < P.Tarp then
        (nr.C * exp (-(diffTimex Sp.Emission nr.Tr - diffTimex Sp.Emission nr.Te + P.Tarp)
            / P.TauC), diffTimex Sp.Emission nr.Te - P.Tarp)
      else (nr.C, diffTimex Sp.Emission nr.Tr) := ⟨_, rfl⟩
    have hrun := updateNeuronState_LIFCA_active exp P DelayMin getJ Post Sp nr s hc d _ _ hd
      rfl rfl
    -- the interval and the calcium at its start
    have hd2 : d.2 = timexToDouble Sp.Emission
        - max (timexToDouble nr.Tr) (timexToDouble nr.Te + P.Tarp) := by
      by_cases hlast : diffTimex nr.Tr nr.Te < P.Tarp
      · rw [hd, if_pos hlast]
        rw [diffTimex_eq] at hlast
        rw [max_eq_right (by linarith)]
        simp only [diffTimex_eq]
        ring
      · rw [hd, if_neg hlast]
        rw [diffTimex_eq] at hlast
        rw [max_eq_left (by linarith)]
        simp only [diffTimex_eq]
    have hd1 : d.1 = nr.C * exp (-(max (timexToDouble nr.Tr) (timexToDouble nr.Te + P.Tarp)
        - timexToDouble nr.Tr) / P.TauC) := by
      by_cases hlast : diffTimex nr.Tr nr.Te < P.Tarp
      · rw [hd, if_pos hlast]
        rw [diffTimex_eq] at hlast
        rw [max_eq_right (by linarith)]
        simp only [diffTimex_eq]
        congr 2
        ring
      · rw [hd, if_neg hlast]
        rw [diffTimex_eq] at hlast
        rw [max_eq_left (by linarith), sub_self, neg_zero, zero_div, hexp0, mul_one]
    refine ⟨{ nr with
        V := nr.V * exp (-d.2 / P.Tau) - P.gC * (P.TauC * P.Tau) / (P.TauC - P.Tau) * d.1
          * (exp (-d.2 / P.TauC) - exp (-d.2 / P.Tau)),
        C := d.1 * exp (-d.2 / P.TauC) }, ?_, ?_, ?_, ?_, ?_⟩
    · show d.1 * exp (-d.2 / P.TauC) = _
      rw [hd1, hd2, mul_assoc, ← hexp]
      congr 2
      ring
    · show nr.V * exp (-d.2 / P.Tau) - P.gC * (P.TauC * P.Tau) / (P.TauC - P.Tau) * d.1
          * (exp (-d.2 / P.TauC) - exp (-d.2 / P.Tau)) = _
      rw [hd1, hd2]
      unfold lifcaClosedForm
      rw [mul_div_assoc]
    · rw [hrun]
      split_ifs <;> rfl
    · intro hth
      rw [hrun, if_pos hth]
      exact ⟨rfl, rfl, rfl⟩
    · intro hth
      rw [hrun, if_neg (not_le.mpr hth)]
      exact ⟨rfl, rfl, rfl⟩
  · intro h
    have hc : ¬ diffTimex Sp.Emission nr.Te > P.Tarp := by
      rw [diffTimex_eq]; exact not_lt.mpr h
    unfold updateNeuronState_LIFCA
    simp only [if_neg hc]
    rw [diffTimex_eq]
    exact ⟨trivial, trivial, rfl, trivial⟩

/-- C26, an instance with the exponential of the real numbers: a neuron that
emitted at 1 ms and was last updated at 3 ms, with `Tarp = 2`, `Tau = 1` and
`TauC = 2`, receives a spike at 9 ms. -/
theorem lifca_closed_form_witness :
    (∀ a b : ℝ, Real.exp (a + b) = Real.exp a * Real.exp b) ∧ Real.exp 0 = 1 ∧
    ∃ nr1 : neuron ℝ,
      nr1.C = 2 * Real.exp (-(timexToDouble (⟨9, 0⟩ : timex ℝ) - timexToDouble (⟨3, 0⟩ : timex ℝ))
        / 2) ∧
      (updateNeuronState_LIFCA Real.exp
        { Tau := 1, Beta := 1, Theta := 20, H := 5, Tarp := 2, AlphaC := 1, TauC := 2, gC := 1 }
        1 (fun _ (s : Nat) => (s + 1, 1)) 0 ⟨⟨9, 0⟩, 0, 0⟩ ⟨⟨3, 0⟩, ⟨1, 0⟩, 15, 2⟩ 0).2.1 = 1 := by
  obtain ⟨nr1, h1, _, h3, _⟩ := (lifca_closed_form Real.exp
    { Tau := 1, Beta := 1, Theta := 20, H := 5, Tarp := 2, AlphaC := 1, TauC := 2, gC := 1 }
    1 (fun _ (s : Nat) => (s + 1, 1)) 0 ⟨⟨9, 0⟩, 0, 0⟩ ⟨⟨3, 0⟩, ⟨1, 0⟩, 15, 2⟩ 0
    Real.exp_add Real.exp_zero (by norm_num)).1 (by norm_num [timexToDouble])
  exact ⟨Real.exp_add, Real.exp_zero, nr1, h1, h3⟩

/-- The function `updateNeuronState_LIF` outside the refractory period, in terms of
the potential `V1` after the leakage. -/
theorem updateNeuronState_LIF_active {R σ : Type} [LinearOrderedField R] (exp : R → R)
    (P : neuron_params R) (DelayMin : R) (getJ : neuron R → σ → σ × R)
    (Post : Nat) (Sp : spike R) (nr : neuron R) (s : σ)
    (hc : diffTimex Sp.Emission nr.Te > P.Tarp) (V1 : R)
    (hV : V1 = if -(diffTimex nr.Tr Sp.Emission / P.Tau) < 17 / 100 then
        nr.V * (1 + diffTimex nr.Tr Sp.Emission / P.Tau
          * (1 + 1 / 2 * (diffTimex nr.Tr Sp.Emission / P.Tau)))
      else nr.V * exp (diffTimex nr.Tr Sp.Emission / P.Tau)) :
    updateNeuronState_LIF exp P DelayMin getJ Post Sp nr s
      = if V1 + (getJ { nr with V := V1 } s).2 ≥ P.Theta then
          ({ Tr := timexAdd Sp.Emission P.Tarp, Te := Sp.Emission, V := P.H, C := nr.C },
            (getJ { nr with V := V1 } s).1,
            some { Emission := timexAdd Sp.Emission DelayMin, Neuron := Post,
                   ISI := diffTimex Sp.Emission nr.Te })
        else ({ nr with V := V1 + (getJ { nr with V := V1 } s).2, Tr := Sp.Emission },
              (getJ { nr with V := V1 } s).1, none) := by
  subst hV
  unfold updateNeuronState_LIF
  simp only [if_pos hc]

/-- The second-order expansion that the LIF kernel uses for short intervals is
within `x^3 * (2/9)` of the exponential. -/
theorem exp_neg_taylor_bound (x : ℝ) (h0 : 0 ≤ x) (h1 : x ≤ 1) :
    |Real.exp (-x) - (1 - x + x ^ 2 / 2)| ≤ x ^ 3 * (2 / 9) := by
  have h := Real.exp_bound (x := -x) (by rw [abs_neg, abs_of_nonneg h0]; exact h1) (n := 3)
    (by norm_num)
  simp only [Finset.sum_range_succ, Finset.sum_range_zero, Nat.factorial, abs_neg,
    abs_of_nonneg h0] at h
  norm_num at h
  have e : Real.exp (-x) - (1 - x + x ^ 2 / 2) = Real.exp (-x) - (1 + -x + x ^ 2 / 2) := by ring
  rw [e]
  refine h.trans (le_of_eq ?_)
  ring

/-- C25, a run against the claim, with the exponential of the real numbers: a LIF
neuron with `Tau = 1` and potential 1, last updated at time 0, receives a spike at
0.1 ms, outside its refractory period.  The potential that the synapse sees, to
which `J` is added, is `1 - 0.1 + 0.005 = 0.905`, and so is the potential given by
`getNeuronState_LIF`, while `exp(-0.1)` is smaller. -/
theorem lif_short_interval_not_exponential :
    (updateNeuronState_LIF Real.exp
      { Tau := 1, Beta := 0, Theta := 20, H := 0, Tarp := 2, AlphaC := 0, TauC := 1, gC := 0 }
      1 (fun n (_ : ℝ) => (n.V, 0)) 0 ⟨⟨0, 1 / 10⟩, 0, 0⟩ ⟨⟨0, 0⟩, ⟨-100, 0⟩, 1, 0⟩ 0).2.1
      = 181 / 200 ∧
    getNeuronState_LIF Real.exp
      { Tau := 1, Beta := 0, Theta := 20, H := 0, Tarp := 2, AlphaC := 0, TauC := 1, gC := 0 }
      ⟨0, 1 / 10⟩ ⟨⟨0, 0⟩, ⟨-100, 0⟩, 1, 0⟩ = [181 / 200] ∧
    (1 : ℝ) * Real.exp (-(timexToDouble (⟨0, 1 / 10⟩ : timex ℝ)
      - timexToDouble (⟨0, 0⟩ : timex ℝ)) / 1) < 181 / 200 := by
  refine ⟨?_, ?_, ?_⟩
  · rw [updateNeuronState_LIF_active Real.exp _ _ _ _ _ _ _ (by norm_num [diffTimex]) _ rfl]
    norm_num [diffTimex]
  · norm_num [getNeuronState_LIF, diffTimex]
  · have h := Real.quadratic_le_exp_of_nonneg (x := (1 / 10 : ℝ)) (by norm_num)
    have e : -(timexToDouble (⟨0, 1 / 10⟩ : timex ℝ) - timexToDouble (⟨0, 0⟩ : timex ℝ)) / 1
        = -(1 / 10 : ℝ) := by norm_num [timexToDouble]
    rw [e, one_mul, Real.exp_neg]
    have hpos : (0 : ℝ) < Real.exp (1 / 10) := Real.exp_pos _
    rw [inv_lt_comm₀ hpos (by norm_num)]
    norm_num at h ⊢
    linarith

/-- C25, amended, with the exponential of the real numbers: outside the refractory
period, for an interval `t - Tr ≥ 0` and `x = (t - Tr)/Tau`, the potential that
`updateNeuronState_LIF` passes to the synapse and to which it adds `J`, which is
also the potential given by `getNeuronState_LIF`, is `V·exp(-x)` when
`x ≥ 0.17` and the expansion `V·(1 - x + x²/2)` when `x < 0.17`; it differs from
`V·exp(-x)` by at most `|V|·x³·2/9`. -/
theorem lif_leak_exponential_or_expansion {σ : Type} (P : neuron_params ℝ) (DelayMin : ℝ)
    (getJ : neuron ℝ → σ → σ × ℝ) (Post : Nat) (Sp : spike ℝ) (nr : neuron ℝ) (s : σ)
    (h : timexToDouble Sp.Emission - timexToDouble nr.Te > P.Tarp)
    (hx : 0 ≤ (timexToDouble Sp.Emission - timexToDouble nr.Tr) / P.Tau) :
    ∃ nr1 : neuron ℝ,
      (17 / 100 ≤ (timexToDouble Sp.Emission - timexToDouble nr.Tr) / P.Tau →
        nr1.V = nr.V * Real.exp (-((timexToDouble Sp.Emission - timexToDouble nr.Tr) / P.Tau))) ∧
      ((timexToDouble Sp.Emission - timexToDouble nr.Tr) / P.Tau < 17 / 100 →
        nr1.V = nr.V * (1 - (timexToDouble Sp.Emission - timexToDouble nr.Tr) / P.Tau
          + ((timexToDouble Sp.Emission - timexToDouble nr.Tr) / P.Tau) ^ 2 / 2)) ∧
      |nr1.V - nr.V * Real.exp (-((timexToDouble Sp.Emission - timexToDouble nr.Tr) / P.Tau))|
        ≤ |nr.V| * (((timexToDouble Sp.Emission - timexToDouble nr.Tr) / P.Tau) ^ 3 * (2 / 9)) ∧
      (updateNeuronState_LIF Real.exp P DelayMin getJ Post Sp nr s).2.1 = (getJ nr1 s).1 ∧
      (nr1.V + (getJ nr1 s).2 < P.Theta →
        (updateNeuronState_LIF Real.exp P DelayMin getJ Post Sp nr s).1.V
          = nr1.V + (getJ nr1 s).2) ∧
      (nr1.V + (getJ nr1 s).2 ≥ P.Theta →
        (updateNeuronState_LIF Real.exp P DelayMin getJ Post Sp nr s).1.V = P.H) ∧
      getNeuronState_LIF Real.exp P Sp.Emission nr = [nr1.V] := by
  have hc : diffTimex Sp.Emission nr.Te > P.Tarp := by rw [diffTimex_eq]; exact h
  obtain ⟨x, hxdef⟩ : ∃ x : ℝ, x = (timexToDouble Sp.Emission - timexToDouble nr.Tr) / P.Tau :=
    ⟨_, rfl⟩
  rw [← hxdef] at hx ⊢
  have hr : diffTimex nr.Tr Sp.Emission / P.Tau = -x := by
    rw [diffTimex_eq, hxdef]; ring
  obtain ⟨V1, hV1⟩ : ∃ V1 : ℝ, V1 = if -(diffTimex nr.Tr Sp.Emission / P.Tau) < 17 / 100 then
        nr.V * (1 + diffTimex nr.Tr Sp.Emission / P.Tau
          * (1 + 1 / 2 * (diffTimex nr.Tr Sp.Emission / P.Tau)))
      else nr.V * Real.exp (diffTimex nr.Tr Sp.Emission / P.Tau) := ⟨_, rfl⟩
  have hrun := updateNeuronState_LIF_active Real.exp P DelayMin getJ Post Sp nr s hc V1 hV1
  have hV1x : V1 = if x < 17 / 100 then nr.V * (1 - x + x ^ 2 / 2) else nr.V * Real.exp (-x) := by
    rw [hV1, hr, neg_neg]
    by_cases hs : x < 17 / 100
    · rw [if_pos hs, if_pos hs]; ring
    · rw [if_neg hs, if_neg hs]
  refine ⟨{ nr with V := V1 }, ?_, ?_, ?_, ?_, ?_, ?_, ?_⟩
  · intro hs
    show V1 = _
    rw [hV1x, if_neg (not_lt.mpr hs)]
  · intro hs
    show V1 = _
    rw [hV1x, if_pos hs]
  · show |V1 - _| ≤ _
    by_cases hs : x < 17 / 100
    · rw [hV1x, if_pos hs]
      have hb := exp_neg_taylor_bound x hx (by linarith)
      have e : nr.V * (1 - x + x ^ 2 / 2) - nr.V * Real.exp (-x)
          = nr.V * -(Real.exp (-x) - (1 - x + x ^ 2 / 2)) := by ring
      rw [e, abs_mul, abs_neg]
      exact mul_le_mul_of_nonneg_left hb (abs_nonneg _)
    · rw [hV1x, if_neg hs, sub_self, abs_zero]
      exact mul_nonneg (abs_nonneg _) (mul_nonneg (pow_nonneg hx 3) (by norm_num))
  · rw [hrun]
    split_ifs <;> rfl
  · intro hth
    rw [hrun, if_neg (not_le.mpr hth)]
  · intro hth
    rw [hrun, if_pos hth]
  · unfold getNeuronState_LIF
    rw [if_pos hc]
    simp only []
    rw [hV1]
    split_ifs <;> rfl

/-- C25, an instance of the amended property: a LIF neuron with `Tau = 1` and
potential 1, last updated at time 0, receives a spike at 0.1 ms. -/
theorem lif_leak_exponential_or_expansion_witness :
    ∃ nr1 : neuron ℝ,
      |nr1.V - 1 * Real.exp (-((timexToDouble (⟨0, 1 / 10⟩ : timex ℝ)
          - timexToDouble (⟨0, 0⟩ : timex ℝ)) / 1))|
        ≤ |(1 : ℝ)| * (((timexToDouble (⟨0, 1 / 10⟩ : timex ℝ)
          - timexToDouble (⟨0, 0⟩ : timex ℝ)) / 1) ^ 3 * (2 / 9)) ∧
      getNeuronState_LIF Real.exp
        { Tau := 1, Beta := 0, Theta := 20, H := 0, Tarp := 2, AlphaC := 0, TauC := 1, gC := 0 }
        ⟨0, 1 / 10⟩ ⟨⟨0, 0⟩, ⟨-100, 0⟩, 1, 0⟩ = [nr1.V] := by
  obtain ⟨nr1, _, _, h3, _, _, _, h7⟩ := lif_leak_exponential_or_expansion
    { Tau := 1, Beta := 0, Theta := 20, H := 0, Tarp := 2, AlphaC := 0, TauC := 1, gC := 0 }
    1 (fun n (_ : ℝ) => (n.V, 0)) 0 ⟨⟨0, 1 / 10⟩, 0, 0⟩ ⟨⟨0, 0⟩, ⟨-100, 0⟩, 1, 0⟩ 0
    (by norm_num [timexToDouble]) (by norm_num [timexToDouble])
  exact ⟨nr1, h3, h7⟩

/-! ## perseo.c and modules.c : the time of the next external spike -/

/-- C22, the code at a failing input: one neuron receives external spikes at
100 Hz, every waiting time drawn being 10 ms, and the command `SET_PARAM 5 0 4 0`
sets the rate to 0 at 5 ms, in a run of 100 ms.  `setPopulationParam` puts the next
external spike of the population at `Life = 100`, not at infinity, with
`InvNuExt = -1`.  The event is handled when `Time` is 10, with the spike of 20 ms
already in `ExtSpike`: that spike is passed to `updateNeuronState` after the event,
and so is the spike of 100 ms, in the last iteration of the main loop. -/
theorem zero_rate_still_delivers_spikes :
    (setPopulationParam neuron_type.VIF 100 oneNeuronGlobals 0 4 0 5).P.Populations.map
        (fun p => (p.NuExt, p.InvNuExt, timexToDouble p.Emission)) = [(0, -1, 100)] ∧
    (simulation oneNeuronRun 10 oneNeuronGlobals [stopRateEvent] ⟨⟨0, 0⟩, 0, 0⟩).map
        (fun s => (recordTimes s.record, recordPosts s.record, s.Time))
      = some ([(false, 0), (false, 10), (true, 5), (false, 20), (false, 100)],
          [some 0, some 0, none, some 0, some 0], 100) := by
  decide!

/-! ## connectivity.c : the rows that `loadConnectivityDefinition` accepts -/

/-- When `loadConnectivityDefinition` returns 0, the indices of the element lie in
`[0, NumPopulations)` and the element is stored with the probability of the row. -/
theorem loadConnectivityDefinition_indices {R : Type} [LinearOrderedField R] [FloorRing R]
    (NumPopulations : Int) (RealParams : List R) (StringParams : List String)
    (e : Option (connectivity_entry R))
    (h : loadConnectivityDefinition NumPopulations RealParams StringParams = (0, e)) :
    ∃ x : connectivity_entry R, e = some x ∧ 0 ≤ x.post ∧ x.post < NumPopulations ∧
      0 ≤ x.pre ∧ x.pre < NumPopulations ∧ x.post = truncToInt (RealParams.getD 0 0) ∧
      x.pre = truncToInt (RealParams.getD 1 0) ∧ x.c.CProb = RealParams.getD 2 0 := by
  unfold loadConnectivityDefinition at h
  cases StringParams with
  | nil => simp at h
  | cons s rest =>
    simp only [] at h
    by_cases h1 : getSynapseType s ≥ 0
    · rw [if_pos h1] at h
      by_cases h2 : parseSynapseParams (getSynapseType s) (RealParams.drop 5) ≠ 0
      · rw [if_pos h2] at h; simp at h
      · rw [if_neg h2] at h
        by_cases h3 : truncToInt (RealParams.getD 0 0) < 0
            ∨ truncToInt (RealParams.getD 0 0) ≥ NumPopulations
            ∨ truncToInt (RealParams.getD 1 0) < 0
            ∨ truncToInt (RealParams.getD 1 0) ≥ NumPopulations
        · rw [if_pos h3] at h; simp at h
        · rw [if_neg h3] at h
          simp only [Prod.mk.injEq, true_and] at h
          push_neg at h3
          exact ⟨_, h.symm, h3.1, h3.2.1, h3.2.2.1, h3.2.2.2, rfl, rfl, rfl⟩
    · rw [if_neg h1] at h; simp at h

/-- C30, the counterexample: with one population, the rows `0 0 2 1 2 FIXED 1 0`
and `0 0 -1/2 1 2 FIXED 1 0`, whose connection probabilities 2 and -1/2 are outside
`[0,1]`, are accepted: `loadConnectivityDefinition` returns 0 and stores the element
with that probability.  A row with the index 1 out of range is rejected. -/
theorem probability_out_of_range_accepted :
    (loadConnectivityDefinition 1 overProbabilityRow ["FIXED"]).1 = 0 ∧
    (loadConnectivityDefinition 1 overProbabilityRow ["FIXED"]).2.map
      (fun x => (x.post, x.pre, x.c.CProb)) = some (0, 0, 2) ∧
    (loadConnectivityDefinition 1 negativeProbabilityRow ["FIXED"]).1 = 0 ∧
    (loadConnectivityDefinition 1 negativeProbabilityRow ["FIXED"]).2.map
      (fun x => (x.post, x.pre, x.c.CProb)) = some (0, 0, -1 / 2) ∧
    (loadConnectivityDefinition 1 outOfRangeRow ["FIXED"]).1 = 1 := by
  decide!

/-! ## sortedqueue.c : the tree as a value -/

/-- The comparison is negative only when the reverse one is not. -/
theorem CmpOrder.not_lt {α : Type} {cmp : α → α → Int} (h : CmpOrder cmp) (a b : α)
    (hab : cmp a b < 0) : ¬ cmp b a ≤ 0 := by
  intro hba
  have := h.2.1 b a hba
  omega

/-- The list after a put, for a list that is not empty. -/
theorem listPut_cons {α : Type} (cmp : α → α → Int) (x y : α) (L : List α) :
    listPut cmp x (y :: L) = if cmp x y < 0 then x :: y :: L else y :: listPut cmp x L := rfl

/-- Putting an item in a sorted list: the part of the list before a greater item
gets it. -/
theorem listPut_append_lt {α : Type} (cmp : α → α → Int) (x y : α) (A B : List α)
    (h : cmp x y < 0) : listPut cmp x (A ++ y :: B) = listPut cmp x A ++ y :: B := by
  induction A with
  | nil => simp [listPut, h]
  | cons a A ih =>
    rw [List.cons_append, listPut_cons, listPut_cons]
    split_ifs
    · rfl
    · rw [ih]; rfl

/-- Putting an item in a sorted list: the part of the list after an item that is
not greater gets it. -/
theorem listPut_append_ge {α : Type} (cmp : α → α → Int) (x y : α) (A B : List α)
    (hA : ∀ a ∈ A, ¬ cmp x a < 0) (h : ¬ cmp x y < 0) :
    listPut cmp x (A ++ y :: B) = A ++ y :: listPut cmp x B := by
  induction A with
  | nil => simp [listPut, h]
  | cons a A ih =>
    rw [List.cons_append, listPut_cons,
      if_neg (hA a (List.mem_cons_self _ _)), ih (fun b hb => hA b (List.mem_cons_of_mem _ hb))]
    rfl

/-- The items of the list after a put. -/
theorem mem_listPut {α : Type} (cmp : α → α → Int) (x z : α) (L : List α) :
    z ∈ listPut cmp x L ↔ z = x ∨ z ∈ L := by
  induction L with
  | nil => simp [listPut]
  | cons y L ih =>
    unfold listPut
    split_ifs
    · simp
    · simp only [List.mem_cons, ih]
      tauto

/-- A put keeps the list sorted. -/
theorem listPut_sorted {α : Type} {cmp : α → α → Int} (h : CmpOrder cmp) (x : α) (L : List α)
    (hL : L.Pairwise (fun a b => cmp a b ≤ 0)) :
    (listPut cmp x L).Pairwise (fun a b => cmp a b ≤ 0) := by
  induction L with
  | nil => simp [listPut]
  | cons y L ih =>
    unfold listPut
    rw [List.pairwise_cons] at hL
    split_ifs with hc
    · refine List.pairwise_cons.mpr ⟨?_, List.pairwise_cons.mpr hL⟩
      intro z hz
      rcases List.mem_cons.mp hz with rfl | hz
      · exact le_of_lt hc
      · exact h.2.2 _ _ _ (le_of_lt hc) (hL.1 z hz)
    · refine List.pairwise_cons.mpr ⟨?_, ih hL.2⟩
      intro z hz
      rcases (mem_listPut cmp x z L).mp hz with rfl | hz
      · exact h.1 _ _ (not_lt.mp hc)
      · exact hL.1 z hz

/-- The length of the list after a put. -/
theorem length_listPut {α : Type} (cmp : α → α → Int) (x : α) (L : List α) :
    (listPut cmp x L).length = L.length + 1 := by
  induction L with
  | nil => rfl
  | cons y L ih =>
    unfold listPut
    split_ifs
    · rfl
    · simp [ih]

/-- A left rotation keeps the order of the items. -/
theorem rotL_inorder {α : Type} (t : AvlT α) : (rotL t).inorder = t.inorder := by
  unfold rotL
  split
  · simp [AvlT.inorder]
  · rfl

/-- A right rotation keeps the order of the items. -/
theorem rotR_inorder {α : Type} (t : AvlT α) : (rotR t).inorder = t.inorder := by
  unfold rotR
  split
  · simp [AvlT.inorder]
  · rfl

/-- A left rotation keeps the nodes. -/
theorem rotL_addrs {α : Type} (t : AvlT α) : (rotL t).addrs.Perm t.addrs := by
  unfold rotL
  split
  · simp only [AvlT.addrs]
    rw [List.perm_iff_count]
    intro q
    simp only [List.count_cons, List.count_append]
    omega
  · exact List.Perm.refl _

/-- A right rotation keeps the nodes. -/
theorem rotR_addrs {α : Type} (t : AvlT α) : (rotR t).addrs.Perm t.addrs := by
  unfold rotR
  split
  · simp only [AvlT.addrs]
    rw [List.perm_iff_count]
    intro q
    simp only [List.count_cons, List.count_append]
    omega
  · exact List.Perm.refl _

/-- A left rotation keeps the leftmost node. -/
theorem rotL_leftmost {α : Type} (t : AvlT α) : (rotL t).leftmost = t.leftmost := by
  unfold rotL
  split
  · simp [AvlT.leftmost, AvlT.isNil]
  · rfl

/-- A right rotation keeps the leftmost node. -/
theorem rotR_leftmost {α : Type} (t : AvlT α) : (rotR t).leftmost = t.leftmost := by
  unfold rotR
  split
  · simp [AvlT.leftmost, AvlT.isNil]
  · rfl

/-- A left rotation keeps the number of nodes. -/
theorem rotL_size {α : Type} (t : AvlT α) : (rotL t).size = t.size := by
  unfold rotL
  split
  · simp only [AvlT.size]; omega
  · rfl

/-- A right rotation keeps the number of nodes. -/
theorem rotR_size {α : Type} (t : AvlT α) : (rotR t).size = t.size := by
  unfold rotR
  split
  · simp only [AvlT.size]; omega
  · rfl

/-- An AVL tree with a positive balance has a right subtree, one with a negative
balance a left subtree. -/
theorem Avl.height_pos {α : Type} (t : AvlT α) (h : t.isNil = false) : 0 < t.height := by
  cases t with
  | nil => simp [AvlT.isNil] at h
  | node a b l x r => simp only [AvlT.height]; omega

/-- The height of the empty tree only is 0. -/
theorem AvlT.isNil_of_height {α : Type} (t : AvlT α) (h : t.height = 0) : t.isNil = true := by
  cases t with
  | nil => rfl
  | node a b l x r => simp only [AvlT.height] at h; omega

/-- The rotations that `avlInsert` and `avlExtractNode` make at a node whose right
subtree is higher by 2 give an AVL tree again; its height is that of the right
subtree, or one more when that subtree was balanced. -/
theorem fixRight_avl {α : Type} (a : Nat) (l : AvlT α) (y : α) (r : AvlT α)
    (hl : Avl l) (hr : Avl r) (hh : r.height = l.height + 2) :
    Avl (rotL (.node a 2 l y (if r.bal = -1 then rotR r else r))) ∧
      (rotL (.node a 2 l y (if r.bal = -1 then rotR r else r))).isNil = false ∧
      (r.bal = 0 → (rotL (.node a 2 l y (if r.bal = -1 then rotR r else r))).height
          = r.height + 1 ∧
        (rotL (.node a 2 l y (if r.bal = -1 then rotR r else r))).bal = -1) ∧
      (r.bal ≠ 0 → (rotL (.node a 2 l y (if r.bal = -1 then rotR r else r))).height
          = r.height ∧
        (rotL (.node a 2 l y (if r.bal = -1 then rotR r else r))).bal = 0) := by
  cases r with
  | nil => simp only [AvlT.height] at hh; omega
  | node c bc rl z rr =>
    obtain ⟨hbc, hlo, hhi, hrl, hrr⟩ := hr
    simp only [AvlT.bal]
    by_cases h1 : bc = -1
    · rw [if_pos h1]
      cases rl with
      | nil => simp only [AvlT.height] at hbc; omega
      | node d bd dl w dr =>
        obtain ⟨hbd, hdlo, hdhi, hdl, hdr⟩ := hrl
        simp only [rotR, rotL, Avl, AvlT.height, AvlT.isNil, AvlT.bal] at *
        refine ⟨⟨?_, ?_, ?_, ⟨?_, ?_, ?_, hl, hdl⟩, ?_, ?_, ?_, hdr, hrr⟩, trivial, ?_, ?_⟩ <;> omega
    · rw [if_neg h1]
      simp only [rotR, rotL, Avl, AvlT.height, AvlT.isNil, AvlT.bal] at *
      refine ⟨⟨?_, ?_, ?_, ⟨?_, ?_, ?_, hl, hrl⟩, hrr⟩, trivial, ?_, ?_⟩ <;> omega

/-- The rotations that `avlInsert` makes at a node whose left subtree is higher
by 2 give an AVL tree again; its height is that of the left subtree, or one more
when that subtree was balanced. -/
theorem fixLeft_avl {α : Type} (a : Nat) (l : AvlT α) (y : α) (r : AvlT α)
    (hl : Avl l) (hr : Avl r) (hh : l.height = r.height + 2) :
    Avl (rotR (.node a (-2) (if l.bal = 1 then rotL l else l) y r)) ∧
      (rotR (.node a (-2) (if l.bal = 1 then rotL l else l) y r)).isNil = false ∧
      (l.bal = 0 → (rotR (.node a (-2) (if l.bal = 1 then rotL l else l) y r)).height
          = l.height + 1 ∧
        (rotR (.node a (-2) (if l.bal = 1 then rotL l else l) y r)).bal = 1) ∧
      (l.bal ≠ 0 → (rotR (.node a (-2) (if l.bal = 1 then rotL l else l) y r)).height
          = l.height ∧
        (rotR (.node a (-2) (if l.bal = 1 then rotL l else l) y r)).bal = 0) := by
  cases l with
  | nil => simp only [AvlT.height] at hh; omega
  | node c bc ll z lr =>
    obtain ⟨hbc, hlo, hhi, hll, hlr⟩ := hl
    simp only [AvlT.bal]
    by_cases h1 : bc = 1
    · rw [if_pos h1]
      cases lr with
      | nil => simp only [AvlT.height] at hbc; omega
      | node d bd dl w dr =>
        obtain ⟨hbd, hdlo, hdhi, hdl, hdr⟩ := hlr
        simp only [rotR, rotL, Avl, AvlT.height, AvlT.isNil, AvlT.bal] at *
        refine ⟨⟨?_, ?_, ?_, ⟨?_, ?_, ?_, hll, hdl⟩, ?_, ?_, ?_, hdr, hr⟩, trivial, ?_, ?_⟩ <;> omega
    · rw [if_neg h1]
      simp only [rotR, rotL, Avl, AvlT.height, AvlT.isNil, AvlT.bal] at *
      refine ⟨⟨?_, ?_, ?_, hll, ⟨?_, ?_, ?_, hlr, hr⟩⟩, trivial, ?_, ?_⟩ <;> omega

/-- The tree that `avlInsert` builds is not empty. -/
theorem insF_isNil {α : Type} (cmp : α → α → Int) (n : Nat) (x : α) (t : AvlT α) :
    (insF cmp n x t).1.isNil = false := by
  cases t with
  | nil => rfl
  | node a b l y r =>
    unfold insF
    split_ifs
    · unfold insLeftF
      split_ifs <;> first | rfl | (unfold rotR; split <;> rfl)
    · unfold insRightF
      split_ifs <;> first | rfl | (unfold rotL; split <;> rfl)

/-- The statements of `avlInsert` after the call on the left subtree keep the
tree an AVL tree. -/
theorem insLeftF_ok {α : Type} (a : Nat) (b : Int) (l : AvlT α) (y : α) (r l1 : AvlT α)
    (nn tl : Bool) (hav : Avl (.node a b l y r)) (h1 : InsOk l l1 nn tl) :
    InsOk (.node a b l y r) (insLeftF a b l1 nn tl l.isNil y r).1
      (insLeftF a b l1 nn tl l.isNil y r).2.1 (insLeftF a b l1 nn tl l.isNil y r).2.2 := by
  obtain ⟨hb, hlo, hhi, hl, hr⟩ := hav
  obtain ⟨hav1, hnil1, hnn, hnot⟩ := h1
  have hpos := Avl.height_pos l1 hnil1
  cases nn with
  | true =>
    have hnn := hnn rfl
    cases hw : l.isNil with
    | true =>
      have e : insLeftF a b l1 true tl true y r
          = (.node a (b - 1) l1 y r, false, decide (b - 1 < 0)) := rfl
      rw [e]
      have hl0 : l.height = 0 := by
        cases l with
        | nil => rfl
        | node _ _ _ _ _ => simp [AvlT.isNil] at hw
      have h1 : l1.height = 1 := by
        rcases hnn with ⟨_, h1⟩ | ⟨h0, _⟩
        · exact h1
        · rw [hw] at h0; exact Bool.noConfusion h0
      refine ⟨⟨?_, ?_, ?_, hav1, hr⟩, rfl, fun h => Bool.noConfusion h,
        fun _ => ⟨rfl, rfl, ?_, ?_⟩⟩
      · omega
      · omega
      · omega
      · simp only [AvlT.height, decide_eq_true_eq]; split_ifs <;> omega
      · simp only [AvlT.bal, decide_eq_true_eq]; omega
    | false =>
      have e : insLeftF a b l1 true tl false y r = (.node a b l1 y r, false, false) := rfl
      rw [e]
      have h1 : l1.height = l.height := by
        rcases hnn with ⟨h0, _⟩ | ⟨_, h1⟩
        · rw [hw] at h0; exact Bool.noConfusion h0
        · exact h1
      refine ⟨⟨?_, hlo, hhi, hav1, hr⟩, rfl, fun h => Bool.noConfusion h,
        fun _ => ⟨rfl, rfl, ?_, fun h => Bool.noConfusion h⟩⟩
      · omega
      · simp only [AvlT.height]; simp; omega
  | false =>
    obtain ⟨hne, haddr, hh, hbal⟩ := hnot rfl
    cases tl with
    | true =>
      have hbal := hbal rfl
      simp only [if_true] at hh
      by_cases h2 : b - 1 = -2
      · have e : insLeftF a b l1 false true l.isNil y r
            = (rotR (.node a (b - 1) (if l1.bal = 1 then rotL l1 else l1) y r), true, true) := by
          simp [insLeftF, h2]
        rw [e, h2]
        obtain ⟨f1, f2, _, f4⟩ := fixLeft_avl a l1 y r hav1 hr (by omega)
        refine ⟨f1, f2, fun _ => Or.inr ⟨rfl, ?_⟩, fun h => Bool.noConfusion h⟩
        rw [(f4 hbal).1]
        simp only [AvlT.height]
        omega
      · have e : insLeftF a b l1 false true l.isNil y r
            = (.node a (b - 1) l1 y r, false, decide (b - 1 = -1)) := by
          simp [insLeftF, h2]
        rw [e]
        refine ⟨⟨?_, ?_, ?_, hav1, hr⟩, rfl, fun h => Bool.noConfusion h,
          fun _ => ⟨rfl, rfl, ?_, ?_⟩⟩
        · omega
        · omega
        · omega
        · simp only [AvlT.height, decide_eq_true_eq]; split_ifs <;> omega
        · simp only [AvlT.bal, decide_eq_true_eq]; omega
    | false =>
      have e : insLeftF a b l1 false false l.isNil y r = (.node a b l1 y r, false, false) := by
        simp [insLeftF]
      rw [e]
      simp only [Bool.false_eq_true, if_false] at hh
      refine ⟨⟨?_, hlo, hhi, hav1, hr⟩, rfl, fun h => Bool.noConfusion h,
        fun _ => ⟨rfl, rfl, ?_, fun h => Bool.noConfusion h⟩⟩
      · omega
      · simp only [AvlT.height]; simp; omega

/-- The statements of `avlInsert` after the call on the right subtree keep the
tree an AVL tree. -/
theorem insRightF_ok {α : Type} (a : Nat) (b : Int) (l : AvlT α) (y : α) (r r1 : AvlT α)
    (nn tr : Bool) (hav : Avl (.node a b l y r)) (h1 : InsOk r r1 nn tr) :
    InsOk (.node a b l y r) (insRightF a b l y r1 nn tr r.isNil).1
      (insRightF a b l y r1 nn tr r.isNil).2.1 (insRightF a b l y r1 nn tr r.isNil).2.2 := by
  obtain ⟨hb, hlo, hhi, hl, hr⟩ := hav
  obtain ⟨hav1, hnil1, hnn, hnot⟩ := h1
  have hpos := Avl.height_pos r1 hnil1
  cases nn with
  | true =>
    have hnn := hnn rfl
    cases hw : r.isNil with
    | true =>
      have e : insRightF a b l y r1 true tr true
          = (.node a (b + 1) l y r1, false, decide (b + 1 > 0)) := rfl
      rw [e]
      have hr0 : r.height = 0 := by
        cases r with
        | nil => rfl
        | node _ _ _ _ _ => simp [AvlT.isNil] at hw
      have h1 : r1.height = 1 := by
        rcases hnn with ⟨_, h1⟩ | ⟨h0, _⟩
        · exact h1
        · rw [hw] at h0; exact Bool.noConfusion h0
      refine ⟨⟨?_, ?_, ?_, hl, hav1⟩, rfl, fun h => Bool.noConfusion h,
        fun _ => ⟨rfl, rfl, ?_, ?_⟩⟩
      · omega
      · omega
      · omega
      · simp only [AvlT.height, decide_eq_true_eq]; split_ifs <;> omega
      · simp only [AvlT.bal, decide_eq_true_eq]; omega
    | false =>
      have e : insRightF a b l y r1 true tr false = (.node a b l y r1, false, false) := rfl
      rw [e]
      have h1 : r1.height = r.height := by
        rcases hnn with ⟨h0, _⟩ | ⟨_, h1⟩
        · rw [hw] at h0; exact Bool.noConfusion h0
        · exact h1
      refine ⟨⟨?_, hlo, hhi, hl, hav1⟩, rfl, fun h => Bool.noConfusion h,
        fun _ => ⟨rfl, rfl, ?_, fun h => Bool.noConfusion h⟩⟩
      · omega
      · simp only [AvlT.height]; simp; omega
  | false =>
    obtain ⟨hne, haddr, hh, hbal⟩ := hnot rfl
    cases tr with
    | true =>
      have hbal := hbal rfl
      simp only [if_true] at hh
      by_cases h2 : b + 1 = 2
      · have e : insRightF a b l y r1 false true r.isNil
            = (rotL (.node a (b + 1) l y (if r1.bal = -1 then rotR r1 else r1)), true, true) := by
          simp [insRightF, h2]
        rw [e, h2]
        obtain ⟨f1, f2, _, f4⟩ := fixRight_avl a l y r1 hl hav1 (by omega)
        refine ⟨f1, f2, fun _ => Or.inr ⟨rfl, ?_⟩, fun h => Bool.noConfusion h⟩
        rw [(f4 hbal).1]
        simp only [AvlT.height]
        omega
      · have e : insRightF a b l y r1 false true r.isNil
            = (.node a (b + 1) l y r1, false, decide (b + 1 = 1)) := by
          simp [insRightF, h2]
        rw [e]
        refine ⟨⟨?_, ?_, ?_, hl, hav1⟩, rfl, fun h => Bool.noConfusion h,
          fun _ => ⟨rfl, rfl, ?_, ?_⟩⟩
        · omega
        · omega
        · omega
        · simp only [AvlT.height, decide_eq_true_eq]; split_ifs <;> omega
        · simp only [AvlT.bal, decide_eq_true_eq]; omega
    | false =>
      have e : insRightF a b l y r1 false false r.isNil = (.node a b l y r1, false, false) := by
        simp [insRightF]
      rw [e]
      simp only [Bool.false_eq_true, if_false] at hh
      refine ⟨⟨?_, hlo, hhi, hl, hav1⟩, rfl, fun h => Bool.noConfusion h,
        fun _ => ⟨rfl, rfl, ?_, fun h => Bool.noConfusion h⟩⟩
      · omega
      · simp only [AvlT.height]; simp; omega

/-- The tree that `avlInsert` builds from an AVL tree is an AVL tree, with the
height the returned pointer and `Taller` tell. -/
theorem insF_ok {α : Type} (cmp : α → α → Int) (n : Nat) (x : α) :
    ∀ t : AvlT α, Avl t →
      InsOk t (insF cmp n x t).1 (insF cmp n x t).2.1 (insF cmp n x t).2.2 := by
  intro t
  induction t with
  | nil =>
    intro _
    refine ⟨⟨?_, ?_, ?_, trivial, trivial⟩, rfl, fun _ => Or.inl ⟨rfl, rfl⟩,
      fun h => Bool.noConfusion h⟩ <;> simp [AvlT.height]
  | node a b l y r ihl ihr =>
    intro hav
    unfold insF
    split_ifs with hc
    · exact insLeftF_ok a b l y r _ _ _ hav (ihl hav.2.2.2.1)
    · exact insRightF_ok a b l y r _ _ _ hav (ihr hav.2.2.2.2)

/-- The shape of the tree after the statements of `avlInsert` that follow the call
on the left subtree: the node with its new left subtree, possibly rotated. -/
theorem insLeftF_shape {α : Type} (a : Nat) (b : Int) (l1 : AvlT α) (nn tl w : Bool) (y : α)
    (r : AvlT α) :
    ∃ (b1 : Int) (l2 : AvlT α), (l2 = l1 ∨ l2 = rotL l1) ∧
      ((insLeftF a b l1 nn tl w y r).1 = .node a b1 l2 y r ∨
        (insLeftF a b l1 nn tl w y r).1 = rotR (.node a b1 l2 y r)) := by
  unfold insLeftF
  split_ifs
  · exact ⟨_, l1, Or.inl rfl, Or.inl rfl⟩
  · exact ⟨_, l1, Or.inl rfl, Or.inl rfl⟩
  · exact ⟨_, rotL l1, Or.inr rfl, Or.inr rfl⟩
  · exact ⟨_, l1, Or.inl rfl, Or.inr rfl⟩
  · exact ⟨_, l1, Or.inl rfl, Or.inl rfl⟩
  · exact ⟨_, l1, Or.inl rfl, Or.inl rfl⟩

/-- The shape of the tree after the statements of `avlInsert` that follow the call
on the right subtree. -/
theorem insRightF_shape {α : Type} (a : Nat) (b : Int) (l : AvlT α) (y : α) (r1 : AvlT α)
    (nn tr w : Bool) :
    ∃ (b1 : Int) (r2 : AvlT α), (r2 = r1 ∨ r2 = rotR r1) ∧
      ((insRightF a b l y r1 nn tr w).1 = .node a b1 l y r2 ∨
        (insRightF a b l y r1 nn tr w).1 = rotL (.node a b1 l y r2)) := by
  unfold insRightF
  split_ifs
  · exact ⟨_, r1, Or.inl rfl, Or.inl rfl⟩
  · exact ⟨_, r1, Or.inl rfl, Or.inl rfl⟩
  · exact ⟨_, rotR r1, Or.inr rfl, Or.inr rfl⟩
  · exact ⟨_, r1, Or.inl rfl, Or.inr rfl⟩
  · exact ⟨_, r1, Or.inl rfl, Or.inl rfl⟩
  · exact ⟨_, r1, Or.inl rfl, Or.inl rfl⟩

/-- The items after the statements that follow the call on the left subtree. -/
theorem insLeftF_inorder {α : Type} (a : Nat) (b : Int) (l1 : AvlT α) (nn tl w : Bool) (y : α)
    (r : AvlT α) :
    (insLeftF a b l1 nn tl w y r).1.inorder = l1.inorder ++ y :: r.inorder := by
  obtain ⟨b1, l2, hl2, h⟩ := insLeftF_shape a b l1 nn tl w y r
  have e : l2.inorder = l1.inorder := by
    rcases hl2 with rfl | rfl
    · rfl
    · exact rotL_inorder l1
  rcases h with h | h <;> rw [h]
  · simp [AvlT.inorder, e]
  · rw [rotR_inorder]; simp [AvlT.inorder, e]

/-- The items after the statements that follow the call on the right subtree. -/
theorem insRightF_inorder {α : Type} (a : Nat) (b : Int) (l : AvlT α) (y : α) (r1 : AvlT α)
    (nn tr w : Bool) :
    (insRightF a b l y r1 nn tr w).1.inorder = l.inorder ++ y :: r1.inorder := by
  obtain ⟨b1, r2, hr2, h⟩ := insRightF_shape a b l y r1 nn tr w
  have e : r2.inorder = r1.inorder := by
    rcases hr2 with rfl | rfl
    · rfl
    · exact rotR_inorder r1
  rcases h with h | h <;> rw [h]
  · simp [AvlT.inorder, e]
  · rw [rotL_inorder]; simp [AvlT.inorder, e]

/-- The nodes after the statements that follow the call on the left subtree. -/
theorem insLeftF_addrs {α : Type} (a : Nat) (b : Int) (l1 : AvlT α) (nn tl w : Bool) (y : α)
    (r : AvlT α) :
    (insLeftF a b l1 nn tl w y r).1.addrs.Perm (a :: (l1.addrs ++ r.addrs)) := by
  obtain ⟨b1, l2, hl2, h⟩ := insLeftF_shape a b l1 nn tl w y r
  have e : l2.addrs.Perm l1.addrs := by
    rcases hl2 with rfl | rfl
    · exact List.Perm.refl _
    · exact rotL_addrs l1
  have e2 : (AvlT.node a b1 l2 y r).addrs.Perm (a :: (l1.addrs ++ r.addrs)) :=
    List.Perm.cons a (List.Perm.append_right _ e)
  rcases h with h | h <;> rw [h]
  · exact e2
  · exact (rotR_addrs _).trans e2

/-- The nodes after the statements that follow the call on the right subtree. -/
theorem insRightF_addrs {α : Type} (a : Nat) (b : Int) (l : AvlT α) (y : α) (r1 : AvlT α)
    (nn tr w : Bool) :
    (insRightF a b l y r1 nn tr w).1.addrs.Perm (a :: (l.addrs ++ r1.addrs)) := by
  obtain ⟨b1, r2, hr2, h⟩ := insRightF_shape a b l y r1 nn tr w
  have e : r2.addrs.Perm r1.addrs := by
    rcases hr2 with rfl | rfl
    · exact List.Perm.refl _
    · exact rotR_addrs r1
  have e2 : (AvlT.node a b1 l y r2).addrs.Perm (a :: (l.addrs ++ r1.addrs)) :=
    List.Perm.cons a (List.Perm.append_left _ e)
  rcases h with h | h <;> rw [h]
  · exact e2
  · exact (rotL_addrs _).trans e2

/-- The leftmost node after the statements that follow the call on the left
subtree. -/
theorem insLeftF_leftmost {α : Type} (a : Nat) (b : Int) (l1 : AvlT α) (nn tl w : Bool) (y : α)
    (r : AvlT α) (h1 : l1.isNil = false) :
    (insLeftF a b l1 nn tl w y r).1.leftmost = l1.leftmost := by
  obtain ⟨b1, l2, hl2, h⟩ := insLeftF_shape a b l1 nn tl w y r
  have e : l2.leftmost = l1.leftmost := by
    rcases hl2 with rfl | rfl
    · rfl
    · exact rotL_leftmost l1
  have e0 : l2.isNil = false := by
    rcases hl2 with rfl | rfl
    · exact h1
    · unfold rotL; split
      · rfl
      · exact h1
  rcases h with h | h <;> rw [h]
  · simp [AvlT.leftmost, e, e0]
  · rw [rotR_leftmost]; simp [AvlT.leftmost, e, e0]

/-- The leftmost node after the statements that follow the call on the right
subtree. -/
theorem insRightF_leftmost {α : Type} (a : Nat) (b : Int) (l : AvlT α) (y : α) (r1 : AvlT α)
    (nn tr w : Bool) :
    (insRightF a b l y r1 nn tr w).1.leftmost = if l.isNil then a else l.leftmost := by
  obtain ⟨b1, r2, _, h⟩ := insRightF_shape a b l y r1 nn tr w
  rcases h with h | h <;> rw [h]
  · rfl
  · rw [rotL_leftmost]; rfl

/-- The items of the tree that `avlInsert` builds: the new item is put in
order. -/
theorem insF_inorder {α : Type} {cmp : α → α → Int} (hcmp : CmpOrder cmp) (n : Nat) (x : α) :
    ∀ t : AvlT α, t.inorder.Pairwise (fun a b => cmp a b ≤ 0) →
      (insF cmp n x t).1.inorder = listPut cmp x t.inorder := by
  intro t
  induction t with
  | nil => intro _; rfl
  | node a b l y r ihl ihr =>
    intro hs
    simp only [AvlT.inorder] at hs ⊢
    rw [List.pairwise_append] at hs
    obtain ⟨hsl, hsr, hlr⟩ := hs
    rw [List.pairwise_cons] at hsr
    unfold insF
    split_ifs with hc
    · rw [insLeftF_inorder, ihl hsl, listPut_append_lt cmp x y _ _ hc]
    · rw [insRightF_inorder, ihr hsr.2]
      rw [listPut_append_ge cmp x y _ _ ?_ hc]
      intro z hz hlt
      have h1 : cmp z y ≤ 0 := hlr z hz y (List.mem_cons_self _ _)
      have h2 : cmp y x ≤ 0 := hcmp.1 _ _ (not_lt.mp hc)
      exact hcmp.not_lt x z hlt (hcmp.2.2 _ _ _ h1 h2)

/-- The nodes of the tree that `avlInsert` builds: the new node and the old
ones. -/
theorem insF_addrs {α : Type} (cmp : α → α → Int) (n : Nat) (x : α) :
    ∀ t : AvlT α, (insF cmp n x t).1.addrs.Perm (n :: t.addrs) := by
  intro t
  induction t with
  | nil => exact List.Perm.refl _
  | node a b l y r ihl ihr =>
    unfold insF
    split_ifs with hc
    · refine (insLeftF_addrs _ _ _ _ _ _ _ _).trans ?_
      simp only [AvlT.addrs]
      refine (List.Perm.cons a (List.Perm.append_right _ ihl)).trans ?_
      exact List.Perm.swap _ _ _
    · refine (insRightF_addrs _ _ _ _ _ _ _ _).trans ?_
      simp only [AvlT.addrs]
      refine (List.Perm.cons a (List.Perm.append_left _ ihr)).trans ?_
      refine (List.Perm.cons a List.perm_middle).trans ?_
      exact List.Perm.swap _ _ _

/-- The number of nodes of a tree is the number of its addresses. -/
theorem AvlT.length_addrs {α : Type} (t : AvlT α) : t.addrs.length = t.size := by
  induction t with
  | nil => rfl
  | node a b l x r ihl ihr => simp only [AvlT.addrs, AvlT.size, List.length_cons,
      List.length_append, ihl, ihr]; omega

/-- The number of nodes of a tree is the number of its items. -/
theorem AvlT.length_inorder {α : Type} (t : AvlT α) : t.inorder.length = t.size := by
  induction t with
  | nil => rfl
  | node a b l x r ihl ihr => simp only [AvlT.inorder, AvlT.size, List.length_cons,
      List.length_append, ihl, ihr]; omega

/-- The height of a tree is at most the number of its nodes. -/
theorem AvlT.height_le_size {α : Type} (t : AvlT α) : t.height ≤ t.size := by
  induction t with
  | nil => exact le_refl _
  | node a b l x r ihl ihr => simp only [AvlT.height, AvlT.size]; omega

/-- The leftmost node of a tree that is not empty is one of its nodes. -/
theorem AvlT.leftmost_mem {α : Type} (t : AvlT α) (h : t.isNil = false) :
    t.leftmost ∈ t.addrs := by
  induction t with
  | nil => exact Bool.noConfusion h
  | node a b l x r ihl _ =>
    simp only [AvlT.leftmost, AvlT.addrs]
    cases hl : l.isNil with
    | true => simp
    | false =>
      simp only [Bool.false_eq_true, if_false]
      exact List.mem_cons_of_mem _ (List.mem_append_left _ (ihl hl))

/-- The address of a tree that is not empty is one of its nodes. -/
theorem AvlT.addr_mem {α : Type} (t : AvlT α) (h : t.isNil = false) : t.addr ∈ t.addrs := by
  cases t with
  | nil => exact Bool.noConfusion h
  | node a b l x r => exact List.mem_cons_self _ _

/-- A tree whose nodes are not at address 0 is empty exactly when its address
is 0. -/
theorem AvlT.addr_eq_zero {α : Type} (t : AvlT α) (h0 : 0 ∉ t.addrs) :
    t.addr = 0 ↔ t.isNil = true := by
  cases t with
  | nil => simp [AvlT.addr, AvlT.isNil]
  | node a b l x r =>
    simp only [AvlT.addr, AvlT.isNil, AvlT.addrs, List.mem_cons, not_or] at *
    constructor
    · intro h; exact absurd h.symm h0.1
    · intro h; exact Bool.noConfusion h

/-! ## sortedqueue.c : the tree in memory -/

/-- A read of the address just written. -/
theorem wr_same {α : Type} (mem : Nat → avl_tree α) (p : Nat) (n : avl_tree α) :
    wr mem p n p = n := by
  simp [wr]

/-- A read of another address than the one just written. -/
theorem wr_other {α : Type} (mem : Nat → avl_tree α) (p q : Nat) (n : avl_tree α) (h : q ≠ p) :
    wr mem p n q = mem q := by
  simp [wr, h]

/-- The function `avlLeftRotate` on a node with a right child: the two nodes
after the call; the rest of the memory is untouched. -/
theorem avlLeftRotate_eq {α : Type} (mem : Nat → avl_tree α) (a : Nat) (ha : a ≠ 0)
    (hc : (mem a).Right ≠ 0) (hac : (mem a).Right ≠ a) :
    ∃ mem1, avlLeftRotate mem a = some (mem1, (mem a).Right) ∧
      mem1 (mem a).Right =
        { Balance :=
            if (if (mem (mem a).Right).Balance > 0
                then (mem a).Balance - 1 - (mem (mem a).Right).Balance
                else (mem a).Balance - 1) < 0
            then (mem (mem a).Right).Balance - 1 +
              (if (mem (mem a).Right).Balance > 0
                then (mem a).Balance - 1 - (mem (mem a).Right).Balance
                else (mem a).Balance - 1)
            else (mem (mem a).Right).Balance - 1
          Left := a, Right := (mem (mem a).Right).Right, Up := (mem a).Up,
          Item := (mem (mem a).Right).Item } ∧
      mem1 a =
        { Balance :=
            if (mem (mem a).Right).Balance > 0
            then (mem a).Balance - 1 - (mem (mem a).Right).Balance
            else (mem a).Balance - 1
          Left := (mem a).Left, Right := (mem (mem a).Right).Left, Up := (mem a).Right,
          Item := (mem a).Item } ∧
      ∀ q, q ≠ a → q ≠ (mem a).Right → mem1 q = mem q := by
  generalize hcdef : (mem a).Right = c at *
  have hca : a ≠ c := fun h => hac h.symm
  unfold avlLeftRotate
  simp only [if_neg ha, hcdef, if_neg hc]
  refine ⟨_, rfl, ?_, ?_, ?_⟩
  · by_cases h1 : (mem c).Balance > 0
    · by_cases h2 : (mem a).Balance - 1 - (mem c).Balance < 0
      · simp [wr, hca, hac, h1, h2, hcdef]
      · simp [wr, hca, hac, h1, h2, hcdef]
    · by_cases h2 : (mem a).Balance - 1 < 0
      · simp [wr, hca, hac, h1, h2, hcdef]
      · simp [wr, hca, hac, h1, h2, hcdef]
  · by_cases h1 : (mem c).Balance > 0
    · by_cases h2 : (mem a).Balance - 1 - (mem c).Balance < 0
      · simp [wr, hca, hac, h1, h2, hcdef]
      · simp [wr, hca, hac, h1, h2, hcdef]
    · by_cases h2 : (mem a).Balance - 1 < 0
      · simp [wr, hca, hac, h1, h2, hcdef]
      · simp [wr, hca, hac, h1, h2, hcdef]
  · intro q hqa hqc
    by_cases h1 : (mem c).Balance > 0
    · by_cases h2 : (mem a).Balance - 1 - (mem c).Balance < 0
      · simp [wr, hca, hac, h1, h2, hcdef, hqa, hqc]
      · simp [wr, hca, hac, h1, h2, hcdef, hqa, hqc]
    · by_cases h2 : (mem a).Balance - 1 < 0
      · simp [wr, hca, hac, h1, h2, hcdef, hqa, hqc]
      · simp [wr, hca, hac, h1, h2, hcdef, hqa, hqc]

/-- The function `avlRightRotate` on a node with a left child: the two nodes
after the call; the rest of the memory is untouched. -/
theorem avlRightRotate_eq {α : Type} (mem : Nat → avl_tree α) (a : Nat) (ha : a ≠ 0)
    (hc : (mem a).Left ≠ 0) (hac : (mem a).Left ≠ a) :
    ∃ mem1, avlRightRotate mem a = some (mem1, (mem a).Left) ∧
      mem1 (mem a).Left =
        { Balance :=
            if (if (mem (mem a).Left).Balance < 0
                then (mem a).Balance + 1 - (mem (mem a).Left).Balance
                else (mem a).Balance + 1) > 0
            then (mem (mem a).Left).Balance + 1 +
              (if (mem (mem a).Left).Balance < 0
                then (mem a).Balance + 1 - (mem (mem a).Left).Balance
                else (mem a).Balance + 1)
            else (mem (mem a).Left).Balance + 1
          Left := (mem (mem a).Left).Left, Right := a, Up := (mem a).Up,
          Item := (mem (mem a).Left).Item } ∧
      mem1 a =
        { Balance :=
            if (mem (mem a).Left).Balance < 0
            then (mem a).Balance + 1 - (mem (mem a).Left).Balance
            else (mem a).Balance + 1
          Left := (mem (mem a).Left).Right, Right := (mem a).Right, Up := (mem a).Left,
          Item := (mem a).Item } ∧
      ∀ q, q ≠ a → q ≠ (mem a).Left → mem1 q = mem q := by
  generalize hcdef : (mem a).Left = c at *
  have hca : a ≠ c := fun h => hac h.symm
  unfold avlRightRotate
  simp only [if_neg ha, hcdef, if_neg hc]
  refine ⟨_, rfl, ?_, ?_, ?_⟩
  · by_cases h1 : (mem c).Balance < 0
    · by_cases h2 : (mem a).Balance + 1 - (mem c).Balance > 0
      · simp [wr, hca, hac, h1, h2, hcdef]
      · simp [wr, hca, hac, h1, h2, hcdef]
    · by_cases h2 : (mem a).Balance + 1 > 0
      · simp [wr, hca, hac, h1, h2, hcdef]
      · simp [wr, hca, hac, h1, h2, hcdef]
  · by_cases h1 : (mem c).Balance < 0
    · by_cases h2 : (mem a).Balance + 1 - (mem c).Balance > 0
      · simp [wr, hca, hac, h1, h2, hcdef]
      · simp [wr, hca, hac, h1, h2, hcdef]
    · by_cases h2 : (mem a).Balance + 1 > 0
      · simp [wr, hca, hac, h1, h2, hcdef]
      · simp [wr, hca, hac, h1, h2, hcdef]
  · intro q hqa hqc
    by_cases h1 : (mem c).Balance < 0
    · by_cases h2 : (mem a).Balance + 1 - (mem c).Balance > 0
      · simp [wr, hca, hac, h1, h2, hcdef, hqa, hqc]
      · simp [wr, hca, hac, h1, h2, hcdef, hqa, hqc]
    · by_cases h2 : (mem a).Balance + 1 > 0
      · simp [wr, hca, hac, h1, h2, hcdef, hqa, hqc]
      · simp [wr, hca, hac, h1, h2, hcdef, hqa, hqc]

/-- The address of a tree that is not empty. -/
theorem AvlT.addr_node {α : Type} (a : Nat) (b : Int) (l : AvlT α) (x : α) (r : AvlT α) :
    (AvlT.node a b l x r).addr = a := rfl

/-- A memory that agrees with another one on the fields `Balance`, `Left`, `Right`
and `Item` of the nodes of a tree holds the tree as well. -/
theorem Rep_congr {α : Type} (m m1 : Nat → avl_tree α) :
    ∀ t : AvlT α,
      (∀ q ∈ t.addrs, (m1 q).Balance = (m q).Balance ∧ (m1 q).Left = (m q).Left ∧
        (m1 q).Right = (m q).Right ∧ (m1 q).Item = (m q).Item) →
      Rep m t → Rep m1 t := by
  intro t
  induction t with
  | nil => intro _ _; trivial
  | node a b l x r ihl ihr =>
    intro h hrep
    obtain ⟨h1, h2, h3, h4, h5, h6⟩ := hrep
    have ha := h a (List.mem_cons_self _ _)
    refine ⟨ha.1.trans h1, ha.2.1.trans h2, ha.2.2.1.trans h3, ha.2.2.2.trans h4, ?_, ?_⟩
    · exact ihl (fun q hq => h q (List.mem_cons_of_mem _ (List.mem_append_left _ hq))) h5
    · exact ihr (fun q hq => h q (List.mem_cons_of_mem _ (List.mem_append_right _ hq))) h6

/-- A memory that agrees with another one on the nodes of a tree holds the tree
as well. -/
theorem Rep_of_eq {α : Type} (m m1 : Nat → avl_tree α) (t : AvlT α)
    (h : ∀ q ∈ t.addrs, m1 q = m q) (hrep : Rep m t) : Rep m1 t :=
  Rep_congr m m1 t (fun q hq => by rw [h q hq]; exact ⟨rfl, rfl, rfl, rfl⟩) hrep

/-- The nodes of the left spine are nodes of the tree. -/
theorem AvlT.spine_subset {α : Type} (t : AvlT α) : ∀ q ∈ t.spine, q ∈ t.addrs := by
  induction t with
  | nil => intro q hq; exact absurd hq (List.not_mem_nil _)
  | node a b l x r ihl _ =>
    intro q hq
    rcases List.mem_cons.mp hq with rfl | hq
    · exact List.mem_cons_self _ _
    · exact List.mem_cons_of_mem _ (List.mem_append_left _ (ihl q hq))

/-- A memory that agrees with another one on the field `Up` of the nodes of the
left spine of a tree has the same right `Up` pointers. -/
theorem SpineUp_congr {α : Type} (m m1 : Nat → avl_tree α) :
    ∀ (t : AvlT α) (p : Nat), (∀ q ∈ t.spine, (m1 q).Up = (m q).Up) →
      SpineUp m t p → SpineUp m1 t p := by
  intro t
  induction t with
  | nil => intro _ _ _; trivial
  | node a b l x r ihl _ =>
    intro p h hs
    refine ⟨(h a (List.mem_cons_self _ _)).trans hs.1, ?_⟩
    exact ihl a (fun q hq => h q (List.mem_cons_of_mem _ hq)) hs.2

/-- The function `avlLeftRotate` on the memory of a tree with a right subtree:
the memory holds the rotated tree. -/
theorem avlLeftRotate_rep {α : Type} (mem : Nat → avl_tree α) (a : Nat) (ba : Int)
    (l : AvlT α) (x : α) (c : Nat) (bc : Int) (rl : AvlT α) (y : α) (rr : AvlT α)
    (hrep : Rep mem (.node a ba l x (.node c bc rl y rr)))
    (hnd : (AvlT.node a ba l x (.node c bc rl y rr)).addrs.Nodup)
    (h0 : 0 ∉ (AvlT.node a ba l x (.node c bc rl y rr)).addrs) :
    ∃ mem1, avlLeftRotate mem a = some (mem1, c) ∧
      Rep mem1 (rotL (.node a ba l x (.node c bc rl y rr))) ∧
      (∀ q, q ≠ a → q ≠ c → mem1 q = mem q) ∧ (mem1 c).Up = (mem a).Up ∧ (mem1 a).Up = c ∧
      ∀ p, SpineUp mem (.node a ba l x (.node c bc rl y rr)) p →
        SpineUp mem1 (rotL (.node a ba l x (.node c bc rl y rr))) p := by
  obtain ⟨h1, h2, h3, h4, hl, hc1, hc2, hc3, hc4, hrl, hrr⟩ := hrep
  simp only [AvlT.addr_node] at h3
  simp only [AvlT.addrs, List.nodup_cons, List.mem_cons, List.mem_append, List.nodup_append,
    List.disjoint_cons_right, List.disjoint_cons_left, List.disjoint_append_right,
    List.disjoint_append_left, not_or] at hnd h0
  have ha0 : a ≠ 0 := fun h => h0.1 h.symm
  have hc0 : c ≠ 0 := by intro h; subst h; tauto
  have hca : c ≠ a := by intro h; subst h; tauto
  obtain ⟨mem1, e, ec, ea, eo⟩ := avlLeftRotate_eq mem a ha0 (by rw [h3]; exact hc0)
    (by rw [h3]; exact hca)
  rw [h3] at e ec ea eo
  refine ⟨mem1, e, ?_, eo, by rw [ec], by rw [ea], ?_⟩
  swap
  · intro p hp
    refine ⟨by rw [ec]; exact hp.1, by rw [ea], ?_⟩
    refine SpineUp_congr mem mem1 l a (fun q hq => ?_) hp.2
    have hq := AvlT.spine_subset l q hq
    rw [eo q (by rintro rfl; tauto) (by rintro rfl; tauto)]
  have fr : ∀ t : AvlT α, a ∉ t.addrs → c ∉ t.addrs → Rep mem t → Rep mem1 t := by
    intro t hat hct hr
    refine Rep_of_eq mem mem1 t (fun q hq => eo q ?_ ?_) hr
    · rintro rfl; exact hat hq
    · rintro rfl; exact hct hq
  simp only [rotL]
  refine ⟨?_, ?_, ?_, ?_, ⟨?_, ?_, ?_, ?_, ?_, ?_⟩, ?_⟩
  · rw [ec, h1, hc1]
  · rw [ec]; rfl
  · rw [ec, hc3]
  · rw [ec, hc4]
  · rw [ea, h1, hc1]
  · rw [ea, h2]
  · rw [ea, hc2]
  · rw [ea, h4]
  · exact fr l (by tauto) (by tauto) hl
  · exact fr rl (by tauto) (by tauto) hrl
  · exact fr rr (by tauto) (by tauto) hrr

/-- The function `avlRightRotate` on the memory of a tree with a left subtree:
the memory holds the rotated tree. -/
theorem avlRightRotate_rep {α : Type} (mem : Nat → avl_tree α) (a : Nat) (ba : Int)
    (c : Nat) (bc : Int) (ll : AvlT α) (y : α) (lr : AvlT α) (x : α) (r : AvlT α)
    (hrep : Rep mem (.node a ba (.node c bc ll y lr) x r))
    (hnd : (AvlT.node a ba (.node c bc ll y lr) x r).addrs.Nodup)
    (h0 : 0 ∉ (AvlT.node a ba (.node c bc ll y lr) x r).addrs) :
    ∃ mem1, avlRightRotate mem a = some (mem1, c) ∧
      Rep mem1 (rotR (.node a ba (.node c bc ll y lr) x r)) ∧
      (∀ q, q ≠ a → q ≠ c → mem1 q = mem q) ∧ (mem1 c).Up = (mem a).Up ∧ (mem1 a).Up = c ∧
      ∀ p, SpineUp mem (.node a ba (.node c bc ll y lr) x r) p →
        SpineUp mem1 (rotR (.node a ba (.node c bc ll y lr) x r)) p := by
  obtain ⟨h1, h2, h3, h4, ⟨hc1, hc2, hc3, hc4, hll, hlr⟩, hr⟩ := hrep
  simp only [AvlT.addr_node] at h2
  simp only [AvlT.addrs, List.nodup_cons, List.mem_cons, List.mem_append, List.nodup_append,
    List.disjoint_cons_right, List.disjoint_cons_left, List.disjoint_append_right,
    List.disjoint_append_left, not_or] at hnd h0
  have ha0 : a ≠ 0 := fun h => h0.1 h.symm
  have hc0 : c ≠ 0 := by intro h; subst h; tauto
  have hca : c ≠ a := by intro h; subst h; tauto
  obtain ⟨mem1, e, ec, ea, eo⟩ := avlRightRotate_eq mem a ha0 (by rw [h2]; exact hc0)
    (by rw [h2]; exact hca)
  rw [h2] at e ec ea eo
  refine ⟨mem1, e, ?_, eo, by rw [ec], by rw [ea], ?_⟩
  swap
  · intro p hp
    refine ⟨by rw [ec]; exact hp.1, ?_⟩
    refine SpineUp_congr mem mem1 ll c (fun q hq => ?_) hp.2.2
    have hq := AvlT.spine_subset ll q hq
    rw [eo q (by rintro rfl; tauto) (by rintro rfl; tauto)]
  have fr : ∀ t : AvlT α, a ∉ t.addrs → c ∉ t.addrs → Rep mem t → Rep mem1 t := by
    intro t hat hct hr
    refine Rep_of_eq mem mem1 t (fun q hq => eo q ?_ ?_) hr
    · rintro rfl; exact hat hq
    · rintro rfl; exact hct hq
  simp only [rotR]
  refine ⟨?_, ?_, ?_, ?_, ?_, ⟨?_, ?_, ?_, ?_, ?_, ?_⟩⟩
  · rw [ec, h1, hc1]
  · rw [ec, hc2]
  · rw [ec]; rfl
  · rw [ec, hc4]
  · exact fr ll (by tauto) (by tauto) hll
  · rw [ea, h1, hc1]
  · rw [ea, hc3]
  · rw [ea, h3]
  · rw [ea, h4]
  · exact fr lr (by tauto) (by tauto) hlr
  · exact fr r (by tauto) (by tauto) hr

/-- A write outside a tree leaves the memory holding the tree. -/
theorem Rep_wr {α : Type} (m : Nat → avl_tree α) (t : AvlT α) (p : Nat) (n : avl_tree α)
    (hp : p ∉ t.addrs) (h : Rep m t) : Rep (wr m p n) t :=
  Rep_of_eq m _ t (fun q hq => wr_other m p q n (by rintro rfl; exact hp hq)) h

/-- A write outside a tree leaves the `Up` pointers of its left spine. -/
theorem SpineUp_wr {α : Type} (m : Nat → avl_tree α) (t : AvlT α) (u p : Nat) (n : avl_tree α)
    (hp : p ∉ t.addrs) (h : SpineUp m t u) : SpineUp (wr m p n) t u :=
  SpineUp_congr m _ t u (fun q hq => by
    rw [wr_other m p q n (by rintro rfl; exact hp (AvlT.spine_subset t _ hq))]) h

/-- The rotations of `avlInsert` and `avlExtractNode` at a node whose right
subtree is too high, on the memory of the tree: the memory holds the rotated
tree. -/
theorem rotateRightHeavy_rep {α : Type} (mem : Nat → avl_tree α) (a : Nat) (ba : Int)
    (l : AvlT α) (y : α) (r : AvlT α)
    (hrep : Rep mem (.node a ba l y r)) (hnd : (AvlT.node a ba l y r).addrs.Nodup)
    (h0 : 0 ∉ (AvlT.node a ba l y r).addrs) (hr : r.isNil = false) (hav : Avl r) :
    ∃ mem2, rotateRightHeavy mem a
        = some (mem2, (rotL (.node a ba l y (if r.bal = -1 then rotR r else r))).addr) ∧
      Rep mem2 (rotL (.node a ba l y (if r.bal = -1 then rotR r else r))) ∧
      (∀ q, q ∉ (AvlT.node a ba l y r).addrs → mem2 q = mem q) ∧
      (mem2 (rotL (.node a ba l y (if r.bal = -1 then rotR r else r))).addr).Up = (mem a).Up ∧
      ∀ p, SpineUp mem (.node a ba l y r) p →
        SpineUp mem2 (rotL (.node a ba l y (if r.bal = -1 then rotR r else r))) p := by
  cases r with
  | nil => exact Bool.noConfusion hr
  | node c bc rl z rr =>
    have hrep0 := hrep
    obtain ⟨h1, h2, h3, h4, hl, hc1, hc2, hc3, hc4, hrl, hrr⟩ := hrep
    simp only [AvlT.addr_node] at h3
    have hnd0 := hnd
    have h00 := h0
    simp only [AvlT.addrs, List.nodup_cons, List.mem_cons, List.mem_append, List.nodup_append,
      List.disjoint_cons_right, List.disjoint_cons_left, List.disjoint_append_right,
      List.disjoint_append_left, not_or] at hnd h0
    have hc0 : c ≠ 0 := by intro h; subst h; tauto
    unfold rotateRightHeavy
    simp only [h3, if_neg hc0, hc1, AvlT.bal]
    by_cases hb : bc = -1
    · simp only [if_pos hb]
      cases rl with
      | nil =>
        obtain ⟨hx, _⟩ := hav
        simp only [AvlT.height] at hx
        omega
      | node d bd dl w dr =>
        have hndr : (AvlT.node c bc (.node d bd dl w dr) z rr).addrs.Nodup := by
          simp only [AvlT.addrs, List.nodup_cons, List.mem_cons, List.mem_append,
            List.nodup_append, List.disjoint_cons_right, List.disjoint_cons_left,
            List.disjoint_append_right, List.disjoint_append_left, not_or] at hnd ⊢
          tauto
        have h0r : 0 ∉ (AvlT.node c bc (.node d bd dl w dr) z rr).addrs := by
          simp only [AvlT.addrs, List.mem_cons, List.mem_append, not_or] at h0 ⊢
          tauto
        obtain ⟨m1, e1, hrep1, fr1, _, _, _⟩ :=
          avlRightRotate_rep mem c bc d bd dl w dr z rr ⟨hc1, hc2, hc3, hc4, hrl, hrr⟩ hndr h0r
        simp only [e1]
        simp only [AvlT.addrs, List.nodup_cons, List.mem_cons, List.mem_append,
          List.nodup_append, List.disjoint_cons_right, List.disjoint_cons_left,
          List.disjoint_append_right, List.disjoint_append_left, not_or] at hnd h0
        have hac : a ≠ c := by tauto
        have had : a ≠ d := by tauto
        have hm1a : m1 a = mem a := fr1 a hac had
        have hrep2 : Rep (wr m1 a { m1 a with Right := d })
            (.node a ba l y (rotR (.node c bc (.node d bd dl w dr) z rr))) := by
          refine ⟨?_, ?_, ?_, ?_, ?_, ?_⟩
          · rw [wr_same]; simp only [hm1a]; exact h1
          · rw [wr_same]; simp only [hm1a]; exact h2
          · rw [wr_same]; rfl
          · rw [wr_same]; simp only [hm1a]; exact h4
          · apply Rep_wr _ _ _ _ (by tauto)
            exact Rep_of_eq mem m1 l (fun q hq => fr1 q (by rintro rfl; tauto)
              (by rintro rfl; tauto)) hl
          · apply Rep_wr _ _ _ _ ?_ hrep1
            intro hmem
            have := (rotR_addrs (AvlT.node c bc (.node d bd dl w dr) z rr)).subset hmem
            simp only [AvlT.addrs, List.mem_cons, List.mem_append] at this
            tauto
        have hperm : (AvlT.node a ba l y (rotR (.node c bc (.node d bd dl w dr) z rr))).addrs.Perm
            (AvlT.node a ba l y (.node c bc (.node d bd dl w dr) z rr)).addrs := by
          simp only [AvlT.addrs]
          exact List.Perm.cons a (List.Perm.append_left _
            (rotR_addrs (AvlT.node c bc (.node d bd dl w dr) z rr)))
        have hnd2 := hperm.nodup_iff.mpr hnd0
        have h02 : 0 ∉ (AvlT.node a ba l y
            (rotR (.node c bc (.node d bd dl w dr) z rr))).addrs :=
          fun h => h00 (hperm.subset h)
        simp only [rotR] at hrep2 hnd2 h02 hperm ⊢
        obtain ⟨m2, e2, hrep3, fr2, hup2, _, hsp2⟩ := avlLeftRotate_rep _ a ba l y d _ dl w _
          hrep2 hnd2 h02
        refine ⟨m2, e2, hrep3, ?_, ?_, ?_⟩
        · intro q hq
          simp only [AvlT.addrs, List.mem_cons, List.mem_append, not_or] at hq
          rw [fr2 q (by tauto) (by tauto), wr_other _ _ _ _ (by tauto),
            fr1 q (by tauto) (by tauto)]
        · simp only [rotL, AvlT.addr_node]
          rw [hup2, wr_same]
          simp only [hm1a]
        · intro p hp
          apply hsp2
          refine ⟨?_, ?_⟩
          · rw [wr_same]; simp only [hm1a]; exact hp.1
          · apply SpineUp_wr _ _ _ _ _ (by tauto)
            exact SpineUp_congr mem m1 l a (fun q hq => by
              have := AvlT.spine_subset l q hq
              rw [fr1 q (by rintro rfl; tauto) (by rintro rfl; tauto)]) hp.2
    · simp only [if_neg hb]
      obtain ⟨m2, e2, hrep3, fr2, hup2, _, hsp2⟩ := avlLeftRotate_rep mem a ba l y c bc rl z rr
        hrep0 hnd0 h00
      refine ⟨m2, e2, hrep3, ?_, ?_, hsp2⟩
      · intro q hq
        simp only [AvlT.addrs, List.mem_cons, List.mem_append, not_or] at hq
        exact fr2 q (by tauto) (by tauto)
      · simp only [rotL, AvlT.addr_node]
        exact hup2

/-- The rotations of `avlInsert` at a node whose left subtree is too high, on the
memory of the tree: the memory holds the rotated tree. -/
theorem rotateLeftHeavy_rep {α : Type} (mem : Nat → avl_tree α) (a : Nat) (ba : Int)
    (l : AvlT α) (y : α) (r : AvlT α)
    (hrep : Rep mem (.node a ba l y r)) (hnd : (AvlT.node a ba l y r).addrs.Nodup)
    (h0 : 0 ∉ (AvlT.node a ba l y r).addrs) (hl : l.isNil = false) (hav : Avl l) :
    ∃ mem2, rotateLeftHeavy mem a
        = some (mem2, (rotR (.node a ba (if l.bal = 1 then rotL l else l) y r)).addr) ∧
      Rep mem2 (rotR (.node a ba (if l.bal = 1 then rotL l else l) y r)) ∧
      (∀ q, q ∉ (AvlT.node a ba l y r).addrs → mem2 q = mem q) ∧
      (mem2 (rotR (.node a ba (if l.bal = 1 then rotL l else l) y r)).addr).Up = (mem a).Up ∧
      ∀ p, SpineUp mem (.node a ba l y r) p →
        SpineUp mem2 (rotR (.node a ba (if l.bal = 1 then rotL l else l) y r)) p := by
  cases l with
  | nil => exact Bool.noConfusion hl
  | node c bc ll z lr =>
    have hrep0 := hrep
    obtain ⟨h1, h2, h3, h4, ⟨hc1, hc2, hc3, hc4, hll, hlr⟩, hr⟩ := hrep
    simp only [AvlT.addr_node] at h2
    have hnd0 := hnd
    have h00 := h0
    simp only [AvlT.addrs, List.nodup_cons, List.mem_cons, List.mem_append, List.nodup_append,
      List.disjoint_cons_right, List.disjoint_cons_left, List.disjoint_append_right,
      List.disjoint_append_left, not_or] at hnd h0
    have hc0 : c ≠ 0 := by intro h; subst h; tauto
    unfold rotateLeftHeavy
    simp only [h2, if_neg hc0, hc1, AvlT.bal]
    by_cases hb : bc = 1
    · simp only [if_pos hb]
      cases lr with
      | nil =>
        obtain ⟨hx, _⟩ := hav
        simp only [AvlT.height] at hx
        omega
      | node d bd dl w dr =>
        have hndl : (AvlT.node c bc ll z (.node d bd dl w dr)).addrs.Nodup := by
          simp only [AvlT.addrs, List.nodup_cons, List.mem_cons, List.mem_append,
            List.nodup_append, List.disjoint_cons_right, List.disjoint_cons_left,
            List.disjoint_append_right, List.disjoint_append_left, not_or] at hnd ⊢
          tauto
        have h0l : 0 ∉ (AvlT.node c bc ll z (.node d bd dl w dr)).addrs := by
          simp only [AvlT.addrs, List.mem_cons, List.mem_append, not_or] at h0 ⊢
          tauto
        obtain ⟨m1, e1, hrep1, fr1, _, _, hsp1⟩ :=
          avlLeftRotate_rep mem c bc ll z d bd dl w dr ⟨hc1, hc2, hc3, hc4, hll, hlr⟩ hndl h0l
        simp only [e1]
        simp only [AvlT.addrs, List.nodup_cons, List.mem_cons, List.mem_append,
          List.nodup_append, List.disjoint_cons_right, List.disjoint_cons_left,
          List.disjoint_append_right, List.disjoint_append_left, not_or] at hnd h0
        have hac : a ≠ c := by tauto
        have had : a ≠ d := by tauto
        have hm1a : m1 a = mem a := fr1 a hac had
        have hnotin : a ∉ (rotL (AvlT.node c bc ll z (.node d bd dl w dr))).addrs := by
          intro hmem
          have := (rotL_addrs (AvlT.node c bc ll z (.node d bd dl w dr))).subset hmem
          simp only [AvlT.addrs, List.mem_cons, List.mem_append] at this
          tauto
        have hrep2 : Rep (wr m1 a { m1 a with Left := d })
            (.node a ba (rotL (.node c bc ll z (.node d bd dl w dr))) y r) := by
          refine ⟨?_, ?_, ?_, ?_, ?_, ?_⟩
          · rw [wr_same]; simp only [hm1a]; exact h1
          · rw [wr_same]; rfl
          · rw [wr_same]; simp only [hm1a]; exact h3
          · rw [wr_same]; simp only [hm1a]; exact h4
          · exact Rep_wr _ _ _ _ hnotin hrep1
          · apply Rep_wr _ _ _ _ (by tauto)
            exact Rep_of_eq mem m1 r (fun q hq => fr1 q (by rintro rfl; tauto)
              (by rintro rfl; tauto)) hr
        have hperm : (AvlT.node a ba (rotL (.node c bc ll z (.node d bd dl w dr))) y r).addrs.Perm
            (AvlT.node a ba (.node c bc ll z (.node d bd dl w dr)) y r).addrs := by
          simp only [AvlT.addrs]
          exact List.Perm.cons a (List.Perm.append_right _
            (rotL_addrs (AvlT.node c bc ll z (.node d bd dl w dr))))
        have hnd2 := hperm.nodup_iff.mpr hnd0
        have h02 : 0 ∉ (AvlT.node a ba
            (rotL (.node c bc ll z (.node d bd dl w dr))) y r).addrs :=
          fun h => h00 (hperm.subset h)
        have hsp1a : ∀ p, SpineUp mem (.node a ba (.node c bc ll z (.node d bd dl w dr)) y r) p →
            SpineUp (wr m1 a { m1 a with Left := d })
              (.node a ba (rotL (.node c bc ll z (.node d bd dl w dr))) y r) p := by
          intro p hp
          refine ⟨?_, ?_⟩
          · rw [wr_same]; simp only [hm1a]; exact hp.1
          · exact SpineUp_wr _ _ _ _ _ hnotin (hsp1 a hp.2)
        simp only [rotL] at hrep2 hnd2 h02 hperm hsp1a ⊢
        obtain ⟨m2, e2, hrep3, fr2, hup2, _, hsp2⟩ := avlRightRotate_rep _ a ba d _ _ w dr y r
          hrep2 hnd2 h02
        refine ⟨m2, e2, hrep3, ?_, ?_, ?_⟩
        · intro q hq
          simp only [AvlT.addrs, List.mem_cons, List.mem_append, not_or] at hq
          rw [fr2 q (by tauto) (by tauto), wr_other _ _ _ _ (by tauto),
            fr1 q (by tauto) (by tauto)]
        · simp only [rotR, AvlT.addr_node]
          rw [hup2, wr_same]
          simp only [hm1a]
        · intro p hp
          exact hsp2 p (hsp1a p hp)
    · simp only [if_neg hb]
      obtain ⟨m2, e2, hrep3, fr2, hup2, _, hsp2⟩ := avlRightRotate_rep mem a ba c bc ll z lr y r
        hrep0 hnd0 h00
      refine ⟨m2, e2, hrep3, ?_, ?_, hsp2⟩
      · intro q hq
        simp only [AvlT.addrs, List.mem_cons, List.mem_append, not_or] at hq
        exact fr2 q (by tauto) (by tauto)
      · simp only [rotR, AvlT.addr_node]
        exact hup2

/-- The nodes of a tree that is not empty. -/
theorem AvlT.mem_node {α : Type} (q a : Nat) (b : Int) (l : AvlT α) (x : α) (r : AvlT α) :
    q ∈ (AvlT.node a b l x r).addrs ↔ q = a ∨ q ∈ l.addrs ∨ q ∈ r.addrs := by
  simp [AvlT.addrs]

/-- The nodes of a tree that is not empty are at distinct addresses when the root
is not in the subtrees and the subtrees have distinct nodes of their own. -/
theorem AvlT.nodup_node {α : Type} (a : Nat) (b : Int) (l : AvlT α) (x : α) (r : AvlT α) :
    (AvlT.node a b l x r).addrs.Nodup ↔
      a ∉ l.addrs ∧ a ∉ r.addrs ∧ l.addrs.Nodup ∧ r.addrs.Nodup ∧ l.addrs.Disjoint r.addrs := by
  simp only [AvlT.addrs, List.nodup_cons, List.mem_append, List.nodup_append, not_or]
  tauto

/-! ## sortedqueue.c : `avlInsert` on the memory of a tree -/

/-- The function `avlInsertLeft` when the call on the left subtree returned a new
node for an empty left subtree. -/
theorem avlInsertLeft_leaf {α : Type} (SQ : sorted_queue α) (a ret : Nat) (hret : ret ≠ 0)
    (hleft : (SQ.mem a).Left = 0) (hne : ret ≠ a) :
    ∃ SQ2, avlInsertLeft SQ a ret = some (SQ2, 0) ∧ SameCtl SQ SQ2 ∧
      SQ2.mem a = { SQ.mem a with Balance := (SQ.mem a).Balance - 1, Left := ret } ∧
      SQ2.mem ret = { SQ.mem ret with Up := a } ∧
      (∀ q, q ≠ a → q ≠ ret → SQ2.mem q = SQ.mem q) ∧
      SQ2.Taller = decide ((SQ.mem a).Balance - 1 < 0) ∧
      SQ2.ReadyNode = (if a = SQ.ReadyNode then ret else SQ.ReadyNode) := by
  unfold avlInsertLeft
  simp only [if_pos hret, hleft, if_true]
  refine ⟨_, rfl, ⟨rfl, rfl, rfl, rfl, rfl⟩, ?_, ?_, ?_, ?_, rfl⟩
  · simp [wr, hne, Ne.symm hne, hleft]
  · simp [wr, hne, Ne.symm hne]
  · intro q hqa hqr
    simp [wr, hqa, hqr]
  · simp [wr, hne, Ne.symm hne]

/-- The function `avlInsertLeft` when the call on the left subtree returned the
new root of that subtree. -/
theorem avlInsertLeft_link {α : Type} (SQ : sorted_queue α) (a ret : Nat) (hret : ret ≠ 0)
    (hleft : (SQ.mem a).Left ≠ 0) :
    ∃ SQ2, avlInsertLeft SQ a ret = some (SQ2, 0) ∧ SameCtl SQ SQ2 ∧
      SQ2.mem a = { SQ.mem a with Left := ret } ∧
      (∀ q, q ≠ a → SQ2.mem q = SQ.mem q) ∧
      SQ2.Taller = false ∧ SQ2.ReadyNode = SQ.ReadyNode := by
  unfold avlInsertLeft
  simp only [if_pos hret, if_neg hleft]
  refine ⟨_, rfl, ⟨rfl, rfl, rfl, rfl, rfl⟩, ?_, ?_, rfl, rfl⟩
  · simp [wr]
  · intro q hqa
    simp [wr, hqa]

/-- The function `avlInsertLeft` when the left subtree got higher and the node
was balanced or right-heavy. -/
theorem avlInsertLeft_taller {α : Type} (SQ : sorted_queue α) (a : Nat)
    (htl : SQ.Taller = true) (hb : (SQ.mem a).Balance - 1 ≠ -2) :
    ∃ SQ2, avlInsertLeft SQ a 0 = some (SQ2, 0) ∧ SameCtl SQ SQ2 ∧
      SQ2.mem a = { SQ.mem a with Balance := (SQ.mem a).Balance - 1 } ∧
      (∀ q, q ≠ a → SQ2.mem q = SQ.mem q) ∧
      SQ2.Taller = decide ((SQ.mem a).Balance - 1 = -1) ∧ SQ2.ReadyNode = SQ.ReadyNode := by
  unfold avlInsertLeft
  simp only [ne_eq, not_true_eq_false, if_false, htl, if_true, wr_same, if_neg hb]
  refine ⟨_, rfl, ⟨rfl, rfl, rfl, rfl, rfl⟩, ?_, ?_, rfl, rfl⟩
  · simp [wr]
  · intro q hqa
    simp [wr, hqa]

/-- The function `avlInsertLeft` when the left subtree got higher and the node
was left-heavy: the rotations. -/
theorem avlInsertLeft_rotate {α : Type} (SQ : sorted_queue α) (a : Nat)
    (htl : SQ.Taller = true) (hb : (SQ.mem a).Balance - 1 = -2)
    (m2 : Nat → avl_tree α) (top : Nat)
    (hrot : rotateLeftHeavy
      (wr SQ.mem a { SQ.mem a with Balance := (SQ.mem a).Balance - 1 }) a = some (m2, top)) :
    avlInsertLeft SQ a 0 = some ({ SQ with mem := m2 }, top) := by
  unfold avlInsertLeft
  simp only [ne_eq, not_true_eq_false, if_false, htl, if_true, wr_same, if_pos hb, hrot]

/-- The function `avlInsertLeft` when the left subtree did not get higher. -/
theorem avlInsertLeft_same {α : Type} (SQ : sorted_queue α) (a : Nat)
    (htl : SQ.Taller = false) : avlInsertLeft SQ a 0 = some (SQ, 0) := by
  unfold avlInsertLeft
  simp [htl]

/-- The function `avlInsertRight` when the call on the right subtree returned a
new node for an empty right subtree. -/
theorem avlInsertRight_leaf {α : Type} (SQ : sorted_queue α) (a ret : Nat) (hret : ret ≠ 0)
    (hright : (SQ.mem a).Right = 0) (hne : ret ≠ a) :
    ∃ SQ2, avlInsertRight SQ a ret = some (SQ2, 0) ∧ SameCtl SQ SQ2 ∧
      SQ2.mem a = { SQ.mem a with Balance := (SQ.mem a).Balance + 1, Right := ret } ∧
      SQ2.mem ret = { SQ.mem ret with Up := a } ∧
      (∀ q, q ≠ a → q ≠ ret → SQ2.mem q = SQ.mem q) ∧
      SQ2.Taller = decide ((SQ.mem a).Balance + 1 > 0) ∧
      SQ2.ReadyNode = SQ.ReadyNode := by
  unfold avlInsertRight
  simp only [if_pos hret, hright, if_true]
  refine ⟨_, rfl, ⟨rfl, rfl, rfl, rfl, rfl⟩, ?_, ?_, ?_, ?_, rfl⟩
  · simp [wr, hne, Ne.symm hne, hright]
  · simp [wr, hne, Ne.symm hne]
  · intro q hqa hqr
    simp [wr, hqa, hqr]
  · simp [wr, hne, Ne.symm hne]

/-- The function `avlInsertRight` when the call on the right subtree returned the
new root of that subtree. -/
theorem avlInsertRight_link {α : Type} (SQ : sorted_queue α) (a ret : Nat) (hret : ret ≠ 0)
    (hright : (SQ.mem a).Right ≠ 0) :
    ∃ SQ2, avlInsertRight SQ a ret = some (SQ2, 0) ∧ SameCtl SQ SQ2 ∧
      SQ2.mem a = { SQ.mem a with Right := ret } ∧
      (∀ q, q ≠ a → SQ2.mem q = SQ.mem q) ∧
      SQ2.Taller = false ∧ SQ2.ReadyNode = SQ.ReadyNode := by
  unfold avlInsertRight
  simp only [if_pos hret, if_neg hright]
  refine ⟨_, rfl, ⟨rfl, rfl, rfl, rfl, rfl⟩, ?_, ?_, rfl, rfl⟩
  · simp [wr]
  · intro q hqa
    simp [wr, hqa]

/-- The function `avlInsertRight` when the right subtree got higher and the node
was balanced or left-heavy. -/
theorem avlInsertRight_taller {α : Type} (SQ : sorted_queue α) (a : Nat)
    (htl : SQ.Taller = true) (hb : (SQ.mem a).Balance + 1 ≠ 2) :
    ∃ SQ2, avlInsertRight SQ a 0 = some (SQ2, 0) ∧ SameCtl SQ SQ2 ∧
      SQ2.mem a = { SQ.mem a with Balance := (SQ.mem a).Balance + 1 } ∧
      (∀ q, q ≠ a → SQ2.mem q = SQ.mem q) ∧
      SQ2.Taller = decide ((SQ.mem a).Balance + 1 = 1) ∧ SQ2.ReadyNode = SQ.ReadyNode := by
  unfold avlInsertRight
  simp only [ne_eq, not_true_eq_false, if_false, htl, if_true, wr_same, if_neg hb]
  refine ⟨_, rfl, ⟨rfl, rfl, rfl, rfl, rfl⟩, ?_, ?_, rfl, rfl⟩
  · simp [wr]
  · intro q hqa
    simp [wr, hqa]

/-- The function `avlInsertRight` when the right subtree got higher and the node
was right-heavy: the rotations. -/
theorem avlInsertRight_rotate {α : Type} (SQ : sorted_queue α) (a : Nat)
    (htl : SQ.Taller = true) (hb : (SQ.mem a).Balance + 1 = 2)
    (m2 : Nat → avl_tree α) (top : Nat)
    (hrot : rotateRightHeavy
      (wr SQ.mem a { SQ.mem a with Balance := (SQ.mem a).Balance + 1 }) a = some (m2, top)) :
    avlInsertRight SQ a 0 = some ({ SQ with mem := m2 }, top) := by
  unfold avlInsertRight
  simp only [ne_eq, not_true_eq_false, if_false, htl, if_true, wr_same, if_pos hb, hrot]

/-- The function `avlInsertRight` when the right subtree did not get higher. -/
theorem avlInsertRight_same {α : Type} (SQ : sorted_queue α) (a : Nat)
    (htl : SQ.Taller = false) : avlInsertRight SQ a 0 = some (SQ, 0) := by
  unfold avlInsertRight
  simp [htl]

/-- A tree of height 1 is a leaf. -/
theorem AvlT.leaf_of_height_one {α : Type} (t : AvlT α) (h : t.height = 1) :
    ∃ c bc z, t = AvlT.node c bc .nil z .nil := by
  cases t with
  | nil => simp [AvlT.height] at h
  | node c bc l z r =>
    simp only [AvlT.height] at h
    have hl : l.isNil = true := AvlT.isNil_of_height l (by omega)
    have hr : r.isNil = true := AvlT.isNil_of_height r (by omega)
    cases l with
    | node _ _ _ _ _ => exact Bool.noConfusion hl
    | nil =>
      cases r with
      | node _ _ _ _ _ => exact Bool.noConfusion hr
      | nil => exact ⟨c, bc, z, rfl⟩

/-- The address of an empty tree. -/
theorem AvlT.addr_of_isNil {α : Type} (t : AvlT α) (h : t.isNil = true) : t.addr = 0 := by
  cases t with
  | nil => rfl
  | node _ _ _ _ _ => exact Bool.noConfusion h

/-- The statements of `avlInsert` that follow the call on the left subtree, on the
memory of the tree. -/
theorem avlInsertLeft_spec {α : Type} (SQ SQ1 : sorted_queue α) (n ret1 a : Nat) (b : Int)
    (l : AvlT α) (y : α) (r l1 : AvlT α) (nn tl : Bool)
    (hrep : Rep SQ.mem (.node a b l y r)) (hav : Avl (.node a b l y r))
    (hnd : (AvlT.node a b l y r).addrs.Nodup) (h0 : 0 ∉ (AvlT.node a b l y r).addrs)
    (hn0 : n ≠ 0) (hn : n ∉ (AvlT.node a b l y r).addrs)
    (hpost : InsPost SQ SQ1 ret1 n l l1 nn tl) (hok : InsOk l l1 nn tl)
    (hperm : l1.addrs.Perm (n :: l.addrs)) :
    ∃ SQ2 ret2, avlInsertLeft SQ1 a ret1 = some (SQ2, ret2) ∧
      InsPost SQ SQ2 ret2 n (.node a b l y r) (insLeftF a b l1 nn tl l.isNil y r).1
        (insLeftF a b l1 nn tl l.isNil y r).2.1 (insLeftF a b l1 nn tl l.isNil y r).2.2 := by
  obtain ⟨hret, hrep1, hfr, hheap, hmal, hcmp, hroot, hel, htal, hup0, hsp, hrdy1, hrdy2⟩ := hpost
  obtain ⟨h1, h2, h3, h4, hl, hr⟩ := hrep
  obtain ⟨hav1, hnil1, hnn, hnot⟩ := hok
  have hmem1 : ∀ q, q ∈ l1.addrs ↔ q = n ∨ q ∈ l.addrs := by
    intro q; rw [hperm.mem_iff]; simp
  obtain ⟨hal, har, hndl, hndr, hdis⟩ := (AvlT.nodup_node a b l y r).mp hnd
  have h0a : a ≠ 0 := fun h => h0 ((AvlT.mem_node 0 a b l y r).mpr (Or.inl h.symm))
  have h0l : 0 ∉ l.addrs := fun h => h0 ((AvlT.mem_node 0 a b l y r).mpr (Or.inr (Or.inl h)))
  have h0r : 0 ∉ r.addrs := fun h => h0 ((AvlT.mem_node 0 a b l y r).mpr (Or.inr (Or.inr h)))
  have han : a ≠ n := fun h => hn ((AvlT.mem_node n a b l y r).mpr (Or.inl h.symm))
  have hnl : n ∉ l.addrs := fun h => hn ((AvlT.mem_node n a b l y r).mpr (Or.inr (Or.inl h)))
  have hnr : n ∉ r.addrs := fun h => hn ((AvlT.mem_node n a b l y r).mpr (Or.inr (Or.inr h)))
  have hal1 : a ∉ l1.addrs := by
    rw [hmem1]; rintro (h | h)
    · exact han h
    · exact hal h
  have hma : SQ1.mem a = SQ.mem a := hfr a han hal
  have hrepr : Rep SQ1.mem r :=
    Rep_of_eq SQ.mem SQ1.mem r (fun q hq => hfr q (by rintro rfl; exact hnr hq)
      (fun hql => hdis hql hq)) hr
  have hl1addr : l1.addr ∈ l1.addrs := AvlT.addr_mem l1 hnil1
  have h0l1 : 0 ∉ l1.addrs := by
    rw [hmem1]; rintro (h | h)
    · exact hn0 h.symm
    · exact h0l h
  have hl10 : l1.addr ≠ 0 := fun h => h0l1 (h ▸ hl1addr)
  have hdis1 : l1.addrs.Disjoint r.addrs := by
    intro q hq hqr
    rcases (hmem1 q).mp hq with rfl | hq
    · exact hnr hqr
    · exact hdis hq hqr
  have hndl1 : l1.addrs.Nodup := hperm.nodup_iff.mpr (List.nodup_cons.mpr ⟨hnl, hndl⟩)
  have hnd1 : ∀ b1 : Int, (AvlT.node a b1 l1 y r).addrs.Nodup := fun b1 =>
    (AvlT.nodup_node a b1 l1 y r).mpr ⟨hal1, har, hndl1, hndr, hdis1⟩
  have h01 : ∀ b1 : Int, 0 ∉ (AvlT.node a b1 l1 y r).addrs := by
    intro b1 h
    rcases (AvlT.mem_node 0 a b1 l1 y r).mp h with h | h | h
    · exact h0a h.symm
    · exact h0l1 h
    · exact h0r h
  have hframe : ∀ (m : Nat → avl_tree α),
      (∀ q, q ≠ a → q ∉ l1.addrs → q ∉ r.addrs → m q = SQ1.mem q) →
      ∀ q, q ≠ n → q ∉ (AvlT.node a b l y r).addrs → m q = SQ.mem q := by
    intro m hm q hqn hq
    have hqa : q ≠ a := fun h => hq ((AvlT.mem_node q a b l y r).mpr (Or.inl h))
    have hql : q ∉ l.addrs := fun h => hq ((AvlT.mem_node q a b l y r).mpr (Or.inr (Or.inl h)))
    have hqr : q ∉ r.addrs := fun h => hq ((AvlT.mem_node q a b l y r).mpr (Or.inr (Or.inr h)))
    rw [hm q hqa (by rw [hmem1]; rintro (h | h); exact hqn h; exact hql h) hqr]
    exact hfr q hqn hql
  have hret1a : l1.addr ≠ a := fun h => hal1 (h ▸ hl1addr)
  have hctl : ∀ SQ2 : sorted_queue α, SameCtl SQ1 SQ2 →
      SQ2.heap = n :: SQ.heap ∧ SQ2.malloc = SQ.malloc ∧ SQ2.cmpFunc = SQ.cmpFunc ∧
        SQ2.Root = SQ.Root ∧ SQ2.ElementNum = toI32 (SQ.ElementNum + 1) := by
    intro SQ2 h
    exact ⟨h.1.trans hheap, h.2.1.trans hmal, h.2.2.1.trans hcmp, h.2.2.2.1.trans hroot,
      h.2.2.2.2.trans hel⟩
  cases nn with
  | true =>
    have hret1 : ret1 = l1.addr := hret
    have hne : ret1 ≠ 0 := by rw [hret1]; exact hl10
    have hnn := hnn rfl
    cases hw : l.isNil with
    | true =>
      have hleft : (SQ1.mem a).Left = 0 := by rw [hma, h2, AvlT.addr_of_isNil l hw]
      have e : insLeftF a b l1 true tl true y r
          = (.node a (b - 1) l1 y r, false, decide (b - 1 < 0)) := rfl
      rw [e]
      obtain ⟨SQ2, e2, hc2, hma2, hmr2, hmo2, htal2, hrdy⟩ :=
        avlInsertLeft_leaf SQ1 a ret1 hne hleft (by rw [hret1]; exact hret1a)
      have hh1 : l1.height = 1 := by
        rcases hnn with ⟨_, h⟩ | ⟨h, _⟩
        · exact h
        · rw [hw] at h; exact Bool.noConfusion h
      obtain ⟨c, bc, z, rfl⟩ := AvlT.leaf_of_height_one l1 hh1
      simp only [AvlT.addr_node] at hret1 hret1a
      subst hret1
      have hr1 := hrdy2 (Or.inl hw)
      obtain ⟨g1, g2, g3, g4, g5⟩ := hctl SQ2 hc2
      refine ⟨SQ2, 0, e2, rfl, ⟨?_, ?_, ?_, ?_, ?_, ?_⟩, ?_, g1, g2, g3, g4, g5, ?_, ?_, ?_, ?_, ?_⟩
      · rw [hma2, hma]; exact congrArg (fun v => v - 1) h1
      · rw [hma2]; rfl
      · rw [hma2, hma]; exact h3
      · rw [hma2, hma]; exact h4
      · obtain ⟨k1, k2, k3, k4, _, _⟩ := hrep1
        refine ⟨?_, ?_, ?_, ?_, trivial, trivial⟩
        · rw [hmr2]; exact k1
        · rw [hmr2]; exact k2
        · rw [hmr2]; exact k3
        · rw [hmr2]; exact k4
      · refine Rep_of_eq SQ1.mem SQ2.mem r (fun q hq => hmo2 q ?_ ?_) hrepr
        · rintro rfl; exact har hq
        · rintro rfl; exact hdis1 hl1addr hq
      · refine hframe SQ2.mem (fun q hqa hql _ => hmo2 q hqa ?_)
        rintro rfl; exact hql hl1addr
      · intro _
        rw [htal2, hma, h1]
      · intro h; exact Bool.noConfusion h
      · intro p _ hp
        refine ⟨?_, ?_, trivial⟩
        · rw [hma2, hma]; exact hp.1
        · rw [hmr2]
      · intro _ hrd
        have hlm : (AvlT.node a b l y r).leftmost = a := by
          show (if l.isNil then a else l.leftmost) = a
          rw [hw]; rfl
        rw [hrdy, hr1, hrd, hlm, if_pos rfl]
        rfl
      · intro hrd
        rw [hrdy, hr1]
        rcases hrd with h | h
        · exact Bool.noConfusion h
        · rw [if_neg]
          intro hEq
          exact h ((AvlT.mem_node _ _ b l y r).mpr (Or.inl hEq.symm))
    | false =>
      have hladdr : l.addr ∈ l.addrs := AvlT.addr_mem l hw
      have hleft : (SQ1.mem a).Left ≠ 0 := by
        rw [hma, h2]; intro h; exact h0l (h ▸ hladdr)
      have e : insLeftF a b l1 true tl false y r = (.node a b l1 y r, false, false) := rfl
      rw [e]
      obtain ⟨SQ2, e2, hc2, hma2, hmo2, htal2, hrdy⟩ := avlInsertLeft_link SQ1 a ret1 hne hleft
      obtain ⟨g1, g2, g3, g4, g5⟩ := hctl SQ2 hc2
      refine ⟨SQ2, 0, e2, rfl, ⟨?_, ?_, ?_, ?_, ?_, ?_⟩, ?_, g1, g2, g3, g4, g5, ?_, ?_, ?_, ?_, ?_⟩
      · rw [hma2, hma]; exact h1
      · rw [hma2]; exact hret1
      · rw [hma2, hma]; exact h3
      · rw [hma2, hma]; exact h4
      · exact Rep_of_eq SQ1.mem SQ2.mem l1 (fun q hq => hmo2 q (by rintro rfl; exact hal1 hq)) hrep1
      · exact Rep_of_eq SQ1.mem SQ2.mem r (fun q hq => hmo2 q (by rintro rfl; exact har hq)) hrepr
      · exact hframe SQ2.mem (fun q hqa _ _ => hmo2 q hqa)
      · intro _; exact htal2
      · intro h; exact Bool.noConfusion h
      · intro p _ hp
        refine ⟨?_, ?_⟩
        · rw [hma2, hma]; exact hp.1
        · refine SpineUp_congr SQ1.mem SQ2.mem l1 a (fun q hq => ?_) (hsp a hw hp.2)
          rw [hmo2 q (by rintro rfl; exact hal1 (AvlT.spine_subset l1 _ hq))]
      · intro _ hrd
        have hlm : (AvlT.node a b l y r).leftmost = l.leftmost := by
          show (if l.isNil then a else l.leftmost) = l.leftmost
          rw [hw]; rfl
        have hlm1 : (AvlT.node a b l1 y r).leftmost = l1.leftmost := by
          show (if l1.isNil then a else l1.leftmost) = l1.leftmost
          rw [hnil1]; rfl
        rw [hrdy, hlm1]
        exact hrdy1 hw (hrd.trans hlm)
      · intro hrd
        rw [hrdy]
        rcases hrd with h | h
        · exact Bool.noConfusion h
        · exact hrdy2 (Or.inr (fun hq => h ((AvlT.mem_node _ a b l y r).mpr (Or.inr (Or.inl hq)))))
  | false =>
    obtain ⟨hnl0, haddr, hh, hbal⟩ := hnot rfl
    have hret1 : ret1 = 0 := hret
    subst hret1
    have htal1 : SQ1.Taller = tl := htal rfl
    have hleftv : (SQ1.mem a).Left = l1.addr := by rw [hma, h2, haddr]
    have hlm : (AvlT.node a b l y r).leftmost = l.leftmost := by
      show (if l.isNil then a else l.leftmost) = l.leftmost
      rw [hnl0]; rfl
    have hlmT := insLeftF_leftmost a b l1 false tl l.isNil y r hnil1
    have hrd1 : (AvlT.node a b l y r).isNil = false → SQ.ReadyNode = (AvlT.node a b l y r).leftmost →
        SQ1.ReadyNode = (insLeftF a b l1 false tl l.isNil y r).1.leftmost := by
      intro _ hrd
      rw [hlmT]
      exact hrdy1 hnl0 (hrd.trans hlm)
    have hrd2 : (AvlT.node a b l y r).isNil = true ∨ SQ.ReadyNode ∉ (AvlT.node a b l y r).addrs →
        SQ1.ReadyNode = SQ.ReadyNode := by
      intro hrd
      rcases hrd with h | h
      · exact Bool.noConfusion h
      · exact hrdy2 (Or.inr (fun hq => h ((AvlT.mem_node _ a b l y r).mpr (Or.inr (Or.inl hq)))))
    cases tl with
    | true =>
      by_cases h2b : b - 1 = -2
      · have e : insLeftF a b l1 false true l.isNil y r
            = (rotR (.node a (b - 1) (if l1.bal = 1 then rotL l1 else l1) y r), true, true) := by
          simp [insLeftF, h2b]
        rw [e] at hrd1 ⊢
        have hrepm : Rep (wr SQ1.mem a { SQ1.mem a with Balance := (SQ1.mem a).Balance - 1 })
            (.node a (b - 1) l1 y r) := by
          refine ⟨?_, ?_, ?_, ?_, ?_, ?_⟩
          · rw [wr_same, hma]; exact congrArg (fun v => v - 1) h1
          · rw [wr_same]; exact hleftv
          · rw [wr_same, hma]; exact h3
          · rw [wr_same, hma]; exact h4
          · exact Rep_wr _ _ _ _ hal1 hrep1
          · exact Rep_wr _ _ _ _ har hrepr
        obtain ⟨m2, erot, hrep2, hfr2, hup2, hsp2⟩ :=
          rotateLeftHeavy_rep _ a (b - 1) l1 y r hrepm (hnd1 (b - 1)) (h01 (b - 1)) hnil1 hav1
        have e2 := avlInsertLeft_rotate SQ1 a htal1 (by rw [hma, h1]; exact h2b) m2 _ erot
        obtain ⟨g1, g2, g3, g4, g5⟩ := hctl { SQ1 with mem := m2 } ⟨rfl, rfl, rfl, rfl, rfl⟩
        refine ⟨_, _, e2, rfl, hrep2, ?_, g1, g2, g3, g4, g5, ?_, ?_, ?_, hrd1, hrd2⟩
        · refine hframe m2 (fun q hqa hql hqr => ?_)
          rw [hfr2 q (by
            intro hq
            rcases (AvlT.mem_node q a (b - 1) l1 y r).mp hq with h | h | h
            · exact hqa h
            · exact hql h
            · exact hqr h)]
          exact wr_other _ _ _ _ hqa
        · intro h; exact Bool.noConfusion h
        · intro h; exact Bool.noConfusion h
        · intro p _ hp
          apply hsp2 p
          refine ⟨?_, ?_⟩
          · rw [wr_same, hma]; exact hp.1
          · exact SpineUp_wr _ _ _ _ _ hal1 (hsp a hnl0 hp.2)
      · have e : insLeftF a b l1 false true l.isNil y r
            = (.node a (b - 1) l1 y r, false, decide (b - 1 = -1)) := by
          simp [insLeftF, h2b]
        rw [e] at hrd1 ⊢
        obtain ⟨SQ2, e2, hc2, hma2, hmo2, htal2, hrdy⟩ :=
          avlInsertLeft_taller SQ1 a htal1 (by rw [hma, h1]; exact h2b)
        obtain ⟨g1, g2, g3, g4, g5⟩ := hctl SQ2 hc2
        refine ⟨SQ2, 0, e2, rfl, ⟨?_, ?_, ?_, ?_, ?_, ?_⟩, ?_, g1, g2, g3, g4, g5, ?_, ?_, ?_, ?_, ?_⟩
        · rw [hma2, hma]; exact congrArg (fun v => v - 1) h1
        · rw [hma2]; exact hleftv
        · rw [hma2, hma]; exact h3
        · rw [hma2, hma]; exact h4
        · exact Rep_of_eq SQ1.mem SQ2.mem l1 (fun q hq => hmo2 q (by rintro rfl; exact hal1 hq)) hrep1
        · exact Rep_of_eq SQ1.mem SQ2.mem r (fun q hq => hmo2 q (by rintro rfl; exact har hq)) hrepr
        · exact hframe SQ2.mem (fun q hqa _ _ => hmo2 q hqa)
        · intro _; rw [htal2, hma, h1]
        · intro h; exact Bool.noConfusion h
        · intro p _ hp
          refine ⟨?_, ?_⟩
          · rw [hma2, hma]; exact hp.1
          · refine SpineUp_congr SQ1.mem SQ2.mem l1 a (fun q hq => ?_) (hsp a hnl0 hp.2)
            rw [hmo2 q (by rintro rfl; exact hal1 (AvlT.spine_subset l1 _ hq))]
        · intro h1' h2'; rw [hrdy]; exact hrd1 h1' h2'
        · intro h; rw [hrdy]; exact hrd2 h
    | false =>
      have e : insLeftF a b l1 false false l.isNil y r = (.node a b l1 y r, false, false) := by
        simp [insLeftF]
      rw [e] at hrd1 ⊢
      have e2 := avlInsertLeft_same SQ1 a htal1
      refine ⟨SQ1, 0, e2, rfl, ⟨?_, ?_, ?_, ?_, hrep1, hrepr⟩, ?_, hheap, hmal, hcmp, hroot, hel,
        ?_, ?_, ?_, hrd1, hrd2⟩
      · rw [hma]; exact h1
      · exact hleftv
      · rw [hma]; exact h3
      · rw [hma]; exact h4
      · exact hframe SQ1.mem (fun q _ _ _ => rfl)
      · intro _; exact htal1
      · intro h; exact Bool.noConfusion h
      · intro p _ hp
        exact ⟨by rw [hma]; exact hp.1, hsp a hnl0 hp.2⟩

/-- The statements of `avlInsert` that follow the call on the right subtree, on
the memory of the tree. -/
theorem avlInsertRight_spec {α : Type} (SQ SQ1 : sorted_queue α) (n ret1 a : Nat) (b : Int)
    (l : AvlT α) (y : α) (r r1 : AvlT α) (nn tr : Bool)
    (hrep : Rep SQ.mem (.node a b l y r)) (hav : Avl (.node a b l y r))
    (hnd : (AvlT.node a b l y r).addrs.Nodup) (h0 : 0 ∉ (AvlT.node a b l y r).addrs)
    (hn0 : n ≠ 0) (hn : n ∉ (AvlT.node a b l y r).addrs)
    (hpost : InsPost SQ SQ1 ret1 n r r1 nn tr) (hok : InsOk r r1 nn tr)
    (hperm : r1.addrs.Perm (n :: r.addrs)) :
    ∃ SQ2 ret2, avlInsertRight SQ1 a ret1 = some (SQ2, ret2) ∧
      InsPost SQ SQ2 ret2 n (.node a b l y r) (insRightF a b l y r1 nn tr r.isNil).1
        (insRightF a b l y r1 nn tr r.isNil).2.1 (insRightF a b l y r1 nn tr r.isNil).2.2 := by
  obtain ⟨hret, hrep1, hfr, hheap, hmal, hcmp, hroot, hel, htal, hup0, hsp, hrdy1, hrdy2⟩ := hpost
  obtain ⟨h1, h2, h3, h4, hl, hr⟩ := hrep
  obtain ⟨hav1, hnil1, hnn, hnot⟩ := hok
  have hmem1 : ∀ q, q ∈ r1.addrs ↔ q = n ∨ q ∈ r.addrs := by
    intro q; rw [hperm.mem_iff]; simp
  obtain ⟨hal, har, hndl, hndr, hdis⟩ := (AvlT.nodup_node a b l y r).mp hnd
  have h0a : a ≠ 0 := fun h => h0 ((AvlT.mem_node 0 a b l y r).mpr (Or.inl h.symm))
  have h0l : 0 ∉ l.addrs := fun h => h0 ((AvlT.mem_node 0 a b l y r).mpr (Or.inr (Or.inl h)))
  have h0r : 0 ∉ r.addrs := fun h => h0 ((AvlT.mem_node 0 a b l y r).mpr (Or.inr (Or.inr h)))
  have han : a ≠ n := fun h => hn ((AvlT.mem_node n a b l y r).mpr (Or.inl h.symm))
  have hnl : n ∉ l.addrs := fun h => hn ((AvlT.mem_node n a b l y r).mpr (Or.inr (Or.inl h)))
  have hnr : n ∉ r.addrs := fun h => hn ((AvlT.mem_node n a b l y r).mpr (Or.inr (Or.inr h)))
  have har1 : a ∉ r1.addrs := by
    rw [hmem1]; rintro (h | h)
    · exact han h
    · exact har h
  have hma : SQ1.mem a = SQ.mem a := hfr a han har
  have hlq : ∀ q ∈ l.addrs, SQ1.mem q = SQ.mem q := fun q hq =>
    hfr q (by rintro rfl; exact hnl hq) (fun hqr => hdis hq hqr)
  have hrepl : Rep SQ1.mem l := Rep_of_eq SQ.mem SQ1.mem l hlq hl
  have hr1addr : r1.addr ∈ r1.addrs := AvlT.addr_mem r1 hnil1
  have h0r1 : 0 ∉ r1.addrs := by
    rw [hmem1]; rintro (h | h)
    · exact hn0 h.symm
    · exact h0r h
  have hr10 : r1.addr ≠ 0 := fun h => h0r1 (h ▸ hr1addr)
  have hdis1 : l.addrs.Disjoint r1.addrs := by
    intro q hq hqr
    rcases (hmem1 q).mp hqr with rfl | hqr
    · exact hnl hq
    · exact hdis hq hqr
  have hndr1 : r1.addrs.Nodup := hperm.nodup_iff.mpr (List.nodup_cons.mpr ⟨hnr, hndr⟩)
  have hnd1 : ∀ b1 : Int, (AvlT.node a b1 l y r1).addrs.Nodup := fun b1 =>
    (AvlT.nodup_node a b1 l y r1).mpr ⟨hal, har1, hndl, hndr1, hdis1⟩
  have h01 : ∀ b1 : Int, 0 ∉ (AvlT.node a b1 l y r1).addrs := by
    intro b1 h
    rcases (AvlT.mem_node 0 a b1 l y r1).mp h with h | h | h
    · exact h0a h.symm
    · exact h0l h
    · exact h0r1 h
  have hframe : ∀ (m : Nat → avl_tree α),
      (∀ q, q ≠ a → q ∉ l.addrs → q ∉ r1.addrs → m q = SQ1.mem q) →
      ∀ q, q ≠ n → q ∉ (AvlT.node a b l y r).addrs → m q = SQ.mem q := by
    intro m hm q hqn hq
    have hqa : q ≠ a := fun h => hq ((AvlT.mem_node q a b l y r).mpr (Or.inl h))
    have hql : q ∉ l.addrs := fun h => hq ((AvlT.mem_node q a b l y r).mpr (Or.inr (Or.inl h)))
    have hqr : q ∉ r.addrs := fun h => hq ((AvlT.mem_node q a b l y r).mpr (Or.inr (Or.inr h)))
    rw [hm q hqa hql (by rw [hmem1]; rintro (h | h); exact hqn h; exact hqr h)]
    exact hfr q hqn hqr
  have hret1a : r1.addr ≠ a := fun h => har1 (h ▸ hr1addr)
  have hctl : ∀ SQ2 : sorted_queue α, SameCtl SQ1 SQ2 →
      SQ2.heap = n :: SQ.heap ∧ SQ2.malloc = SQ.malloc ∧ SQ2.cmpFunc = SQ.cmpFunc ∧
        SQ2.Root = SQ.Root ∧ SQ2.ElementNum = toI32 (SQ.ElementNum + 1) := by
    intro SQ2 h
    exact ⟨h.1.trans hheap, h.2.1.trans hmal, h.2.2.1.trans hcmp, h.2.2.2.1.trans hroot,
      h.2.2.2.2.trans hel⟩
  have hlmin : (AvlT.node a b l y r).leftmost ∉ r.addrs := by
    show (if l.isNil then a else l.leftmost) ∉ r.addrs
    cases hl0 : l.isNil with
    | true => simp only [if_true]; exact har
    | false =>
      simp only [Bool.false_eq_true, if_false]
      exact fun h => hdis (AvlT.leftmost_mem l hl0) h
  have hlmT := insRightF_leftmost a b l y r1 nn tr r.isNil
  have hsame : (AvlT.node a b l y r).isNil = false →
      SQ.ReadyNode = (AvlT.node a b l y r).leftmost → SQ1.ReadyNode = SQ.ReadyNode := by
    intro _ hrd
    exact hrdy2 (Or.inr (by rw [hrd]; exact hlmin))
  have hrd1 : (AvlT.node a b l y r).isNil = false →
      SQ.ReadyNode = (AvlT.node a b l y r).leftmost →
      SQ1.ReadyNode = (insRightF a b l y r1 nn tr r.isNil).1.leftmost := by
    intro hx hrd
    rw [hlmT, hsame hx hrd, hrd]
    rfl
  have hrd2 : (AvlT.node a b l y r).isNil = true ∨ SQ.ReadyNode ∉ (AvlT.node a b l y r).addrs →
      SQ1.ReadyNode = SQ.ReadyNode := by
    intro hrd
    rcases hrd with h | h
    · exact Bool.noConfusion h
    · exact hrdy2 (Or.inr (fun hq => h ((AvlT.mem_node _ a b l y r).mpr (Or.inr (Or.inr hq)))))
  have hspl : ∀ (m : Nat → avl_tree α), (∀ q ∈ l.addrs, m q = SQ1.mem q) →
      SpineUp SQ.mem l a → SpineUp m l a := by
    intro m hm hs
    refine SpineUp_congr SQ.mem m l a (fun q hq => ?_) hs
    have hq1 := AvlT.spine_subset l q hq
    rw [hm q hq1, hlq q hq1]
  cases nn with
  | true =>
    have hret1 : ret1 = r1.addr := hret
    have hne : ret1 ≠ 0 := by rw [hret1]; exact hr10
    have hnn := hnn rfl
    cases hw : r.isNil with
    | true =>
      have hright : (SQ1.mem a).Right = 0 := by rw [hma, h3, AvlT.addr_of_isNil r hw]
      have e : insRightF a b l y r1 true tr true
          = (.node a (b + 1) l y r1, false, decide (b + 1 > 0)) := rfl
      rw [hw] at hrd1
      rw [e] at hrd1 ⊢
      obtain ⟨SQ2, e2, hc2, hma2, hmr2, hmo2, htal2, hrdy⟩ :=
        avlInsertRight_leaf SQ1 a ret1 hne hright (by rw [hret1]; exact hret1a)
      obtain ⟨g1, g2, g3, g4, g5⟩ := hctl SQ2 hc2
      have hret1m : ret1 ∈ r1.addrs := by rw [hret1]; exact hr1addr
      refine ⟨SQ2, 0, e2, rfl, ⟨?_, ?_, ?_, ?_, ?_, ?_⟩, ?_, g1, g2, g3, g4, g5, ?_, ?_, ?_, ?_, ?_⟩
      · rw [hma2, hma]; exact congrArg (fun v => v + 1) h1
      · rw [hma2, hma]; exact h2
      · rw [hma2]; exact hret1
      · rw [hma2, hma]; exact h4
      · refine Rep_of_eq SQ1.mem SQ2.mem l (fun q hq => hmo2 q ?_ ?_) hrepl
        · rintro rfl; exact hal hq
        · rintro rfl; exact hdis1 hq hret1m
      · refine Rep_congr SQ1.mem SQ2.mem r1 (fun q hq => ?_) hrep1
        by_cases hqr : q = ret1
        · subst hqr; rw [hmr2]; exact ⟨rfl, rfl, rfl, rfl⟩
        · rw [hmo2 q (by rintro rfl; exact har1 hq) hqr]; exact ⟨rfl, rfl, rfl, rfl⟩
      · refine hframe SQ2.mem (fun q hqa _ hqr => hmo2 q hqa ?_)
        rintro rfl; exact hqr hret1m
      · intro _
        rw [htal2, hma, h1]
      · intro h; exact Bool.noConfusion h
      · intro p _ hp
        refine ⟨?_, ?_⟩
        · rw [hma2, hma]; exact hp.1
        · refine hspl SQ2.mem (fun q hq => hmo2 q ?_ ?_) hp.2
          · rintro rfl; exact hal hq
          · rintro rfl; exact hdis1 hq hret1m
      · intro h1' h2'; rw [hrdy]; exact hrd1 h1' h2'
      · intro h; rw [hrdy]; exact hrd2 h
    | false =>
      have hraddr : r.addr ∈ r.addrs := AvlT.addr_mem r hw
      have hright : (SQ1.mem a).Right ≠ 0 := by
        rw [hma, h3]; intro h; exact h0r (h ▸ hraddr)
      have e : insRightF a b l y r1 true tr false = (.node a b l y r1, false, false) := rfl
      rw [hw] at hrd1
      rw [e] at hrd1 ⊢
      obtain ⟨SQ2, e2, hc2, hma2, hmo2, htal2, hrdy⟩ := avlInsertRight_link SQ1 a ret1 hne hright
      obtain ⟨g1, g2, g3, g4, g5⟩ := hctl SQ2 hc2
      refine ⟨SQ2, 0, e2, rfl, ⟨?_, ?_, ?_, ?_, ?_, ?_⟩, ?_, g1, g2, g3, g4, g5, ?_, ?_, ?_, ?_, ?_⟩
      · rw [hma2, hma]; exact h1
      · rw [hma2, hma]; exact h2
      · rw [hma2]; exact hret1
      · rw [hma2, hma]; exact h4
      · exact Rep_of_eq SQ1.mem SQ2.mem l (fun q hq => hmo2 q (by rintro rfl; exact hal hq)) hrepl
      · exact Rep_of_eq SQ1.mem SQ2.mem r1 (fun q hq => hmo2 q (by rintro rfl; exact har1 hq)) hrep1
      · exact hframe SQ2.mem (fun q hqa _ _ => hmo2 q hqa)
      · intro _; exact htal2
      · intro h; exact Bool.noConfusion h
      · intro p _ hp
        refine ⟨?_, ?_⟩
        · rw [hma2, hma]; exact hp.1
        · exact hspl SQ2.mem (fun q hq => hmo2 q (by rintro rfl; exact hal hq)) hp.2
      · intro h1' h2'; rw [hrdy]; exact hrd1 h1' h2'
      · intro h; rw [hrdy]; exact hrd2 h
  | false =>
    obtain ⟨hnl0, haddr, hh, hbal⟩ := hnot rfl
    have hret1 : ret1 = 0 := hret
    subst hret1
    have htal1 : SQ1.Taller = tr := htal rfl
    have hrightv : (SQ1.mem a).Right = r1.addr := by rw [hma, h3, haddr]
    cases tr with
    | true =>
      by_cases h2b : b + 1 = 2
      · have e : insRightF a b l y r1 false true r.isNil
            = (rotL (.node a (b + 1) l y (if r1.bal = -1 then rotR r1 else r1)), true, true) := by
          simp [insRightF, h2b]
        rw [e] at hrd1 ⊢
        have hrepm : Rep (wr SQ1.mem a { SQ1.mem a with Balance := (SQ1.mem a).Balance + 1 })
            (.node a (b + 1) l y r1) := by
          refine ⟨?_, ?_, ?_, ?_, ?_, ?_⟩
          · rw [wr_same, hma]; exact congrArg (fun v => v + 1) h1
          · rw [wr_same, hma]; exact h2
          · rw [wr_same]; exact hrightv
          · rw [wr_same, hma]; exact h4
          · exact Rep_wr _ _ _ _ hal hrepl
          · exact Rep_wr _ _ _ _ har1 hrep1
        obtain ⟨m2, erot, hrep2, hfr2, hup2, hsp2⟩ :=
          rotateRightHeavy_rep _ a (b + 1) l y r1 hrepm (hnd1 (b + 1)) (h01 (b + 1)) hnil1 hav1
        have e2 := avlInsertRight_rotate SQ1 a htal1 (by rw [hma, h1]; exact h2b) m2 _ erot
        obtain ⟨g1, g2, g3, g4, g5⟩ := hctl { SQ1 with mem := m2 } ⟨rfl, rfl, rfl, rfl, rfl⟩
        refine ⟨_, _, e2, rfl, hrep2, ?_, g1, g2, g3, g4, g5, ?_, ?_, ?_, hrd1, hrd2⟩
        · refine hframe m2 (fun q hqa hql hqr => ?_)
          rw [hfr2 q (by
            intro hq
            rcases (AvlT.mem_node q a (b + 1) l y r1).mp hq with h | h | h
            · exact hqa h
            · exact hql h
            · exact hqr h)]
          exact wr_other _ _ _ _ hqa
        · intro h; exact Bool.noConfusion h
        · intro h; exact Bool.noConfusion h
        · intro p _ hp
          apply hsp2 p
          refine ⟨?_, ?_⟩
          · rw [wr_same, hma]; exact hp.1
          · exact hspl _ (fun q hq => wr_other _ _ _ _ (by rintro rfl; exact hal hq)) hp.2
      · have e : insRightF a b l y r1 false true r.isNil
            = (.node a (b + 1) l y r1, false, decide (b + 1 = 1)) := by
          simp [insRightF, h2b]
        rw [e] at hrd1 ⊢
        obtain ⟨SQ2, e2, hc2, hma2, hmo2, htal2, hrdy⟩ :=
          avlInsertRight_taller SQ1 a htal1 (by rw [hma, h1]; exact h2b)
        obtain ⟨g1, g2, g3, g4, g5⟩ := hctl SQ2 hc2
        refine ⟨SQ2, 0, e2, rfl, ⟨?_, ?_, ?_, ?_, ?_, ?_⟩, ?_, g1, g2, g3, g4, g5, ?_, ?_, ?_, ?_, ?_⟩
        · rw [hma2, hma]; exact congrArg (fun v => v + 1) h1
        · rw [hma2, hma]; exact h2
        · rw [hma2]; exact hrightv
        · rw [hma2, hma]; exact h4
        · exact Rep_of_eq SQ1.mem SQ2.mem l (fun q hq => hmo2 q (by rintro rfl; exact hal hq)) hrepl
        · exact Rep_of_eq SQ1.mem SQ2.mem r1 (fun q hq => hmo2 q (by rintro rfl; exact har1 hq)) hrep1
        · exact hframe SQ2.mem (fun q hqa _ _ => hmo2 q hqa)
        · intro _; rw [htal2, hma, h1]
        · intro h; exact Bool.noConfusion h
        · intro p _ hp
          refine ⟨?_, ?_⟩
          · rw [hma2, hma]; exact hp.1
          · exact hspl SQ2.mem (fun q hq => hmo2 q (by rintro rfl; exact hal hq)) hp.2
        · intro h1' h2'; rw [hrdy]; exact hrd1 h1' h2'
        · intro h; rw [hrdy]; exact hrd2 h
    | false =>
      have e : insRightF a b l y r1 false false r.isNil = (.node a b l y r1, false, false) := by
        simp [insRightF]
      rw [e] at hrd1 ⊢
      have e2 := avlInsertRight_same SQ1 a htal1
      refine ⟨SQ1, 0, e2, rfl, ⟨?_, ?_, ?_, ?_, hrepl, hrep1⟩, ?_, hheap, hmal, hcmp, hroot, hel,
        ?_, ?_, ?_, hrd1, hrd2⟩
      · rw [hma]; exact h1
      · rw [hma]; exact h2
      · exact hrightv
      · rw [hma]; exact h4
      · exact hframe SQ1.mem (fun q _ _ _ => rfl)
      · intro _; exact htal1
      · intro h; exact Bool.noConfusion h
      · intro p _ hp
        exact ⟨by rw [hma]; exact hp.1, hspl SQ1.mem (fun q _ => rfl) hp.2⟩

/-- The function `avlInsert` on the memory of an AVL tree: with fuel above the
height of the tree it returns, and leaves in memory the tree that `insF`
describes. -/
theorem avlInsert_spec {α : Type} (x : α) :
    ∀ (t : AvlT α) (fuel : Nat) (SQ : sorted_queue α), t.height < fuel →
      Rep SQ.mem t → Avl t → t.addrs.Nodup → 0 ∉ t.addrs →
      SQ.malloc SQ.heap ≠ 0 → SQ.malloc SQ.heap ∉ t.addrs →
      ∃ SQ1 ret, avlInsert fuel SQ t.addr x = some (SQ1, ret) ∧
        InsPost SQ SQ1 ret (SQ.malloc SQ.heap) t
          (insF SQ.cmpFunc (SQ.malloc SQ.heap) x t).1
          (insF SQ.cmpFunc (SQ.malloc SQ.heap) x t).2.1
          (insF SQ.cmpFunc (SQ.malloc SQ.heap) x t).2.2 := by
  intro t
  induction t with
  | nil =>
    intro fuel SQ hf _ _ _ _ hn0 _
    obtain ⟨f, rfl⟩ : ∃ f, fuel = f + 1 := ⟨fuel - 1, by omega⟩
    have e : ∃ SQ1, avlInsert (f + 1) SQ 0 x = some (SQ1, SQ.malloc SQ.heap) ∧
        SQ1.mem = wr SQ.mem (SQ.malloc SQ.heap)
          { Item := x, Balance := 0, Left := 0, Right := 0, Up := 0 } ∧
        SQ1.heap = SQ.malloc SQ.heap :: SQ.heap ∧ SQ1.malloc = SQ.malloc ∧
        SQ1.cmpFunc = SQ.cmpFunc ∧ SQ1.Root = SQ.Root ∧
        SQ1.ElementNum = toI32 (SQ.ElementNum + 1) ∧ SQ1.ReadyNode = SQ.ReadyNode := by
      unfold avlInsert
      simp only [if_true, if_neg hn0]
      exact ⟨_, rfl, rfl, rfl, rfl, rfl, rfl, rfl, rfl⟩
    obtain ⟨SQ1, e1, hm, g1, g2, g3, g4, g5, g6⟩ := e
    refine ⟨SQ1, _, e1, rfl, ⟨?_, ?_, ?_, ?_, trivial, trivial⟩, ?_, g1, g2, g3, g4, g5,
      fun h => Bool.noConfusion h, ?_, fun _ h => Bool.noConfusion h,
      fun h => Bool.noConfusion h, fun _ => g6⟩
    · rw [hm]; simp [wr, insF]
    · rw [hm]; simp [wr, insF, AvlT.addr]
    · rw [hm]; simp [wr, insF, AvlT.addr]
    · rw [hm]; simp [wr, insF]
    · intro q hq _
      rw [hm]; simp [wr, hq]
    · intro _
      rw [hm]; simp [wr]
  | node a b l y r ihl ihr =>
    intro fuel SQ hf hrep hav hnd h0 hn0 hn
    obtain ⟨f, rfl⟩ : ∃ f, fuel = f + 1 := ⟨fuel - 1, by omega⟩
    simp only [AvlT.height] at hf
    have h0a : a ≠ 0 := fun h => h0 ((AvlT.mem_node 0 a b l y r).mpr (Or.inl h.symm))
    obtain ⟨hal, har, hndl, hndr, hdis⟩ := (AvlT.nodup_node a b l y r).mp hnd
    have hitem : (SQ.mem a).Item = y := hrep.2.2.2.1
    by_cases hc : SQ.cmpFunc x y < 0
    · obtain ⟨SQ1, ret1, e1, hpost⟩ := ihl f SQ (by omega) hrep.2.2.2.2.1 hav.2.2.2.1 hndl
        (fun h => h0 ((AvlT.mem_node 0 a b l y r).mpr (Or.inr (Or.inl h)))) hn0
        (fun h => hn ((AvlT.mem_node _ a b l y r).mpr (Or.inr (Or.inl h))))
      obtain ⟨SQ2, ret2, e2, hpost2⟩ := avlInsertLeft_spec SQ SQ1 _ ret1 a b l y r _ _ _
        hrep hav hnd h0 hn0 hn hpost (insF_ok _ _ x l hav.2.2.2.1) (insF_addrs _ _ x l)
      refine ⟨SQ2, ret2, ?_, ?_⟩
      · show avlInsert (f + 1) SQ a x = _
        unfold avlInsert
        simp only [if_neg h0a, hitem, if_pos hc, hrep.2.1, e1, e2]
      · unfold insF
        simp only [if_pos hc]
        exact hpost2
    · obtain ⟨SQ1, ret1, e1, hpost⟩ := ihr f SQ (by omega) hrep.2.2.2.2.2 hav.2.2.2.2 hndr
        (fun h => h0 ((AvlT.mem_node 0 a b l y r).mpr (Or.inr (Or.inr h)))) hn0
        (fun h => hn ((AvlT.mem_node _ a b l y r).mpr (Or.inr (Or.inr h))))
      obtain ⟨SQ2, ret2, e2, hpost2⟩ := avlInsertRight_spec SQ SQ1 _ ret1 a b l y r _ _ _
        hrep hav hnd h0 hn0 hn hpost (insF_ok _ _ x r hav.2.2.2.2) (insF_addrs _ _ x r)
      refine ⟨SQ2, ret2, ?_, ?_⟩
      · show avlInsert (f + 1) SQ a x = _
        unfold avlInsert
        simp only [if_neg h0a, hitem, if_neg hc, hrep.2.2.1, e1, e2]
      · unfold insF
        simp only [if_neg hc]
        exact hpost2

/-- A value in the range of `int` is stored as it is. -/
theorem toI32_of_nonneg (v : Int) (h0 : 0 ≤ v) (h1 : v < 2147483648) : toI32 v = v := by
  unfold toI32
  have : v % 4294967296 = v := Int.emod_eq_of_lt h0 (by omega)
  rw [this, if_pos h1]

/-- The function `putSortedQueueItem` keeps the invariant of the sorted queue and
puts the item in order among the stored ones. -/
theorem putSortedQueueItem_spec {α : Type} (SQ : sorted_queue α) (t : AvlT α) (x : α)
    (fuel : Nat) (hcmp : CmpOrder SQ.cmpFunc) (hinv : SQInv SQ t) (hf : t.height < fuel)
    (hsize : t.size + 1 < 2147483648) (hm0 : SQ.malloc SQ.heap ≠ 0)
    (hmf : SQ.malloc SQ.heap ∉ SQ.heap) :
    ∃ SQ1 t1, putSortedQueueItem fuel SQ x = some SQ1 ∧ SQInv SQ1 t1 ∧
      t1.inorder = listPut SQ.cmpFunc x t.inorder ∧ SQ1.cmpFunc = SQ.cmpFunc ∧
      SQ1.malloc = SQ.malloc ∧ t1.size = t.size + 1 := by
  obtain ⟨hrep, hspine, hnd, h0, hheap, hroot, hready, hel, hav, hsorted⟩ := hinv
  have hn : SQ.malloc SQ.heap ∉ t.addrs := fun h => hmf (hheap _ h)
  obtain ⟨SQ1, ret, e1, hpost⟩ := avlInsert_spec x t fuel SQ hf hrep hav hnd h0 hm0 hn
  have hok := insF_ok SQ.cmpFunc (SQ.malloc SQ.heap) x t hav
  have hperm := insF_addrs SQ.cmpFunc (SQ.malloc SQ.heap) x t
  have hino := insF_inorder hcmp (SQ.malloc SQ.heap) x t hsorted
  generalize insF SQ.cmpFunc (SQ.malloc SQ.heap) x t = res at hpost hok hperm hino
  obtain ⟨t1, nn, tl⟩ := res
  simp only at hpost hok hperm hino
  obtain ⟨hret, hrep1, hfr, hheap1, hmal, hcmp1, hroot1, hel1, htal, hup0, hsp, hrdy1, hrdy2⟩ :=
    hpost
  obtain ⟨hav1, hnil1, hnn, hnot⟩ := hok
  have hnd1 : t1.addrs.Nodup := hperm.nodup_iff.mpr (List.nodup_cons.mpr ⟨hn, hnd⟩)
  have h01 : 0 ∉ t1.addrs := by
    rw [hperm.mem_iff]
    intro h
    rcases List.mem_cons.mp h with h | h
    · exact hm0 h.symm
    · exact h0 h
  have hsub1 : ∀ q ∈ t1.addrs, q ∈ SQ1.heap := by
    intro q hq
    rw [hheap1]
    rcases List.mem_cons.mp (hperm.mem_iff.mp hq) with h | h
    · rw [h]; exact List.mem_cons_self _ _
    · exact List.mem_cons_of_mem _ (hheap q h)
  have hsz1 : t1.size = t.size + 1 := by
    rw [← AvlT.length_addrs, hperm.length_eq, List.length_cons, AvlT.length_addrs]
  have hel2 : SQ1.ElementNum = (t1.size : Int) := by
    rw [hel1, hel, hsz1, toI32_of_nonneg _ (by omega) (by omega)]
    push_cast; ring
  have hsorted1 : t1.inorder.Pairwise (fun a b => SQ1.cmpFunc a b ≤ 0) := by
    rw [hcmp1, hino]
    exact listPut_sorted hcmp x _ hsorted
  have ht1addr : t1.addr ≠ 0 := fun h => h01 (h ▸ AvlT.addr_mem t1 hnil1)
  unfold putSortedQueueItem
  rw [hroot, e1]
  cases nn with
  | true =>
    have hret1 : ret = t1.addr := hret
    have hne : ret ≠ 0 := by rw [hret1]; exact ht1addr
    simp only [if_pos hne]
    cases htn : t.isNil with
    | true =>
      have hr0 : SQ1.Root = 0 := by rw [hroot1, hroot, AvlT.addr_of_isNil t htn]
      have hh1 : t1.height = 1 := by
        rcases hnn rfl with ⟨_, h⟩ | ⟨h, _⟩
        · exact h
        · rw [htn] at h; exact Bool.noConfusion h
      obtain ⟨c, bc, z, rfl⟩ := AvlT.leaf_of_height_one t1 hh1
      simp only [AvlT.addr_node] at hret1
      have hcn : c = SQ.malloc SQ.heap := by
        have := hperm.mem_iff.mp (List.mem_cons_self c _)
        cases t with
        | nil => simpa [AvlT.addrs] using this
        | node _ _ _ _ _ => exact Bool.noConfusion htn
      simp only [hr0, if_true]
      refine ⟨_, _, rfl, ⟨hrep1, ⟨?_, trivial⟩, hnd1, h01, hsub1, hret1, hret1, hel2, hav1,
        hsorted1⟩, hino, hcmp1, hmal, hsz1⟩
      rw [hcn]; exact hup0 htn
    | false =>
      have htaddr : t.addr ≠ 0 := fun h => h0 (h ▸ AvlT.addr_mem t htn)
      have hr0 : SQ1.Root ≠ 0 := by rw [hroot1, hroot]; exact htaddr
      simp only [if_neg hr0]
      refine ⟨_, _, rfl, ⟨hrep1, hsp 0 htn hspine, hnd1, h01, hsub1, hret1, hrdy1 htn hready,
        hel2, hav1, hsorted1⟩, hino, hcmp1, hmal, hsz1⟩
  | false =>
    have hret1 : ret = 0 := hret
    simp only [hret1, ne_eq, not_true_eq_false, if_false]
    obtain ⟨htn, haddr, _, _⟩ := hnot rfl
    refine ⟨_, _, rfl, ⟨hrep1, hsp 0 htn hspine, hnd1, h01, hsub1, ?_, hrdy1 htn hready,
      hel2, hav1, hsorted1⟩, hino, hcmp1, hmal, hsz1⟩
    rw [hroot1, hroot, haddr]

/-! ## sortedqueue.c : the extraction of the leftmost node -/

/-- The leftmost node of a tree and its ancestors: the tree is the subtree of the
leftmost node below them, and that node has no left subtree. -/
theorem unplug_spec {α : Type} :
    ∀ (t : AvlT α) (ctx : List (Frame α)), t.isNil = false →
      ∃ c m bm x rm, unplug t ctx = (c, .node m bm .nil x rm) ∧
        plug c (.node m bm .nil x rm) = plug ctx t ∧ m = t.leftmost := by
  intro t
  induction t with
  | nil => intro _ h; exact Bool.noConfusion h
  | node a b l x r ihl _ =>
    intro ctx _
    cases hl : l.isNil with
    | true =>
      cases l with
      | node _ _ _ _ _ => exact Bool.noConfusion hl
      | nil => exact ⟨ctx, a, b, x, r, rfl, rfl, rfl⟩
    | false =>
      obtain ⟨c, m, bm, x1, rm, e, hp, hm⟩ := ihl (⟨a, b, x, r⟩ :: ctx) hl
      refine ⟨c, m, bm, x1, rm, ?_, ?_, ?_⟩
      · unfold unplug
        simp only [hl, Bool.false_eq_true, if_false]
        exact e
      · rw [hp]; rfl
      · rw [hm]
        show l.leftmost = if l.isNil then a else l.leftmost
        rw [hl]; rfl

/-- The memory holds a tree below ancestors when it holds the ancestors and the
tree. -/
theorem Rep_plug {α : Type} (mem : Nat → avl_tree α) :
    ∀ (ctx : List (Frame α)) (u : AvlT α),
      Rep mem (plug ctx u) ↔ RepCtx mem ctx u.addr ∧ Rep mem u := by
  intro ctx
  induction ctx with
  | nil => intro u; simp [plug, RepCtx]
  | cons f ctx ih =>
    intro u
    simp only [plug, ih, RepCtx, Rep, AvlT.addr_node]
    tauto

/-- The `Up` pointers of the left spine of a tree below ancestors. -/
theorem SpineUp_plug {α : Type} (mem : Nat → avl_tree α) :
    ∀ (ctx : List (Frame α)) (u : AvlT α),
      SpineUp mem (plug ctx u) 0 ↔ UpCtx mem ctx ∧ SpineUp mem u (parentAddr ctx 0) := by
  intro ctx
  induction ctx with
  | nil => intro u; simp [plug, UpCtx, parentAddr]
  | cons f ctx ih =>
    intro u
    simp only [plug, ih, UpCtx, SpineUp, parentAddr]
    tauto

/-- The nodes of a tree below ancestors. -/
theorem plug_addrs {α : Type} :
    ∀ (ctx : List (Frame α)) (u : AvlT α),
      (plug ctx u).addrs.Perm (u.addrs ++ ctxAddrs ctx) := by
  intro ctx
  induction ctx with
  | nil => intro u; simp [plug, ctxAddrs]
  | cons f ctx ih =>
    intro u
    refine (ih _).trans ?_
    simp only [AvlT.addrs, ctxAddrs]
    rw [List.perm_iff_count]
    intro q
    simp only [List.count_cons, List.count_append]
    omega

/-- The items of a tree below ancestors. -/
theorem plug_inorder {α : Type} :
    ∀ (ctx : List (Frame α)) (u : AvlT α),
      (plug ctx u).inorder = u.inorder ++ ctxInorder ctx := by
  intro ctx
  induction ctx with
  | nil => intro u; simp [plug, ctxInorder]
  | cons f ctx ih =>
    intro u
    simp [plug, ih, AvlT.inorder, ctxInorder]

/-- A tree below ancestors is an AVL tree when it is one and the ancestors fit its
height. -/
theorem Avl_plug {α : Type} :
    ∀ (ctx : List (Frame α)) (u : AvlT α),
      Avl (plug ctx u) ↔ Avl u ∧ AvlCtx ctx u.height := by
  intro ctx
  induction ctx with
  | nil => intro u; simp [plug, AvlCtx]
  | cons f ctx ih =>
    intro u
    simp only [plug, ih, AvlCtx, Avl, AvlT.height]
    tauto

/-- The leftmost node of a tree below ancestors is its own leftmost node. -/
theorem plug_leftmost {α : Type} :
    ∀ (ctx : List (Frame α)) (u : AvlT α), u.isNil = false →
      (plug ctx u).leftmost = u.leftmost := by
  intro ctx
  induction ctx with
  | nil => intro u _; rfl
  | cons f ctx ih =>
    intro u hu
    rw [plug, ih (.node f.a f.b u f.x f.r) rfl]
    show (if u.isNil then f.a else u.leftmost) = u.leftmost
    rw [hu]; rfl

/-- The address of a tree below ancestors. -/
theorem plug_addr {α : Type} :
    ∀ (ctx : List (Frame α)) (u : AvlT α), (plug ctx u).addr = rootAddr ctx u.addr := by
  intro ctx
  induction ctx with
  | nil => intro u; rfl
  | cons f ctx ih => intro u; rw [plug, ih]; rfl

/-- A tree below ancestors is not empty when it is not empty itself. -/
theorem plug_isNil {α : Type} :
    ∀ (ctx : List (Frame α)) (u : AvlT α), u.isNil = false → (plug ctx u).isNil = false := by
  intro ctx
  induction ctx with
  | nil => intro u hu; exact hu
  | cons f ctx ih => intro u _; rw [plug]; exact ih (.node f.a f.b u f.x f.r) rfl

/-- The height of a tree below ancestors is at least their number plus its own
height. -/
theorem plug_height {α : Type} :
    ∀ (ctx : List (Frame α)) (u : AvlT α), ctx.length + u.height ≤ (plug ctx u).height := by
  intro ctx
  induction ctx with
  | nil => intro u; simp [plug]
  | cons f ctx ih =>
    intro u
    have := ih (.node f.a f.b u f.x f.r)
    simp only [AvlT.height, List.length_cons, plug] at this ⊢
    omega

/-- The effect of `rebalanceNode` on a tree that is not empty. -/
theorem fixF_node {α : Type} (s : Nat) (b : Int) (l : AvlT α) (x : α) (r : AvlT α) :
    fixF (.node s b l x r) =
      if b = 2 then rotL (.node s b l x (if r.bal = -1 then rotR r else r))
      else .node s b l x r := rfl

/-- The rotations of `rebalanceNode` keep the order of the items. -/
theorem fixF_inorder {α : Type} (u : AvlT α) : (fixF u).inorder = u.inorder := by
  cases u with
  | nil => rfl
  | node s b l x r =>
    rw [fixF_node]
    by_cases h2 : b = 2
    · rw [if_pos h2, rotL_inorder]
      simp only [AvlT.inorder]
      by_cases h1 : r.bal = -1
      · rw [if_pos h1, rotR_inorder]
      · rw [if_neg h1]
    · rw [if_neg h2]

/-- The rotations of `rebalanceNode` keep the nodes. -/
theorem fixF_addrs {α : Type} (u : AvlT α) : (fixF u).addrs.Perm u.addrs := by
  cases u with
  | nil => exact List.Perm.refl _
  | node s b l x r =>
    rw [fixF_node]
    by_cases h2 : b = 2
    · rw [if_pos h2]
      refine (rotL_addrs _).trans ?_
      simp only [AvlT.addrs]
      refine List.Perm.cons s (List.Perm.append_left _ ?_)
      by_cases h1 : r.bal = -1
      · rw [if_pos h1]; exact rotR_addrs r
      · rw [if_neg h1]
    · rw [if_neg h2]

/-- The rotations of `rebalanceNode` keep the leftmost node. -/
theorem fixF_leftmost {α : Type} (u : AvlT α) : (fixF u).leftmost = u.leftmost := by
  cases u with
  | nil => rfl
  | node s b l x r =>
    rw [fixF_node]
    by_cases h2 : b = 2
    · rw [if_pos h2, rotL_leftmost]; rfl
    · rw [if_neg h2]

/-- The tree left by `rebalanceNode` where the left subtree got lower is an AVL
tree; it is as high as the tree was before, or lower by one when it is
balanced. -/
theorem fixF_shrunk {α : Type} (u : AvlT α) (H : Nat) (h : Shrunk u H) :
    Avl (fixF u) ∧ (fixF u).isNil = false ∧ ((fixF u).bal ≠ 0 → (fixF u).height = H) ∧
      ((fixF u).bal = 0 → (fixF u).height + 1 = H) := by
  cases u with
  | nil => exact absurd h (by simp [Shrunk])
  | node s b l x r =>
    obtain ⟨hl, hr, hb, hlo, hhi, hH⟩ := h
    rw [fixF_node]
    by_cases h2 : b = 2
    · rw [if_pos h2]
      subst h2
      obtain ⟨f1, f2, f3, f4⟩ := fixRight_avl s l x r hl hr (by omega)
      refine ⟨f1, f2, ?_, ?_⟩
      · intro hne
        by_cases hr0 : r.bal = 0
        · rw [(f3 hr0).1]; omega
        · exact absurd (f4 hr0).2 hne
      · intro he
        by_cases hr0 : r.bal = 0
        · rw [(f3 hr0).2] at he; omega
        · rw [(f4 hr0).1]; omega
    · rw [if_neg h2]
      refine ⟨⟨hb, by omega, by omega, hl, hr⟩, rfl, ?_, ?_⟩
      · intro hne
        simp only [AvlT.bal] at hne
        simp only [AvlT.height]
        omega
      · intro he
        simp only [AvlT.bal] at he
        simp only [AvlT.height]
        omega

/-- The re-balancing loop leaves an AVL tree. -/
theorem plugFix_avl {α : Type} :
    ∀ (ctx : List (Frame α)) (u : AvlT α) (H : Nat), Shrunk u H → AvlCtx ctx H →
      Avl (plugFix ctx u) := by
  intro ctx
  induction ctx with
  | nil =>
    intro u H hs _
    exact (fixF_shrunk u H hs).1
  | cons f ctx ih =>
    intro u H hs hc
    obtain ⟨f1, f2, f3, f4⟩ := fixF_shrunk u H hs
    obtain ⟨⟨hb, hlo, hhi, hr⟩, hc2⟩ := hc
    unfold plugFix
    by_cases h0 : (fixF u).bal ≠ 0
    · rw [if_pos h0]
      rw [Avl_plug]
      have hh := f3 h0
      refine ⟨⟨by rw [hh]; exact hb, hlo, hhi, f1, hr⟩, ?_⟩
      simp only [AvlT.height, hh]
      exact hc2
    · rw [if_neg h0]
      have hh := f4 (not_not.mp h0)
      refine ih _ (1 + max H f.r.height) ?_ hc2
      refine ⟨f1, hr, by omega, by omega, by omega, ?_⟩
      rw [← hh]

/-- The re-balancing loop keeps the order of the items. -/
theorem plugFix_inorder {α : Type} :
    ∀ (ctx : List (Frame α)) (u : AvlT α),
      (plugFix ctx u).inorder = u.inorder ++ ctxInorder ctx := by
  intro ctx
  induction ctx with
  | nil => intro u; simp [plugFix, fixF_inorder, ctxInorder]
  | cons f ctx ih =>
    intro u
    unfold plugFix
    split_ifs
    · simp [plug_inorder, AvlT.inorder, fixF_inorder, ctxInorder]
    · simp [ih, AvlT.inorder, fixF_inorder, ctxInorder]

/-- The re-balancing loop keeps the nodes. -/
theorem plugFix_addrs {α : Type} :
    ∀ (ctx : List (Frame α)) (u : AvlT α),
      (plugFix ctx u).addrs.Perm (u.addrs ++ ctxAddrs ctx) := by
  intro ctx
  induction ctx with
  | nil => intro u; simpa [plugFix, ctxAddrs] using fixF_addrs u
  | cons f ctx ih =>
    intro u
    have h1 : (AvlT.node f.a f.b (fixF u) f.x f.r).addrs.Perm
        (f.a :: (u.addrs ++ f.r.addrs)) :=
      List.Perm.cons _ (List.Perm.append_right _ (fixF_addrs u))
    have h2 : ∀ b1 : Int, ((AvlT.node f.a b1 (fixF u) f.x f.r).addrs ++ ctxAddrs ctx).Perm
        (u.addrs ++ ctxAddrs (f :: ctx)) := by
      intro b1
      refine (List.Perm.append_right _ h1).trans ?_
      simp only [ctxAddrs]
      rw [List.perm_iff_count]
      intro q
      simp only [List.count_cons, List.count_append]
      omega
    unfold plugFix
    split_ifs
    · exact (plug_addrs _ _).trans (h2 _)
    · exact (ih _).trans (h2 _)

/-- The re-balancing loop keeps the leftmost node. -/
theorem plugFix_leftmost {α : Type} :
    ∀ (ctx : List (Frame α)) (u : AvlT α), u.isNil = false →
      (plugFix ctx u).leftmost = u.leftmost := by
  intro ctx
  induction ctx with
  | nil => intro u _; exact fixF_leftmost u
  | cons f ctx ih =>
    intro u hu
    have hf : (fixF u).isNil = false := by
      cases u with
      | nil => exact Bool.noConfusion hu
      | node s b l x r =>
        rw [fixF_node]
        by_cases h2 : b = 2
        · rw [if_pos h2]; unfold rotL; split <;> rfl
        · rw [if_neg h2]; rfl
    have hl : ∀ b1 : Int, (AvlT.node f.a b1 (fixF u) f.x f.r).leftmost = u.leftmost := by
      intro b1
      show (if (fixF u).isNil then f.a else (fixF u).leftmost) = u.leftmost
      rw [hf]; exact fixF_leftmost u
    unfold plugFix
    split_ifs
    · rw [plug_leftmost _ (.node f.a f.b (fixF u) f.x f.r) rfl]; exact hl _
    · rw [ih (.node f.a (f.b + 1) (fixF u) f.x f.r) rfl]; exact hl _

/-- The function `rebalanceNode` at a node of the left spine whose left subtree
got lower, on the memory of its subtree: the memory holds the subtree that `fixF`
describes, and the parent, if any, points to it. -/
theorem rebalanceNode_spec {α : Type} (mem : Nat → avl_tree α) (IsLeft : Bool)
    (s : Nat) (b : Int) (l : AvlT α) (x : α) (r : AvlT α) (H : Nat)
    (hrep : Rep mem (.node s b l x r)) (hnd : (AvlT.node s b l x r).addrs.Nodup)
    (h0 : 0 ∉ (AvlT.node s b l x r).addrs) (hsh : Shrunk (.node s b l x r) H)
    (hIs : (mem s).Up ≠ 0 → IsLeft = true)
    (hpar : (mem s).Up ≠ 0 → (mem (mem s).Up).Left = s ∧ (mem s).Up ∉ (AvlT.node s b l x r).addrs) :
    ∃ m3, rebalanceNode mem IsLeft s = some (m3, (fixF (.node s b l x r)).addr) ∧
      Rep m3 (fixF (.node s b l x r)) ∧
      (m3 (fixF (.node s b l x r)).addr).Up = (mem s).Up ∧
      (SpineUp mem (.node s b l x r) (mem s).Up →
        SpineUp m3 (fixF (.node s b l x r)) (mem s).Up) ∧
      (∀ q, q ∉ (AvlT.node s b l x r).addrs → q ≠ (mem s).Up → m3 q = mem q) ∧
      ((mem s).Up ≠ 0 →
        (m3 (mem s).Up).Left = (fixF (.node s b l x r)).addr ∧
        (m3 (mem s).Up).Balance = (mem (mem s).Up).Balance ∧
        (m3 (mem s).Up).Right = (mem (mem s).Up).Right ∧
        (m3 (mem s).Up).Up = (mem (mem s).Up).Up ∧
        (m3 (mem s).Up).Item = (mem (mem s).Up).Item) := by
  obtain ⟨hl, hr, hb, hlo, hhi, hH⟩ := hsh
  have hbal : (mem s).Balance = b := hrep.1
  rw [fixF_node]
  unfold rebalanceNode
  by_cases h2 : b = 2
  · have hrn : r.isNil = false := by
      cases hrn : r.isNil with
      | false => rfl
      | true =>
        cases r with
        | node _ _ _ _ _ => exact Bool.noConfusion hrn
        | nil => simp only [AvlT.height] at hb; omega
    obtain ⟨m2, e, hrep2, hfr2, hup2, hsp2⟩ := rotateRightHeavy_rep mem s b l x r hrep hnd h0 hrn hr
    simp only [hbal, if_pos h2, e]
    generalize hv : rotL (.node s b l x (if r.bal = -1 then rotR r else r)) = v at *
    have hvperm : v.addrs.Perm (AvlT.node s b l x r).addrs := by
      rw [← hv]
      refine (rotL_addrs _).trans ?_
      simp only [AvlT.addrs]
      refine List.Perm.cons s (List.Perm.append_left _ ?_)
      by_cases h1 : r.bal = -1
      · rw [if_pos h1]; exact rotR_addrs r
      · rw [if_neg h1]
    have hvnil : v.isNil = false := by
      rw [← hv]; unfold rotL; split <;> rfl
    have hvaddr : v.addr ∈ (AvlT.node s b l x r).addrs := hvperm.subset (AvlT.addr_mem v hvnil)
    by_cases hp : (mem s).Up = 0
    · have hcond : ¬ ((m2 v.addr).Up ≠ 0) := by rw [hup2, hp]; simp
      rw [if_neg hcond]
      refine ⟨m2, rfl, hrep2, hup2, hsp2 _, fun q hq _ => hfr2 q hq, fun h => absurd hp h⟩
    · have hcond : (m2 v.addr).Up ≠ 0 := by rw [hup2]; exact hp
      obtain ⟨hpl, hpn⟩ := hpar hp
      have hpv : (mem s).Up ∉ v.addrs := fun h => hpn (hvperm.subset h)
      have hvp : v.addr ≠ (mem s).Up := fun h => hpn (h ▸ hvaddr)
      rw [if_pos hcond]
      simp only [hIs hp, if_true, hup2]
      refine ⟨_, rfl, Rep_wr _ _ _ _ hpv hrep2, ?_, ?_, ?_, ?_⟩
      · rw [wr_other _ _ _ _ hvp]; exact hup2
      · intro hs
        exact SpineUp_wr _ _ _ _ _ hpv (hsp2 _ hs)
      · intro q hq hqp
        rw [wr_other _ _ _ _ hqp]; exact hfr2 q hq
      · intro _
        rw [wr_same]
        have := hfr2 _ hpn
        simp only [this]
        exact ⟨trivial, trivial, trivial, trivial, trivial⟩
  · have h3 : ¬ b = -2 := by omega
    simp only [hbal, if_neg h2, if_neg h3]
    refine ⟨mem, rfl, hrep, rfl, fun h => h, fun _ _ _ => rfl, fun hp => ?_⟩
    exact ⟨(hpar hp).1, rfl, rfl, rfl, rfl⟩

/-- A memory that agrees with another one on the ancestors holds them as well. -/
theorem RepCtx_congr {α : Type} (m m1 : Nat → avl_tree α) :
    ∀ (ctx : List (Frame α)) (c : Nat), (∀ q ∈ ctxAddrs ctx, m1 q = m q) →
      RepCtx m ctx c → RepCtx m1 ctx c := by
  intro ctx
  induction ctx with
  | nil => intro _ _ _; trivial
  | cons f ctx ih =>
    intro c h hr
    obtain ⟨⟨h1, h2, h3, h4, h5⟩, h6⟩ := hr
    have hfa := h f.a (List.mem_cons_self _ _)
    refine ⟨⟨by rw [hfa]; exact h1, by rw [hfa]; exact h2, by rw [hfa]; exact h3,
      by rw [hfa]; exact h4, ?_⟩, ?_⟩
    · exact Rep_of_eq m m1 f.r (fun q hq =>
        h q (List.mem_cons_of_mem _ (List.mem_append_left _ hq))) h5
    · exact ih f.a (fun q hq => h q (List.mem_cons_of_mem _ (List.mem_append_right _ hq))) h6

/-- A memory that agrees with another one on the ancestors has the same right
`Up` pointers. -/
theorem UpCtx_congr {α : Type} (m m1 : Nat → avl_tree α) :
    ∀ (ctx : List (Frame α)), (∀ q ∈ ctxAddrs ctx, m1 q = m q) → UpCtx m ctx → UpCtx m1 ctx := by
  intro ctx
  induction ctx with
  | nil => intro _ _; trivial
  | cons f ctx ih =>
    intro h hu
    refine ⟨by rw [h f.a (List.mem_cons_self _ _)]; exact hu.1, ?_⟩
    exact ih (fun q hq => h q (List.mem_cons_of_mem _ (List.mem_append_right _ hq))) hu.2

/-- The nodes of a tree and of its ancestors are at distinct addresses: what this
says of the nearest ancestor. -/
theorem nodup_ctx_cons {α : Type} (U : List Nat) (f : Frame α) (ctx : List (Frame α))
    (h : (U ++ ctxAddrs (f :: ctx)).Nodup) :
    f.a ∉ U ∧ f.a ∉ f.r.addrs ∧ f.a ∉ ctxAddrs ctx ∧ U.Disjoint f.r.addrs ∧
      U.Disjoint (ctxAddrs ctx) ∧ f.r.addrs.Disjoint (ctxAddrs ctx) ∧ U.Nodup ∧
      f.r.addrs.Nodup ∧ (ctxAddrs ctx).Nodup := by
  simp only [ctxAddrs, List.nodup_append, List.nodup_cons, List.mem_append,
    List.disjoint_cons_right, List.disjoint_cons_left, List.disjoint_append_right,
    List.disjoint_append_left, not_or] at h
  tauto

/-- The address of the root of a tree below ancestors does not depend on the tree
when there is an ancestor. -/
theorem rootAddr_cons {α : Type} (f : Frame α) (ctx : List (Frame α)) (c : Nat) :
    rootAddr (f :: ctx) c = rootAddr ctx f.a := rfl

/-- The re-balancing loop of `avlExtractNode` from a node of the left spine whose
left subtree got lower: with fuel above the number of ancestors it returns the
root, and the memory holds the tree that `plugFix` describes. -/
theorem rebalanceLoop_spec {α : Type} :
    ∀ (ctx : List (Frame α)) (u : AvlT α) (H fuel : Nat) (SQ : sorted_queue α),
      ctx.length < fuel → Shrunk u H → AvlCtx ctx H →
      Rep SQ.mem u → RepCtx SQ.mem ctx u.addr → UpCtx SQ.mem ctx →
      SpineUp SQ.mem u (parentAddr ctx 0) →
      (u.addrs ++ ctxAddrs ctx).Nodup → 0 ∉ u.addrs ++ ctxAddrs ctx →
      (ctx ≠ [] → SQ.Root = rootAddr ctx u.addr) →
      ∃ SQ1, rebalanceLoop fuel SQ u.addr = some (SQ1, (plugFix ctx u).addr) ∧
        Rep SQ1.mem (plugFix ctx u) ∧ SpineUp SQ1.mem (plugFix ctx u) 0 ∧
        SameCtl SQ SQ1 ∧ SQ1.ReadyNode = SQ.ReadyNode := by
  intro ctx
  induction ctx with
  | nil =>
    intro u H fuel SQ hf hsh _ hrep _ _ hsp hnd h0 _
    cases u with
    | nil => exact absurd hsh (by simp [Shrunk])
    | node s b l x r =>
      obtain ⟨f, rfl⟩ : ∃ f, fuel = f + 1 := ⟨fuel - 1, by omega⟩
      have hup : (SQ.mem s).Up = 0 := hsp.1
      have hnd1 : (AvlT.node s b l x r).addrs.Nodup := by simpa [ctxAddrs] using hnd
      have h01 : 0 ∉ (AvlT.node s b l x r).addrs := by simpa [ctxAddrs] using h0
      have hs0 : s ≠ 0 := fun h => h01 ((AvlT.mem_node 0 s b l x r).mpr (Or.inl h.symm))
      obtain ⟨m3, e, hrep3, hup3, hsp3, _, _⟩ := rebalanceNode_spec SQ.mem
        (if (SQ.mem s).Up ≠ 0 then decide ((SQ.mem (SQ.mem s).Up).Left = s) else SQ.IsLeft)
        s b l x r H hrep hnd1 h01 hsh (fun h => absurd hup h) (fun h => absurd hup h)
      have hup4 : (m3 (fixF (.node s b l x r)).addr).Up = 0 := hup3.trans hup
      have e2 : ∃ SQ1, rebalanceLoop (f + 1) SQ s
            = some (SQ1, (fixF (.node s b l x r)).addr) ∧
          SQ1.mem = m3 ∧ SameCtl SQ SQ1 ∧ SQ1.ReadyNode = SQ.ReadyNode := by
        unfold rebalanceLoop
        simp only [if_neg hs0, e, hup4, if_true]
        exact ⟨_, rfl, rfl, ⟨rfl, rfl, rfl, rfl, rfl⟩, rfl⟩
      obtain ⟨SQ1, e3, hm, hc, hr⟩ := e2
      refine ⟨SQ1, e3, by rw [hm]; exact hrep3, ?_, hc, hr⟩
      rw [hm]
      have := hsp3 (by rw [hup]; exact hsp)
      rw [hup] at this
      exact this
  | cons fr ctx ih =>
    intro u H fuel SQ hf hsh hctx hrep hrc huc hsp hnd h0 hroot
    cases u with
    | nil => exact absurd hsh (by simp [Shrunk])
    | node s b l x r =>
      obtain ⟨f, rfl⟩ : ∃ f, fuel = f + 1 := ⟨fuel - 1, by omega⟩
      simp only [List.length_cons] at hf
      obtain ⟨hfaU, hfaR, hfaC, hUR, hUC, hRC, hUnd, hRnd, hCnd⟩ := nodup_ctx_cons _ fr ctx hnd
      have h0U : 0 ∉ (AvlT.node s b l x r).addrs := fun h => h0 (List.mem_append_left _ h)
      have h0fa : fr.a ≠ 0 := fun h => h0 (List.mem_append_right _ (h ▸ List.mem_cons_self _ _))
      have h0R : 0 ∉ fr.r.addrs := fun h =>
        h0 (List.mem_append_right _ (List.mem_cons_of_mem _ (List.mem_append_left _ h)))
      have h0C : 0 ∉ ctxAddrs ctx := fun h =>
        h0 (List.mem_append_right _ (List.mem_cons_of_mem _ (List.mem_append_right _ h)))
      have hs0 : s ≠ 0 := fun h => h0U ((AvlT.mem_node 0 s b l x r).mpr (Or.inl h.symm))
      have hup : (SQ.mem s).Up = fr.a := hsp.1
      obtain ⟨⟨hc1, hc2, hc3, hc4, hc5⟩, hrc2⟩ := hrc
      simp only [AvlT.addr_node] at hc2
      have hupne : (SQ.mem s).Up ≠ 0 := by rw [hup]; exact h0fa
      obtain ⟨m3, e, hrep3, hup3, hsp3, hfr3, hpar3⟩ := rebalanceNode_spec SQ.mem
        (if (SQ.mem s).Up ≠ 0 then decide ((SQ.mem (SQ.mem s).Up).Left = s) else SQ.IsLeft)
        s b l x r H hrep hUnd h0U hsh
        (fun _ => by rw [if_pos hupne, hup, hc2]; exact decide_eq_true rfl)
        (fun _ => by rw [hup]; exact ⟨hc2, hfaU⟩)
      obtain ⟨hp1, hp2, hp3, hp4, hp5⟩ := hpar3 hupne
      rw [hup] at hup3 hsp3 hfr3 hp1 hp2 hp3 hp4 hp5
      obtain ⟨f1, f2, f3, f4⟩ := fixF_shrunk _ H hsh
      generalize hv : fixF (.node s b l x r) = v at *
      have hvperm : v.addrs.Perm (AvlT.node s b l x r).addrs := by
        rw [← hv]; exact fixF_addrs _
      have hvaddr : v.addr ∈ (AvlT.node s b l x r).addrs := hvperm.subset (AvlT.addr_mem v f2)
      have hfaV : fr.a ∉ v.addrs := fun h => hfaU (hvperm.subset h)
      have hvbal : (m3 v.addr).Balance = v.bal := by
        cases v with
        | nil => exact Bool.noConfusion f2
        | node _ _ _ _ _ => exact hrep3.1
      have hupv : (m3 v.addr).Up ≠ 0 := by rw [hup3]; exact h0fa
      have hspv : SpineUp m3 v fr.a := hsp3 hsp
      have hm3R : ∀ q ∈ fr.r.addrs, m3 q = SQ.mem q := fun q hq =>
        hfr3 q (fun h => hUR h hq) (by rintro rfl; exact hfaR hq)
      have hm3C : ∀ q ∈ ctxAddrs ctx, m3 q = SQ.mem q := fun q hq =>
        hfr3 q (fun h => hUC h hq) (by rintro rfl; exact hfaC hq)
      obtain ⟨⟨hb, hlo, hhi, havr⟩, hctx2⟩ := hctx
      by_cases hbv : v.bal ≠ 0
      · -- the subtree is as high as before: the loop ends
        have e2 : ∃ SQ1, rebalanceLoop (f + 1) SQ s = some (SQ1, SQ.Root) ∧
            SQ1.mem = m3 ∧ SameCtl SQ SQ1 ∧ SQ1.ReadyNode = SQ.ReadyNode := by
          unfold rebalanceLoop
          simp only [if_neg hs0, e, if_neg hupv, hvbal, if_pos hbv, hup3, if_neg h0fa]
          exact ⟨_, rfl, rfl, ⟨rfl, rfl, rfl, rfl, rfl⟩, rfl⟩
        obtain ⟨SQ1, e3, hm, hc, hr⟩ := e2
        have hpf : plugFix (fr :: ctx) (.node s b l x r)
            = plug ctx (.node fr.a fr.b v fr.x fr.r) := by
          unfold plugFix
          rw [hv, if_pos hbv]
        rw [hpf, plug_addr, AvlT.addr_node]
        refine ⟨SQ1, ?_, ?_, ?_, hc, hr⟩
        · rw [e3, hroot (List.cons_ne_nil _ _)]; rfl
        · rw [hm, Rep_plug]
          refine ⟨RepCtx_congr SQ.mem m3 ctx fr.a hm3C hrc2, ?_, ?_, ?_, ?_, hrep3, ?_⟩
          · rw [hp2]; exact hc1
          · exact hp1
          · rw [hp3]; exact hc3
          · rw [hp5]; exact hc4
          · exact Rep_of_eq SQ.mem m3 fr.r hm3R hc5
        · rw [hm, SpineUp_plug]
          refine ⟨UpCtx_congr SQ.mem m3 ctx hm3C huc.2, ?_, hspv⟩
          rw [hp4]; exact huc.1
      · -- the subtree got lower: the loop goes on from the parent
        have hbv0 : v.bal = 0 := not_not.mp hbv
        have hright : (m3 fr.a).Right ≠ v.addr := by
          rw [hp3, hc3]
          intro h
          by_cases hrn : fr.r.isNil = true
          · rw [AvlT.addr_of_isNil _ hrn] at h
            exact h0U (h ▸ hvaddr)
          · have hrn2 : fr.r.isNil = false := by
              cases hx : fr.r.isNil with
              | true => exact absurd hx hrn
              | false => rfl
            exact hUR hvaddr (h ▸ AvlT.addr_mem _ hrn2)
        have hh := f4 hbv0
        have hsh2 : Shrunk (.node fr.a (fr.b + 1) v fr.x fr.r) (1 + max H fr.r.height) :=
          ⟨f1, havr, by omega, by omega, by omega, by rw [← hh]⟩
        have hnd2 : ((AvlT.node fr.a (fr.b + 1) v fr.x fr.r).addrs ++ ctxAddrs ctx).Nodup := by
          refine (List.Perm.nodup_iff ?_).mpr hnd
          refine (List.Perm.append_right _ (List.Perm.cons _
            (List.Perm.append_right _ hvperm))).trans ?_
          simp only [ctxAddrs]
          rw [List.perm_iff_count]
          intro q
          simp only [List.count_cons, List.count_append]
          omega
        have h02 : 0 ∉ (AvlT.node fr.a (fr.b + 1) v fr.x fr.r).addrs ++ ctxAddrs ctx := by
          intro h
          rcases List.mem_append.mp h with h | h
          · rcases (AvlT.mem_node 0 fr.a _ v fr.x fr.r).mp h with h | h | h
            · exact h0fa h.symm
            · exact h0U (hvperm.subset h)
            · exact h0R h
          · exact h0C h
        have hih := ih (.node fr.a (fr.b + 1) v fr.x fr.r) (1 + max H fr.r.height) f
          { SQ with
              IsLeft := (if (SQ.mem s).Up ≠ 0 then decide ((SQ.mem (SQ.mem s).Up).Left = s)
                else SQ.IsLeft)
              mem := wr m3 fr.a { m3 fr.a with Balance := (m3 fr.a).Balance + 1 } }
          (by omega) hsh2 hctx2
          (by
            refine ⟨?_, ?_, ?_, ?_, ?_, ?_⟩
            · show (wr m3 fr.a _ fr.a).Balance = fr.b + 1
              rw [wr_same]; show (m3 fr.a).Balance + 1 = fr.b + 1
              rw [hp2, hc1]
            · show (wr m3 fr.a _ fr.a).Left = v.addr
              rw [wr_same]; exact hp1
            · show (wr m3 fr.a _ fr.a).Right = fr.r.addr
              rw [wr_same]; show (m3 fr.a).Right = fr.r.addr
              rw [hp3, hc3]
            · show (wr m3 fr.a _ fr.a).Item = fr.x
              rw [wr_same]; show (m3 fr.a).Item = fr.x
              rw [hp5, hc4]
            · exact Rep_wr _ _ _ _ hfaV hrep3
            · exact Rep_wr _ _ _ _ hfaR (Rep_of_eq SQ.mem m3 fr.r hm3R hc5))
          (by
            refine RepCtx_congr SQ.mem _ ctx fr.a (fun q hq => ?_) hrc2
            show wr m3 fr.a _ q = SQ.mem q
            rw [wr_other _ _ _ _ (by rintro rfl; exact hfaC hq)]
            exact hm3C q hq)
          (by
            refine UpCtx_congr SQ.mem _ ctx (fun q hq => ?_) huc.2
            show wr m3 fr.a _ q = SQ.mem q
            rw [wr_other _ _ _ _ (by rintro rfl; exact hfaC hq)]
            exact hm3C q hq)
          (by
            refine ⟨?_, ?_⟩
            · show (wr m3 fr.a _ fr.a).Up = parentAddr ctx 0
              rw [wr_same]; show (m3 fr.a).Up = parentAddr ctx 0
              rw [hp4]; exact huc.1
            · exact SpineUp_wr _ _ _ _ _ hfaV hspv)
          hnd2 h02
          (fun hne => (hroot (List.cons_ne_nil _ _)).trans rfl)
        obtain ⟨SQ1, e3, hrepF, hspF, hcF, hrF⟩ := hih
        have hpf : plugFix (fr :: ctx) (.node s b l x r)
            = plugFix ctx (.node fr.a (fr.b + 1) v fr.x fr.r) := by
          conv_lhs => unfold plugFix
          rw [hv, if_neg hbv]
        rw [hpf]
        refine ⟨SQ1, ?_, hrepF, hspF, hcF, hrF⟩
        show rebalanceLoop (f + 1) SQ s = _
        unfold rebalanceLoop
        simp only [if_neg hs0, e, if_neg hupv, hvbal, if_neg hbv, hup3, if_neg hright, if_neg h0fa]
        exact e3

/-- The function `avlExtractNode` for a root without subtrees. -/
theorem avlExtractNode_last {α : Type} (fuel : Nat) (SQ : sorted_queue α) (Node : Nat)
    (hn : Node ≠ 0) (hl : (SQ.mem Node).Left = 0) (hu : (SQ.mem Node).Up = 0)
    (hr : (SQ.mem Node).Right = 0) :
    avlExtractNode fuel SQ Node = some ({ SQ with ReadyNode := 0 }, 0) := by
  unfold avlExtractNode
  simp [hn, hl, hu, hr]

/-- The function `avlExtractNode` for a root with a right subtree only. -/
theorem avlExtractNode_root {α : Type} (fuel : Nat) (SQ : sorted_queue α) (Node : Nat)
    (hn : Node ≠ 0) (hl : (SQ.mem Node).Left = 0) (hu : (SQ.mem Node).Up = 0)
    (hr : (SQ.mem Node).Right ≠ 0) :
    ∃ SQ1, avlExtractNode fuel SQ Node = some (SQ1, (SQ.mem Node).Right) ∧ SameCtl SQ SQ1 ∧
      SQ1.mem (SQ.mem Node).Right = { SQ.mem (SQ.mem Node).Right with Up := 0 } ∧
      (∀ q, q ≠ (SQ.mem Node).Right → SQ1.mem q = SQ.mem q) ∧
      SQ1.ReadyNode = (SQ.mem Node).Right := by
  unfold avlExtractNode
  simp only [if_neg hn, hl, if_true, hu, ne_eq, hr, not_false_eq_true]
  refine ⟨_, rfl, ⟨rfl, rfl, rfl, rfl, rfl⟩, ?_, ?_, rfl⟩
  · simp [wr]
  · intro q hq
    simp [wr, hq]

/-- The function `avlExtractNode` for the leftmost node when it has a parent: the
node is unlinked and the re-balancing loop starts from the parent. -/
theorem avlExtractNode_inner {α : Type} (fuel : Nat) (SQ : sorted_queue α) (Node : Nat)
    (hn : Node ≠ 0) (hl : (SQ.mem Node).Left = 0) (hu : (SQ.mem Node).Up ≠ 0)
    (hpr : (SQ.mem (SQ.mem Node).Up).Right ≠ Node) (hpn : (SQ.mem Node).Up ≠ Node)
    (hrp : (SQ.mem Node).Right ≠ (SQ.mem Node).Up)
    (hrd : Node = SQ.ReadyNode) :
    ∃ SQ1, avlExtractNode fuel SQ Node = rebalanceLoop fuel SQ1 (SQ.mem Node).Up ∧
      SameCtl SQ SQ1 ∧
      SQ1.mem (SQ.mem Node).Up =
        { SQ.mem (SQ.mem Node).Up with
            Left := (SQ.mem Node).Right
            Balance := (SQ.mem (SQ.mem Node).Up).Balance + 1 } ∧
      ((SQ.mem Node).Right ≠ 0 →
        SQ1.mem (SQ.mem Node).Right = { SQ.mem (SQ.mem Node).Right with Up := (SQ.mem Node).Up }) ∧
      (∀ q, q ≠ (SQ.mem Node).Up → q ≠ (SQ.mem Node).Right → SQ1.mem q = SQ.mem q) ∧
      SQ1.ReadyNode = (if (SQ.mem Node).Right ≠ 0 then (SQ.mem Node).Right else (SQ.mem Node).Up) := by
  unfold avlExtractNode
  simp only [if_neg hn, hl, if_true, if_neg hu, if_neg hpr]
  by_cases hr : (SQ.mem Node).Right = 0
  · have hnp : Node ≠ (SQ.mem Node).Up := fun h => hpn h.symm
    simp only [wr_other _ _ _ _ hnp, hr, ne_eq, not_true_eq_false, if_false, hrd.symm, if_true]
    refine ⟨_, rfl, ⟨rfl, rfl, rfl, rfl, rfl⟩, ?_, ?_, ?_, rfl⟩
    · simp [wr]
    · intro h; exact h.elim
    · intro q hq _
      simp [wr, hq]
  · have hnp : Node ≠ (SQ.mem Node).Up := fun h => hpn h.symm
    simp only [wr_other _ _ _ _ hnp, ne_eq, hr, not_false_eq_true, if_true, hrd.symm]
    refine ⟨_, rfl, ⟨rfl, rfl, rfl, rfl, rfl⟩, ?_, ?_, ?_, rfl⟩
    · simp [wr, hrp, Ne.symm hrp]
    · intro _
      simp [wr, hrp, Ne.symm hrp]
    · intro q hq hq2
      simp [wr, hq, hq2]

/-- The end of `getSortedQueueItem`: when `avlExtractNode` leaves in memory a tree
with the nodes and the items of the old one but the leftmost, the invariant of
the queue holds again and the item returned is the first one. -/
theorem getSortedQueueItem_finish {α : Type} (fuel : Nat) (SQ SQ1 : sorted_queue α)
    (t t1 : AvlT α) (m : Nat) (x : α) (hinv : SQInv SQ t) (hsz : t.size < 2147483648)
    (hm0 : m ≠ 0) (hrd : SQ.ReadyNode = m) (hitem : (SQ.mem m).Item = x)
    (hext : avlExtractNode fuel SQ m = some (SQ1, t1.addr))
    (hrep1 : Rep SQ1.mem t1) (hsp1 : SpineUp SQ1.mem t1 0) (hctl : SameCtl SQ SQ1)
    (hrd1 : SQ1.ReadyNode = t1.leftmost) (hperm : t.addrs.Perm (m :: t1.addrs))
    (hav1 : Avl t1) (hino : t.inorder = x :: t1.inorder) :
    ∃ SQ2 t2 res, getSortedQueueItem fuel SQ = some (SQ2, res) ∧ SQInv SQ2 t2 ∧
      res = t.inorder.head? ∧ t2.inorder = t.inorder.tail ∧ SQ2.cmpFunc = SQ.cmpFunc ∧
      SQ2.malloc = SQ.malloc ∧ t2.size + 1 = t.size ∧ (t.isNil = true → SQ2 = SQ) := by
  obtain ⟨hrep, hspine, hnd, h0, hheap, hroot, hready, hel, hav, hsorted⟩ := hinv
  obtain ⟨c1, c2, c3, c4, c5⟩ := hctl
  have hsize : t.size = t1.size + 1 := by
    rw [← AvlT.length_addrs, hperm.length_eq, List.length_cons, AvlT.length_addrs]
  have helne : SQ.ElementNum ≠ 0 := by rw [hel, hsize]; omega
  have hnd2 : (m :: t1.addrs).Nodup := hperm.nodup_iff.mp hnd
  have htn : t.isNil = false := by
    cases t with
    | nil => simp [AvlT.size] at hsize
    | node _ _ _ _ _ => rfl
  refine ⟨{ SQ1 with Root := t1.addr, ElementNum := toI32 (SQ1.ElementNum - 1),
                     heap := SQ1.heap.erase m }, t1, some x, ?_, ?_, ?_, ?_, c3, c2, ?_, ?_⟩
  · unfold getSortedQueueItem
    simp only [if_neg helne, hrd, if_neg hm0, hext, hitem]
  · refine ⟨hrep1, hsp1, (List.nodup_cons.mp hnd2).2, ?_, ?_, rfl, hrd1, ?_, hav1, ?_⟩
    · exact fun h => h0 (hperm.mem_iff.mpr (List.mem_cons_of_mem _ h))
    · intro q hq
      show q ∈ SQ1.heap.erase m
      rw [c1]
      refine (List.mem_erase_of_ne ?_).mpr (hheap q (hperm.mem_iff.mpr (List.mem_cons_of_mem _ hq)))
      rintro rfl
      exact (List.nodup_cons.mp hnd2).1 hq
    · show toI32 (SQ1.ElementNum - 1) = (t1.size : Int)
      rw [c5, hel, hsize, toI32_of_nonneg _ (by push_cast; omega) (by push_cast; omega)]
      push_cast; ring
    · show t1.inorder.Pairwise (fun a b => SQ1.cmpFunc a b ≤ 0)
      rw [c3]
      rw [hino] at hsorted
      exact (List.pairwise_cons.mp hsorted).2
  · rw [hino]; rfl
  · rw [hino]; rfl
  · rw [hsize]
  · intro h; rw [htn] at h; exact Bool.noConfusion h

/-- The function `getSortedQueueItem` keeps the invariant of the sorted queue,
returns the first of the stored items and removes it; on an empty queue it
returns nothing and leaves the state as it is. -/
theorem getSortedQueueItem_spec {α : Type} (fuel : Nat) (SQ : sorted_queue α) (t : AvlT α)
    (hinv : SQInv SQ t) (hf : t.height < fuel) (hsz : t.size < 2147483648) :
    ∃ SQ2 t2, getSortedQueueItem fuel SQ = some (SQ2, t.inorder.head?) ∧ SQInv SQ2 t2 ∧
      t2.inorder = t.inorder.tail ∧ SQ2.cmpFunc = SQ.cmpFunc ∧
      SQ2.malloc = SQ.malloc ∧ t2.size = t.size - 1 ∧ (t.isNil = true → SQ2 = SQ) := by
  cases htn : t.isNil with
  | true =>
    have hel := hinv.2.2.2.2.2.2.2.1
    cases t with
    | node _ _ _ _ _ => exact Bool.noConfusion htn
    | nil =>
      refine ⟨SQ, .nil, ?_, hinv, rfl, rfl, rfl, rfl, fun _ => rfl⟩
      unfold getSortedQueueItem
      rw [if_pos (by rw [hel]; rfl)]
      rfl
  | false =>
    obtain ⟨c, m, bm, x, rm, _, hp, _⟩ := unplug_spec t [] htn
    have ht : t = plug c (.node m bm .nil x rm) := hp.symm
    subst ht
    have hinv0 := hinv
    obtain ⟨hrep, hspine, hnd, h0, hheap, hroot, hready, hel, hav, hsorted⟩ := hinv
    obtain ⟨hrc, hr1, hr2, hr3, hr4, _, hrrm⟩ := (Rep_plug SQ.mem c _).mp hrep
    obtain ⟨huc, hsu, _⟩ := (SpineUp_plug SQ.mem c _).mp hspine
    have hpermP := plug_addrs c (.node m bm .nil x rm)
    have hndP := hpermP.nodup_iff.mp hnd
    have h0P : 0 ∉ (AvlT.node m bm .nil x rm).addrs ++ ctxAddrs c :=
      fun h => h0 (hpermP.mem_iff.mpr h)
    obtain ⟨⟨hbm, hbmlo, hbmhi, _, havrm⟩, havc⟩ := (Avl_plug c _).mp hav
    have hinoP := plug_inorder c (.node m bm .nil x rm)
    simp only [AvlT.addr_node] at hrc
    simp only [AvlT.addr] at hr2
    simp only [AvlT.height] at hbm havc
    have hrmh : rm.height ≤ 1 := by omega
    have hm0 : m ≠ 0 := fun h =>
      h0P (List.mem_append_left _ ((AvlT.mem_node 0 m bm .nil x rm).mpr (Or.inl h.symm)))
    have hrdm : SQ.ReadyNode = m := hready.trans (plug_leftmost c _ rfl)
    have hmrm : m ∉ rm.addrs := by
      have := (AvlT.nodup_node m bm .nil x rm).mp (List.Nodup.of_append_left hndP)
      exact this.2.1
    have h0rm : 0 ∉ rm.addrs := fun h =>
      h0P (List.mem_append_left _ ((AvlT.mem_node 0 m bm .nil x rm).mpr (Or.inr (Or.inr h))))
    have hrmleaf : rm.isNil = false → ∃ rc rb rx, rm = AvlT.node rc rb .nil rx .nil := by
      intro hrn
      have := Avl.height_pos rm hrn
      exact AvlT.leaf_of_height_one rm (by omega)
    have hfin := getSortedQueueItem_finish fuel SQ
    cases c with
    | nil =>
      have hup : (SQ.mem m).Up = 0 := hsu
      cases hrn : rm.isNil with
      | true =>
        have hrm : rm = .nil := by
          cases rm with
          | nil => rfl
          | node _ _ _ _ _ => exact Bool.noConfusion hrn
        subst hrm
        have e := avlExtractNode_last fuel SQ m hm0 hr2 hup hr3
        obtain ⟨SQ2, t2, res, g1, g2, g3, g4, g5, g6, g7, _⟩ :=
          hfin { SQ with ReadyNode := 0 } _ .nil m x hinv0 hsz hm0 hrdm hr4 e trivial trivial
            ⟨rfl, rfl, rfl, rfl, rfl⟩ rfl (by simp [plug, AvlT.addrs]) trivial
            (by simp [plug, AvlT.inorder])
        exact ⟨SQ2, t2, by rw [← g3]; exact g1, g2, g4, g5, g6, by omega, fun h => Bool.noConfusion h⟩
      | false =>
        obtain ⟨rc, rb, rx, hrm⟩ := hrmleaf hrn
        subst hrm
        simp only [AvlT.addr_node] at hr3
        have hrc0 : rc ≠ 0 := fun h => h0rm (h ▸ List.mem_cons_self _ _)
        obtain ⟨SQ1, e, hctl, hmr, hmo, hrd1⟩ :=
          avlExtractNode_root fuel SQ m hm0 hr2 hup (by rw [hr3]; exact hrc0)
        rw [hr3] at e hmr hmo hrd1
        obtain ⟨k1, k2, k3, k4, _, _⟩ := hrrm
        obtain ⟨SQ2, t2, res, g1, g2, g3, g4, g5, g6, g7, _⟩ :=
          hfin SQ1 _ (.node rc rb .nil rx .nil) m x hinv0 hsz hm0 hrdm hr4 e
            ⟨by rw [hmr]; exact k1, by rw [hmr]; exact k2, by rw [hmr]; exact k3,
              by rw [hmr]; exact k4, trivial, trivial⟩
            ⟨by rw [hmr], trivial⟩ hctl hrd1 (by simp [plug, AvlT.addrs]) havrm
            (by simp [plug, AvlT.inorder])
        exact ⟨SQ2, t2, by rw [← g3]; exact g1, g2, g4, g5, g6, by omega, fun h => Bool.noConfusion h⟩
    | cons fr c =>
      have hup : (SQ.mem m).Up = fr.a := hsu
      obtain ⟨hfaU, hfaR, hfaC, hUR, hUC, hRC, hUnd, hRnd, hCnd⟩ := nodup_ctx_cons _ fr c hndP
      have hmU : m ∈ (AvlT.node m bm .nil x rm).addrs := List.mem_cons_self _ _
      have hrmU : ∀ q ∈ rm.addrs, q ∈ (AvlT.node m bm .nil x rm).addrs := fun q hq =>
        (AvlT.mem_node q m bm .nil x rm).mpr (Or.inr (Or.inr hq))
      have h0fa : fr.a ≠ 0 := fun h =>
        h0P (List.mem_append_right _ (h ▸ List.mem_cons_self _ _))
      have h0R : 0 ∉ fr.r.addrs := fun h =>
        h0P (List.mem_append_right _ (List.mem_cons_of_mem _ (List.mem_append_left _ h)))
      have h0C : 0 ∉ ctxAddrs c := fun h =>
        h0P (List.mem_append_right _ (List.mem_cons_of_mem _ (List.mem_append_right _ h)))
      obtain ⟨⟨hc1, hc2, hc3, hc4, hc5⟩, hrc2⟩ := hrc
      obtain ⟨⟨hb, hlo, hhi, havr⟩, hctx2⟩ := havc
      have hfam : fr.a ≠ m := fun h => hfaU (h ▸ hmU)
      have hpr : (SQ.mem (SQ.mem m).Up).Right ≠ m := by
        rw [hup, hc3]
        intro h
        by_cases hrn : fr.r.isNil = true
        · rw [AvlT.addr_of_isNil _ hrn] at h; exact hm0 h.symm
        · have hrn2 : fr.r.isNil = false := by
            cases hx : fr.r.isNil with
            | true => exact absurd hx hrn
            | false => rfl
          exact hUR hmU (h ▸ AvlT.addr_mem _ hrn2)
      have hrmfa : rm.addr ≠ fr.a := by
        intro h
        by_cases hrn : rm.isNil = true
        · rw [AvlT.addr_of_isNil _ hrn] at h; exact h0fa h.symm
        · have hrn2 : rm.isNil = false := by
            cases hx : rm.isNil with
            | true => exact absurd hx hrn
            | false => rfl
          exact hfaU (hrmU _ (h ▸ AvlT.addr_mem _ hrn2))
      obtain ⟨SQ1, e, hctl, hmp, hmr, hmo, hrd1⟩ := avlExtractNode_inner fuel SQ m hm0 hr2
        (by rw [hup]; exact h0fa) hpr (by rw [hup]; exact hfam) (by rw [hr3, hup]; exact hrmfa)
        hrdm.symm
      rw [hup] at e hmp hmr hmo hrd1
      rw [hr3] at hmp hmr hmo hrd1
      -- the memory after the unlinking
      have hrepRm : Rep SQ1.mem rm := by
        refine Rep_congr SQ.mem SQ1.mem rm (fun q hq => ?_) hrrm
        by_cases hq2 : q = rm.addr
        · have hne : rm.addr ≠ 0 := fun h => h0rm (h ▸ hq2 ▸ hq)
          rw [hq2, hmr hne]; exact ⟨rfl, rfl, rfl, rfl⟩
        · rw [hmo q (by rintro rfl; exact hfaU (hrmU _ hq)) hq2]; exact ⟨rfl, rfl, rfl, rfl⟩
      have hoR : ∀ q ∈ fr.r.addrs, SQ1.mem q = SQ.mem q := by
        intro q hq
        refine hmo q (by rintro rfl; exact hfaR hq) ?_
        intro h
        by_cases hrn : rm.isNil = true
        · rw [AvlT.addr_of_isNil _ hrn] at h; exact h0R (h ▸ hq)
        · have hrn2 : rm.isNil = false := by
            cases hx : rm.isNil with
            | true => exact absurd hx hrn
            | false => rfl
          exact hUR (hrmU _ (AvlT.addr_mem _ hrn2)) (h ▸ hq)
      have hoC : ∀ q ∈ ctxAddrs c, SQ1.mem q = SQ.mem q := by
        intro q hq
        refine hmo q (by rintro rfl; exact hfaC hq) ?_
        intro h
        by_cases hrn : rm.isNil = true
        · rw [AvlT.addr_of_isNil _ hrn] at h; exact h0C (h ▸ hq)
        · have hrn2 : rm.isNil = false := by
            cases hx : rm.isNil with
            | true => exact absurd hx hrn
            | false => rfl
          exact hUC (hrmU _ (AvlT.addr_mem _ hrn2)) (h ▸ hq)
      have hrepU : Rep SQ1.mem (.node fr.a (fr.b + 1) rm fr.x fr.r) := by
        refine ⟨?_, ?_, ?_, ?_, hrepRm, Rep_of_eq SQ.mem SQ1.mem fr.r hoR hc5⟩
        · rw [hmp]; exact congrArg (fun v => v + 1) hc1
        · rw [hmp]
        · rw [hmp]; exact hc3
        · rw [hmp]; exact hc4
      have hspU : SpineUp SQ1.mem (.node fr.a (fr.b + 1) rm fr.x fr.r) (parentAddr c 0) := by
        refine ⟨by rw [hmp]; exact huc.1, ?_⟩
        cases hrn : rm.isNil with
        | true =>
          cases rm with
          | nil => trivial
          | node _ _ _ _ _ => exact Bool.noConfusion hrn
        | false =>
          obtain ⟨rc, rb, rx, hrm⟩ := hrmleaf hrn
          subst hrm
          have hne : rc ≠ 0 := fun h => h0rm (h ▸ List.mem_cons_self _ _)
          have hmr2 := hmr hne
          simp only [AvlT.addr_node] at hmr2
          exact ⟨by rw [hmr2], trivial⟩
      have hsh : Shrunk (.node fr.a (fr.b + 1) rm fr.x fr.r)
          (1 + max (rm.height + 1) fr.r.height) :=
        ⟨havrm, havr, by omega, by omega, by omega, rfl⟩
      have hctx3 : AvlCtx c (1 + max (rm.height + 1) fr.r.height) := by
        have e1 : 1 + max 0 rm.height = rm.height + 1 := by omega
        rw [e1] at hctx2
        exact hctx2
      have hpermU : ((AvlT.node fr.a (fr.b + 1) rm fr.x fr.r).addrs ++ ctxAddrs c).Perm
          (rm.addrs ++ ctxAddrs (fr :: c)) := by
        simp only [AvlT.addrs, ctxAddrs]
        rw [List.perm_iff_count]
        intro q
        simp only [List.count_cons, List.count_append]
        omega
      have hndU0 : (rm.addrs ++ ctxAddrs (fr :: c)).Nodup := by
        have : ((AvlT.node m bm .nil x rm).addrs ++ ctxAddrs (fr :: c))
            = m :: (rm.addrs ++ ctxAddrs (fr :: c)) := by
          simp [AvlT.addrs]
        rw [this] at hndP
        exact (List.nodup_cons.mp hndP).2
      have hndU := hpermU.nodup_iff.mpr hndU0
      have h0U : 0 ∉ (AvlT.node fr.a (fr.b + 1) rm fr.x fr.r).addrs ++ ctxAddrs c := by
        intro h
        have h2 := hpermU.mem_iff.mp h
        rcases List.mem_append.mp h2 with h3 | h3
        · exact h0rm h3
        · exact h0P (List.mem_append_right _ h3)
      have hlen : c.length < fuel := by
        have := plug_height (fr :: c) (.node m bm .nil x rm)
        simp only [List.length_cons, AvlT.height] at this
        omega
      obtain ⟨SQ2, e2, hrepF, hspF, hctlF, hrdF⟩ := rebalanceLoop_spec c
        (.node fr.a (fr.b + 1) rm fr.x fr.r) _ fuel SQ1 hlen hsh hctx3 hrepU
        (RepCtx_congr SQ.mem SQ1.mem c fr.a hoC hrc2)
        (UpCtx_congr SQ.mem SQ1.mem c hoC huc.2) hspU hndU h0U
        (fun _ => by
          rw [hctl.2.2.2.1, hroot, plug_addr]; rfl)
      rw [AvlT.addr_node] at e2
      rw [e2] at e
      have hctl2 : SameCtl SQ SQ2 :=
        ⟨hctlF.1.trans hctl.1, hctlF.2.1.trans hctl.2.1, hctlF.2.2.1.trans hctl.2.2.1,
          hctlF.2.2.2.1.trans hctl.2.2.2.1, hctlF.2.2.2.2.trans hctl.2.2.2.2⟩
      obtain ⟨SQ3, t3, res, g1, g2, g3, g4, g5, g6, g7, _⟩ :=
        hfin SQ2 _ (plugFix c (.node fr.a (fr.b + 1) rm fr.x fr.r)) m x hinv0 hsz hm0 hrdm hr4 e
          hrepF hspF hctl2
          (by
            rw [hrdF, hrd1, plugFix_leftmost c (.node fr.a (fr.b + 1) rm fr.x fr.r) rfl]
            show _ = (if rm.isNil then fr.a else rm.leftmost)
            cases hrn : rm.isNil with
            | true =>
              have : rm.addr = 0 := AvlT.addr_of_isNil _ hrn
              simp [this]
            | false =>
              obtain ⟨rc, rb, rx, hrm⟩ := hrmleaf hrn
              subst hrm
              have hne : rc ≠ 0 := fun h => h0rm (h ▸ List.mem_cons_self _ _)
              simp [AvlT.addr, AvlT.leftmost, AvlT.isNil, hne])
          (by
            refine hpermP.trans ?_
            refine List.Perm.trans ?_ (List.Perm.cons m
              ((plugFix_addrs c _).trans hpermU).symm)
            simp [AvlT.addrs])
          (plugFix_avl c _ _ hsh hctx3)
          (by
            rw [hinoP, plugFix_inorder]
            simp [AvlT.inorder, ctxInorder])
      exact ⟨SQ3, t3, by rw [← g3]; exact g1, g2, g4, g5, g6, by omega, fun h => Bool.noConfusion h⟩

/-! ## sortedqueue.c : the sorted queue as a sorted list -/

/-- The function `initSortedQueue` gives an empty queue, whatever the memory
holds. -/
theorem SQInv_init {α : Type} (SQ : sorted_queue α) (cmp : α → α → Int) :
    SQInv (initSortedQueue SQ cmp) .nil :=
  ⟨trivial, trivial, List.nodup_nil, List.not_mem_nil _, fun _ h => absurd h (List.not_mem_nil _),
    rfl, rfl, rfl, trivial, List.Pairwise.nil⟩

/-- The function `avlItemVisit` on the memory of a tree, with fuel above its
height: the items in order. -/
theorem avlItemVisit_spec {α : Type} (mem : Nat → avl_tree α) :
    ∀ (t : AvlT α) (fuel : Nat), t.height < fuel → Rep mem t → 0 ∉ t.addrs →
      avlItemVisit mem fuel t.addr = some t.inorder := by
  intro t
  induction t with
  | nil =>
    intro fuel hf _ _
    obtain ⟨f, rfl⟩ : ∃ f, fuel = f + 1 := ⟨fuel - 1, by omega⟩
    simp [avlItemVisit, AvlT.addr, AvlT.inorder]
  | node a b l x r ihl ihr =>
    intro fuel hf hrep h0
    obtain ⟨f, rfl⟩ : ∃ f, fuel = f + 1 := ⟨fuel - 1, by omega⟩
    simp only [AvlT.height] at hf
    obtain ⟨_, h2, h3, h4, hl, hr⟩ := hrep
    have ha0 : a ≠ 0 := fun h => h0 ((AvlT.mem_node 0 a b l x r).mpr (Or.inl h.symm))
    have e1 := ihl f (by omega) hl
      (fun h => h0 ((AvlT.mem_node 0 a b l x r).mpr (Or.inr (Or.inl h))))
    have e2 := ihr f (by omega) hr
      (fun h => h0 ((AvlT.mem_node 0 a b l x r).mpr (Or.inr (Or.inr h))))
    show avlItemVisit mem (f + 1) a = _
    unfold avlItemVisit
    simp only [ne_eq, ha0, not_false_eq_true, if_true, h2, h3, h4, e1, e2]
    rfl

/-- The function `visitSortedQueue` on a queue that satisfies the invariant: the
items of the tree in order. -/
theorem visitSortedQueue_spec {α : Type} (fuel : Nat) (SQ : sorted_queue α) (t : AvlT α)
    (hinv : SQInv SQ t) (hf : t.height < fuel) :
    visitSortedQueue fuel SQ = some t.inorder := by
  unfold visitSortedQueue
  rw [hinv.2.2.2.2.2.1]
  exact avlItemVisit_spec SQ.mem t fuel hf hinv.1 hinv.2.2.2.1

/-- The leftmost node of a tree holds the first of its items. -/
theorem Rep_leftmost {α : Type} (mem : Nat → avl_tree α) :
    ∀ t : AvlT α, t.isNil = false → Rep mem t →
      t.inorder.head? = some (mem t.leftmost).Item := by
  intro t
  induction t with
  | nil => intro h; exact Bool.noConfusion h
  | node a b l x r ihl _ =>
    intro _ hrep
    cases hl : l.isNil with
    | true =>
      cases l with
      | node _ _ _ _ _ => exact Bool.noConfusion hl
      | nil =>
        simp only [AvlT.inorder, AvlT.leftmost, AvlT.isNil, if_true, List.nil_append,
          List.head?_cons]
        rw [hrep.2.2.2.1]
    | false =>
      have := ihl hl hrep.2.2.2.2.1
      have hlm : (AvlT.node a b l x r).leftmost = l.leftmost := by
        show (if l.isNil then a else l.leftmost) = l.leftmost
        rw [hl]; rfl
      rw [hlm, ← this]
      simp only [AvlT.inorder]
      cases hli : l.inorder with
      | nil => rw [hli] at this; simp at this
      | cons y L => rfl

/-- A tree has no item exactly when it is empty. -/
theorem AvlT.inorder_eq_nil {α : Type} (t : AvlT α) : t.inorder = [] ↔ t.isNil = true := by
  cases t with
  | nil => simp [AvlT.inorder, AvlT.isNil]
  | node a b l x r => simp [AvlT.inorder, AvlT.isNil]

/-- The function `frontSortedQueueItem` on a queue that satisfies the invariant:
the state is left as it is and the first item is returned. -/
theorem frontSortedQueueItem_spec {α : Type} (SQ : sorted_queue α) (t : AvlT α)
    (hinv : SQInv SQ t) : frontSortedQueueItem SQ = (SQ, t.inorder.head?) := by
  obtain ⟨hrep, _, _, h0, _, _, hready, _, _, _⟩ := hinv
  unfold frontSortedQueueItem
  cases htn : t.isNil with
  | true =>
    cases t with
    | node _ _ _ _ _ => exact Bool.noConfusion htn
    | nil =>
      rw [if_pos (by rw [hready]; rfl)]
      rfl
  | false =>
    have hne : SQ.ReadyNode ≠ 0 := by
      rw [hready]
      exact fun h => h0 (h ▸ AvlT.leftmost_mem t htn)
    rw [if_neg hne, Rep_leftmost SQ.mem t htn hrep, hready]

/-- The function `isSortedQueueEmpty` on a queue that satisfies the invariant. -/
theorem isSortedQueueEmpty_spec {α : Type} (SQ : sorted_queue α) (t : AvlT α)
    (hinv : SQInv SQ t) : isSortedQueueEmpty SQ = true ↔ t.inorder = [] := by
  unfold isSortedQueueEmpty
  rw [decide_eq_true_iff, hinv.2.2.2.2.2.1, AvlT.addr_eq_zero t hinv.2.2.2.1,
    AvlT.inorder_eq_nil]

/-- A sequence of calls on a queue that satisfies the invariant, with enough
fuel: the calls return what the sorted list returns, and the queue ends with the
items of the list. -/
theorem runSortedQueue_spec {α : Type} (fuel : Nat) :
    ∀ (ops : List (SQOp α)) (SQ : sorted_queue α) (t : AvlT α), SQInv SQ t →
      CmpOrder SQ.cmpFunc → (∀ L, SQ.malloc L ≠ 0 ∧ SQ.malloc L ∉ L) →
      t.size + ops.length < fuel → t.size + ops.length < 2147483648 →
      ∃ SQ1 t1, runSortedQueue fuel ops SQ
          = some (SQ1, (runSortedList SQ.cmpFunc ops t.inorder).2) ∧
        SQInv SQ1 t1 ∧ t1.inorder = (runSortedList SQ.cmpFunc ops t.inorder).1 ∧
        SQ1.cmpFunc = SQ.cmpFunc ∧ SQ1.malloc = SQ.malloc ∧ t1.size ≤ t.size + ops.length := by
  intro ops
  induction ops with
  | nil =>
    intro SQ t hinv _ _ _ _
    exact ⟨SQ, t, rfl, hinv, rfl, rfl, rfl, le_refl _⟩
  | cons op ops ih =>
    intro SQ t hinv hcmp hmal hf hsz
    simp only [List.length_cons] at hf hsz
    have hh := AvlT.height_le_size t
    cases op with
    | put x =>
      obtain ⟨SQ1, t1, e1, hinv1, hino1, hc1, hm1, hs1⟩ := putSortedQueueItem_spec SQ t x fuel
        hcmp hinv (by omega) (by omega) (hmal _).1 (hmal _).2
      obtain ⟨SQ2, t2, e2, hinv2, hino2, hc2, hm2, hs2⟩ := ih SQ1 t1 hinv1 (by rw [hc1]; exact hcmp)
        (by rw [hm1]; exact hmal) (by omega) (by omega)
      refine ⟨SQ2, t2, ?_, hinv2, ?_, hc2.trans hc1, hm2.trans hm1, by simp only [List.length_cons]; omega⟩
      · show runSortedQueue fuel (SQOp.put x :: ops) SQ = _
        unfold runSortedQueue
        simp only [e1, e2, hc1, hino1]
        rfl
      · rw [hino2, hc1, hino1]; rfl
    | get =>
      obtain ⟨SQ1, t1, e1, hinv1, hino1, hc1, hm1, hs1, _⟩ := getSortedQueueItem_spec fuel SQ t
        hinv (by omega) (by omega)
      obtain ⟨SQ2, t2, e2, hinv2, hino2, hc2, hm2, hs2⟩ := ih SQ1 t1 hinv1 (by rw [hc1]; exact hcmp)
        (by rw [hm1]; exact hmal) (by omega) (by omega)
      refine ⟨SQ2, t2, ?_, hinv2, ?_, hc2.trans hc1, hm2.trans hm1, by simp only [List.length_cons]; omega⟩
      · show runSortedQueue fuel (SQOp.get :: ops) SQ = _
        unfold runSortedQueue
        simp only [e1, e2, hc1, hino1]
        cases t.inorder <;> rfl
      · rw [hino2, hc1, hino1]
        cases t.inorder <;> rfl

/-- A queue that satisfies the invariant is drained by as many calls of
`getSortedQueueItem` as it has items, which return the items in order. -/
theorem drainSortedQueue_spec {α : Type} (fuel : Nat) :
    ∀ (n : Nat) (SQ : sorted_queue α) (t : AvlT α), SQInv SQ t → t.size = n →
      t.size < fuel → t.size < 2147483648 →
      ∃ SQ1, drainSortedQueue fuel n SQ = some (SQ1, t.inorder.map some) ∧ SQInv SQ1 .nil := by
  intro n
  induction n with
  | zero =>
    intro SQ t hinv hn _ _
    have : t.inorder = [] := by
      apply List.eq_nil_of_length_eq_zero
      rw [AvlT.length_inorder, hn]
    have htn := (AvlT.inorder_eq_nil t).mp this
    cases t with
    | node _ _ _ _ _ => exact Bool.noConfusion htn
    | nil => exact ⟨SQ, rfl, hinv⟩
  | succ n ih =>
    intro SQ t hinv hn hf hsz
    have hh := AvlT.height_le_size t
    obtain ⟨SQ1, t1, e1, hinv1, hino1, _, _, hs1, _⟩ := getSortedQueueItem_spec fuel SQ t
      hinv (by omega) hsz
    obtain ⟨SQ2, e2, hinv2⟩ := ih SQ1 t1 hinv1 (by omega) (by omega) (by omega)
    refine ⟨SQ2, ?_, hinv2⟩
    unfold drainSortedQueue
    simp only [e1, e2, hino1]
    cases hL : t.inorder with
    | nil =>
      have := AvlT.length_inorder t
      rw [hL, hn] at this
      simp at this
    | cons y L => rfl

/-- The list after a put holds the new item and the items it held before. -/
theorem listPut_perm {α : Type} (cmp : α → α → Int) (x : α) (L : List α) :
    (listPut cmp x L).Perm (x :: L) := by
  induction L with
  | nil => exact List.Perm.refl _
  | cons y L ih =>
    rw [listPut_cons]
    by_cases h : cmp x y < 0
    · rw [if_pos h]
    · rw [if_neg h]
      exact (List.Perm.cons y ih).trans (List.Perm.swap x y L)

/-- The items returned by the gets of a sequence of calls, with the items that
are left in the list, are the items that were put and the items of the list at the
start. -/
theorem runSortedList_perm {α : Type} (cmp : α → α → Int) :
    ∀ (ops : List (SQOp α)) (L : List α),
      ((runSortedList cmp ops L).2.filterMap id ++ (runSortedList cmp ops L).1).Perm
        (putItems ops ++ L) := by
  intro ops
  induction ops with
  | nil => intro L; exact List.Perm.refl _
  | cons op ops ih =>
    intro L
    cases op with
    | put x =>
      show ((runSortedList cmp ops (listPut cmp x L)).2.filterMap id
        ++ (runSortedList cmp ops (listPut cmp x L)).1).Perm (x :: putItems ops ++ L)
      refine (ih (listPut cmp x L)).trans ?_
      exact (List.Perm.append_left _ (listPut_perm cmp x L)).trans List.perm_middle
    | get =>
      cases L with
      | nil => exact ih []
      | cons y L =>
        show (y :: ((runSortedList cmp ops L).2.filterMap id
          ++ (runSortedList cmp ops L).1)).Perm (putItems ops ++ y :: L)
        exact (List.Perm.cons y (ih L)).trans List.perm_middle.symm

/-- The comparison of two natural numbers orders them. -/
theorem cmpNat_order : CmpOrder cmpNat := by
  refine ⟨fun a b h => ?_, fun a b h => ?_, fun a b c h1 h2 => ?_⟩ <;>
    unfold cmpNat at * <;> split_ifs at * <;> omega

/-- The allocator `mallocTop` returns an address that is not null and not
allocated. -/
theorem mallocTop_fresh : ∀ L : List Nat, mallocTop L ≠ 0 ∧ mallocTop L ∉ L := by
  intro L
  refine ⟨Nat.succ_ne_zero _, fun h => ?_⟩
  have key : ∀ (M : List Nat) (a : Nat), a ∈ M → a ≤ M.foldr max 0 := by
    intro M
    induction M with
    | nil => intro a ha; exact absurd ha (List.not_mem_nil _)
    | cons b M ih =>
      intro a ha
      rcases List.mem_cons.mp ha with rfl | ha
      · exact le_max_left _ _
      · exact (ih a ha).trans (le_max_right _ _)
  have := key L _ h
  unfold mallocTop at this
  omega

/-- An item is not greater than itself. -/
theorem CmpOrder.refl {α : Type} {cmp : α → α → Int} (h : CmpOrder cmp) (a : α) :
    cmp a a ≤ 0 := by
  by_contra hn
  exact hn (h.1 a a (by omega))

/-- The first item of a list in ascending order is not greater than any item of
the list. -/
theorem head_le_of_sorted {α : Type} {cmp : α → α → Int} (h : CmpOrder cmp) (L : List α)
    (hL : L.Pairwise (fun a b => cmp a b ≤ 0)) :
    ∀ x ∈ L.head?, ∀ y ∈ L, cmp x y ≤ 0 := by
  cases L with
  | nil => intro x hx; simp at hx
  | cons z L =>
    intro x hx y hy
    simp only [List.head?_cons, Option.mem_def, Option.some.injEq] at hx
    subst hx
    rcases List.mem_cons.mp hy with rfl | hy
    · exact h.refl _
    · exact (List.pairwise_cons.mp hL).1 y hy

/-- C2: on a queue made by `initSortedQueue`, with a comparison that orders the
items and an allocator that returns fresh addresses, every sequence of calls of
`putSortedQueueItem` and `getSortedQueueItem` returns what the same calls return
on a list kept in ascending order, where a get takes the first item: the gets
return the results of the list, the queue then holds the items of the list, in
ascending order; a further get returns the first item of the list, not greater
than any item that is left, and leaves the other items, or returns nothing and
leaves the state as it is when the list is empty; draining the queue returns the
stored items in ascending order and leaves it empty; and the items returned and
the items stored are the items that were put. -/
theorem sorted_queue_gets_least_item {α : Type} (SQ0 : sorted_queue α) (cmp : α → α → Int)
    (ops : List (SQOp α)) (fuel : Nat) (hcmp : CmpOrder cmp)
    (hmalloc : ∀ L, SQ0.malloc L ≠ 0 ∧ SQ0.malloc L ∉ L)
    (hfuel : ops.length < fuel) (hlen : ops.length < 2147483648) :
    ∃ SQ1 SQ2 SQ3,
      runSortedQueue fuel ops (initSortedQueue SQ0 cmp)
        = some (SQ1, (runSortedList cmp ops []).2) ∧
      visitSortedQueue fuel SQ1 = some (runSortedList cmp ops []).1 ∧
      (runSortedList cmp ops []).1.Pairwise (fun x y => cmp x y ≤ 0) ∧
      getSortedQueueItem fuel SQ1 = some (SQ2, (runSortedList cmp ops []).1.head?) ∧
      visitSortedQueue fuel SQ2 = some (runSortedList cmp ops []).1.tail ∧
      (∀ x ∈ (runSortedList cmp ops []).1.head?, ∀ y ∈ (runSortedList cmp ops []).1.tail,
        cmp x y ≤ 0) ∧
      ((runSortedList cmp ops []).1 = [] → SQ2 = SQ1) ∧
      drainSortedQueue fuel (runSortedList cmp ops []).1.length SQ1
        = some (SQ3, (runSortedList cmp ops []).1.map some) ∧
      isSortedQueueEmpty SQ3 = true ∧
      ((runSortedList cmp ops []).2.filterMap id ++ (runSortedList cmp ops []).1).Perm
        (putItems ops) := by
  obtain ⟨SQ1, t1, e1, hinv1, hino1, hc1, _, hs1⟩ :=
    runSortedQueue_spec fuel ops (initSortedQueue SQ0 cmp) .nil (SQInv_init SQ0 cmp) hcmp hmalloc
      (by simp only [AvlT.size]; omega) (by simp only [AvlT.size]; omega)
  simp only [AvlT.size, Nat.zero_add] at hs1
  have hh1 := AvlT.height_le_size t1
  have hino : t1.inorder = (runSortedList cmp ops []).1 := hino1
  obtain ⟨SQ2, t2, e2, hinv2, hino2, _, _, hs2, hnil2⟩ :=
    getSortedQueueItem_spec fuel SQ1 t1 hinv1 (by omega) (by omega)
  have hh2 := AvlT.height_le_size t2
  obtain ⟨SQ3, e3, hinv3⟩ := drainSortedQueue_spec fuel t1.size SQ1 t1 hinv1 rfl (by omega)
    (by omega)
  have hsorted : (runSortedList cmp ops []).1.Pairwise (fun x y => cmp x y ≤ 0) := by
    have := hinv1.2.2.2.2.2.2.2.2.2
    rw [hc1, hino] at this
    exact this
  refine ⟨SQ1, SQ2, SQ3, e1, ?_, hsorted, ?_, ?_, ?_, ?_, ?_, ?_, ?_⟩
  · rw [← hino]; exact visitSortedQueue_spec fuel SQ1 t1 hinv1 (by omega)
  · rw [← hino]; exact e2
  · rw [← hino, ← hino2]; exact visitSortedQueue_spec fuel SQ2 t2 hinv2 (by omega)
  · intro x hx y hy
    exact head_le_of_sorted hcmp _ hsorted x hx y (List.mem_of_mem_tail hy)
  · intro hL
    exact hnil2 ((AvlT.inorder_eq_nil t1).mp (hino.trans hL))
  · rw [← hino, AvlT.length_inorder]; exact e3
  · exact (isSortedQueueEmpty_spec SQ3 .nil hinv3).mpr rfl
  · have := runSortedList_perm cmp ops []
    rwa [List.append_nil] at this

/-- C2, an instance: three puts, a get and a put of natural numbers on a queue
made from `blankSortedQueue`. -/
theorem sorted_queue_gets_least_item_witness :
    CmpOrder cmpNat ∧ (∀ L, blankSortedQueue.malloc L ≠ 0 ∧ blankSortedQueue.malloc L ∉ L) ∧
    [SQOp.put 5, SQOp.put 3, SQOp.put 8, SQOp.get, SQOp.put 1].length < 8 ∧
    ∃ SQ1 SQ2 SQ3,
      runSortedQueue 8 [SQOp.put 5, SQOp.put 3, SQOp.put 8, SQOp.get, SQOp.put 1]
          (initSortedQueue blankSortedQueue cmpNat)
        = some (SQ1, (runSortedList cmpNat
            [SQOp.put 5, SQOp.put 3, SQOp.put 8, SQOp.get, SQOp.put 1] []).2) ∧
      visitSortedQueue 8 SQ1 = some (runSortedList cmpNat
        [SQOp.put 5, SQOp.put 3, SQOp.put 8, SQOp.get, SQOp.put 1] []).1 ∧
      (runSortedList cmpNat [SQOp.put 5, SQOp.put 3, SQOp.put 8, SQOp.get, SQOp.put 1] []).1.Pairwise
        (fun x y => cmpNat x y ≤ 0) ∧
      getSortedQueueItem 8 SQ1 = some (SQ2, (runSortedList cmpNat
        [SQOp.put 5, SQOp.put 3, SQOp.put 8, SQOp.get, SQOp.put 1] []).1.head?) ∧
      visitSortedQueue 8 SQ2 = some (runSortedList cmpNat
        [SQOp.put 5, SQOp.put 3, SQOp.put 8, SQOp.get, SQOp.put 1] []).1.tail ∧
      (∀ x ∈ (runSortedList cmpNat
          [SQOp.put 5, SQOp.put 3, SQOp.put 8, SQOp.get, SQOp.put 1] []).1.head?,
        ∀ y ∈ (runSortedList cmpNat
          [SQOp.put 5, SQOp.put 3, SQOp.put 8, SQOp.get, SQOp.put 1] []).1.tail,
        cmpNat x y ≤ 0) ∧
      ((runSortedList cmpNat [SQOp.put 5, SQOp.put 3, SQOp.put 8, SQOp.get, SQOp.put 1] []).1 = []
        → SQ2 = SQ1) ∧
      drainSortedQueue 8 (runSortedList cmpNat
          [SQOp.put 5, SQOp.put 3, SQOp.put 8, SQOp.get, SQOp.put 1] []).1.length SQ1
        = some (SQ3, (runSortedList cmpNat
            [SQOp.put 5, SQOp.put 3, SQOp.put 8, SQOp.get, SQOp.put 1] []).1.map some) ∧
      isSortedQueueEmpty SQ3 = true ∧
      ((runSortedList cmpNat
          [SQOp.put 5, SQOp.put 3, SQOp.put 8, SQOp.get, SQOp.put 1] []).2.filterMap id
        ++ (runSortedList cmpNat
          [SQOp.put 5, SQOp.put 3, SQOp.put 8, SQOp.get, SQOp.put 1] []).1).Perm
        (putItems [SQOp.put 5, SQOp.put 3, SQOp.put 8, SQOp.get, SQOp.put 1]) :=
  ⟨cmpNat_order, mallocTop_fresh, by decide,
    sorted_queue_gets_least_item blankSortedQueue cmpNat
      [SQOp.put 5, SQOp.put 3, SQOp.put 8, SQOp.get, SQOp.put 1] 8 cmpNat_order mallocTop_fresh
      (by decide) (by decide)⟩

/-- C3: on a queue made by `initSortedQueue`, with a comparison that orders the
items and an allocator that returns fresh addresses, after every sequence of
calls of `putSortedQueueItem` and `getSortedQueueItem` the memory holds a tree
whose root is `Root` and whose leftmost node is `ReadyNode`; the function
`frontSortedQueueItem` leaves the state as it is and returns the first of the
stored items, which is not greater than any stored item, and it returns nothing
exactly when `isSortedQueueEmpty` is true. -/
theorem front_item_is_least {α : Type} (SQ0 : sorted_queue α) (cmp : α → α → Int)
    (ops : List (SQOp α)) (fuel : Nat) (hcmp : CmpOrder cmp)
    (hmalloc : ∀ L, SQ0.malloc L ≠ 0 ∧ SQ0.malloc L ∉ L)
    (hfuel : ops.length < fuel) (hlen : ops.length < 2147483648) :
    ∃ SQ1 t,
      runSortedQueue fuel ops (initSortedQueue SQ0 cmp)
        = some (SQ1, (runSortedList cmp ops []).2) ∧
      Rep SQ1.mem t ∧ SQ1.Root = t.addr ∧ SQ1.ReadyNode = t.leftmost ∧
      t.inorder = (runSortedList cmp ops []).1 ∧
      visitSortedQueue fuel SQ1 = some (runSortedList cmp ops []).1 ∧
      frontSortedQueueItem SQ1 = (SQ1, (runSortedList cmp ops []).1.head?) ∧
      ((frontSortedQueueItem SQ1).2 = none ↔ isSortedQueueEmpty SQ1 = true) ∧
      (∀ x ∈ (frontSortedQueueItem SQ1).2, ∀ y ∈ (runSortedList cmp ops []).1,
        cmp x y ≤ 0) := by
  obtain ⟨SQ1, t1, e1, hinv1, hino1, hc1, _, hs1⟩ :=
    runSortedQueue_spec fuel ops (initSortedQueue SQ0 cmp) .nil (SQInv_init SQ0 cmp) hcmp hmalloc
      (by simp only [AvlT.size]; omega) (by simp only [AvlT.size]; omega)
  simp only [AvlT.size, Nat.zero_add] at hs1
  have hh1 := AvlT.height_le_size t1
  have hino : t1.inorder = (runSortedList cmp ops []).1 := hino1
  have hsorted : (runSortedList cmp ops []).1.Pairwise (fun x y => cmp x y ≤ 0) := by
    have := hinv1.2.2.2.2.2.2.2.2.2
    rw [hc1, hino] at this
    exact this
  have hfront : frontSortedQueueItem SQ1 = (SQ1, (runSortedList cmp ops []).1.head?) := by
    rw [← hino]; exact frontSortedQueueItem_spec SQ1 t1 hinv1
  refine ⟨SQ1, t1, e1, hinv1.1, hinv1.2.2.2.2.2.1, hinv1.2.2.2.2.2.2.1, hino, ?_, hfront, ?_, ?_⟩
  · rw [← hino]; exact visitSortedQueue_spec fuel SQ1 t1 hinv1 (by omega)
  · rw [hfront, isSortedQueueEmpty_spec SQ1 t1 hinv1, hino]
    exact List.head?_eq_none_iff
  · rw [hfront]
    exact head_le_of_sorted hcmp _ hsorted

/-- C3, an instance: three puts, a get and a put of natural numbers on a queue
made from `blankSortedQueue`. -/
theorem front_item_is_least_witness :
    CmpOrder cmpNat ∧ (∀ L, blankSortedQueue.malloc L ≠ 0 ∧ blankSortedQueue.malloc L ∉ L) ∧
    [SQOp.put 5, SQOp.put 3, SQOp.put 8, SQOp.get, SQOp.put 4].length < 8 ∧
    ∃ SQ1 t,
      runSortedQueue 8 [SQOp.put 5, SQOp.put 3, SQOp.put 8, SQOp.get, SQOp.put 4]
          (initSortedQueue blankSortedQueue cmpNat)
        = some (SQ1, (runSortedList cmpNat
            [SQOp.put 5, SQOp.put 3, SQOp.put 8, SQOp.get, SQOp.put 4] []).2) ∧
      Rep SQ1.mem t ∧ SQ1.Root = t.addr ∧ SQ1.ReadyNode = t.leftmost ∧
      t.inorder = (runSortedList cmpNat
        [SQOp.put 5, SQOp.put 3, SQOp.put 8, SQOp.get, SQOp.put 4] []).1 ∧
      visitSortedQueue 8 SQ1 = some (runSortedList cmpNat
        [SQOp.put 5, SQOp.put 3, SQOp.put 8, SQOp.get, SQOp.put 4] []).1 ∧
      frontSortedQueueItem SQ1 = (SQ1, (runSortedList cmpNat
        [SQOp.put 5, SQOp.put 3, SQOp.put 8, SQOp.get, SQOp.put 4] []).1.head?) ∧
      ((frontSortedQueueItem SQ1).2 = none ↔ isSortedQueueEmpty SQ1 = true) ∧
      (∀ x ∈ (frontSortedQueueItem SQ1).2, ∀ y ∈ (runSortedList cmpNat
          [SQOp.put 5, SQOp.put 3, SQOp.put 8, SQOp.get, SQOp.put 4] []).1,
        cmpNat x y ≤ 0) :=
  ⟨cmpNat_order, mallocTop_fresh, by decide,
    front_item_is_least blankSortedQueue cmpNat
      [SQOp.put 5, SQOp.put 3, SQOp.put 8, SQOp.get, SQOp.put 4] 8 cmpNat_order mallocTop_fresh
      (by decide) (by decide)⟩

/-- The function `cmpEvents` orders the events by time. -/
theorem cmpEvents_order {R : Type} [LinearOrderedField R] : CmpOrder (@cmpEvents R _) := by
  refine ⟨fun a b h => ?_, fun a b h => ?_, fun a b c h1 h2 => ?_⟩
  · unfold cmpEvents at *
    split_ifs at * <;> omega
  · unfold cmpEvents at *
    split_ifs at * <;> first | omega | (exfalso; simp at *; linarith)
  · unfold cmpEvents at *
    split_ifs at * <;> first | omega | (exfalso; simp at *; linarith)

/-- The queue of the events of the driver is the sorted queue of the events under
`cmpEvents`, as a list. -/
theorem putEvent_eq_listPut {R : Type} [LinearOrderedField R] (Event : event R)
    (q : List (event R)) : putEvent Event q = listPut cmpEvents Event q := by
  induction q with
  | nil => rfl
  | cons e rest ih =>
    rw [listPut_cons]
    show (if cmpEvents Event e < 0 then Event :: e :: rest else e :: putEvent Event rest) = _
    rw [ih]

/-! ## commands.c : the commands of the protocol -/

/-- C28, the code at a failing input: the line `STOP_SPIKE_RECORDING 10`, read with
the cursor at 0, schedules one event at 10 ms, as the line
`START_SPIKE_RECORDING 10` does; the hook function of the event is
`startSpikeRecording` for both lines, so that the event of the `STOP` line leaves
`SpikesResults` true when it was true and makes it true when it was false, while
`stopSpikeRecording` would make it false. -/
theorem stop_recording_schedules_start :
    (parseAndSubmitCommand plainEnv stopRecordingLine startState).1 = 1 ∧
    (parseAndSubmitCommand plainEnv stopRecordingLine startState).2.created.map
        (fun e => (e.Time, callHookOnSpikesResults e.cmdFunc true,
          callHookOnSpikesResults e.cmdFunc false))
      = [(10, true, true)] ∧
    (parseAndSubmitCommand plainEnv startRecordingLine startState).2.created.map
        (fun e => (e.Time, callHookOnSpikesResults e.cmdFunc true,
          callHookOnSpikesResults e.cmdFunc false))
      = [(10, true, true)] ∧
    stopSpikeRecording true = false := by
  decide!

/-- The cursor after two lists of steps. -/
theorem cursorAfter_append {R : Type} [LinearOrderedField R] (T0 : R) (a b : List (R × Bool)) :
    cursorAfter T0 (a ++ b) = cursorAfter (cursorAfter T0 a) b := by
  unfold cursorAfter
  rw [List.map_append, List.sum_append, add_assoc]

/-- The times scheduled by two lists of steps. -/
theorem scheduledTimes_append {R : Type} [LinearOrderedField R] (b : List (R × Bool)) :
    ∀ (a : List (R × Bool)) (T0 : R),
      scheduledTimes T0 (a ++ b) = scheduledTimes T0 a ++ scheduledTimes (cursorAfter T0 a) b := by
  intro a
  induction a with
  | nil => intro T0; simp [scheduledTimes, cursorAfter]
  | cons s a ih =>
    intro T0
    obtain ⟨dT, flag⟩ := s
    have hc : cursorAfter T0 ((dT, flag) :: a) = cursorAfter (T0 + dT) a := by
      unfold cursorAfter
      simp only [List.map_cons, List.sum_cons]
      rw [add_assoc]
    cases flag with
    | true =>
      show (T0 + dT) :: scheduledTimes (T0 + dT) (a ++ b) = _
      rw [ih, hc]
      rfl
    | false =>
      show scheduledTimes (T0 + dT) (a ++ b) = _
      rw [ih, hc]
      rfl

/-- No step leaves the state as it is. -/
theorem StepsDone_refl {R : Type} [LinearOrderedField R] (st : command_state R) :
    StepsDone st st [] :=
  ⟨by simp [cursorAfter], [], by simp, rfl, by simp⟩

/-- Steps done one after the other. -/
theorem StepsDone_trans {R : Type} [LinearOrderedField R] (st st1 st2 : command_state R)
    (a b : List (R × Bool)) (h1 : StepsDone st st1 a) (h2 : StepsDone st1 st2 b) :
    StepsDone st st2 (a ++ b) := by
  obtain ⟨t1, n1, c1, m1, p1⟩ := h1
  obtain ⟨t2, n2, c2, m2, p2⟩ := h2
  refine ⟨?_, n1 ++ n2, ?_, ?_, ?_⟩
  · rw [cursorAfter_append, ← t1, t2]
  · rw [c2, c1, List.append_assoc]
  · rw [List.map_append, m1, m2, scheduledTimes_append, t1]
  · refine p2.trans ?_
    rw [← List.append_assoc]
    exact List.Perm.append_right n2 p1

/-- A timed command that schedules an event. -/
theorem StepsDone_event {R : Type} [LinearOrderedField R] (st : command_state R) (dT : R)
    (f : cmd_func) (Param : List R) :
    StepsDone st (newEvent (st.Time + dT) f Param { st with Time := st.Time + dT })
      [(dT, true)] := by
  refine ⟨?_, [{ Time := st.Time + dT, cmdFunc := f, Param := Param }], rfl, rfl, ?_⟩
  · simp [newEvent, cursorAfter]
  · show (putEvent _ st.Events).Perm _
    rw [putEvent_eq_listPut]
    exact (listPut_perm _ _ _).trans
      (List.perm_append_singleton _ _).symm

/-- A timed command that schedules no event. -/
theorem StepsDone_skip {R : Type} [LinearOrderedField R] (st : command_state R) (dT : R) :
    StepsDone st { st with Time := st.Time + dT } [(dT, false)] :=
  ⟨by simp [cursorAfter], [], by simp, rfl, by simp⟩

/-- The rows of a parameter file. -/
theorem setParamFromRows_steps {R : Type} [LinearOrderedField R] (Pop ParamNum : R) :
    ∀ (rows : List (R × R)) (st : command_state R),
      StepsDone st (setParamFromRows Pop ParamNum rows st)
        (rows.map (fun row => (row.1, true))) := by
  intro rows
  induction rows with
  | nil => intro st; exact StepsDone_refl st
  | cons row rows ih =>
    intro st
    exact StepsDone_trans st _ _ [(row.1, true)] _ (StepsDone_event st row.1 _ _) (ih _)

/-- A command with one number. -/
theorem oneNumber_steps {R : Type} [LinearOrderedField R] (st : command_state R)
    (f : cmd_func) (args : List (token R)) :
    StepsDone st
      (if 1 + (scanFloats 2 args).length = 2 then
        (PROCESSED_COMMAND, newEvent (st.Time + (scanFloats 2 args).getD 0 0) f []
          { st with Time := st.Time + (scanFloats 2 args).getD 0 0 })
      else (PARSING_ERROR, st)).2 (timedStep 1 0 true (scanFloats 2 args)) := by
  unfold timedStep
  by_cases h : (scanFloats 2 args).length = 1
  · rw [if_pos (by omega), if_pos h]
    exact StepsDone_event st _ f []
  · rw [if_neg (by omega), if_neg h]
    exact StepsDone_refl st

theorem processRandomStimuliCommand_ne {R : Type} (w : token R) (args : List (token R))
    (st : command_state R) (h : ¬ w.text.toUpper = "RANDOM_STIMULI") :
    processRandomStimuliCommand (w :: args) st = (UNPROCESSED_COMMAND, st) := by
  simp [processRandomStimuliCommand, commandOf, commandText, h]

theorem processCorruptedStimulusCommand_ne {R : Type} (w : token R) (args : List (token R))
    (st : command_state R) (h : ¬ w.text.toUpper = "CORRUPTED_STIMULUS") :
    processCorruptedStimulusCommand (w :: args) st = (UNPROCESSED_COMMAND, st) := by
  simp [processCorruptedStimulusCommand, commandOf, commandText, h]

theorem processPrintDendriticStructureCommand_ne {R : Type} [LinearOrderedField R]
    (w : token R) (args : List (token R))
    (st : command_state R) (h : ¬ w.text.toUpper = "PRINT_DENDRITIC_STRUCTURE") :
    processPrintDendriticStructureCommand (w :: args) st = (UNPROCESSED_COMMAND, st) := by
  simp [processPrintDendriticStructureCommand, commandOf, commandText, h]

theorem processStartSpikeRecordingCommand_ne {R : Type} [LinearOrderedField R]
    (w : token R) (args : List (token R))
    (st : command_state R) (h : ¬ w.text.toUpper = "START_SPIKE_RECORDING") :
    processStartSpikeRecordingCommand (w :: args) st = (UNPROCESSED_COMMAND, st) := by
  simp [processStartSpikeRecordingCommand, commandOf, commandText, h]

theorem processStopSpikeRecordingCommand_ne {R : Type} [LinearOrderedField R]
    (w : token R) (args : List (token R))
    (st : command_state R) (h : ¬ w.text.toUpper = "STOP_SPIKE_RECORDING") :
    processStopSpikeRecordingCommand (w :: args) st = (UNPROCESSED_COMMAND, st) := by
  simp [processStopSpikeRecordingCommand, commandOf, commandText, h]

theorem processStartStimulationCommand_ne {R : Type} [LinearOrderedField R]
    (w : token R) (args : List (token R))
    (st : command_state R) (h : ¬ w.text.toUpper = "START_STIMULATION") :
    processStartStimulationCommand (w :: args) st = (UNPROCESSED_COMMAND, st) := by
  simp [processStartStimulationCommand, commandOf, commandText, h]

theorem processStopStimulationCommand_ne {R : Type} [LinearOrderedField R]
    (w : token R) (args : List (token R))
    (st : command_state R) (h : ¬ w.text.toUpper = "STOP_STIMULATION") :
    processStopStimulationCommand (w :: args) st = (UNPROCESSED_COMMAND, st) := by
  simp [processStopStimulationCommand, commandOf, commandText, h]

theorem processSinusoidalStimulationCommand_ne {R : Type} [LinearOrderedField R]
    (w : token R) (args : List (token R))
    (st : command_state R) (h : ¬ w.text.toUpper = "SINUSOIDAL_STIMULATION") :
    processSinusoidalStimulationCommand (w :: args) st = (UNPROCESSED_COMMAND, st) := by
  simp [processSinusoidalStimulationCommand, commandOf, commandText, h]

theorem processSetParamFromCommand_ne {R : Type} [LinearOrderedField R] (env : command_env R)
    (w : token R) (args : List (token R))
    (st : command_state R) (h : ¬ w.text.toUpper = "SET_PARAM_FROM") :
    processSetParamFromCommand env (w :: args) st = (UNPROCESSED_COMMAND, st) := by
  simp [processSetParamFromCommand, commandOf, commandText, h]

theorem processSetParamCommand_ne {R : Type} [LinearOrderedField R]
    (w : token R) (args : List (token R))
    (st : command_state R) (h : ¬ w.text.toUpper = "SET_PARAM") :
    processSetParamCommand (w :: args) st = (UNPROCESSED_COMMAND, st) := by
  simp [processSetParamCommand, commandOf, commandText, h]

theorem processExternalCommand_ne {R : Type} [LinearOrderedField R]
    (w : token R) (args : List (token R))
    (st : command_state R) (h : ¬ w.text.toUpper = "EXTERNAL_COMMAND") :
    processExternalCommand (w :: args) st = (UNPROCESSED_COMMAND, st) := by
  simp [processExternalCommand, commandOf, commandText, h]

theorem processPrintSynapticStructureCommand_ne {R : Type} [LinearOrderedField R]
    (env : command_env R) (w : token R) (args : List (token R))
    (st : command_state R) (h : ¬ w.text.toUpper = "PRINT_SYNAPTIC_STRUCTURE") :
    processPrintSynapticStructureCommand env (w :: args) st = (UNPROCESSED_COMMAND, st) := by
  simp [processPrintSynapticStructureCommand, commandOf, commandText, h]

/-- A command that is processed. -/
theorem LineDone_processed {R : Type} [LinearOrderedField R] (st x : command_state R)
    (steps : List (R × Bool)) (h : StepsDone st x steps) :
    LineDone st (PROCESSED_COMMAND, x) steps :=
  ⟨by simp [PROCESSED_COMMAND, UNPROCESSED_COMMAND], h,
    fun h0 => absurd h0 (by simp [PROCESSED_COMMAND])⟩

/-- A command that is rejected. -/
theorem LineDone_error {R : Type} [LinearOrderedField R] (st : command_state R) :
    LineDone st (PARSING_ERROR, st) [] :=
  ⟨by simp [PARSING_ERROR, UNPROCESSED_COMMAND], StepsDone_refl st, fun _ => ⟨rfl, rfl⟩⟩

/-- A command that is processed when `cond` holds and rejected otherwise. -/
theorem LineDone_ite {R : Type} [LinearOrderedField R] (cond : Prop) [Decidable cond]
    (st x : command_state R) (steps : List (R × Bool))
    (h1 : cond → StepsDone st x steps) (h2 : ¬ cond → steps = []) :
    LineDone st (if cond then (PROCESSED_COMMAND, x) else (PARSING_ERROR, st)) steps := by
  by_cases h : cond
  · rw [if_pos h]
    exact LineDone_processed st x steps (h1 h)
  · rw [if_neg h, h2 h]
    exact LineDone_error st

theorem timedStep_pos {R : Type} [LinearOrderedField R] (n k : Nat) (flag : Bool) (fs : List R)
    (h : fs.length = n) : timedStep n k flag fs = [(fs.getD k 0, flag)] := by
  unfold timedStep; rw [if_pos h]

theorem timedStep_neg {R : Type} [LinearOrderedField R] (n k : Nat) (flag : Bool) (fs : List R)
    (h : ¬ fs.length = n) : timedStep n k flag fs = [] := by
  unfold timedStep; rw [if_neg h]

theorem processRandomStimuliCommand_done {R : Type} [LinearOrderedField R] (w : token R)
    (args : List (token R)) (st : command_state R) (h : w.text.toUpper = "RANDOM_STIMULI") :
    LineDone st (processRandomStimuliCommand (w :: args) st) [] := by
  unfold processRandomStimuliCommand
  simp only [commandOf, commandText, h, if_true]
  exact LineDone_ite _ st st [] (fun _ => StepsDone_refl st) (fun _ => rfl)

theorem processCorruptedStimulusCommand_done {R : Type} [LinearOrderedField R] (w : token R)
    (args : List (token R)) (st : command_state R) (h : w.text.toUpper = "CORRUPTED_STIMULUS") :
    LineDone st (processCorruptedStimulusCommand (w :: args) st) [] := by
  unfold processCorruptedStimulusCommand
  simp only [commandOf, commandText, h, if_true]
  exact LineDone_ite _ st st [] (fun _ => StepsDone_refl st) (fun _ => rfl)

theorem processPrintDendriticStructureCommand_done {R : Type} [LinearOrderedField R]
    (w : token R) (args : List (token R)) (st : command_state R)
    (h : w.text.toUpper = "PRINT_DENDRITIC_STRUCTURE") :
    LineDone st (processPrintDendriticStructureCommand (w :: args) st)
      (timedStep 1 0 true (scanFloats 2 args)) := by
  unfold processPrintDendriticStructureCommand
  simp only [commandOf, commandText, h, if_true, List.drop_succ_cons, List.drop_zero]
  refine LineDone_ite _ st _ _ (fun hc => ?_) (fun hc => timedStep_neg _ _ _ _ (by omega))
  rw [timedStep_pos _ _ _ _ (by omega)]
  exact StepsDone_event st _ _ _

theorem processStartSpikeRecordingCommand_done {R : Type} [LinearOrderedField R]
    (w : token R) (args : List (token R)) (st : command_state R)
    (h : w.text.toUpper = "START_SPIKE_RECORDING") :
    LineDone st (processStartSpikeRecordingCommand (w :: args) st)
      (timedStep 1 0 true (scanFloats 2 args)) := by
  unfold processStartSpikeRecordingCommand
  simp only [commandOf, commandText, h, if_true, List.drop_succ_cons, List.drop_zero]
  refine LineDone_ite _ st _ _ (fun hc => ?_) (fun hc => timedStep_neg _ _ _ _ (by omega))
  rw [timedStep_pos _ _ _ _ (by omega)]
  exact StepsDone_event st _ _ _

theorem processStopSpikeRecordingCommand_done {R : Type} [LinearOrderedField R]
    (w : token R) (args : List (token R)) (st : command_state R)
    (h : w.text.toUpper = "STOP_SPIKE_RECORDING") :
    LineDone st (processStopSpikeRecordingCommand (w :: args) st)
      (timedStep 1 0 true (scanFloats 2 args)) := by
  unfold processStopSpikeRecordingCommand
  simp only [commandOf, commandText, h, if_true, List.drop_succ_cons, List.drop_zero]
  refine LineDone_ite _ st _ _ (fun hc => ?_) (fun hc => timedStep_neg _ _ _ _ (by omega))
  rw [timedStep_pos _ _ _ _ (by omega)]
  exact StepsDone_event st _ _ _

theorem processStopStimulationCommand_done {R : Type} [LinearOrderedField R]
    (w : token R) (args : List (token R)) (st : command_state R)
    (h : w.text.toUpper = "STOP_STIMULATION") :
    LineDone st (processStopStimulationCommand (w :: args) st)
      (timedStep 1 0 true (scanFloats 2 args)) := by
  unfold processStopStimulationCommand
  simp only [commandOf, commandText, h, if_true, List.drop_succ_cons, List.drop_zero]
  refine LineDone_ite _ st _ _ (fun hc => ?_) (fun hc => timedStep_neg _ _ _ _ (by omega))
  rw [timedStep_pos _ _ _ _ (by omega)]
  exact StepsDone_event st _ _ _

theorem processStartStimulationCommand_done {R : Type} [LinearOrderedField R]
    (w : token R) (args : List (token R)) (st : command_state R)
    (h : w.text.toUpper = "START_STIMULATION") :
    LineDone st (processStartStimulationCommand (w :: args) st)
      (timedStep 3 0 true (scanFloats 4 args)) := by
  unfold processStartStimulationCommand
  simp only [commandOf, commandText, h, if_true, List.drop_succ_cons, List.drop_zero]
  refine LineDone_ite _ st _ _ (fun hc => ?_) (fun hc => timedStep_neg _ _ _ _ (by omega))
  rw [timedStep_pos _ _ _ _ (by omega)]
  exact StepsDone_event st _ _ _

theorem processSinusoidalStimulationCommand_done {R : Type} [LinearOrderedField R]
    (w : token R) (args : List (token R)) (st : command_state R)
    (h : w.text.toUpper = "SINUSOIDAL_STIMULATION") :
    LineDone st (processSinusoidalStimulationCommand (w :: args) st)
      (timedStep 7 2 true (scanFloats 8 args)) := by
  unfold processSinusoidalStimulationCommand
  simp only [commandOf, commandText, h, if_true, List.drop_succ_cons, List.drop_zero]
  refine LineDone_ite _ st _ _ (fun hc => ?_) (fun hc => timedStep_neg _ _ _ _ (by omega))
  rw [timedStep_pos _ _ _ _ (by omega)]
  exact StepsDone_event st _ _ _

theorem processPrintSynapticStructureCommand_done {R : Type} [LinearOrderedField R]
    (env : command_env R) (w : token R) (args : List (token R)) (st : command_state R)
    (h : w.text.toUpper = "PRINT_SYNAPTIC_STRUCTURE") :
    LineDone st (processPrintSynapticStructureCommand env (w :: args) st)
      (timedStep 1 0 env.SynStructResults (scanFloats 2 args)) := by
  unfold processPrintSynapticStructureCommand
  simp only [commandOf, commandText, h, if_true, List.drop_succ_cons, List.drop_zero]
  by_cases hc : 1 + (scanFloats 2 args).length = 2
  · rw [if_pos hc, timedStep_pos _ _ _ _ (by omega)]
    cases hS : env.SynStructResults with
    | true =>
      rw [if_pos rfl]
      exact LineDone_processed st _ _ (StepsDone_event st _ _ _)
    | false =>
      rw [if_neg (by decide)]
      exact LineDone_processed st _ _ (StepsDone_skip st _)
  · rw [if_neg hc, timedStep_neg _ _ _ _ (by omega)]
    exact LineDone_error st

theorem processSetParamCommand_done {R : Type} [LinearOrderedField R]
    (w : token R) (args : List (token R)) (st : command_state R)
    (h : w.text.toUpper = "SET_PARAM") :
    LineDone st (processSetParamCommand (w :: args) st)
      (timedStep 4 0 true (scanFloats 6 args) ++ timedStep 5 0 true (scanFloats 6 args)) := by
  unfold processSetParamCommand
  simp only [commandOf, commandText, h, if_true, List.drop_succ_cons, List.drop_zero]
  by_cases h4 : 1 + (scanFloats 6 args).length = 5
  · rw [if_pos h4, timedStep_pos _ _ _ _ (by omega), timedStep_neg _ _ _ _ (by omega),
      List.append_nil]
    exact LineDone_processed st _ _ (StepsDone_event st _ _ _)
  · rw [if_neg h4, timedStep_neg 4 _ _ _ (by omega), List.nil_append]
    refine LineDone_ite _ st _ _ (fun hc => ?_) (fun hc => timedStep_neg _ _ _ _ (by omega))
    rw [timedStep_pos _ _ _ _ (by omega)]
    exact StepsDone_event st _ _ _

theorem externalStep_eq {R : Type} [LinearOrderedField R] (args : List (token R)) :
    externalStep args
      = if (scanFloats 1 args).length = 1 ∧ args.length + 1 ≥ 3 then
          [((scanFloats 1 args).getD 0 0, true)]
        else [] := by
  rcases args with _ | ⟨a, _ | ⟨b, rest⟩⟩
  · simp [externalStep, scanFloats]
  · cases hv : a.value <;> simp [externalStep, scanFloats, hv]
  · cases hv : a.value <;> simp [externalStep, scanFloats, hv]

theorem processExternalCommand_done {R : Type} [LinearOrderedField R]
    (w : token R) (args : List (token R)) (st : command_state R)
    (h : w.text.toUpper = "EXTERNAL_COMMAND") :
    LineDone st (processExternalCommand (w :: args) st) (externalStep args) := by
  have hcond : ∀ n len : Nat,
      ((if n = 1 then (if len ≥ 3 then 3 else 2) else 1) = 3) ↔ (n = 1 ∧ len ≥ 3) := by
    intro n len
    split_ifs <;> omega
  unfold processExternalCommand
  simp only [commandOf, commandText, h, if_true, List.drop_succ_cons, List.drop_zero, hcond,
    List.length_cons]
  rw [externalStep_eq]
  by_cases hc : (scanFloats 1 args).length = 1 ∧ args.length + 1 ≥ 3
  · rw [if_pos hc, if_pos hc]
    exact LineDone_processed st _ _ (StepsDone_event st _ _ _)
  · rw [if_neg hc, if_neg hc]
    exact LineDone_error st

theorem processSetParamFromCommand_done {R : Type} [LinearOrderedField R]
    (env : command_env R) (w : token R) (args : List (token R)) (st : command_state R)
    (h : w.text.toUpper = "SET_PARAM_FROM") :
    LineDone st (processSetParamFromCommand env (w :: args) st) (paramFileSteps env args) := by
  have hcond : ∀ len k : Nat, ((if len ≥ 2 then 2 + k else len) = 4) ↔ (len ≥ 2 ∧ k = 2) := by
    intro len k
    split_ifs <;> omega
  unfold processSetParamFromCommand
  simp only [commandOf, commandText, h, if_true, List.drop_succ_cons, List.drop_zero, hcond,
    List.length_cons]
  rcases args with _ | ⟨file, rest⟩
  · have e : paramFileSteps env ([] : List (token R)) = [] := rfl
    rw [e, if_neg (by simp)]
    exact LineDone_error st
  · simp only [paramFileSteps, List.length_cons, List.drop_succ_cons, List.drop_zero]
    by_cases hl : (scanFloats 3 rest).length = 2
    · rw [if_pos hl, if_pos ⟨by omega, hl⟩]
      cases hf : env.files file.text with
      | none => exact LineDone_error st
      | some rows =>
        exact LineDone_processed st _ _ (setParamFromRows_steps _ _ rows st)
    · rw [if_neg hl, if_neg (fun hh => hl hh.2)]
      exact LineDone_error st

/-- A function of the chain of `parseAndSubmitCommand` that does not recognise the
command passes the line on. -/
theorem chain_skip {R : Type} (st : command_state R) (a b : Int × command_state R) :
    (if (UNPROCESSED_COMMAND, st).1 ≠ UNPROCESSED_COMMAND then a else b) = b := by
  simp

/-- The function `parseAndSubmitCommand` does the steps of the line, and it leaves
the state as it is for a line without words and when it returns 0. -/
theorem parseAndSubmitCommand_done {R : Type} [LinearOrderedField R] (env : command_env R)
    (Line : command_line R) (st : command_state R) :
    StepsDone st (parseAndSubmitCommand env Line st).2 (timedSteps env Line) ∧
    ((Line.words = [] ∨ (parseAndSubmitCommand env Line st).1 = 0) →
      (parseAndSubmitCommand env Line st).2 = st ∧ timedSteps env Line = []) := by
  cases hw : Line.words with
  | nil =>
    have e : parseAndSubmitCommand env Line st = (1, st) := by
      unfold parseAndSubmitCommand; rw [hw]; rfl
    have e2 : timedSteps env Line = [] := by unfold timedSteps; rw [hw]
    rw [e, e2]
    exact ⟨StepsDone_refl st, fun _ => ⟨rfl, rfl⟩⟩
  | cons w args =>
    have fin : ∀ (r : Int × command_state R) (steps : List (R × Bool)), LineDone st r steps →
        timedSteps env Line = steps →
        StepsDone st r.2 (timedSteps env Line) ∧
          ((w :: args = [] ∨ r.1 = 0) → r.2 = st ∧ timedSteps env Line = []) := by
      intro r steps hd hs
      rw [hs]
      refine ⟨hd.2.1, fun h0 => ?_⟩
      rcases h0 with h0 | h0
      · exact absurd h0 (List.cons_ne_nil _ _)
      · exact hd.2.2 h0
    have hts : timedSteps env Line
        = if w.text.toUpper = "PRINT_DENDRITIC_STRUCTURE" ∨ w.text.toUpper = "START_SPIKE_RECORDING"
            ∨ w.text.toUpper = "STOP_SPIKE_RECORDING" ∨ w.text.toUpper = "STOP_STIMULATION" then
          timedStep 1 0 true (scanFloats 2 args)
        else if w.text.toUpper = "PRINT_SYNAPTIC_STRUCTURE" then
          timedStep 1 0 env.SynStructResults (scanFloats 2 args)
        else if w.text.toUpper = "START_STIMULATION" then timedStep 3 0 true (scanFloats 4 args)
        else if w.text.toUpper = "SINUSOIDAL_STIMULATION" then
          timedStep 7 2 true (scanFloats 8 args)
        else if w.text.toUpper = "SET_PARAM" then
          timedStep 4 0 true (scanFloats 6 args) ++ timedStep 5 0 true (scanFloats 6 args)
        else if w.text.toUpper = "EXTERNAL_COMMAND" then externalStep args
        else if w.text.toUpper = "SET_PARAM_FROM" then paramFileSteps env args
        else [] := by
      unfold timedSteps; rw [hw]
    have hunf : parseAndSubmitCommand env Line st
        = if (processRandomStimuliCommand (w :: args) st).1 ≠ UNPROCESSED_COMMAND then
            processRandomStimuliCommand (w :: args) st else
          if (processCorruptedStimulusCommand (w :: args) st).1 ≠ UNPROCESSED_COMMAND then
            processCorruptedStimulusCommand (w :: args) st else
          if (processPrintDendriticStructureCommand (w :: args) st).1 ≠ UNPROCESSED_COMMAND then
            processPrintDendriticStructureCommand (w :: args) st else
          if (processStartSpikeRecordingCommand (w :: args) st).1 ≠ UNPROCESSED_COMMAND then
            processStartSpikeRecordingCommand (w :: args) st else
          if (processStopSpikeRecordingCommand (w :: args) st).1 ≠ UNPROCESSED_COMMAND then
            processStopSpikeRecordingCommand (w :: args) st else
          if (processStartStimulationCommand (w :: args) st).1 ≠ UNPROCESSED_COMMAND then
            processStartStimulationCommand (w :: args) st else
          if (processStopStimulationCommand (w :: args) st).1 ≠ UNPROCESSED_COMMAND then
            processStopStimulationCommand (w :: args) st else
          if (processSinusoidalStimulationCommand (w :: args) st).1 ≠ UNPROCESSED_COMMAND then
            processSinusoidalStimulationCommand (w :: args) st else
          if (processSetParamFromCommand env (w :: args) st).1 ≠ UNPROCESSED_COMMAND then
            processSetParamFromCommand env (w :: args) st else
          if (processSetParamCommand (w :: args) st).1 ≠ UNPROCESSED_COMMAND then
            processSetParamCommand (w :: args) st else
          if (processExternalCommand (w :: args) st).1 ≠ UNPROCESSED_COMMAND then
            processExternalCommand (w :: args) st else
          if (processPrintSynapticStructureCommand env (w :: args) st).1 ≠ UNPROCESSED_COMMAND then
            processPrintSynapticStructureCommand env (w :: args) st else (0, st) := by
      unfold parseAndSubmitCommand; rw [hw]; rfl
    rw [hunf]
    by_cases h1 : w.text.toUpper = "RANDOM_STIMULI"
    · have hd := processRandomStimuliCommand_done w args st h1
      rw [if_pos hd.1]
      exact fin _ _ hd (by rw [hts]; simp [h1])
    rw [processRandomStimuliCommand_ne w args st h1, chain_skip]
    by_cases h2 : w.text.toUpper = "CORRUPTED_STIMULUS"
    · have hd := processCorruptedStimulusCommand_done w args st h2
      rw [if_pos hd.1]
      exact fin _ _ hd (by rw [hts]; simp [h2])
    rw [processCorruptedStimulusCommand_ne w args st h2, chain_skip]
    by_cases h3 : w.text.toUpper = "PRINT_DENDRITIC_STRUCTURE"
    · have hd := processPrintDendriticStructureCommand_done w args st h3
      rw [if_pos hd.1]
      exact fin _ _ hd (by rw [hts]; simp [h3])
    rw [processPrintDendriticStructureCommand_ne w args st h3, chain_skip]
    by_cases h4 : w.text.toUpper = "START_SPIKE_RECORDING"
    · have hd := processStartSpikeRecordingCommand_done w args st h4
      rw [if_pos hd.1]
      exact fin _ _ hd (by rw [hts]; simp [h4])
    rw [processStartSpikeRecordingCommand_ne w args st h4, chain_skip]
    by_cases h5 : w.text.toUpper = "STOP_SPIKE_RECORDING"
    · have hd := processStopSpikeRecordingCommand_done w args st h5
      rw [if_pos hd.1]
      exact fin _ _ hd (by rw [hts]; simp [h5])
    rw [processStopSpikeRecordingCommand_ne w args st h5, chain_skip]
    by_cases h6 : w.text.toUpper = "START_STIMULATION"
    · have hd := processStartStimulationCommand_done w args st h6
      rw [if_pos hd.1]
      exact fin _ _ hd (by rw [hts]; simp [h6])
    rw [processStartStimulationCommand_ne w args st h6, chain_skip]
    by_cases h7 : w.text.toUpper = "STOP_STIMULATION"
    · have hd := processStopStimulationCommand_done w args st h7
      rw [if_pos hd.1]
      exact fin _ _ hd (by rw [hts]; simp [h7])
    rw [processStopStimulationCommand_ne w args st h7, chain_skip]
    by_cases h8 : w.text.toUpper = "SINUSOIDAL_STIMULATION"
    · have hd := processSinusoidalStimulationCommand_done w args st h8
      rw [if_pos hd.1]
      exact fin _ _ hd (by rw [hts]; simp [h8])
    rw [processSinusoidalStimulationCommand_ne w args st h8, chain_skip]
    by_cases h9 : w.text.toUpper = "SET_PARAM_FROM"
    · have hd := processSetParamFromCommand_done env w args st h9
      rw [if_pos hd.1]
      exact fin _ _ hd (by rw [hts]; simp [h9])
    rw [processSetParamFromCommand_ne env w args st h9, chain_skip]
    by_cases h10 : w.text.toUpper = "SET_PARAM"
    · have hd := processSetParamCommand_done w args st h10
      rw [if_pos hd.1]
      exact fin _ _ hd (by rw [hts]; simp [h10])
    rw [processSetParamCommand_ne w args st h10, chain_skip]
    by_cases h11 : w.text.toUpper = "EXTERNAL_COMMAND"
    · have hd := processExternalCommand_done w args st h11
      rw [if_pos hd.1]
      exact fin _ _ hd (by rw [hts]; simp [h11])
    rw [processExternalCommand_ne w args st h11, chain_skip]
    by_cases h12 : w.text.toUpper = "PRINT_SYNAPTIC_STRUCTURE"
    · have hd := processPrintSynapticStructureCommand_done env w args st h12
      rw [if_pos hd.1]
      exact fin _ _ hd (by rw [hts]; simp [h12])
    rw [processPrintSynapticStructureCommand_ne env w args st h12, chain_skip]
    have hs : timedSteps env Line = [] := by
      rw [hts]; simp [h3, h4, h5, h6, h7, h8, h9, h10, h11, h12]
    rw [hs]
    exact ⟨StepsDone_refl st, fun _ => ⟨rfl, rfl⟩⟩

/-- The loop of `readCommands` does the steps of the lines, in order. -/
theorem readCommandLines_done {R : Type} [LinearOrderedField R] (env : command_env R) :
    ∀ (lines : List (command_line R)) (st : command_state R),
      StepsDone st (readCommandLines env lines st) (allSteps env lines) := by
  intro lines
  induction lines with
  | nil => intro st; exact StepsDone_refl st
  | cons Line rest ih =>
    intro st
    exact StepsDone_trans st _ _ _ _ (parseAndSubmitCommand_done env Line st).1 (ih _)

/-- C29: a pass of `readCommands` over the lines `lines`, from the cursor `T0`
(the time 0 for the first call, the simulation time for the other ones): the
events created are scheduled, in the order of the lines, at `T0` plus the sum of
the relative times of the well-formed timed commands up to and including theirs
(the rows of the file of a `SET_PARAM_FROM` count as timed commands, and so does a
`PRINT_SYNAPTIC_STRUCTURE` that is neglected), they are in the queue, and the cursor
ends at `T0` plus the sum of all the relative times; a line without words (an
empty line or a comment) and a line for which `parseAndSubmitCommand` returns 0 (a
command that is not recognised or a parsing error) leave the cursor, the queue
and the events as they are. -/
theorem commands_scheduled_at_running_sums {R : Type} [LinearOrderedField R]
    (env : command_env R) (lines : List (command_line R)) (st : command_state R) :
    (readCommandLines env lines st).Time = cursorAfter st.Time (allSteps env lines) ∧
    (∃ new : List (event R),
      (readCommandLines env lines st).created = st.created ++ new ∧
      new.map (fun e => e.Time) = scheduledTimes st.Time (allSteps env lines) ∧
      (readCommandLines env lines st).Events.Perm (st.Events ++ new)) ∧
    (∀ (Line : command_line R) (st1 : command_state R),
      (Line.words = [] ∨ (parseAndSubmitCommand env Line st1).1 = 0) →
        (parseAndSubmitCommand env Line st1).2 = st1 ∧ timedSteps env Line = []) ∧
    (∀ (LastTime : R) (Events : List (event R)),
      (readCommands env none LastTime (some lines) Events).2.created.map (fun e => e.Time)
        = scheduledTimes 0 (allSteps env lines)) ∧
    (∀ (T0 LastTime : R) (Events : List (event R)), ¬ LastTime + 1 > T0 →
      (readCommands env (some T0) LastTime (some lines) Events).2.created.map (fun e => e.Time)
        = scheduledTimes T0 (allSteps env lines)) := by
  have hd := readCommandLines_done env lines st
  refine ⟨hd.1, hd.2, ?_, ?_, ?_⟩
  · intro Line st1 h0
    exact (parseAndSubmitCommand_done env Line st1).2 h0
  · intro LastTime Events
    obtain ⟨_, new, hc, hm, _⟩ := readCommandLines_done env lines
      ({ Time := 0, Events := [], created := [] } : command_state R)
    show (readCommandLines env lines _).created.map _ = _
    rw [hc]
    exact hm
  · intro T0 LastTime Events hread
    obtain ⟨_, new, hc, hm, _⟩ := readCommandLines_done env lines
      ({ Time := T0, Events := Events, created := [] } : command_state R)
    unfold readCommands
    simp only [if_neg hread]
    rw [hc]
    exact hm

/-- C29, an instance: the lines `protocolLines` read from the cursor 0.  The
`SET_PARAM` of the second line is scheduled at 10 ms and the
`START_SPIKE_RECORDING` of the fourth line at 15 ms; the other lines schedule
nothing and leave the cursor as it is. -/
theorem commands_scheduled_at_running_sums_witness :
    (readCommandLines plainEnv protocolLines startState).Time
      = cursorAfter startState.Time (allSteps plainEnv protocolLines) ∧
    cursorAfter startState.Time (allSteps plainEnv protocolLines) = 15 ∧
    scheduledTimes startState.Time (allSteps plainEnv protocolLines) = [10, 15] ∧
    (readCommandLines plainEnv protocolLines startState).created.map (fun e => e.Time)
      = [10, 15] :=
  ⟨(commands_scheduled_at_running_sums plainEnv protocolLines startState).1, by decide!,
    by decide!, by decide!⟩

/-- The event that `manageSinusoidalStimulation` puts back in the queue is due
`Dt` later. -/
theorem manageSinusoidalStimulation_next {R σ : Type} [LinearOrderedField R] [FloorRing R]
    (sin : R → R) (ty : neuron_type) (Life ret : R) (Event : event R) (G : globals R σ) :
    (manageSinusoidalStimulation sin ty Life ret Event G).2.1.Time
      = Event.Time + Event.Param.getD 3 0 := rfl

/-- C27, the code at a failing input, with the sine of the real numbers: the
command `SINUSOIDAL_STIMULATION 0 4 5 1 100 2 0.5` modulates the rate of the
external spikes of population 0, which is 100 Hz, with the phase 2 and the
amplitude 1/2.  At its first firing, at `t = T0 = 5`, the hook function sets the
rate to `100·(1 + (0.5·sin(0) + 2)) = 300`, the phase being added outside the sine,
and puts its event back for 6 ms; the value of the specification,
`100·(1 + 0.5·sin(2))`, is at most 150. -/
theorem sinusoid_phase_outside_sine :
    (sinusoidGlobals ℝ).P.Populations.map (fun p => p.NuExt) = [100] ∧
    (manageSinusoidalStimulation Real.sin neuron_type.VIF 1000 0 (sinusoidEvent ℝ)
      (sinusoidGlobals ℝ)).1.P.Populations.map (fun p => p.NuExt) = [300] ∧
    (manageSinusoidalStimulation Real.sin neuron_type.VIF 1000 0 (sinusoidEvent ℝ)
      (sinusoidGlobals ℝ)).2.1.Time = 6 ∧
    sinusoidalValueSpec Real.sin 100 (1 / 2) 2 5 100 5 ≤ 150 := by
  refine ⟨?_, ?_, ?_, ?_⟩
  · simp [sinusoidGlobals]
  · simp [manageSinusoidalStimulation, getPopulationParam, setPopulationParam, sinusoidGlobals,
      sinusoidEvent, truncToInt]
    norm_num
  · rw [manageSinusoidalStimulation_next]
    norm_num [sinusoidEvent]
  · unfold sinusoidalValueSpec
    have h := Real.sin_le_one (6283185307179586477 / 1000000000000000000 * (5 - 5) / 100 + 2)
    linarith

/-! ## synapses.c : the parameters that `parseSynapseParams` accepts -/

theorem parseSynapseParams_FXD_zero_iff {R : Type} [LinearOrderedField R] (P : List R) :
    parseSynapseParams_FXD P = 0 ↔ P.length = 2 ∧ 0 ≤ P.getD 1 0 := by
  unfold parseSynapseParams_FXD
  by_cases h1 : P.length = 2
  · by_cases h2 : P.getD 1 0 < 0
    · rw [if_neg (not_not.mpr h1), if_pos h2]
      exact ⟨fun h => absurd h (by decide), fun h => absurd h.2 (not_le.mpr h2)⟩
    · rw [if_neg (not_not.mpr h1), if_neg h2]
      exact ⟨fun _ => ⟨h1, not_lt.mp h2⟩, fun _ => rfl⟩
  · rw [if_pos h1]
    exact ⟨fun h => absurd h (by decide), fun h => absurd h.1 h1⟩

theorem parseSynapseParams_AF_zero_iff {R : Type} [LinearOrderedField R] (P : List R) :
    parseSynapseParams_AF P = 0 ↔ P.length = 13 ∧
      0 ≤ (asParamsAF P).DJ0 ∧ 0 ≤ (asParamsAF P).DJ1 ∧ (asParamsAF P).J0 ≤ (asParamsAF P).J1 ∧
      (asParamsAF P).RBdown ≤ (asParamsAF P).ThetaJ ∧ (asParamsAF P).ThetaJ ≤ (asParamsAF P).RBup ∧
      0 ≤ (asParamsAF P).R0 ∧ (asParamsAF P).R0 ≤ 1 := by
  unfold parseSynapseParams_AF NSP_AF
  have h10 : (1 : Int) ≠ 0 := by decide
  by_cases a : P.length = 13
  · rw [if_neg (not_not.mpr a)]
    dsimp only
    by_cases b : (asParamsAF P).DJ0 < 0 ∨ (asParamsAF P).DJ1 < 0
    · rw [if_pos b]
      refine ⟨fun h => absurd h h10, fun h => ?_⟩
      rcases b with b | b
      · exact absurd h.2.1 (not_le.mpr b)
      · exact absurd h.2.2.1 (not_le.mpr b)
    · rw [if_neg b]
      by_cases c : (asParamsAF P).J1 < (asParamsAF P).J0
      · rw [if_pos c]
        exact ⟨fun h => absurd h h10, fun h => absurd h.2.2.2.1 (not_le.mpr c)⟩
      · rw [if_neg c]
        by_cases d : ¬ ((asParamsAF P).ThetaJ ≥ (asParamsAF P).RBdown ∧
            (asParamsAF P).RBup ≥ (asParamsAF P).ThetaJ)
        · rw [if_pos d]
          exact ⟨fun h => absurd h h10, fun h => absurd ⟨h.2.2.2.2.1, h.2.2.2.2.2.1⟩ d⟩
        · rw [if_neg d]
          by_cases e : (asParamsAF P).R0 < 0 ∨ (asParamsAF P).R0 > 1
          · rw [if_pos e]
            refine ⟨fun h => absurd h h10, fun h => ?_⟩
            rcases e with e | e
            · exact absurd h.2.2.2.2.2.2.1 (not_le.mpr e)
            · exact absurd h.2.2.2.2.2.2.2 (not_le.mpr e)
          · rw [if_neg e]
            push_neg at b e
            have hd := not_not.mp d
            exact ⟨fun _ => ⟨a, b.1, b.2, not_lt.mp c, hd.1, hd.2, e.1, e.2⟩, fun _ => rfl⟩
  · rw [if_pos a]
    exact ⟨fun h => absurd h h10, fun h => absurd h.1 a⟩

theorem parseSynapseParams_TWAM_zero_iff {R : Type} [LinearOrderedField R] (P : List R) :
    parseSynapseParams_TWAM P = 0 ↔ P.length = 13 ∧
      0 ≤ (asParamsTWAM P).DJ0 ∧ 0 ≤ (asParamsTWAM P).DJ1 ∧
      (asParamsTWAM P).J0 ≤ (asParamsTWAM P).J1 ∧
      (asParamsTWAM P).RBdown ≤ (asParamsTWAM P).ThetaJ ∧
      (asParamsTWAM P).ThetaJ ≤ (asParamsTWAM P).RBup ∧
      0 ≤ (asParamsTWAM P).R0 ∧ (asParamsTWAM P).R0 ≤ 1 ∧ 0 < (asParamsTWAM P).PotWindow := by
  unfold parseSynapseParams_TWAM NSP_AF
  have h10 : (1 : Int) ≠ 0 := by decide
  by_cases a : P.length = 13
  · rw [if_neg (not_not.mpr a)]
    dsimp only
    by_cases b : (asParamsTWAM P).DJ0 < 0 ∨ (asParamsTWAM P).DJ1 < 0
    · rw [if_pos b]
      refine ⟨fun h => absurd h h10, fun h => ?_⟩
      rcases b with b | b
      · exact absurd h.2.1 (not_le.mpr b)
      · exact absurd h.2.2.1 (not_le.mpr b)
    · rw [if_neg b]
      by_cases c : (asParamsTWAM P).J1 < (asParamsTWAM P).J0
      · rw [if_pos c]
        exact ⟨fun h => absurd h h10, fun h => absurd h.2.2.2.1 (not_le.mpr c)⟩
      · rw [if_neg c]
        by_cases d : ¬ ((asParamsTWAM P).ThetaJ ≥ (asParamsTWAM P).RBdown ∧
            (asParamsTWAM P).RBup ≥ (asParamsTWAM P).ThetaJ)
        · rw [if_pos d]
          exact ⟨fun h => absurd h h10, fun h => absurd ⟨h.2.2.2.2.1, h.2.2.2.2.2.1⟩ d⟩
        · rw [if_neg d]
          by_cases e : (asParamsTWAM P).R0 < 0 ∨ (asParamsTWAM P).R0 > 1
          · rw [if_pos e]
            refine ⟨fun h => absurd h h10, fun h => ?_⟩
            rcases e with e | e
            · exact absurd h.2.2.2.2.2.2.1 (not_le.mpr e)
            · exact absurd h.2.2.2.2.2.2.2.1 (not_le.mpr e)
          · rw [if_neg e]
            by_cases f : (asParamsTWAM P).PotWindow ≤ 0
            · rw [if_pos f]
              exact ⟨fun h => absurd h h10, fun h => absurd h.2.2.2.2.2.2.2.2 (not_lt.mpr f)⟩
            · rw [if_neg f]
              push_neg at b e f
              have hd := not_not.mp d
              exact ⟨fun _ => ⟨a, b.1, b.2, not_lt.mp c, hd.1, hd.2, e.1, e.2, f⟩, fun _ => rfl⟩
  · rw [if_pos a]
    exact ⟨fun h => absurd h h10, fun h => absurd h.1 a⟩

theorem parseSynapseParams_FXD_range {R : Type} [LinearOrderedField R] (P : List R) :
    parseSynapseParams_FXD P = 0 ∨ parseSynapseParams_FXD P = 1 := by
  unfold parseSynapseParams_FXD
  split_ifs <;> simp

theorem parseSynapseParams_AF_range {R : Type} [LinearOrderedField R] (P : List R) :
    parseSynapseParams_AF P = 0 ∨ parseSynapseParams_AF P = 1 := by
  unfold parseSynapseParams_AF
  dsimp only
  split_ifs <;> simp

theorem parseSynapseParams_TWAM_range {R : Type} [LinearOrderedField R] (P : List R) :
    parseSynapseParams_TWAM P = 0 ∨ parseSynapseParams_TWAM P = 1 := by
  unfold parseSynapseParams_TWAM
  dsimp only
  split_ifs <;> simp


/-- Claim C31.  `parseSynapseParams` returns 0 or 1, and it returns 0 if and only if
the synapse type is FIXED with exactly 2 parameters and `DJ >= 0`, or AF with
exactly 13 parameters and `DJ0 >= 0`, `DJ1 >= 0`, `J1 >= J0`,
`RBdown <= ThetaJ <= RBup` and `0 <= R0 <= 1`, or TWAM with exactly 13 parameters,
the same conditions on its fields and `PotWindow > 0`; for every other synapse
type it returns 1. -/
theorem parseSynapseParams_zero_iff {R : Type} [LinearOrderedField R] (SynapseType : Int)
    (SynapseParams : List R) :
    (parseSynapseParams SynapseType SynapseParams = 0 ↔
      (SynapseType = ST_FXD ∧ SynapseParams.length = 2 ∧ 0 ≤ SynapseParams.getD 1 0) ∨
      (SynapseType = ST_AF ∧ SynapseParams.length = 13 ∧
        0 ≤ (asParamsAF SynapseParams).DJ0 ∧ 0 ≤ (asParamsAF SynapseParams).DJ1 ∧
        (asParamsAF SynapseParams).J0 ≤ (asParamsAF SynapseParams).J1 ∧
        (asParamsAF SynapseParams).RBdown ≤ (asParamsAF SynapseParams).ThetaJ ∧
        (asParamsAF SynapseParams).ThetaJ ≤ (asParamsAF SynapseParams).RBup ∧
        0 ≤ (asParamsAF SynapseParams).R0 ∧ (asParamsAF SynapseParams).R0 ≤ 1) ∨
      (SynapseType = ST_TWAM ∧ SynapseParams.length = 13 ∧
        0 ≤ (asParamsTWAM SynapseParams).DJ0 ∧ 0 ≤ (asParamsTWAM SynapseParams).DJ1 ∧
        (asParamsTWAM SynapseParams).J0 ≤ (asParamsTWAM SynapseParams).J1 ∧
        (asParamsTWAM SynapseParams).RBdown ≤ (asParamsTWAM SynapseParams).ThetaJ ∧
        (asParamsTWAM SynapseParams).ThetaJ ≤ (asParamsTWAM SynapseParams).RBup ∧
        0 ≤ (asParamsTWAM SynapseParams).R0 ∧ (asParamsTWAM SynapseParams).R0 ≤ 1 ∧
        0 < (asParamsTWAM SynapseParams).PotWindow)) ∧
    (parseSynapseParams SynapseType SynapseParams = 0 ∨
      parseSynapseParams SynapseType SynapseParams = 1) ∧
    (SynapseType ≠ ST_FXD → SynapseType ≠ ST_AF → SynapseType ≠ ST_TWAM →
      parseSynapseParams SynapseType SynapseParams = 1) := by
  have hFA : ST_FXD ≠ ST_AF := by decide
  have hFT : ST_FXD ≠ ST_TWAM := by decide
  have hAT : ST_AF ≠ ST_TWAM := by decide
  unfold parseSynapseParams
  by_cases h0 : SynapseType = ST_FXD
  · subst h0
    rw [if_pos rfl]
    refine ⟨?_, parseSynapseParams_FXD_range _, fun h => absurd rfl h⟩
    rw [parseSynapseParams_FXD_zero_iff]
    constructor
    · intro h; exact Or.inl ⟨rfl, h⟩
    · rintro (h | h | h)
      · exact h.2
      · exact absurd h.1 hFA
      · exact absurd h.1 hFT
  · rw [if_neg h0]
    by_cases h1 : SynapseType = ST_AF
    · subst h1
      rw [if_pos rfl]
      refine ⟨?_, parseSynapseParams_AF_range _, fun _ h => absurd rfl h⟩
      rw [parseSynapseParams_AF_zero_iff]
      constructor
      · intro h; exact Or.inr (Or.inl ⟨rfl, h⟩)
      · rintro (h | h | h)
        · exact absurd h.1 h0
        · exact h.2
        · exact absurd h.1 hAT
    · rw [if_neg h1]
      by_cases h2 : SynapseType = ST_TWAM
      · subst h2
        rw [if_pos rfl]
        refine ⟨?_, parseSynapseParams_TWAM_range _, fun _ _ h => absurd rfl h⟩
        rw [parseSynapseParams_TWAM_zero_iff]
        constructor
        · intro h; exact Or.inr (Or.inr ⟨rfl, h⟩)
        · rintro (h | h | h)
          · exact absurd h.1 h0
          · exact absurd h.1 h1
          · exact h.2
      · rw [if_neg h2]
        refine ⟨?_, Or.inr rfl, fun _ _ _ => rfl⟩
        constructor
        · intro h; exact absurd h (by decide)
        · rintro (h | h | h)
          · exact absurd h.1 h0
          · exact absurd h.1 h1
          · exact absurd h.1 h2

/-- A fixed synapse with efficacy 1 and no dispersion is accepted, and a synapse
type that is none of the three is refused. -/
theorem parseSynapseParams_zero_iff_witness :
    parseSynapseParams ST_FXD ([1, 0] : List ℚ) = 0 ∧
      parseSynapseParams (7 : Int) ([1, 0] : List ℚ) = 1 :=
  ⟨(parseSynapseParams_zero_iff ST_FXD ([1, 0] : List ℚ)).1.mpr
      (Or.inl ⟨rfl, rfl, by decide!⟩),
    (parseSynapseParams_zero_iff (7 : Int) ([1, 0] : List ℚ)).2.2 (by decide) (by decide)
      (by decide)⟩

/-! ## connectivity.c : the skip drawn by `getEmptySynapses_RAN` on exact reals -/

theorem emptySynapsesRuns_from {R : Type} [LinearOrderedField R] (p r : R) :
    ∀ (d fuel j : Nat), d < fuel →
      (∀ i, i < d → 1 - (1 - p) ^ (j + 1 + i) < r) →
      ¬ (1 - (1 - p) ^ (j + 1 + d) < r) →
      emptySynapsesRuns p r fuel (p * (1 - p) ^ j) (1 - (1 - p) ^ (j + 1)) = some d := by
  intro d
  induction d with
  | zero =>
    intro fuel j hf _ hn
    obtain ⟨f, rfl⟩ : ∃ f, fuel = f + 1 := ⟨fuel - 1, by omega⟩
    unfold emptySynapsesRuns
    rw [if_neg (by simpa using hn)]
  | succ d ih =>
    intro fuel j hf hlt hn
    obtain ⟨f, rfl⟩ : ∃ f, fuel = f + 1 := ⟨fuel - 1, by omega⟩
    unfold emptySynapsesRuns
    have h0 := hlt 0 (by omega)
    rw [if_pos (by simpa using h0)]
    have e1 : p * (1 - p) ^ j * (1 - p) = p * (1 - p) ^ (j + 1) := by ring
    have e2 : 1 - (1 - p) ^ (j + 1) + p * (1 - p) ^ j * (1 - p)
        = 1 - (1 - p) ^ (j + 1 + 1) := by ring
    rw [e2, e1, ih f (j + 1) (by omega)
      (fun i hi => by
        have := hlt (i + 1) (by omega)
        rwa [show j + 1 + (i + 1) = j + 1 + 1 + i by omega] at this)
      (by rwa [show j + 1 + (d + 1) = j + 1 + 1 + d by omega] at hn)]
    rfl

/-- The loop of `getEmptySynapses_RAN` from its initial values `P = C = CProb`: when
`n >= 1` is the least integer with `1 - (1 - p) ^ n >= r`, the body runs `n - 1`
times. -/
theorem emptySynapsesRuns_least {R : Type} [LinearOrderedField R] (p r : R) (n : Nat)
    (hn : 1 ≤ n) (hge : r ≤ 1 - (1 - p) ^ n)
    (hleast : ∀ m, 1 ≤ m → m < n → 1 - (1 - p) ^ m < r) (fuel : Nat) (hf : n ≤ fuel) :
    emptySynapsesRuns p r fuel p p = some (n - 1) := by
  have h := emptySynapsesRuns_from p r (n - 1) fuel 0 (by omega)
    (fun i hi => by
      have := hleast (i + 1) (by omega) (by omega)
      rwa [show i + 1 = 0 + 1 + i by omega] at this)
    (by rw [show 0 + 1 + (n - 1) = n by omega]; exact not_lt.mpr hge)
  have e1 : p * (1 - p) ^ 0 = p := by ring
  have e2 : 1 - (1 - p) ^ (0 + 1) = p := by ring
  rwa [e1, e2] at h

/-- For `0 < p <= 1` and `r < 1` there is a least integer `n >= 1` with
`1 - (1 - p) ^ n >= r`. -/
theorem geometric_least_exists {R : Type} [LinearOrderedField R] [Archimedean R] (p r : R)
    (hp : 0 < p) (hp1 : p ≤ 1) (hr : r < 1) :
    ∃ n : Nat, 1 ≤ n ∧ r ≤ 1 - (1 - p) ^ n ∧ ∀ m, 1 ≤ m → m < n → 1 - (1 - p) ^ m < r := by
  classical
  have hq0 : 0 ≤ 1 - p := by linarith
  have hq1 : 1 - p < 1 := by linarith
  obtain ⟨N, hN⟩ := exists_pow_lt_of_lt_one (show 0 < 1 - r by linarith) hq1
  have hex : ∃ n : Nat, 1 ≤ n ∧ r ≤ 1 - (1 - p) ^ n := by
    refine ⟨N + 1, by omega, ?_⟩
    have : (1 - p) ^ (N + 1) ≤ (1 - p) ^ N := by
      rw [pow_succ]
      exact mul_le_of_le_one_right (pow_nonneg hq0 N) hq1.le
    linarith
  refine ⟨Nat.find hex, (Nat.find_spec hex).1, (Nat.find_spec hex).2, ?_⟩
  intro m hm hlt
  have := Nat.find_min hex hlt
  by_contra hc
  exact this ⟨hm, not_lt.mp hc⟩

theorem getEmptySynapses_RAN_value {R : Type} [LinearOrderedRing R]
    (Connectivity : Nat → Nat → Option (connectivity R)) (postPop prePop : Nat)
    (c : connectivity R) (hc : Connectivity postPop prePop = some c) (hp : 0 < c.CProb)
    (g : Nat → Nat) (n : Nat) (hn : 1 ≤ n) (hg : g 0 = n - 1) :
    (getEmptySynapses_RAN Connectivity postPop prePop g).1
      = if n % 4294967296 = 0 then INT_MAX else n % 4294967296 := by
  unfold getEmptySynapses_RAN
  rw [hc]
  simp only [if_neg (not_le.mpr hp), hg]
  have e : toU32 (1 + ((n - 1 : Nat) : Int)) = n % 4294967296 := by
    unfold toU32
    omega
  rw [e]
  by_cases h : n % 4294967296 = 0
  · rw [if_pos h, if_pos (by omega)]
  · rw [if_neg h, if_neg (by omega)]

/-- The loop of `getEmptySynapses_RAN` with its `indexn` counter: when the body runs
`k` times, the counter ends at `n + k` reduced modulo `2 ^ 32`. -/
theorem emptySynapsesLoop_eq {R : Type} [LinearOrderedRing R] (CProb r : R) :
    ∀ (fuel n : Nat) (P C : R), n < 4294967296 →
      emptySynapsesLoop CProb r fuel n P C
        = (emptySynapsesRuns CProb r fuel P C).map
            (fun (k : Nat) => toU32 ((n : Int) + (k : Int))) := by
  intro fuel
  induction fuel with
  | zero => intro n P C _; rfl
  | succ f ih =>
    intro n P C hn
    unfold emptySynapsesLoop emptySynapsesRuns
    by_cases h : C < r
    · rw [if_pos h, if_pos h, ih _ _ _ (by unfold toU32; omega), Option.map_map]
      congr 1
      funext k
      simp only [Function.comp_apply]
      unfold toU32
      push_cast
      omega
    · rw [if_neg h, if_neg h]
      simp only [Option.map_some', Option.some.injEq]
      unfold toU32
      omega

/-- The function with its loop and the function that takes the number of runs of the
loop from a stream return the same value, when the stream holds that number. -/
theorem getEmptySynapses_RAN_exact_agrees {R : Type} [LinearOrderedRing R]
    (Connectivity : Nat → Nat → Option (connectivity R)) (postPop prePop : Nat)
    (c : connectivity R) (hc : Connectivity postPop prePop = some c) (r : R)
    (fuel k : Nat) (hk : emptySynapsesRuns c.CProb r fuel c.CProb c.CProb = some k)
    (g : Nat → Nat) (hg : g 0 = k) :
    getEmptySynapses_RAN_exact Connectivity postPop prePop r fuel
      = some (getEmptySynapses_RAN Connectivity postPop prePop g).1 := by
  unfold getEmptySynapses_RAN_exact getEmptySynapses_RAN
  rw [hc]
  by_cases hp : c.CProb ≤ 0
  · simp only [if_pos hp]
  · simp only [if_neg hp]
    rw [emptySynapsesLoop_eq c.CProb r fuel 1 c.CProb c.CProb (by omega), hk, hg]
    rfl

/-- The value that `getEmptySynapses_RAN` returns when `n >= 1` is the least integer
with `1 - (1 - p) ^ n >= r`: the loop ends, and the value is `n` reduced modulo
`2 ^ 32`, replaced by `INT_MAX` when that is 0. -/
theorem getEmptySynapses_RAN_exact_value {R : Type} [LinearOrderedField R]
    (Connectivity : Nat → Nat → Option (connectivity R)) (postPop prePop : Nat)
    (c : connectivity R) (hc : Connectivity postPop prePop = some c) (hp : 0 < c.CProb)
    (r : R) (n : Nat) (hn : 1 ≤ n) (hge : r ≤ 1 - (1 - c.CProb) ^ n)
    (hleast : ∀ m, 1 ≤ m → m < n → 1 - (1 - c.CProb) ^ m < r) (fuel : Nat) (hf : n ≤ fuel) :
    getEmptySynapses_RAN_exact Connectivity postPop prePop r fuel
      = some (if n % 4294967296 = 0 then INT_MAX else n % 4294967296) := by
  have hk := emptySynapsesRuns_least c.CProb r n hn hge hleast fuel hf
  rw [getEmptySynapses_RAN_exact_agrees Connectivity postPop prePop c hc r fuel (n - 1) hk
    (fun _ => n - 1) rfl,
    getEmptySynapses_RAN_value Connectivity postPop prePop c hc hp (fun _ => n - 1) n hn rfl]

/-- Away from the wrap of the counter, `getEmptySynapses_RAN` is the inverse of the
geometric distribution.  For every connection probability `0 < p <= 1` and every
draw `r < 1`, on exact reals, there is a least integer `n >= 1` with
`1 - (1 - p) ^ n >= r`; the loop of `getEmptySynapses_RAN` ends and the function
returns `n` reduced modulo `2 ^ 32`, replaced by `INT_MAX` when that is 0: it
returns `n` itself when `n < 2 ^ 32`. -/
theorem getEmptySynapses_RAN_inverse_cdf {R : Type} [LinearOrderedField R] [Archimedean R]
    (Connectivity : Nat → Nat → Option (connectivity R)) (postPop prePop : Nat)
    (c : connectivity R) (hc : Connectivity postPop prePop = some c)
    (hp : 0 < c.CProb) (hp1 : c.CProb ≤ 1) (r : R) (hr : r < 1) :
    ∃ n : Nat, 1 ≤ n ∧ r ≤ 1 - (1 - c.CProb) ^ n ∧
      (∀ m, 1 ≤ m → m < n → 1 - (1 - c.CProb) ^ m < r) ∧
      ∀ fuel, n ≤ fuel →
        getEmptySynapses_RAN_exact Connectivity postPop prePop r fuel
          = some (if n % 4294967296 = 0 then INT_MAX else n % 4294967296) ∧
        (n < 4294967296 →
          getEmptySynapses_RAN_exact Connectivity postPop prePop r fuel = some n) := by
  obtain ⟨n, hn, hge, hleast⟩ := geometric_least_exists c.CProb r hp hp1 hr
  refine ⟨n, hn, hge, hleast, fun fuel hf => ?_⟩
  have hv := getEmptySynapses_RAN_exact_value Connectivity postPop prePop c hc hp r n hn hge
    hleast fuel hf
  refine ⟨hv, fun hlt => ?_⟩
  rw [hv, if_neg (by omega), Nat.mod_eq_of_lt hlt]

/-- One population connected to itself with probability 1/2, and the draw 3/4. -/
theorem getEmptySynapses_RAN_inverse_cdf_witness :
    ∃ n : Nat, 1 ≤ n ∧ (3 / 4 : ℚ) ≤ 1 - (1 - (1 / 2 : ℚ)) ^ n ∧
      (∀ m, 1 ≤ m → m < n → 1 - (1 - (1 / 2 : ℚ)) ^ m < 3 / 4) ∧
      ∀ fuel, n ≤ fuel →
        getEmptySynapses_RAN_exact (fun _ _ => some ⟨(1 / 2 : ℚ), 0, 0, 1⟩) 0 0 (3 / 4) fuel
          = some (if n % 4294967296 = 0 then INT_MAX else n % 4294967296) ∧
        (n < 4294967296 →
          getEmptySynapses_RAN_exact (fun _ _ => some ⟨(1 / 2 : ℚ), 0, 0, 1⟩) 0 0 (3 / 4) fuel
            = some n) :=
  getEmptySynapses_RAN_inverse_cdf (fun _ _ => some ⟨(1 / 2 : ℚ), 0, 0, 1⟩) 0 0
    ⟨(1 / 2 : ℚ), 0, 0, 1⟩ rfl (by norm_num) (by norm_num) (3 / 4) (by norm_num)

/-- C32, the code at a failing input.  With the connection probability `10⁻¹⁰` and
the draw `r = 1/2`, on exact reals, the least integer `n >= 1` with
`1 - (1 - p) ^ n >= r` is above `2 ^ 32`.  The loop of `getEmptySynapses_RAN` ends,
but its counter is an `indexn` and `n++` has wrapped: the function returns `n`
reduced modulo `2 ^ 32` (`INT_MAX` when that is 0, the only case that the guard
`n <= 0` catches), a value below `2 ^ 32` that is not the least `n`. -/
theorem getEmptySynapses_RAN_not_least :
    ∃ n : Nat, 1 ≤ n ∧ (1 / 2 : ℚ) ≤ 1 - (1 - tinyProb) ^ n ∧
      (∀ m, 1 ≤ m → m < n → 1 - (1 - tinyProb) ^ m < 1 / 2) ∧
      4294967296 < n ∧
      ∀ fuel, n ≤ fuel →
        ∃ v : Nat, getEmptySynapses_RAN_exact sparseConnectivity 0 0 (1 / 2 : ℚ) fuel = some v ∧
          v = (if n % 4294967296 = 0 then INT_MAX else n % 4294967296) ∧
          v < 4294967296 ∧ v ≠ n := by
  have hp : (0 : ℚ) < tinyProb := by decide!
  have hp1 : tinyProb ≤ (1 : ℚ) := by decide!
  obtain ⟨n, hn, hge, hleast⟩ := geometric_least_exists tinyProb (1 / 2 : ℚ) hp hp1 (by norm_num)
  have hbig : 4294967296 < n := by
    by_contra hc
    have hle : n ≤ 4294967296 := not_lt.mp hc
    have hb : 1 + (n : ℚ) * (-tinyProb) ≤ (1 + -tinyProb) ^ n :=
      one_add_mul_le_pow (by linarith) n
    have hn' : (n : ℚ) ≤ 4294967296 := by exact_mod_cast hle
    have ht : tinyProb = (1 : ℚ) / 10000000000 := by decide!
    have e : (1 : ℚ) + -tinyProb = 1 - tinyProb := by ring
    rw [e] at hb
    rw [ht] at hb hge
    linarith
  refine ⟨n, hn, hge, hleast, hbig, fun fuel hf => ?_⟩
  have hv := getEmptySynapses_RAN_exact_value sparseConnectivity 0 0
    ⟨tinyProb, 0, 0, 1⟩ rfl hp (1 / 2) n hn hge hleast fuel hf
  refine ⟨_, hv, rfl, ?_⟩
  have hlt : (if n % 4294967296 = 0 then INT_MAX else n % 4294967296) < 4294967296 := by
    unfold INT_MAX
    split_ifs <;> omega
  exact ⟨hlt, by omega⟩

/-- A run of the function with its loop: with the probability 1/2 and the draw 3/4
the body of the loop runs once and the function returns 2; with the draw 1/4 it
returns 1. -/
theorem getEmptySynapses_RAN_exact_run :
    getEmptySynapses_RAN_exact (fun _ _ => some ⟨(1 / 2 : ℚ), 0, 0, 1⟩) 0 0 (3 / 4) 5 = some 2 ∧
    getEmptySynapses_RAN_exact (fun _ _ => some ⟨(1 / 2 : ℚ), 0, 0, 1⟩) 0 0 (1 / 4) 5 = some 1 := by
  decide!

/-! ## events.c : `manageEvent` calls the hook functions that are due, in order -/

theorem callHook_set {R σ : Type} [LinearOrderedField R] [FloorRing R] (sin : R → R)
    (ty : neuron_type) (Life : R) (effects : Nat → event R → globals R σ → globals R σ)
    (Event : event R) (m : event_manager R σ)
    (h : Event.cmdFunc = cmd_func.setPopulationParamFromEvent) :
    (callHook sin ty Life effects Event m).1 = 1 ∧
      (callHook sin ty Life effects Event m).2.Events = m.Events ∧
      (callHook sin ty Life effects Event m).2.freed = m.freed ∧
      (callHook sin ty Life effects Event m).2.handled = m.handled := by
  unfold callHook
  rw [h]
  exact ⟨rfl, rfl, rfl, rfl⟩

theorem callHook_other {R σ : Type} [LinearOrderedField R] [FloorRing R] (sin : R → R)
    (ty : neuron_type) (Life : R) (effects : Nat → event R → globals R σ → globals R σ)
    (Event : event R) (m : event_manager R σ) (k : Nat)
    (h : Event.cmdFunc = cmd_func.hook k) (hk : k ≠ manageSinusoidalStimulationHook) :
    (callHook sin ty Life effects Event m).1 = 1 ∧
      (callHook sin ty Life effects Event m).2.Events = m.Events ∧
      (callHook sin ty Life effects Event m).2.freed = m.freed ∧
      (callHook sin ty Life effects Event m).2.handled = m.handled := by
  unfold callHook
  rw [h]
  simp only [if_neg hk]
  trivial

theorem callHook_sinusoidal {R σ : Type} [LinearOrderedField R] [FloorRing R] (sin : R → R)
    (ty : neuron_type) (Life : R) (effects : Nat → event R → globals R σ → globals R σ)
    (Event : event R) (m : event_manager R σ)
    (h : Event.cmdFunc = cmd_func.hook manageSinusoidalStimulationHook) :
    (callHook sin ty Life effects Event m).1 = 0 ∧
      (callHook sin ty Life effects Event m).2.Events
        = putEvent (manageSinusoidalStimulation sin ty Life m.ret Event m.G).2.1 m.Events ∧
      (callHook sin ty Life effects Event m).2.freed = m.freed ∧
      (callHook sin ty Life effects Event m).2.handled = m.handled := by
  unfold callHook
  rw [h]
  simp only [if_pos]
  trivial

/-- The hook functions return 0 or 1, and 0 only for `manageSinusoidalStimulation`. -/
theorem callHook_ret {R σ : Type} [LinearOrderedField R] [FloorRing R] (sin : R → R)
    (ty : neuron_type) (Life : R) (effects : Nat → event R → globals R σ → globals R σ)
    (Event : event R) (m : event_manager R σ) :
    ((callHook sin ty Life effects Event m).1 = 0 ∧
        Event.cmdFunc = cmd_func.hook manageSinusoidalStimulationHook) ∨
      ((callHook sin ty Life effects Event m).1 = 1 ∧
        Event.cmdFunc ≠ cmd_func.hook manageSinusoidalStimulationHook) := by
  cases hc : Event.cmdFunc with
  | setPopulationParamFromEvent =>
    exact Or.inr ⟨(callHook_set sin ty Life effects Event m hc).1, by simp⟩
  | hook k =>
    by_cases hk : k = manageSinusoidalStimulationHook
    · subst hk
      exact Or.inl ⟨(callHook_sinusoidal sin ty Life effects Event m hc).1, rfl⟩
    · refine Or.inr ⟨(callHook_other sin ty Life effects Event m k hc hk).1, ?_⟩
      intro h
      exact hk (cmd_func.hook.inj h)

/-- The event that `manageSinusoidalStimulation` puts back keeps its hook function
and its sampling period. -/
theorem manageSinusoidalStimulation_same {R σ : Type} [LinearOrderedField R] [FloorRing R]
    (sin : R → R) (ty : neuron_type) (Life ret : R) (Event : event R) (G : globals R σ) :
    (manageSinusoidalStimulation sin ty Life ret Event G).2.1.cmdFunc = Event.cmdFunc ∧
      (manageSinusoidalStimulation sin ty Life ret Event G).2.1.Param.getD 3 0
        = Event.Param.getD 3 0 := by
  refine ⟨rfl, ?_⟩
  show (Event.Param.set 7 _).getD 3 0 = Event.Param.getD 3 0
  simp [List.getD_eq_getElem?_getD, List.getElem?_set]

theorem dueTotal_cons {R : Type} [LinearOrderedField R] [FloorRing R] (Time : R) (e : event R)
    (q : List (event R)) : dueTotal Time (e :: q) = dueCalls Time e + dueTotal Time q := by
  simp [dueTotal]

theorem dueTotal_putEvent {R : Type} [LinearOrderedField R] [FloorRing R] (Time : R)
    (e : event R) (q : List (event R)) :
    dueTotal Time (putEvent e q) = dueCalls Time e + dueTotal Time q := by
  induction q with
  | nil => simp [putEvent, dueTotal]
  | cons y q ih =>
    unfold putEvent
    split_ifs with h
    · rw [dueTotal_cons]
    · rw [dueTotal_cons, ih, dueTotal_cons]
      omega

theorem dueCalls_of_ge {R : Type} [LinearOrderedField R] [FloorRing R] (Time : R) (e : event R)
    (h : Time ≤ e.Time) : dueCalls Time e = 0 := by
  unfold dueCalls
  rw [if_pos h]

theorem dueTotal_of_ge {R : Type} [LinearOrderedField R] [FloorRing R] (Time : R) :
    ∀ q : List (event R), (∀ e ∈ q, Time ≤ e.Time) → dueTotal Time q = 0 := by
  intro q
  induction q with
  | nil => intro _; rfl
  | cons y q ih =>
    intro h
    rw [dueTotal_cons, dueCalls_of_ge Time y (h y (List.mem_cons_self _ _)),
      ih (fun e he => h e (List.mem_cons_of_mem _ he))]

theorem dueCalls_dispose {R : Type} [LinearOrderedField R] [FloorRing R] (Time : R) (e : event R)
    (h : e.Time < Time) (hc : e.cmdFunc ≠ cmd_func.hook manageSinusoidalStimulationHook) :
    dueCalls Time e = 1 := by
  unfold dueCalls
  rw [if_neg (not_le.mpr h)]
  cases hk : e.cmdFunc with
  | setPopulationParamFromEvent => rfl
  | hook k =>
    have : k ≠ manageSinusoidalStimulationHook := fun h2 => hc (by rw [hk, h2])
    simp only [if_neg this]

theorem dueCalls_sinusoidal {R : Type} [LinearOrderedField R] [FloorRing R] (Time : R)
    (e e1 : event R) (h : e.Time < Time)
    (hc : e.cmdFunc = cmd_func.hook manageSinusoidalStimulationHook)
    (hDt : 0 < e.Param.getD 3 0) (hc1 : e1.cmdFunc = e.cmdFunc)
    (hp1 : e1.Param.getD 3 0 = e.Param.getD 3 0) (ht1 : e1.Time = e.Time + e.Param.getD 3 0) :
    dueCalls Time e = dueCalls Time e1 + 1 := by
  have hx : 0 < (Time - e.Time) / e.Param.getD 3 0 := div_pos (by linarith) hDt
  have e0 : dueCalls Time e = Nat.ceil ((Time - e.Time) / e.Param.getD 3 0) := by
    unfold dueCalls
    rw [if_neg (not_le.mpr h), hc]
    simp only [if_pos]
  have hpos : 0 < Nat.ceil ((Time - e.Time) / e.Param.getD 3 0) := Nat.ceil_pos.mpr hx
  rw [e0]
  by_cases hle : Time ≤ e1.Time
  · rw [dueCalls_of_ge Time e1 hle]
    have : (Time - e.Time) / e.Param.getD 3 0 ≤ 1 := by
      rw [div_le_one hDt]
      rw [ht1] at hle
      linarith
    have h1 : Nat.ceil ((Time - e.Time) / e.Param.getD 3 0) ≤ 1 := by
      apply Nat.ceil_le.mpr
      simpa using this
    omega
  · have e1' : dueCalls Time e1 = Nat.ceil ((Time - e1.Time) / e1.Param.getD 3 0) := by
      unfold dueCalls
      rw [if_neg hle, hc1, hc]
      simp only [if_pos]
    rw [e1', hp1, ht1]
    have : (Time - (e.Time + e.Param.getD 3 0)) / e.Param.getD 3 0
        = (Time - e.Time) / e.Param.getD 3 0 - 1 := by
      rw [show Time - (e.Time + e.Param.getD 3 0) = (Time - e.Time) - e.Param.getD 3 0 by ring,
        sub_div, div_self (ne_of_gt hDt)]
    have hnn : 0 ≤ (Time - e.Time) / e.Param.getD 3 0 - 1 := by
      rw [← this]
      apply div_nonneg _ hDt.le
      rw [ht1] at hle
      linarith [not_le.mp hle]
    rw [this, ← Nat.ceil_add_one hnn, sub_add_cancel]

/-- The body of the loop of `manageEvent` on the earliest event of a sorted queue,
when this event is due. -/
theorem manageEventBody_spec {R σ : Type} [LinearOrderedField R] [FloorRing R] (sin : R → R)
    (ty : neuron_type) (Life : R) (effects : Nat → event R → globals R σ → globals R σ)
    (Time : R) (Event : event R) (rest : List (event R)) (m : event_manager R σ)
    (hs : (Event :: rest).Pairwise (fun a b => a.Time ≤ b.Time))
    (hDt : ∀ e ∈ Event :: rest,
      e.cmdFunc = cmd_func.hook manageSinusoidalStimulationHook → 0 < e.Param.getD 3 0)
    (hdue : Event.Time < Time) :
    (manageEventBody sin ty Life effects Event rest m).handled
        = m.handled ++ [(Event, (callHook sin ty Life effects Event { m with Events := rest }).1)] ∧
      (manageEventBody sin ty Life effects Event rest m).freed
        = m.freed ++ (if (callHook sin ty Life effects Event { m with Events := rest }).1 ≠ 0
            then [Event] else []) ∧
      dueTotal Time (Event :: rest)
        = dueTotal Time (manageEventBody sin ty Life effects Event rest m).Events + 1 ∧
      (manageEventBody sin ty Life effects Event rest m).Events.Pairwise
        (fun a b => a.Time ≤ b.Time) ∧
      (∀ e ∈ (manageEventBody sin ty Life effects Event rest m).Events,
        e.cmdFunc = cmd_func.hook manageSinusoidalStimulationHook → 0 < e.Param.getD 3 0) ∧
      (∀ e ∈ (manageEventBody sin ty Life effects Event rest m).Events, Event.Time ≤ e.Time) ∧
      (∀ e ∈ rest, e ∈ (manageEventBody sin ty Life effects Event rest m).Events) := by
  have hrest := (List.pairwise_cons.mp hs).2
  have hlow := (List.pairwise_cons.mp hs).1
  rcases callHook_ret sin ty Life effects Event { m with Events := rest } with ⟨h0, hc⟩ | ⟨h1, hc⟩
  · obtain ⟨_, hE, hF, hH⟩ := callHook_sinusoidal sin ty Life effects Event
      { m with Events := rest } hc
    have hd := hDt Event (List.mem_cons_self _ _) hc
    obtain ⟨hsame, hpar⟩ := manageSinusoidalStimulation_same sin ty Life m.ret Event m.G
    have htime := manageSinusoidalStimulation_next sin ty Life m.ret Event m.G
    unfold manageEventBody
    simp only [h0, ne_eq, not_true_eq_false, if_false]
    refine ⟨by rw [hH], by rw [hF]; simp, ?_, ?_, ?_, ?_, ?_⟩
    · rw [hE, dueTotal_putEvent, dueTotal_cons,
        dueCalls_sinusoidal Time Event _ hdue hc hd hsame hpar htime]
      dsimp only
      omega
    · rw [hE]
      exact putEvent_sorted _ _ hrest
    · intro e he hce
      rw [hE] at he
      rcases (mem_putEvent _ _ _).mp he with rfl | he
      · rw [hpar]
        exact hd
      · exact hDt e (List.mem_cons_of_mem _ he) hce
    · intro e he
      rw [hE] at he
      rcases (mem_putEvent _ _ _).mp he with rfl | he
      · rw [htime]
        linarith
      · exact hlow e he
    · intro e he
      rw [hE]
      exact (mem_putEvent _ _ _).mpr (Or.inr he)
  · have hall : (callHook sin ty Life effects Event { m with Events := rest }).2.Events = rest ∧
        (callHook sin ty Life effects Event { m with Events := rest }).2.freed = m.freed ∧
        (callHook sin ty Life effects Event { m with Events := rest }).2.handled = m.handled := by
      cases hk : Event.cmdFunc with
      | setPopulationParamFromEvent =>
        exact (callHook_set sin ty Life effects Event { m with Events := rest } hk).2
      | hook k =>
        have hne : k ≠ manageSinusoidalStimulationHook := fun h2 => hc (by rw [hk, h2])
        exact (callHook_other sin ty Life effects Event { m with Events := rest } k hk hne).2
    obtain ⟨hE, hF, hH⟩ := hall
    unfold manageEventBody
    have hne : (callHook sin ty Life effects Event { m with Events := rest }).1 ≠ 0 := by
      rw [h1]
      decide
    simp only [if_pos hne]
    refine ⟨by rw [hH], by rw [hF], ?_, ?_, ?_, ?_, ?_⟩
    · rw [hE, dueTotal_cons, dueCalls_dispose Time Event hdue hc]
      omega
    · rw [hE]
      exact hrest
    · intro e he hce
      rw [hE] at he
      exact hDt e (List.mem_cons_of_mem _ he) hce
    · intro e he
      rw [hE] at he
      exact hlow e he
    · intro e he
      rw [hE]
      exact he

theorem manageEventFreeing_nil {R σ : Type} [LinearOrderedField R] [FloorRing R] (sin : R → R)
    (ty : neuron_type) (Life : R) (effects : Nat → event R → globals R σ → globals R σ)
    (fuel : Nat) (Time : R) (m : event_manager R σ) (h : m.Events = []) :
    manageEventFreeing sin ty Life effects fuel Time m = some m := by
  unfold manageEventFreeing
  rw [h]

theorem manageEventFreeing_late {R σ : Type} [LinearOrderedField R] [FloorRing R] (sin : R → R)
    (ty : neuron_type) (Life : R) (effects : Nat → event R → globals R σ → globals R σ)
    (fuel : Nat) (Time : R) (m : event_manager R σ) (Event : event R) (rest : List (event R))
    (h : m.Events = Event :: rest) (hl : Time ≤ Event.Time) :
    manageEventFreeing sin ty Life effects fuel Time m = some m := by
  unfold manageEventFreeing
  rw [h]
  simp only [gt_iff_lt, if_neg (not_lt.mpr hl)]

theorem manageEventFreeing_due {R σ : Type} [LinearOrderedField R] [FloorRing R] (sin : R → R)
    (ty : neuron_type) (Life : R) (effects : Nat → event R → globals R σ → globals R σ)
    (fuel : Nat) (Time : R) (m : event_manager R σ) (Event : event R) (rest : List (event R))
    (h : m.Events = Event :: rest) (hl : Event.Time < Time) :
    manageEventFreeing sin ty Life effects (fuel + 1) Time m
      = manageEventFreeing sin ty Life effects fuel Time
          (manageEventBody sin ty Life effects Event rest m) := by
  rw [manageEventFreeing]
  rw [h]
  simp only [gt_iff_lt, if_pos hl]

/-- The function `manageEvent` ends after `dueTotal` calls of hook functions. -/
theorem manageEventFreeing_total {R σ : Type} [LinearOrderedField R] [FloorRing R] (sin : R → R)
    (ty : neuron_type) (Life : R) (effects : Nat → event R → globals R σ → globals R σ)
    (Time : R) :
    ∀ (n : Nat) (m : event_manager R σ), dueTotal Time m.Events = n →
      m.Events.Pairwise (fun a b => a.Time ≤ b.Time) →
      (∀ e ∈ m.Events,
        e.cmdFunc = cmd_func.hook manageSinusoidalStimulationHook → 0 < e.Param.getD 3 0) →
      ∃ (m1 : event_manager R σ) (H : List (event R × Int)),
        (∀ fuel, n ≤ fuel → manageEventFreeing sin ty Life effects fuel Time m = some m1) ∧
        m1.handled = m.handled ++ H ∧ H.length = n ∧
        (H.map (fun h => h.1.Time)).Pairwise (fun a b => a ≤ b) ∧
        (∀ h ∈ H, h.1.Time < Time) ∧
        (∀ b, (∀ e ∈ m.Events, b ≤ e.Time) → ∀ h ∈ H, b ≤ h.1.Time) ∧
        (∀ e ∈ m.Events, e.Time < Time → ∃ h ∈ H, h.1 = e) ∧
        (∀ h ∈ H, (h.2 = 0 ∧ h.1.cmdFunc = cmd_func.hook manageSinusoidalStimulationHook) ∨
          (h.2 = 1 ∧ h.1.cmdFunc ≠ cmd_func.hook manageSinusoidalStimulationHook)) ∧
        m1.freed = m.freed ++ (H.filter (fun h => decide (h.2 ≠ 0))).map Prod.fst ∧
        (∀ e ∈ m1.Events, Time ≤ e.Time) ∧
        m1.Events.Pairwise (fun a b => a.Time ≤ b.Time) := by
  intro n
  induction n with
  | zero =>
    intro m hn hs hDt
    have hall : ∀ e ∈ m.Events, Time ≤ e.Time := by
      cases hE : m.Events with
      | nil => intro e he; exact absurd he (List.not_mem_nil _)
      | cons Event rest =>
        rw [hE] at hs hDt hn
        have h0 : Time ≤ Event.Time := by
          by_contra hc
          have := (manageEventBody_spec sin ty Life effects Time Event rest m hs hDt
            (not_le.mp hc)).2.2.1
          omega
        intro e he
        rcases List.mem_cons.mp he with rfl | he
        · exact h0
        · exact le_trans h0 ((List.pairwise_cons.mp hs).1 e he)
    refine ⟨m, [], ?_, by simp, rfl, by simp, by simp, by simp, ?_, by simp, by simp, hall, hs⟩
    · intro fuel _
      cases hE : m.Events with
      | nil => exact manageEventFreeing_nil sin ty Life effects fuel Time m hE
      | cons Event rest =>
        exact manageEventFreeing_late sin ty Life effects fuel Time m Event rest hE
          (hall Event (by rw [hE]; exact List.mem_cons_self _ _))
    · intro e he hlt
      exact absurd hlt (not_lt.mpr (hall e he))
  | succ n ih =>
    intro m hn hs hDt
    cases hE : m.Events with
    | nil =>
      rw [hE] at hn
      exact absurd hn (by simp [dueTotal])
    | cons Event rest =>
      rw [hE] at hs hDt hn
      have hdue : Event.Time < Time := by
        by_contra hc
        have h0 : Time ≤ Event.Time := not_lt.mp hc
        have : dueTotal Time (Event :: rest) = 0 := by
          apply dueTotal_of_ge
          intro e he
          rcases List.mem_cons.mp he with rfl | he
          · exact h0
          · exact le_trans h0 ((List.pairwise_cons.mp hs).1 e he)
        omega
      obtain ⟨bH, bF, bD, bS, bDt, bLow, bIn⟩ :=
        manageEventBody_spec sin ty Life effects Time Event rest m hs hDt hdue
      obtain ⟨r, hr⟩ : ∃ r, r = (callHook sin ty Life effects Event { m with Events := rest }).1 :=
        ⟨_, rfl⟩
      rw [← hr] at bH bF
      have hret := callHook_ret sin ty Life effects Event { m with Events := rest }
      rw [← hr] at hret
      obtain ⟨m1, H, hrun, hH, hlen, hord, hlt, hlow, hin, hcls, hfreed, hout, hsorted⟩ :=
        ih (manageEventBody sin ty Life effects Event rest m) (by omega) bS bDt
      refine ⟨m1, (Event, r) :: H, ?_, ?_, ?_, ?_, ?_, ?_, ?_, ?_, ?_, hout, hsorted⟩
      · intro fuel hf
        obtain ⟨f, rfl⟩ : ∃ f, fuel = f + 1 := ⟨fuel - 1, by omega⟩
        rw [manageEventFreeing_due sin ty Life effects f Time m Event rest hE hdue]
        exact hrun f (by omega)
      · rw [hH, bH]
        simp
      · simp [hlen]
      · rw [List.map_cons, List.pairwise_cons]
        refine ⟨?_, hord⟩
        intro a ha
        obtain ⟨h, hh, rfl⟩ := List.mem_map.mp ha
        exact hlow Event.Time bLow h hh
      · intro h hh
        rcases List.mem_cons.mp hh with rfl | hh
        · exact hdue
        · exact hlt h hh
      · intro b hb h hh
        have hbE : b ≤ Event.Time := hb Event (List.mem_cons_self _ _)
        rcases List.mem_cons.mp hh with rfl | hh
        · exact hbE
        · exact le_trans hbE (hlow Event.Time bLow h hh)
      · intro e he hlt2
        rcases List.mem_cons.mp he with rfl | he
        · exact ⟨(e, r), List.mem_cons_self _ _, rfl⟩
        · obtain ⟨h, hh, hhe⟩ := hin e (bIn e he) hlt2
          exact ⟨h, List.mem_cons_of_mem _ hh, hhe⟩
      · intro h hh
        rcases List.mem_cons.mp hh with rfl | hh
        · exact hret
        · exact hcls h hh
      · rw [hfreed, bF]
        by_cases h0 : r ≠ 0
        · rw [if_pos h0, List.filter_cons_of_pos (by simpa using h0)]
          simp
        · rw [if_neg h0, List.filter_cons_of_neg (by simpa using h0)]
          simp

/-- Claim C33.  On a queue sorted by time in which every event of
`manageSinusoidalStimulation` has a sampling period `Dt > 0`, `manageEvent(Time)`
ends, after `dueTotal` calls of hook functions: the events handled were earlier than
`Time`, they were handled in non-decreasing time order, every event of the queue
earlier than `Time` was handled, the events passed to `deleteEvent` are those whose
hook function returned a value other than 0, and on return no event of the queue is
earlier than `Time`.  In the body of the loop, an event whose hook function returns a
value other than 0 is freed and the queue is what `getSortedQueueItem` left; an
event whose hook function returns 0 is not freed and is in the queue with the time
that the hook function gave it. -/
theorem manageEvent_runs_due_hooks {R σ : Type} [LinearOrderedField R] [FloorRing R]
    (sin : R → R) (ty : neuron_type) (Life : R)
    (effects : Nat → event R → globals R σ → globals R σ) (Time : R) (m : event_manager R σ)
    (hs : m.Events.Pairwise (fun a b => a.Time ≤ b.Time))
    (hDt : ∀ e ∈ m.Events,
      e.cmdFunc = cmd_func.hook manageSinusoidalStimulationHook → 0 < e.Param.getD 3 0) :
    (∃ (m1 : event_manager R σ) (H : List (event R × Int)),
        (∀ fuel, dueTotal Time m.Events ≤ fuel →
          manageEventFreeing sin ty Life effects fuel Time m = some m1) ∧
        m1.handled = m.handled ++ H ∧
        (H.map (fun h => h.1.Time)).Pairwise (fun a b => a ≤ b) ∧
        (∀ h ∈ H, h.1.Time < Time) ∧
        (∀ e ∈ m.Events, e.Time < Time → ∃ h ∈ H, h.1 = e) ∧
        m1.freed = m.freed ++ (H.filter (fun h => decide (h.2 ≠ 0))).map Prod.fst ∧
        (∀ e ∈ m1.Events, Time ≤ e.Time)) ∧
    (∀ (Event : event R) (rest : List (event R)) (m0 : event_manager R σ),
        ((callHook sin ty Life effects Event { m0 with Events := rest }).1 ≠ 0 →
          (manageEventBody sin ty Life effects Event rest m0).Events = rest ∧
          (manageEventBody sin ty Life effects Event rest m0).freed = m0.freed ++ [Event]) ∧
        ((callHook sin ty Life effects Event { m0 with Events := rest }).1 = 0 →
          ∃ Event1 : event R, Event1.Time = Event.Time + Event.Param.getD 3 0 ∧
            Event1.cmdFunc = Event.cmdFunc ∧
            (manageEventBody sin ty Life effects Event rest m0).Events = putEvent Event1 rest ∧
            Event1 ∈ (manageEventBody sin ty Life effects Event rest m0).Events ∧
            (manageEventBody sin ty Life effects Event rest m0).freed = m0.freed)) := by
  constructor
  · obtain ⟨m1, H, hrun, hH, _, hord, hlt, _, hin, _, hfreed, hout, _⟩ :=
      manageEventFreeing_total sin ty Life effects Time (dueTotal Time m.Events) m rfl hs hDt
    exact ⟨m1, H, hrun, hH, hord, hlt, hin, hfreed, hout⟩
  · intro Event rest m0
    rcases callHook_ret sin ty Life effects Event { m0 with Events := rest } with
      ⟨h0, hc⟩ | ⟨h1, hc⟩
    · obtain ⟨_, hE, hF, _⟩ := callHook_sinusoidal sin ty Life effects Event
        { m0 with Events := rest } hc
      refine ⟨fun hne => absurd h0 hne, fun _ => ?_⟩
      have hb : (manageEventBody sin ty Life effects Event rest m0).Events
          = putEvent (manageSinusoidalStimulation sin ty Life m0.ret Event m0.G).2.1 rest ∧
          (manageEventBody sin ty Life effects Event rest m0).freed = m0.freed := by
        unfold manageEventBody
        simp only [h0, ne_eq, not_true_eq_false, if_false]
        exact ⟨hE, hF⟩
      refine ⟨(manageSinusoidalStimulation sin ty Life m0.ret Event m0.G).2.1,
        manageSinusoidalStimulation_next sin ty Life m0.ret Event m0.G,
        (manageSinusoidalStimulation_same sin ty Life m0.ret Event m0.G).1, hb.1, ?_, hb.2⟩
      rw [hb.1]
      exact (mem_putEvent _ _ _).mpr (Or.inl rfl)
    · have hne : (callHook sin ty Life effects Event { m0 with Events := rest }).1 ≠ 0 := by
        rw [h1]
        decide
      refine ⟨fun _ => ?_, fun h0 => absurd h0 hne⟩
      have hall : (callHook sin ty Life effects Event { m0 with Events := rest }).2.Events = rest ∧
          (callHook sin ty Life effects Event { m0 with Events := rest }).2.freed = m0.freed := by
        cases hk : Event.cmdFunc with
        | setPopulationParamFromEvent =>
          have := callHook_set sin ty Life effects Event { m0 with Events := rest } hk
          exact ⟨this.2.1, this.2.2.1⟩
        | hook k =>
          have hne : k ≠ manageSinusoidalStimulationHook := fun h2 => hc (by rw [hk, h2])
          have := callHook_other sin ty Life effects Event { m0 with Events := rest } k hk hne
          exact ⟨this.2.1, this.2.2.1⟩
      unfold manageEventBody
      simp only [if_pos hne]
      exact ⟨hall.1, by rw [hall.2]⟩

/-- The queue `sampleQueue` and `manageEvent(3)`. -/
theorem manageEvent_runs_due_hooks_witness :
    (∃ (m1 : event_manager ℚ Nat) (H : List (event ℚ × Int)),
        (∀ fuel, dueTotal 3 sampleManager.Events ≤ fuel →
          manageEventFreeing (fun _ => 0) neuron_type.VIF 1000 (fun _ _ G => G) fuel 3
            sampleManager = some m1) ∧
        m1.handled = sampleManager.handled ++ H ∧
        (H.map (fun h => h.1.Time)).Pairwise (fun a b => a ≤ b) ∧
        (∀ h ∈ H, h.1.Time < 3) ∧
        (∀ e ∈ sampleManager.Events, e.Time < 3 → ∃ h ∈ H, h.1 = e) ∧
        m1.freed = sampleManager.freed ++ (H.filter (fun h => decide (h.2 ≠ 0))).map Prod.fst ∧
        (∀ e ∈ m1.Events, 3 ≤ e.Time)) ∧
    (∀ (Event : event ℚ) (rest : List (event ℚ)) (m0 : event_manager ℚ Nat),
        ((callHook (fun _ => 0) neuron_type.VIF 1000 (fun _ _ G => G) Event
            { m0 with Events := rest }).1 ≠ 0 →
          (manageEventBody (fun _ => 0) neuron_type.VIF 1000 (fun _ _ G => G) Event rest m0).Events
            = rest ∧
          (manageEventBody (fun _ => 0) neuron_type.VIF 1000 (fun _ _ G => G) Event rest m0).freed
            = m0.freed ++ [Event]) ∧
        ((callHook (fun _ => 0) neuron_type.VIF 1000 (fun _ _ G => G) Event
            { m0 with Events := rest }).1 = 0 →
          ∃ Event1 : event ℚ, Event1.Time = Event.Time + Event.Param.getD 3 0 ∧
            Event1.cmdFunc = Event.cmdFunc ∧
            (manageEventBody (fun _ => 0) neuron_type.VIF 1000 (fun _ _ G => G) Event rest
              m0).Events = putEvent Event1 rest ∧
            Event1 ∈ (manageEventBody (fun _ => 0) neuron_type.VIF 1000 (fun _ _ G => G) Event rest
              m0).Events ∧
            (manageEventBody (fun _ => 0) neuron_type.VIF 1000 (fun _ _ G => G) Event rest
              m0).freed = m0.freed)) :=
  manageEvent_runs_due_hooks (fun _ => 0) neuron_type.VIF 1000 (fun _ _ G => G) 3 sampleManager
    (by decide!)
    (by
      intro e he hc
      simp only [sampleManager, sampleQueue, List.mem_cons, List.mem_singleton,
        List.not_mem_nil, or_false] at he
      rcases he with rfl | rfl | rfl
      · decide!
      · exact absurd hc (by simp)
      · exact absurd hc (by simp [startSpikeRecordingHook, manageSinusoidalStimulationHook]))

/-- The run of `manageEvent(3)` on `sampleQueue`: the sinusoidal stimulation is
handled at the times 0, 1 and 2 and stays in the queue for the time 3, the change of
a parameter is handled at the time 1/2 and freed, and the start of the recording,
due at the time 5, stays in the queue. -/
theorem manageEvent_sample_run :
    dueTotal 3 sampleManager.Events = 4 ∧
    (manageEventFreeing (fun _ => 0) neuron_type.VIF 1000 (fun _ _ G => G) 4 3
        sampleManager).map
      (fun m1 => (m1.handled.map (fun h => (h.1.Time, h.2)), m1.freed.map (fun e => e.Time),
        m1.Events.map (fun e => e.Time)))
      = some ([(0, 0), (1 / 2, 1), (1, 0), (2, 0)], [1 / 2], [3, 5]) := by
  constructor
  · decide!
  · decide!

/-! ## randdev.c : the table of `rand3` and the values of `Random()` -/

theorem KeepsInt_toI32 : KeepsInt toI32 := fun x h0 h1 => toI32_of_range x h0 h1

theorem KeepsInt_id : KeepsInt id := fun _ _ _ => rfl

/-- The step `x = a - b; if (x < MZ) x += MBIG;` on two entries of the table. -/
theorem rand3_sub_fix (int : Int → Int) (hw : KeepsInt int) (a b : Int)
    (ha : 0 ≤ a ∧ a < MBIG) (hb : 0 ≤ b ∧ b < MBIG) :
    (if int (a - b) < MZ then int (int (a - b) + MBIG) else int (a - b))
        = (if a - b < MZ then a - b + MBIG else a - b) ∧
      0 ≤ (if a - b < MZ then a - b + MBIG else a - b) ∧
      (if a - b < MZ then a - b + MBIG else a - b) < MBIG := by
  unfold MBIG at *
  unfold MZ
  have e1 : int (a - b) = a - b := hw _ (by omega) (by omega)
  rw [e1]
  by_cases h : a - b < 0
  · rw [if_pos h, if_pos h, hw _ (by omega) (by omega)]
    omega
  · rw [if_neg h, if_neg h]
    omega

theorem rand3Fill_length (int : Int → Int) :
    ∀ (n i : Nat) (mj mk : Int) (ma : List Int),
      (rand3Fill int n i mj mk ma).length = ma.length := by
  intro n
  induction n with
  | zero => intro i mj mk ma; rfl
  | succ n ih =>
    intro i mj mk ma
    unfold rand3Fill
    simp only [ih, List.length_set]

theorem rand3Pass_length (int : Int → Int) :
    ∀ (n i : Nat) (ma : List Int), (rand3Pass int n i ma).length = ma.length := by
  intro n
  induction n with
  | zero => intro i ma; rfl
  | succ n ih =>
    intro i ma
    unfold rand3Pass
    simp only [ih, List.length_set]

theorem getD_set_self (ma : List Int) (i : Nat) (v : Int) (h : i < ma.length) :
    (ma.set i v).getD i 0 = v := by
  simp [List.getD_eq_getElem?_getD, List.getElem?_set, h]

theorem getD_set_other (ma : List Int) (i j : Nat) (v : Int) (h : i ≠ j) :
    (ma.set i v).getD j 0 = ma.getD j 0 := by
  simp [List.getD_eq_getElem?_getD, List.getElem?_set, h]

/-- One iteration of the first loop of the initialisation, on an array of 56
entries. -/
theorem rand3Fill_succ (int : Int → Int) (n i : Nat) (mj mk : Int) (ma : List Int)
    (hlen : ma.length = 56) :
    rand3Fill int (n + 1) i mj mk ma
      = rand3Fill int n (i + 1) mk
          (if int (mj - mk) < MZ then int (int (mj - mk) + MBIG) else int (mj - mk))
          (ma.set ((21 * i) % 55) mk) := by
  rw [rand3Fill]
  rw [getD_set_self ma _ mk (by omega)]

/-- The first loop of the initialisation leaves in `[0, MBIG)` the entries that were
there, and puts there the entries that it writes; with 32-bit `int`s it computes
what exact integers give. -/
theorem rand3Fill_good (int : Int → Int) (hw : KeepsInt int) :
    ∀ (n i : Nat) (mj mk : Int) (ma : List Int), ma.length = 56 →
      (0 ≤ mj ∧ mj < MBIG) → (0 ≤ mk ∧ mk < MBIG) →
      rand3Fill int n i mj mk ma = rand3Fill id n i mj mk ma ∧
      ∀ j, ((0 ≤ ma.getD j 0 ∧ ma.getD j 0 < MBIG) ∨ ∃ k, i ≤ k ∧ k < i + n ∧ (21 * k) % 55 = j) →
        0 ≤ (rand3Fill int n i mj mk ma).getD j 0 ∧ (rand3Fill int n i mj mk ma).getD j 0 < MBIG := by
  intro n
  induction n with
  | zero =>
    intro i mj mk ma _ _ _
    refine ⟨rfl, ?_⟩
    intro j hj
    rcases hj with hj | ⟨k, h1, h2, _⟩
    · exact hj
    · omega
  | succ n ih =>
    intro i mj mk ma hlen hmj hmk
    rw [rand3Fill_succ int n i mj mk ma hlen, rand3Fill_succ id n i mj mk ma hlen]
    obtain ⟨e, h0, h1⟩ := rand3_sub_fix int hw mj mk hmj hmk
    obtain ⟨e', _, _⟩ := rand3_sub_fix id KeepsInt_id mj mk hmj hmk
    rw [e, e']
    have hlen1 : (ma.set ((21 * i) % 55) mk).length = 56 := by rw [List.length_set]; exact hlen
    obtain ⟨ihe, ihg⟩ := ih (i + 1) mk (if mj - mk < MZ then mj - mk + MBIG else mj - mk)
      (ma.set ((21 * i) % 55) mk) hlen1 hmk ⟨h0, h1⟩
    refine ⟨ihe, ?_⟩
    intro j hj
    apply ihg
    by_cases hji : (21 * i) % 55 = j
    · left
      rw [← hji, getD_set_self ma _ mk (by omega)]
      exact hmk
    · rcases hj with hj | ⟨k, h1, h2, h3⟩
      · left
        rw [getD_set_other ma _ j mk hji]
        exact hj
      · right
        refine ⟨k, ?_, by omega, h3⟩
        by_contra hc
        have : k = i := by omega
        rw [this] at h3
        exact hji h3

/-- Every index from 1 to 54 is written by the first loop of the initialisation. -/
theorem rand3Fill_covers (j : Nat) (h1 : 1 ≤ j) (h2 : j ≤ 54) :
    ∃ k, 1 ≤ k ∧ k < 1 + 54 ∧ (21 * k) % 55 = j :=
  ⟨(21 * j) % 55, by omega, by omega, by omega⟩

/-- The second loop of the initialisation keeps the entries `ma[1..55]` in
`[0, MBIG)`; with 32-bit `int`s it computes what exact integers give. -/
theorem rand3Pass_good (int : Int → Int) (hw : KeepsInt int) :
    ∀ (n i : Nat) (ma : List Int), ma.length = 56 → 1 ≤ i → i + n ≤ 56 →
      (∀ j, 1 ≤ j → j ≤ 55 → 0 ≤ ma.getD j 0 ∧ ma.getD j 0 < MBIG) →
      rand3Pass int n i ma = rand3Pass id n i ma ∧
      ∀ j, 1 ≤ j → j ≤ 55 →
        0 ≤ (rand3Pass int n i ma).getD j 0 ∧ (rand3Pass int n i ma).getD j 0 < MBIG := by
  intro n
  induction n with
  | zero =>
    intro i ma _ _ _ hg
    exact ⟨rfl, hg⟩
  | succ n ih =>
    intro i ma hlen hi hin hg
    rw [rand3Pass, rand3Pass]
    obtain ⟨e, h0, h1⟩ := rand3_sub_fix int hw (ma.getD i 0) (ma.getD (1 + (i + 30) % 55) 0)
      (hg i hi (by omega)) (hg _ (by omega) (by omega))
    obtain ⟨e', _, _⟩ := rand3_sub_fix id KeepsInt_id (ma.getD i 0)
      (ma.getD (1 + (i + 30) % 55) 0) (hg i hi (by omega)) (hg _ (by omega) (by omega))
    rw [e, e']
    apply ih (i + 1) _ (by rw [List.length_set]; exact hlen) (by omega) (by omega)
    intro j hj1 hj2
    by_cases hji : i = j
    · rw [← hji, getD_set_self ma _ _ (by omega)]
      exact ⟨h0, h1⟩
    · rw [getD_set_other ma _ j _ hji]
      exact hg j hj1 hj2

/-- The seed value of the table: in `[0, MBIG)`, and computed without overflow. -/
theorem rand3Seed_good (int : Int → Int) (hw : KeepsInt int) (idum : Int)
    (h0 : -2147483648 < idum) (h1 : idum < 2147483648) :
    rand3Seed int idum = rand3Seed id idum ∧
      0 ≤ rand3Seed int idum ∧ rand3Seed int idum < MBIG := by
  obtain ⟨a, ha⟩ : ∃ a, a = (if idum < 0 then -idum else idum) := ⟨_, rfl⟩
  have har : 0 ≤ a ∧ a < 2147483648 := by
    rw [ha]
    split_ifs <;> omega
  obtain ⟨b, hb⟩ : ∃ b, b = (if MSEED - a < 0 then -(MSEED - a) else MSEED - a) := ⟨_, rfl⟩
  have hbr : 0 ≤ b ∧ b < 2147483648 := by
    rw [hb]
    unfold MSEED
    split_ifs <;> omega
  have key : ∀ w : Int → Int, KeepsInt w → rand3Seed w idum = b % MBIG := by
    intro w hw
    unfold rand3Seed
    have e1 : (if idum < 0 then w (-idum) else idum) = a := by
      rw [ha]
      by_cases h : idum < 0
      · rw [if_pos h, if_pos h, hw _ (by omega) (by omega)]
      · rw [if_neg h, if_neg h]
    simp only [e1]
    have hr : -2147483648 ≤ MSEED - a ∧ MSEED - a < 2147483648 := by
      unfold MSEED
      omega
    rw [hw _ hr.1 hr.2]
    have e2 : (if MSEED - a < 0 then w (-(MSEED - a)) else MSEED - a) = b := by
      rw [hb]
      by_cases h : MSEED - a < 0
      · rw [if_pos h, if_pos h, hw _ (by omega) (by omega)]
      · rw [if_neg h, if_neg h]
    rw [e2]
    exact Int.tmod_eq_emod hbr.1 (by decide)
  rw [key int hw, key id KeepsInt_id]
  refine ⟨rfl, Int.emod_nonneg _ (by decide), Int.emod_lt_of_pos _ (by decide)⟩

/-- The initialisation of `rand3` from any content of the table: afterwards the
entries `ma[1..55]` are in `[0, MBIG)`; with 32-bit `int`s it computes what exact
integers give. -/
theorem rand3Init_good (int : Int → Int) (hw : KeepsInt int) (s : rand3_state)
    (hlen : s.ma.length = 56) (h0 : -2147483648 < s.rand49_idum)
    (h1 : s.rand49_idum < 2147483648) :
    rand3Init int s = rand3Init id s ∧ (rand3Init int s).ma.length = 56 ∧
      (∀ j, 1 ≤ j → j ≤ 55 →
        0 ≤ (rand3Init int s).ma.getD j 0 ∧ (rand3Init int s).ma.getD j 0 < MBIG) ∧
      (rand3Init int s).iff = 1 ∧ (rand3Init int s).inext = 0 ∧
      (rand3Init int s).inextp = 31 ∧ (rand3Init int s).rand49_idum = 1 := by
  obtain ⟨es, hs0, hs1⟩ := rand3Seed_good int hw s.rand49_idum h0 h1
  have hlen1 : (s.ma.set 55 (rand3Seed int s.rand49_idum)).length = 56 := by
    rw [List.length_set]; exact hlen
  obtain ⟨ef, hf⟩ := rand3Fill_good int hw 54 1 (rand3Seed int s.rand49_idum) 1
    (s.ma.set 55 (rand3Seed int s.rand49_idum)) hlen1 ⟨hs0, hs1⟩ (by decide)
  have hfl := rand3Fill_length int 54 1 (rand3Seed int s.rand49_idum) 1
    (s.ma.set 55 (rand3Seed int s.rand49_idum))
  rw [hlen1] at hfl
  have hfg : ∀ j, 1 ≤ j → j ≤ 55 →
      0 ≤ (rand3Fill int 54 1 (rand3Seed int s.rand49_idum) 1
        (s.ma.set 55 (rand3Seed int s.rand49_idum))).getD j 0 ∧
      (rand3Fill int 54 1 (rand3Seed int s.rand49_idum) 1
        (s.ma.set 55 (rand3Seed int s.rand49_idum))).getD j 0 < MBIG := by
    intro j hj1 hj2
    apply hf
    by_cases h55 : j = 55
    · left
      rw [h55, getD_set_self _ _ _ (by omega)]
      exact ⟨hs0, hs1⟩
    · right
      exact rand3Fill_covers j hj1 (by omega)
  obtain ⟨m1, hm1⟩ : ∃ m1, m1 = rand3Fill int 54 1 (rand3Seed int s.rand49_idum) 1
    (s.ma.set 55 (rand3Seed int s.rand49_idum)) := ⟨_, rfl⟩
  rw [← hm1] at hfl hfg
  obtain ⟨ep1, hp1⟩ := rand3Pass_good int hw 55 1 m1 hfl (by omega) (by omega) hfg
  have hl1 : (rand3Pass int 55 1 m1).length = 56 := by rw [rand3Pass_length]; exact hfl
  obtain ⟨ep2, hp2⟩ := rand3Pass_good int hw 55 1 _ hl1 (by omega) (by omega) hp1
  have hl2 : (rand3Pass int 55 1 (rand3Pass int 55 1 m1)).length = 56 := by
    rw [rand3Pass_length]; exact hl1
  obtain ⟨ep3, hp3⟩ := rand3Pass_good int hw 55 1 _ hl2 (by omega) (by omega) hp2
  have hl3 : (rand3Pass int 55 1 (rand3Pass int 55 1 (rand3Pass int 55 1 m1))).length = 56 := by
    rw [rand3Pass_length]; exact hl2
  obtain ⟨ep4, hp4⟩ := rand3Pass_good int hw 55 1 _ hl3 (by omega) (by omega) hp3
  have hl4 : (rand3Pass int 55 1 (rand3Pass int 55 1 (rand3Pass int 55 1
      (rand3Pass int 55 1 m1)))).length = 56 := by
    rw [rand3Pass_length]; exact hl3
  have hma : (rand3Init int s).ma
      = rand3Pass int 55 1 (rand3Pass int 55 1 (rand3Pass int 55 1 (rand3Pass int 55 1 m1))) := by
    rw [hm1]
    simp only [rand3Init]
  have hma' : (rand3Init id s).ma
      = rand3Pass int 55 1 (rand3Pass int 55 1 (rand3Pass int 55 1 (rand3Pass int 55 1 m1))) := by
    rw [ep4, ep3, ep2, ep1, hm1, ef, es]
    simp only [rand3Init]
  refine ⟨?_, by rw [hma]; exact hl4, by rw [hma]; exact hp4, rfl, rfl, rfl, rfl⟩
  have hst : ∀ a b : rand3_state, a.rand49_idum = b.rand49_idum → a.inext = b.inext →
      a.inextp = b.inextp → a.ma = b.ma → a.iff = b.iff → a = b := by
    intro a b h1 h2 h3 h4 h5
    cases a
    cases b
    simp only [rand3_state.mk.injEq]
    exact ⟨h1, h2, h3, h4, h5⟩
  exact hst _ _ rfl rfl rfl (by rw [hma, hma']) rfl

/-- The lines of `rand3` after the initialisation, on a table in order: the value
drawn is in `[0, MBIG)`, the table stays in order, and 32-bit `int`s compute what
exact integers give. -/
theorem rand3Draw_good (int : Int → Int) (hw : KeepsInt int) (s : rand3_state)
    (hlen : s.ma.length = 56)
    (hg : ∀ j, 1 ≤ j → j ≤ 55 → 0 ≤ s.ma.getD j 0 ∧ s.ma.getD j 0 < MBIG)
    (hi : 0 ≤ s.inext ∧ s.inext ≤ 55) (hp : 0 ≤ s.inextp ∧ s.inextp ≤ 55) :
    rand3Draw int s = rand3Draw id s ∧
      0 ≤ (rand3Draw int s).1 ∧ (rand3Draw int s).1 < MBIG ∧
      (rand3Draw int s).2.ma.length = 56 ∧
      (∀ j, 1 ≤ j → j ≤ 55 →
        0 ≤ (rand3Draw int s).2.ma.getD j 0 ∧ (rand3Draw int s).2.ma.getD j 0 < MBIG) ∧
      (1 ≤ (rand3Draw int s).2.inext ∧ (rand3Draw int s).2.inext ≤ 55) ∧
      (1 ≤ (rand3Draw int s).2.inextp ∧ (rand3Draw int s).2.inextp ≤ 55) ∧
      (rand3Draw int s).2.iff = s.iff ∧ (rand3Draw int s).2.rand49_idum = s.rand49_idum := by
  obtain ⟨a, ha⟩ : ∃ a, a = (if s.inext + 1 = 56 then 1 else s.inext + 1) := ⟨_, rfl⟩
  obtain ⟨b, hb⟩ : ∃ b, b = (if s.inextp + 1 = 56 then 1 else s.inextp + 1) := ⟨_, rfl⟩
  have har : 1 ≤ a ∧ a ≤ 55 := by
    rw [ha]
    split_ifs <;> omega
  have hbr : 1 ≤ b ∧ b ≤ 55 := by
    rw [hb]
    split_ifs <;> omega
  have key : ∀ w : Int → Int, KeepsInt w →
      rand3Draw w s
        = ((if s.ma.getD a.toNat 0 - s.ma.getD b.toNat 0 < MZ
              then s.ma.getD a.toNat 0 - s.ma.getD b.toNat 0 + MBIG
              else s.ma.getD a.toNat 0 - s.ma.getD b.toNat 0),
            { s with inext := a, inextp := b,
                     ma := s.ma.set a.toNat
                       (if s.ma.getD a.toNat 0 - s.ma.getD b.toNat 0 < MZ
                         then s.ma.getD a.toNat 0 - s.ma.getD b.toNat 0 + MBIG
                         else s.ma.getD a.toNat 0 - s.ma.getD b.toNat 0) }) := by
    intro w hw
    unfold rand3Draw
    rw [hw (s.inext + 1) (by omega) (by omega), hw (s.inextp + 1) (by omega) (by omega),
      ← ha, ← hb]
    obtain ⟨e, _, _⟩ := rand3_sub_fix w hw (s.ma.getD a.toNat 0) (s.ma.getD b.toNat 0)
      (hg a.toNat (by omega) (by omega)) (hg b.toNat (by omega) (by omega))
    simp only [e]
  obtain ⟨_, h0, h1⟩ := rand3_sub_fix int hw (s.ma.getD a.toNat 0) (s.ma.getD b.toNat 0)
    (hg a.toNat (by omega) (by omega)) (hg b.toNat (by omega) (by omega))
  rw [key int hw, key id KeepsInt_id]
  refine ⟨rfl, h0, h1, by simp only [List.length_set]; exact hlen, ?_, har, hbr, rfl, rfl⟩
  intro j hj1 hj2
  by_cases hji : a.toNat = j
  · simp only []
    rw [← hji, getD_set_self s.ma _ _ (by omega)]
    exact ⟨h0, h1⟩
  · simp only []
    rw [getD_set_other s.ma _ j _ hji]
    exact hg j hj1 hj2

/-- Each call of `rand3` on variables in order: the value `mj` drawn is in
`[0, MBIG)`, the variables stay in order with the generator initialised, and 32-bit
`int`s compute what exact integers give. -/
theorem rand3Next_good (int : Int → Int) (hw : KeepsInt int) (s : rand3_state)
    (hs : rand3_ok s) :
    rand3Next int s = rand3Next id s ∧
      0 ≤ (rand3Next int s).1 ∧ (rand3Next int s).1 < MBIG ∧
      rand3_ok (rand3Next int s).2 ∧ (rand3Next int s).2.iff ≠ 0 := by
  obtain ⟨hlen, hd0, hd1, hrest⟩ := hs
  unfold rand3Next
  by_cases hc : s.rand49_idum < 0 ∨ s.iff = 0
  · rw [if_pos hc, if_pos hc]
    obtain ⟨e, hl, hg, hiff, hin, hip, hid⟩ := rand3Init_good int hw s hlen hd0 hd1
    obtain ⟨e2, h0, h1, hl2, hg2, hi2, hp2, hiff2, hid2⟩ :=
      rand3Draw_good int hw (rand3Init int s) hl hg (by rw [hin]; decide) (by rw [hip]; decide)
    refine ⟨by rw [e2, e], h0, h1, ⟨hl2, ?_, ?_, fun _ => ⟨hg2, ?_⟩⟩, ?_⟩
    · rw [hid2, hid]; decide
    · rw [hid2, hid]; decide
    · omega
    · rw [hiff2, hiff]; decide
  · rw [if_neg hc, if_neg hc]
    have hiff : s.iff ≠ 0 := fun h => hc (Or.inr h)
    obtain ⟨hg, hi0, hi1, hp0, hp1⟩ := hrest hiff
    obtain ⟨e2, h0, h1, hl2, hg2, hi2, hp2, hiff2, hid2⟩ :=
      rand3Draw_good int hw s hlen hg ⟨hi0, hi1⟩ ⟨hp0, hp1⟩
    refine ⟨e2, h0, h1, ⟨hl2, ?_, ?_, fun _ => ⟨hg2, ?_⟩⟩, ?_⟩
    · rw [hid2]; exact hd0
    · rw [hid2]; exact hd1
    · omega
    · rw [hiff2]; exact hiff

theorem rand3Start_ok : rand3_ok rand3Start := by
  refine ⟨rfl, by decide, by decide, fun h => absurd rfl h⟩

/-- Claim C35.  From the values that the variables of `rand3` have when the program
starts, after every call of `SetRandomSeed` with a seed `|Seed| < 2^31` and after
every call of `Random()`, the variables are in order: once the generator is
initialised, all the entries `ma[1..55]` are in `[0, 10^9)`.  From variables in
order, every call of `Random()` returns a value in `[0, 1)` and leaves the generator
initialised, and the 32-bit `int`s compute what exact integers give (no operation
overflows), in `Random()` and in `SetRandomSeed`. -/
theorem Random_in_unit_interval {R : Type} [LinearOrderedField R] :
    rand3_ok rand3Start ∧
    (∀ s : rand3_state, rand3_ok s →
      0 ≤ (Random s : R × rand3_state).1 ∧ (Random s : R × rand3_state).1 < 1 ∧
      rand3_ok (Random s : R × rand3_state).2 ∧ (Random s : R × rand3_state).2.iff ≠ 0 ∧
      (∀ i, 1 ≤ i → i ≤ 55 → 0 ≤ (Random s : R × rand3_state).2.ma.getD i 0 ∧
        (Random s : R × rand3_state).2.ma.getD i 0 < 1000000000) ∧
      (Random s : R × rand3_state) = rand3 id s) ∧
    (∀ (Seed : Int) (s : rand3_state), -2147483648 < Seed → Seed < 2147483648 → rand3_ok s →
      rand3_ok (SetRandomSeed toI32 Seed s) ∧ (SetRandomSeed toI32 Seed s).iff ≠ 0 ∧
      (∀ i, 1 ≤ i → i ≤ 55 → 0 ≤ (SetRandomSeed toI32 Seed s).ma.getD i 0 ∧
        (SetRandomSeed toI32 Seed s).ma.getD i 0 < 1000000000) ∧
      SetRandomSeed toI32 Seed s = SetRandomSeed id Seed s) := by
  refine ⟨rand3Start_ok, ?_, ?_⟩
  · intro s hs
    obtain ⟨e, h0, h1, hok, hiff⟩ := rand3Next_good toI32 KeepsInt_toI32 s hs
    have hB : (0 : R) < ((MBIG : Int) : R) := by
      unfold MBIG
      norm_num
    refine ⟨?_, ?_, hok, hiff, (hok.2.2.2 hiff).1, ?_⟩
    · show (0 : R) ≤ ((rand3Next toI32 s).1 : R) * (1 / ((MBIG : Int) : R))
      apply mul_nonneg
      · exact_mod_cast h0
      · exact le_of_lt (one_div_pos.mpr hB)
    · show ((rand3Next toI32 s).1 : R) * (1 / ((MBIG : Int) : R)) < 1
      rw [mul_one_div, div_lt_one hB]
      exact_mod_cast h1
    · unfold Random rand3
      rw [e]
  · intro Seed s hS0 hS1 hs
    have hs1 : rand3_ok { s with rand49_idum := toI32 (-Seed) } := by
      rw [toI32_of_range _ (by omega) (by omega)]
      exact ⟨hs.1, by show -2147483648 < -Seed; omega, by show -Seed < 2147483648; omega, hs.2.2.2⟩
    obtain ⟨e, _, _, hok, hiff⟩ := rand3Next_good toI32 KeepsInt_toI32 _ hs1
    refine ⟨hok, hiff, (hok.2.2.2 hiff).1, ?_⟩
    unfold SetRandomSeed
    rw [e, toI32_of_range _ (by omega) (by omega)]
    rfl

/-- The claim at the start of the program: the first value of `Random()` and the
first value after `SetRandomSeed(5)`. -/
theorem Random_in_unit_interval_witness :
    rand3_ok rand3Start ∧ rand3_ok (SetRandomSeed toI32 5 rand3Start) ∧
      0 ≤ (Random rand3Start : ℚ × rand3_state).1 ∧
      (Random rand3Start : ℚ × rand3_state).1 < 1 ∧
      0 ≤ (Random (SetRandomSeed toI32 5 rand3Start) : ℚ × rand3_state).1 ∧
      (Random (SetRandomSeed toI32 5 rand3Start) : ℚ × rand3_state).1 < 1 :=
  ⟨(Random_in_unit_interval (R := ℚ)).1,
    ((Random_in_unit_interval (R := ℚ)).2.2 5 rand3Start (by decide) (by decide) rand3Start_ok).1,
    ((Random_in_unit_interval (R := ℚ)).2.1 rand3Start rand3Start_ok).1,
    ((Random_in_unit_interval (R := ℚ)).2.1 rand3Start rand3Start_ok).2.1,
    ((Random_in_unit_interval (R := ℚ)).2.1 (SetRandomSeed toI32 5 rand3Start)
      ((Random_in_unit_interval (R := ℚ)).2.2 5 rand3Start (by decide) (by decide)
        rand3Start_ok).1).1,
    ((Random_in_unit_interval (R := ℚ)).2.1 (SetRandomSeed toI32 5 rand3Start)
      ((Random_in_unit_interval (R := ℚ)).2.2 5 rand3Start (by decide) (by decide)
        rand3Start_ok).1).2.1⟩

/-- The first loop of the initialisation gives the same entry `j` from two tables
when the entry was the same or is written by the loop. -/
theorem rand3Fill_same (int : Int → Int) :
    ∀ (n i : Nat) (mj mk : Int) (ma mb : List Int), ma.length = 56 → mb.length = 56 →
      ∀ j, (ma.getD j 0 = mb.getD j 0 ∨ ∃ k, i ≤ k ∧ k < i + n ∧ (21 * k) % 55 = j) →
        (rand3Fill int n i mj mk ma).getD j 0 = (rand3Fill int n i mj mk mb).getD j 0 := by
  intro n
  induction n with
  | zero =>
    intro i mj mk ma mb _ _ j hj
    rcases hj with hj | ⟨k, h1, h2, _⟩
    · exact hj
    · omega
  | succ n ih =>
    intro i mj mk ma mb hla hlb j hj
    rw [rand3Fill_succ int n i mj mk ma hla, rand3Fill_succ int n i mj mk mb hlb]
    apply ih (i + 1) _ _ _ _ (by rw [List.length_set]; exact hla)
      (by rw [List.length_set]; exact hlb)
    by_cases hji : (21 * i) % 55 = j
    · left
      rw [← hji, getD_set_self ma _ mk (by omega), getD_set_self mb _ mk (by omega)]
    · rcases hj with hj | ⟨k, h1, h2, h3⟩
      · left
        rw [getD_set_other ma _ j mk hji, getD_set_other mb _ j mk hji]
        exact hj
      · right
        refine ⟨k, ?_, by omega, h3⟩
        by_contra hc
        have : k = i := by omega
        rw [this] at h3
        exact hji h3

theorem list_eq_of_getD (a b : List Int) (hla : a.length = 56) (hlb : b.length = 56)
    (h : ∀ j, j < 56 → a.getD j 0 = b.getD j 0) : a = b := by
  apply List.ext_getElem (by rw [hla, hlb])
  intro j h1 h2
  have := h j (by omega)
  rw [List.getD_eq_getElem?_getD, List.getD_eq_getElem?_getD, List.getElem?_eq_getElem h1,
    List.getElem?_eq_getElem h2] at this
  simpa using this

/-- The initialisation of `rand3` overwrites the entries `ma[1..55]`: its result
depends on `*idum` and on `ma[0]` only. -/
theorem rand3Init_same (int : Int → Int) (s1 s2 : rand3_state)
    (hl1 : s1.ma.length = 56) (hl2 : s2.ma.length = 56)
    (h0 : s1.ma.getD 0 0 = s2.ma.getD 0 0) (hd : s1.rand49_idum = s2.rand49_idum) :
    rand3Init int s1 = rand3Init int s2 := by
  have hfill : rand3Fill int 54 1 (rand3Seed int s1.rand49_idum) 1
        (s1.ma.set 55 (rand3Seed int s1.rand49_idum))
      = rand3Fill int 54 1 (rand3Seed int s1.rand49_idum) 1
        (s2.ma.set 55 (rand3Seed int s1.rand49_idum)) := by
    apply list_eq_of_getD
    · rw [rand3Fill_length, List.length_set]; exact hl1
    · rw [rand3Fill_length, List.length_set]; exact hl2
    intro j hj
    apply rand3Fill_same int 54 1 _ _ _ _ (by rw [List.length_set]; exact hl1)
      (by rw [List.length_set]; exact hl2)
    by_cases h55 : j = 55
    · left
      rw [h55, getD_set_self _ _ _ (by omega), getD_set_self _ _ _ (by omega)]
    · by_cases hj0 : j = 0
      · left
        rw [hj0, getD_set_other _ _ _ _ (by decide), getD_set_other _ _ _ _ (by decide)]
        exact h0
      · right
        exact rand3Fill_covers j (by omega) (by omega)
  unfold rand3Init
  simp only [← hd, hfill]

/-- For a seed `Seed > 0`, `SetRandomSeed(Seed)` sets the variables of `rand3` to
values that depend on `Seed` only, whatever calls were made before: the values of
`Random()` that follow are a function of `Seed`. -/
theorem SetRandomSeed_positive_resets (Seed : Int) (hS0 : 0 < Seed) (hS1 : Seed < 2147483648)
    (s1 s2 : rand3_state) (hl1 : s1.ma.length = 56) (hl2 : s2.ma.length = 56)
    (h0 : s1.ma.getD 0 0 = s2.ma.getD 0 0) :
    SetRandomSeed toI32 Seed s1 = SetRandomSeed toI32 Seed s2 := by
  unfold SetRandomSeed rand3Next
  have e : toI32 (-Seed) = -Seed := toI32_of_range _ (by omega) (by omega)
  have hneg : (-Seed < 0 ∨ s1.iff = 0) := Or.inl (by omega)
  have hneg2 : (-Seed < 0 ∨ s2.iff = 0) := Or.inl (by omega)
  simp only [e, if_pos hneg, if_pos hneg2]
  rw [rand3Init_same toI32 { s1 with rand49_idum := -Seed } { s2 with rand49_idum := -Seed }
    hl1 hl2 h0 rfl]

/-- The seed 7 from the start of the program and after one call of `Random()`. -/
theorem SetRandomSeed_positive_resets_witness :
    SetRandomSeed toI32 7 rand3Start
      = SetRandomSeed toI32 7 (Random rand3Start : ℚ × rand3_state).2 :=
  SetRandomSeed_positive_resets 7 (by decide) (by decide) rand3Start
    (Random rand3Start : ℚ × rand3_state).2 rfl
    (rand3Next_good toI32 KeepsInt_toI32 rand3Start rand3Start_ok).2.2.2.1.1
    (by decide!)

/-- C34, the code at a failing input: the seed 0.  At the start of the program
`SetRandomSeed(0)` initialises the table (`iff == 0`) and the next two values of
`Random()` are 0.323008803 and 0.401103978; after one call of `Random()`, which
initialises the table from the default `rand49_idum = -77531`, `SetRandomSeed(0)`
finds `*idum < 0 || iff == 0` false, initialises nothing and draws one value, and
the next two values of `Random()` are 0.568032477 and 0.22062389, the third and
fourth values of the default sequence.  The same happens with the seed -5. -/
theorem SetRandomSeed_nonpositive_keeps_state :
    (RandomValues 2 (SetRandomSeed toI32 0 rand3Start) : List ℚ)
      = [323008803 / 1000000000, 401103978 / 1000000000] ∧
    (RandomValues 2 (SetRandomSeed toI32 0 (Random rand3Start : ℚ × rand3_state).2) : List ℚ)
      = [568032477 / 1000000000, 220623890 / 1000000000] ∧
    (RandomValues 5 rand3Start : List ℚ)
      = [748427288 / 1000000000, 31717618 / 1000000000, 568032477 / 1000000000,
         220623890 / 1000000000, 25954204 / 1000000000] ∧
    (RandomValues 1 (SetRandomSeed toI32 (-5) rand3Start) : List ℚ)
      = [283560628 / 1000000000] ∧
    (RandomValues 1 (SetRandomSeed toI32 (-5) (Random rand3Start : ℚ × rand3_state).2) : List ℚ)
      = [568032477 / 1000000000] := by
  refine ⟨?_, ?_, ?_, ?_, ?_⟩ <;> decide!

/-! ## sortedqueue.c : the invariants of the tree and the order of equal keys -/

/-- Claim C36.  On a queue made by `initSortedQueue`, with a comparison that orders
the items and an allocator that returns fresh addresses, after every sequence of
calls of `putSortedQueueItem` and `getSortedQueueItem` the memory holds a tree `t`
at `Root`, with its nodes at distinct addresses: `t` is a binary search tree
(`visitSortedQueue` returns its items from left to right, and they are in
non-decreasing order), the `Balance` field of every node is the height of its
right subtree minus the height of its left subtree and is -1, 0 or 1 (`Avl t`),
and `ElementNum` is the number of nodes. -/
theorem tree_is_balanced_search_tree {α : Type} (SQ0 : sorted_queue α) (cmp : α → α → Int)
    (ops : List (SQOp α)) (fuel : Nat) (hcmp : CmpOrder cmp)
    (hmalloc : ∀ L, SQ0.malloc L ≠ 0 ∧ SQ0.malloc L ∉ L)
    (hfuel : ops.length < fuel) (hlen : ops.length < 2147483648) :
    ∃ SQ1 res t,
      runSortedQueue fuel ops (initSortedQueue SQ0 cmp) = some (SQ1, res) ∧
      Rep SQ1.mem t ∧ SQ1.Root = t.addr ∧ t.addrs.Nodup ∧ 0 ∉ t.addrs ∧
      visitSortedQueue fuel SQ1 = some t.inorder ∧
      t.inorder.Pairwise (fun x y => cmp x y ≤ 0) ∧
      Avl t ∧
      SQ1.ElementNum = (t.size : Int) := by
  obtain ⟨SQ1, t1, e1, hinv1, _, hc1, _, hs1⟩ :=
    runSortedQueue_spec fuel ops (initSortedQueue SQ0 cmp) .nil (SQInv_init SQ0 cmp) hcmp hmalloc
      (by simp only [AvlT.size]; omega) (by simp only [AvlT.size]; omega)
  simp only [AvlT.size, Nat.zero_add] at hs1
  have hh1 := AvlT.height_le_size t1
  have hsorted : t1.inorder.Pairwise (fun x y => cmp x y ≤ 0) := by
    have := hinv1.2.2.2.2.2.2.2.2.2
    rw [hc1] at this
    exact this
  exact ⟨SQ1, _, t1, e1, hinv1.1, hinv1.2.2.2.2.2.1, hinv1.2.2.1, hinv1.2.2.2.1,
    visitSortedQueue_spec fuel SQ1 t1 hinv1 (by omega), hsorted, hinv1.2.2.2.2.2.2.2.2.1,
    hinv1.2.2.2.2.2.2.2.1⟩

/-- Seven puts in ascending order, which make the tree rotate, and two gets, on a
queue made from `blankSortedQueue`. -/
theorem tree_is_balanced_search_tree_witness :
    CmpOrder cmpNat ∧ (∀ L, blankSortedQueue.malloc L ≠ 0 ∧ blankSortedQueue.malloc L ∉ L) ∧
    ∃ SQ1 res t,
      runSortedQueue 12 [SQOp.put 1, SQOp.put 2, SQOp.put 3, SQOp.put 4, SQOp.put 5, SQOp.put 6,
          SQOp.put 7, SQOp.get, SQOp.get] (initSortedQueue blankSortedQueue cmpNat)
        = some (SQ1, res) ∧
      Rep SQ1.mem t ∧ SQ1.Root = t.addr ∧ t.addrs.Nodup ∧ 0 ∉ t.addrs ∧
      visitSortedQueue 12 SQ1 = some t.inorder ∧
      t.inorder.Pairwise (fun x y => cmpNat x y ≤ 0) ∧
      Avl t ∧
      SQ1.ElementNum = (t.size : Int) :=
  ⟨cmpNat_order, mallocTop_fresh,
    tree_is_balanced_search_tree blankSortedQueue cmpNat
      [SQOp.put 1, SQOp.put 2, SQOp.put 3, SQOp.put 4, SQOp.put 5, SQOp.put 6, SQOp.put 7,
        SQOp.get, SQOp.get] 12 cmpNat_order mallocTop_fresh (by decide) (by decide)⟩

/-- The run of the witness of C36: the two gets return 1 and 2, the traversal
gives 3, 4, 5, 6, 7, the root holds 4 and `ElementNum` is 5. -/
theorem tree_after_seven_puts :
    (runSortedQueue 12 [SQOp.put 1, SQOp.put 2, SQOp.put 3, SQOp.put 4, SQOp.put 5, SQOp.put 6,
        SQOp.put 7, SQOp.get, SQOp.get] (initSortedQueue blankSortedQueue cmpNat)).map
      (fun r => (r.2, visitSortedQueue 12 r.1, (r.1.mem r.1.Root).Item, (r.1.mem r.1.Root).Balance,
        r.1.ElementNum))
      = some ([some 1, some 2], some [3, 4, 5, 6, 7], 4, 1, 5) := by
  decide

/-- The comparison of numbered items orders them when the comparison of the items
does. -/
theorem cmpTagged_order {α : Type} {cmp : α → α → Int} (h : CmpOrder cmp) :
    CmpOrder (cmpTagged cmp) :=
  ⟨fun a b => h.1 a.1 b.1, fun a b => h.2.1 a.1 b.1, fun a b c => h.2.2 a.1 b.1 c.1⟩

/-- A put leaves the new item after the items with an equal key: in a list where
items with equal keys are in the order of their numbers, all below `k`, the item
numbered `k` keeps them so. -/
theorem listPut_stable {α : Type} {cmp : α → α → Int} (h : CmpOrder cmp) (x : α) (k : Nat) :
    ∀ L : List (α × Nat), L.Pairwise (fun a b => cmp a.1 b.1 ≤ 0) →
      L.Pairwise (fun a b => cmp a.1 b.1 = 0 → a.2 < b.2) → (∀ a ∈ L, a.2 < k) →
      (listPut (cmpTagged cmp) (x, k) L).Pairwise (fun a b => cmp a.1 b.1 = 0 → a.2 < b.2) := by
  intro L
  induction L with
  | nil => intro _ _ _; simp [listPut]
  | cons y L ih =>
    intro hs hst hk
    unfold listPut
    rw [List.pairwise_cons] at hs hst
    by_cases hc : cmpTagged cmp (x, k) y < 0
    · rw [if_pos hc]
      refine List.pairwise_cons.mpr ⟨?_, List.pairwise_cons.mpr hst⟩
      intro z hz heq
      exfalso
      have hxy : cmp x y.1 < 0 := hc
      rcases List.mem_cons.mp hz with rfl | hz
      · have : cmp x z.1 = 0 := heq
        omega
      · have hyz : cmp y.1 z.1 ≤ 0 := hs.1 z hz
        have hxz : cmp x z.1 = 0 := heq
        have hzx : cmp z.1 x ≤ 0 := h.1 _ _ (by omega)
        have hyx : cmp y.1 x ≤ 0 := h.2.2 _ _ _ hyz hzx
        have := h.2.1 _ _ hyx
        omega
    · rw [if_neg hc]
      refine List.pairwise_cons.mpr ⟨?_, ih hs.2 hst.2 (fun a ha => hk a (List.mem_cons_of_mem _ ha))⟩
      intro z hz heq
      rcases (mem_listPut _ _ _ _).mp hz with rfl | hz
      · exact hk y (List.mem_cons_self _ _)
      · exact hst.1 z hz heq

/-- On the list of the stored items, every sequence of calls returns the items with
equal keys in the order of their numbers. -/
theorem runSortedList_stable {α : Type} {cmp : α → α → Int} (h : CmpOrder cmp) :
    ∀ (ops : List (SQOp α)) (k : Nat) (L out : List (α × Nat)),
      L.Pairwise (fun a b => cmp a.1 b.1 ≤ 0) →
      L.Pairwise (fun a b => cmp a.1 b.1 = 0 → a.2 < b.2) →
      (∀ a ∈ L, a.2 < k) → (∀ a ∈ out, a.2 < k) →
      out.Pairwise (fun a b => cmp a.1 b.1 = 0 → a.2 < b.2) →
      (∀ a ∈ out, ∀ b ∈ L, cmp a.1 b.1 = 0 → a.2 < b.2) →
      (out ++ (runSortedList (cmpTagged cmp) (tagOps k ops) L).2.filterMap id
        ++ (runSortedList (cmpTagged cmp) (tagOps k ops) L).1).Pairwise
        (fun a b => cmp a.1 b.1 = 0 → a.2 < b.2) := by
  intro ops
  induction ops with
  | nil =>
    intro k L out _ hst _ _ ho hoL
    simp only [tagOps, runSortedList, List.filterMap_nil, List.append_nil]
    exact List.pairwise_append.mpr ⟨ho, hst, hoL⟩
  | cons op ops ih =>
    intro k L out hs hst hk hok ho hoL
    cases op with
    | put x =>
      simp only [tagOps, runSortedList]
      apply ih (k + 1) _ out (listPut_sorted (cmpTagged_order h) (x, k) L hs)
        (listPut_stable h x k L hs hst hk)
      · intro a ha
        rcases (mem_listPut _ _ _ _).mp ha with rfl | ha
        · exact Nat.lt_succ_self _
        · exact Nat.lt_succ_of_lt (hk a ha)
      · intro a ha
        exact Nat.lt_succ_of_lt (hok a ha)
      · exact ho
      · intro a ha b hb heq
        rcases (mem_listPut _ _ _ _).mp hb with rfl | hb
        · exact hok a ha
        · exact hoL a ha b hb heq
    | get =>
      cases L with
      | nil =>
        simp only [tagOps, runSortedList, List.filterMap_cons_none]
        exact ih k [] out hs hst hk hok ho hoL
      | cons y L =>
        simp only [tagOps, runSortedList, List.filterMap_cons_some, id_eq]
        rw [List.pairwise_cons] at hs hst
        have := ih k L (out ++ [y]) hs.2 hst.2 (fun a ha => hk a (List.mem_cons_of_mem _ ha))
          (by
            intro a ha
            rcases List.mem_append.mp ha with ha | ha
            · exact hok a ha
            · rw [List.mem_singleton] at ha
              rw [ha]
              exact hk y (List.mem_cons_self _ _))
          (by
            apply List.pairwise_append.mpr
            refine ⟨ho, List.pairwise_singleton _ _, ?_⟩
            intro a ha b hb heq
            rw [List.mem_singleton] at hb
            rw [hb] at heq ⊢
            exact hoL a ha y (List.mem_cons_self _ _) heq)
          (by
            intro a ha b hb heq
            rcases List.mem_append.mp ha with ha | ha
            · exact hoL a ha b (List.mem_cons_of_mem _ hb) heq
            · rw [List.mem_singleton] at ha
              rw [ha] at heq ⊢
              exact hst.1 b hb heq)
        simpa [List.append_assoc] using this

theorem length_tagOps {α : Type} : ∀ (ops : List (SQOp α)) (k : Nat),
    (tagOps k ops).length = ops.length := by
  intro ops
  induction ops with
  | nil => intro k; rfl
  | cons op ops ih =>
    intro k
    cases op <;> simp [tagOps, ih]

/-- The events with the same time are those that `cmpEvents` finds equal. -/
theorem cmpEvents_eq_zero {R : Type} [LinearOrderedField R] (a b : event R) :
    cmpEvents a b = 0 ↔ a.Time = b.Time := by
  unfold cmpEvents
  split_ifs with h1 h2
  · simp [ne_of_lt h1]
  · simp [ne_of_gt h2]
  · simp [le_antisymm (not_lt.mp h2) (not_lt.mp h1)]

/-- The sorted queue is stable: the items returned and then the items stored, in
order, have the items with equal keys in the order of their numbers. -/
theorem runSortedQueue_stable {α : Type} (SQ0 : sorted_queue (α × Nat)) (cmp : α → α → Int)
    (ops : List (SQOp α)) (fuel : Nat) (hcmp : CmpOrder cmp)
    (hmalloc : ∀ L, SQ0.malloc L ≠ 0 ∧ SQ0.malloc L ∉ L)
    (hfuel : ops.length < fuel) (hlen : ops.length < 2147483648) :
    ∃ SQ1 res stored,
      runSortedQueue fuel (tagOps 0 ops) (initSortedQueue SQ0 (cmpTagged cmp))
        = some (SQ1, res) ∧
      visitSortedQueue fuel SQ1 = some stored ∧
      (res.filterMap id ++ stored).Pairwise (fun a b => cmp a.1 b.1 = 0 → a.2 < b.2) ∧
      (res.filterMap id ++ stored).Perm (putItems (tagOps 0 ops)) := by
  obtain ⟨SQ1, t1, e1, hinv1, hino1, _, _, hs1⟩ :=
    runSortedQueue_spec fuel (tagOps 0 ops) (initSortedQueue SQ0 (cmpTagged cmp)) .nil
      (SQInv_init SQ0 (cmpTagged cmp)) (cmpTagged_order hcmp) hmalloc
      (by simp only [AvlT.size, length_tagOps]; omega)
      (by simp only [AvlT.size, length_tagOps]; omega)
  simp only [AvlT.size, Nat.zero_add, length_tagOps] at hs1
  have hh1 := AvlT.height_le_size t1
  have hino : t1.inorder = (runSortedList (cmpTagged cmp) (tagOps 0 ops) []).1 := hino1
  have hst := runSortedList_stable hcmp ops 0 [] [] List.Pairwise.nil List.Pairwise.nil
    (by simp) (by simp) List.Pairwise.nil (by simp)
  rw [List.nil_append] at hst
  refine ⟨SQ1, _, t1.inorder, e1, visitSortedQueue_spec fuel SQ1 t1 hinv1 (by omega), ?_, ?_⟩
  · rw [hino]
    exact hst
  · rw [hino]
    have := runSortedList_perm (cmpTagged cmp) (tagOps 0 ops) []
    rwa [List.append_nil] at this

/-- Claim C37.  On a queue made by `initSortedQueue`, with a comparison that orders
the items and an allocator that returns fresh addresses, for every sequence of calls
of `putSortedQueueItem` and `getSortedQueueItem`, the items being numbered in the
order of the puts: the items returned by `getSortedQueueItem`, in the order of the
calls, followed by the items still stored, in the order of `visitSortedQueue`, have
every two items with equal keys in the order of their numbers, and they are the items
put.  In particular, on the queue of the events with `cmpEvents`, two events with
the same time leave the queue in the order in which they were put. -/
theorem equal_keys_leave_in_insertion_order {α : Type} (SQ0 : sorted_queue (α × Nat))
    (cmp : α → α → Int) (ops : List (SQOp α)) (fuel : Nat) (hcmp : CmpOrder cmp)
    (hmalloc : ∀ L, SQ0.malloc L ≠ 0 ∧ SQ0.malloc L ∉ L)
    (hfuel : ops.length < fuel) (hlen : ops.length < 2147483648) :
    (∃ SQ1 res stored,
      runSortedQueue fuel (tagOps 0 ops) (initSortedQueue SQ0 (cmpTagged cmp))
        = some (SQ1, res) ∧
      visitSortedQueue fuel SQ1 = some stored ∧
      (res.filterMap id ++ stored).Pairwise (fun a b => cmp a.1 b.1 = 0 → a.2 < b.2) ∧
      (res.filterMap id ++ stored).Perm (putItems (tagOps 0 ops))) ∧
    (∀ (R : Type) [LinearOrderedField R] (SQe : sorted_queue (event R × Nat))
      (evs : List (SQOp (event R))) (fuelE : Nat),
      (∀ L, SQe.malloc L ≠ 0 ∧ SQe.malloc L ∉ L) → evs.length < fuelE →
      evs.length < 2147483648 →
      ∃ SQ1 res stored,
        runSortedQueue fuelE (tagOps 0 evs) (initSortedQueue SQe (cmpTagged cmpEvents))
          = some (SQ1, res) ∧
        visitSortedQueue fuelE SQ1 = some stored ∧
        (res.filterMap id ++ stored).Pairwise (fun a b => a.1.Time = b.1.Time → a.2 < b.2)) := by
  refine ⟨runSortedQueue_stable SQ0 cmp ops fuel hcmp hmalloc hfuel hlen, ?_⟩
  intro R _ SQe evs fuelE hm hf hl
  obtain ⟨SQ1, res, stored, e1, e2, hst, _⟩ :=
    runSortedQueue_stable SQe cmpEvents evs fuelE cmpEvents_order hm hf hl
  refine ⟨SQ1, res, stored, e1, e2, ?_⟩
  exact hst.imp (fun {a b} hab ht => hab ((cmpEvents_eq_zero a.1 b.1).mpr ht))

/-- Puts of the keys 5, 5 and 3, a get, a put of the key 5 and two gets, on a queue
made from `blankTaggedQueue`. -/
theorem equal_keys_leave_in_insertion_order_witness :
    CmpOrder cmpNat ∧ (∀ L, blankTaggedQueue.malloc L ≠ 0 ∧ blankTaggedQueue.malloc L ∉ L) ∧
    (∃ SQ1 res stored,
      runSortedQueue 9
          (tagOps 0 [SQOp.put 5, SQOp.put 5, SQOp.put 3, SQOp.get, SQOp.put 5, SQOp.get, SQOp.get])
          (initSortedQueue blankTaggedQueue (cmpTagged cmpNat))
        = some (SQ1, res) ∧
      visitSortedQueue 9 SQ1 = some stored ∧
      (res.filterMap id ++ stored).Pairwise (fun a b => cmpNat a.1 b.1 = 0 → a.2 < b.2) ∧
      (res.filterMap id ++ stored).Perm (putItems
        (tagOps 0 [SQOp.put 5, SQOp.put 5, SQOp.put 3, SQOp.get, SQOp.put 5, SQOp.get,
          SQOp.get]))) ∧
    (∀ (R : Type) [LinearOrderedField R] (SQe : sorted_queue (event R × Nat))
      (evs : List (SQOp (event R))) (fuelE : Nat),
      (∀ L, SQe.malloc L ≠ 0 ∧ SQe.malloc L ∉ L) → evs.length < fuelE →
      evs.length < 2147483648 →
      ∃ SQ1 res stored,
        runSortedQueue fuelE (tagOps 0 evs) (initSortedQueue SQe (cmpTagged cmpEvents))
          = some (SQ1, res) ∧
        visitSortedQueue fuelE SQ1 = some stored ∧
        (res.filterMap id ++ stored).Pairwise (fun a b => a.1.Time = b.1.Time → a.2 < b.2)) :=
  ⟨cmpNat_order, mallocTop_fresh,
    equal_keys_leave_in_insertion_order blankTaggedQueue cmpNat
      [SQOp.put 5, SQOp.put 5, SQOp.put 3, SQOp.get, SQOp.put 5, SQOp.get, SQOp.get] 9
      cmpNat_order mallocTop_fresh (by decide) (by decide)⟩

/-- The run of the witness of C37: the gets return the key 3, then the first and the
second of the keys 5, and the third key 5, put after the first get, stays. -/
theorem equal_keys_run :
    (runSortedQueue 9
        (tagOps 0 [SQOp.put 5, SQOp.put 5, SQOp.put 3, SQOp.get, SQOp.put 5, SQOp.get, SQOp.get])
        (initSortedQueue blankTaggedQueue (cmpTagged cmpNat))).map
      (fun r => (r.2, visitSortedQueue 9 r.1))
      = some ([some (3, 2), some (5, 0), some (5, 1)], some [(5, 3)]) := by
  decide

/-! ## perseo.c : the cached `OldestLayer` after `addNewSpike` and `endSpikeManagement` -/

/-- The function `findOldestLayer` gives the right value when the current spikes
are below `Life + 100`. -/
theorem findOldestLayer_right {R : Type} [LinearOrderedRing R] [FloorRing R] (Life : R)
    (SM : List (synaptic_layer R)) (hH : BelowHorizon Life SM) :
    OldestLayerSpec SM (findOldestLayer Life SM) := by
  have hcap : timexToDouble (doubleToTimex (Life + 100)) = Life + 100 :=
    timexToDouble_doubleToTimex _
  unfold findOldestLayer
  rcases findOldestLoop_spec SM 0 NULL_LAYER (doubleToTimex (Life + 100)) with
    ⟨h1, h2⟩ | ⟨k, Lk, h1, h2, h3, _, h5, h6⟩
  · left
    refine ⟨?_, h1⟩
    intro L hL
    by_contra hE
    have hE' : L.Empty = false := by simpa using hE
    obtain ⟨m, hm, hget⟩ := List.getElem_of_mem hL
    have := h2 m L (by rw [List.getElem?_eq_getElem hm, hget]) hE'
    rw [hcap] at this
    exact absurd (hH L hL hE') (not_lt.mpr this)
  · right
    exact ⟨k, Lk, by rw [h1]; simp, h2, h3, h5, h6⟩

/-- The right value of `OldestLayer` depends on the current spikes and on the flags
`Empty` of the layers only. -/
theorem OldestLayerSpec_congr {R : Type} [LinearOrderedRing R] (SM SM1 : List (synaptic_layer R))
    (OL : Int)
    (h : ∀ (m : Nat) (L1 : synaptic_layer R), SM1[m]? = some L1 →
      ∃ L : synaptic_layer R, SM[m]? = some L ∧ L.Spike = L1.Spike ∧ L.Empty = L1.Empty)
    (h' : ∀ (m : Nat) (L : synaptic_layer R), SM[m]? = some L →
      ∃ L1 : synaptic_layer R, SM1[m]? = some L1 ∧ L.Spike = L1.Spike ∧ L.Empty = L1.Empty)
    (hs : OldestLayerSpec SM OL) : OldestLayerSpec SM1 OL := by
  rcases hs with ⟨h1, h2⟩ | ⟨k, Lk, h1, h2, h3, h5, h6⟩
  · left
    refine ⟨?_, h2⟩
    intro L1 hL1
    obtain ⟨m, hm, hget⟩ := List.getElem_of_mem hL1
    obtain ⟨L, hL, _, hE⟩ := h m L1 (by rw [List.getElem?_eq_getElem hm, hget])
    rw [← hE]
    exact h1 L (mem_of_getElem?_eq SM m L hL)
  · right
    obtain ⟨Lk1, hk1, hS, hE⟩ := h' k Lk h2
    have hT : layerTime Lk1 = layerTime Lk := by unfold layerTime; rw [hS]
    refine ⟨k, Lk1, h1, hk1, by rw [← hE]; exact h3, ?_, ?_⟩
    · intro m L1 hm hE1
      obtain ⟨L, hL, hS1, hE2⟩ := h m L1 hm
      have : layerTime L1 = layerTime L := by unfold layerTime; rw [hS1]
      rw [hT, this]
      exact h5 m L hL (by rw [hE2]; exact hE1)
    · intro m L1 hmk hm hE1
      obtain ⟨L, hL, hS1, hE2⟩ := h m L1 hm
      have : layerTime L1 = layerTime L := by unfold layerTime; rw [hS1]
      rw [hT, this]
      exact h6 m L hmk hL (by rw [hE2]; exact hE1)

/-- Claim C38.  `OldestLayer` is right for the empty layers that
`createSynapticMatrix` leaves, with its initial value `NULL_LAYER`.  From layers for
which `OldestLayer` is right, after a call of
`addNewSpike` and after a call of `endSpikeManagement` that leave the current spikes
of the non-empty layers below `Life + 100`, `OldestLayer` is right again:
`NULL_LAYER` if every layer is empty, and otherwise the lowest index among the
non-empty layers whose current spike has the earliest emission time.  Adding a
spike to a non-empty layer changes neither the current spike of that layer nor
`OldestLayer`: the spike goes to the end of the queue of the layer. -/
theorem oldest_layer_cache_is_right {R : Type} [LinearOrderedRing R] [FloorRing R]
    (Life DelayStep : R) (SM : List (synaptic_layer R)) (OL : Int)
    (hOL : OldestLayerSpec SM OL) :
    (∀ DelayNumber : Nat, OldestLayerSpec (emptyLayers R DelayNumber) NULL_LAYER) ∧
    (∀ (n : Nat) (t : timex R) (ISI : R) (l : Nat),
      BelowHorizon Life (addNewSpike Life SM OL n t ISI l).1 →
      OldestLayerSpec (addNewSpike Life SM OL n t ISI l).1 (addNewSpike Life SM OL n t ISI l).2) ∧
    (∀ l : Nat, BelowHorizon Life (endSpikeManagement Life DelayStep SM OL l).1 →
      OldestLayerSpec (endSpikeManagement Life DelayStep SM OL l).1
        (endSpikeManagement Life DelayStep SM OL l).2) ∧
    (∀ (n : Nat) (t : timex R) (ISI : R) (l : Nat) (L : synaptic_layer R),
      SM[l]? = some L → L.Empty = false →
      (addNewSpike Life SM OL n t ISI l).2 = OL ∧
      (addNewSpike Life SM OL n t ISI l).1[l]?
        = some { L with Queue := L.Queue ++ [⟨t, n, ISI⟩] } ∧
      ∀ k, k ≠ l → (addNewSpike Life SM OL n t ISI l).1[k]? = SM[k]?) := by
  have hadd : ∀ (n : Nat) (t : timex R) (ISI : R) (l : Nat) (L : synaptic_layer R),
      SM[l]? = some L → L.Empty = false →
      (addNewSpike Life SM OL n t ISI l).2 = OL ∧
      (addNewSpike Life SM OL n t ISI l).1[l]?
        = some { L with Queue := L.Queue ++ [⟨t, n, ISI⟩] } ∧
      ∀ k, k ≠ l → (addNewSpike Life SM OL n t ISI l).1[k]? = SM[k]? := by
    intro n t ISI l L hL hE
    have hlt : l < SM.length := by
      by_contra h
      rw [List.getElem?_eq_none (not_lt.mp h)] at hL
      exact Option.noConfusion hL
    have hD : SM.getD l blankLayer = L := by
      rw [List.getD_eq_getElem?_getD, hL]; rfl
    unfold addNewSpike
    simp only [hD, hE, Bool.false_eq_true, if_false]
    refine ⟨trivial, List.getElem?_set_self hlt, ?_⟩
    intro k hk
    rw [List.getElem?_set_ne (Ne.symm hk)]
  refine ⟨?_, ?_, ?_, hadd⟩
  · intro DelayNumber
    left
    refine ⟨?_, rfl⟩
    intro L hL
    rw [List.eq_of_mem_replicate hL]
    rfl
  · intro n t ISI l hH
    by_cases hE : (SM.getD l blankLayer).Empty = true
    · have e : addNewSpike Life SM OL n t ISI l
          = (SM.set l { SM.getD l blankLayer with Spike := ⟨t, n, ISI⟩, Empty := false },
            findOldestLayer Life
              (SM.set l { SM.getD l blankLayer with Spike := ⟨t, n, ISI⟩, Empty := false })) := by
        unfold addNewSpike
        simp only [hE, if_true]
      rw [e] at hH ⊢
      exact findOldestLayer_right Life _ hH
    · have hE' : (SM.getD l blankLayer).Empty = false := by simpa using hE
      have hlt : l < SM.length := by
        by_contra h
        rw [List.getD_eq_getElem?_getD, List.getElem?_eq_none (not_lt.mp h)] at hE'
        simp [blankLayer] at hE'
      have hL : SM[l]? = some (SM.getD l blankLayer) := by
        rw [List.getD_eq_getElem?_getD, List.getElem?_eq_getElem hlt]
        rfl
      obtain ⟨h1, h2, h3⟩ := hadd n t ISI l _ hL hE'
      rw [h1]
      apply OldestLayerSpec_congr SM _ OL _ _ hOL
      · intro m L1 hm
        by_cases hml : m = l
        · subst hml
          rw [h2] at hm
          refine ⟨_, hL, ?_, ?_⟩
          · rw [← Option.some.inj hm]
          · rw [← Option.some.inj hm]
        · rw [h3 m hml] at hm
          exact ⟨L1, hm, rfl, rfl⟩
      · intro m L hm
        by_cases hml : m = l
        · subst hml
          rw [hL] at hm
          refine ⟨_, h2, ?_, ?_⟩
          · rw [← Option.some.inj hm]
          · rw [← Option.some.inj hm]
        · refine ⟨L, ?_, rfl, rfl⟩
          rw [h3 m hml]
          exact hm
  · intro l hH
    exact findOldestLayer_right Life _ hH

/-- With current spikes at 5 ms and at 3 ms, the right value of `OldestLayer` is 1. -/
theorem twoLayers_oldest : OldestLayerSpec [layerAt 5, layerAt 3] 1 := by
  have h := findOldestLayer_right (10 : Int) [layerAt 5, layerAt 3]
    (by unfold BelowHorizon; decide)
  have e : findOldestLayer (10 : Int) [layerAt 5, layerAt 3] = 1 := by decide
  rw [e] at h
  exact h

/-- Two layers whose current spikes were emitted at 5 ms and at 3 ms. -/
theorem oldest_layer_cache_is_right_witness :
    OldestLayerSpec [layerAt 5, layerAt 3] 1 ∧
    (∀ DelayNumber : Nat, OldestLayerSpec (emptyLayers Int DelayNumber) NULL_LAYER) ∧
    (∀ (n : Nat) (t : timex Int) (ISI : Int) (l : Nat),
      BelowHorizon 10 (addNewSpike 10 [layerAt 5, layerAt 3] 1 n t ISI l).1 →
      OldestLayerSpec (addNewSpike 10 [layerAt 5, layerAt 3] 1 n t ISI l).1
        (addNewSpike 10 [layerAt 5, layerAt 3] 1 n t ISI l).2) ∧
    (∀ l : Nat, BelowHorizon 10 (endSpikeManagement 10 1 [layerAt 5, layerAt 3] 1 l).1 →
      OldestLayerSpec (endSpikeManagement 10 1 [layerAt 5, layerAt 3] 1 l).1
        (endSpikeManagement 10 1 [layerAt 5, layerAt 3] 1 l).2) ∧
    (∀ (n : Nat) (t : timex Int) (ISI : Int) (l : Nat) (L : synaptic_layer Int),
      [layerAt 5, layerAt 3][l]? = some L → L.Empty = false →
      (addNewSpike 10 [layerAt 5, layerAt 3] 1 n t ISI l).2 = 1 ∧
      (addNewSpike 10 [layerAt 5, layerAt 3] 1 n t ISI l).1[l]?
        = some { L with Queue := L.Queue ++ [⟨t, n, ISI⟩] } ∧
      ∀ k, k ≠ l → (addNewSpike 10 [layerAt 5, layerAt 3] 1 n t ISI l).1[k]?
        = [layerAt 5, layerAt 3][k]?) :=
  ⟨twoLayers_oldest, oldest_layer_cache_is_right 10 1 [layerAt 5, layerAt 3] 1 twoLayers_oldest⟩

/-- The calls on the two layers of the witness of C38: a spike added to layer 1,
which is not empty, joins its queue and `OldestLayer` stays 1; after
`endSpikeManagement(1)` the spike added is the current spike of layer 1 and
`OldestLayer` is 0, the layer of the spike of 5 ms. -/
theorem oldest_layer_cache_run :
    (addNewSpike 10 [layerAt 5, layerAt 3] 1 0 ⟨7, 0⟩ 0 1).2 = 1 ∧
    (addNewSpike 10 [layerAt 5, layerAt 3] 1 0 ⟨7, 0⟩ 0 1).1.map
        (fun L => (L.Spike.Emission.Seconds, L.Queue.length, L.Empty))
      = [(5, 0, false), (3, 1, false)] ∧
    (endSpikeManagement 10 1 (addNewSpike 10 [layerAt 5, layerAt 3] 1 0 ⟨7, 0⟩ 0 1).1 1 1).2 = 0 ∧
    (endSpikeManagement 10 1 (addNewSpike 10 [layerAt 5, layerAt 3] 1 0 ⟨7, 0⟩ 0 1).1 1 1).1.map
        (fun L => (L.Spike.Emission.Seconds, L.Queue.length, L.Empty))
      = [(5, 0, false), (7, 0, false)] := by
  decide

/-! ## connectivity.c : the columns of the mask of the FIXEDNUM mode -/

/-- The column of the sparse case in terms of the values `fixNpre`. -/
theorem sparseColumn_eq {R : Type} [LinearOrderedField R] [FloorRing R] (Npre SynNum : Nat)
    (ed : Nat → R) (U : R) :
    sparseColumn Npre SynNum ed U
      = ((((List.range SynNum).map (fixNpre Npre SynNum ed U)).filter (fun x => 0 ≤ x))
          ++ (List.range (SynNum
                - (((List.range SynNum).map (fixNpre Npre SynNum ed U)).filter
                    (fun x => 0 ≤ x)).length)).map
              (fun s => (Npre : Int) + fixNpre Npre SynNum ed U s)).map toU32 := rfl

theorem fixSynExtraction_succ {R : Type} [LinearOrderedField R] (ed : Nat → R) (s : Nat) :
    fixSynExtraction ed (s + 1) = fixSynExtraction ed s + ed (s + 1) := by
  unfold fixSynExtraction
  rw [List.range_succ, List.map_append, List.sum_append]
  simp

theorem fixSynExtraction_lt {R : Type} [LinearOrderedField R] (ed : Nat → R)
    (hed : ∀ k, 0 < ed k) : ∀ s d : Nat, fixSynExtraction ed s < fixSynExtraction ed (s + d + 1) := by
  intro s d
  induction d with
  | zero =>
    rw [Nat.add_zero, fixSynExtraction_succ]
    linarith [hed (s + 1)]
  | succ d ih =>
    rw [show s + (d + 1) + 1 = (s + d + 1) + 1 by omega, fixSynExtraction_succ]
    linarith [hed (s + d + 1 + 1)]

theorem fixSynExtraction_pos {R : Type} [LinearOrderedField R] (ed : Nat → R)
    (hed : ∀ k, 0 < ed k) (s : Nat) : 0 < fixSynExtraction ed s := by
  have h0 : 0 < fixSynExtraction ed 0 := by
    unfold fixSynExtraction
    simp [List.range_succ, hed 0]
  cases s with
  | zero => exact h0
  | succ s =>
    have := fixSynExtraction_lt ed hed 0 s
    rw [show 0 + s + 1 = s + 1 by omega] at this
    linarith

/-- The values `npre` of the rows of a sparse column: they increase strictly with
`s`, the first one is at least `-Npre`, the last one is at most `Npre - 1`, and the
last one is less than the first one plus `Npre`. -/
theorem fixNpre_facts {R : Type} [LinearOrderedField R] [FloorRing R] (Npre SynNum : Nat)
    (ed : Nat → R) (U : R) (hS0 : 0 < SynNum) (hSN : SynNum < Npre) (hN : Npre < 4294967296)
    (hed : ∀ k, 0 < ed k) (hU0 : 0 ≤ U) (hU1 : U < 1) :
    (∀ s d : Nat, fixNpre Npre SynNum ed U s < fixNpre Npre SynNum ed U (s + d + 1)) ∧
      -(Npre : Int) ≤ fixNpre Npre SynNum ed U 0 ∧
      fixNpre Npre SynNum ed U (SynNum - 1) ≤ (Npre : Int) - 1 ∧
      fixNpre Npre SynNum ed U (SynNum - 1) < fixNpre Npre SynNum ed U 0 + (Npre : Int) := by
  obtain ⟨A, hA⟩ : ∃ A, A = fixSynExtraction ed (SynNum - 1) := ⟨_, rfl⟩
  have hApos : 0 < A := by rw [hA]; exact fixSynExtraction_pos ed hed _
  have hDnat : toU32 ((Npre : Int) - SynNum) = Npre - SynNum := by
    unfold toU32
    omega
  obtain ⟨D, hD⟩ : ∃ D : R, D = ((Npre - SynNum : Nat) : R) := ⟨_, rfl⟩
  have hDpos : 0 < D := by
    rw [hD]
    exact_mod_cast Nat.sub_pos_of_lt hSN
  have hND : (Npre : R) = D + (SynNum : R) := by
    rw [hD, Nat.cast_sub (le_of_lt hSN)]
    ring
  obtain ⟨dx, hdx⟩ : ∃ dx, dx = A / D := ⟨_, rfl⟩
  have hdxpos : 0 < dx := by rw [hdx]; exact div_pos hApos hDpos
  have hAdx : A / dx = D := by
    rw [hdx]
    field_simp
  have hy : ∀ s : Nat, fixNpre Npre SynNum ed U s
      = ⌊(s : R) - U * (Npre : R) + fixSynExtraction ed s / dx⌋ := by
    intro s
    unfold fixNpre
    rw [hDnat, ← hD, ← hA, ← hdx]
    congr 1
    have : (-U * (A + (SynNum : R) * dx) + fixSynExtraction ed s) / dx
        = -U * (A / dx + (SynNum : R)) + fixSynExtraction ed s / dx := by
      field_simp
      ring
    rw [this, hAdx, hND]
    ring
  refine ⟨?_, ?_, ?_, ?_⟩
  · intro s d
    rw [hy, hy]
    have hlt := fixSynExtraction_lt ed hed s d
    have hdiv : fixSynExtraction ed s / dx < fixSynExtraction ed (s + d + 1) / dx :=
      div_lt_div_of_pos_right hlt hdxpos
    have hcast : ((s + d + 1 : Nat) : R) = (s : R) + (d : R) + 1 := by push_cast; ring
    have hd0 : (0 : R) ≤ (d : R) := Nat.cast_nonneg d
    have h1 : (s : R) - U * (Npre : R) + fixSynExtraction ed s / dx + 1
        ≤ ((s + d + 1 : Nat) : R) - U * (Npre : R) + fixSynExtraction ed (s + d + 1) / dx := by
      rw [hcast]
      linarith
    have h2 := Int.floor_le_floor h1
    rw [Int.floor_add_one] at h2
    omega
  · rw [hy, Int.le_floor]
    have hN0 : (0 : R) < (Npre : R) := by exact_mod_cast (by omega : 0 < Npre)
    have hE0 : 0 < fixSynExtraction ed 0 / dx := div_pos (fixSynExtraction_pos ed hed 0) hdxpos
    have : U * (Npre : R) ≤ (Npre : R) := by nlinarith
    push_cast
    linarith
  · rw [hy, ← hA, hAdx]
    have hN0 : (0 : R) < (Npre : R) := by exact_mod_cast (by omega : 0 < Npre)
    have hc : ((SynNum - 1 : Nat) : R) = (SynNum : R) - 1 := by
      rw [Nat.cast_sub hS0]
      simp
    rw [hc]
    have hUN : 0 ≤ U * (Npre : R) := mul_nonneg hU0 hN0.le
    have : (SynNum : R) - 1 - U * (Npre : R) + D < (((Npre : Int) - 1 + 1 : Int) : R) := by
      push_cast
      linarith
    have := Int.floor_lt.mpr this
    omega
  · rw [hy, hy, ← hA, hAdx]
    have hc : ((SynNum - 1 : Nat) : R) = (SynNum : R) - 1 := by
      rw [Nat.cast_sub hS0]
      simp
    rw [hc]
    have hE0 : 0 < fixSynExtraction ed 0 / dx := div_pos (fixSynExtraction_pos ed hed 0) hdxpos
    have hfl := Int.lt_floor_add_one (((0 : Nat) : R) - U * (Npre : R) + fixSynExtraction ed 0 / dx)
    rw [Int.floor_lt]
    push_cast at hfl ⊢
    linarith

/-- A strictly increasing list of integers is its negative items followed by the
other ones. -/
theorem sorted_split_neg : ∀ P : List Int, P.Pairwise (fun a b => a < b) →
    P = P.filter (fun x => decide (x < 0)) ++ P.filter (fun x => decide (0 ≤ x)) := by
  intro P
  induction P with
  | nil => intro _; rfl
  | cons x P ih =>
    intro hP
    rw [List.pairwise_cons] at hP
    by_cases hx : x < 0
    · rw [List.filter_cons_of_pos (by simpa using hx),
        List.filter_cons_of_neg (by simpa using hx), List.cons_append, ← ih hP.2]
    · have hall : ∀ y ∈ P, ¬ y < 0 := fun y hy => by have := hP.1 y hy; omega
      have e1 : P.filter (fun x => decide (x < 0)) = [] := by
        rw [List.filter_eq_nil_iff]
        intro y hy
        simpa using hall y hy
      have e2 : P.filter (fun x => decide (0 ≤ x)) = P := by
        rw [List.filter_eq_self]
        intro y hy
        have := hall y hy
        simp only [decide_eq_true_eq]
        omega
      rw [List.filter_cons_of_neg (by simpa using hx), e1,
        List.filter_cons_of_pos (by simp only [decide_eq_true_eq]; omega), e2]
      rfl

/-- The column made of the non-negative items of a strictly increasing list `P`,
followed by the first items of `P`, each plus `N`, up to the length of `P`: when
the items of `P` lie in `[-N, N - 1]` and differ by less than `N`, the column has
the length of `P`, is strictly increasing and lies in `[0, N)`. -/
theorem wrapped_column_sorted (f : Nat → Int) (S : Nat) (N : Int)
    (hmono : ∀ s d : Nat, f s < f (s + d + 1))
    (hlo : 0 < S → -N ≤ f 0) (hhi : 0 < S → f (S - 1) ≤ N - 1)
    (hspan : 0 < S → f (S - 1) < f 0 + N) :
    ((((List.range S).map f).filter (fun x => decide (0 ≤ x)))
        ++ (List.range (S - (((List.range S).map f).filter (fun x => decide (0 ≤ x))).length)).map
            (fun s => N + f s)).length = S ∧
    ((((List.range S).map f).filter (fun x => decide (0 ≤ x)))
        ++ (List.range (S - (((List.range S).map f).filter (fun x => decide (0 ≤ x))).length)).map
            (fun s => N + f s)).Pairwise (fun a b => a < b) ∧
    ∀ z ∈ ((((List.range S).map f).filter (fun x => decide (0 ≤ x)))
        ++ (List.range (S - (((List.range S).map f).filter (fun x => decide (0 ≤ x))).length)).map
            (fun s => N + f s)), 0 ≤ z ∧ z < N := by
  obtain ⟨P, hPdef⟩ : ∃ P, P = (List.range S).map f := ⟨_, rfl⟩
  have hle : ∀ s t : Nat, s ≤ t → f s ≤ f t := by
    intro s t hst
    rcases Nat.eq_or_lt_of_le hst with h | h
    · rw [h]
    · obtain ⟨d, rfl⟩ : ∃ d, t = s + d + 1 := ⟨t - s - 1, by omega⟩
      exact le_of_lt (hmono s d)
  have hPsorted : P.Pairwise (fun a b => a < b) := by
    rw [hPdef, List.pairwise_map]
    apply List.Pairwise.imp _ (List.pairwise_lt_range S)
    intro a b hab
    obtain ⟨d, rfl⟩ : ∃ d, b = a + d + 1 := ⟨b - a - 1, by omega⟩
    exact hmono a d
  have hPlen : P.length = S := by rw [hPdef]; simp
  have hPmem : ∀ x ∈ P, 0 < S ∧ f 0 ≤ x ∧ x ≤ f (S - 1) := by
    intro x hx
    rw [hPdef] at hx
    obtain ⟨s, hs, rfl⟩ := List.mem_map.mp hx
    rw [List.mem_range] at hs
    exact ⟨by omega, hle 0 s (by omega), hle s (S - 1) (by omega)⟩
  obtain ⟨negs, hnegs⟩ : ∃ negs, negs = P.filter (fun x => decide (x < 0)) := ⟨_, rfl⟩
  obtain ⟨first, hfirst⟩ : ∃ first, first = P.filter (fun x => decide (0 ≤ x)) := ⟨_, rfl⟩
  have hsplit : P = negs ++ first := by
    rw [hnegs, hfirst]
    exact sorted_split_neg P hPsorted
  have hlens : negs.length + first.length = S := by
    rw [← hPlen, hsplit, List.length_append]
  have hk : S - first.length = negs.length := by omega
  have htake : (List.range negs.length).map f = negs := by
    have h1 : P.take negs.length = negs := by
      rw [hsplit, List.take_left']
      rfl
    have h2 : (List.range negs.length).map f = P.take negs.length := by
      rw [hPdef, ← List.map_take, List.take_range, Nat.min_eq_left (by omega)]
    exact h2.trans h1
  have hsecond : (List.range (S - first.length)).map (fun s => N + f s)
      = negs.map (fun y => N + y) := by
    rw [hk]
    have h3 : (List.range negs.length).map (fun s => N + f s)
        = ((List.range negs.length).map f).map (fun y => N + y) := by
      rw [List.map_map]
      rfl
    rw [h3, htake]
  rw [← hPdef, ← hfirst, hsecond]
  have hnegmem : ∀ y ∈ negs, y < 0 ∧ y ∈ P := by
    intro y hy
    rw [hnegs, List.mem_filter] at hy
    exact ⟨by simpa using hy.2, hy.1⟩
  have hfirstmem : ∀ x ∈ first, 0 ≤ x ∧ x ∈ P := by
    intro x hx
    rw [hfirst, List.mem_filter] at hx
    exact ⟨by simpa using hx.2, hx.1⟩
  refine ⟨by rw [List.length_append, List.length_map]; omega, ?_, ?_⟩
  · rw [List.pairwise_append]
    refine ⟨?_, ?_, ?_⟩
    · rw [hfirst]
      exact hPsorted.filter _
    · rw [List.pairwise_map]
      have : negs.Pairwise (fun a b => a < b) := by
        rw [hnegs]
        exact hPsorted.filter _
      exact this.imp (fun {a b} hab => by omega)
    · intro x hx z hz
      obtain ⟨y, hy, rfl⟩ := List.mem_map.mp hz
      obtain ⟨hS, hx0, hx1⟩ := hPmem x (hfirstmem x hx).2
      obtain ⟨_, hy0, hy1⟩ := hPmem y (hnegmem y hy).2
      have := hspan hS
      omega
  · intro z hz
    rcases List.mem_append.mp hz with hz | hz
    · obtain ⟨hS, hx0, hx1⟩ := hPmem z (hfirstmem z hz).2
      have := hhi hS
      exact ⟨(hfirstmem z hz).1, by omega⟩
    · obtain ⟨y, hy, rfl⟩ := List.mem_map.mp hz
      obtain ⟨hS, hy0, hy1⟩ := hPmem y (hnegmem y hy).2
      have := hlo hS
      have := (hnegmem y hy).1
      exact ⟨by omega, by omega⟩

/-- The column of the mask of one post-synaptic neuron in the sparse case, for
`0 < SynNum < Npre`, values of `ExpDev()` that are positive and a value of
`Random()` in `[0, 1)`: `SynNum` indices of pre-synaptic neurons, strictly
increasing and below `Npre`. -/
theorem sparseColumn_spec {R : Type} [LinearOrderedField R] [FloorRing R] (Npre SynNum : Nat)
    (ed : Nat → R) (U : R) (hS0 : 0 < SynNum) (hSN : SynNum < Npre) (hN : Npre < 4294967296)
    (hed : ∀ k, 0 < ed k) (hU0 : 0 ≤ U) (hU1 : U < 1) :
    (sparseColumn Npre SynNum ed U).length = SynNum ∧
      (sparseColumn Npre SynNum ed U).Pairwise (fun a b => a < b) ∧
      ∀ c ∈ sparseColumn Npre SynNum ed U, c < Npre := by
  obtain ⟨hmono, hlo, hhi, hspan⟩ := fixNpre_facts Npre SynNum ed U hS0 hSN hN hed hU0 hU1
  obtain ⟨h1, h2, h3⟩ := wrapped_column_sorted (fixNpre Npre SynNum ed U) SynNum (Npre : Int)
    hmono (fun _ => hlo) (fun _ => hhi) (fun _ => hspan)
  rw [sparseColumn_eq]
  refine ⟨by rw [List.length_map]; exact h1, ?_, ?_⟩
  · rw [List.pairwise_map]
    apply List.Pairwise.imp_of_mem _ h2
    intro a b ha hb hab
    have ha' := h3 a ha
    have hb' := h3 b hb
    unfold toU32
    omega
  · intro c hc
    obtain ⟨z, hz, rfl⟩ := List.mem_map.mp hc
    have hz' := h3 z hz
    unfold toU32
    omega

theorem sparseColumn_length {R : Type} [LinearOrderedField R] [FloorRing R] (Npre SynNum : Nat)
    (ed : Nat → R) (U : R) : (sparseColumn Npre SynNum ed U).length = SynNum := by
  rw [sparseColumn_eq, List.length_map, List.length_append, List.length_map, List.length_range]
  have : (((List.range SynNum).map (fixNpre Npre SynNum ed U)).filter (fun x => 0 ≤ x)).length
      ≤ SynNum := by
    have := List.length_filter_le (fun x => decide (0 ≤ x))
      ((List.range SynNum).map (fixNpre Npre SynNum ed U))
    simpa using this
  omega

theorem fixColumn_length {R : Type} [LinearOrderedField R] [FloorRing R] (Npre SynNum : Nat)
    (full : Bool) (ed rd : Nat → R) (j : Nat) :
    (fixColumn Npre SynNum full ed rd j).length = SynNum := by
  unfold fixColumn
  split_ifs
  · exact List.length_range _
  · exact sparseColumn_length _ _ _ _

theorem getD_mem_of_lt (l : List Nat) (s : Nat) (hs : s < l.length) : l.getD s 0 ∈ l := by
  rw [List.getD_eq_getElem?_getD, List.getElem?_eq_getElem hs]
  exact List.getElem_mem hs

theorem pairwise_getD_lt (l : List Nat) (h : l.Pairwise (fun a b => a < b)) (s t : Nat)
    (hst : s < t) (ht : t < l.length) : l.getD s 0 < l.getD t 0 := by
  have hs : s < l.length := by omega
  rw [List.getD_eq_getElem?_getD, List.getD_eq_getElem?_getD, List.getElem?_eq_getElem hs,
    List.getElem?_eq_getElem ht]
  exact List.pairwise_iff_getElem.mp h s t hs ht hst

/-- One iteration of the loop over the neurons of the post-synaptic population. -/
theorem fillColumns_succ {R : Type} [LinearOrderedField R] [FloorRing R] (Npre SynNum : Nat)
    (full : Bool) (m n : Nat) (Mask : Nat → Nat → Nat) (ed rd : Nat → R) :
    fillColumns Npre SynNum full (m + 1) n Mask ed rd
      = fillColumns Npre SynNum full m (toU32 ((n : Int) + 1))
          (writeColumn Mask n (fixColumn Npre SynNum full ed rd 0))
          (if full then ed else fun k => ed (k + SynNum))
          (if full then rd else fun k => rd (k + 1)) := by
  rw [fillColumns]
  unfold fixColumn
  cases full
  · simp
  · simp

/-- The loop over the neurons of the post-synaptic population leaves the columns
before `n` as they were. -/
theorem fillColumns_before {R : Type} [LinearOrderedField R] [FloorRing R] (Npre SynNum : Nat)
    (full : Bool) :
    ∀ (m n : Nat) (Mask : Nat → Nat → Nat) (ed rd : Nat → R), n + m ≤ 4294967296 →
      ∀ s c, c < n → (fillColumns Npre SynNum full m n Mask ed rd).1 s c = Mask s c := by
  intro m
  induction m with
  | zero => intro n Mask ed rd _ s c _; rfl
  | succ m ih =>
    intro n Mask ed rd hn s c hc
    rw [fillColumns_succ]
    cases m with
    | zero =>
      show writeColumn Mask n _ s c = Mask s c
      unfold writeColumn
      rw [if_neg (by omega)]
    | succ m =>
      have e : toU32 ((n : Int) + 1) = n + 1 := by unfold toU32; omega
      rw [e, ih (n + 1) _ _ _ (by omega) s c (by omega)]
      unfold writeColumn
      rw [if_neg (by omega)]

/-- The loop over the neurons of the post-synaptic population writes the column
`fixColumn` of each of them. -/
theorem fillColumns_column {R : Type} [LinearOrderedField R] [FloorRing R] (Npre SynNum : Nat)
    (full : Bool) :
    ∀ (m n : Nat) (Mask : Nat → Nat → Nat) (ed rd : Nat → R), n + m ≤ 4294967296 →
      ∀ j, j < m → ∀ s, s < SynNum →
        (fillColumns Npre SynNum full m n Mask ed rd).1 s (n + j)
          = (fixColumn Npre SynNum full ed rd j).getD s 0 := by
  intro m
  induction m with
  | zero => intro n Mask ed rd _ j hj; omega
  | succ m ih =>
    intro n Mask ed rd hn j hj s hs
    rw [fillColumns_succ]
    cases j with
    | zero =>
      have hw : writeColumn Mask n (fixColumn Npre SynNum full ed rd 0) s n
          = (fixColumn Npre SynNum full ed rd 0).getD s 0 := by
        unfold writeColumn
        rw [if_pos ⟨rfl, by rw [fixColumn_length]; exact hs⟩]
      cases m with
      | zero => exact hw
      | succ m =>
        have e : toU32 ((n : Int) + 1) = n + 1 := by unfold toU32; omega
        rw [e]
        show (fillColumns Npre SynNum full (m + 1) (n + 1) _ _ _).1 s n = _
        rw [fillColumns_before Npre SynNum full (m + 1) (n + 1) _ _ _ (by omega) s n (by omega)]
        exact hw
    | succ j =>
      have e : toU32 ((n : Int) + 1) = n + 1 := by unfold toU32; omega
      rw [e, show n + (j + 1) = (n + 1) + j by omega,
        ih (n + 1) _ _ _ (by omega) j (by omega) s hs]
      unfold fixColumn
      cases full
      · simp only [Bool.false_eq_true, if_false]
        have hf : (fun k => ed (k + j * SynNum + SynNum)) = fun k => ed (k + (j + 1) * SynNum) := by
          funext k
          congr 1
          rw [Nat.succ_mul]
          omega
        rw [hf]
      · simp only [if_true]

/-- Claim C39.  In the loop of `getEmptySynapses_FIX` that fills the columns of the
mask for the neurons `n`, ..., `n + m - 1` of a post-synaptic population, with
`Npre` pre-synaptic neurons: for a sparse entry, `0 < SynNum < Npre`, with values of
`ExpDev()` that are positive and values of `Random()` in `[0, 1)`, on exact reals,
the rows `0`, ..., `SynNum - 1` of the column of each neuron hold indices below
`Npre` that increase strictly with the row; for `SynNum = Npre` the row `s` of the
column holds `s`. -/
theorem mask_columns_strictly_increasing {R : Type} [LinearOrderedField R] [FloorRing R]
    (Npre SynNum m n : Nat) (Mask : Nat → Nat → Nat) (ed rd : Nat → R)
    (hN : Npre < 4294967296) (hn : n + m ≤ 4294967296)
    (hed : ∀ k, 0 < ed k) (hrd : ∀ k, 0 ≤ rd k ∧ rd k < 1) :
    (0 < SynNum → SynNum < Npre → ∀ j, j < m →
      (∀ s, s < SynNum → (fillColumns Npre SynNum false m n Mask ed rd).1 s (n + j) < Npre) ∧
      (∀ s t, s < t → t < SynNum →
        (fillColumns Npre SynNum false m n Mask ed rd).1 s (n + j)
          < (fillColumns Npre SynNum false m n Mask ed rd).1 t (n + j))) ∧
    (SynNum = Npre → ∀ j, j < m → ∀ s, s < SynNum →
      (fillColumns Npre SynNum true m n Mask ed rd).1 s (n + j) = s) := by
  constructor
  · intro hS0 hSN j hj
    have hcol := fillColumns_column Npre SynNum false m n Mask ed rd hn j hj
    obtain ⟨hlen, hsorted, hrange⟩ := sparseColumn_spec Npre SynNum
      (fun k => ed (k + j * SynNum)) (rd j) hS0 hSN hN (fun k => hed _) (hrd j).1 (hrd j).2
    have hfc : fixColumn Npre SynNum false ed rd j
        = sparseColumn Npre SynNum (fun k => ed (k + j * SynNum)) (rd j) := by
      unfold fixColumn
      simp
    constructor
    · intro s hs
      rw [hcol s hs, hfc]
      exact hrange _ (getD_mem_of_lt _ s (by rw [hlen]; exact hs))
    · intro s t hst ht
      rw [hcol s (by omega), hcol t ht, hfc]
      exact pairwise_getD_lt _ hsorted s t hst (by rw [hlen]; exact ht)
  · intro _ j hj s hs
    rw [fillColumns_column Npre SynNum true m n Mask ed rd hn j hj s hs]
    unfold fixColumn
    simp only [if_true]
    rw [List.getD_eq_getElem?_getD, List.getElem?_range hs]
    rfl

/-- Two post-synaptic neurons, 4 pre-synaptic neurons and `SynNum = 2`, with the
values 1 of `ExpDev()` and 1/2 of `Random()`. -/
theorem mask_columns_strictly_increasing_witness :
    (0 < 2 → 2 < 4 → ∀ j, j < 2 →
      (∀ s, s < 2 →
        (fillColumns 4 2 false 2 0 (fun _ _ => 0) (fun _ => (1 : ℚ)) (fun _ => 1 / 2)).1 s (0 + j)
          < 4) ∧
      (∀ s t, s < t → t < 2 →
        (fillColumns 4 2 false 2 0 (fun _ _ => 0) (fun _ => (1 : ℚ)) (fun _ => 1 / 2)).1 s (0 + j)
          < (fillColumns 4 2 false 2 0 (fun _ _ => 0) (fun _ => (1 : ℚ)) (fun _ => 1 / 2)).1 t
              (0 + j))) ∧
    (2 = 4 → ∀ j, j < 2 → ∀ s, s < 2 →
      (fillColumns 4 2 true 2 0 (fun _ _ => 0) (fun _ => (1 : ℚ)) (fun _ => 1 / 2)).1 s (0 + j)
        = s) :=
  mask_columns_strictly_increasing 4 2 2 0 (fun _ _ => 0) (fun _ => (1 : ℚ)) (fun _ => 1 / 2)
    (by decide) (by decide) (fun _ => one_pos) (fun _ => ⟨by norm_num, by norm_num⟩)

/-- The columns of the witness of C39: with `dx = 1` and `offset = -2` the values
`npre` are -1 and 1, so the column is 1, 3; and with `SynNum = Npre = 4` the column
is 0, 1, 2, 3. -/
theorem mask_columns_run :
    sparseColumn 4 2 (fun _ => (1 : ℚ)) (1 / 2) = [1, 3] ∧
    (List.range 2).map (fun s =>
      (fillColumns 4 2 false 2 0 (fun _ _ => 0) (fun _ => (1 : ℚ)) (fun _ => 1 / 2)).1 s 1)
      = [1, 3] ∧
    (List.range 4).map (fun s =>
      (fillColumns 4 4 true 1 0 (fun _ _ => 0) (fun _ => (1 : ℚ)) (fun _ => 1 / 2)).1 s 0)
      = [0, 1, 2, 3] := by
  refine ⟨?_, ?_, ?_⟩ <;> decide!

/-! ## delays.c and connectivity.c : the layer drawn for a synapse and the support buffers -/

/-- What `setDelayBounds` returns: the global variables, with
`DelayMax = DelayMin + (DelayNumber - 1) * DelayStep`, and the connectivity array
with its bounds discretised. -/
theorem setDelayBounds_some {R : Type} [LinearOrderedField R] [FloorRing R]
    (DelayNumber : Int) (cs : List (connectivity R)) (D : delay_globals R)
    (cs1 : List (connectivity R)) (h : setDelayBounds DelayNumber cs = some (D, cs1)) :
    D.DelayMax = D.DelayMin + ((DelayNumber - 1 : Int) : R) * D.DelayStep ∧
      cs1 = cs.map (fun c =>
        { c with DMax := discretizeDelay D c.DMax, DMin := discretizeDelay D c.DMin }) := by
  unfold setDelayBounds at h
  by_cases h0 : DelayNumber = 0
  · simp only [h0, if_true] at h
    exact Option.noConfusion h
  · simp only [if_neg h0] at h
    split_ifs at h with hz
    simp only [Option.some.injEq, Prod.mk.injEq] at h
    obtain ⟨hD, hcs⟩ := h
    have hL : ((DelayNumber : Int) : R) ≠ 0 := by exact_mod_cast h0
    refine ⟨?_, ?_⟩
    · rw [← hD]
      simp only
      push_cast
      field_simp
      ring
    · rw [← hcs, ← hD]

/-- The value `roundr2i` of a quotient between 0 and `L - 1` is a layer index. -/
theorem roundr2i_layer {R : Type} [LinearOrderedField R] [FloorRing R] (L : Int) (r : R)
    (h0 : 0 ≤ r) (h1 : r ≤ ((L - 1 : Int) : R)) : 0 ≤ roundr2i r ∧ roundr2i r < L := by
  have a := roundr2i_mono (((0 : Int) : R)) r (by simpa using h0)
  have b := roundr2i_mono r (((L - 1 : Int) : Int) : R) h1
  rw [roundr2i_intCast] at a b
  omega

/-- A point between two bounds of the grid of the delays, as a number of steps from
`DelayMin`, lies between 0 and `L - 1`. -/
theorem grid_point_range {R : Type} [LinearOrderedField R] (L k1 k2 : Int) (w step : R)
    (hs : 0 < step) (hk1 : 0 ≤ k1 ∧ k1 ≤ L - 1) (hk2 : 0 ≤ k2 ∧ k2 ≤ L - 1)
    (hw0 : 0 ≤ w) (hw1 : w ≤ 1) (Dmin x : R)
    (hx : x = (Dmin + (k1 : R) * step) + ((Dmin + (k2 : R) * step) - (Dmin + (k1 : R) * step)) * w) :
    0 ≤ (x - Dmin) / step ∧ (x - Dmin) / step ≤ ((L - 1 : Int) : R) := by
  have e : (x - Dmin) / step = (1 - w) * (k1 : R) + w * (k2 : R) := by
    rw [hx]
    field_simp
    ring
  rw [e]
  have a1 : (0 : R) ≤ (k1 : R) := by exact_mod_cast hk1.1
  have a2 : (0 : R) ≤ (k2 : R) := by exact_mod_cast hk2.1
  have b1 : (k1 : R) ≤ ((L - 1 : Int) : R) := by exact_mod_cast hk1.2
  have b2 : (k2 : R) ≤ ((L - 1 : Int) : R) := by exact_mod_cast hk2.2
  have hw' : 0 ≤ 1 - w := by linarith
  constructor
  · exact add_nonneg (mul_nonneg hw' a1) (mul_nonneg hw0 a2)
  · have h1 := mul_le_mul_of_nonneg_left b1 hw'
    have h2 := mul_le_mul_of_nonneg_left b2 hw0
    have : (1 - w) * ((L - 1 : Int) : R) + w * ((L - 1 : Int) : R) = ((L - 1 : Int) : R) := by ring
    linarith

/-- The first part of C40.  For every connectivity entry after `setDelayBounds` with
`DelayNumber >= 1` and `DelayStep > 0`, and every value `U` of `Random()` in
`[0, 1)`, on exact reals, `getRandomDelay_UNI` and `getRandomDelay_EXP` return a
layer index `l` with `0 <= l < DelayNumber`.  The function `log` is taken to
increase on `(TailNeglected, 1]` up to `log 1 <= 0`, as the logarithm does. -/
theorem random_delay_layer_in_range {R : Type} [LinearOrderedField R] [FloorRing R]
    (DelayNumber : Int) (cs : List (connectivity R)) (D : delay_globals R)
    (cs1 : List (connectivity R)) (hset : setDelayBounds DelayNumber cs = some (D, cs1))
    (hN : 1 ≤ DelayNumber) (hs : 0 < D.DelayStep) (c : connectivity R) (hc : c ∈ cs1)
    (U : R) (hU0 : 0 ≤ U) (hU1 : U < 1) (log : R → R)
    (hlog : ∀ v : R, TailNeglected < v → v ≤ 1 → log TailNeglected < log v ∧ log v ≤ 0) :
    (∃ l, getRandomDelay_UNI D c U = some l ∧ 0 ≤ l ∧ l < DelayNumber) ∧
    (∃ l, getRandomDelay_EXP log D c U = some l ∧ 0 ≤ l ∧ l < DelayNumber) := by
  obtain ⟨hD, hcs⟩ := setDelayBounds_some DelayNumber cs D cs1 hset
  rw [hcs] at hc
  obtain ⟨c0, _, rfl⟩ := List.mem_map.mp hc
  obtain ⟨k1, a1, a2, a3, _⟩ := discretizeDelay_grid D DelayNumber hN hs hD c0.DMin
  obtain ⟨k2, b1, b2, b3, _⟩ := discretizeDelay_grid D DelayNumber hN hs hD c0.DMax
  have hne : D.DelayStep ≠ 0 := ne_of_gt hs
  constructor
  · unfold getRandomDelay_UNI
    rw [if_neg hne]
    refine ⟨_, rfl, ?_⟩
    simp only
    rw [a3, b3]
    have := grid_point_range DelayNumber k1 k2 U D.DelayStep hs ⟨a1, a2⟩ ⟨b1, b2⟩ hU0 hU1.le
      D.DelayMin
      ((D.DelayMin + (k1 : R) * D.DelayStep)
        + ((D.DelayMin + (k2 : R) * D.DelayStep) - (D.DelayMin + (k1 : R) * D.DelayStep)) * U) rfl
    have e : U * (D.DelayMin + (k2 : R) * D.DelayStep - (D.DelayMin + (k1 : R) * D.DelayStep))
          + (D.DelayMin + (k1 : R) * D.DelayStep) - D.DelayMin
        = (D.DelayMin + (k1 : R) * D.DelayStep)
          + ((D.DelayMin + (k2 : R) * D.DelayStep) - (D.DelayMin + (k1 : R) * D.DelayStep)) * U
          - D.DelayMin := by ring
    rw [e]
    exact roundr2i_layer DelayNumber _ this.1 this.2
  · have hT : (TailNeglected : R) < 1 := by unfold TailNeglected; norm_num
    have hT0 : (0 : R) < 1 - TailNeglected := by linarith
    have hv1 : 1 - U * (1 - TailNeglected) ≤ (1 : R) := by
      have := mul_nonneg hU0 hT0.le
      linarith
    have hv0 : (TailNeglected : R) < 1 - U * (1 - TailNeglected) := by
      have : U * (1 - TailNeglected) < 1 * (1 - (TailNeglected : R)) :=
        mul_lt_mul_of_pos_right hU1 hT0
      linarith
    obtain ⟨hl1, hl2⟩ := hlog _ hv0 hv1
    have hlT : log (TailNeglected : R) < 0 := lt_of_lt_of_le hl1 hl2
    have hw0 : 0 ≤ log (1 - U * (1 - TailNeglected)) * (1 / log TailNeglected) := by
      rw [mul_one_div]
      exact div_nonneg_of_nonpos hl2 hlT.le
    have hw1 : log (1 - U * (1 - TailNeglected)) * (1 / log TailNeglected) ≤ 1 := by
      rw [mul_one_div, div_le_one_of_neg hlT]
      exact hl1.le
    unfold getRandomDelay_EXP
    rw [if_neg (by
      intro h
      rcases h with h | h
      · exact (ne_of_lt hlT) h
      · exact hne h)]
    refine ⟨_, rfl, ?_⟩
    simp only
    rw [a3, b3]
    have := grid_point_range DelayNumber k1 k2
      (log (1 - U * (1 - TailNeglected)) * (1 / log TailNeglected)) D.DelayStep hs ⟨a1, a2⟩
      ⟨b1, b2⟩ hw0 hw1 D.DelayMin
      ((D.DelayMin + (k1 : R) * D.DelayStep)
        + ((D.DelayMin + (k2 : R) * D.DelayStep) - (D.DelayMin + (k1 : R) * D.DelayStep))
          * (log (1 - U * (1 - TailNeglected)) * (1 / log TailNeglected))) rfl
    have e : D.DelayMin + (k1 : R) * D.DelayStep
          + (D.DelayMin + (k2 : R) * D.DelayStep - (D.DelayMin + (k1 : R) * D.DelayStep))
            * log (1 - U * (1 - TailNeglected)) * (1 / log TailNeglected) - D.DelayMin
        = (D.DelayMin + (k1 : R) * D.DelayStep)
          + ((D.DelayMin + (k2 : R) * D.DelayStep) - (D.DelayMin + (k1 : R) * D.DelayStep))
            * (log (1 - U * (1 - TailNeglected)) * (1 / log TailNeglected)) - D.DelayMin := by ring
    rw [e]
    exact roundr2i_layer DelayNumber _ this.1 this.2

/-- The logarithm of the real numbers increases on `(TailNeglected, 1]` up to
`log 1 = 0`. -/
theorem Real_log_increases :
    ∀ v : ℝ, TailNeglected < v → v ≤ 1 →
      Real.log TailNeglected < Real.log v ∧ Real.log v ≤ 0 := by
  intro v h0 h1
  have hT : (0 : ℝ) < TailNeglected := by unfold TailNeglected; norm_num
  exact ⟨Real.log_lt_log hT h0, Real.log_nonpos (le_of_lt (lt_trans hT h0)) h1⟩

/-- Four layers and delays between 1 and 3 ms: the layers drawn with `U = 1/2`. -/
theorem random_delay_layer_in_range_witness :
    ∃ D cs1, setDelayBounds (4 : Int) [delayEntry 1 3, delayEntry 2 2] = some (D, cs1) ∧
      ∀ c ∈ cs1,
        (∃ l, getRandomDelay_UNI D c (1 / 2) = some l ∧ 0 ≤ l ∧ l < 4) ∧
        (∃ l, getRandomDelay_EXP linearLog D c (1 / 2) = some l ∧ 0 ≤ l ∧ l < 4) := by
  obtain ⟨D, cs1, h1, h2, _⟩ := setDelayBounds_grid (4 : Int) [delayEntry 1 3, delayEntry 2 2]
    (1 : ℚ) 3 (by decide) (by norm_num) (by norm_num) (by norm_num)
    ⟨⟨delayEntry 1 3, by simp, rfl⟩, by norm_num [delayEntry]⟩
    ⟨⟨delayEntry 1 3, by simp, rfl⟩, by norm_num [delayEntry]⟩
  refine ⟨D, cs1, h1, ?_⟩
  intro c hc
  exact random_delay_layer_in_range (4 : Int) [delayEntry 1 3, delayEntry 2 2] D cs1 h1
    (by decide) (by rw [h2]; norm_num) c hc (1 / 2) (by norm_num) (by norm_num) linearLog
    (by
      intro v h0 h1
      unfold linearLog TailNeglected at *
      constructor <;> linarith)

/-- C40, the code at a failing input: RANDOM mode, one population of 2 neurons
connected to itself with probability `10⁻¹⁰`, one delay layer.  For the
pre-synaptic neuron 0 the skips drawn are 1, 1, `2 ^ 32 - 1` and 3: `Post` goes
from -1 to 0, to 1, back to 0 (the sum wraps at `2 ^ 32`) and to 3, where the loop
ends.  Each of the three values below 2 adds an entry to the support of layer 0:
the buffer `Support[0].DPost`, allocated for `NumNeurons = 2` bytes, receives 3
entries. -/
theorem support_buffer_receives_too_many :
    [2].sum = 2 ∧
    ((createSynapticMatrix (getEmptySynapses_RAN sparseConnectivity) sparseConnectivity [2] 6
        backDraws (fun _ => 0)).bind (fun SM => SM[0]?)).map
      (fun seg => ((seg 0).DPost, (seg 0).Exception, (seg 0).NumSynapses))
      = some ([1, 1, 0], [0], 3) := by
  decide

/-! ## connectivity.c : what `loadConnectivityDefinition` checks -/

theorem getD_set_two_zero {R : Type} [Zero R] (l : List R) (p : R) :
    (l.set 2 p).getD 0 0 = l.getD 0 0 ∧ (l.set 2 p).getD 1 0 = l.getD 1 0 ∧
      (l.set 2 p).drop 5 = l.drop 5 := by
  refine ⟨?_, ?_, ?_⟩
  · simp [List.getD_eq_getElem?_getD, List.getElem?_set]
  · simp [List.getD_eq_getElem?_getD, List.getElem?_set]
  · exact List.drop_set_of_lt _ _ (by omega)

/-- C30, amended: `loadConnectivityDefinition` returns 0 exactly for the rows with a
known synapse type, correct synapse parameters and post and pre population indices
(the truncations of the first two numbers) in `[0, NumPopulations)`, and 1 for every
other row, so for every row with an out-of-range index.  The connection probability
is not tested: the value returned does not depend on it, and an accepted row is
stored with the probability that it gives. -/
theorem loadConnectivityDefinition_accepts {R : Type} [LinearOrderedField R] [FloorRing R]
    (NumPopulations : Int) (RealParams : List R) (StringParams : List String) :
    ((loadConnectivityDefinition NumPopulations RealParams StringParams).1 = 0 ↔
      ∃ (s : String) (rest : List String), StringParams = s :: rest ∧ 0 ≤ getSynapseType s ∧
        parseSynapseParams (getSynapseType s) (RealParams.drop 5) = 0 ∧
        0 ≤ truncToInt (RealParams.getD 0 0) ∧
        truncToInt (RealParams.getD 0 0) < NumPopulations ∧
        0 ≤ truncToInt (RealParams.getD 1 0) ∧
        truncToInt (RealParams.getD 1 0) < NumPopulations) ∧
    ((loadConnectivityDefinition NumPopulations RealParams StringParams).1 = 0 ∨
      (loadConnectivityDefinition NumPopulations RealParams StringParams).1 = 1) ∧
    (¬ (0 ≤ truncToInt (RealParams.getD 0 0) ∧
        truncToInt (RealParams.getD 0 0) < NumPopulations ∧
        0 ≤ truncToInt (RealParams.getD 1 0) ∧
        truncToInt (RealParams.getD 1 0) < NumPopulations) →
      (loadConnectivityDefinition NumPopulations RealParams StringParams).1 = 1) ∧
    ((loadConnectivityDefinition NumPopulations RealParams StringParams).1 = 0 →
      (loadConnectivityDefinition NumPopulations RealParams StringParams).2.map
        (fun x => x.c.CProb) = some (RealParams.getD 2 0)) ∧
    (∀ p : R,
      (loadConnectivityDefinition NumPopulations (RealParams.set 2 p) StringParams).1
        = (loadConnectivityDefinition NumPopulations RealParams StringParams).1) := by
  have hset : ∀ p : R,
      (loadConnectivityDefinition NumPopulations (RealParams.set 2 p) StringParams).1
        = (loadConnectivityDefinition NumPopulations RealParams StringParams).1 := by
    intro p
    obtain ⟨e0, e1, e5⟩ := getD_set_two_zero RealParams p
    unfold loadConnectivityDefinition
    rw [e0, e1, e5]
    cases StringParams with
    | nil => rfl
    | cons s rest =>
      dsimp only
      by_cases h1 : getSynapseType s ≥ 0
      · rw [if_pos h1, if_pos h1]
        by_cases h2 : parseSynapseParams (getSynapseType s) (RealParams.drop 5) ≠ 0
        · rw [if_pos h2, if_pos h2]
        · rw [if_neg h2, if_neg h2]
          by_cases h3 : truncToInt (RealParams.getD 0 0) < 0
              ∨ truncToInt (RealParams.getD 0 0) ≥ NumPopulations
              ∨ truncToInt (RealParams.getD 1 0) < 0
              ∨ truncToInt (RealParams.getD 1 0) ≥ NumPopulations
          · rw [if_pos h3, if_pos h3]
          · rw [if_neg h3, if_neg h3]
      · rw [if_neg h1, if_neg h1]
  refine ⟨?_, ?_, ?_, ?_, hset⟩
  all_goals unfold loadConnectivityDefinition
  all_goals cases StringParams with
    | nil => simp
    | cons s rest =>
      dsimp only
      by_cases h1 : getSynapseType s ≥ 0
      · rw [if_pos h1]
        by_cases h2 : parseSynapseParams (getSynapseType s) (RealParams.drop 5) ≠ 0
        · rw [if_pos h2]; simp [h2]
        · rw [if_neg h2]
          by_cases h3 : truncToInt (RealParams.getD 0 0) < 0
              ∨ truncToInt (RealParams.getD 0 0) ≥ NumPopulations
              ∨ truncToInt (RealParams.getD 1 0) < 0
              ∨ truncToInt (RealParams.getD 1 0) ≥ NumPopulations
          · rw [if_pos h3]
            simp only [one_ne_zero, false_iff, false_or, false_implies, implies_true,
              not_exists, not_and, List.cons.injEq, not_lt]
            try (intro a b hab; obtain ⟨rfl, rfl⟩ := hab; intros; omega)
          · rw [if_neg h3]
            push_neg at h2 h3
            simp only [true_iff, true_or, implies_true, Option.map_some', true_implies]
            try exact ⟨s, rest, rfl, h1, h2, h3.1, h3.2.1, h3.2.2.1, h3.2.2.2⟩
            try (intro hn; exact absurd ⟨h3.1, h3.2.1, h3.2.2.1, h3.2.2.2⟩ hn)
      · rw [if_neg h1]
        simp only [one_ne_zero, false_iff, false_or, false_implies, implies_true,
          not_exists, not_and, List.cons.injEq]
        try (intro a b hab; obtain ⟨rfl, rfl⟩ := hab; intro h; exact absurd h h1)

/-- C30, an instance of the amended property: with one population, the row
`0 0 1/2 1 2 FIXED 1 0` is accepted and stored with the probability 1/2, and the
value returned is the same when the probability of the row is replaced by 7. -/
theorem loadConnectivityDefinition_accepts_witness :
    (loadConnectivityDefinition 1 [(0 : ℚ), 0, 1 / 2, 1, 2, 1, 0] ["FIXED"]).1 = 0 ∧
    (loadConnectivityDefinition 1 [(0 : ℚ), 0, 1 / 2, 1, 2, 1, 0] ["FIXED"]).2.map
      (fun x => x.c.CProb) = some (1 / 2) ∧
    (loadConnectivityDefinition 1 [(0 : ℚ), 0, 7, 1, 2, 1, 0] ["FIXED"]).1 = 0 :=
  have h := loadConnectivityDefinition_accepts 1 [(0 : ℚ), 0, 1 / 2, 1, 2, 1, 0] ["FIXED"]
  have h0 : (loadConnectivityDefinition 1 [(0 : ℚ), 0, 1 / 2, 1, 2, 1, 0] ["FIXED"]).1 = 0 :=
    h.1.mpr ⟨"FIXED", [], rfl, by decide!, by decide!, by decide!, by decide!, by decide!,
      by decide!⟩
  ⟨h0, h.2.2.2.1 h0, (h.2.2.2.2 7).trans h0⟩

end Perseus
